import Mathlib

/-!
# BusTub storage core: extendible hash index, LRU-K replacer, buffer pool manager and disk scheduler

A shallow embedding of

* `src/container/disk/hash/disk_extendible_hash_table.cpp`
  (`GetValue`, `Insert`, `SplitBucket`, `InsertToNewDirectory`, `InsertToNewBucket`,
  `UpdateDirectoryMapping`, `Remove`),
* `src/buffer/lru_k_replacer.cpp` (`Evict`, `RecordAccess`, `Remove`, `SetEvictable`, `Size`),
* `src/buffer/buffer_pool_manager.cpp` (the constructor, `NewPage`, `FetchPage`, `UnpinPage`,
  `FlushPage`, `FlushAllPages`, `DeletePage` and the private helpers they call), and
* `src/storage/disk/disk_scheduler.cpp` (the constructor, `Schedule`, `StartWorkerThread`,
  `WritePageToDisk`, `ReadPage`),

followed by the theorems that settle the contract claims about them.

Conventions of the embedding.

* A function that can run into undefined behaviour of the C++ program (an array index
  outside the array, a page that is not there, an iterator erased from the wrong list)
  returns `none` (hash index) or `Except.error LRUKError.undefined` (replacer) there. A call
  of the buffer pool returns `none` when it does not return normally: a replacer call
  inside it throws, or the behaviour is undefined.
* Recursion of the source that is not structurally bounded (`Insert` calling itself)
  takes a fuel argument; running out of fuel is `none`.
* The key comparator of the hash index is decidable equality of the key type; the hash
  function is a parameter `hash_fn_ : K → Nat` truncated to 32 bits by `Hash`.
-/

namespace bustub

/-! ## Page ids -/

/-- The sentinel page id, `INVALID_PAGE_ID = -1`. -/
def INVALID_PAGE_ID : Int := -1

/-- A C++ array read `a[i]`; `none` outside the array. -/
def arrGet {α : Type} (a : List α) (i : Nat) : Option α := a[i]?

/-- A C++ array write `a[i] = v`; `none` outside the array. -/
def arrSet {α : Type} (a : List α) (i : Nat) (v : α) : Option (List α) :=
  if i < a.length then some (a.set i v) else none

/-! ## Bucket page -/

/-- Modelled from the spec: the bucket page class `ExtendibleHTableBucketPage` is not among
the sources. Spec 4.5: packed `size, max_size, (K,V)[max_size]`; `array_` holds the occupied
slots `0 .. size-1` in slot order, so `size` is its length. -/
structure ExtendibleHTableBucketPage (K V : Type) where
  max_size_ : Nat
  array_ : List (K × V)
deriving DecidableEq, Repr

namespace ExtendibleHTableBucketPage
variable {K V : Type} [DecidableEq K]

/-- Modelled from the spec: `init(max_size)` zeros the slots and sets `size = 0`. -/
def Init (max_size : Nat) : ExtendibleHTableBucketPage K V :=
  { max_size_ := max_size, array_ := [] }

/-- Modelled from the spec: `size()`. -/
def Size (b : ExtendibleHTableBucketPage K V) : Nat := b.array_.length

/-- Modelled from the spec: `is_empty()`. -/
def IsEmpty (b : ExtendibleHTableBucketPage K V) : Bool := b.array_.length == 0

/-- Modelled from the spec: `is_full()`. -/
def IsFull (b : ExtendibleHTableBucketPage K V) : Bool := b.array_.length == b.max_size_

/-- Linear scan of a slot list for the first entry whose key compares equal. -/
def lookupIn : List (K × V) → K → Option V
  | [], _ => none
  | (k, v) :: rest, key => if k = key then some v else lookupIn rest key

/-- Modelled from the spec: `lookup(k, &out_v)` is a linear scan using the comparator;
the first match wins. -/
def Lookup (b : ExtendibleHTableBucketPage K V) (key : K) : Option V :=
  lookupIn b.array_ key

/-- Modelled from the spec: `insert(k, v)` appends iff `size < max_size` and the key is
absent. -/
def Insert (b : ExtendibleHTableBucketPage K V) (key : K) (value : V) :
    Bool × ExtendibleHTableBucketPage K V :=
  if decide (b.array_.length < b.max_size_) && (lookupIn b.array_ key).isNone then
    (true, { b with array_ := b.array_ ++ [(key, value)] })
  else (false, b)

/-- Slot list after removing the first entry with the key by overwriting it with the last
slot and dropping the last slot. -/
def removeSwap : List (K × V) → K → Option (List (K × V))
  | [], _ => none
  | (k, v) :: rest, key =>
    if k = key then
      match rest.getLast? with
      | none => some []
      | some last => some (last :: rest.dropLast)
    else (removeSwap rest key).map (fun r => (k, v) :: r)

/-- Modelled from the spec: `remove(k)` swaps-with-last and decrements `size`; the result
says whether something was removed. -/
def Remove (b : ExtendibleHTableBucketPage K V) (key : K) :
    Bool × ExtendibleHTableBucketPage K V :=
  match removeSwap b.array_ key with
  | some a => (true, { b with array_ := a })
  | none => (false, b)

/-- Modelled from the spec: `clear()` sets `size = 0`. -/
def Clear (b : ExtendibleHTableBucketPage K V) : ExtendibleHTableBucketPage K V :=
  { b with array_ := [] }

end ExtendibleHTableBucketPage

/-! ## Directory page -/

/-- Modelled from the spec: the directory page class `ExtendibleHTableDirectoryPage` is not
among the sources. Spec 3: `max_depth, global_depth, local_depths[1 << max_depth],
bucket_page_ids[1 << max_depth]`. -/
structure ExtendibleHTableDirectoryPage where
  max_depth_ : Nat
  global_depth_ : Nat
  local_depths_ : List Nat
  bucket_page_ids_ : List Int
deriving DecidableEq, Repr

namespace ExtendibleHTableDirectoryPage

/-- Modelled from the spec: a fresh directory has global depth 0, every local depth 0 and
every slot `INVALID_PAGE_ID` (entries are populated lazily). -/
def Init (max_depth : Nat) : ExtendibleHTableDirectoryPage :=
  { max_depth_ := max_depth, global_depth_ := 0,
    local_depths_ := List.replicate (1 <<< max_depth) 0,
    bucket_page_ids_ := List.replicate (1 <<< max_depth) INVALID_PAGE_ID }

/-- Modelled from the spec 4.6: `hash_to_bucket_index(h) = h & ((1 << global_depth) - 1)`. -/
def HashToBucketIndex (d : ExtendibleHTableDirectoryPage) (hash : Nat) : Nat :=
  hash &&& ((1 <<< d.global_depth_) - 1)

/-- Modelled from the spec: the getter of `bucket_page_ids[i]` of the missing directory page
class. -/
def GetBucketPageId (d : ExtendibleHTableDirectoryPage) (i : Nat) : Option Int :=
  arrGet d.bucket_page_ids_ i

/-- Modelled from the spec: the setter of `bucket_page_ids[i]` of the missing directory page
class. -/
def SetBucketPageId (d : ExtendibleHTableDirectoryPage) (i : Nat) (p : Int) :
    Option ExtendibleHTableDirectoryPage :=
  (arrSet d.bucket_page_ids_ i p).map (fun a => { d with bucket_page_ids_ := a })

/-- Modelled from the spec: the getter of `local_depths[i]` of the missing directory page
class. -/
def GetLocalDepth (d : ExtendibleHTableDirectoryPage) (i : Nat) : Option Nat :=
  arrGet d.local_depths_ i

/-- Modelled from the spec: the setter of `local_depths[i]` of the missing directory page
class. -/
def SetLocalDepth (d : ExtendibleHTableDirectoryPage) (i : Nat) (v : Nat) :
    Option ExtendibleHTableDirectoryPage :=
  (arrSet d.local_depths_ i v).map (fun a => { d with local_depths_ := a })

/-- Modelled from the spec: `local_depths[i]++` of the missing directory page class (spec
4.4 step 5, "increment `local_depth[bkt_idx]`"). -/
def IncrLocalDepth (d : ExtendibleHTableDirectoryPage) (i : Nat) :
    Option ExtendibleHTableDirectoryPage :=
  (d.GetLocalDepth i).bind (fun v => d.SetLocalDepth i (v + 1))

/-- Modelled from the spec: `local_depths[i]--` of the missing directory page class (spec
4.4 Remove step 3d, "decrement `local_depth[bkt_idx]`"). -/
def DecrLocalDepth (d : ExtendibleHTableDirectoryPage) (i : Nat) :
    Option ExtendibleHTableDirectoryPage :=
  (d.GetLocalDepth i).bind (fun v => d.SetLocalDepth i (v - 1))

/-- Modelled from the spec 4.6: `get_split_image_index(i) = i ^ (1 << (local_depth[i]-1))`,
the index itself when the local depth is 0 (spec 9, open question b). -/
def GetSplitImageIndex (d : ExtendibleHTableDirectoryPage) (i : Nat) : Option Nat :=
  (d.GetLocalDepth i).map (fun ld => if ld = 0 then i else i ^^^ (1 <<< (ld - 1)))

/-- Modelled from the spec 4.6: `get_local_depth_mask(i) = (1 << local_depth[i]) - 1`. -/
def GetLocalDepthMask (d : ExtendibleHTableDirectoryPage) (i : Nat) : Option Nat :=
  (d.GetLocalDepth i).map (fun ld => (1 <<< ld) - 1)

/-- Modelled from the spec: `global_depth++` of the missing directory page class. The
cloning of the lower half is done by the caller (`Insert`, lines 125-130). -/
def IncrGlobalDepth (d : ExtendibleHTableDirectoryPage) : ExtendibleHTableDirectoryPage :=
  { d with global_depth_ := d.global_depth_ + 1 }

/-- Modelled from the spec: `global_depth--` of the missing directory page class (spec 4.4
Remove step 4, "decrement `global_depth`"). -/
def DecrGlobalDepth (d : ExtendibleHTableDirectoryPage) : ExtendibleHTableDirectoryPage :=
  { d with global_depth_ := d.global_depth_ - 1 }

/-- Modelled from the spec 4.6:
`can_shrink() = ∀ i < 1 << global_depth. local_depth[i] < global_depth`. -/
def CanShrink (d : ExtendibleHTableDirectoryPage) : Bool :=
  (d.local_depths_.take (1 <<< d.global_depth_)).all (fun ld => decide (ld < d.global_depth_))

end ExtendibleHTableDirectoryPage

/-! ## Header page -/

/-- Modelled from the spec: the header page class `ExtendibleHTableHeaderPage` is not among
the sources. Spec 3: `max_depth, directory_page_ids[1 << max_depth]`, missing entries are
`INVALID_PAGE_ID`. -/
structure ExtendibleHTableHeaderPage where
  max_depth_ : Nat
  directory_page_ids_ : List Int
deriving DecidableEq, Repr

namespace ExtendibleHTableHeaderPage

/-- Modelled from the spec: a fresh header has every directory slot `INVALID_PAGE_ID`
("populated lazily", spec 3). -/
def Init (max_depth : Nat) : ExtendibleHTableHeaderPage :=
  { max_depth_ := max_depth,
    directory_page_ids_ := List.replicate (1 <<< max_depth) INVALID_PAGE_ID }

/-- Modelled from the spec 4.4: the directory index is the top `max_depth` bits of the
32-bit hash. -/
def HashToDirectoryIndex (h : ExtendibleHTableHeaderPage) (hash : Nat) : Nat :=
  hash >>> (32 - h.max_depth_)

/-- Modelled from the spec: the getter of `directory_page_ids[i]` of the missing header page
class. -/
def GetDirectoryPageId (h : ExtendibleHTableHeaderPage) (i : Nat) : Option Int :=
  arrGet h.directory_page_ids_ i

/-- Modelled from the spec: the setter of `directory_page_ids[i]` of the missing header page
class. -/
def SetDirectoryPageId (h : ExtendibleHTableHeaderPage) (i : Nat) (p : Int) :
    Option ExtendibleHTableHeaderPage :=
  (arrSet h.directory_page_ids_ i p).map (fun a => { h with directory_page_ids_ := a })

end ExtendibleHTableHeaderPage

/-! ## The pages behind the buffer pool, as the index sees them -/

/-- What a page holds. The C++ code reinterprets the page bytes; a page read at the wrong
type is outside the model. -/
inductive PageData (K V : Type) where
  | header (h : ExtendibleHTableHeaderPage)
  | directory (d : ExtendibleHTableDirectoryPage)
  | bucket (b : ExtendibleHTableBucketPage K V)
deriving DecidableEq, Repr

/-- The buffer pool as the index sees it when the pool keeps every page of the index
resident: a pool with a frame for every page, so that no `FetchPage` or `NewPage` fails,
no frame is evicted, and a page pointer stays valid after its guard is dropped.
`pages[i]` is the content of page id `i`. `BufferPoolManager::AllocatePage` returns
`next_page_id_++`, so the next page id is the length of the list. The index on
`BufferPoolManager` itself, with eviction, is `PooledHashTable`. -/
abbrev PageStore (K V : Type) := List (PageData K V)

namespace PageStore
variable {K V : Type}

/-- Embeds `NewPageGuarded(&id)` followed by the `Init` of the new page, on a pool with a free
frame: allocates the next page id and stores the initialised page under it. -/
def NewPage (s : PageStore K V) (p : PageData K V) : Int × PageStore K V :=
  ((s.length : Int), s ++ [p])

/-- Embeds `FetchPage(id)` on a pool that keeps every page resident: the page as it was last
written; `none` for `INVALID_PAGE_ID` or a page that was never allocated. -/
def Fetch (s : PageStore K V) (id : Int) : Option (PageData K V) :=
  if 0 ≤ id then s[id.toNat]? else none

/-- The effect of mutating a fetched page in place. -/
def Write (s : PageStore K V) (id : Int) (p : PageData K V) : PageStore K V :=
  if 0 ≤ id then s.set id.toNat p else s

/-- The fetched page viewed as a header page (`guard.As<ExtendibleHTableHeaderPage>()`). -/
def FetchHeader (s : PageStore K V) (id : Int) : Option ExtendibleHTableHeaderPage :=
  match s.Fetch id with
  | some (PageData.header h) => some h
  | _ => none

/-- The fetched page viewed as a directory page. -/
def FetchDirectory (s : PageStore K V) (id : Int) : Option ExtendibleHTableDirectoryPage :=
  match s.Fetch id with
  | some (PageData.directory d) => some d
  | _ => none

/-- The fetched page viewed as a bucket page. -/
def FetchBucket (s : PageStore K V) (id : Int) : Option (ExtendibleHTableBucketPage K V) :=
  match s.Fetch id with
  | some (PageData.bucket b) => some b
  | _ => none

/-- Embeds `BufferPoolManager::DeletePage(id)` as called from `Remove`: the caller still holds a
read guard on the page, so its pin count is positive and `DeletePage` returns `false`
without touching the pool (buffer_pool_manager.cpp lines 177-179). -/
def DeletePage (s : PageStore K V) (_id : Int) : PageStore K V := s

end PageStore

/-! ## DiskExtendibleHashTable -/

/-- The state of a `DiskExtendibleHashTable`: the construction parameters, the header page
id and the pages of its buffer pool. -/
structure DiskExtendibleHashTable (K V : Type) where
  header_max_depth_ : Nat
  directory_max_depth_ : Nat
  bucket_max_size_ : Nat
  header_page_id_ : Int
  bpm_ : PageStore K V
deriving DecidableEq, Repr

namespace DiskExtendibleHashTable
variable {K V : Type} [DecidableEq K]

/-- The constructor (lines 34-49): allocates the header page and initialises it. -/
def new (bpm : PageStore K V) (header_max_depth directory_max_depth bucket_max_size : Nat) :
    DiskExtendibleHashTable K V :=
  let r := PageStore.NewPage bpm (PageData.header (ExtendibleHTableHeaderPage.Init header_max_depth))
  { header_max_depth_ := header_max_depth, directory_max_depth_ := directory_max_depth,
    bucket_max_size_ := bucket_max_size, header_page_id_ := r.1, bpm_ := r.2 }

/-- Embeds `Hash(key)`: the hash function's value as a `uint32_t`. -/
def Hash (hash_fn_ : K → Nat) (key : K) : Nat := hash_fn_ key % 2 ^ 32

/-- Embeds `GetValue` (lines 55-84). `some (some v)`: returns true and appends `v` to the result
vector; `some none`: returns false and appends nothing. -/
def GetValue (hash_fn_ : K → Nat) (ht : DiskExtendibleHashTable K V) (key : K) :
    Option (Option V) :=
  (ht.bpm_.FetchHeader ht.header_page_id_).bind fun header_page =>
  let hash := Hash hash_fn_ key
  let directory_index := header_page.HashToDirectoryIndex hash
  (header_page.GetDirectoryPageId directory_index).bind fun directory_page_id =>
  if directory_page_id = INVALID_PAGE_ID then some none
  else
  (ht.bpm_.FetchDirectory directory_page_id).bind fun directory_page =>
  let bucket_index := directory_page.HashToBucketIndex hash
  (directory_page.GetBucketPageId bucket_index).bind fun bucket_page_id =>
  if bucket_page_id = INVALID_PAGE_ID then some none
  else
  (ht.bpm_.FetchBucket bucket_page_id).bind fun bucket_page =>
  some (bucket_page.Lookup key)

/-- Embeds `InsertToNewBucket` (lines 204-213). `directory_page_id` is the page the `directory`
pointer points into. -/
def InsertToNewBucket (ht : DiskExtendibleHashTable K V) (directory_page_id : Int)
    (directory : ExtendibleHTableDirectoryPage) (bucket_idx : Nat) (key : K) (value : V) :
    Option (Bool × DiskExtendibleHashTable K V) :=
  let r := PageStore.NewPage ht.bpm_
    (PageData.bucket (ExtendibleHTableBucketPage.Init ht.bucket_max_size_))
  let bucket_page_id := r.1
  (directory.SetBucketPageId bucket_idx bucket_page_id).bind fun directory1 =>
  let ins := (ExtendibleHTableBucketPage.Init ht.bucket_max_size_ :
    ExtendibleHTableBucketPage K V).Insert key value
  let bpm1 := r.2.Write directory_page_id (PageData.directory directory1)
  let bpm2 := bpm1.Write bucket_page_id (PageData.bucket ins.2)
  some (ins.1, { ht with bpm_ := bpm2 })

/-- Embeds `InsertToNewDirectory` (lines 191-201). -/
def InsertToNewDirectory (ht : DiskExtendibleHashTable K V)
    (header : ExtendibleHTableHeaderPage) (directory_idx : Nat) (hash : Nat)
    (key : K) (value : V) : Option (Bool × DiskExtendibleHashTable K V) :=
  let directory_page := ExtendibleHTableDirectoryPage.Init ht.directory_max_depth_
  let r := PageStore.NewPage ht.bpm_ (PageData.directory directory_page)
  let directory_page_id := r.1
  (header.SetDirectoryPageId directory_idx directory_page_id).bind fun header1 =>
  let bucket_idx := directory_page.HashToBucketIndex hash
  InsertToNewBucket
    { ht with bpm_ := r.2.Write ht.header_page_id_ (PageData.header header1) }
    directory_page_id directory_page bucket_idx key value

/-- The redistribution loop of `SplitBucket` (lines 178-186): each drained entry goes back
into the original bucket or into the split bucket, according to the page id the directory
gives for its hash; an entry whose page id is neither is not re-inserted. -/
def redistribute (hash_fn_ : K → Nat) (directory : ExtendibleHTableDirectoryPage)
    (bucket_page_id split_page_id : Int) :
    List (K × V) → ExtendibleHTableBucketPage K V → ExtendibleHTableBucketPage K V →
    Option (ExtendibleHTableBucketPage K V × ExtendibleHTableBucketPage K V)
  | [], bucket, split_bucket => some (bucket, split_bucket)
  | entry :: rest, bucket, split_bucket =>
    let target_idx := directory.HashToBucketIndex (Hash hash_fn_ entry.1)
    (directory.GetBucketPageId target_idx).bind fun target_page_id =>
    if target_page_id = bucket_page_id then
      redistribute hash_fn_ directory bucket_page_id split_page_id rest
        (bucket.Insert entry.1 entry.2).2 split_bucket
    else if target_page_id = split_page_id then
      redistribute hash_fn_ directory bucket_page_id split_page_id rest
        bucket (split_bucket.Insert entry.1 entry.2).2
    else
      redistribute hash_fn_ directory bucket_page_id split_page_id rest bucket split_bucket

/-- The result of `SplitBucket`: its return value and the three objects it mutates (the
directory, the bucket it was handed, and the pool, which now holds the split page). -/
structure SplitResult (K V : Type) where
  ok : Bool
  directory : ExtendibleHTableDirectoryPage
  bucket : ExtendibleHTableBucketPage K V
  bpm : PageStore K V

/-- Embeds `SplitBucket` (lines 143-188). -/
def SplitBucket (hash_fn_ : K → Nat) (ht : DiskExtendibleHashTable K V)
    (directory : ExtendibleHTableDirectoryPage) (bucket : ExtendibleHTableBucketPage K V)
    (bucket_idx : Nat) : Option (SplitResult K V) :=
  let r := PageStore.NewPage ht.bpm_
    (PageData.bucket (ExtendibleHTableBucketPage.Init ht.bucket_max_size_))
  let split_page_id := r.1
  if split_page_id = INVALID_PAGE_ID then
    some { ok := false, directory := directory, bucket := bucket, bpm := ht.bpm_ }
  else
  let split_bucket : ExtendibleHTableBucketPage K V :=
    ExtendibleHTableBucketPage.Init ht.bucket_max_size_
  (directory.GetSplitImageIndex bucket_idx).bind fun split_idx =>
  (directory.GetLocalDepth bucket_idx).bind fun local_depth =>
  if local_depth = bucket_idx then
    some { ok := false, directory := directory, bucket := bucket, bpm := r.2 }
  else
  (directory.SetBucketPageId split_idx split_page_id).bind fun directory1 =>
  (directory1.SetLocalDepth split_idx local_depth).bind fun directory2 =>
  (directory2.GetBucketPageId bucket_idx).bind fun bucket_page_id =>
  if bucket_page_id = INVALID_PAGE_ID then
    some { ok := false, directory := directory2, bucket := bucket, bpm := r.2 }
  else
  let entries := bucket.array_
  (redistribute hash_fn_ directory2 bucket_page_id split_page_id entries
    bucket.Clear split_bucket).bind fun res =>
  some { ok := true, directory := directory2, bucket := res.1,
         bpm := r.2.Write split_page_id (PageData.bucket res.2) }

/-- The directory-doubling loop of `Insert` (lines 125-130): slot `i` receives the page id
and local depth of slot `i - h`, for the indices `i` in the list. -/
def cloneLower (h : Nat) :
    List Nat → ExtendibleHTableDirectoryPage → Option ExtendibleHTableDirectoryPage
  | [], d => some d
  | i :: rest, d =>
    (d.GetBucketPageId (i - h)).bind fun new_bucket_page_id =>
    (d.GetLocalDepth (i - h)).bind fun new_local_depth =>
    (d.SetBucketPageId i new_bucket_page_id).bind fun d1 =>
    (d1.SetLocalDepth i new_local_depth).bind fun d2 =>
    cloneLower h rest d2

/-- Embeds `Insert` (lines 91-140); the recursive call of line 139 consumes one unit of fuel. -/
def Insert (hash_fn_ : K → Nat) :
    Nat → DiskExtendibleHashTable K V → K → V → Option (Bool × DiskExtendibleHashTable K V)
  | 0, _, _, _ => none
  | fuel + 1, ht, key, value =>
    (GetValue hash_fn_ ht key).bind fun values_found =>
    if values_found.isSome then some (false, ht)
    else
    let hash_key := Hash hash_fn_ key
    (ht.bpm_.FetchHeader ht.header_page_id_).bind fun header_page =>
    let directory_index := header_page.HashToDirectoryIndex hash_key
    (header_page.GetDirectoryPageId directory_index).bind fun directory_page_id =>
    if directory_page_id = INVALID_PAGE_ID then
      InsertToNewDirectory ht header_page directory_index hash_key key value
    else
    (ht.bpm_.FetchDirectory directory_page_id).bind fun directory_page =>
    let bucket_index := directory_page.HashToBucketIndex hash_key
    (directory_page.GetBucketPageId bucket_index).bind fun bucket_page_id =>
    if bucket_page_id = INVALID_PAGE_ID then
      InsertToNewBucket ht directory_page_id directory_page bucket_index key value
    else
    (ht.bpm_.FetchBucket bucket_page_id).bind fun bucket_page =>
    let ins := bucket_page.Insert key value
    if ins.1 then
      some (true, { ht with bpm_ := ht.bpm_.Write bucket_page_id (PageData.bucket ins.2) })
    else
    let h := 1 <<< directory_page.global_depth_
    (directory_page.GetLocalDepth bucket_index).bind fun local_depth =>
    if local_depth = directory_page.global_depth_ ∧
        directory_page.global_depth_ ≥ directory_page.max_depth_ then
      some (false, ht)
    else
    (if local_depth = directory_page.global_depth_ then
        cloneLower h ((List.range (1 <<< (directory_page.global_depth_ + 1))).drop h)
          directory_page.IncrGlobalDepth
      else some directory_page).bind fun directory1 =>
    (directory1.IncrLocalDepth bucket_index).bind fun directory2 =>
    (directory2.IncrLocalDepth (bucket_index + h)).bind fun directory3 =>
    (SplitBucket hash_fn_ ht directory3 bucket_page bucket_index).bind fun sp =>
    let bpm1 := sp.bpm.Write directory_page_id (PageData.directory sp.directory)
    let bpm2 := bpm1.Write bucket_page_id (PageData.bucket sp.bucket)
    let ht1 : DiskExtendibleHashTable K V := { ht with bpm_ := bpm2 }
    if sp.ok then Insert hash_fn_ fuel ht1 key value
    else some (false, ht1)

/-- Embeds `UpdateDirectoryMapping` (lines 216-233), the loop over the slot indices in the list. -/
def updateMappingLoop (new_bucket_idx : Nat) (new_bucket_page_id : Int)
    (new_local_depth local_depth_mask : Nat) :
    List Nat → ExtendibleHTableDirectoryPage → Option ExtendibleHTableDirectoryPage
  | [], d => some d
  | i :: rest, d =>
    (d.GetBucketPageId i).bind fun pi =>
    (d.GetBucketPageId new_bucket_idx).bind fun pn =>
    if pi = pn then
      if i &&& local_depth_mask ≠ 0 then
        (d.SetBucketPageId i new_bucket_page_id).bind fun d1 =>
        (d1.SetLocalDepth i new_local_depth).bind fun d2 =>
        updateMappingLoop new_bucket_idx new_bucket_page_id new_local_depth
          local_depth_mask rest d2
      else
        (d.SetLocalDepth i new_local_depth).bind fun d1 =>
        updateMappingLoop new_bucket_idx new_bucket_page_id new_local_depth
          local_depth_mask rest d1
    else
      updateMappingLoop new_bucket_idx new_bucket_page_id new_local_depth
        local_depth_mask rest d

/-- Embeds `UpdateDirectoryMapping` (lines 216-233). -/
def UpdateDirectoryMapping (directory : ExtendibleHTableDirectoryPage)
    (new_bucket_idx : Nat) (new_bucket_page_id : Int) (new_local_depth local_depth_mask : Nat) :
    Option ExtendibleHTableDirectoryPage :=
  updateMappingLoop new_bucket_idx new_bucket_page_id new_local_depth local_depth_mask
    (List.range (1 <<< directory.global_depth_)) directory

/-- The `for` loop of lines 292-295 over the values of `i` in the list. -/
def mergeUpdateLoop (check_page_id : Int) (local_depth mask_idx : Nat) :
    List Nat → ExtendibleHTableDirectoryPage → Option ExtendibleHTableDirectoryPage
  | [], d => some d
  | i :: rest, d =>
    let tmp_idx := (i <<< local_depth) + mask_idx
    (UpdateDirectoryMapping d tmp_idx check_page_id local_depth 0).bind fun d1 =>
    mergeUpdateLoop check_page_id local_depth mask_idx rest d1

/-- The merge loop of `Remove` (lines 268-296). The loop variable `local_depth` drops by
one in every iteration that does not break, so the loop runs at most `fuel =` initial
`local_depth` times. Returns the directory and the pool. -/
def mergeLoop (bucket_index global_depth : Nat) :
    Nat → Nat → Int → ExtendibleHTableDirectoryPage → PageStore K V →
    Option (ExtendibleHTableDirectoryPage × PageStore K V)
  | fuel, local_depth, check_page_id, directory_page, bpm =>
    if local_depth = 0 then some (directory_page, bpm)
    else
    match fuel with
    | 0 => none
    | fuel1 + 1 =>
    let convert_mask := 1 <<< (local_depth - 1)
    let merge_bucket_index := bucket_index ^^^ convert_mask
    (directory_page.GetLocalDepth merge_bucket_index).bind fun merge_local_depth =>
    (directory_page.GetBucketPageId merge_bucket_index).bind fun merge_page_id =>
    (bpm.FetchBucket merge_page_id).bind fun merge_page =>
    (bpm.FetchBucket check_page_id).bind fun check_page =>
    if merge_local_depth ≠ local_depth ∨ (!check_page.IsEmpty && !merge_page.IsEmpty) then
      some (directory_page, bpm)
    else
    let bpm1 := if check_page.IsEmpty then bpm.DeletePage check_page_id
                else bpm.DeletePage merge_page_id
    let check_page_id1 := if check_page.IsEmpty then merge_page_id else check_page_id
    (directory_page.DecrLocalDepth bucket_index).bind fun directory1 =>
    (directory1.GetLocalDepth bucket_index).bind fun local_depth1 =>
    (directory1.GetLocalDepthMask bucket_index).bind fun local_depth_mask =>
    let mask_idx := bucket_index &&& local_depth_mask
    if global_depth < local_depth1 then none
    else
    let update_count := 1 <<< (global_depth - local_depth1)
    (mergeUpdateLoop check_page_id1 local_depth1 mask_idx (List.range update_count)
      directory1).bind fun directory2 =>
    mergeLoop bucket_index global_depth fuel1 local_depth1 check_page_id1 directory2 bpm1

/-- The shrink loop of `Remove` (lines 297-299); every iteration lowers the global depth,
so `fuel =` the global depth suffices. -/
def shrinkLoop : Nat → ExtendibleHTableDirectoryPage → ExtendibleHTableDirectoryPage
  | 0, d => d
  | fuel + 1, d => if d.CanShrink then shrinkLoop fuel d.DecrGlobalDepth else d

/-- Embeds `Remove` (lines 239-301). -/
def Remove (hash_fn_ : K → Nat) (ht : DiskExtendibleHashTable K V) (key : K) :
    Option (Bool × DiskExtendibleHashTable K V) :=
  let hash := Hash hash_fn_ key
  (ht.bpm_.FetchHeader ht.header_page_id_).bind fun header_page =>
  let directory_index := header_page.HashToDirectoryIndex hash
  (header_page.GetDirectoryPageId directory_index).bind fun directory_page_id =>
  if directory_page_id = INVALID_PAGE_ID then some (false, ht)
  else
  (ht.bpm_.FetchDirectory directory_page_id).bind fun directory_page =>
  let bucket_index := directory_page.HashToBucketIndex hash
  (directory_page.GetBucketPageId bucket_index).bind fun bucket_page_id =>
  if bucket_page_id = INVALID_PAGE_ID then some (false, ht)
  else
  (ht.bpm_.FetchBucket bucket_page_id).bind fun bucket_page =>
  let rem := bucket_page.Remove key
  if !rem.1 then some (false, ht)
  else
  let bpm1 := ht.bpm_.Write bucket_page_id (PageData.bucket rem.2)
  (directory_page.GetLocalDepth bucket_index).bind fun local_depth =>
  let global_depth := directory_page.global_depth_
  (mergeLoop bucket_index global_depth local_depth local_depth bucket_page_id
    directory_page bpm1).bind fun m =>
  let directory1 := shrinkLoop m.1.global_depth_ m.1
  some (true, { ht with bpm_ := m.2.Write directory_page_id (PageData.directory directory1) })

/-- The two mutating calls a client can make on the index. -/
inductive HashOp (K V : Type) where
  | Insert (key : K) (value : V)
  | Remove (key : K)
deriving DecidableEq, Repr

/-- One client call with its return value. -/
def apply (hash_fn_ : K → Nat) (fuel : Nat) (ht : DiskExtendibleHashTable K V) :
    HashOp K V → Option (Bool × DiskExtendibleHashTable K V)
  | HashOp.Insert key value => Insert hash_fn_ fuel ht key value
  | HashOp.Remove key => Remove hash_fn_ ht key

/-- A sequence of client calls from the left: the return values in call order and the
final table. -/
def run (hash_fn_ : K → Nat) (fuel : Nat) :
    DiskExtendibleHashTable K V → List (HashOp K V) →
    Option (List Bool × DiskExtendibleHashTable K V)
  | ht, [] => some ([], ht)
  | ht, op :: rest =>
    (apply hash_fn_ fuel ht op).bind fun r =>
    (run hash_fn_ fuel r.2 rest).map fun rs => (r.1 :: rs.1, rs.2)

/-- The directory pages the header of the table refers to. -/
def directories (ht : DiskExtendibleHashTable K V) : List ExtendibleHTableDirectoryPage :=
  match ht.bpm_.FetchHeader ht.header_page_id_ with
  | none => []
  | some h => h.directory_page_ids_.filterMap (fun id => ht.bpm_.FetchDirectory id)

/-- The directory invariant of spec 8 (property 6) on one directory page: every active
local depth is at most the global depth, the global depth is at most the maximum depth,
and `can_shrink()` is false. -/
def directoryInvariant (d : ExtendibleHTableDirectoryPage) : Bool :=
  (d.local_depths_.take (1 <<< d.global_depth_)).all (fun ld => decide (ld ≤ d.global_depth_))
    && decide (d.global_depth_ ≤ d.max_depth_) && !d.CanShrink

/-- Bucket locality of spec 8 (property 7) at the active slot `i` of a directory: every key
stored in the bucket page the slot refers to agrees with `i` on the low `local_depth[i]`
bits of its hash. -/
def localAt (hash_fn_ : K → Nat) (ht : DiskExtendibleHashTable K V)
    (d : ExtendibleHTableDirectoryPage) (i : Nat) : Bool :=
  match d.GetLocalDepth i, d.GetBucketPageId i with
  | some ld, some p =>
    match ht.bpm_.FetchBucket p with
    | some b => b.array_.all (fun e =>
        Hash hash_fn_ e.1 &&& ((1 <<< ld) - 1) == i &&& ((1 <<< ld) - 1))
    | none => true
  | _, _ => true

/-- Bucket locality on every active slot of every directory of the table. -/
def bucketLocality (hash_fn_ : K → Nat) (ht : DiskExtendibleHashTable K V) : Bool :=
  (directories ht).all (fun d =>
    (List.range (1 <<< d.global_depth_)).all (fun i => localAt hash_fn_ ht d i))

end DiskExtendibleHashTable

/-- The identity hash function on natural-number keys. -/
def idHash : Nat → Nat := fun k => k

/-- An empty index over an empty pool: header depth 0, the given directory maximum depth
and bucket size. -/
def emptyTable (directory_max_depth bucket_max_size : Nat) : DiskExtendibleHashTable Nat Nat :=
  DiskExtendibleHashTable.new [] 0 directory_max_depth bucket_max_size

/-- The table that holds key 0 with value 100 and nothing else: header page 0, directory
page 1 (maximum depth 1, global depth 0), bucket page 2 (size 2). -/
def tableOne : DiskExtendibleHashTable Nat Nat :=
  { header_max_depth_ := 0, directory_max_depth_ := 1, bucket_max_size_ := 2,
    header_page_id_ := 0,
    bpm_ := [PageData.header { max_depth_ := 0, directory_page_ids_ := [1] },
             PageData.directory { max_depth_ := 1, global_depth_ := 0,
                                  local_depths_ := [0, 0], bucket_page_ids_ := [2, -1] },
             PageData.bucket { max_size_ := 2, array_ := [(0, 100)] }] }

/-! ## LRU-K replacer -/

/-- How a replacer call can fail to return normally: the two exceptions the code throws,
and undefined behaviour (erasing a list node through an iterator of the other list). -/
inductive LRUKError where
  | invalid_argument
  | logic_error
  | undefined
deriving DecidableEq, Repr

/-- Modelled from the spec: the per-frame entry type is declared in `lru_k_replacer.h`, which
is not among the sources. Spec 3: `hit_count, is_evictable, position in one of two lists`. A
default-constructed entry has hit count 0 and is not evictable. The iterator `pos_` always
designates the node that holds the frame id, so a node is named by its frame id here.
`hit_count_` is a 64-bit counter that cannot wrap in any run of feasible length; it is a
natural number here. -/
structure FrameEntry where
  hit_count_ : Nat
  is_evictable_ : Bool
deriving DecidableEq, Repr

/-- The state of an `LRUKReplacer`. `entries_` is the `unordered_map` from frame id to entry
as an association list with at most one pair per key in every state the code builds. Both
lists have their front at the head. -/
structure LRUKReplacer where
  replacer_size_ : Nat
  k_ : Nat
  curr_size_ : Nat
  entries_ : List (Int × FrameEntry)
  history_list_ : List Int
  lru_list_ : List Int
deriving DecidableEq, Repr

/-- Embeds `entries_.find(f)`: the entry of frame `f`, if there is one. -/
def mapFind : List (Int × FrameEntry) → Int → Option FrameEntry
  | [], _ => none
  | (g, e) :: rest, f => if g = f then some e else mapFind rest f

/-- Embeds `entries_[f] = e`: overwrites the entry of `f` in place, or adds one. -/
def mapPut : List (Int × FrameEntry) → Int → FrameEntry → List (Int × FrameEntry)
  | [], f, e => [(f, e)]
  | (g, x) :: rest, f, e => if g = f then (g, e) :: rest else (g, x) :: mapPut rest f e

/-- Embeds `entries_.erase(f)`. -/
def mapErase : List (Int × FrameEntry) → Int → List (Int × FrameEntry)
  | [], _ => []
  | (g, e) :: rest, f => if g = f then mapErase rest f else (g, e) :: mapErase rest f

/-- The entry `entries_[f]` reads: `operator[]` default-constructs a missing entry. -/
def entryOrDefault (m : List (Int × FrameEntry)) (f : Int) : FrameEntry :=
  (mapFind m f).getD { hit_count_ := 0, is_evictable_ := false }

/-- The map after `entries_[f]` has been evaluated. -/
def mapTouch (m : List (Int × FrameEntry)) (f : Int) : List (Int × FrameEntry) :=
  mapPut m f (entryOrDefault m f)

/-- Embeds `static_cast<int>(n)` of a `size_t`. -/
def static_cast_int (n : Nat) : Int :=
  if n % 2 ^ 32 < 2 ^ 31 then ((n % 2 ^ 32 : Nat) : Int) else ((n % 2 ^ 32 : Nat) : Int) - 2 ^ 32

/-- Embeds `--curr_size_` on a `size_t`: 0 wraps around to `2^64 - 1`. -/
def decrSize (c : Nat) : Nat := if c = 0 then 2 ^ 64 - 1 else c - 1

/-- Embeds `curr_size_++` on a `size_t`. -/
def incrSize (c : Nat) : Nat := (c + 1) % 2 ^ 64

namespace LRUKReplacer

/-- The constructor (line 18). -/
def new (num_frames k : Nat) : LRUKReplacer :=
  { replacer_size_ := num_frames, k_ := k, curr_size_ := 0, entries_ := [],
    history_list_ := [], lru_list_ := [] }

/-- One reverse scan of `Evict` (lines 29-36 and 40-47). The argument is the list from its
back to its front. The result is the frame found, the scanned list without the erased node
(still back to front), and `entries_` after the `entries_[*it]` reads. -/
def scanEvictable : List Int → List (Int × FrameEntry) →
    Option Int × List Int × List (Int × FrameEntry)
  | [], m => (none, [], m)
  | f :: rest, m =>
    if (entryOrDefault m f).is_evictable_ then (some f, rest, mapTouch m f)
    else
      let r := scanEvictable rest (mapTouch m f)
      (r.1, f :: r.2.1, r.2.2)

/-- Embeds `Evict` (lines 20-56): the frame written to `*frame_id` when the call returns true,
`none` when it returns false, and the state afterwards. -/
def Evict (r : LRUKReplacer) : Option Int × LRUKReplacer :=
  let s1 := scanEvictable r.history_list_.reverse r.entries_
  match s1.1 with
  | some f =>
    (some f, { r with history_list_ := s1.2.1.reverse, entries_ := mapErase s1.2.2 f,
                      curr_size_ := decrSize r.curr_size_ })
  | none =>
    let s2 := scanEvictable r.lru_list_.reverse s1.2.2
    match s2.1 with
    | some f =>
      (some f, { r with lru_list_ := s2.2.1.reverse, entries_ := mapErase s2.2.2 f,
                        curr_size_ := decrSize r.curr_size_ })
    | none => (none, { r with entries_ := s2.2.2 })

/-- Embeds `RecordAccess` (lines 58-90). -/
def RecordAccess (r : LRUKReplacer) (frame_id : Int) : Except LRUKError LRUKReplacer :=
  if frame_id > static_cast_int r.replacer_size_ then Except.error LRUKError.invalid_argument
  else
    let e := entryOrDefault r.entries_ frame_id
    let new_count := e.hit_count_ + 1
    let entries1 := mapPut r.entries_ frame_id { e with hit_count_ := new_count }
    if new_count = 1 then
      Except.ok { r with entries_ := entries1, history_list_ := frame_id :: r.history_list_ }
    else if new_count = r.k_ then
      if frame_id ∈ r.history_list_ then
        Except.ok { r with entries_ := entries1,
                           history_list_ := r.history_list_.erase frame_id,
                           lru_list_ := frame_id :: r.lru_list_ }
      else Except.error LRUKError.undefined
    else if new_count > r.k_ then
      if frame_id ∈ r.lru_list_ then
        Except.ok { r with entries_ := entries1,
                           lru_list_ := frame_id :: r.lru_list_.erase frame_id }
      else Except.error LRUKError.undefined
    else Except.ok { r with entries_ := entries1 }

/-- Embeds `Remove` (lines 92-113). -/
def Remove (r : LRUKReplacer) (frame_id : Int) : Except LRUKError LRUKReplacer :=
  if frame_id > static_cast_int r.replacer_size_ then Except.error LRUKError.invalid_argument
  else
    match mapFind r.entries_ frame_id with
    | none => Except.ok r
    | some e =>
      if !e.is_evictable_ then Except.error LRUKError.logic_error
      else if e.hit_count_ < r.k_ then
        if frame_id ∈ r.history_list_ then
          Except.ok { r with history_list_ := r.history_list_.erase frame_id,
                             curr_size_ := decrSize r.curr_size_,
                             entries_ := mapErase r.entries_ frame_id }
        else Except.error LRUKError.undefined
      else
        if frame_id ∈ r.lru_list_ then
          Except.ok { r with lru_list_ := r.lru_list_.erase frame_id,
                             curr_size_ := decrSize r.curr_size_,
                             entries_ := mapErase r.entries_ frame_id }
        else Except.error LRUKError.undefined

/-- Embeds `Size` (line 115). -/
def Size (r : LRUKReplacer) : Nat := r.curr_size_

/-- Embeds `SetEvictable` (lines 117-134). -/
def SetEvictable (r : LRUKReplacer) (frame_id : Int) (set_evictable : Bool) :
    Except LRUKError LRUKReplacer :=
  if frame_id > static_cast_int r.replacer_size_ then Except.error LRUKError.invalid_argument
  else
    match mapFind r.entries_ frame_id with
    | none => Except.ok r
    | some e =>
      let current_evictable := e.is_evictable_
      let curr_size1 :=
        if !current_evictable && set_evictable then incrSize r.curr_size_
        else if current_evictable && !set_evictable then decrSize r.curr_size_
        else r.curr_size_
      Except.ok { r with curr_size_ := curr_size1,
                         entries_ := mapPut r.entries_ frame_id
                           { e with is_evictable_ := set_evictable } }

/-- Whether frame `f` has an entry whose evictable flag is set. -/
def isEvictable (r : LRUKReplacer) (f : Int) : Bool :=
  match mapFind r.entries_ f with
  | some e => e.is_evictable_
  | none => false

/-- The hit count of frame `f`, 0 for a frame without an entry. -/
def hitCount (r : LRUKReplacer) (f : Int) : Nat :=
  match mapFind r.entries_ f with
  | some e => e.hit_count_
  | none => 0

end LRUKReplacer

/-- The calls a client can make on a replacer. -/
inductive ReplacerOp where
  | RecordAccess (frame_id : Int)
  | SetEvictable (frame_id : Int) (set_evictable : Bool)
  | Evict
  | Remove (frame_id : Int)
deriving DecidableEq, Repr

/-- A replacer together with a logical clock that counts the `RecordAccess` calls that
returned, and for every frame the clock value of the access that put it on the history
list (`entered`) and of its most recent access (`last`). The clock and the two time stamps
are specification state only; no replacer operation reads them. -/
structure TimedReplacer where
  r : LRUKReplacer
  clock : Nat
  entered : Int → Nat
  last : Int → Nat

namespace TimedReplacer

/-- A freshly constructed replacer at time 0. -/
def new (num_frames k : Nat) : TimedReplacer :=
  { r := LRUKReplacer.new num_frames k, clock := 0, entered := fun _ => 0, last := fun _ => 0 }

/-- One client call. An exception leaves the replacer as it was; after undefined behaviour
there is no state (`none`). -/
def step (t : TimedReplacer) : ReplacerOp → Option TimedReplacer
  | ReplacerOp.RecordAccess f =>
    match t.r.RecordAccess f with
    | Except.ok r1 =>
      some { r := r1, clock := t.clock + 1,
             entered := fun g =>
               if g = f ∧ (entryOrDefault t.r.entries_ f).hit_count_ + 1 = 1 then t.clock
               else t.entered g,
             last := fun g => if g = f then t.clock else t.last g }
    | Except.error LRUKError.undefined => none
    | Except.error _ => some t
  | ReplacerOp.SetEvictable f b =>
    match t.r.SetEvictable f b with
    | Except.ok r1 => some { t with r := r1 }
    | Except.error LRUKError.undefined => none
    | Except.error _ => some t
  | ReplacerOp.Evict => some { t with r := t.r.Evict.2 }
  | ReplacerOp.Remove f =>
    match t.r.Remove f with
    | Except.ok r1 => some { t with r := r1 }
    | Except.error LRUKError.undefined => none
    | Except.error _ => some t

/-- A sequence of client calls, from the left. -/
def run : TimedReplacer → List ReplacerOp → Option TimedReplacer
  | t, [] => some t
  | t, op :: rest => (t.step op).bind fun t1 => run t1 rest

/-- The bookkeeping of a replacer with `k ≥ 2`: every entry has been accessed at least once,
the history list holds exactly the frames with fewer than `k` accesses and the cached list
exactly the frames with at least `k`, the history list is ordered by the time its frames
entered it (latest at the front), the cached list by the time of the most recent access
(latest at the front), and all time stamps are in the past. -/
structure Inv (t : TimedReplacer) : Prop where
  k_ge : 2 ≤ t.r.k_
  count_pos : ∀ f e, mapFind t.r.entries_ f = some e → 1 ≤ e.hit_count_
  hist_iff : ∀ f, f ∈ t.r.history_list_ ↔
    ∃ e, mapFind t.r.entries_ f = some e ∧ e.hit_count_ < t.r.k_
  lru_iff : ∀ f, f ∈ t.r.lru_list_ ↔
    ∃ e, mapFind t.r.entries_ f = some e ∧ t.r.k_ ≤ e.hit_count_
  hist_sorted : t.r.history_list_.Pairwise (fun a b => t.entered b < t.entered a)
  lru_sorted : t.r.lru_list_.Pairwise (fun a b => t.last b < t.last a)
  hist_clock : ∀ f ∈ t.r.history_list_, t.entered f < t.clock
  lru_clock : ∀ f ∈ t.r.lru_list_, t.last f < t.clock

/-- The order in which `Evict` chooses (spec 4.2, tie-breaking): if some history-list frame
is evictable, the call returns the evictable history-list frame that entered the history
list before every other evictable history-list frame, and that frame has fewer than `k`
accesses; if none is but some cached-list frame is evictable, it returns the evictable
cached-list frame whose most recent access is before that of every other evictable
cached-list frame. -/
def EvictsOldest (t : TimedReplacer) : Prop :=
  ((∃ g ∈ t.r.history_list_, t.r.isEvictable g = true) →
    ∃ f, t.r.Evict.1 = some f ∧ f ∈ t.r.history_list_ ∧ t.r.isEvictable f = true ∧
      t.r.hitCount f < t.r.k_ ∧
      ∀ g ∈ t.r.history_list_, t.r.isEvictable g = true → g ≠ f →
        t.entered f < t.entered g) ∧
  ((¬ ∃ g ∈ t.r.history_list_, t.r.isEvictable g = true) →
    (∃ g ∈ t.r.lru_list_, t.r.isEvictable g = true) →
    ∃ f, t.r.Evict.1 = some f ∧ f ∈ t.r.lru_list_ ∧ t.r.isEvictable f = true ∧
      ∀ g ∈ t.r.lru_list_, t.r.isEvictable g = true → g ≠ f → t.last f < t.last g)

/-- The amended eviction rule for frames with at least `k` accesses: if every evictable
frame has at least `k` recorded accesses and some frame is evictable, `Evict` returns the
evictable frame whose most recent access is before that of every other evictable frame. -/
def EvictsLeastRecent (t : TimedReplacer) : Prop :=
  (∀ g, t.r.isEvictable g = true → t.r.k_ ≤ t.r.hitCount g) →
  (∃ g, t.r.isEvictable g = true) →
  ∃ f, t.r.Evict.1 = some f ∧ t.r.isEvictable f = true ∧
    ∀ g, t.r.isEvictable g = true → g ≠ f → t.last f < t.last g

end TimedReplacer

/-- The results of `n` successive calls of `Evict`. -/
def evictN : LRUKReplacer → Nat → List (Option Int)
  | _, 0 => []
  | r, n + 1 => r.Evict.1 :: evictN r.Evict.2 n

/-- The positions, in an access sequence, of the accesses to frame `f`, in increasing
order. -/
def accessPositions (accesses : List Int) (f : Int) : List Nat :=
  (List.range accesses.length).filter (fun i => accesses[i]? == some f)

/-- The position of the `k`-th most recent access to frame `f` in an access sequence. -/
def kthMostRecentAccess (accesses : List Int) (k : Nat) (f : Int) : Option Nat :=
  (accessPositions accesses f).reverse[k - 1]?

/-- The eviction rule of LRU-K proper, over an access sequence: the frame `Evict` returns has
its `k`-th most recent access no later than that of every evictable frame. -/
def EvictsOldestKthAccess (accesses : List Int) (k : Nat) (r : LRUKReplacer) : Prop :=
  ∀ f g a b, r.Evict.1 = some f → r.isEvictable g = true →
    kthMostRecentAccess accesses k f = some a → kthMostRecentAccess accesses k g = some b →
    a ≤ b

/-- The replacer (7 frames, `k = 2`) after the accesses 1, 1, 2, 2, 1 with frames 1 and 2
marked evictable. -/
def twoCachedState : LRUKReplacer :=
  { replacer_size_ := 7, k_ := 2, curr_size_ := 2,
    entries_ := [(1, { hit_count_ := 3, is_evictable_ := true }),
                 (2, { hit_count_ := 2, is_evictable_ := true })],
    history_list_ := [], lru_list_ := [1, 2] }

/-- The scenario S2 of the spec: accesses 1, 2, 3, 4, 5, 1, 2, then frames 1 to 5 marked
evictable. -/
def scenarioS2 : List ReplacerOp :=
  [ReplacerOp.RecordAccess 1, ReplacerOp.RecordAccess 2, ReplacerOp.RecordAccess 3,
   ReplacerOp.RecordAccess 4, ReplacerOp.RecordAccess 5, ReplacerOp.RecordAccess 1,
   ReplacerOp.RecordAccess 2, ReplacerOp.SetEvictable 1 true, ReplacerOp.SetEvictable 2 true,
   ReplacerOp.SetEvictable 3 true, ReplacerOp.SetEvictable 4 true,
   ReplacerOp.SetEvictable 5 true]

/-- Accesses 1, 1, 2, 2, 1, then frames 1 and 2 marked evictable. -/
def scenarioTwoCached : List ReplacerOp :=
  [ReplacerOp.RecordAccess 1, ReplacerOp.RecordAccess 1, ReplacerOp.RecordAccess 2,
   ReplacerOp.RecordAccess 2, ReplacerOp.RecordAccess 1, ReplacerOp.SetEvictable 1 true,
   ReplacerOp.SetEvictable 2 true]

/-- The number of entries whose evictable flag is set. -/
def countEvictable (m : List (Int × FrameEntry)) : Nat :=
  (m.filter (fun p => p.2.is_evictable_)).length

/-- The values of the 32-bit type `frame_id_t`. -/
def isInt32 (f : Int) : Prop := -(2 ^ 31) ≤ f ∧ f < 2 ^ 31

instance (f : Int) : Decidable (isInt32 f) := by unfold isInt32; infer_instance

/-- The frame id passed in a client call is a value of `frame_id_t`. -/
def ReplacerOp.frameInt32 : ReplacerOp → Prop
  | ReplacerOp.RecordAccess f => isInt32 f
  | ReplacerOp.SetEvictable f _ => isInt32 f
  | ReplacerOp.Evict => True
  | ReplacerOp.Remove f => isInt32 f

instance (op : ReplacerOp) : Decidable op.frameInt32 := by
  cases op <;> unfold ReplacerOp.frameInt32 <;> infer_instance

namespace LRUKReplacer

/-- The bookkeeping that holds for every `k`: the map has one entry per key, every key is a
`frame_id_t`, every entry has been accessed at least once, the two lists are duplicate free
and disjoint and hold exactly the frames with an entry, and `curr_size_` counts the entries
whose evictable flag is set. -/
structure WellFormed (r : LRUKReplacer) : Prop where
  keys_nodup : (r.entries_.map (fun p => p.1)).Nodup
  keys_int32 : ∀ f e, mapFind r.entries_ f = some e → isInt32 f
  count_pos : ∀ f e, mapFind r.entries_ f = some e → 1 ≤ e.hit_count_
  tracked_iff : ∀ f, (f ∈ r.history_list_ ∨ f ∈ r.lru_list_) ↔ ∃ e, mapFind r.entries_ f = some e
  hist_nodup : r.history_list_.Nodup
  lru_nodup : r.lru_list_.Nodup
  disjoint : ∀ f, f ∈ r.history_list_ → f ∉ r.lru_list_
  size_eq : r.curr_size_ = countEvictable r.entries_

end LRUKReplacer

namespace LRUKReplacer

/-- The number of tracked frames whose evictable flag is set. -/
def evictableFrames (r : LRUKReplacer) : Nat :=
  ((r.entries_.map (fun p => p.1)).filter (fun f => r.isEvictable f)).length

/-- What `SetEvictable(f, b)` does to a state in which it returns: nothing for a frame
without an entry; for a tracked frame the flag becomes `b`, and `Size()` goes up by one if
the flag goes from false to true, down by one if it goes from true to false, and stays if
the flag stays. -/
def SetEvictableEffect (r : LRUKReplacer) (f : Int) (b : Bool) (r1 : LRUKReplacer) : Prop :=
  (mapFind r.entries_ f = none → r1 = r) ∧
  ∀ e, mapFind r.entries_ f = some e →
    r1.isEvictable f = b ∧
    (e.is_evictable_ = false → b = true → r1.Size = r.Size + 1) ∧
    (e.is_evictable_ = true → b = false → r1.Size + 1 = r.Size) ∧
    (e.is_evictable_ = b → r1.Size = r.Size)

/-- The outcome of `Evict`: it returns a frame iff some tracked frame is evictable; when it
returns none the state is unchanged; the frame it returns was tracked and evictable, has
no entry afterwards (so no hit count) and is in neither list, `Size()` has gone down by
one, every other frame keeps its entry, and both lists keep their other elements in
order. -/
def EvictOutcome (r : LRUKReplacer) : Prop :=
  (r.Evict.1.isSome = true ↔ ∃ f, r.isEvictable f = true) ∧
  (r.Evict.1 = none → r.Evict.2 = r) ∧
  ∀ f, r.Evict.1 = some f →
    r.isEvictable f = true ∧
    mapFind r.Evict.2.entries_ f = none ∧
    f ∉ r.Evict.2.history_list_ ∧ f ∉ r.Evict.2.lru_list_ ∧
    r.Evict.2.Size + 1 = r.Size ∧
    (∀ g, g ≠ f → mapFind r.Evict.2.entries_ g = mapFind r.entries_ g) ∧
    r.Evict.2.history_list_ = r.history_list_.filter (fun g => g != f) ∧
    r.Evict.2.lru_list_ = r.lru_list_.filter (fun g => g != f)

end LRUKReplacer

namespace LRUKReplacer

/-- What the replacer holds about frame `f`: `none` for a frame without an entry, else the
evictable flag of its entry. -/
def status (r : LRUKReplacer) (f : Int) : Option Bool :=
  (mapFind r.entries_ f).map (fun e => e.is_evictable_)

end LRUKReplacer

namespace LRUKReplacer

/-- The bookkeeping of a replacer with `k ≥ 2` (`TimedReplacer.Inv`) holds for some
assignment of time stamps. -/
def Consistent (r : LRUKReplacer) : Prop := ∃ t : TimedReplacer, t.r = r ∧ t.Inv

end LRUKReplacer

/-! ## Buffer pool manager -/

/-- Embeds `find` on an `unordered_map` with integer keys, kept as an association list. -/
def assocFind {β : Type} : List (Int × β) → Int → Option β
  | [], _ => none
  | (k, v) :: rest, key => if k = key then some v else assocFind rest key

/-- Embeds `erase(key)` on an `unordered_map`. -/
def assocErase {β : Type} : List (Int × β) → Int → List (Int × β)
  | [], _ => []
  | (k, v) :: rest, key => if k = key then assocErase rest key else (k, v) :: assocErase rest key

/-- Embeds `emplace(key, v)` on an `unordered_map`: a key that is present keeps its value. -/
def assocEmplace {β : Type} (m : List (Int × β)) (key : Int) (v : β) : List (Int × β) :=
  match assocFind m key with
  | some _ => m
  | none => m ++ [(key, v)]

/-- A store under `key` that replaces what was there. -/
def assocPut {β : Type} : List (Int × β) → Int → β → List (Int × β)
  | [], key, v => [(key, v)]
  | (k, x) :: rest, key, v => if k = key then (k, v) :: rest else (k, x) :: assocPut rest key v

/-- Modelled from the spec: the class `Page` is declared in `storage/page/page.h`, which is
not among the sources. Spec 3: a fixed-size byte buffer plus the metadata `page_id`,
`pin_count`, `is_dirty` and a latch. The buffer is one value here, a natural number, and 0
is the zeroed buffer that `ResetMemory` leaves; the latch plays no part in the calls of the
pool. `pin_count_` is an `int`. -/
structure Page where
  page_id_ : Int
  pin_count_ : Int
  is_dirty_ : Bool
  data_ : Nat
deriving DecidableEq, Repr

/-- A request the pool hands to the disk scheduler: the direction, the page id and the
buffer content written or read. -/
structure DiskRequest where
  is_write_ : Bool
  page_id_ : Int
  data_ : Nat
deriving DecidableEq, Repr

/-- Modelled from the spec: the disk manager is external (spec 1, 6), a synchronous
`read_page` and `write_page` per page id. The disk is a map from page id to buffer content;
a page that was never written reads as the zeroed buffer. -/
def diskRead (disk : List (Int × Nat)) (page_id : Int) : Nat :=
  (assocFind disk page_id).getD 0

/-- The state of a `BufferPoolManager` together with the disk behind its scheduler. Every
call of the pool waits for the future of each request it schedules, so a request takes
effect on `disk_` at the point of the call; `disk_log_` lists the requests in the order
in which they were scheduled. `next_page_id_` is the counter of `AllocatePage`. -/
structure BufferPoolManager where
  pool_size_ : Nat
  pages_ : List Page
  page_table_ : List (Int × Int)
  free_list_ : List Int
  replacer_ : LRUKReplacer
  next_page_id_ : Int
  disk_ : List (Int × Nat)
  disk_log_ : List DiskRequest
deriving DecidableEq, Repr

/-- Embeds `pin_count_ += 1` on an `int`; signed overflow is undefined. -/
def incrPin (c : Int) : Option Int := if c + 1 < 2 ^ 31 then some (c + 1) else none

/-- Embeds `pin_count_ -= 1` on an `int`; signed overflow is undefined. -/
def decrPin (c : Int) : Option Int := if -(2 ^ 31) ≤ c - 1 then some (c - 1) else none

/-- The value an `std::atomic<page_id_t>` holds after an increment reached `x`: the 32-bit
counter wraps around. -/
def wrapInt32 (x : Int) : Int := if x < 2 ^ 31 then x else x - 2 ^ 32

/-- The element `pages + frame_id` of an array of pages; `none` outside the array. -/
def pageAt (pages : List Page) (frame_id : Int) : Option Page :=
  if 0 ≤ frame_id then pages[frame_id.toNat]? else none

namespace BufferPoolManager

/-- Modelled from the spec: a default-constructed `Page` is unoccupied (spec 3: page id
`INVALID_PAGE_ID`, no pin, clean, zeroed buffer). -/
def emptyPage : Page :=
  { page_id_ := INVALID_PAGE_ID, pin_count_ := 0, is_dirty_ := false, data_ := 0 }

/-- The constructor (lines 21-37) over a disk with the given content. Modelled from the
spec: the counter `next_page_id_` is declared in the header; page ids are handed out from 0
(spec 9, S1). -/
def new (pool_size replacer_k : Nat) (disk : List (Int × Nat)) : BufferPoolManager :=
  { pool_size_ := pool_size,
    pages_ := List.replicate pool_size emptyPage,
    page_table_ := [],
    free_list_ := (List.range pool_size).map static_cast_int,
    replacer_ := LRUKReplacer.new pool_size replacer_k,
    next_page_id_ := 0,
    disk_ := disk,
    disk_log_ := [] }

/-- The frame `pages_ + frame_id`; `none` outside the array. -/
def getPage (b : BufferPoolManager) (frame_id : Int) : Option Page :=
  pageAt b.pages_ frame_id

/-- A store into the frame `pages_ + frame_id`. -/
def setPage (b : BufferPoolManager) (frame_id : Int) (page : Page) : BufferPoolManager :=
  { b with pages_ := b.pages_.set frame_id.toNat page }

/-- Embeds `FreeListGetFrame` (lines 221-225); `back()` of an empty list is undefined. -/
def FreeListGetFrame (b : BufferPoolManager) : Option (Int × BufferPoolManager) :=
  match b.free_list_.getLast? with
  | none => none
  | some frame_id => some (frame_id, { b with free_list_ := b.free_list_.dropLast })

/-- Embeds `WritePageToDisk` (lines 226-232) for the page of frame `frame_id`. -/
def WritePageToDisk (b : BufferPoolManager) (frame_id : Int) : Option BufferPoolManager :=
  match b.getPage frame_id with
  | none => none
  | some page =>
    some { b with
      disk_ := assocPut b.disk_ page.page_id_ page.data_,
      disk_log_ := b.disk_log_ ++
        [{ is_write_ := true, page_id_ := page.page_id_, data_ := page.data_ }],
      pages_ := b.pages_.set frame_id.toNat { page with is_dirty_ := false } }

/-- Embeds `ReadPageFromDisk` (lines 241-246) for the page of frame `frame_id`. -/
def ReadPageFromDisk (b : BufferPoolManager) (frame_id : Int) : Option BufferPoolManager :=
  match b.getPage frame_id with
  | none => none
  | some page =>
    some { b with
      disk_log_ := b.disk_log_ ++
        [{ is_write_ := false, page_id_ := page.page_id_,
           data_ := diskRead b.disk_ page.page_id_ }],
      pages_ := b.pages_.set frame_id.toNat
        { page with data_ := diskRead b.disk_ page.page_id_ } }

/-- Embeds `UpdatePageTable` (lines 233-236). -/
def UpdatePageTable (b : BufferPoolManager) (old_page_id new_page_id frame_id : Int) :
    BufferPoolManager :=
  { b with page_table_ :=
      assocEmplace (assocErase b.page_table_ old_page_id) new_page_id frame_id }

/-- Embeds `UpdateReplacer` (lines 237-240); `none` when a replacer call throws or is
undefined. -/
def UpdateReplacer (b : BufferPoolManager) (frame_id : Int) : Option BufferPoolManager :=
  match b.replacer_.RecordAccess frame_id with
  | Except.error _ => none
  | Except.ok r1 =>
    match r1.SetEvictable frame_id false with
    | Except.error _ => none
    | Except.ok r2 => some { b with replacer_ := r2 }

/-- Embeds `AllocatePage` (line 194). -/
def AllocatePage (b : BufferPoolManager) : Int × BufferPoolManager :=
  (b.next_page_id_, { b with next_page_id_ := wrapInt32 (b.next_page_id_ + 1) })

/-- The frame both `NewPage` (lines 45-52) and `FetchPage` (lines 87-95) take: the back of
the free list if that is not empty, else the frame `Evict` returns; the inner `none` is the
`return nullptr`. -/
def acquireFrame (b : BufferPoolManager) : Option (Option Int × BufferPoolManager) :=
  if b.free_list_ ≠ [] then
    match b.FreeListGetFrame with
    | none => none
    | some (frame_id, b1) => some (some frame_id, b1)
  else
    match b.replacer_.Evict with
    | (none, r1) => some (none, { b with replacer_ := r1 })
    | (some frame_id, r1) => some (some frame_id, { b with replacer_ := r1 })

/-- Embeds `NewPage` (lines 41-67). The result is the page id written to `*page_id` and the
frame of the page returned, or `none` for `nullptr`; the outer `none` means that the
call does not return normally (a replacer call throws, or the behaviour is undefined). -/
def NewPage (b : BufferPoolManager) : Option (Option (Int × Int) × BufferPoolManager) :=
  match b.acquireFrame with
  | none => none
  | some (none, b1) => some (none, b1)
  | some (some frame_id, b1) =>
    match b1.getPage frame_id with
    | none => none
    | some page =>
      match (if b.free_list_ = [] ∧ page.is_dirty_ = true then b1.WritePageToDisk frame_id
             else some b1) with
      | none => none
      | some b2 =>
        match b2.getPage frame_id with
        | none => none
        | some page2 =>
          let b3 := b2.AllocatePage
          let b4 := b3.2.UpdatePageTable page2.page_id_ b3.1 frame_id
          let b5 := b4.setPage frame_id { page2 with page_id_ := b3.1, pin_count_ := 1, data_ := 0 }
          match b5.UpdateReplacer frame_id with
          | none => none
          | some b6 => some (some (b3.1, frame_id), b6)

/-- Embeds `FetchPage` (lines 69-107). The result is the frame of the page returned, or
`none` for `nullptr`. -/
def FetchPage (b : BufferPoolManager) (page_id : Int) :
    Option (Option Int × BufferPoolManager) :=
  if page_id = INVALID_PAGE_ID then some (none, b)
  else
    match assocFind b.page_table_ page_id with
    | some frame_id =>
      match b.UpdateReplacer frame_id with
      | none => none
      | some b1 =>
        match b1.getPage frame_id with
        | none => none
        | some page =>
          match incrPin page.pin_count_ with
          | none => none
          | some c => some (some frame_id, b1.setPage frame_id { page with pin_count_ := c })
    | none =>
      match b.acquireFrame with
      | none => none
      | some (none, b1) => some (none, b1)
      | some (some frame_id, b1) =>
        match b1.WritePageToDisk frame_id with
        | none => none
        | some b2 =>
          match b2.getPage frame_id with
          | none => none
          | some page =>
            let b3 := b2.UpdatePageTable page.page_id_ page_id frame_id
            let b4 := b3.setPage frame_id
              { page with page_id_ := page_id, pin_count_ := 1, data_ := 0 }
            match b4.UpdateReplacer frame_id with
            | none => none
            | some b5 =>
              match b5.ReadPageFromDisk frame_id with
              | none => none
              | some b6 => some (some frame_id, b6)

/-- Embeds `UnpinPage` (lines 109-135). -/
def UnpinPage (b : BufferPoolManager) (page_id : Int) (is_dirty : Bool) :
    Option (Bool × BufferPoolManager) :=
  if page_id = INVALID_PAGE_ID then some (false, b)
  else
    match assocFind b.page_table_ page_id with
    | none => some (false, b)
    | some frame_id =>
      match b.getPage frame_id with
      | none => none
      | some page =>
        let page1 : Page := if is_dirty then { page with is_dirty_ := is_dirty } else page
        let b1 := b.setPage frame_id page1
        if page1.pin_count_ = 0 then some (false, b1)
        else
          match decrPin page1.pin_count_ with
          | none => none
          | some c =>
            let b2 := b1.setPage frame_id { page1 with pin_count_ := c }
            if c = 0 then
              match b2.replacer_.SetEvictable frame_id true with
              | Except.error _ => none
              | Except.ok r1 => some (true, { b2 with replacer_ := r1 })
            else some (true, b2)

/-- Embeds `FlushPage` (lines 137-152). -/
def FlushPage (b : BufferPoolManager) (page_id : Int) : Option (Bool × BufferPoolManager) :=
  if page_id = INVALID_PAGE_ID then some (false, b)
  else
    match assocFind b.page_table_ page_id with
    | none => some (false, b)
    | some frame_id =>
      match b.WritePageToDisk frame_id with
      | none => none
      | some b1 =>
        match b1.getPage frame_id with
        | none => none
        | some page => some (true, b1.setPage frame_id { page with is_dirty_ := false })

/-- The loop of `FlushAllPages` (lines 156-163) over the frames still to visit. -/
def flushLoop : List Nat → BufferPoolManager → Option BufferPoolManager
  | [], b => some b
  | i :: rest, b =>
    match b.getPage (i : Int) with
    | none => none
    | some page =>
      if page.page_id_ = INVALID_PAGE_ID then flushLoop rest b
      else
        match b.WritePageToDisk (i : Int) with
        | none => none
        | some b1 =>
          match b1.getPage (i : Int) with
          | none => none
          | some page1 => flushLoop rest (b1.setPage (i : Int) { page1 with is_dirty_ := false })

/-- Embeds `FlushAllPages` (lines 154-164). -/
def FlushAllPages (b : BufferPoolManager) : Option BufferPoolManager :=
  flushLoop (List.range b.pool_size_) b

/-- Embeds `DeletePage` (lines 166-192). Modelled from the spec: `DeallocatePage` is declared
in the header and keeps no state (spec 4.3). -/
def DeletePage (b : BufferPoolManager) (page_id : Int) : Option (Bool × BufferPoolManager) :=
  if page_id = INVALID_PAGE_ID then some (true, b)
  else
    match assocFind b.page_table_ page_id with
    | none => some (true, b)
    | some frame_id =>
      match b.getPage frame_id with
      | none => none
      | some page =>
        if page.pin_count_ > 0 then some (false, b)
        else
          let b1 : BufferPoolManager :=
            { b with page_table_ := assocErase b.page_table_ page_id,
                     free_list_ := b.free_list_ ++ [frame_id] }
          match b1.replacer_.Remove frame_id with
          | Except.error _ => none
          | Except.ok r1 =>
            let b2 : BufferPoolManager := { b1 with replacer_ := r1 }
            some (true, b2.setPage frame_id emptyPage)

/-- A client stores `bytes` in the buffer of the page in frame `frame_id`, through the
`Page` pointer a call of the pool returned; there is no such pointer for a frame outside
the array. -/
def WriteData (b : BufferPoolManager) (frame_id : Int) (bytes : Nat) : BufferPoolManager :=
  match b.getPage frame_id with
  | none => b
  | some page => b.setPage frame_id { page with data_ := bytes }

end BufferPoolManager

/-- The calls a client can make on a pool, and a store into the buffer of a frame. -/
inductive PoolOp where
  | NewPage
  | FetchPage (page_id : Int)
  | UnpinPage (page_id : Int) (is_dirty : Bool)
  | FlushPage (page_id : Int)
  | FlushAllPages
  | DeletePage (page_id : Int)
  | WriteData (frame_id : Int) (bytes : Nat)
deriving DecidableEq, Repr

namespace BufferPoolManager

/-- One client call; `none` when the call does not return normally. -/
def step (b : BufferPoolManager) : PoolOp → Option BufferPoolManager
  | PoolOp.NewPage => (b.NewPage).map (fun x => x.2)
  | PoolOp.FetchPage p => (b.FetchPage p).map (fun x => x.2)
  | PoolOp.UnpinPage p d => (b.UnpinPage p d).map (fun x => x.2)
  | PoolOp.FlushPage p => (b.FlushPage p).map (fun x => x.2)
  | PoolOp.FlushAllPages => b.FlushAllPages
  | PoolOp.DeletePage p => (b.DeletePage p).map (fun x => x.2)
  | PoolOp.WriteData f bytes => some (b.WriteData f bytes)

/-- A sequence of client calls, from the left. -/
def run : BufferPoolManager → List PoolOp → Option BufferPoolManager
  | b, [] => some b
  | b, op :: rest => (b.step op).bind fun b1 => run b1 rest

end BufferPoolManager

namespace BufferPoolManager

/-- The bookkeeping of a pool whose replacer has `k ≥ 2`, after at most `n` calls. `x` is
the frame a call has taken from the free list or the replacer and not yet installed, if
any. The free list is duplicate free and holds unoccupied frames without a replacer entry;
every other frame of the array is occupied, has a pin count of at least 0 and is tracked
by the replacer as evictable iff its pin count is 0; the replacer tracks frames of the
array only; every page table entry leads to a frame that holds that page id; a frame whose
page id has not been handed out by `AllocatePage` yet is the one the page table gives for
it; pin counts and the page id counter are at most `n`. -/
structure Inv (n : Nat) (b : BufferPoolManager) (x : Option Int) : Prop where
  len : b.pages_.length = b.pool_size_
  small : b.pool_size_ < 2 ^ 31
  rsize : b.replacer_.replacer_size_ = b.pool_size_
  rinv : b.replacer_.Consistent
  free_nodup : b.free_list_.Nodup
  free_spec : ∀ f ∈ b.free_list_, b.replacer_.status f = none ∧
    ∃ page, b.getPage f = some page ∧ page.page_id_ = INVALID_PAGE_ID
  limbo : ∀ f, x = some f →
    (b.getPage f).isSome = true ∧ f ∉ b.free_list_ ∧ b.replacer_.status f = none
  occ : ∀ f page, b.getPage f = some page → f ∉ b.free_list_ → x ≠ some f →
    page.page_id_ ≠ INVALID_PAGE_ID ∧ 0 ≤ page.pin_count_ ∧
    b.replacer_.status f = some (decide (page.pin_count_ = 0))
  tracked : ∀ f, b.replacer_.status f ≠ none → (b.getPage f).isSome = true
  table : ∀ q g, assocFind b.page_table_ q = some g →
    ∃ page, b.getPage g = some page ∧ page.page_id_ = q
  fresh : ∀ g page, b.getPage g = some page → b.next_page_id_ ≤ page.page_id_ →
    assocFind b.page_table_ page.page_id_ = some g
  pin_le : ∀ f page, b.getPage f = some page → page.pin_count_ ≤ n
  next_ge : 0 ≤ b.next_page_id_
  next_le : b.next_page_id_ ≤ n

end BufferPoolManager

/-- The write requests of one `FlushAllPages` over an array of pages, in order: one for
every page whose id is not `INVALID_PAGE_ID`. -/
def flushWrites (pages : List Page) : List DiskRequest :=
  (pages.filter (fun pg => decide (pg.page_id_ ≠ INVALID_PAGE_ID))).map
    (fun pg => { is_write_ := true, page_id_ := pg.page_id_, data_ := pg.data_ })

/-- The array of pages after `FlushAllPages`: the dirty flag of every page whose id is not
`INVALID_PAGE_ID` is cleared. -/
def flushedPages (pages : List Page) : List Page :=
  pages.map (fun pg => if pg.page_id_ = INVALID_PAGE_ID then pg else { pg with is_dirty_ := false })

/-- The disk after a list of write requests was carried out in order. -/
def diskAfter (disk : List (Int × Nat)) (writes : List DiskRequest) : List (Int × Nat) :=
  writes.foldl (fun d r => assocPut d r.page_id_ r.data_) disk

namespace BufferPoolManager

/-- The free list is empty and the replacer has no evictable frame. -/
def NoFrameAvailable (b : BufferPoolManager) : Prop :=
  b.free_list_ = [] ∧ ∀ f, b.replacer_.isEvictable f = false

/-- Every frame of the array has a pin count above 0. -/
def AllPinned (b : BufferPoolManager) : Prop :=
  ∀ f page, b.getPage f = some page → 0 < page.pin_count_

/-- The pool after three `NewPage` calls on a fresh pool of three frames (scenario S1). -/
def scenarioS1 : List PoolOp := [PoolOp.NewPage, PoolOp.NewPage, PoolOp.NewPage]

end BufferPoolManager

namespace BufferPoolManager

/-- For every occupied frame, the pin count is 0 iff the replacer tracks the frame as
evictable. -/
def PinsMatchReplacer (b : BufferPoolManager) : Prop :=
  ∀ f page, b.getPage f = some page → page.page_id_ ≠ INVALID_PAGE_ID →
    (page.pin_count_ = 0 ↔ b.replacer_.isEvictable f = true)

/-- The frame `Evict` would return is a frame of the array with pin count 0. -/
def EvictsUnpinned (b : BufferPoolManager) : Prop :=
  ∀ f, b.replacer_.Evict.1 = some f → ∃ page, b.getPage f = some page ∧ page.pin_count_ = 0

/-- A `FetchPage(p)` that returns a frame: the frame holds `p` afterwards; if `p` was
resident it is the frame of `p` and its pin count has gone up by one, and if `p` was not
resident the page table now gives this frame for `p` and the pin count is 1. -/
def PinRaisedByFetch (b : BufferPoolManager) : Prop :=
  ∀ p f b1, b.FetchPage p = some (some f, b1) →
    ∃ page1, b1.getPage f = some page1 ∧ page1.page_id_ = p ∧
      ((∃ page, assocFind b.page_table_ p = some f ∧ b.getPage f = some page ∧
          page1.pin_count_ = page.pin_count_ + 1) ∨
       (assocFind b.page_table_ p = none ∧ assocFind b1.page_table_ p = some f ∧
          page1.pin_count_ = 1))

/-- A `NewPage` that returns page id `p` in frame `f`: the frame holds `p` with pin count 1
afterwards, and the page table gives this frame for `p` if `p` was not resident. -/
def PinRaisedByNew (b : BufferPoolManager) : Prop :=
  ∀ p f b1, b.NewPage = some (some (p, f), b1) →
    ∃ page1, b1.getPage f = some page1 ∧ page1.page_id_ = p ∧ page1.pin_count_ = 1 ∧
      (assocFind b.page_table_ p = none → assocFind b1.page_table_ p = some f)

/-- An `UnpinPage(p, d)` that returns true has lowered the pin count of the frame of `p` by
one. -/
def PinLoweredByUnpin (b : BufferPoolManager) : Prop :=
  ∀ p d b1, b.UnpinPage p d = some (true, b1) →
    ∃ f page page1, assocFind b.page_table_ p = some f ∧ b.getPage f = some page ∧
      b1.getPage f = some page1 ∧ page1.pin_count_ = page.pin_count_ - 1

/-- What `UnpinPage(p, d)` does. For `p` resident in frame `f`: with a pin count above 0 the
call returns true, lowers the pin count by one, sets the dirty flag to the old flag or `d`,
leaves the frame evictable iff the new pin count is 0, and changes nothing else; with pin
count 0 it returns false and changes nothing but the dirty flag, which becomes the old
flag or `d`. For `p` invalid or not resident it returns false and changes nothing. -/
def UnpinOutcome (b : BufferPoolManager) (p : Int) (d : Bool) : Prop :=
  (∀ f, p ≠ INVALID_PAGE_ID → assocFind b.page_table_ p = some f →
    ∃ page, b.getPage f = some page ∧ page.page_id_ = p ∧ 0 ≤ page.pin_count_ ∧
      (0 < page.pin_count_ →
        ∃ b1, b.UnpinPage p d = some (true, b1) ∧
          b1.getPage f = some { page with pin_count_ := page.pin_count_ - 1,
                                          is_dirty_ := (page.is_dirty_ || d) } ∧
          (b1.replacer_.isEvictable f = true ↔ page.pin_count_ - 1 = 0) ∧
          (∀ g, g ≠ f → b1.getPage g = b.getPage g ∧
            b1.replacer_.status g = b.replacer_.status g) ∧
          b1.page_table_ = b.page_table_ ∧ b1.free_list_ = b.free_list_ ∧
          b1.next_page_id_ = b.next_page_id_ ∧ b1.disk_ = b.disk_ ∧
          b1.disk_log_ = b.disk_log_) ∧
      (page.pin_count_ = 0 →
        b.UnpinPage p d =
          some (false, b.setPage f { page with is_dirty_ := (page.is_dirty_ || d) }) ∧
        ((d = false ∨ page.is_dirty_ = true) → b.UnpinPage p d = some (false, b)))) ∧
  ((p = INVALID_PAGE_ID ∨ assocFind b.page_table_ p = none) →
    b.UnpinPage p d = some (false, b))

/-- What `FlushPage(p)` does. For `p` resident in frame `f` the call returns true, the disk
holds the buffer of the frame under `p` afterwards and is unchanged elsewhere, the dirty
flag of the frame is cleared, and the other fields of the frame, the other frames, the page
table, the free list, the replacer and the page id counter are unchanged. For `p` invalid
or not resident it returns false and changes nothing, the disk included. -/
def FlushOutcome (b : BufferPoolManager) (p : Int) : Prop :=
  (∀ f, p ≠ INVALID_PAGE_ID → assocFind b.page_table_ p = some f →
    ∃ page b1, b.getPage f = some page ∧ page.page_id_ = p ∧
      b.FlushPage p = some (true, b1) ∧
      diskRead b1.disk_ p = page.data_ ∧
      (∀ q, q ≠ p → diskRead b1.disk_ q = diskRead b.disk_ q) ∧
      b1.getPage f = some { page with is_dirty_ := false } ∧
      (∀ g, g ≠ f → b1.getPage g = b.getPage g) ∧
      b1.page_table_ = b.page_table_ ∧ b1.free_list_ = b.free_list_ ∧
      b1.replacer_ = b.replacer_ ∧ b1.next_page_id_ = b.next_page_id_) ∧
  ((p = INVALID_PAGE_ID ∨ assocFind b.page_table_ p = none) →
    b.FlushPage p = some (false, b))

/-- The dirty flags across one call `op` that takes the pool from `b` to `b1`: a frame that
was dirty is still dirty, or the call has scheduled a write of its buffer under its page
id, or the call is `DeletePage` of its page, which leaves the frame unoccupied. -/
def DirtyKept (b : BufferPoolManager) (op : PoolOp) (b1 : BufferPoolManager) : Prop :=
  ∀ f page, b.getPage f = some page → page.is_dirty_ = true →
    ∃ page1, b1.getPage f = some page1 ∧
      (page1.is_dirty_ = true ∨
       (∃ added, b1.disk_log_ = b.disk_log_ ++ added ∧
          { is_write_ := true, page_id_ := page.page_id_, data_ := page.data_ } ∈ added) ∨
       (op = PoolOp.DeletePage page.page_id_ ∧ page1 = emptyPage))

/-- The dirty flags across a call that takes the pool from `b` to `b1`, as the claim has
it: a frame that was dirty is still dirty, or the call has scheduled a write of its buffer
under its page id. -/
def DirtyKeptOrWritten (b b1 : BufferPoolManager) : Prop :=
  ∀ f page, b.getPage f = some page → page.is_dirty_ = true →
    ∃ page1, b1.getPage f = some page1 ∧
      (page1.is_dirty_ = true ∨
       (∃ added, b1.disk_log_ = b.disk_log_ ++ added ∧
          { is_write_ := true, page_id_ := page.page_id_, data_ := page.data_ } ∈ added))

end BufferPoolManager

namespace BufferPoolManager

/-- The calls before the `DeletePage(0)` that discards a dirty page: a new page 0 in frame
2, the bytes 7 stored in its buffer, and `UnpinPage(0, true)`. -/
def scenarioDirtyDelete : List PoolOp :=
  [PoolOp.NewPage, PoolOp.WriteData 2 7, PoolOp.UnpinPage 0 true]

/-- The pool of three frames after `scenarioDirtyDelete`. -/
def dirtyDeleteBefore : BufferPoolManager :=
  ((BufferPoolManager.new 3 2 []).run scenarioDirtyDelete).getD (BufferPoolManager.new 0 0 [])

/-- The pool of three frames after `scenarioDirtyDelete` and `DeletePage(0)`. -/
def dirtyDeleteAfter : BufferPoolManager :=
  (dirtyDeleteBefore.step (PoolOp.DeletePage 0)).getD (BufferPoolManager.new 0 0 [])

/-- A new page 0, unpinned clean: the page is resident with pin count 0. -/
def scenarioUnpinned : List PoolOp := [PoolOp.NewPage, PoolOp.UnpinPage 0 false]

end BufferPoolManager

namespace BufferPoolManager

/-- Whether a call is one that the round trip of page `p` rules out: `DeletePage(p)`, or a
store into the buffer of a frame that holds `p`. -/
def touches (b : BufferPoolManager) (p : Int) : PoolOp → Bool
  | PoolOp.DeletePage q => decide (q = p)
  | PoolOp.WriteData f _ =>
    match b.getPage f with
    | some page => decide (page.page_id_ = p)
    | none => false
  | _ => false

/-- A sequence of client calls none of which deletes page `p` or stores into its buffer;
`none` if one does, or if a call does not return normally. -/
def runAvoiding (p : Int) : BufferPoolManager → List PoolOp → Option BufferPoolManager
  | b, [] => some b
  | b, op :: rest =>
    if b.touches p op then none else (b.step op).bind fun b1 => runAvoiding p b1 rest

/-- The content `bytes` of page `p` is safe: `p` has been handed out by `AllocatePage`; a
frame that holds `p` is the one the page table gives for `p`, its buffer is `bytes`, and it
is dirty or the disk holds `bytes` under `p`; and if `p` is not resident the disk holds
`bytes` under `p`. -/
structure Holds (b : BufferPoolManager) (p : Int) (bytes : Nat) : Prop where
  nonneg : 0 ≤ p
  next_gt : p < b.next_page_id_
  frames : ∀ g page, b.getPage g = some page → page.page_id_ = p →
    assocFind b.page_table_ p = some g ∧ page.data_ = bytes ∧
      (page.is_dirty_ = true ∨ diskRead b.disk_ p = bytes)
  absent : assocFind b.page_table_ p = none → diskRead b.disk_ p = bytes

/-- Frame `f` holds page `p` with pin count 1 and no page table entry leads to it: no call
can unpin, evict or free it. -/
structure Stuck (b : BufferPoolManager) (f p : Int) : Prop where
  page : ∃ pg, b.getPage f = some pg ∧ pg.page_id_ = p ∧ pg.pin_count_ = 1
  not_table : ∀ q, assocFind b.page_table_ q ≠ some f

/-- The calls of a round trip through a pool of one frame after page 0 was written and
unpinned: a new page takes the frame, and is unpinned. -/
def scenarioEvict : List PoolOp := [PoolOp.NewPage, PoolOp.UnpinPage 1 false]

/-- The pool of one frame after `NewPage`. -/
def roundTrip1 : BufferPoolManager :=
  ((BufferPoolManager.new 1 2 []).run [PoolOp.NewPage]).getD (BufferPoolManager.new 0 0 [])

/-- The pool of one frame after `NewPage`, the bytes 42 stored in the buffer of page 0, and
`UnpinPage(0, true)`. -/
def roundTrip3 : BufferPoolManager :=
  ((BufferPoolManager.new 1 2 []).run
    [PoolOp.NewPage, PoolOp.WriteData 0 42, PoolOp.UnpinPage 0 true]).getD
    (BufferPoolManager.new 0 0 [])

/-- The pool of one frame after page 0 was evicted by a new page 1, which was unpinned. -/
def roundTrip4 : BufferPoolManager :=
  (roundTrip3.run scenarioEvict).getD (BufferPoolManager.new 0 0 [])

end BufferPoolManager

namespace BufferPoolManager

/-- What `DeletePage(p)` does. For `p` resident in frame `f`: with a pin count above 0 the
call returns false and the pool is as before; with pin count 0 it returns true (the
`Remove` of the replacer does not throw) and afterwards `p` has no page table entry, frame
`f` is on the free list and holds the unoccupied page (page id `INVALID_PAGE_ID`, pin count
0, clean, zeroed buffer), the replacer has no entry for `f`, and the other frames, the
other page table entries, the other replacer entries, the page id counter and the disk are
unchanged. For `p` invalid or not resident it returns true and the pool is as before. -/
def DeleteOutcome (b : BufferPoolManager) (p : Int) : Prop :=
  (∀ f, p ≠ INVALID_PAGE_ID → assocFind b.page_table_ p = some f →
    ∃ page, b.getPage f = some page ∧ page.page_id_ = p ∧ 0 ≤ page.pin_count_ ∧
      (0 < page.pin_count_ → b.DeletePage p = some (false, b)) ∧
      (page.pin_count_ = 0 →
        ∃ b1, b.DeletePage p = some (true, b1) ∧
          assocFind b1.page_table_ p = none ∧
          f ∈ b1.free_list_ ∧
          b1.getPage f = some emptyPage ∧
          b1.replacer_.status f = none ∧
          (∀ g, g ≠ f → b1.getPage g = b.getPage g ∧
            b1.replacer_.status g = b.replacer_.status g) ∧
          (∀ q, q ≠ p → assocFind b1.page_table_ q = assocFind b.page_table_ q) ∧
          b1.free_list_ = b.free_list_ ++ [f] ∧
          b1.next_page_id_ = b.next_page_id_ ∧ b1.disk_ = b.disk_ ∧
          b1.disk_log_ = b.disk_log_)) ∧
  ((p = INVALID_PAGE_ID ∨ assocFind b.page_table_ p = none) →
    b.DeletePage p = some (true, b))

/-- A frame of the array has page id `INVALID_PAGE_ID` iff it is on the free list. -/
def InvalidIffFree (b : BufferPoolManager) : Prop :=
  ∀ f page, b.getPage f = some page → (page.page_id_ = INVALID_PAGE_ID ↔ f ∈ b.free_list_)

/-- Frame `f` is in the range of the page table. -/
def Occupied (b : BufferPoolManager) (f : Int) : Prop :=
  ∃ p, assocFind b.page_table_ p = some f

/-- The frames on the free list and the frames in the range of the page table partition
the frame ids `0 .. pool_size - 1`: a frame id is one of the array iff it is free or
occupied, and never both. -/
def FramePartition (b : BufferPoolManager) : Prop :=
  ∀ f : Int, ((0 ≤ f ∧ f < b.pool_size_) ↔ (f ∈ b.free_list_ ∨ b.Occupied f)) ∧
    ¬ (f ∈ b.free_list_ ∧ b.Occupied f)

/-- The page table is a bijection between the resident page ids and the frames that hold a
valid page id: it gives frame `f` for `p` iff frame `f` holds `p`, and no two frames hold
the same valid page id. -/
def TableBijection (b : BufferPoolManager) : Prop :=
  (∀ p f, p ≠ INVALID_PAGE_ID →
    (assocFind b.page_table_ p = some f ↔
      ∃ page, b.getPage f = some page ∧ page.page_id_ = p)) ∧
  (∀ f g pf pg, b.getPage f = some pf → b.getPage g = some pg →
    pf.page_id_ ≠ INVALID_PAGE_ID → pf.page_id_ = pg.page_id_ → f = g)

/-- Whether every `FetchPage` of a sequence of calls asks for a page id below the counter
of `AllocatePage` at the time of the call, that is, for a page id that `NewPage` has
handed out or a negative one. -/
def fetchesAllocated : BufferPoolManager → List PoolOp → Bool
  | _, [] => true
  | b, op :: rest =>
    (match op with
     | PoolOp.FetchPage p => decide (p < b.next_page_id_)
     | _ => true) &&
    (match b.step op with
     | some b1 => fetchesAllocated b1 rest
     | none => true)

/-- Every frame holds a page id below the counter of `AllocatePage`, a frame that holds a
valid page id is the one the page table gives for it, and `INVALID_PAGE_ID` is not a key of
the page table. -/
structure Tight (b : BufferPoolManager) : Prop where
  below : ∀ g page, b.getPage g = some page → page.page_id_ < b.next_page_id_
  owned : ∀ g page, b.getPage g = some page → page.page_id_ ≠ INVALID_PAGE_ID →
    assocFind b.page_table_ page.page_id_ = some g
  valid_keys : assocFind b.page_table_ INVALID_PAGE_ID = none

/-- A `FetchPage(0)` on a fresh pool, where page id 0 has not been handed out yet, followed
by `NewPage`, which hands out page id 0. -/
def scenarioDuplicate : List PoolOp := [PoolOp.FetchPage 0, PoolOp.NewPage]

/-- The pool of two frames after `scenarioDuplicate`. -/
def duplicateState : BufferPoolManager :=
  ((BufferPoolManager.new 2 2 []).run scenarioDuplicate).getD (BufferPoolManager.new 0 0 [])

/-- A new page 0 that is then fetched again: every `FetchPage` asks for a page id that
has been handed out. -/
def scenarioRefetch : List PoolOp :=
  [PoolOp.NewPage, PoolOp.UnpinPage 0 false, PoolOp.FetchPage 0]

end BufferPoolManager

/-! ## Disk scheduler -/

/-- Modelled from the spec: `struct DiskRequest` is declared in `disk_scheduler.h`, which is
not among the sources. Spec 3: `{is_write: bool, data: mutable byte-buffer reference,
page_id, completion: single-shot promise of bool}`. `data_` is the address of the buffer
the request points to. `callback_` is the state of the `std::promise<bool>`: `none` while
no value has been set, `some v` once `set_value(v)` was called; the promise is move-only
and travels with the request, so this state can only change through the request. -/
structure DiskScheduler.DiskRequest where
  is_write_ : Bool
  data_ : Int
  page_id_ : Int
  callback_ : Option Bool
deriving DecidableEq, Repr

/-- The state of a `DiskScheduler` together with what its worker acts on.
`request_queue_` is the channel of `std::optional<DiskRequest>` in FIFO order (modelled
from the spec: the channel class is not among the sources; spec 4.1, an unbounded blocking
channel); `disk_` holds the pages of the disk manager and `buffers_` the content of the
buffers that the `data_` pointers of requests refer to; `completed_` lists the requests
the worker has finished, in order, each with its promise as `set_value` left it. -/
structure DiskScheduler where
  request_queue_ : List (Option DiskScheduler.DiskRequest)
  disk_ : List (Int × Nat)
  buffers_ : List (Int × Nat)
  completed_ : List DiskScheduler.DiskRequest
deriving DecidableEq, Repr

/-- How the worker loop stops: it broke out at the end-of-stream sentinel; it waits in
`Get()` on an empty queue; or `set_value` on a promise that already holds a value threw
`std::future_error`, which nothing in the thread catches. -/
inductive WorkerStop where
  | exited
  | waiting
  | future_error
deriving DecidableEq, Repr

namespace DiskScheduler

/-- The content of the buffer at an address; a buffer nothing was stored in is zeroed. -/
def bufferRead (buffers : List (Int × Nat)) (data : Int) : Nat :=
  (assocFind buffers data).getD 0

/-- Modelled from the spec: `DiskManager::WritePage(page_id, data)` of the external disk
manager (spec 6) stores the content of the buffer under the page id. -/
def diskWritePage (s : DiskScheduler) (page_id data : Int) : DiskScheduler :=
  { s with disk_ := assocPut s.disk_ page_id (bufferRead s.buffers_ data) }

/-- Modelled from the spec: `DiskManager::ReadPage(page_id, data)` of the external disk
manager (spec 6) stores the content of the page in the buffer. -/
def diskReadPage (s : DiskScheduler) (page_id data : Int) : DiskScheduler :=
  { s with buffers_ := assocPut s.buffers_ data (diskRead s.disk_ page_id) }

/-- A scheduler with an empty queue over the given disk and buffers. -/
def new (disk buffers : List (Int × Nat)) : DiskScheduler :=
  { request_queue_ := [], disk_ := disk, buffers_ := buffers, completed_ := [] }

/-- Embeds `Schedule` (line 38): the request is put at the back of the queue. -/
def Schedule (s : DiskScheduler) (r : DiskScheduler.DiskRequest) : DiskScheduler :=
  { s with request_queue_ := s.request_queue_ ++ [some r] }

/-- The body of the destructor up to the `join` (lines 30-32): the sentinel `std::nullopt`
is put at the back of the queue. -/
def putSentinel (s : DiskScheduler) : DiskScheduler :=
  { s with request_queue_ := s.request_queue_ ++ [none] }

/-- Embeds `StartWorkerThread` (lines 40-55) on the queue content still to be received. -/
def workerLoop : List (Option DiskScheduler.DiskRequest) → DiskScheduler →
    WorkerStop × DiskScheduler
  | [], s => (WorkerStop.waiting, { s with request_queue_ := [] })
  | none :: rest, s => (WorkerStop.exited, { s with request_queue_ := rest })
  | some req :: rest, s =>
    let s1 := if req.is_write_ then s.diskWritePage req.page_id_ req.data_
              else s.diskReadPage req.page_id_ req.data_
    match req.callback_ with
    | some _ => (WorkerStop.future_error, { s1 with request_queue_ := rest })
    | none =>
      workerLoop rest
        { s1 with completed_ := s1.completed_ ++ [{ req with callback_ := some true }] }

/-- Embeds `StartWorkerThread` (lines 40-55), run on the requests that are in the queue. -/
def StartWorkerThread (s : DiskScheduler) : WorkerStop × DiskScheduler :=
  workerLoop s.request_queue_ s

/-- Embeds `WritePageToDisk` (lines 57-63) for the page with the given id and buffer address;
the promise of the request is default-constructed and holds no value. -/
def WritePageToDisk (s : DiskScheduler) (page_id data : Int) : DiskScheduler :=
  s.Schedule { is_write_ := true, page_id_ := page_id, data_ := data, callback_ := none }

/-- Embeds `ReadPage` (lines 64-72) for the page with the given id and buffer address; line
69 calls `set_value(true)` on the promise before the request is scheduled. -/
def ReadPage (s : DiskScheduler) (page_id data : Int) : DiskScheduler :=
  s.Schedule { is_write_ := false, data_ := data, page_id_ := page_id, callback_ := some true }

/-- The disk operation the claim asks for a request: `write_page` for a write, `read_page`
otherwise. -/
def diskOp (s : DiskScheduler) (r : DiskScheduler.DiskRequest) : DiskScheduler :=
  if r.is_write_ then s.diskWritePage r.page_id_ r.data_ else s.diskReadPage r.page_id_ r.data_

/-- What the worker does with a queue that holds the requests `reqs`, then the sentinel,
then `rest`: it stops at the sentinel and leaves `rest` in the queue; the disk and the
buffers are as after the disk operations of `reqs` in queue order; every request of `reqs`
has been completed, in queue order, with `true`; and a read that is the last request
observes the bytes of an earlier write of the same page if no write of that page lies
between them. -/
def WorkerOutcome (s : DiskScheduler) (reqs : List DiskScheduler.DiskRequest)
    (rest : List (Option DiskScheduler.DiskRequest)) : Prop :=
  s.StartWorkerThread.1 = WorkerStop.exited ∧
  s.StartWorkerThread.2.request_queue_ = rest ∧
  s.StartWorkerThread.2.disk_ = (reqs.foldl diskOp s).disk_ ∧
  s.StartWorkerThread.2.buffers_ = (reqs.foldl diskOp s).buffers_ ∧
  s.StartWorkerThread.2.completed_ =
    s.completed_ ++ reqs.map (fun r => { r with callback_ := some true }) ∧
  ∀ pre w mid r, reqs = pre ++ w :: (mid ++ [r]) →
    w.is_write_ = true → r.is_write_ = false → r.page_id_ = w.page_id_ →
    (∀ m ∈ mid, m.is_write_ = true → m.page_id_ ≠ w.page_id_) →
    bufferRead s.StartWorkerThread.2.buffers_ r.data_ =
      bufferRead (pre.foldl diskOp s).buffers_ w.data_

/-- A queue with a write of page 3 from the buffer at address 10, a read of page 3 into
the buffer at address 20, the sentinel, and one more request behind the sentinel. -/
def scenarioQueue : DiskScheduler :=
  { request_queue_ :=
      [some { is_write_ := true, data_ := 10, page_id_ := 3, callback_ := none },
       some { is_write_ := false, data_ := 20, page_id_ := 3, callback_ := none },
       none,
       some { is_write_ := true, data_ := 20, page_id_ := 4, callback_ := none }],
    disk_ := [], buffers_ := [(10, 42)], completed_ := [] }

end DiskScheduler

namespace DiskExtendibleHashTable
variable {K V : Type} [DecidableEq K]

/-- The `SplitBucket` call of line 134 as the outermost call of `Insert(key, value)` makes
it: the directory as lines 119-133 leave it, the bucket page, the bucket index and the page
id of the bucket. `none` if the call does not get to line 134. -/
def splitBucketArgs (hash_fn_ : K → Nat) (ht : DiskExtendibleHashTable K V) (key : K)
    (value : V) :
    Option (ExtendibleHTableDirectoryPage × ExtendibleHTableBucketPage K V × Nat × Int) :=
  (GetValue hash_fn_ ht key).bind fun values_found =>
  if values_found.isSome then none
  else
  let hash_key := Hash hash_fn_ key
  (ht.bpm_.FetchHeader ht.header_page_id_).bind fun header_page =>
  let directory_index := header_page.HashToDirectoryIndex hash_key
  (header_page.GetDirectoryPageId directory_index).bind fun directory_page_id =>
  if directory_page_id = INVALID_PAGE_ID then none
  else
  (ht.bpm_.FetchDirectory directory_page_id).bind fun directory_page =>
  let bucket_index := directory_page.HashToBucketIndex hash_key
  (directory_page.GetBucketPageId bucket_index).bind fun bucket_page_id =>
  if bucket_page_id = INVALID_PAGE_ID then none
  else
  (ht.bpm_.FetchBucket bucket_page_id).bind fun bucket_page =>
  if (bucket_page.Insert key value).1 then none
  else
  let h := 1 <<< directory_page.global_depth_
  (directory_page.GetLocalDepth bucket_index).bind fun local_depth =>
  if local_depth = directory_page.global_depth_ ∧
      directory_page.global_depth_ ≥ directory_page.max_depth_ then none
  else
  (if local_depth = directory_page.global_depth_ then
      cloneLower h ((List.range (1 <<< (directory_page.global_depth_ + 1))).drop h)
        directory_page.IncrGlobalDepth
    else some directory_page).bind fun directory1 =>
  (directory1.IncrLocalDepth bucket_index).bind fun directory2 =>
  (directory2.IncrLocalDepth (bucket_index + h)).bind fun directory3 =>
  some (directory3, bucket_page, bucket_index, bucket_page_id)

/-- The entries of all bucket pages of the pool, page by page. -/
def allEntries (ht : DiskExtendibleHashTable K V) : List (List (K × V)) :=
  ht.bpm_.filterMap fun pg =>
    match pg with
    | PageData.bucket b => some b.array_
    | _ => none

end DiskExtendibleHashTable

/-- The table with bucket size 1 and directory maximum depth 3 after `Insert(0)` and
`Insert(1)`: header page 0, directory page 1 with global depth 1, bucket page 2 with key 0
for slot 0 and bucket page 3 with key 1 for slot 1. -/
def tableTwo : DiskExtendibleHashTable Nat Nat :=
  ((DiskExtendibleHashTable.run idHash 8 (emptyTable 3 1)
      [DiskExtendibleHashTable.HashOp.Insert 0 100, DiskExtendibleHashTable.HashOp.Insert 1 101]).map (fun r => r.2)).getD (emptyTable 0 0)

/-- The table with bucket size 1 and directory maximum depth 6 after `Insert` of the keys 4,
0, 15, 17, 5 and 7, each with value `100 + key`. -/
def tableSix : DiskExtendibleHashTable Nat Nat :=
  ((DiskExtendibleHashTable.run idHash 8 (emptyTable 6 1)
      [DiskExtendibleHashTable.HashOp.Insert 4 104, DiskExtendibleHashTable.HashOp.Insert 0 100, DiskExtendibleHashTable.HashOp.Insert 15 115, DiskExtendibleHashTable.HashOp.Insert 17 117,
       DiskExtendibleHashTable.HashOp.Insert 5 105, DiskExtendibleHashTable.HashOp.Insert 7 107]).map (fun r => r.2)).getD (emptyTable 0 0)

/-- The table with bucket size 1 and directory maximum depth 3 after `Insert` of the keys
0, 2 and 1: global depth 2, and the slots 1 and 3 share a bucket of local depth 1. -/
def tableThree : DiskExtendibleHashTable Nat Nat :=
  ((DiskExtendibleHashTable.run idHash 8 (emptyTable 3 1)
      [DiskExtendibleHashTable.HashOp.Insert 0 100, DiskExtendibleHashTable.HashOp.Insert 2 102, DiskExtendibleHashTable.HashOp.Insert 1 101]).map
        (fun r => r.2)).getD (emptyTable 0 0)

namespace BufferPoolManager

/-- Embeds `FetchPageRead` (lines 201-207) as far as the pool is concerned: the page is fetched;
the latch taken on it plays no part in the calls of the pool. -/
def FetchPageRead (b : BufferPoolManager) (page_id : Int) :
    Option (Option Int × BufferPoolManager) :=
  b.FetchPage page_id

/-- Modelled from the spec: the page guard classes are not among the sources. Spec 4.3:
dropping a guard releases the latch and then calls `unpin(page_id, is_dirty)` with the
dirty flag of the guard. -/
def dropGuard (b : BufferPoolManager) (page_id : Int) (is_dirty : Bool) :
    Option BufferPoolManager :=
  (b.UnpinPage page_id is_dirty).map (fun x => x.2)

/-- The calls that one iteration of the merge loop of `DiskExtendibleHashTable::Remove`
makes on the pool (lines 274-286 of the hash table, an iteration that does not break),
entered while `check_guard` pins `check_page_id`. Line 274 fetches the merge page. If the
check page is empty, line 280 deletes it and line 283 moves the merge guard into
`check_guard`, which drops the guard of the old check page; else line 285 deletes the
merge page, and the merge guard is dropped at the end of the iteration. The result is the
value `DeletePage` returned, the page id it was called for, and the pool after the
iteration. A fetch that returns no page leaves the guard without a page to read. -/
def mergeStepCalls (b : BufferPoolManager) (check_page_id merge_page_id : Int)
    (check_empty : Bool) : Option (Bool × Int × BufferPoolManager) :=
  match b.FetchPageRead merge_page_id with
  | some (some _, b1) =>
    if check_empty then
      match b1.DeletePage check_page_id with
      | some (res, b2) =>
        (b2.dropGuard check_page_id false).map fun b3 => (res, check_page_id, b3)
      | none => none
    else
      match b1.DeletePage merge_page_id with
      | some (res, b2) =>
        (b2.dropGuard merge_page_id false).map fun b3 => (res, merge_page_id, b3)
      | none => none
  | _ => none

/-- The calls on a pool of 8 frames up to the merge loop of `Remove(0)` on `tableTwo`: the
four pages of the table are created and unpinned (header 0, directory 1, buckets 2 and 3);
then `Remove` fetches and drops the header (lines 241, 248), fetches the directory (line
249), fetches the bucket page 2, removes the key and drops the guard (lines 256-259), and
fetches page 2 again for `check_guard` (line 264). -/
def scenarioBeforeMerge : List PoolOp :=
  [PoolOp.NewPage, PoolOp.UnpinPage 0 true, PoolOp.NewPage, PoolOp.UnpinPage 1 true,
   PoolOp.NewPage, PoolOp.UnpinPage 2 true, PoolOp.NewPage, PoolOp.UnpinPage 3 true,
   PoolOp.FetchPage 0, PoolOp.UnpinPage 0 true, PoolOp.FetchPage 1,
   PoolOp.FetchPage 2, PoolOp.UnpinPage 2 true, PoolOp.FetchPage 2]

/-- The pool of 8 frames after `scenarioBeforeMerge`. -/
def poolBeforeMerge : BufferPoolManager :=
  ((BufferPoolManager.new 8 2 []).run scenarioBeforeMerge).getD (BufferPoolManager.new 0 0 [])

end BufferPoolManager

namespace PageStore
variable {K V : Type}

/-- The kind of a page: 0 for a header page, 1 for a directory page, 2 for a bucket page. -/
def kindOf : PageData K V → Nat
  | PageData.header _ => 0
  | PageData.directory _ => 1
  | PageData.bucket _ => 2

/-- Store `s1` has every page of `s` with the same kind, and every header or directory page
of `s` other than the one with id `c` unchanged. -/
def Evolves (s s1 : PageStore K V) (c : Int) : Prop :=
  ∀ id p, s.Fetch id = some p →
    ∃ p1, s1.Fetch id = some p1 ∧ kindOf p1 = kindOf p ∧ (kindOf p ≠ 2 → id ≠ c → p1 = p)

end PageStore

namespace ExtendibleHTableDirectoryPage

/-- A directory page with maximum depth `D` whose arrays have `2^D` slots, whose global
depth is at most `D` and whose active local depths are at most the global depth. -/
structure Sound (d : ExtendibleHTableDirectoryPage) (D : Nat) : Prop where
  max : d.max_depth_ = D
  gd_le : d.global_depth_ ≤ D
  len_ld : d.local_depths_.length = 2 ^ D
  len_pid : d.bucket_page_ids_.length = 2 ^ D
  ld_le : ∀ (i ld : Nat), i < 2 ^ d.global_depth_ → d.local_depths_[i]? = some ld →
    ld ≤ d.global_depth_

/-- Every active slot of the directory holds `INVALID_PAGE_ID` or a page id for which `ok`
holds. -/
def PidsIn (d : ExtendibleHTableDirectoryPage) (ok : Int → Prop) : Prop :=
  ∀ (i : Nat) (p : Int), i < 2 ^ d.global_depth_ → d.bucket_page_ids_[i]? = some p →
    p = INVALID_PAGE_ID ∨ ok p

end ExtendibleHTableDirectoryPage

namespace DiskExtendibleHashTable
variable {K V : Type} [DecidableEq K]

/-- A directory page that is sound for maximum depth `D` and whose active slots refer to
bucket pages of the store `s`. -/
def DirOK (s : PageStore K V) (D : Nat) (d : ExtendibleHTableDirectoryPage) : Prop :=
  d.Sound D ∧ d.PidsIn (fun p => (s.FetchBucket p).isSome = true)

/-- The pages of the index fit together: the header page is there and has `2^max_depth`
slots, and every directory page id in it leads to a directory page that is sound for the
directory maximum depth of the table and refers to bucket pages. -/
def TableOK (ht : DiskExtendibleHashTable K V) : Prop :=
  ∃ h, ht.bpm_.FetchHeader ht.header_page_id_ = some h ∧
    h.directory_page_ids_.length = 2 ^ h.max_depth_ ∧
    ∀ (i : Nat) (p : Int), h.directory_page_ids_[i]? = some p → p ≠ INVALID_PAGE_ID →
      ∃ d, ht.bpm_.FetchDirectory p = some d ∧ DirOK ht.bpm_ ht.directory_max_depth_ d

/-- One call of `Insert` (lines 91-140) up to the recursive call of line 139: `Sum.inl r` when
the call returns `r` without recursing, `Sum.inr ht1` when it reaches line 139 with the
table `ht1`. -/
def insertCall (hash_fn_ : K → Nat) (ht : DiskExtendibleHashTable K V) (key : K) (value : V) :
    Option (Sum (Bool × DiskExtendibleHashTable K V) (DiskExtendibleHashTable K V)) :=
  (GetValue hash_fn_ ht key).bind fun values_found =>
  if values_found.isSome then some (Sum.inl (false, ht))
  else
  let hash_key := Hash hash_fn_ key
  (ht.bpm_.FetchHeader ht.header_page_id_).bind fun header_page =>
  let directory_index := header_page.HashToDirectoryIndex hash_key
  (header_page.GetDirectoryPageId directory_index).bind fun directory_page_id =>
  if directory_page_id = INVALID_PAGE_ID then
    (InsertToNewDirectory ht header_page directory_index hash_key key value).map Sum.inl
  else
  (ht.bpm_.FetchDirectory directory_page_id).bind fun directory_page =>
  let bucket_index := directory_page.HashToBucketIndex hash_key
  (directory_page.GetBucketPageId bucket_index).bind fun bucket_page_id =>
  if bucket_page_id = INVALID_PAGE_ID then
    (InsertToNewBucket ht directory_page_id directory_page bucket_index key value).map Sum.inl
  else
  (ht.bpm_.FetchBucket bucket_page_id).bind fun bucket_page =>
  let ins := bucket_page.Insert key value
  if ins.1 then
    some (Sum.inl
      (true, { ht with bpm_ := ht.bpm_.Write bucket_page_id (PageData.bucket ins.2) }))
  else
  let h := 1 <<< directory_page.global_depth_
  (directory_page.GetLocalDepth bucket_index).bind fun local_depth =>
  if local_depth = directory_page.global_depth_ ∧
      directory_page.global_depth_ ≥ directory_page.max_depth_ then
    some (Sum.inl (false, ht))
  else
  (if local_depth = directory_page.global_depth_ then
      cloneLower h ((List.range (1 <<< (directory_page.global_depth_ + 1))).drop h)
        directory_page.IncrGlobalDepth
    else some directory_page).bind fun directory1 =>
  (directory1.IncrLocalDepth bucket_index).bind fun directory2 =>
  (directory2.IncrLocalDepth (bucket_index + h)).bind fun directory3 =>
  (SplitBucket hash_fn_ ht directory3 bucket_page bucket_index).bind fun sp =>
  let bpm1 := sp.bpm.Write directory_page_id (PageData.directory sp.directory)
  let bpm2 := bpm1.Write bucket_page_id (PageData.bucket sp.bucket)
  let ht1 : DiskExtendibleHashTable K V := { ht with bpm_ := bpm2 }
  if sp.ok then some (Sum.inr ht1)
  else some (Sum.inl (false, ht1))

/-- The depths on the path of a key: the global depth of the directory page the header
gives for the key and the local depth of the key's slot in it; `none` when the header has
no directory page for the key. -/
def keyDepths (hash_fn_ : K → Nat) (ht : DiskExtendibleHashTable K V) (key : K) :
    Option (Nat × Nat) :=
  (ht.bpm_.FetchHeader ht.header_page_id_).bind fun header_page =>
  (header_page.GetDirectoryPageId
    (header_page.HashToDirectoryIndex (Hash hash_fn_ key))).bind fun directory_page_id =>
  if directory_page_id = INVALID_PAGE_ID then none
  else
  (ht.bpm_.FetchDirectory directory_page_id).bind fun directory_page =>
  (directory_page.GetLocalDepth
    (directory_page.HashToBucketIndex (Hash hash_fn_ key))).map fun local_depth =>
  (directory_page.global_depth_, local_depth)

/-- The bound on the number of nested recursive calls of `Insert(key, _)`: the directory
maximum depth minus the local depth of the key's slot; 0 when the header has no directory
page for the key. -/
def nestedCallBound (hash_fn_ : K → Nat) (ht : DiskExtendibleHashTable K V) (key : K) : Nat :=
  match keyDepths hash_fn_ ht key with
  | none => 0
  | some x => ht.directory_max_depth_ - x.2

end DiskExtendibleHashTable

namespace DiskExtendibleHashTable
variable {K V : Type} [DecidableEq K]

/-- Every key stored in a bucket page of the table is in the list `S`. -/
def keysWithin (S : List K) (ht : DiskExtendibleHashTable K V) : Bool :=
  ht.bpm_.all fun pg =>
    match pg with
    | PageData.bucket b => b.array_.all (fun e => decide (e.1 ∈ S))
    | _ => true

/-- Every bucket page that `Insert(key, value)` and its nested calls find in the table
stores keys of the list `S` only (the calls are followed under the hash function `g`, as
far as the fuel goes). -/
def keysWithinPath (g : K → Nat) (S : List K) :
    Nat → DiskExtendibleHashTable K V → K → V → Bool
  | 0, _, _, _ => true
  | fuel + 1, ht, key, value =>
    keysWithin S ht &&
      match insertCall g ht key value with
      | some (Sum.inr ht1) => keysWithinPath g S fuel ht1 key value
      | _ => true

end DiskExtendibleHashTable

/-- The table of scenario S3 (header depth 0, directory maximum depth 9, bucket size 2,
identity hash) after `Insert(0, 100)`. -/
def tableAfterZero : DiskExtendibleHashTable Nat Nat :=
  ((DiskExtendibleHashTable.run idHash 4 (DiskExtendibleHashTable.new [] 0 9 2)
      [DiskExtendibleHashTable.HashOp.Insert 0 100]).map
        (fun r => r.2)).getD (emptyTable 0 0)

/-- The table of scenario S3 after `Insert(0, 100)` and `Insert(4, 104)`. -/
def tableAfterFour : DiskExtendibleHashTable Nat Nat :=
  ((DiskExtendibleHashTable.run idHash 4 (DiskExtendibleHashTable.new [] 0 9 2)
      [DiskExtendibleHashTable.HashOp.Insert 0 100,
       DiskExtendibleHashTable.HashOp.Insert 4 104]).map
        (fun r => r.2)).getD (emptyTable 0 0)

/-- The table of scenario S3 after `Insert(0, 100)`, `Insert(4, 104)` and `Insert(8, 108)`. -/
def tableAfterEight : DiskExtendibleHashTable Nat Nat :=
  ((DiskExtendibleHashTable.run idHash 4 (DiskExtendibleHashTable.new [] 0 9 2)
      [DiskExtendibleHashTable.HashOp.Insert 0 100,
       DiskExtendibleHashTable.HashOp.Insert 4 104,
       DiskExtendibleHashTable.HashOp.Insert 8 108]).map
        (fun r => r.2)).getD (emptyTable 0 0)

namespace DiskExtendibleHashTable
variable {K V : Type} [DecidableEq K]

/-- The second increment of line 133, `IncrLocalDepth(bucket_index + h)`, as the outermost
call of `Insert(key, value)` makes it: the global depth of the directory when line 133 is
reached, the slot index `bucket_index + h`, and the number of slots of `local_depths_`.
`none` if the call does not get to line 133. -/
def secondIncrement (hash_fn_ : K → Nat) (ht : DiskExtendibleHashTable K V) (key : K)
    (value : V) : Option (Nat × Nat × Nat) :=
  (GetValue hash_fn_ ht key).bind fun values_found =>
  if values_found.isSome then none
  else
  let hash_key := Hash hash_fn_ key
  (ht.bpm_.FetchHeader ht.header_page_id_).bind fun header_page =>
  let directory_index := header_page.HashToDirectoryIndex hash_key
  (header_page.GetDirectoryPageId directory_index).bind fun directory_page_id =>
  if directory_page_id = INVALID_PAGE_ID then none
  else
  (ht.bpm_.FetchDirectory directory_page_id).bind fun directory_page =>
  let bucket_index := directory_page.HashToBucketIndex hash_key
  (directory_page.GetBucketPageId bucket_index).bind fun bucket_page_id =>
  if bucket_page_id = INVALID_PAGE_ID then none
  else
  (ht.bpm_.FetchBucket bucket_page_id).bind fun bucket_page =>
  if (bucket_page.Insert key value).1 then none
  else
  let h := 1 <<< directory_page.global_depth_
  (directory_page.GetLocalDepth bucket_index).bind fun local_depth =>
  if local_depth = directory_page.global_depth_ ∧
      directory_page.global_depth_ ≥ directory_page.max_depth_ then none
  else
  (if local_depth = directory_page.global_depth_ then
      cloneLower h ((List.range (1 <<< (directory_page.global_depth_ + 1))).drop h)
        directory_page.IncrGlobalDepth
    else some directory_page).bind fun directory1 =>
  (directory1.IncrLocalDepth bucket_index).bind fun directory2 =>
  some (directory2.global_depth_, bucket_index + h, directory2.local_depths_.length)

end DiskExtendibleHashTable

/-- The table with bucket size 1 and directory maximum depth 2 after `Insert` of the keys
0, 2 and 1: the global depth is 2, the maximum, and the slots 1 and 3 share the bucket of
key 1 at local depth 1. -/
def tableAtMaxDepth : DiskExtendibleHashTable Nat Nat :=
  ((DiskExtendibleHashTable.run idHash 8 (emptyTable 2 1)
      [DiskExtendibleHashTable.HashOp.Insert 0 100,
       DiskExtendibleHashTable.HashOp.Insert 2 102,
       DiskExtendibleHashTable.HashOp.Insert 1 101]).map
        (fun r => r.2)).getD (emptyTable 0 0)

namespace DiskExtendibleHashTable
variable {K V : Type} [DecidableEq K]

/-- Whether `Insert(key, value)` or one of its nested calls, as far as the fuel goes, reaches
line 133 with the index `bucket_index + h` outside the array `local_depths_`. -/
def incrementOutOfRange (hash_fn_ : K → Nat) :
    Nat → DiskExtendibleHashTable K V → K → V → Bool
  | 0, _, _, _ => false
  | fuel + 1, ht, key, value =>
    (match secondIncrement hash_fn_ ht key value with
      | some x => decide (x.2.2 ≤ x.2.1)
      | none => false) ||
    match insertCall hash_fn_ ht key value with
    | some (Sum.inr ht1) => incrementOutOfRange hash_fn_ fuel ht1 key value
    | _ => false

end DiskExtendibleHashTable

namespace BufferPoolManager

/-- The pool of one frame after page 0 was written and unpinned and a new page 1 took the
frame; page 1 is still pinned. -/
def roundTripPinned : BufferPoolManager :=
  (roundTrip3.run [PoolOp.NewPage]).getD (BufferPoolManager.new 0 0 [])

end BufferPoolManager

/-! ## The hash index on the buffer pool manager -/

/-- The ways in which a call of the index on the buffer pool manager fails to have a defined
result. `stale_pointer f p q`: the code uses a page pointer into frame `f` that it obtained
for page `p`, after the pool has given the frame to page `q`. `null_page`: a guard without
a page is dereferenced (`FetchPage` or `NewPage` returned `nullptr`). `undefined`: any other
undefined behaviour (an array index outside the array, a page body of another kind than the
view asked for, a pool call that does not return normally). -/
inductive IndexFault where
  | stale_pointer (frame_id page_id found : Int)
  | null_page
  | undefined
deriving DecidableEq, Repr

/-- The state of a `DiskExtendibleHashTable` together with its `BufferPoolManager`. The
buffer of a frame or of a disk page is a natural number in the pool (`Page.data_`): 0 is
the zeroed buffer and `h + 1` stands for the page body `bodies_[h]`, so the pool itself moves
page bodies between frames and disk. -/
structure PooledHashTable (K V : Type) where
  header_max_depth_ : Nat
  directory_max_depth_ : Nat
  bucket_max_size_ : Nat
  header_page_id_ : Int
  bpm_ : BufferPoolManager
  bodies_ : List (PageData K V)
deriving DecidableEq

namespace PooledHashTable
variable {K V : Type} [DecidableEq K]

/-- An array access of the page classes: outside the array the behaviour is undefined. -/
def defined {α : Type} : Option α → Except IndexFault α
  | some a => Except.ok a
  | none => Except.error IndexFault.undefined

/-- The page body a buffer content stands for; the zeroed buffer has none. -/
def bodyOf (t : PooledHashTable K V) (data : Nat) : Option (PageData K V) :=
  if data = 0 then none else t.bodies_[data - 1]?

/-- A read through a page pointer into frame `frame_id` that was obtained for page
`page_id`. The frame address is stable, so the read sees the bytes the frame holds now: the
body of `page_id` if the frame still holds that page (pinned or not), and the bytes of
another page otherwise. -/
def readPage (t : PooledHashTable K V) (frame_id page_id : Int) :
    Except IndexFault (PageData K V) :=
  match t.bpm_.getPage frame_id with
  | none => Except.error IndexFault.undefined
  | some pg =>
    if pg.page_id_ = page_id then defined (t.bodyOf pg.data_)
    else Except.error (IndexFault.stale_pointer frame_id page_id pg.page_id_)

/-- A store through a page pointer into frame `frame_id` that was obtained for page
`page_id`: the buffer of the frame becomes `body`. -/
def writePage (t : PooledHashTable K V) (frame_id page_id : Int) (body : PageData K V) :
    Except IndexFault (PooledHashTable K V) :=
  match t.bpm_.getPage frame_id with
  | none => Except.error IndexFault.undefined
  | some pg =>
    if pg.page_id_ = page_id then
      Except.ok { t with bodies_ := t.bodies_ ++ [body],
                         bpm_ := t.bpm_.WriteData frame_id (t.bodies_.length + 1) }
    else Except.error (IndexFault.stale_pointer frame_id page_id pg.page_id_)

/-- The view of a page body as a header page. -/
def asHeader : PageData K V → Except IndexFault ExtendibleHTableHeaderPage
  | PageData.header h => Except.ok h
  | _ => Except.error IndexFault.undefined

/-- The view of a page body as a directory page. -/
def asDirectory : PageData K V → Except IndexFault ExtendibleHTableDirectoryPage
  | PageData.directory d => Except.ok d
  | _ => Except.error IndexFault.undefined

/-- The view of a page body as a bucket page. -/
def asBucket : PageData K V → Except IndexFault (ExtendibleHTableBucketPage K V)
  | PageData.bucket b => Except.ok b
  | _ => Except.error IndexFault.undefined

/-- A read of a header page through a page pointer. -/
def readHeader (t : PooledHashTable K V) (frame_id page_id : Int) :
    Except IndexFault ExtendibleHTableHeaderPage :=
  (t.readPage frame_id page_id).bind asHeader

/-- A read of a directory page through a page pointer. -/
def readDirectory (t : PooledHashTable K V) (frame_id page_id : Int) :
    Except IndexFault ExtendibleHTableDirectoryPage :=
  (t.readPage frame_id page_id).bind asDirectory

/-- A read of a bucket page through a page pointer. -/
def readBucket (t : PooledHashTable K V) (frame_id page_id : Int) :
    Except IndexFault (ExtendibleHTableBucketPage K V) :=
  (t.readPage frame_id page_id).bind asBucket

/-- Embeds `FetchPageRead` and `FetchPageWrite` (buffer_pool_manager.cpp lines 201-215)
followed by the `As` or `AsMut` of the guard: the frame of the fetched page. The latch plays
no part in a single thread. -/
def fetchPage (t : PooledHashTable K V) (page_id : Int) :
    Except IndexFault (Int × PooledHashTable K V) :=
  match t.bpm_.FetchPage page_id with
  | none => Except.error IndexFault.undefined
  | some (none, _) => Except.error IndexFault.null_page
  | some (some frame_id, b1) => Except.ok (frame_id, { t with bpm_ := b1 })

/-- Embeds `NewPageGuarded` (lines 217-220) followed by the `AsMut` of the guard: the new page
id and the frame of the new page. -/
def newPage (t : PooledHashTable K V) : Except IndexFault (Int × Int × PooledHashTable K V) :=
  match t.bpm_.NewPage with
  | none => Except.error IndexFault.undefined
  | some (none, _) => Except.error IndexFault.null_page
  | some (some (page_id, frame_id), b1) => Except.ok (page_id, frame_id, { t with bpm_ := b1 })

/-- Modelled from the spec: the page guard classes are not among the sources. Spec 4.3:
dropping a guard releases the latch and calls `unpin(page_id, is_dirty)` with the dirty flag
of the guard; the flag is set once the mutable view of the guard was taken (spec 8,
property 3). A guard is dropped by `Drop()` or at the end of its scope, whichever comes
first, and once only. -/
def drop (t : PooledHashTable K V) (page_id : Int) (is_dirty : Bool) :
    Except IndexFault (PooledHashTable K V) :=
  match t.bpm_.UnpinPage page_id is_dirty with
  | none => Except.error IndexFault.undefined
  | some (_, b1) => Except.ok { t with bpm_ := b1 }

/-- The constructor (hash table lines 34-49) on the pool `bpm`: a new page for the header,
`Init` through the mutable view, and the guard dropped at the end of the scope. -/
def new (bpm : BufferPoolManager) (header_max_depth directory_max_depth bucket_max_size : Nat) :
    Except IndexFault (PooledHashTable K V) := do
  let t0 : PooledHashTable K V :=
    { header_max_depth_ := header_max_depth, directory_max_depth_ := directory_max_depth,
      bucket_max_size_ := bucket_max_size, header_page_id_ := INVALID_PAGE_ID,
      bpm_ := bpm, bodies_ := [] }
  let (header_page_id, header_frame, t1) ← t0.newPage
  let t2 : PooledHashTable K V := { t1 with header_page_id_ := header_page_id }
  let t3 ← t2.writePage header_frame header_page_id
    (PageData.header (ExtendibleHTableHeaderPage.Init header_max_depth))
  t3.drop header_page_id true

/-- Embeds `GetValue` (lines 55-84) with its pool calls: the value found, if any, and the
state of the pool afterwards. -/
def GetValue (hash_fn_ : K → Nat) (t : PooledHashTable K V) (key : K) :
    Except IndexFault (Option V × PooledHashTable K V) := do
  let (header_frame, t1) ← t.fetchPage t.header_page_id_
  let header_page ← t1.readHeader header_frame t.header_page_id_
  let hash := DiskExtendibleHashTable.Hash hash_fn_ key
  let directory_index := header_page.HashToDirectoryIndex hash
  let directory_page_id ← defined (header_page.GetDirectoryPageId directory_index)
  if directory_page_id = INVALID_PAGE_ID then
    let t2 ← t1.drop t.header_page_id_ false
    return (none, t2)
  else
  let t2 ← t1.drop t.header_page_id_ false
  let (directory_frame, t3) ← t2.fetchPage directory_page_id
  let directory_page ← t3.readDirectory directory_frame directory_page_id
  let bucket_index := directory_page.HashToBucketIndex hash
  let bucket_page_id ← defined (directory_page.GetBucketPageId bucket_index)
  if bucket_page_id = INVALID_PAGE_ID then
    let t4 ← t3.drop directory_page_id false
    return (none, t4)
  else
  let (bucket_frame, t4) ← t3.fetchPage bucket_page_id
  let t5 ← t4.drop directory_page_id false
  let bucket_page ← t5.readBucket bucket_frame bucket_page_id
  let t6 ← t5.drop bucket_page_id false
  return (bucket_page.Lookup key, t6)

/-- Embeds `InsertToNewBucket` (lines 204-213) with its pool calls. `directory_frame` and
`directory_page_id` are the `directory` pointer. -/
def InsertToNewBucket (t : PooledHashTable K V) (directory_frame directory_page_id : Int)
    (bucket_idx : Nat) (key : K) (value : V) :
    Except IndexFault (Bool × PooledHashTable K V) := do
  let (bucket_page_id, bucket_frame, t1) ← t.newPage
  let t2 ← t1.writePage bucket_frame bucket_page_id
    (PageData.bucket (ExtendibleHTableBucketPage.Init t.bucket_max_size_))
  let directory ← t2.readDirectory directory_frame directory_page_id
  let directory1 ← defined (directory.SetBucketPageId bucket_idx bucket_page_id)
  let t3 ← t2.writePage directory_frame directory_page_id (PageData.directory directory1)
  let ins := (ExtendibleHTableBucketPage.Init t.bucket_max_size_ :
    ExtendibleHTableBucketPage K V).Insert key value
  let t4 ← t3.writePage bucket_frame bucket_page_id (PageData.bucket ins.2)
  let t5 ← t4.drop bucket_page_id true
  return (ins.1, t5)

/-- Embeds `InsertToNewDirectory` (lines 191-201) with its pool calls. `header_frame` is the
`header` pointer. -/
def InsertToNewDirectory (t : PooledHashTable K V) (header_frame : Int)
    (directory_idx : Nat) (hash : Nat) (key : K) (value : V) :
    Except IndexFault (Bool × PooledHashTable K V) := do
  let (directory_page_id, directory_frame, t1) ← t.newPage
  let directory_page := ExtendibleHTableDirectoryPage.Init t.directory_max_depth_
  let t2 ← t1.writePage directory_frame directory_page_id (PageData.directory directory_page)
  let header ← t2.readHeader header_frame t.header_page_id_
  let header1 ← defined (header.SetDirectoryPageId directory_idx directory_page_id)
  let t3 ← t2.writePage header_frame t.header_page_id_ (PageData.header header1)
  let bucket_idx := directory_page.HashToBucketIndex hash
  let (res, t4) ← t3.InsertToNewBucket directory_frame directory_page_id bucket_idx key value
  let t5 ← t4.drop directory_page_id true
  return (res, t5)

/-- Embeds `SplitBucket` (lines 143-188) with its pool calls. `directory_frame` and
`directory_page_id` are the `directory` pointer, `bucket_frame` and `bucket_page_id` the
`bucket` pointer. -/
def SplitBucket (hash_fn_ : K → Nat) (t : PooledHashTable K V)
    (directory_frame directory_page_id bucket_frame bucket_page_id : Int) (bucket_idx : Nat) :
    Except IndexFault (Bool × PooledHashTable K V) := do
  let (split_page_id, split_frame, t1) ← t.newPage
  if split_page_id = INVALID_PAGE_ID then
    let t2 ← t1.drop split_page_id false
    return (false, t2)
  else
  let split_bucket : ExtendibleHTableBucketPage K V :=
    ExtendibleHTableBucketPage.Init t.bucket_max_size_
  let t2 ← t1.writePage split_frame split_page_id (PageData.bucket split_bucket)
  let directory ← t2.readDirectory directory_frame directory_page_id
  let split_idx ← defined (directory.GetSplitImageIndex bucket_idx)
  let local_depth ← defined (directory.GetLocalDepth bucket_idx)
  if local_depth = bucket_idx then
    let t3 ← t2.drop split_page_id true
    return (false, t3)
  else
  let directory1 ← defined (directory.SetBucketPageId split_idx split_page_id)
  let directory2 ← defined (directory1.SetLocalDepth split_idx local_depth)
  let t3 ← t2.writePage directory_frame directory_page_id (PageData.directory directory2)
  let bucket_page_id1 ← defined (directory2.GetBucketPageId bucket_idx)
  if bucket_page_id1 = INVALID_PAGE_ID then
    let t4 ← t3.drop split_page_id true
    return (false, t4)
  else
  let bucket ← t3.readBucket bucket_frame bucket_page_id
  let res ← defined (DiskExtendibleHashTable.redistribute hash_fn_ directory2 bucket_page_id1
    split_page_id bucket.array_ bucket.Clear split_bucket)
  let t4 ← t3.writePage bucket_frame bucket_page_id (PageData.bucket res.1)
  let t5 ← t4.writePage split_frame split_page_id (PageData.bucket res.2)
  let t6 ← t5.drop split_page_id true
  return (true, t6)

/-- One call of `Insert` (lines 91-140) with its pool calls, up to the recursive call of line
139: `Sum.inl r` when the call returns `r` without recursing, `Sum.inr t1` when it reaches
line 139 with the state `t1`. After `directory_guard.Drop()` (line 113) the code keeps
using `directory_page`, here the pointer `directory_frame` obtained for
`directory_page_id`. -/
def insertCall (hash_fn_ : K → Nat) (t : PooledHashTable K V) (key : K) (value : V) :
    Except IndexFault (Sum (Bool × PooledHashTable K V) (PooledHashTable K V)) := do
  let (values_found, t0) ← GetValue hash_fn_ t key
  if values_found.isSome then return Sum.inl (false, t0)
  else
  let hash_key := DiskExtendibleHashTable.Hash hash_fn_ key
  let (header_frame, t1) ← t0.fetchPage t.header_page_id_
  let header_page ← t1.readHeader header_frame t.header_page_id_
  let directory_index := header_page.HashToDirectoryIndex hash_key
  let directory_page_id ← defined (header_page.GetDirectoryPageId directory_index)
  if directory_page_id = INVALID_PAGE_ID then
    let (res, t2) ← t1.InsertToNewDirectory header_frame directory_index hash_key key value
    let t3 ← t2.drop t.header_page_id_ true
    return Sum.inl (res, t3)
  else
  let t2 ← t1.drop t.header_page_id_ true
  let (directory_frame, t3) ← t2.fetchPage directory_page_id
  let directory_page ← t3.readDirectory directory_frame directory_page_id
  let bucket_index := directory_page.HashToBucketIndex hash_key
  let bucket_page_id ← defined (directory_page.GetBucketPageId bucket_index)
  if bucket_page_id = INVALID_PAGE_ID then
    let (res, t4) ← t3.InsertToNewBucket directory_frame directory_page_id bucket_index
      key value
    let t5 ← t4.drop directory_page_id true
    return Sum.inl (res, t5)
  else
  let t4 ← t3.drop directory_page_id true
  let (bucket_frame, t5) ← t4.fetchPage bucket_page_id
  let bucket_page ← t5.readBucket bucket_frame bucket_page_id
  let ins := bucket_page.Insert key value
  if ins.1 then
    let t6 ← t5.writePage bucket_frame bucket_page_id (PageData.bucket ins.2)
    let t7 ← t6.drop bucket_page_id true
    return Sum.inl (true, t7)
  else
  let directory_page ← t5.readDirectory directory_frame directory_page_id
  let h := 1 <<< directory_page.global_depth_
  let local_depth ← defined (directory_page.GetLocalDepth bucket_index)
  if local_depth = directory_page.global_depth_ ∧
      directory_page.global_depth_ ≥ directory_page.max_depth_ then
    let t6 ← t5.drop bucket_page_id true
    return Sum.inl (false, t6)
  else
  let directory1 ← defined
    (if local_depth = directory_page.global_depth_ then
      DiskExtendibleHashTable.cloneLower h
        ((List.range (1 <<< (directory_page.global_depth_ + 1))).drop h)
        directory_page.IncrGlobalDepth
    else some directory_page)
  let directory2 ← defined (directory1.IncrLocalDepth bucket_index)
  let directory3 ← defined (directory2.IncrLocalDepth (bucket_index + h))
  let t6 ← t5.writePage directory_frame directory_page_id (PageData.directory directory3)
  let (ok, t7) ← SplitBucket hash_fn_ t6 directory_frame directory_page_id bucket_frame
    bucket_page_id bucket_index
  let t8 ← t7.drop bucket_page_id true
  if ok then return Sum.inr t8
  else return Sum.inl (false, t8)

/-- Embeds `Insert` (lines 91-140) with its pool calls; the recursive call of line 139 consumes
one unit of fuel, and running out of fuel is `none`. -/
def Insert (hash_fn_ : K → Nat) :
    Nat → PooledHashTable K V → K → V →
    Option (Except IndexFault (Bool × PooledHashTable K V))
  | 0, _, _, _ => none
  | fuel + 1, t, key, value =>
    match insertCall hash_fn_ t key value with
    | Except.error e => some (Except.error e)
    | Except.ok (Sum.inl r) => some (Except.ok r)
    | Except.ok (Sum.inr t1) => Insert hash_fn_ fuel t1 key value

end PooledHashTable

namespace PooledHashTable
variable {K V : Type} [DecidableEq K]

/-- A sequence of `Insert` calls from the left, on the index the constructor `start` made:
the return values of the calls that returned, the fault that stopped the run, if any, and
the state after the last call that returned. `none` when a call runs out of fuel. -/
def runInserts (hash_fn_ : K → Nat) (fuel : Nat) :
    PooledHashTable K V → List (K × V) →
    Option (List Bool × Option IndexFault × PooledHashTable K V)
  | t, [] => some ([], none, t)
  | t, (key, value) :: rest =>
    match Insert hash_fn_ fuel t key value with
    | none => none
    | some (Except.error e) => some ([], some e, t)
    | some (Except.ok (r, t1)) =>
      (runInserts hash_fn_ fuel t1 rest).map fun x => (r :: x.1, x.2.1, x.2.2)

/-- The constructor on a fresh pool of `pool_size` frames with an LRU-`replacer_k` replacer,
followed by a sequence of `Insert` calls. -/
def scenario (hash_fn_ : K → Nat) (pool_size replacer_k : Nat)
    (header_max_depth directory_max_depth bucket_max_size : Nat) (entries : List (K × V)) :
    Option (List Bool × Option IndexFault × PooledHashTable K V) :=
  match (PooledHashTable.new (BufferPoolManager.new pool_size replacer_k [])
      header_max_depth directory_max_depth bucket_max_size :
      Except IndexFault (PooledHashTable K V)) with
  | Except.error e =>
    some ([], some e,
      { header_max_depth_ := header_max_depth, directory_max_depth_ := directory_max_depth,
        bucket_max_size_ := bucket_max_size, header_page_id_ := INVALID_PAGE_ID,
        bpm_ := BufferPoolManager.new pool_size replacer_k [], bodies_ := [] })
  | Except.ok t => runInserts hash_fn_ 16 t entries

/-- The value `GetValue` finds, `none` when it finds nothing or has no defined result. -/
def valueOf (hash_fn_ : K → Nat) (t : PooledHashTable K V) (key : K) :
    Option (Option V) :=
  match GetValue hash_fn_ t key with
  | Except.error _ => none
  | Except.ok (v, _) => some v

end PooledHashTable

namespace PooledHashTable
variable {K V : Type} [DecidableEq K]

/-- The body of page `page_id` as the pool has it: the buffer of its frame if the page is
resident, else what the disk holds for it. -/
def pageBody (t : PooledHashTable K V) (page_id : Int) : Option (PageData K V) :=
  match assocFind t.bpm_.page_table_ page_id with
  | some frame_id => (t.bpm_.getPage frame_id).bind fun pg => t.bodyOf pg.data_
  | none => t.bodyOf (diskRead t.bpm_.disk_ page_id)

/-- The global depth of the directory page `page_id`. -/
def globalDepthOf (t : PooledHashTable K V) (page_id : Int) : Option Nat :=
  match t.pageBody page_id with
  | some (PageData.directory d) => some d.global_depth_
  | _ => none

/-- The page ids the frames of the pool hold, frame by frame, with their pin counts. -/
def frames (t : PooledHashTable K V) : List (Int × Int) :=
  t.bpm_.pages_.map fun pg => (pg.page_id_, pg.pin_count_)

end PooledHashTable

namespace PooledHashTable
variable {K V : Type} [DecidableEq K]

/-- Embeds `bpm_->DeletePage(page_id)` as called from the index: the return value is not
used. -/
def deletePage (t : PooledHashTable K V) (page_id : Int) :
    Except IndexFault (PooledHashTable K V) :=
  match t.bpm_.DeletePage page_id with
  | none => Except.error IndexFault.undefined
  | some (_, b1) => Except.ok { t with bpm_ := b1 }

/-- The directory updates of one iteration of the merge loop of `Remove` (lines 287-295),
through the `directory_page` pointer: the new local depth and the state. -/
def mergeUpdate (t : PooledHashTable K V) (directory_frame directory_page_id : Int)
    (bucket_index global_depth : Nat) (check_page_id : Int) :
    Except IndexFault (Nat × PooledHashTable K V) := do
  let directory ← t.readDirectory directory_frame directory_page_id
  let directory1 ← defined (directory.DecrLocalDepth bucket_index)
  let local_depth ← defined (directory1.GetLocalDepth bucket_index)
  let local_depth_mask ← defined (directory1.GetLocalDepthMask bucket_index)
  let mask_idx := bucket_index &&& local_depth_mask
  if global_depth < local_depth then throw IndexFault.undefined
  else
  let update_count := 1 <<< (global_depth - local_depth)
  let directory2 ← defined (DiskExtendibleHashTable.mergeUpdateLoop check_page_id local_depth
    mask_idx (List.range update_count) directory1)
  let t1 ← t.writePage directory_frame directory_page_id (PageData.directory directory2)
  return (local_depth, t1)

/-- One iteration of the merge loop of `Remove` (lines 269-295) with its pool calls.
`directory_frame` and `directory_page_id` are the `directory_page` pointer, `check_frame`
and `check_page_id` the `check_page` pointer, whose page `check_guard` pins. The views of
line 275 and line 265 are taken before the test of line 276. In the first branch of line
279 `check_guard` takes over the merge page and gives up its own; in the second the guard
of the merge page goes at the end of the iteration, as it does at the `break`.
`Sum.inl`: the loop is left by `break`, with the state and the page `check_guard` pins;
`Sum.inr`: the state, `local_depth` and the `check_page` pointer for the next test of the
loop condition. -/
def mergeStep (t : PooledHashTable K V) (directory_frame directory_page_id : Int)
    (bucket_index global_depth : Nat) (local_depth : Nat) (check_frame check_page_id : Int) :
    Except IndexFault
      (Sum (PooledHashTable K V × Int) (PooledHashTable K V × Nat × Int × Int)) := do
  let directory_page ← t.readDirectory directory_frame directory_page_id
  let convert_mask := 1 <<< (local_depth - 1)
  let merge_bucket_index := bucket_index ^^^ convert_mask
  let merge_local_depth ← defined (directory_page.GetLocalDepth merge_bucket_index)
  let merge_page_id ← defined (directory_page.GetBucketPageId merge_bucket_index)
  let (merge_frame, t1) ← t.fetchPage merge_page_id
  let merge_page ← t1.readBucket merge_frame merge_page_id
  let check_page ← t1.readBucket check_frame check_page_id
  if merge_local_depth ≠ local_depth ∨ (!check_page.IsEmpty && !merge_page.IsEmpty) then
    let t2 ← t1.drop merge_page_id false
    return Sum.inl (t2, check_page_id)
  else
  if check_page.IsEmpty then
    let t2 ← t1.deletePage check_page_id
    let t3 ← t2.drop check_page_id false
    let (local_depth1, t4) ← t3.mergeUpdate directory_frame directory_page_id bucket_index
      global_depth merge_page_id
    return Sum.inr (t4, local_depth1, merge_frame, merge_page_id)
  else
    let t2 ← t1.deletePage merge_page_id
    let (local_depth1, t3) ← t2.mergeUpdate directory_frame directory_page_id bucket_index
      global_depth check_page_id
    let t4 ← t3.drop merge_page_id false
    return Sum.inr (t4, local_depth1, check_frame, check_page_id)

/-- The merge loop of `Remove` (lines 268-296) with its pool calls. The loop variable
`local_depth` drops by one in every iteration that does not break, so that the fuel
`Remove` gives, the initial `local_depth`, is not used up before `local_depth` is 0.
Returns the state and the page `check_guard` pins. -/
def mergeLoop (directory_frame directory_page_id : Int) (bucket_index global_depth : Nat) :
    Nat → PooledHashTable K V → Nat → Int → Int →
    Except IndexFault (PooledHashTable K V × Int)
  | 0, t, local_depth, _, check_page_id =>
    if local_depth = 0 then Except.ok (t, check_page_id)
    else Except.error IndexFault.undefined
  | fuel1 + 1, t, local_depth, check_frame, check_page_id =>
    if local_depth = 0 then Except.ok (t, check_page_id)
    else
      match t.mergeStep directory_frame directory_page_id bucket_index global_depth
          local_depth check_frame check_page_id with
      | Except.error e => Except.error e
      | Except.ok (Sum.inl r) => Except.ok r
      | Except.ok (Sum.inr (t1, local_depth1, check_frame1, check_page_id1)) =>
        mergeLoop directory_frame directory_page_id bucket_index global_depth fuel1 t1
          local_depth1 check_frame1 check_page_id1

/-- Embeds `Remove` (lines 239-301) with its pool calls: the return value and the state of the
pool afterwards. The write guards of the header, the directory and the bucket have given
out their mutable view and are dropped dirty; `check_guard` and the guard of the merge page
are read guards. A guard that is not dropped by `Drop()` goes at the `return`, the guards
in the reverse order of their declarations. -/
def Remove (hash_fn_ : K → Nat) (t : PooledHashTable K V) (key : K) :
    Except IndexFault (Bool × PooledHashTable K V) := do
  let hash := DiskExtendibleHashTable.Hash hash_fn_ key
  let (header_frame, t1) ← t.fetchPage t.header_page_id_
  let header_page ← t1.readHeader header_frame t.header_page_id_
  let directory_index := header_page.HashToDirectoryIndex hash
  let directory_page_id ← defined (header_page.GetDirectoryPageId directory_index)
  if directory_page_id = INVALID_PAGE_ID then
    let t2 ← t1.drop t.header_page_id_ true
    return (false, t2)
  else
  let t2 ← t1.drop t.header_page_id_ true
  let (directory_frame, t3) ← t2.fetchPage directory_page_id
  let directory_page ← t3.readDirectory directory_frame directory_page_id
  let bucket_index := directory_page.HashToBucketIndex hash
  let bucket_page_id ← defined (directory_page.GetBucketPageId bucket_index)
  if bucket_page_id = INVALID_PAGE_ID then
    let t4 ← t3.drop directory_page_id true
    return (false, t4)
  else
  let (bucket_frame, t4) ← t3.fetchPage bucket_page_id
  let bucket_page ← t4.readBucket bucket_frame bucket_page_id
  let rem := bucket_page.Remove key
  if !rem.1 then
    let t5 ← t4.drop bucket_page_id true
    let t6 ← t5.drop directory_page_id true
    return (false, t6)
  else
  let t5 ← t4.writePage bucket_frame bucket_page_id (PageData.bucket rem.2)
  let t6 ← t5.drop bucket_page_id true
  let (check_frame, t7) ← t6.fetchPage bucket_page_id
  let directory_page ← t7.readDirectory directory_frame directory_page_id
  let local_depth ← defined (directory_page.GetLocalDepth bucket_index)
  let global_depth := directory_page.global_depth_
  let (t8, check_page_id) ← mergeLoop directory_frame directory_page_id bucket_index
    global_depth local_depth t7 local_depth check_frame bucket_page_id
  let directory_page ← t8.readDirectory directory_frame directory_page_id
  let t9 ← t8.writePage directory_frame directory_page_id
    (PageData.directory
      (DiskExtendibleHashTable.shrinkLoop directory_page.global_depth_ directory_page))
  let t10 ← t9.drop check_page_id false
  let t11 ← t10.drop directory_page_id true
  return (true, t11)

end PooledHashTable

namespace PooledHashTable
variable {K V : Type} [DecidableEq K]

/-- A call of the index by its user. -/
inductive IndexCall (K V : Type) where
  | Insert (key : K) (value : V)
  | Remove (key : K)
  | GetValue (key : K)

/-- A sequence of calls from the left, every one of which returns: the state after the last
call. `none` when a call has no defined result or an `Insert` runs out of fuel. -/
def runCalls (hash_fn_ : K → Nat) (fuel : Nat) :
    PooledHashTable K V → List (IndexCall K V) → Option (PooledHashTable K V)
  | t, [] => some t
  | t, IndexCall.Insert key value :: rest =>
    match Insert hash_fn_ fuel t key value with
    | some (Except.ok (_, t1)) => runCalls hash_fn_ fuel t1 rest
    | _ => none
  | t, IndexCall.Remove key :: rest =>
    match Remove hash_fn_ t key with
    | Except.ok (_, t1) => runCalls hash_fn_ fuel t1 rest
    | Except.error _ => none
  | t, IndexCall.GetValue key :: rest =>
    match GetValue hash_fn_ t key with
    | Except.ok (_, t1) => runCalls hash_fn_ fuel t1 rest
    | Except.error _ => none

/-- The state reached by the constructor on a fresh pool of `pool_size` frames with an
LRU-`replacer_k` replacer over the disk content `disk`, followed by a sequence of calls that
all return. -/
def reached (hash_fn_ : K → Nat) (pool_size replacer_k : Nat) (disk : List (Int × Nat))
    (header_max_depth directory_max_depth bucket_max_size : Nat) (fuel : Nat)
    (calls : List (IndexCall K V)) : Option (PooledHashTable K V) :=
  match (PooledHashTable.new (BufferPoolManager.new pool_size replacer_k disk)
      header_max_depth directory_max_depth bucket_max_size :
      Except IndexFault (PooledHashTable K V)) with
  | Except.error _ => none
  | Except.ok t => runCalls hash_fn_ fuel t calls

/-- The depths on the path of a key, read from the pages as the pool has them: the global
depth of the directory page the header gives for the key and the local depth of the key's
slot in it; `none` when the header has no directory page for the key. -/
def keyDepths (hash_fn_ : K → Nat) (t : PooledHashTable K V) (key : K) : Option (Nat × Nat) :=
  match t.pageBody t.header_page_id_ with
  | some (PageData.header header_page) =>
    (header_page.GetDirectoryPageId (header_page.HashToDirectoryIndex
      (DiskExtendibleHashTable.Hash hash_fn_ key))).bind fun directory_page_id =>
    if directory_page_id = INVALID_PAGE_ID then none
    else
    match t.pageBody directory_page_id with
    | some (PageData.directory directory_page) =>
      (directory_page.GetLocalDepth (directory_page.HashToBucketIndex
        (DiskExtendibleHashTable.Hash hash_fn_ key))).map fun local_depth =>
      (directory_page.global_depth_, local_depth)
    | _ => none
  | _ => none

/-- The bound on the number of nested recursive calls of `Insert(key, _)`: the directory
maximum depth minus the local depth of the key's slot; 0 when the header has no directory
page for the key. -/
def nestedCallBound (hash_fn_ : K → Nat) (t : PooledHashTable K V) (key : K) : Nat :=
  match keyDepths hash_fn_ t key with
  | none => 0
  | some x => t.directory_max_depth_ - x.2

end PooledHashTable

namespace PooledHashTable
variable {K V : Type} [DecidableEq K]

/-- How a call of `Insert` ended: its return value, or the fault; `none` when the fuel ran
out. -/
def outcome (res : Option (Except IndexFault (Bool × PooledHashTable K V))) :
    Option (Sum IndexFault Bool) :=
  res.map fun
    | Except.error e => Sum.inl e
    | Except.ok r => Sum.inr r.1

/-- The index before the constructor has run, on a pool without frames. -/
def noTable : PooledHashTable Nat Nat :=
  { header_max_depth_ := 0, directory_max_depth_ := 0, bucket_max_size_ := 0,
    header_page_id_ := INVALID_PAGE_ID, bpm_ := BufferPoolManager.new 0 0 [], bodies_ := [] }

/-- The index on a pool of 8 frames with an LRU-4 replacer (header depth 0, directory maximum
depth 3, bucket size 1, identity hash) after the keys 0, 2, 1 were inserted. -/
def pooledThree : PooledHashTable Nat Nat :=
  (reached idHash 8 4 [] 0 3 1 8
    [IndexCall.Insert 0 100, IndexCall.Insert 2 102, IndexCall.Insert 1 101]).getD noTable

/-- The same keys on the same pool with directory maximum depth 2. -/
def pooledAtMaxDepth : PooledHashTable Nat Nat :=
  (reached idHash 8 4 [] 0 2 1 8
    [IndexCall.Insert 0 100, IndexCall.Insert 2 102, IndexCall.Insert 1 101]).getD noTable

end PooledHashTable

/-! ## What the pool holds for the index -/

namespace PooledHashTable
variable {K V : Type}

/-- Frame `frame_id` of the pool holds page `page_id`. -/
def Holds (t : PooledHashTable K V) (frame_id page_id : Int) : Prop :=
  ∃ pg, t.bpm_.getPage frame_id = some pg ∧ pg.page_id_ = page_id

/-- The pool of `t` holds the pages of the table `ht`, between two pool calls of the index.
`n` bounds the number of pool calls so far and `N` is the number of frames. `P` gives, for
every resident page, the number of guards held on it (its pin count). `W` is the set of
pages under a guard whose mutable view was taken: such a page may have been stored into
while its frame is not marked dirty yet. `D` is a set of pages whose frame, if they are
resident, is marked dirty. The body of every page of `ht` is in the frame of the page, or
on disk when the page is not resident; a resident page that is neither marked dirty nor in
`W` has the same bytes on disk. -/
structure Rep (n N : Nat) (P : Int → Int) (W D : Int → Prop) (t : PooledHashTable K V)
    (ht : DiskExtendibleHashTable K V) : Prop where
  header_max_depth : t.header_max_depth_ = ht.header_max_depth_
  directory_max_depth : t.directory_max_depth_ = ht.directory_max_depth_
  bucket_max_size : t.bucket_max_size_ = ht.bucket_max_size_
  header_page_id : t.header_page_id_ = ht.header_page_id_
  size : t.bpm_.pool_size_ = N
  inv : t.bpm_.Inv n none
  tight : t.bpm_.Tight
  next : t.bpm_.next_page_id_ = (ht.bpm_.length : Int)
  content : ∀ p body, ht.bpm_.Fetch p = some body → t.pageBody p = some body
  sync : ∀ f pg, t.bpm_.getPage f = some pg → pg.page_id_ ≠ INVALID_PAGE_ID →
    pg.is_dirty_ = true ∨ diskRead t.bpm_.disk_ pg.page_id_ = pg.data_ ∨ W pg.page_id_
  dirty : ∀ f pg, t.bpm_.getPage f = some pg → pg.page_id_ ≠ INVALID_PAGE_ID →
    D pg.page_id_ → pg.is_dirty_ = true
  pins : ∀ f pg, t.bpm_.getPage f = some pg → pg.page_id_ ≠ INVALID_PAGE_ID →
    pg.pin_count_ = P pg.page_id_
  absent : ∀ p, assocFind t.bpm_.page_table_ p = none → P p = 0
  held : ∀ p, W p → 0 < P p

end PooledHashTable

namespace PooledHashTable
variable {K V : Type}

/-- The pool of `t` holds the pages of the table `ht` and no guard is held: the state between
two calls of the index. -/
def Quiet (n N : Nat) (t : PooledHashTable K V) (ht : DiskExtendibleHashTable K V) : Prop :=
  Rep n N (fun _ => 0) (fun _ => False) (fun _ => False) t ht

end PooledHashTable

namespace PooledHashTable

/-- The pin counts while `Remove` runs its merge loop: one pin for the directory page `a`
and one for the page `b` that `check_guard` holds. -/
def pinsOf (a b : Int) : Int → Int :=
  fun q => (if q = a then 1 else 0) + (if q = b then 1 else 0)

end PooledHashTable

/-! # Theorems -/

/-! ## Extendible hash index: pages and the path of a lookup -/

namespace PageStore
variable {K V : Type}

theorem length_Write (s : PageStore K V) (id : Int) (p : PageData K V) :
    (s.Write id p).length = s.length := by
  unfold Write; split <;> simp

theorem Fetch_lt {s : PageStore K V} {id : Int} {q : PageData K V}
    (h : s.Fetch id = some q) : 0 ≤ id ∧ id.toNat < s.length := by
  unfold Fetch at h
  split at h
  · rename_i h0
    refine ⟨h0, ?_⟩
    by_contra hlt
    rw [List.getElem?_eq_none (by omega)] at h
    cases h
  · cases h

theorem Fetch_Write_same {s : PageStore K V} {id : Int} (p : PageData K V)
    (h0 : 0 ≤ id) (hlt : id.toNat < s.length) : (s.Write id p).Fetch id = some p := by
  unfold Fetch Write
  simp [h0, hlt]

theorem Fetch_Write_ne {s : PageStore K V} {id id1 : Int} (p : PageData K V)
    (hne : id ≠ id1) : (s.Write id p).Fetch id1 = s.Fetch id1 := by
  unfold Fetch Write
  by_cases h0 : 0 ≤ id <;> by_cases h1 : 0 ≤ id1 <;> simp [h0, h1]
  have : id.toNat ≠ id1.toNat := by omega
  simp [List.getElem?_set, this]

theorem Fetch_append {s : PageStore K V} {id : Int} {q : PageData K V} (p : PageData K V)
    (h : s.Fetch id = some q) : (s ++ [p]).Fetch id = some q := by
  have hl := Fetch_lt h
  unfold Fetch at h ⊢
  simp only [hl.1, if_true] at h ⊢
  rw [List.getElem?_append_left hl.2]; exact h

theorem Fetch_append_length (s : PageStore K V) (p : PageData K V) :
    (s ++ [p]).Fetch (s.length : Int) = some p := by
  unfold Fetch
  simp

end PageStore

namespace PageStore
variable {K V : Type}

theorem FetchHeader_iff {s : PageStore K V} {id : Int} {h : ExtendibleHTableHeaderPage} :
    s.FetchHeader id = some h ↔ s.Fetch id = some (PageData.header h) := by
  unfold FetchHeader
  split <;> simp_all

theorem FetchDirectory_iff {s : PageStore K V} {id : Int} {d : ExtendibleHTableDirectoryPage} :
    s.FetchDirectory id = some d ↔ s.Fetch id = some (PageData.directory d) := by
  unfold FetchDirectory
  split <;> simp_all

theorem FetchBucket_iff {s : PageStore K V} {id : Int} {b : ExtendibleHTableBucketPage K V} :
    s.FetchBucket id = some b ↔ s.Fetch id = some (PageData.bucket b) := by
  unfold FetchBucket
  split <;> simp_all

end PageStore

namespace ExtendibleHTableBucketPage
variable {K V : Type} [DecidableEq K]

theorem lookupIn_append_new (a : List (K × V)) (key : K) (value : V)
    (h : lookupIn a key = none) : lookupIn (a ++ [(key, value)]) key = some value := by
  induction a with
  | nil => simp [lookupIn]
  | cons x rest ih =>
    obtain ⟨k, v⟩ := x
    simp only [lookupIn, List.cons_append] at h ⊢
    by_cases hk : k = key
    · simp [hk] at h
    · simp only [hk, if_false] at h ⊢
      exact ih h

theorem Lookup_Insert (b : ExtendibleHTableBucketPage K V) (key : K) (value : V)
    (h : (b.Insert key value).1 = true) : (b.Insert key value).2.Lookup key = some value := by
  unfold Insert at h ⊢
  split at h
  · rename_i hc
    simp only [Bool.and_eq_true, decide_eq_true_eq, Option.isNone_iff_eq_none] at hc
    simp only [Bool.and_eq_true, decide_eq_true_eq, Option.isNone_iff_eq_none, hc, and_self,
      if_true, Lookup]
    exact lookupIn_append_new _ _ _ hc.2
  · simp at h

end ExtendibleHTableBucketPage

namespace DiskExtendibleHashTable
variable {K V : Type} [DecidableEq K]

theorem GetValue_of_path (hash_fn_ : K → Nat) (ht : DiskExtendibleHashTable K V) (key : K)
    (hp : ExtendibleHTableHeaderPage) (d : Int) (dp : ExtendibleHTableDirectoryPage)
    (b : Int) (bp : ExtendibleHTableBucketPage K V)
    (h1 : ht.bpm_.FetchHeader ht.header_page_id_ = some hp)
    (h2 : hp.GetDirectoryPageId (hp.HashToDirectoryIndex (Hash hash_fn_ key)) = some d)
    (h3 : d ≠ INVALID_PAGE_ID)
    (h4 : ht.bpm_.FetchDirectory d = some dp)
    (h5 : dp.GetBucketPageId (dp.HashToBucketIndex (Hash hash_fn_ key)) = some b)
    (h6 : b ≠ INVALID_PAGE_ID)
    (h7 : ht.bpm_.FetchBucket b = some bp) :
    GetValue hash_fn_ ht key = some (bp.Lookup key) := by
  simp [GetValue, h1, h2, h3, h4, h5, h6, h7]

theorem SetBucketPageId_spec {dp d1 : ExtendibleHTableDirectoryPage} {i : Nat} {p : Int}
    (h : dp.SetBucketPageId i p = some d1) :
    d1.global_depth_ = dp.global_depth_ ∧ d1.GetBucketPageId i = some p := by
  unfold ExtendibleHTableDirectoryPage.SetBucketPageId at h
  simp only [Option.map_eq_some'] at h
  obtain ⟨a, ha1, ha⟩ := h
  subst ha
  unfold arrSet at ha1
  split at ha1
  · rename_i hlt
    simp only [Option.some.injEq] at ha1
    subst ha1
    simp [ExtendibleHTableDirectoryPage.GetBucketPageId, arrGet, hlt]
  · cases ha1

theorem InsertToNewBucket_get (hash_fn_ : K → Nat) (ht ht1 : DiskExtendibleHashTable K V)
    (key : K) (value : V) (hp : ExtendibleHTableHeaderPage) (d : Int)
    (dp : ExtendibleHTableDirectoryPage)
    (h1 : ht.bpm_.FetchHeader ht.header_page_id_ = some hp)
    (h2 : hp.GetDirectoryPageId (hp.HashToDirectoryIndex (Hash hash_fn_ key)) = some d)
    (h3 : d ≠ INVALID_PAGE_ID)
    (h4 : ∃ q, ht.bpm_.Fetch d = some (PageData.directory q))
    (h : InsertToNewBucket ht d dp (dp.HashToBucketIndex (Hash hash_fn_ key)) key value
          = some (true, ht1)) :
    GetValue hash_fn_ ht1 key = some (some value) := by
  unfold InsertToNewBucket at h
  simp only [PageStore.NewPage, Option.bind_eq_some] at h
  obtain ⟨d1, hd1, h⟩ := h
  simp only [Option.some.injEq, Prod.mk.injEq] at h
  obtain ⟨hins, hht⟩ := h
  obtain ⟨q, hq⟩ := h4
  have hdl := PageStore.Fetch_lt hq
  have hhl := PageStore.Fetch_lt (PageStore.FetchHeader_iff.1 h1)
  have hne_hd : d ≠ ht.header_page_id_ := by
    intro he; rw [he, PageStore.FetchHeader_iff.1 h1] at hq; cases hq
  have hlen : ((ht.bpm_.length : Int)) ≠ d := by omega
  have hlenh : ((ht.bpm_.length : Int)) ≠ ht.header_page_id_ := by omega
  have hs := SetBucketPageId_spec hd1
  have hd1' : d1.HashToBucketIndex (Hash hash_fn_ key)
      = dp.HashToBucketIndex (Hash hash_fn_ key) := by
    unfold ExtendibleHTableDirectoryPage.HashToBucketIndex; rw [hs.1]
  subst hht
  refine (GetValue_of_path hash_fn_ _ key hp d d1 (ht.bpm_.length : Int)
    ((ExtendibleHTableBucketPage.Init ht.bucket_max_size_ :
          ExtendibleHTableBucketPage K V).Insert key value).2 ?_ h2 h3 ?_ ?_ ?_ ?_).trans ?_
  · rw [PageStore.FetchHeader_iff]
    show PageStore.Fetch _ ht.header_page_id_ = _
    rw [PageStore.Fetch_Write_ne _ hlenh, PageStore.Fetch_Write_ne _ hne_hd]
    exact PageStore.Fetch_append _ (PageStore.FetchHeader_iff.1 h1)
  · rw [PageStore.FetchDirectory_iff]
    show PageStore.Fetch _ d = _
    rw [PageStore.Fetch_Write_ne _ hlen]
    exact PageStore.Fetch_Write_same _ hdl.1 (by simp; omega)
  · rw [hd1']; exact hs.2
  · unfold INVALID_PAGE_ID; omega
  · rw [PageStore.FetchBucket_iff]
    show PageStore.Fetch _ (ht.bpm_.length : Int) = _
    exact PageStore.Fetch_Write_same _ (by omega) (by simp [PageStore.length_Write])
  · rw [ExtendibleHTableBucketPage.Lookup_Insert _ _ _ hins]

theorem SetDirectoryPageId_spec {hp h1 : ExtendibleHTableHeaderPage} {i : Nat} {p : Int}
    (h : hp.SetDirectoryPageId i p = some h1) :
    h1.max_depth_ = hp.max_depth_ ∧ h1.GetDirectoryPageId i = some p := by
  unfold ExtendibleHTableHeaderPage.SetDirectoryPageId at h
  simp only [Option.map_eq_some'] at h
  obtain ⟨a, ha1, ha⟩ := h
  subst ha
  unfold arrSet at ha1
  split at ha1
  · rename_i hlt
    simp only [Option.some.injEq] at ha1
    subst ha1
    simp [ExtendibleHTableHeaderPage.GetDirectoryPageId, arrGet, hlt]
  · cases ha1

theorem InsertToNewDirectory_get (hash_fn_ : K → Nat) (ht ht1 : DiskExtendibleHashTable K V)
    (key : K) (value : V) {hp : ExtendibleHTableHeaderPage}
    (h1 : ht.bpm_.FetchHeader ht.header_page_id_ = some hp)
    (h : InsertToNewDirectory ht hp (hp.HashToDirectoryIndex (Hash hash_fn_ key))
          (Hash hash_fn_ key) key value = some (true, ht1)) :
    GetValue hash_fn_ ht1 key = some (some value) := by
  unfold InsertToNewDirectory at h
  simp only [PageStore.NewPage, Option.bind_eq_some] at h
  obtain ⟨hp1, hhp1, h⟩ := h
  have hhl := PageStore.Fetch_lt (PageStore.FetchHeader_iff.1 h1)
  have hs := SetDirectoryPageId_spec hhp1
  have hne : ht.header_page_id_ ≠ (ht.bpm_.length : Int) := by omega
  refine InsertToNewBucket_get hash_fn_ _ ht1 key value hp1 _ _ ?_ ?_ ?_ ?_ h
  · rw [PageStore.FetchHeader_iff]
    show PageStore.Fetch _ ht.header_page_id_ = _
    exact PageStore.Fetch_Write_same _ hhl.1 (by simp; omega)
  · have : hp1.HashToDirectoryIndex (Hash hash_fn_ key)
        = hp.HashToDirectoryIndex (Hash hash_fn_ key) := by
      unfold ExtendibleHTableHeaderPage.HashToDirectoryIndex; rw [hs.1]
    rw [this]; exact hs.2
  · unfold INVALID_PAGE_ID; omega
  · refine ⟨ExtendibleHTableDirectoryPage.Init ht.directory_max_depth_, ?_⟩
    show PageStore.Fetch _ (ht.bpm_.length : Int) = _
    rw [PageStore.Fetch_Write_ne _ hne]
    exact PageStore.Fetch_append_length _ _

theorem Insert_true_get (hash_fn_ : K → Nat) (fuel : Nat) :
    ∀ (ht ht1 : DiskExtendibleHashTable K V) (key : K) (value : V),
      Insert hash_fn_ fuel ht key value = some (true, ht1) →
      GetValue hash_fn_ ht1 key = some (some value) := by
  induction fuel with
  | zero => intro ht ht1 key value h; simp [Insert] at h
  | succ n ih =>
    intro ht ht1 key value h
    rw [Insert] at h
    obtain ⟨found, hfound, h⟩ := Option.bind_eq_some.1 h
    by_cases hf : found.isSome = true
    · rw [if_pos hf] at h; simp at h
    rw [if_neg hf] at h
    obtain ⟨hp, hhp, h⟩ := Option.bind_eq_some.1 h
    obtain ⟨d, hd, h⟩ := Option.bind_eq_some.1 h
    by_cases hdne : d = INVALID_PAGE_ID
    · rw [if_pos hdne] at h
      exact InsertToNewDirectory_get hash_fn_ ht ht1 key value hhp h
    rw [if_neg hdne] at h
    obtain ⟨dp, hdp, h⟩ := Option.bind_eq_some.1 h
    obtain ⟨b, hb, h⟩ := Option.bind_eq_some.1 h
    by_cases hbne : b = INVALID_PAGE_ID
    · rw [if_pos hbne] at h
      exact InsertToNewBucket_get hash_fn_ ht ht1 key value hp d dp hhp hd hdne
        ⟨dp, PageStore.FetchDirectory_iff.1 hdp⟩ h
    rw [if_neg hbne] at h
    obtain ⟨bp, hbp, h⟩ := Option.bind_eq_some.1 h
    by_cases hins : (bp.Insert key value).1 = true
    rotate_left
    · simp only [hins] at h
      obtain ⟨ld, hld, h⟩ := Option.bind_eq_some.1 h
      by_cases hmax : ld = dp.global_depth_ ∧ dp.global_depth_ ≥ dp.max_depth_
      · rw [if_pos hmax] at h; simp at h
      rw [if_neg hmax] at h
      obtain ⟨d1, hd1, h⟩ := Option.bind_eq_some.1 h
      obtain ⟨d2, hd2, h⟩ := Option.bind_eq_some.1 h
      obtain ⟨d3, hd3, h⟩ := Option.bind_eq_some.1 h
      obtain ⟨sp, hsp, h⟩ := Option.bind_eq_some.1 h
      by_cases hok : sp.ok = true
      · simp only [hok, if_true] at h
        exact ih _ ht1 key value h
      · simp [hok] at h
    · simp only [hins, if_true] at h
      simp only [Option.some.injEq, Prod.mk.injEq, true_and] at h
      subst h
      have hbl := PageStore.Fetch_lt (PageStore.FetchBucket_iff.1 hbp)
      have hbh : b ≠ ht.header_page_id_ := by
        intro he
        have h1 := PageStore.FetchBucket_iff.1 hbp
        rw [he, PageStore.FetchHeader_iff.1 hhp] at h1
        cases h1
      have hbd : b ≠ d := by
        intro he
        have h1 := PageStore.FetchBucket_iff.1 hbp
        rw [he, PageStore.FetchDirectory_iff.1 hdp] at h1
        cases h1
      refine (GetValue_of_path hash_fn_ _ key hp d dp b (bp.Insert key value).2
        ?_ hd hdne ?_ hb hbne ?_).trans ?_
      · rw [PageStore.FetchHeader_iff]
        show PageStore.Fetch _ ht.header_page_id_ = _
        rw [PageStore.Fetch_Write_ne _ hbh]
        exact PageStore.FetchHeader_iff.1 hhp
      · rw [PageStore.FetchDirectory_iff]
        show PageStore.Fetch _ d = _
        rw [PageStore.Fetch_Write_ne _ hbd]
        exact PageStore.FetchDirectory_iff.1 hdp
      · rw [PageStore.FetchBucket_iff]
        show PageStore.Fetch _ b = _
        exact PageStore.Fetch_Write_same _ hbl.1 hbl.2
      · rw [ExtendibleHTableBucketPage.Lookup_Insert _ _ _ hins]

end DiskExtendibleHashTable

/-! ## Extendible hash index: the claims -/

section HashIndexClaims
open DiskExtendibleHashTable HashOp
variable {K V : Type} [DecidableEq K]

/-- C1 (the code at a failing input): bucket size 1, identity hash. `Insert(0)`, `Insert(1)`
and `Remove(0)` all return true, key 1 is never removed and `GetValue(1)` returned its value
before the `Remove`, yet after `Remove(0)` `GetValue(1)` returns false: the merge step
lowers the local depths without repointing the slots, the directory shrinks to depth 0 and
slot 0 still refers to the emptied page. -/
theorem C1_inserted_key_unreachable :
    (run idHash 8 (emptyTable 3 1) [Insert 0 100, Insert 1 101]).map (fun r => r.1)
        = some [true, true] ∧
    ((run idHash 8 (emptyTable 3 1) [Insert 0 100, Insert 1 101]).bind
        fun r => GetValue idHash r.2 1) = some (some 101) ∧
    (run idHash 8 (emptyTable 3 1) [Insert 0 100, Insert 1 101, Remove 0]).map (fun r => r.1)
        = some [true, true, true] ∧
    ((run idHash 8 (emptyTable 3 1) [Insert 0 100, Insert 1 101, Remove 0]).bind
        fun r => GetValue idHash r.2 1) = some none := by
  decide!

/-- C2 (the code at a failing input): directory maximum depth 9, bucket size 1, identity
hash. `Insert(3)` returns true. `Insert(7)` then returns false although key 7 is absent and
the global depth is 0 at the call (and 3, not 9, at the return): the third split is asked
for bucket index 3 with local depth 3, and `SplitBucket` returns false when
`local_depth == bucket_idx`. -/
theorem C2_insert_refused_below_max_depth :
    (run idHash 8 (emptyTable 9 1) [Insert 3 30]).map (fun r => r.1) = some [true] ∧
    ((run idHash 8 (emptyTable 9 1) [Insert 3 30]).bind
        fun r => GetValue idHash r.2 7) = some none ∧
    ((run idHash 8 (emptyTable 9 1) [Insert 3 30]).map
        fun r => (directories r.2).map (fun d => d.global_depth_)) = some [0] ∧
    (run idHash 8 (emptyTable 9 1) [Insert 3 30, Insert 7 70]).map (fun r => r.1)
        = some [true, false] ∧
    ((run idHash 8 (emptyTable 9 1) [Insert 3 30, Insert 7 70]).map
        fun r => (directories r.2).map (fun d => (d.global_depth_, d.max_depth_)))
        = some [(3, 9)] := by
  decide!

/-- On a pool that keeps every page resident, in every state of the index (reachable or
not): if `Insert(key, value)` returns true
then `GetValue(key)` on the resulting table returns true and appends exactly `value`; and
if `GetValue(key)` finds `old` then `Insert(key, value1)` returns false, leaves the table
as it is, and `GetValue(key)` still yields `old` only. -/
theorem insert_then_get_resident (hash_fn_ : K → Nat) (fuel : Nat)
    (ht : DiskExtendibleHashTable K V) (key : K) (value value1 : V) :
    (∀ ht1, Insert hash_fn_ fuel ht key value = some (true, ht1) →
      GetValue hash_fn_ ht1 key = some (some value)) ∧
    (∀ old, GetValue hash_fn_ ht key = some (some old) →
      ∃ ht1, Insert hash_fn_ (fuel + 1) ht key value1 = some (false, ht1) ∧
        GetValue hash_fn_ ht1 key = some (some old)) := by
  refine ⟨fun ht1 h => Insert_true_get hash_fn_ fuel ht ht1 key value h, ?_⟩
  intro old hold
  refine ⟨ht, ?_, hold⟩
  rw [DiskExtendibleHashTable.Insert]
  simp [hold]

/-- The lemma `insert_then_get_resident` at a concrete table: inserting key 0 into the empty
table gives `tableOne`, where
key 0 is found, and a second insert of key 0 is refused. -/
theorem insert_then_get_resident_example :
    Insert idHash 4 (emptyTable 1 2) 0 100 = some (true, tableOne) ∧
    GetValue idHash tableOne 0 = some (some 100) ∧
    ∃ ht1, Insert idHash 5 tableOne 0 7 = some (false, ht1) ∧
      GetValue idHash ht1 0 = some (some 100) :=
  ⟨by decide!,
   (insert_then_get_resident idHash 4 (emptyTable 1 2) 0 100 100).1 tableOne (by decide!),
   (insert_then_get_resident idHash 4 tableOne 0 100 7).2 100 (by decide!)⟩

/-- C4 (the code at a failing input): bucket size 2, identity hash, keys 0, 1, 3 inserted.
`GetValue(3)` returns 103 before `Remove(0)` and false after it, although key 3 was not the
key removed. -/
theorem C4_remove_changes_other_key :
    (run idHash 8 (emptyTable 3 2) [Insert 0 100, Insert 1 101, Insert 3 103]).map
        (fun r => r.1) = some [true, true, true] ∧
    ((run idHash 8 (emptyTable 3 2) [Insert 0 100, Insert 1 101, Insert 3 103]).bind
        fun r => GetValue idHash r.2 3) = some (some 103) ∧
    ((run idHash 8 (emptyTable 3 2) [Insert 0 100, Insert 1 101, Insert 3 103]).bind
        fun r => (Remove idHash r.2 0).map (fun x => x.1)) = some true ∧
    ((run idHash 8 (emptyTable 3 2) [Insert 0 100, Insert 1 101, Insert 3 103]).bind
        fun r => (Remove idHash r.2 0).bind (fun x => GetValue idHash x.2 3)) = some none := by
  decide!

/-- C5 (the code at a failing input): directory maximum depth 5, bucket size 2, identity
hash. After the nine inserts 5, 12, 13, 11, 4, 6, 10, 0, 8 (the last one returns true) the
directory has global depth 4 and every active local depth is below 4, so `can_shrink()` is
true at the return of an insert. -/
theorem C5_can_shrink_after_insert :
    (run idHash 8 (emptyTable 5 2)
        [Insert 5 0, Insert 12 0, Insert 13 0, Insert 11 0, Insert 4 0, Insert 6 0,
         Insert 10 0, Insert 0 0, Insert 8 0]).map (fun r => r.1)
      = some [true, true, true, true, true, false, true, true, true] ∧
    ((run idHash 8 (emptyTable 5 2)
        [Insert 5 0, Insert 12 0, Insert 13 0, Insert 11 0, Insert 4 0, Insert 6 0,
         Insert 10 0, Insert 0 0, Insert 8 0]).map
        fun r => (directories r.2).map
          (fun d => (d.global_depth_, d.local_depths_.take (1 <<< d.global_depth_),
                     d.CanShrink, directoryInvariant d)))
      = some [(4, [3, 2, 2, 2, 3, 2, 3, 2, 3, 2, 2, 2, 3, 2, 3, 2], true, false)] := by
  decide!

/-- C6 (the code at a failing input): directory maximum depth 9, bucket size 1, identity
hash. After `Insert(3)` and the refused `Insert(7)` the active slot 7 has local depth 3 and
refers to page 4, which stores key 3, and `3 & 7 = 3` differs from `7 & 7 = 7`. -/
theorem C6_locality_broken_after_insert :
    ((run idHash 8 (emptyTable 9 1) [Insert 3 30, Insert 7 70]).map
        fun r => (directories r.2).map
          (fun d => (d.global_depth_, d.GetLocalDepth 7, d.GetBucketPageId 7)))
      = some [(3, some 3, some 4)] ∧
    ((run idHash 8 (emptyTable 9 1) [Insert 3 30, Insert 7 70]).map
        fun r => r.2.bpm_.FetchBucket 4)
      = some (some { max_size_ := 1, array_ := [(3, 30)] }) ∧
    Hash idHash 3 &&& ((1 <<< 3) - 1) = 3 ∧ 7 &&& ((1 <<< 3) - 1) = 7 ∧
    ((run idHash 8 (emptyTable 9 1) [Insert 3 30, Insert 7 70]).map
        fun r => bucketLocality idHash r.2) = some false := by
  decide!

end HashIndexClaims

/-! ## LRU-K replacer: the entry map -/

theorem mapFind_mapPut (m : List (Int × FrameEntry)) (f g : Int) (e : FrameEntry) :
    mapFind (mapPut m f e) g = if g = f then some e else mapFind m g := by
  induction m with
  | nil =>
    by_cases h : g = f
    · simp [mapPut, mapFind, h]
    · have h1 : ¬ f = g := fun x => h x.symm
      simp [mapPut, mapFind, h, h1]
  | cons x rest ih =>
    obtain ⟨a, b⟩ := x
    by_cases haf : a = f
    · by_cases h : g = f
      · simp [mapPut, mapFind, haf, h]
      · have h1 : ¬ f = g := fun x => h x.symm
        simp [mapPut, mapFind, haf, h, h1]
    · by_cases hag : a = g
      · have h : ¬ g = f := fun x => haf (hag.trans x)
        simp [mapPut, mapFind, haf, hag, h]
      · simp [mapPut, mapFind, haf, hag, ih]

theorem mapFind_mapErase (m : List (Int × FrameEntry)) (f g : Int) :
    mapFind (mapErase m f) g = if g = f then none else mapFind m g := by
  induction m with
  | nil => simp [mapErase, mapFind]
  | cons x rest ih =>
    obtain ⟨a, b⟩ := x
    by_cases haf : a = f
    · by_cases h : g = f
      · subst h; simpa [mapErase, haf] using ih
      · have h1 : ¬ f = g := fun x => h x.symm
        simp [mapErase, mapFind, haf, h, h1, ih]
    · by_cases hag : a = g
      · have h : ¬ g = f := fun x => haf (hag.trans x)
        simp [mapErase, mapFind, haf, hag, h]
      · simp [mapErase, mapFind, haf, hag, ih]

theorem mapPut_self (m : List (Int × FrameEntry)) (f : Int) (e : FrameEntry)
    (h : mapFind m f = some e) : mapPut m f e = m := by
  induction m with
  | nil => simp [mapFind] at h
  | cons x rest ih =>
    obtain ⟨a, b⟩ := x
    by_cases haf : a = f
    · simp [mapFind, haf] at h
      simp [mapPut, haf, h]
    · simp [mapFind, haf] at h
      simp [mapPut, haf, ih h]

theorem mapTouch_of_tracked (m : List (Int × FrameEntry)) (f : Int) (e : FrameEntry)
    (h : mapFind m f = some e) : mapTouch m f = m := by
  unfold mapTouch entryOrDefault
  rw [h]; exact mapPut_self m f e h

namespace LRUKReplacer

/-- The test of the reverse scans of `Evict`. -/
theorem scanEvictable_of_tracked (l : List Int) (m : List (Int × FrameEntry))
    (h : ∀ f ∈ l, ∃ e, mapFind m f = some e) :
    scanEvictable l m =
      (l.find? (fun f => (entryOrDefault m f).is_evictable_),
       l.eraseP (fun f => (entryOrDefault m f).is_evictable_), m) := by
  induction l with
  | nil => simp [scanEvictable]
  | cons x rest ih =>
    obtain ⟨e, he⟩ := h x (List.mem_cons_self _ _)
    have ht := mapTouch_of_tracked m x e he
    have ih1 := ih (fun f hf => h f (List.mem_cons_of_mem _ hf))
    unfold scanEvictable
    by_cases hp : (entryOrDefault m x).is_evictable_ = true
    · simp [hp, ht]
    · simp [hp, ht, ih1]

end LRUKReplacer

theorem eraseP_of_find {p : Int → Bool} (l : List Int) (f : Int)
    (h : l.find? p = some f) : l.eraseP p = l.erase f := by
  induction l with
  | nil => simp at h
  | cons x rest ih =>
    by_cases hp : p x = true
    · simp [List.find?_cons, hp] at h
      subst h
      simp [List.eraseP_cons, hp]
    · simp [List.find?_cons, hp] at h
      have hpf : p f = true := List.find?_some h
      have hne : x ≠ f := fun hx => hp (hx ▸ hpf)
      simp [List.eraseP_cons, hp, ih h, List.erase_cons, hne]

theorem find_reverse_pairwise {R : Int → Int → Prop} {p : Int → Bool} (l : List Int) (f : Int)
    (hR : l.Pairwise R) (h : l.reverse.find? p = some f) :
    ∀ g ∈ l, p g = true → g ≠ f → R g f := by
  induction l with
  | nil => simp at h
  | cons x rest ih =>
    rw [List.pairwise_cons] at hR
    rw [List.reverse_cons, List.find?_append] at h
    cases hr : rest.reverse.find? p with
    | some f1 =>
      rw [hr] at h
      simp at h
      subst h
      intro g hg hpg hne
      rcases List.mem_cons.1 hg with rfl | hg
      · exact hR.1 _ (List.mem_reverse.1 (List.mem_of_find?_eq_some hr))
      · exact ih hR.2 hr g hg hpg hne
    | none =>
      rw [hr] at h
      simp only [Option.none_or] at h
      have hx : x = f := by
        by_cases hp : p x = true
        · simpa [List.find?_cons, hp] using h
        · simp [List.find?_cons, hp] at h
      intro g hg hpg hne
      rcases List.mem_cons.1 hg with rfl | hg
      · exact absurd hx hne
      · rw [List.find?_eq_none] at hr
        have := hr g (List.mem_reverse.2 hg)
        simp [hpg] at this

namespace TimedReplacer

theorem Inv.hist_nodup {t : TimedReplacer} (h : t.Inv) : t.r.history_list_.Nodup := by
  refine List.Pairwise.imp ?_ h.hist_sorted
  intro a b hab he
  subst he
  exact absurd hab (lt_irrefl _)

theorem Inv.lru_nodup {t : TimedReplacer} (h : t.Inv) : t.r.lru_list_.Nodup := by
  refine List.Pairwise.imp ?_ h.lru_sorted
  intro a b hab he
  subst he
  exact absurd hab (lt_irrefl _)

theorem Inv.at_new (num_frames k : Nat) (hk : 2 ≤ k) : (TimedReplacer.new num_frames k).Inv := by
  constructor <;> simp [TimedReplacer.new, LRUKReplacer.new, mapFind, hk]

/-- A successful `RecordAccess` keeps the bookkeeping. -/
theorem Inv.after_recordAccess {t : TimedReplacer} (hinv : t.Inv) (f : Int) (r1 : LRUKReplacer)
    (hra : t.r.RecordAccess f = Except.ok r1) :
    Inv { r := r1, clock := t.clock + 1,
          entered := fun g =>
            if g = f ∧ (entryOrDefault t.r.entries_ f).hit_count_ + 1 = 1 then t.clock
            else t.entered g,
          last := fun g => if g = f then t.clock else t.last g } := by
  have hk := hinv.k_ge
  unfold LRUKReplacer.RecordAccess at hra
  by_cases hrange : f > static_cast_int t.r.replacer_size_
  · simp [hrange] at hra
  simp only [hrange, if_false] at hra
  cases hfind : mapFind t.r.entries_ f with
  | none =>
    have hnh : f ∉ t.r.history_list_ := by
      intro hm; obtain ⟨e, he, _⟩ := (hinv.hist_iff f).1 hm; rw [hfind] at he; cases he
    have hnl : f ∉ t.r.lru_list_ := by
      intro hm; obtain ⟨e, he, _⟩ := (hinv.lru_iff f).1 hm; rw [hfind] at he; cases he
    have hd : entryOrDefault t.r.entries_ f = { hit_count_ := 0, is_evictable_ := false } := by
      simp [entryOrDefault, hfind]
    simp only [hd, zero_add, if_true, Except.ok.injEq] at hra
    subst hra
    constructor
    · exact hk
    · intro g e hg
      simp only [mapFind_mapPut] at hg
      by_cases hgf : g = f
      · simp [hgf] at hg; subst hg; simp
      · simp [hgf] at hg; exact hinv.count_pos g e hg
    · intro g
      simp only [mapFind_mapPut, List.mem_cons]
      by_cases hgf : g = f
      · subst hgf; simp; omega
      · simp [hgf]; exact hinv.hist_iff g
    · intro g
      simp only [mapFind_mapPut]
      by_cases hgf : g = f
      · subst hgf; simp [hnl]; omega
      · simp [hgf]; exact hinv.lru_iff g
    · simp only [hd, zero_add, and_true]
      rw [List.pairwise_cons]
      constructor
      · intro b hb
        have hbf : b ≠ f := fun h => hnh (h ▸ hb)
        simp [hbf]; exact hinv.hist_clock b hb
      · refine List.Pairwise.imp_of_mem ?_ hinv.hist_sorted
        intro a b ha hb hab
        have haf : a ≠ f := fun h => hnh (h ▸ ha)
        have hbf : b ≠ f := fun h => hnh (h ▸ hb)
        simpa [haf, hbf] using hab
    · refine List.Pairwise.imp_of_mem ?_ hinv.lru_sorted
      intro a b ha hb hab
      have haf : a ≠ f := fun h => hnl (h ▸ ha)
      have hbf : b ≠ f := fun h => hnl (h ▸ hb)
      simpa [haf, hbf] using hab
    · intro g hg
      simp only [hd, zero_add, and_true]
      rcases List.mem_cons.1 hg with rfl | hg
      · simp
      · have hgf : g ≠ f := fun h => hnh (h ▸ hg)
        have := hinv.hist_clock g hg
        simp [hgf]; omega
    · intro g hg
      have hgf : g ≠ f := fun h => hnl (h ▸ hg)
      have := hinv.lru_clock g hg
      simp [hgf]; omega
  | some e =>
    have hpos := hinv.count_pos f e hfind
    have hd : entryOrDefault t.r.entries_ f = e := by simp [entryOrDefault, hfind]
    have hne1 : ¬ (e.hit_count_ + 1 = 1) := by omega
    simp only [hd, hne1, if_false] at hra
    have hent : (fun g => if g = f ∧ (entryOrDefault t.r.entries_ f).hit_count_ + 1 = 1
        then t.clock else t.entered g) = t.entered := by
      funext g; simp [hd, hne1]
    rw [hent]
    by_cases hk1 : e.hit_count_ + 1 = t.r.k_
    · -- moves from the history list to the front of the cached list
      have hmh : f ∈ t.r.history_list_ := (hinv.hist_iff f).2 ⟨e, hfind, by omega⟩
      have hnl : f ∉ t.r.lru_list_ := by
        intro hm; obtain ⟨e1, he1, hc⟩ := (hinv.lru_iff f).1 hm
        rw [hfind] at he1; cases he1; omega
      simp only [hk1, hmh, if_true, Except.ok.injEq] at hra
      subst hra
      constructor
      · exact hk
      · intro g e1 hg
        simp only [mapFind_mapPut] at hg
        by_cases hgf : g = f
        · simp [hgf] at hg; subst hg; simp; omega
        · simp [hgf] at hg; exact hinv.count_pos g e1 hg
      · intro g
        simp only [mapFind_mapPut, hinv.hist_nodup.mem_erase_iff]
        by_cases hgf : g = f
        · subst hgf; simp
        · simp [hgf]; exact hinv.hist_iff g
      · intro g
        simp only [mapFind_mapPut, List.mem_cons]
        by_cases hgf : g = f
        · subst hgf; simp
        · simp [hgf]; exact hinv.lru_iff g
      · exact hinv.hist_sorted.sublist (List.erase_sublist _ _)
      · rw [List.pairwise_cons]
        constructor
        · intro b hb
          have hbf : b ≠ f := fun h => hnl (h ▸ hb)
          simp [hbf]; exact hinv.lru_clock b hb
        · refine List.Pairwise.imp_of_mem ?_ hinv.lru_sorted
          intro a b ha hb hab
          have haf : a ≠ f := fun h => hnl (h ▸ ha)
          have hbf : b ≠ f := fun h => hnl (h ▸ hb)
          simpa [haf, hbf] using hab
      · intro g hg
        have := hinv.hist_clock g (List.mem_of_mem_erase hg)
        simp only; omega
      · intro g hg
        rcases List.mem_cons.1 hg with rfl | hg
        · simp
        · have hgf : g ≠ f := fun h => hnl (h ▸ hg)
          have := hinv.lru_clock g hg
          simp [hgf]; omega
    · simp only [hk1, if_false] at hra
      by_cases hk2 : e.hit_count_ + 1 > t.r.k_
      · -- moves to the front of the cached list
        have hml : f ∈ t.r.lru_list_ := (hinv.lru_iff f).2 ⟨e, hfind, by omega⟩
        simp only [hk2, hml, if_true, Except.ok.injEq] at hra
        subst hra
        constructor
        · exact hk
        · intro g e1 hg
          simp only [mapFind_mapPut] at hg
          by_cases hgf : g = f
          · simp [hgf] at hg; subst hg; simp
          · simp [hgf] at hg; exact hinv.count_pos g e1 hg
        · intro g
          simp only [mapFind_mapPut]
          by_cases hgf : g = f
          · subst hgf
            have : g ∉ t.r.history_list_ := by
              intro hm; obtain ⟨e1, he1, hc⟩ := (hinv.hist_iff g).1 hm
              rw [hfind] at he1; cases he1; omega
            simp [this]; omega
          · simp [hgf]; exact hinv.hist_iff g
        · intro g
          simp only [mapFind_mapPut, List.mem_cons, hinv.lru_nodup.mem_erase_iff]
          by_cases hgf : g = f
          · subst hgf; simp; omega
          · simp [hgf]; exact hinv.lru_iff g
        · exact hinv.hist_sorted
        · rw [List.pairwise_cons]
          constructor
          · intro b hb
            have hbf : b ≠ f := ((hinv.lru_nodup.mem_erase_iff).1 hb).1
            simp [hbf]; exact hinv.lru_clock b (List.mem_of_mem_erase hb)
          · refine List.Pairwise.imp_of_mem ?_
              (hinv.lru_sorted.sublist (List.erase_sublist _ _))
            intro a b ha hb hab
            have haf : a ≠ f := ((hinv.lru_nodup.mem_erase_iff).1 ha).1
            have hbf : b ≠ f := ((hinv.lru_nodup.mem_erase_iff).1 hb).1
            simpa [haf, hbf] using hab
        · intro g hg
          have := hinv.hist_clock g hg
          simp only; omega
        · intro g hg
          rcases List.mem_cons.1 hg with rfl | hg
          · simp
          · have hgf : g ≠ f := ((hinv.lru_nodup.mem_erase_iff).1 hg).1
            have := hinv.lru_clock g (List.mem_of_mem_erase hg)
            simp [hgf]; omega
      · -- stays where it is in the history list
        simp only [hk2, if_false, Except.ok.injEq] at hra
        subst hra
        have hnl : f ∉ t.r.lru_list_ := by
          intro hm; obtain ⟨e1, he1, hc⟩ := (hinv.lru_iff f).1 hm
          rw [hfind] at he1; cases he1; omega
        constructor
        · exact hk
        · intro g e1 hg
          simp only [mapFind_mapPut] at hg
          by_cases hgf : g = f
          · simp [hgf] at hg; subst hg; simp
          · simp [hgf] at hg; exact hinv.count_pos g e1 hg
        · intro g
          simp only [mapFind_mapPut]
          by_cases hgf : g = f
          · subst hgf
            have : g ∈ t.r.history_list_ := (hinv.hist_iff g).2 ⟨e, hfind, by omega⟩
            simp [this]; omega
          · simp [hgf]; exact hinv.hist_iff g
        · intro g
          simp only [mapFind_mapPut]
          by_cases hgf : g = f
          · subst hgf; simp [hnl]; omega
          · simp [hgf]; exact hinv.lru_iff g
        · exact hinv.hist_sorted
        · refine List.Pairwise.imp_of_mem ?_ hinv.lru_sorted
          intro a b ha hb hab
          have haf : a ≠ f := fun h => hnl (h ▸ ha)
          have hbf : b ≠ f := fun h => hnl (h ▸ hb)
          simpa [haf, hbf] using hab
        · intro g hg
          have := hinv.hist_clock g hg
          simp only; omega
        · intro g hg
          have hgf : g ≠ f := fun h => hnl (h ▸ hg)
          have := hinv.lru_clock g hg
          simp [hgf]; omega

/-- With `k ≥ 2` and the bookkeeping in place `RecordAccess` never erases through an
iterator of the wrong list. -/
theorem Inv.recordAccess_is_defined {t : TimedReplacer} (hinv : t.Inv) (f : Int) :
    t.r.RecordAccess f ≠ Except.error LRUKError.undefined := by
  have hk := hinv.k_ge
  unfold LRUKReplacer.RecordAccess
  by_cases hrange : f > static_cast_int t.r.replacer_size_
  · simp [hrange]
  simp only [hrange, if_false]
  cases hfind : mapFind t.r.entries_ f with
  | none =>
    have hd : entryOrDefault t.r.entries_ f = { hit_count_ := 0, is_evictable_ := false } := by
      simp [entryOrDefault, hfind]
    simp [hd]
  | some e =>
    have hpos := hinv.count_pos f e hfind
    have hd : entryOrDefault t.r.entries_ f = e := by simp [entryOrDefault, hfind]
    have hne1 : ¬ (e.hit_count_ + 1 = 1) := by omega
    simp only [hd, hne1, if_false]
    by_cases hk1 : e.hit_count_ + 1 = t.r.k_
    · have hmh : f ∈ t.r.history_list_ := (hinv.hist_iff f).2 ⟨e, hfind, by omega⟩
      simp [hk1, hmh]
    · by_cases hk2 : e.hit_count_ + 1 > t.r.k_
      · have hml : f ∈ t.r.lru_list_ := (hinv.lru_iff f).2 ⟨e, hfind, by omega⟩
        simp [hk1, hk2, hml]
      · simp [hk1, hk2]

/-- The call `SetEvictable` keeps the bookkeeping and is always defined. -/
theorem Inv.after_setEvictable {t : TimedReplacer} (hinv : t.Inv) (f : Int) (b : Bool) :
    t.r.SetEvictable f b ≠ Except.error LRUKError.undefined ∧
    ∀ r1, t.r.SetEvictable f b = Except.ok r1 → Inv { t with r := r1 } := by
  unfold LRUKReplacer.SetEvictable
  by_cases hrange : f > static_cast_int t.r.replacer_size_
  · simp [hrange]
  simp only [hrange, if_false]
  cases hfind : mapFind t.r.entries_ f with
  | none =>
    refine ⟨by simp, ?_⟩
    intro r1 h
    simp only [Except.ok.injEq] at h
    subst h
    exact hinv
  | some e =>
    refine ⟨by simp, ?_⟩
    intro r1 h
    simp only [Except.ok.injEq] at h
    subst h
    constructor
    · exact hinv.k_ge
    · intro g e1 hg
      simp only [mapFind_mapPut] at hg
      by_cases hgf : g = f
      · simp [hgf] at hg; subst hg; exact hinv.count_pos f e hfind
      · simp [hgf] at hg; exact hinv.count_pos g e1 hg
    · intro g
      simp only [mapFind_mapPut]
      by_cases hgf : g = f
      · subst hgf
        rw [hinv.hist_iff g, hfind]; simp
      · simp [hgf]; exact hinv.hist_iff g
    · intro g
      simp only [mapFind_mapPut]
      by_cases hgf : g = f
      · subst hgf
        rw [hinv.lru_iff g, hfind]; simp
      · simp [hgf]; exact hinv.lru_iff g
    · exact hinv.hist_sorted
    · exact hinv.lru_sorted
    · exact hinv.hist_clock
    · exact hinv.lru_clock

/-- Erasing a frame from its list and from the entry map keeps the bookkeeping; this is
what `Evict` and `Remove` do to the lists and the map. -/
theorem Inv.erase_history {t : TimedReplacer} (hinv : t.Inv) (f : Int) (c : Nat)
    (hf : f ∈ t.r.history_list_) :
    Inv { t with r := { t.r with history_list_ := t.r.history_list_.erase f,
                                 curr_size_ := c,
                                 entries_ := mapErase t.r.entries_ f } } := by
  have hnl : f ∉ t.r.lru_list_ := by
    intro hm
    obtain ⟨e1, he1, hc1⟩ := (hinv.lru_iff f).1 hm
    obtain ⟨e2, he2, hc2⟩ := (hinv.hist_iff f).1 hf
    rw [he1] at he2; cases he2; omega
  constructor
  · exact hinv.k_ge
  · intro g e1 hg
    simp only [mapFind_mapErase] at hg
    by_cases hgf : g = f
    · simp [hgf] at hg
    · simp [hgf] at hg; exact hinv.count_pos g e1 hg
  · intro g
    simp only [mapFind_mapErase, hinv.hist_nodup.mem_erase_iff]
    by_cases hgf : g = f
    · simp [hgf]
    · simp [hgf]; exact hinv.hist_iff g
  · intro g
    simp only [mapFind_mapErase]
    by_cases hgf : g = f
    · subst hgf; simp [hnl]
    · simp [hgf]; exact hinv.lru_iff g
  · exact hinv.hist_sorted.sublist (List.erase_sublist _ _)
  · exact hinv.lru_sorted
  · intro g hg; exact hinv.hist_clock g (List.mem_of_mem_erase hg)
  · exact hinv.lru_clock

theorem Inv.erase_lru {t : TimedReplacer} (hinv : t.Inv) (f : Int) (c : Nat)
    (hf : f ∈ t.r.lru_list_) :
    Inv { t with r := { t.r with lru_list_ := t.r.lru_list_.erase f,
                                 curr_size_ := c,
                                 entries_ := mapErase t.r.entries_ f } } := by
  have hnh : f ∉ t.r.history_list_ := by
    intro hm
    obtain ⟨e1, he1, hc1⟩ := (hinv.lru_iff f).1 hf
    obtain ⟨e2, he2, hc2⟩ := (hinv.hist_iff f).1 hm
    rw [he1] at he2; cases he2; omega
  constructor
  · exact hinv.k_ge
  · intro g e1 hg
    simp only [mapFind_mapErase] at hg
    by_cases hgf : g = f
    · simp [hgf] at hg
    · simp [hgf] at hg; exact hinv.count_pos g e1 hg
  · intro g
    simp only [mapFind_mapErase]
    by_cases hgf : g = f
    · subst hgf; simp [hnh]
    · simp [hgf]; exact hinv.hist_iff g
  · intro g
    simp only [mapFind_mapErase, hinv.lru_nodup.mem_erase_iff]
    by_cases hgf : g = f
    · simp [hgf]
    · simp [hgf]; exact hinv.lru_iff g
  · exact hinv.hist_sorted
  · exact hinv.lru_sorted.sublist (List.erase_sublist _ _)
  · exact hinv.hist_clock
  · intro g hg; exact hinv.lru_clock g (List.mem_of_mem_erase hg)

/-- The call `Remove` keeps the bookkeeping and is always defined. -/
theorem Inv.after_remove {t : TimedReplacer} (hinv : t.Inv) (f : Int) :
    t.r.Remove f ≠ Except.error LRUKError.undefined ∧
    ∀ r1, t.r.Remove f = Except.ok r1 → Inv { t with r := r1 } := by
  unfold LRUKReplacer.Remove
  by_cases hrange : f > static_cast_int t.r.replacer_size_
  · simp [hrange]
  simp only [hrange, if_false]
  cases hfind : mapFind t.r.entries_ f with
  | none =>
    refine ⟨by simp, ?_⟩
    intro r1 h
    simp only [Except.ok.injEq] at h
    subst h
    exact hinv
  | some e =>
    by_cases hev : e.is_evictable_ = true
    · by_cases hc : e.hit_count_ < t.r.k_
      · have hmh : f ∈ t.r.history_list_ := (hinv.hist_iff f).2 ⟨e, hfind, hc⟩
        refine ⟨by simp [hev, hc, hmh], ?_⟩
        intro r1 h
        simp only [hev, hc, hmh, Bool.not_true, if_true, Except.ok.injEq] at h
        simp at h
        subst h
        exact hinv.erase_history f _ hmh
      · have hml : f ∈ t.r.lru_list_ := (hinv.lru_iff f).2 ⟨e, hfind, by omega⟩
        refine ⟨by simp [hev, hc, hml], ?_⟩
        intro r1 h
        simp only [hev, hc, hml, Bool.not_true, if_true, if_false, Except.ok.injEq] at h
        simp at h
        subst h
        exact hinv.erase_lru f _ hml
    · refine ⟨by simp [hev], ?_⟩
      intro r1 h
      simp [hev] at h

/-- What the two scans of `Evict` compute when every list element has an entry. -/
theorem Inv.evict_unfold {t : TimedReplacer} (hinv : t.Inv) :
    t.r.Evict =
      match t.r.history_list_.reverse.find? (fun f => (entryOrDefault t.r.entries_ f).is_evictable_) with
      | some f =>
        (some f, { t.r with history_list_ := t.r.history_list_.erase f,
                            entries_ := mapErase t.r.entries_ f,
                            curr_size_ := decrSize t.r.curr_size_ })
      | none =>
        match t.r.lru_list_.reverse.find? (fun f => (entryOrDefault t.r.entries_ f).is_evictable_) with
        | some f =>
          (some f, { t.r with lru_list_ := t.r.lru_list_.erase f,
                              entries_ := mapErase t.r.entries_ f,
                              curr_size_ := decrSize t.r.curr_size_ })
        | none => (none, t.r) := by
  have h1 : ∀ f ∈ t.r.history_list_.reverse, ∃ e, mapFind t.r.entries_ f = some e := by
    intro f hf
    obtain ⟨e, he, _⟩ := (hinv.hist_iff f).1 (List.mem_reverse.1 hf)
    exact ⟨e, he⟩
  have h2 : ∀ f ∈ t.r.lru_list_.reverse, ∃ e, mapFind t.r.entries_ f = some e := by
    intro f hf
    obtain ⟨e, he, _⟩ := (hinv.lru_iff f).1 (List.mem_reverse.1 hf)
    exact ⟨e, he⟩
  unfold LRUKReplacer.Evict
  simp only [LRUKReplacer.scanEvictable_of_tracked _ _ h1,
    LRUKReplacer.scanEvictable_of_tracked _ _ h2]
  cases hf1 : t.r.history_list_.reverse.find?
      (fun f => (entryOrDefault t.r.entries_ f).is_evictable_) with
  | some f =>
    simp only [eraseP_of_find _ f hf1]
    have : (t.r.history_list_.reverse.erase f).reverse = t.r.history_list_.erase f := by
      have hn := hinv.hist_nodup
      rw [hn.erase_eq_filter, (List.nodup_reverse.2 hn).erase_eq_filter,
        List.filter_reverse, List.reverse_reverse]
    rw [this]
  | none =>
    simp only
    cases hf2 : t.r.lru_list_.reverse.find?
        (fun f => (entryOrDefault t.r.entries_ f).is_evictable_) with
    | some f =>
      simp only [eraseP_of_find _ f hf2]
      have : (t.r.lru_list_.reverse.erase f).reverse = t.r.lru_list_.erase f := by
        have hn := hinv.lru_nodup
        rw [hn.erase_eq_filter, (List.nodup_reverse.2 hn).erase_eq_filter,
          List.filter_reverse, List.reverse_reverse]
      rw [this]
    | none => simp only

/-- The call `Evict` keeps the bookkeeping. -/
theorem Inv.after_evict {t : TimedReplacer} (hinv : t.Inv) : Inv { t with r := t.r.Evict.2 } := by
  rw [hinv.evict_unfold]
  cases hf1 : t.r.history_list_.reverse.find?
      (fun f => (entryOrDefault t.r.entries_ f).is_evictable_) with
  | some f =>
    exact hinv.erase_history f _ (List.mem_reverse.1 (List.mem_of_find?_eq_some hf1))
  | none =>
    simp only
    cases hf2 : t.r.lru_list_.reverse.find?
        (fun f => (entryOrDefault t.r.entries_ f).is_evictable_) with
    | some f =>
      exact hinv.erase_lru f _ (List.mem_reverse.1 (List.mem_of_find?_eq_some hf2))
    | none => exact hinv

/-- Every client call on a replacer with `k ≥ 2` is defined and keeps the bookkeeping. -/
theorem Inv.after_step {t : TimedReplacer} (hinv : t.Inv) (op : ReplacerOp) :
    ∃ t1, t.step op = some t1 ∧ t1.Inv := by
  cases op with
  | RecordAccess f =>
    cases hra : t.r.RecordAccess f with
    | ok r1 =>
      exact ⟨_, by simp only [TimedReplacer.step, hra], hinv.after_recordAccess f r1 hra⟩
    | error e =>
      cases e with
      | undefined => exact absurd hra (hinv.recordAccess_is_defined f)
      | invalid_argument => exact ⟨t, by simp only [TimedReplacer.step, hra], hinv⟩
      | logic_error => exact ⟨t, by simp only [TimedReplacer.step, hra], hinv⟩
  | SetEvictable f b =>
    cases hra : t.r.SetEvictable f b with
    | ok r1 =>
      exact ⟨_, by simp only [TimedReplacer.step, hra], (hinv.after_setEvictable f b).2 r1 hra⟩
    | error e =>
      cases e with
      | undefined => exact absurd hra (hinv.after_setEvictable f b).1
      | invalid_argument => exact ⟨t, by simp only [TimedReplacer.step, hra], hinv⟩
      | logic_error => exact ⟨t, by simp only [TimedReplacer.step, hra], hinv⟩
  | Evict => exact ⟨_, rfl, hinv.after_evict⟩
  | Remove f =>
    cases hra : t.r.Remove f with
    | ok r1 =>
      exact ⟨_, by simp only [TimedReplacer.step, hra], (hinv.after_remove f).2 r1 hra⟩
    | error e =>
      cases e with
      | undefined => exact absurd hra (hinv.after_remove f).1
      | invalid_argument => exact ⟨t, by simp only [TimedReplacer.step, hra], hinv⟩
      | logic_error => exact ⟨t, by simp only [TimedReplacer.step, hra], hinv⟩

/-- Every sequence of client calls on a replacer with `k ≥ 2` is defined and ends in a state
with the bookkeeping in place. -/
theorem Inv.after_run {t : TimedReplacer} (hinv : t.Inv) (ops : List ReplacerOp) :
    ∃ t1, t.run ops = some t1 ∧ t1.Inv := by
  induction ops generalizing t with
  | nil => exact ⟨t, rfl, hinv⟩
  | cons op rest ih =>
    obtain ⟨t1, h1, hinv1⟩ := hinv.after_step op
    obtain ⟨t2, h2, hinv2⟩ := ih hinv1
    exact ⟨t2, by simp [TimedReplacer.run, h1, h2], hinv2⟩

theorem isEvictable_eq (r : LRUKReplacer) (f : Int) :
    r.isEvictable f = (entryOrDefault r.entries_ f).is_evictable_ := by
  unfold LRUKReplacer.isEvictable entryOrDefault
  cases mapFind r.entries_ f <;> rfl

theorem Inv.evictsOldest {t : TimedReplacer} (hinv : t.Inv) : t.EvictsOldest := by
  have hp : (fun f => (entryOrDefault t.r.entries_ f).is_evictable_) = t.r.isEvictable := by
    funext f; exact (isEvictable_eq t.r f).symm
  have heq := hinv.evict_unfold
  rw [hp] at heq
  constructor
  · rintro ⟨g, hg, hge⟩
    cases hf1 : t.r.history_list_.reverse.find? t.r.isEvictable with
    | none =>
      rw [List.find?_eq_none] at hf1
      exact absurd hge (hf1 g (List.mem_reverse.2 hg))
    | some f =>
      have hmem : f ∈ t.r.history_list_ := List.mem_reverse.1 (List.mem_of_find?_eq_some hf1)
      refine ⟨f, by rw [heq, hf1], hmem, List.find?_some hf1, ?_, ?_⟩
      · obtain ⟨e, he, hc⟩ := (hinv.hist_iff f).1 hmem
        simp [LRUKReplacer.hitCount, he, hc]
      · exact find_reverse_pairwise _ f hinv.hist_sorted hf1
  · intro hno hex
    obtain ⟨g, hg, hge⟩ := hex
    have hf1 : t.r.history_list_.reverse.find? t.r.isEvictable = none := by
      rw [List.find?_eq_none]
      intro x hx hxe
      exact hno ⟨x, List.mem_reverse.1 hx, hxe⟩
    cases hf2 : t.r.lru_list_.reverse.find? t.r.isEvictable with
    | none =>
      rw [List.find?_eq_none] at hf2
      exact absurd hge (hf2 g (List.mem_reverse.2 hg))
    | some f =>
      have hmem : f ∈ t.r.lru_list_ := List.mem_reverse.1 (List.mem_of_find?_eq_some hf2)
      refine ⟨f, by rw [heq, hf1]; simp only [hf2], hmem, List.find?_some hf2, ?_⟩
      exact find_reverse_pairwise _ f hinv.lru_sorted hf2

theorem Inv.evictsLeastRecent {t : TimedReplacer} (hinv : t.Inv) : t.EvictsLeastRecent := by
  intro hall hex
  have hlru : ∀ g, t.r.isEvictable g = true → g ∈ t.r.lru_list_ := by
    intro g hg
    have hc := hall g hg
    unfold LRUKReplacer.isEvictable at hg
    unfold LRUKReplacer.hitCount at hc
    cases hfind : mapFind t.r.entries_ g with
    | none => simp [hfind] at hg
    | some e =>
      simp only [hfind] at hc
      exact (hinv.lru_iff g).2 ⟨e, hfind, hc⟩
  have hno : ¬ ∃ g ∈ t.r.history_list_, t.r.isEvictable g = true := by
    rintro ⟨g, hg, hge⟩
    obtain ⟨e1, he1, hc1⟩ := (hinv.hist_iff g).1 hg
    obtain ⟨e2, he2, hc2⟩ := (hinv.lru_iff g).1 (hlru g hge)
    rw [he1] at he2; cases he2; omega
  obtain ⟨g0, hg0⟩ := hex
  obtain ⟨f, hf, _, hfe, hord⟩ := hinv.evictsOldest.2 hno ⟨g0, hlru g0 hg0, hg0⟩
  exact ⟨f, hf, hfe, fun g hg hne => hord g (hlru g hg) hg hne⟩

theorem hitCount_eq (r : LRUKReplacer) (f : Int) :
    r.hitCount f = (entryOrDefault r.entries_ f).hit_count_ := by
  unfold LRUKReplacer.hitCount entryOrDefault
  cases mapFind r.entries_ f <;> rfl

theorem entryOrDefault_mapPut (m : List (Int × FrameEntry)) (f g : Int) (e : FrameEntry) :
    entryOrDefault (mapPut m f e) g = if g = f then e else entryOrDefault m g := by
  unfold entryOrDefault
  rw [mapFind_mapPut]
  by_cases h : g = f <;> simp [h]

/-- What a `RecordAccess` that returns does, for `k ≥ 2`: the hit count of the frame goes up
by one and no other hit count changes; a first access puts the frame at the front of the
history list; the `k`-th access takes it off the history list and puts it at the front of
the cached list; a later access moves it to the front of the cached list; an access in
between leaves both lists alone; no evictable flag and not `Size()` changes. -/
theorem recordAccess_effect (r r1 : LRUKReplacer) (f : Int) (hk : 2 ≤ r.k_)
    (h : r.RecordAccess f = Except.ok r1) :
    r1.hitCount f = r.hitCount f + 1 ∧
    (∀ g, g ≠ f → r1.hitCount g = r.hitCount g) ∧
    (r1.hitCount f = 1 →
      r1.history_list_ = f :: r.history_list_ ∧ r1.lru_list_ = r.lru_list_) ∧
    (r1.hitCount f = r.k_ →
      r1.history_list_ = r.history_list_.erase f ∧ r1.lru_list_ = f :: r.lru_list_) ∧
    (r.k_ < r1.hitCount f →
      r1.history_list_ = r.history_list_ ∧ r1.lru_list_ = f :: r.lru_list_.erase f) ∧
    (1 < r1.hitCount f → r1.hitCount f < r.k_ →
      r1.history_list_ = r.history_list_ ∧ r1.lru_list_ = r.lru_list_) ∧
    (∀ g, r1.isEvictable g = r.isEvictable g) ∧
    r1.Size = r.Size ∧ r1.k_ = r.k_ ∧ r1.replacer_size_ = r.replacer_size_ := by
  unfold LRUKReplacer.RecordAccess at h
  by_cases hrange : f > static_cast_int r.replacer_size_
  · simp [hrange] at h
  simp only [hrange, if_false] at h
  have hev : ∀ (g : Int) (c : Nat),
      (entryOrDefault (mapPut r.entries_ f
        { entryOrDefault r.entries_ f with hit_count_ := c }) g).is_evictable_
        = (entryOrDefault r.entries_ g).is_evictable_ := by
    intro g c
    rw [entryOrDefault_mapPut]
    by_cases hg : g = f
    · simp [hg]
    · simp [hg]
  have hcnt : ∀ (g : Int) (c : Nat),
      (entryOrDefault (mapPut r.entries_ f
        { entryOrDefault r.entries_ f with hit_count_ := c }) g).hit_count_
        = if g = f then c else (entryOrDefault r.entries_ g).hit_count_ := by
    intro g c
    rw [entryOrDefault_mapPut]
    by_cases hg : g = f
    · simp [hg]
    · simp [hg]
  have close : ∀ (h0 l0 h1 l1 : List Int) (c : Nat),
      c = (entryOrDefault r.entries_ f).hit_count_ + 1 →
      (c = 1 → h1 = f :: h0 ∧ l1 = l0) →
      (c = r.k_ → h1 = h0.erase f ∧ l1 = f :: l0) →
      (r.k_ < c → h1 = h0 ∧ l1 = f :: l0.erase f) →
      (1 < c → c < r.k_ → h1 = h0 ∧ l1 = l0) →
      h0 = r.history_list_ → l0 = r.lru_list_ →
      ∀ r1 : LRUKReplacer, r1 = { r with
          entries_ := mapPut r.entries_ f { entryOrDefault r.entries_ f with hit_count_ := c },
          history_list_ := h1, lru_list_ := l1 } →
      r1.hitCount f = r.hitCount f + 1 ∧
      (∀ g, g ≠ f → r1.hitCount g = r.hitCount g) ∧
      (r1.hitCount f = 1 →
        r1.history_list_ = f :: r.history_list_ ∧ r1.lru_list_ = r.lru_list_) ∧
      (r1.hitCount f = r.k_ →
        r1.history_list_ = r.history_list_.erase f ∧ r1.lru_list_ = f :: r.lru_list_) ∧
      (r.k_ < r1.hitCount f →
        r1.history_list_ = r.history_list_ ∧ r1.lru_list_ = f :: r.lru_list_.erase f) ∧
      (1 < r1.hitCount f → r1.hitCount f < r.k_ →
        r1.history_list_ = r.history_list_ ∧ r1.lru_list_ = r.lru_list_) ∧
      (∀ g, r1.isEvictable g = r.isEvictable g) ∧
      r1.Size = r.Size ∧ r1.k_ = r.k_ ∧ r1.replacer_size_ = r.replacer_size_ := by
    intro h0 l0 h1 l1 c hc a1 a2 a3 a4 e0 e1 r1 hr1
    subst hr1 e0 e1
    have hcf : ({ r with
          entries_ := mapPut r.entries_ f { entryOrDefault r.entries_ f with hit_count_ := c },
          history_list_ := h1, lru_list_ := l1 } : LRUKReplacer).hitCount f = c := by
      rw [hitCount_eq]; simp only [hcnt, if_true]
    refine ⟨?_, ?_, ?_, ?_, ?_, ?_, ?_, rfl, rfl, rfl⟩
    · rw [hcf, hitCount_eq, hc]
    · intro g hg
      rw [hitCount_eq, hitCount_eq]; simp only [hcnt, hg, if_false]
    · rw [hcf]; exact a1
    · rw [hcf]; exact a2
    · rw [hcf]; exact a3
    · rw [hcf]; exact a4
    · intro g
      rw [isEvictable_eq, isEvictable_eq]; exact hev g c
  by_cases h1 : (entryOrDefault r.entries_ f).hit_count_ + 1 = 1
  · simp only [h1, if_true, Except.ok.injEq] at h
    refine close r.history_list_ r.lru_list_ _ _ _ h1.symm (fun _ => ⟨rfl, rfl⟩) ?_ ?_ ?_
      rfl rfl r1 h.symm
    · intro hc; omega
    · intro hc; omega
    · intro hc; omega
  simp only [h1, if_false] at h
  by_cases h2 : (entryOrDefault r.entries_ f).hit_count_ + 1 = r.k_
  · simp only [h2, if_true] at h
    by_cases hm : f ∈ r.history_list_
    · simp only [hm, if_true, Except.ok.injEq] at h
      refine close r.history_list_ r.lru_list_ _ _ _ h2.symm ?_ (fun _ => ⟨rfl, rfl⟩) ?_ ?_
        rfl rfl r1 h.symm
      · intro hc; omega
      · intro hc; omega
      · intro _ hc; omega
    · simp [hm] at h
  simp only [h2, if_false] at h
  by_cases h3 : (entryOrDefault r.entries_ f).hit_count_ + 1 > r.k_
  · simp only [h3, if_true] at h
    by_cases hm : f ∈ r.lru_list_
    · simp only [hm, if_true, Except.ok.injEq] at h
      refine close r.history_list_ r.lru_list_ _ _ _ rfl ?_ ?_ (fun _ => ⟨rfl, rfl⟩) ?_
        rfl rfl r1 h.symm
      · intro hc; omega
      · intro hc; omega
      · intro _ hc; omega
    · simp [hm] at h
  simp only [h3, if_false, Except.ok.injEq] at h
  refine close r.history_list_ r.lru_list_ _ _ _ rfl ?_ ?_ ?_ (fun _ _ => ⟨rfl, rfl⟩)
    rfl rfl r1 h.symm
  · intro hc; omega
  · intro hc; omega
  · intro hc; omega

theorem static_cast_int_small (n : Nat) (h : n < 2 ^ 31) : static_cast_int n = (n : Int) := by
  unfold static_cast_int
  have h1 : n % 2 ^ 32 = n := Nat.mod_eq_of_lt (by omega)
  rw [h1, if_pos h]

theorem recordAccess_params (r r1 : LRUKReplacer) (f : Int)
    (h : r.RecordAccess f = Except.ok r1) :
    r1.replacer_size_ = r.replacer_size_ ∧ r1.k_ = r.k_ := by
  simp only [LRUKReplacer.RecordAccess] at h
  split_ifs at h
  all_goals first | (cases h; done) | (cases h; exact ⟨rfl, rfl⟩)

theorem setEvictable_params (r r1 : LRUKReplacer) (f : Int) (b : Bool)
    (h : r.SetEvictable f b = Except.ok r1) :
    r1.replacer_size_ = r.replacer_size_ ∧ r1.k_ = r.k_ := by
  unfold LRUKReplacer.SetEvictable at h
  cases hfind : mapFind r.entries_ f with
  | none =>
    rw [hfind] at h; dsimp only at h
    split_ifs at h
    cases h
    exact ⟨rfl, rfl⟩
  | some e =>
    rw [hfind] at h; dsimp only at h
    split_ifs at h <;> cases h <;> exact ⟨rfl, rfl⟩

theorem remove_params (r r1 : LRUKReplacer) (f : Int)
    (h : r.Remove f = Except.ok r1) :
    r1.replacer_size_ = r.replacer_size_ ∧ r1.k_ = r.k_ := by
  unfold LRUKReplacer.Remove at h
  cases hfind : mapFind r.entries_ f with
  | none =>
    rw [hfind] at h; dsimp only at h
    split_ifs at h
    cases h
    exact ⟨rfl, rfl⟩
  | some e =>
    rw [hfind] at h; dsimp only at h
    split_ifs at h <;> cases h <;> exact ⟨rfl, rfl⟩

theorem evict_params (r : LRUKReplacer) :
    r.Evict.2.replacer_size_ = r.replacer_size_ ∧ r.Evict.2.k_ = r.k_ := by
  unfold LRUKReplacer.Evict
  dsimp only
  split
  · exact ⟨rfl, rfl⟩
  · split <;> exact ⟨rfl, rfl⟩

theorem step_params (t t1 : TimedReplacer) (op : ReplacerOp) (h : t.step op = some t1) :
    t1.r.replacer_size_ = t.r.replacer_size_ ∧ t1.r.k_ = t.r.k_ := by
  cases op with
  | RecordAccess g =>
    simp only [TimedReplacer.step] at h
    cases hra : t.r.RecordAccess g with
    | ok r1 =>
      rw [hra] at h; simp only [Option.some.injEq] at h; subst h
      exact recordAccess_params t.r r1 g hra
    | error e => rw [hra] at h; cases e <;> simp at h <;> subst h <;> exact ⟨rfl, rfl⟩
  | SetEvictable g b =>
    simp only [TimedReplacer.step] at h
    cases hra : t.r.SetEvictable g b with
    | ok r1 =>
      rw [hra] at h; simp only [Option.some.injEq] at h; subst h
      exact setEvictable_params t.r r1 g b hra
    | error e => rw [hra] at h; cases e <;> simp at h <;> subst h <;> exact ⟨rfl, rfl⟩
  | Evict =>
    simp only [TimedReplacer.step, Option.some.injEq] at h
    subst h
    exact evict_params t.r
  | Remove g =>
    simp only [TimedReplacer.step] at h
    cases hra : t.r.Remove g with
    | ok r1 =>
      rw [hra] at h; simp only [Option.some.injEq] at h; subst h
      exact remove_params t.r r1 g hra
    | error e => rw [hra] at h; cases e <;> simp at h <;> subst h <;> exact ⟨rfl, rfl⟩

theorem run_params (ops : List ReplacerOp) :
    ∀ (t t1 : TimedReplacer), t.run ops = some t1 →
      t1.r.replacer_size_ = t.r.replacer_size_ ∧ t1.r.k_ = t.r.k_ := by
  induction ops with
  | nil =>
    intro t t1 h
    simp only [TimedReplacer.run, Option.some.injEq] at h
    subst h; exact ⟨rfl, rfl⟩
  | cons op rest ih =>
    intro t t1 h
    simp only [TimedReplacer.run] at h
    obtain ⟨t2, h2, h3⟩ := Option.bind_eq_some.1 h
    have a := step_params t t2 op h2
    have b := ih t2 t1 h3
    exact ⟨b.1.trans a.1, b.2.trans a.2⟩

/-- In every state reached from construction with `k ≥ 2`, `RecordAccess` of an in-range
frame returns (and then has the effect stated in `recordAccess_effect`). -/
theorem recordAccess_reachable (num_frames k : Nat) (ops : List ReplacerOp) (f : Int)
    (hk : 2 ≤ k) (hn : num_frames < 2 ^ 31) (hf1 : f < num_frames) :
    ∃ t, (TimedReplacer.new num_frames k).run ops = some t ∧ t.r.k_ = k ∧
      ∃ r1, t.r.RecordAccess f = Except.ok r1 := by
  obtain ⟨t, ht, hinv⟩ := (TimedReplacer.Inv.at_new num_frames k hk).after_run ops
  have hp := run_params ops _ t ht
  refine ⟨t, ht, hp.2, ?_⟩
  cases hra : t.r.RecordAccess f with
  | ok r1 => exact ⟨r1, rfl⟩
  | error e =>
    exfalso
    cases e with
    | undefined => exact hinv.recordAccess_is_defined f hra
    | invalid_argument =>
      unfold LRUKReplacer.RecordAccess at hra
      have hs : t.r.replacer_size_ = num_frames := hp.1
      have : ¬ f > static_cast_int t.r.replacer_size_ := by
        rw [hs, static_cast_int_small _ hn]; omega
      simp only [this, if_false] at hra
      split_ifs at hra <;> cases hra
    | logic_error =>
      simp only [LRUKReplacer.RecordAccess] at hra
      split_ifs at hra <;> cases hra

/-- In every state reached from construction with `k ≥ 2`, a frame is on the history list
exactly once iff it is tracked with fewer than `k` accesses and not at all otherwise, and
on the cached list exactly once iff it is tracked with at least `k` accesses and not at all
otherwise. -/
theorem lists_partition_reachable (num_frames k : Nat) (ops : List ReplacerOp) (hk : 2 ≤ k) :
    ∃ t, (TimedReplacer.new num_frames k).run ops = some t ∧
      ∀ f,
        (t.r.history_list_.count f =
          if (∃ e, mapFind t.r.entries_ f = some e ∧ e.hit_count_ < t.r.k_) then 1 else 0) ∧
        (t.r.lru_list_.count f =
          if (∃ e, mapFind t.r.entries_ f = some e ∧ t.r.k_ ≤ e.hit_count_) then 1 else 0) := by
  obtain ⟨t, ht, hinv⟩ := (TimedReplacer.Inv.at_new num_frames k hk).after_run ops
  refine ⟨t, ht, fun f => ⟨?_, ?_⟩⟩
  · by_cases hm : f ∈ t.r.history_list_
    · rw [if_pos ((hinv.hist_iff f).1 hm)]
      exact List.count_eq_one_of_mem hinv.hist_nodup hm
    · rw [if_neg (fun h => hm ((hinv.hist_iff f).2 h))]
      exact List.count_eq_zero_of_not_mem hm
  · by_cases hm : f ∈ t.r.lru_list_
    · rw [if_pos ((hinv.lru_iff f).1 hm)]
      exact List.count_eq_one_of_mem hinv.lru_nodup hm
    · rw [if_neg (fun h => hm ((hinv.lru_iff f).2 h))]
      exact List.count_eq_zero_of_not_mem hm

end TimedReplacer

/-! ## LRU-K replacer: the claims -/

section ReplacerClaims
open ReplacerOp

/-- C7: for every `k ≥ 2` and every state reached from construction by any sequence of
`RecordAccess`, `SetEvictable`, `Evict` and `Remove` calls: if some history-list frame is
evictable, `Evict` returns the evictable history-list frame that entered the history list
earliest (whatever the cached list holds); otherwise, if some cached-list frame is
evictable, it returns the evictable cached-list frame whose most recent access is oldest.
In scenario S2 (`k = 2`, accesses 1, 2, 3, 4, 5, 1, 2, all evictable) the successive evicts
return 3, 4, 5, 1, 2. -/
theorem C7_evict_order (num_frames k : Nat) (ops : List ReplacerOp) (hk : 2 ≤ k) :
    (∃ t, (TimedReplacer.new num_frames k).run ops = some t ∧ t.EvictsOldest) ∧
    ((TimedReplacer.new 5 2).run scenarioS2).map (fun t => evictN t.r 5)
      = some [some 3, some 4, some 5, some 1, some 2] := by
  refine ⟨?_, by decide!⟩
  obtain ⟨t, ht, hinv⟩ := (TimedReplacer.Inv.at_new num_frames k hk).after_run ops
  exact ⟨t, ht, hinv.evictsOldest⟩

/-- C7 at `k = 2` and the calls of scenario S2. -/
theorem C7_evict_order_witness :
    (2 : Nat) ≤ 2 ∧
    (∃ t, (TimedReplacer.new 5 2).run scenarioS2 = some t ∧ t.EvictsOldest) ∧
    ((TimedReplacer.new 5 2).run scenarioS2).map (fun t => evictN t.r 5)
      = some [some 3, some 4, some 5, some 1, some 2] :=
  ⟨by decide, C7_evict_order 5 2 scenarioS2 (by decide)⟩

/-- C8 (the claim at a concrete input): `k = 2`, accesses 1, 1, 2, 2, 1, both frames
evictable, which gives `twoCachedState`. Both frames have at least `k` accesses; the 2nd
most recent access of frame 1 is at position 1 and that of frame 2 at position 2, so frame
1 has the oldest `k`-th most recent access, and `Evict` returns frame 2: the rule of the
claim does not hold there. -/
theorem C8_counterexample :
    ((TimedReplacer.new 7 2).run scenarioTwoCached).map (fun t => t.r) = some twoCachedState ∧
    kthMostRecentAccess [1, 1, 2, 2, 1] 2 1 = some 1 ∧
    kthMostRecentAccess [1, 1, 2, 2, 1] 2 2 = some 2 ∧
    twoCachedState.Evict.1 = some 2 ∧
    ¬ EvictsOldestKthAccess [1, 1, 2, 2, 1] 2 twoCachedState := by
  refine ⟨by decide!, by decide!, by decide!, by decide!, ?_⟩
  intro h
  have h1 := h 2 1 2 1 (by decide!) (by decide!) (by decide!) (by decide!)
  omega

/-- C8 as amended: for every `k ≥ 2` and every state reached from construction by any
sequence of calls, if every evictable frame has at least `k` recorded accesses and some
frame is evictable, `Evict` returns the evictable frame whose most recent access is the
oldest. -/
theorem C8_evict_least_recent (num_frames k : Nat) (ops : List ReplacerOp) (hk : 2 ≤ k) :
    ∃ t, (TimedReplacer.new num_frames k).run ops = some t ∧ t.EvictsLeastRecent := by
  obtain ⟨t, ht, hinv⟩ := (TimedReplacer.Inv.at_new num_frames k hk).after_run ops
  exact ⟨t, ht, hinv.evictsLeastRecent⟩

/-- C8 as amended at `k = 2` and accesses 1, 1, 2, 2, 1 with both frames evictable. There
the tracked frames are 1 (3 accesses) and 2 (2 accesses), both evictable, and `Evict`
returns frame 2, whose most recent access (position 3) is older than that of frame 1
(position 4). -/
theorem C8_evict_least_recent_witness :
    (2 : Nat) ≤ 2 ∧
    (∃ t, (TimedReplacer.new 7 2).run scenarioTwoCached = some t ∧ t.EvictsLeastRecent) ∧
    ((TimedReplacer.new 7 2).run scenarioTwoCached).map (fun t => t.r.entries_)
      = some [(1, { hit_count_ := 3, is_evictable_ := true }),
              (2, { hit_count_ := 2, is_evictable_ := true })] ∧
    ((TimedReplacer.new 7 2).run scenarioTwoCached).map
      (fun t => (t.r.Evict.1, t.last 1, t.last 2)) = some (some 2, 4, 3) :=
  ⟨by decide, C8_evict_least_recent 7 2 scenarioTwoCached (by decide), by decide!, by decide!⟩

/-- C9 (the code at a failing input): `k = 1`, a fresh replacer, `RecordAccess(0)`. The new
hit count is 1, which equals `k`, and the frame is on the history list and not on the
cached list: the branch `new_count == 1` is taken before `new_count == k_` is looked at.
The next `RecordAccess(0)` then erases from the cached list through an iterator into the
history list. -/
theorem C9_first_access_with_k_one :
    ((TimedReplacer.new 7 1).run [RecordAccess 0]).map
        (fun t => (t.r.k_, t.r.hitCount 0)) = some (1, 1) ∧
    ((TimedReplacer.new 7 1).run [RecordAccess 0]).map
        (fun t => (t.r.history_list_, t.r.lru_list_)) = some ([0], []) ∧
    ((TimedReplacer.new 7 1).run [RecordAccess 0]).map
        (fun t => match t.r.RecordAccess 0 with
          | Except.error LRUKError.undefined => true
          | _ => false) = some true := by
  decide!

/-- C10 (the code at a failing input): `k = 1`, a fresh replacer, `RecordAccess(0)`. Frame 0
is tracked with hit count 1, which is not below `k`, and it is on the history list and not
on the cached list. -/
theorem C10_history_frame_with_k_accesses :
    ((TimedReplacer.new 7 1).run [RecordAccess 0]).map
        (fun t => (t.r.entries_, t.r.k_)) =
      some ([(0, { hit_count_ := 1, is_evictable_ := false })], 1) ∧
    ((TimedReplacer.new 7 1).run [RecordAccess 0]).map
        (fun t => (decide (0 ∈ t.r.history_list_), decide (0 ∈ t.r.lru_list_)))
      = some (true, false) := by
  decide!

end ReplacerClaims

theorem mem_keys_iff (m : List (Int × FrameEntry)) (f : Int) :
    f ∈ m.map (fun p => p.1) ↔ ∃ e, mapFind m f = some e := by
  induction m with
  | nil => simp [mapFind]
  | cons x rest ih =>
    obtain ⟨a, b⟩ := x
    by_cases haf : a = f
    · simp [mapFind, haf]
    · have : ¬ f = a := fun h => haf h.symm
      simp [mapFind, haf, this, ih]

theorem keys_mapPut (m : List (Int × FrameEntry)) (f : Int) (e : FrameEntry) :
    (mapPut m f e).map (fun p => p.1) =
      if (mapFind m f).isSome then m.map (fun p => p.1) else m.map (fun p => p.1) ++ [f] := by
  induction m with
  | nil => simp [mapPut, mapFind]
  | cons x rest ih =>
    obtain ⟨a, b⟩ := x
    by_cases haf : a = f
    · simp [mapPut, mapFind, haf]
    · simp only [mapPut, mapFind, haf, if_false, List.map_cons, ih]
      split_ifs <;> simp

theorem keys_mapErase (m : List (Int × FrameEntry)) (f : Int) :
    (mapErase m f).map (fun p => p.1) = (m.map (fun p => p.1)).filter (fun g => decide (g ≠ f)) := by
  induction m with
  | nil => simp [mapErase]
  | cons x rest ih =>
    obtain ⟨a, b⟩ := x
    by_cases haf : a = f
    · simp [mapErase, haf, ih]
    · simp [mapErase, haf, ih]

theorem mapErase_of_untracked (m : List (Int × FrameEntry)) (f : Int)
    (h : mapFind m f = none) : mapErase m f = m := by
  induction m with
  | nil => simp [mapErase]
  | cons x rest ih =>
    obtain ⟨a, b⟩ := x
    by_cases haf : a = f
    · simp [mapFind, haf] at h
    · simp [mapFind, haf] at h
      simp [mapErase, haf, ih h]

theorem countEvictable_mapPut_tracked (m : List (Int × FrameEntry)) (f : Int) (e e1 : FrameEntry)
    (h : mapFind m f = some e) :
    countEvictable (mapPut m f e1) + (if e.is_evictable_ then 1 else 0) =
      countEvictable m + (if e1.is_evictable_ then 1 else 0) := by
  induction m with
  | nil => simp [mapFind] at h
  | cons x rest ih =>
    obtain ⟨a, b⟩ := x
    by_cases haf : a = f
    · simp [mapFind, haf] at h
      subst h
      simp only [mapPut, haf, if_true, countEvictable, List.filter_cons]
      cases b.is_evictable_ <;> cases e1.is_evictable_ <;> simp
    · simp [mapFind, haf] at h
      have := ih h
      simp only [countEvictable] at this
      simp only [mapPut, haf, if_false, countEvictable, List.filter_cons]
      cases b.is_evictable_ <;> simp <;> omega

theorem countEvictable_mapPut_new (m : List (Int × FrameEntry)) (f : Int) (e1 : FrameEntry)
    (h : mapFind m f = none) :
    countEvictable (mapPut m f e1) = countEvictable m + (if e1.is_evictable_ then 1 else 0) := by
  induction m with
  | nil => simp only [mapPut, countEvictable, List.filter_cons]; cases e1.is_evictable_ <;> simp
  | cons x rest ih =>
    obtain ⟨a, b⟩ := x
    by_cases haf : a = f
    · simp [mapFind, haf] at h
    · simp [mapFind, haf] at h
      have := ih h
      simp only [countEvictable] at this
      simp only [mapPut, haf, if_false, countEvictable, List.filter_cons]
      cases b.is_evictable_ <;> simp <;> omega

theorem countEvictable_mapErase (m : List (Int × FrameEntry)) (f : Int) (e : FrameEntry)
    (hn : (m.map (fun p => p.1)).Nodup) (h : mapFind m f = some e) :
    countEvictable (mapErase m f) + (if e.is_evictable_ then 1 else 0) = countEvictable m := by
  induction m with
  | nil => simp [mapFind] at h
  | cons x rest ih =>
    obtain ⟨a, b⟩ := x
    rw [List.map_cons, List.nodup_cons] at hn
    by_cases haf : a = f
    · simp [mapFind, haf] at h
      subst h
      have hnone : mapFind rest f = none := by
        cases hx : mapFind rest f with
        | none => rfl
        | some e2 => exact absurd ((mem_keys_iff rest f).2 ⟨e2, hx⟩) (haf ▸ hn.1)
      simp only [mapErase, haf, if_true, mapErase_of_untracked rest f hnone, countEvictable,
        List.filter_cons]
      cases b.is_evictable_ <;> simp
    · simp [mapFind, haf] at h
      have := ih hn.2 h
      simp only [countEvictable] at this
      simp only [mapErase, haf, if_false, countEvictable, List.filter_cons]
      cases b.is_evictable_ <;> simp <;> omega

theorem countEvictable_lt_length (m : List (Int × FrameEntry)) (f : Int) (e : FrameEntry)
    (h : mapFind m f = some e) (he : e.is_evictable_ = false) :
    countEvictable m < m.length := by
  induction m with
  | nil => simp [mapFind] at h
  | cons x rest ih =>
    obtain ⟨a, b⟩ := x
    by_cases haf : a = f
    · simp [mapFind, haf] at h
      subst h
      simp only [countEvictable, List.filter_cons, he, List.length_cons]
      have := List.length_filter_le (fun p : Int × FrameEntry => p.2.is_evictable_) rest
      simp; omega
    · simp [mapFind, haf] at h
      have := ih h
      simp only [countEvictable] at this
      simp only [countEvictable, List.filter_cons, List.length_cons]
      cases b.is_evictable_ <;> simp <;> omega

theorem countEvictable_pos (m : List (Int × FrameEntry)) (f : Int) (e : FrameEntry)
    (h : mapFind m f = some e) (he : e.is_evictable_ = true) :
    1 ≤ countEvictable m := by
  induction m with
  | nil => simp [mapFind] at h
  | cons x rest ih =>
    obtain ⟨a, b⟩ := x
    by_cases haf : a = f
    · simp [mapFind, haf] at h
      subst h
      simp [countEvictable, List.filter_cons, he]
    · simp [mapFind, haf] at h
      have := ih h
      simp only [countEvictable] at this
      simp only [countEvictable, List.filter_cons]
      cases b.is_evictable_ <;> simp
      omega

/-- A duplicate-free list of `frame_id_t` values has at most `2^32` elements. -/
theorem length_le_of_int32 (l : List Int) (hn : l.Nodup) (h : ∀ f ∈ l, isInt32 f) :
    l.length ≤ 2 ^ 32 := by
  have hinj : ∀ x ∈ l, ∀ y ∈ l, (x + 2 ^ 31).toNat = (y + 2 ^ 31).toNat → x = y := by
    intro x hx y hy hxy
    have h1 := h x hx
    have h2 := h y hy
    unfold isInt32 at h1 h2
    omega
  have hn1 : (l.map (fun x => (x + 2 ^ 31).toNat)).Nodup := List.Nodup.map_on hinj hn
  have hsub : l.map (fun x => (x + 2 ^ 31).toNat) ⊆ List.range (2 ^ 32) := by
    intro y hy
    obtain ⟨x, hx, rfl⟩ := List.mem_map.1 hy
    have h1 := h x hx
    unfold isInt32 at h1
    rw [List.mem_range]
    omega
  have := (List.Nodup.subperm hn1 hsub).length_le
  simpa using this

namespace LRUKReplacer

/-- What the two scans of `Evict` compute when every list element has an entry and the lists
are duplicate free. -/
theorem Evict_of_tracked (r : LRUKReplacer)
    (h1 : ∀ f ∈ r.history_list_, ∃ e, mapFind r.entries_ f = some e)
    (h2 : ∀ f ∈ r.lru_list_, ∃ e, mapFind r.entries_ f = some e)
    (hn1 : r.history_list_.Nodup) (hn2 : r.lru_list_.Nodup) :
    r.Evict =
      match r.history_list_.reverse.find? (fun f => (entryOrDefault r.entries_ f).is_evictable_) with
      | some f =>
        (some f, { r with history_list_ := r.history_list_.erase f,
                          entries_ := mapErase r.entries_ f,
                          curr_size_ := decrSize r.curr_size_ })
      | none =>
        match r.lru_list_.reverse.find? (fun f => (entryOrDefault r.entries_ f).is_evictable_) with
        | some f =>
          (some f, { r with lru_list_ := r.lru_list_.erase f,
                            entries_ := mapErase r.entries_ f,
                            curr_size_ := decrSize r.curr_size_ })
        | none => (none, r) := by
  have h1r : ∀ f ∈ r.history_list_.reverse, ∃ e, mapFind r.entries_ f = some e :=
    fun f hf => h1 f (List.mem_reverse.1 hf)
  have h2r : ∀ f ∈ r.lru_list_.reverse, ∃ e, mapFind r.entries_ f = some e :=
    fun f hf => h2 f (List.mem_reverse.1 hf)
  unfold LRUKReplacer.Evict
  simp only [LRUKReplacer.scanEvictable_of_tracked _ _ h1r,
    LRUKReplacer.scanEvictable_of_tracked _ _ h2r]
  cases hf1 : r.history_list_.reverse.find?
      (fun f => (entryOrDefault r.entries_ f).is_evictable_) with
  | some f =>
    simp only [eraseP_of_find _ f hf1]
    have : (r.history_list_.reverse.erase f).reverse = r.history_list_.erase f := by
      rw [hn1.erase_eq_filter, (List.nodup_reverse.2 hn1).erase_eq_filter,
        List.filter_reverse, List.reverse_reverse]
    rw [this]
  | none =>
    simp only
    cases hf2 : r.lru_list_.reverse.find?
        (fun f => (entryOrDefault r.entries_ f).is_evictable_) with
    | some f =>
      simp only [eraseP_of_find _ f hf2]
      have : (r.lru_list_.reverse.erase f).reverse = r.lru_list_.erase f := by
        rw [hn2.erase_eq_filter, (List.nodup_reverse.2 hn2).erase_eq_filter,
          List.filter_reverse, List.reverse_reverse]
      rw [this]
    | none => simp only

theorem WellFormed.of_new (num_frames k : Nat) : (LRUKReplacer.new num_frames k).WellFormed := by
  constructor <;> simp [LRUKReplacer.new, mapFind, countEvictable]

theorem WellFormed.length_le {r : LRUKReplacer} (h : r.WellFormed) :
    r.entries_.length ≤ 2 ^ 32 := by
  have := length_le_of_int32 _ h.keys_nodup (by
    intro f hf
    obtain ⟨e, he⟩ := (mem_keys_iff _ f).1 hf
    exact h.keys_int32 f e he)
  simpa using this

/-- An update of the entry of a tracked frame that keeps its evictable flag, together with
a rearrangement of the two lists that keeps their elements. -/
theorem WellFormed.update {r : LRUKReplacer} (h : r.WellFormed) (f : Int) (e e1 : FrameEntry)
    (hist lru : List Int) (hfind : mapFind r.entries_ f = some e)
    (hev : e1.is_evictable_ = e.is_evictable_) (hc : 1 ≤ e1.hit_count_)
    (hmem : ∀ g, (g ∈ hist ∨ g ∈ lru) ↔ (g ∈ r.history_list_ ∨ g ∈ r.lru_list_))
    (hn1 : hist.Nodup) (hn2 : lru.Nodup) (hd : ∀ g, g ∈ hist → g ∉ lru) :
    WellFormed { r with entries_ := mapPut r.entries_ f e1, history_list_ := hist,
                        lru_list_ := lru } := by
  constructor
  · simp only [keys_mapPut, hfind, Option.isSome_some, if_true]
    exact h.keys_nodup
  · intro g e2 hg
    simp only [mapFind_mapPut] at hg
    by_cases hgf : g = f
    · subst hgf; exact h.keys_int32 g e hfind
    · simp only [hgf, if_false] at hg; exact h.keys_int32 g e2 hg
  · intro g e2 hg
    simp only [mapFind_mapPut] at hg
    by_cases hgf : g = f
    · simp only [hgf, if_true, Option.some.injEq] at hg; subst hg; exact hc
    · simp only [hgf, if_false] at hg; exact h.count_pos g e2 hg
  · intro g
    simp only [mapFind_mapPut]
    rw [hmem g, h.tracked_iff g]
    by_cases hgf : g = f
    · subst hgf; simp [hfind]
    · simp [hgf]
  · exact hn1
  · exact hn2
  · exact hd
  · have := countEvictable_mapPut_tracked r.entries_ f e e1 hfind
    rw [hev] at this
    have hs := h.size_eq
    simp only at hs ⊢
    omega

/-- Erasing a tracked evictable frame from its list and from the map. -/
theorem WellFormed.erase {r : LRUKReplacer} (h : r.WellFormed) (f : Int) (e : FrameEntry)
    (hfind : mapFind r.entries_ f = some e) (hev : e.is_evictable_ = true) :
    WellFormed { r with history_list_ := r.history_list_.erase f,
                        lru_list_ := r.lru_list_.erase f,
                        curr_size_ := decrSize r.curr_size_,
                        entries_ := mapErase r.entries_ f } := by
  constructor
  · simp only [keys_mapErase]
    exact h.keys_nodup.filter _
  · intro g e2 hg
    simp only [mapFind_mapErase] at hg
    by_cases hgf : g = f
    · simp [hgf] at hg
    · simp only [hgf, if_false] at hg; exact h.keys_int32 g e2 hg
  · intro g e2 hg
    simp only [mapFind_mapErase] at hg
    by_cases hgf : g = f
    · simp [hgf] at hg
    · simp only [hgf, if_false] at hg; exact h.count_pos g e2 hg
  · intro g
    simp only [mapFind_mapErase, h.hist_nodup.mem_erase_iff, h.lru_nodup.mem_erase_iff]
    have := h.tracked_iff g
    by_cases hgf : g = f
    · simp [hgf]
    · simp only [hgf, if_false, ne_eq, not_false_eq_true, true_and]; exact this
  · exact h.hist_nodup.erase f
  · exact h.lru_nodup.erase f
  · intro g hg hg2
    exact h.disjoint g (List.mem_of_mem_erase hg) (List.mem_of_mem_erase hg2)
  · have := countEvictable_mapErase r.entries_ f e h.keys_nodup hfind
    have hp := countEvictable_pos r.entries_ f e hfind hev
    have hs := h.size_eq
    simp only [hev, if_true] at this
    simp only [decrSize]
    rw [if_neg (by omega)]
    omega

end LRUKReplacer

namespace LRUKReplacer

theorem WellFormed.recordAccess_keeps {r : LRUKReplacer} (h : r.WellFormed) (f : Int)
    (hf : isInt32 f) (r1 : LRUKReplacer) (hra : r.RecordAccess f = Except.ok r1) :
    r1.WellFormed := by
  unfold LRUKReplacer.RecordAccess at hra
  by_cases hrange : f > static_cast_int r.replacer_size_
  · simp [hrange] at hra
  simp only [hrange, if_false] at hra
  cases hfind : mapFind r.entries_ f with
  | none =>
    have hnl : ¬ (f ∈ r.history_list_ ∨ f ∈ r.lru_list_) := by
      rw [h.tracked_iff f, hfind]; simp
    simp only [entryOrDefault, hfind, Option.getD_none, zero_add, if_true,
      Except.ok.injEq] at hra
    subst hra
    constructor
    · simp only [keys_mapPut, hfind, Option.isSome_none, Bool.false_eq_true, if_false]
      rw [List.nodup_append]
      refine ⟨h.keys_nodup, List.nodup_singleton f, ?_⟩
      intro g hg hg2
      rw [List.mem_singleton] at hg2
      subst hg2
      obtain ⟨e, he⟩ := (mem_keys_iff _ g).1 hg
      rw [hfind] at he; cases he
    · intro g e2 hg
      simp only [mapFind_mapPut] at hg
      by_cases hgf : g = f
      · subst hgf; exact hf
      · simp only [hgf, if_false] at hg; exact h.keys_int32 g e2 hg
    · intro g e2 hg
      simp only [mapFind_mapPut] at hg
      by_cases hgf : g = f
      · simp only [hgf, if_true, Option.some.injEq] at hg; subst hg; exact le_refl _
      · simp only [hgf, if_false] at hg; exact h.count_pos g e2 hg
    · intro g
      simp only [mapFind_mapPut, List.mem_cons]
      have := h.tracked_iff g
      by_cases hgf : g = f
      · simp [hgf]
      · simp only [hgf, if_false, false_or]; exact this
    · exact List.nodup_cons.2 ⟨fun hx => hnl (Or.inl hx), h.hist_nodup⟩
    · exact h.lru_nodup
    · intro g hg
      rcases List.mem_cons.1 hg with rfl | hg
      · exact fun hx => hnl (Or.inr hx)
      · exact h.disjoint g hg
    · have := countEvictable_mapPut_new r.entries_ f
        { hit_count_ := 1, is_evictable_ := false } hfind
      have hs := h.size_eq
      simp only at this hs ⊢
      simp only [Bool.false_eq_true, if_false, add_zero] at this
      omega
  | some e =>
    have hpos := h.count_pos f e hfind
    have hne1 : ¬ (e.hit_count_ + 1 = 1) := by omega
    simp only [entryOrDefault, hfind, Option.getD_some, hne1, if_false] at hra
    by_cases hk : e.hit_count_ + 1 = r.k_
    · simp only [hk, if_true] at hra
      by_cases hm : f ∈ r.history_list_
      · simp only [hm, if_true, Except.ok.injEq] at hra
        subst hra
        refine h.update f e _ _ _ hfind rfl (by dsimp only; omega) ?_ (h.hist_nodup.erase f)
          (List.nodup_cons.2 ⟨h.disjoint f hm, h.lru_nodup⟩) ?_
        · intro g
          simp only [h.hist_nodup.mem_erase_iff, List.mem_cons]
          by_cases hgf : g = f
          · subst hgf; simp [hm]
          · simp [hgf]
        · intro g hg hg2
          rw [h.hist_nodup.mem_erase_iff] at hg
          rcases List.mem_cons.1 hg2 with rfl | hg2
          · exact hg.1 rfl
          · exact h.disjoint g hg.2 hg2
      · simp [hm] at hra
    · simp only [hk, if_false] at hra
      by_cases hgt : e.hit_count_ + 1 > r.k_
      · simp only [hgt, if_true] at hra
        by_cases hm : f ∈ r.lru_list_
        · simp only [hm, if_true, Except.ok.injEq] at hra
          subst hra
          refine h.update f e _ _ _ hfind rfl (by simp) ?_ h.hist_nodup
            (List.nodup_cons.2 ⟨?_, h.lru_nodup.erase f⟩) ?_
          · intro g
            simp only [h.lru_nodup.mem_erase_iff, List.mem_cons]
            by_cases hgf : g = f
            · subst hgf; simp [hm]
            · simp [hgf]
          · rw [h.lru_nodup.mem_erase_iff]; simp
          · intro g hg hg2
            rcases List.mem_cons.1 hg2 with rfl | hg2
            · exact h.disjoint g hg hm
            · exact h.disjoint g hg (List.mem_of_mem_erase hg2)
        · simp [hm] at hra
      · simp only [hgt, if_false, Except.ok.injEq] at hra
        subst hra
        exact h.update f e _ _ _ hfind rfl (by simp) (fun g => Iff.rfl) h.hist_nodup
          h.lru_nodup h.disjoint

theorem WellFormed.setEvictable_keeps {r : LRUKReplacer} (h : r.WellFormed) (f : Int)
    (b : Bool) (r1 : LRUKReplacer) (hra : r.SetEvictable f b = Except.ok r1) :
    r1.WellFormed := by
  unfold LRUKReplacer.SetEvictable at hra
  by_cases hrange : f > static_cast_int r.replacer_size_
  · simp [hrange] at hra
  simp only [hrange, if_false] at hra
  cases hfind : mapFind r.entries_ f with
  | none =>
    simp only [hfind, Except.ok.injEq] at hra
    subst hra; exact h
  | some e =>
    simp only [hfind, Except.ok.injEq] at hra
    subst hra
    have hcnt := countEvictable_mapPut_tracked r.entries_ f e
      { e with is_evictable_ := b } hfind
    have hlen := h.length_le
    have hs := h.size_eq
    constructor
    · simp only [keys_mapPut, hfind, Option.isSome_some, if_true]
      exact h.keys_nodup
    · intro g e2 hg
      simp only [mapFind_mapPut] at hg
      by_cases hgf : g = f
      · subst hgf; exact h.keys_int32 g e hfind
      · simp only [hgf, if_false] at hg; exact h.keys_int32 g e2 hg
    · intro g e2 hg
      simp only [mapFind_mapPut] at hg
      by_cases hgf : g = f
      · simp only [hgf, if_true, Option.some.injEq] at hg; subst hg
        exact h.count_pos f e hfind
      · simp only [hgf, if_false] at hg; exact h.count_pos g e2 hg
    · intro g
      simp only [mapFind_mapPut]
      rw [h.tracked_iff g]
      by_cases hgf : g = f
      · subst hgf; simp [hfind]
      · simp [hgf]
    · exact h.hist_nodup
    · exact h.lru_nodup
    · exact h.disjoint
    · simp only at hcnt ⊢
      cases hev : e.is_evictable_ <;> cases b
      · simp [hev] at hcnt ⊢; omega
      · have hlt := countEvictable_lt_length r.entries_ f e hfind hev
        simp only [hev, Bool.false_eq_true, if_false, add_zero, if_true] at hcnt
        simp only [Bool.not_false, Bool.and_self, if_true, incrSize]
        rw [Nat.mod_eq_of_lt (by omega)]
        omega
      · have hp := countEvictable_pos r.entries_ f e hfind hev
        simp only [hev, Bool.false_eq_true, if_false, add_zero, if_true] at hcnt
        simp only [Bool.not_true, Bool.and_false, Bool.false_eq_true, if_false, Bool.not_false,
          Bool.and_self, if_true, decrSize]
        rw [if_neg (by omega)]
        omega
      · simp [hev] at hcnt ⊢; omega

theorem WellFormed.remove_keeps {r : LRUKReplacer} (h : r.WellFormed) (f : Int)
    (r1 : LRUKReplacer) (hra : r.Remove f = Except.ok r1) :
    r1.WellFormed := by
  unfold LRUKReplacer.Remove at hra
  by_cases hrange : f > static_cast_int r.replacer_size_
  · simp [hrange] at hra
  simp only [hrange, if_false] at hra
  cases hfind : mapFind r.entries_ f with
  | none =>
    simp only [hfind, Except.ok.injEq] at hra
    subst hra; exact h
  | some e =>
    simp only [hfind] at hra
    by_cases hev : e.is_evictable_ = true
    · have hw := h.erase f e hfind hev
      simp only [hev, Bool.not_true, Bool.false_eq_true, if_false] at hra
      by_cases hc : e.hit_count_ < r.k_
      · simp only [hc, if_true] at hra
        by_cases hm : f ∈ r.history_list_
        · simp only [hm, if_true, Except.ok.injEq] at hra
          subst hra
          rw [List.erase_of_not_mem (h.disjoint f hm)] at hw
          exact hw
        · simp [hm] at hra
      · simp only [hc, if_false] at hra
        by_cases hm : f ∈ r.lru_list_
        · simp only [hm, if_true, Except.ok.injEq] at hra
          subst hra
          rw [List.erase_of_not_mem (fun hx => h.disjoint f hx hm)] at hw
          exact hw
        · simp [hm] at hra
    · simp [hev] at hra

/-- The outcome of `Evict` in a well-formed state: either no frame is evictable and the
state is unchanged, or the frame returned is tracked and evictable and is erased from its
list and from the map. -/
theorem WellFormed.evict_cases {r : LRUKReplacer} (h : r.WellFormed) :
    (r.Evict = (none, r) ∧ ∀ f, r.isEvictable f = false) ∨
    ∃ f e, mapFind r.entries_ f = some e ∧ e.is_evictable_ = true ∧
      r.Evict = (some f, { r with history_list_ := r.history_list_.erase f,
                                  lru_list_ := r.lru_list_.erase f,
                                  curr_size_ := decrSize r.curr_size_,
                                  entries_ := mapErase r.entries_ f }) := by
  have h1 : ∀ f ∈ r.history_list_, ∃ e, mapFind r.entries_ f = some e :=
    fun f hf => (h.tracked_iff f).1 (Or.inl hf)
  have h2 : ∀ f ∈ r.lru_list_, ∃ e, mapFind r.entries_ f = some e :=
    fun f hf => (h.tracked_iff f).1 (Or.inr hf)
  rw [Evict_of_tracked r h1 h2 h.hist_nodup h.lru_nodup]
  cases hf1 : r.history_list_.reverse.find?
      (fun f => (entryOrDefault r.entries_ f).is_evictable_) with
  | some f =>
    right
    have hm : f ∈ r.history_list_ := List.mem_reverse.1 (List.mem_of_find?_eq_some hf1)
    obtain ⟨e, he⟩ := h1 f hm
    have hp := List.find?_some hf1
    simp only [entryOrDefault, he, Option.getD_some] at hp
    refine ⟨f, e, he, hp, ?_⟩
    simp only [List.erase_of_not_mem (h.disjoint f hm)]
  | none =>
    simp only
    cases hf2 : r.lru_list_.reverse.find?
        (fun f => (entryOrDefault r.entries_ f).is_evictable_) with
    | some f =>
      right
      have hm : f ∈ r.lru_list_ := List.mem_reverse.1 (List.mem_of_find?_eq_some hf2)
      obtain ⟨e, he⟩ := h2 f hm
      have hp := List.find?_some hf2
      simp only [entryOrDefault, he, Option.getD_some] at hp
      refine ⟨f, e, he, hp, ?_⟩
      simp only [List.erase_of_not_mem (fun hx => h.disjoint f hx hm)]
    | none =>
      left
      refine ⟨rfl, ?_⟩
      intro f
      rw [List.find?_eq_none] at hf1 hf2
      unfold LRUKReplacer.isEvictable
      cases hfind : mapFind r.entries_ f with
      | none => rfl
      | some e =>
        simp only
        rcases (h.tracked_iff f).2 ⟨e, hfind⟩ with hm | hm
        · have := hf1 f (List.mem_reverse.2 hm)
          simpa [entryOrDefault, hfind] using this
        · have := hf2 f (List.mem_reverse.2 hm)
          simpa [entryOrDefault, hfind] using this

theorem WellFormed.evict_keeps {r : LRUKReplacer} (h : r.WellFormed) : r.Evict.2.WellFormed := by
  rcases h.evict_cases with ⟨he, _⟩ | ⟨f, e, hfind, hev, he⟩
  · rw [he]; exact h
  · rw [he]; exact h.erase f e hfind hev

end LRUKReplacer

namespace TimedReplacer

theorem wellFormed_after_step (t t1 : TimedReplacer) (op : ReplacerOp) (h : t.r.WellFormed)
    (hop : op.frameInt32) (hs : t.step op = some t1) : t1.r.WellFormed := by
  cases op with
  | RecordAccess f =>
    cases hra : t.r.RecordAccess f with
    | ok r1 =>
      simp only [TimedReplacer.step, hra, Option.some.injEq] at hs
      subst hs
      exact h.recordAccess_keeps f hop r1 hra
    | error e =>
      cases e <;> simp only [TimedReplacer.step, hra, Option.some.injEq] at hs
      · subst hs; exact h
      · subst hs; exact h
      · cases hs
  | SetEvictable f b =>
    cases hra : t.r.SetEvictable f b with
    | ok r1 =>
      simp only [TimedReplacer.step, hra, Option.some.injEq] at hs
      subst hs
      exact h.setEvictable_keeps f b r1 hra
    | error e =>
      cases e <;> simp only [TimedReplacer.step, hra, Option.some.injEq] at hs
      · subst hs; exact h
      · subst hs; exact h
      · cases hs
  | Evict =>
    simp only [TimedReplacer.step, Option.some.injEq] at hs
    subst hs
    exact h.evict_keeps
  | Remove f =>
    cases hra : t.r.Remove f with
    | ok r1 =>
      simp only [TimedReplacer.step, hra, Option.some.injEq] at hs
      subst hs
      exact h.remove_keeps f r1 hra
    | error e =>
      cases e <;> simp only [TimedReplacer.step, hra, Option.some.injEq] at hs
      · subst hs; exact h
      · subst hs; exact h
      · cases hs

theorem wellFormed_after_run (ops : List ReplacerOp) :
    ∀ (t t1 : TimedReplacer), t.r.WellFormed → (∀ op ∈ ops, op.frameInt32) →
      t.run ops = some t1 → t1.r.WellFormed := by
  induction ops with
  | nil =>
    intro t t1 h _ hr
    simp only [TimedReplacer.run, Option.some.injEq] at hr
    subst hr; exact h
  | cons op rest ih =>
    intro t t1 h hops hr
    simp only [TimedReplacer.run] at hr
    obtain ⟨t2, h2, hr2⟩ := Option.bind_eq_some.1 hr
    exact ih t2 t1 (wellFormed_after_step t t2 op h (hops op (List.mem_cons_self _ _)) h2)
      (fun o ho => hops o (List.mem_cons_of_mem _ ho)) hr2

end TimedReplacer

theorem countEvictable_eq_frames (m : List (Int × FrameEntry))
    (hn : (m.map (fun p => p.1)).Nodup) :
    countEvictable m =
      ((m.map (fun p => p.1)).filter
        (fun f => match mapFind m f with | some e => e.is_evictable_ | none => false)).length := by
  induction m with
  | nil => simp [countEvictable]
  | cons x rest ih =>
    obtain ⟨a, b⟩ := x
    rw [List.map_cons, List.nodup_cons] at hn
    have hrest : (List.map (fun p => p.1) rest).filter
        (fun f => match mapFind ((a, b) :: rest) f with
          | some e => e.is_evictable_ | none => false) =
        (List.map (fun p => p.1) rest).filter
        (fun f => match mapFind rest f with | some e => e.is_evictable_ | none => false) := by
      apply List.filter_congr
      intro g hg
      have : ¬ a = g := fun h => hn.1 (h ▸ hg)
      simp [mapFind, this]
    have := ih hn.2
    simp only [countEvictable] at this
    simp only [countEvictable, List.map_cons, List.filter_cons, hrest]
    simp only [mapFind, if_true]
    cases b.is_evictable_ <;> simp [this]

namespace LRUKReplacer

theorem WellFormed.size_eq_frames {r : LRUKReplacer} (h : r.WellFormed) :
    r.Size = r.evictableFrames := by
  unfold Size evictableFrames
  rw [h.size_eq, countEvictable_eq_frames _ h.keys_nodup]
  rfl

theorem WellFormed.setEvictable_effect {r : LRUKReplacer} (h : r.WellFormed) (f : Int)
    (b : Bool) (r1 : LRUKReplacer) (hra : r.SetEvictable f b = Except.ok r1) :
    r.SetEvictableEffect f b r1 := by
  unfold LRUKReplacer.SetEvictable at hra
  by_cases hrange : f > static_cast_int r.replacer_size_
  · simp [hrange] at hra
  simp only [hrange, if_false] at hra
  cases hfind : mapFind r.entries_ f with
  | none =>
    simp only [hfind, Except.ok.injEq] at hra
    subst hra
    exact ⟨fun _ => rfl, fun e he => by rw [hfind] at he; cases he⟩
  | some e =>
    simp only [hfind, Except.ok.injEq] at hra
    subst hra
    refine ⟨fun hx => (by rw [hfind] at hx; cases hx), ?_⟩
    intro e1 he1
    rw [hfind] at he1
    cases he1
    have hlen := h.length_le
    have hs := h.size_eq
    refine ⟨?_, ?_, ?_, ?_⟩
    · simp [isEvictable, mapFind_mapPut]
    · intro hev hb
      have hlt := countEvictable_lt_length r.entries_ f e hfind hev
      subst hb
      simp only [Size, hev, Bool.not_false, Bool.and_self, if_true, incrSize]
      rw [Nat.mod_eq_of_lt (by omega)]
    · intro hev hb
      have hp := countEvictable_pos r.entries_ f e hfind hev
      subst hb
      simp only [Size, hev, Bool.not_true, Bool.and_false, Bool.false_eq_true, if_false,
        Bool.not_false, Bool.and_self, if_true, decrSize]
      rw [if_neg (by omega)]
      omega
    · intro hev
      subst hev
      cases e.is_evictable_ <;> simp [Size]

theorem WellFormed.evictOutcome {r : LRUKReplacer} (h : r.WellFormed) : r.EvictOutcome := by
  rcases h.evict_cases with ⟨he, hno⟩ | ⟨f, e, hfind, hev, he⟩
  · refine ⟨?_, ?_, ?_⟩
    · rw [he]
      constructor
      · intro hx; cases hx
      · rintro ⟨f, hf⟩
        rw [hno f] at hf; cases hf
    · intro _; rw [he]
    · intro f hf; rw [he] at hf; cases hf
  · have hfe : r.isEvictable f = true := by simp [isEvictable, hfind, hev]
    refine ⟨?_, ?_, ?_⟩
    · rw [he]
      exact ⟨fun _ => ⟨f, hfe⟩, fun _ => rfl⟩
    · intro hx; rw [he] at hx; cases hx
    · intro g hg
      rw [he] at hg ⊢
      simp only [Option.some.injEq] at hg
      subst hg
      have hp := countEvictable_pos r.entries_ f e hfind hev
      have hs := h.size_eq
      refine ⟨hfe, ?_, ?_, ?_, ?_, ?_, ?_, ?_⟩
      · simp [mapFind_mapErase]
      · simp [h.hist_nodup.mem_erase_iff]
      · simp [h.lru_nodup.mem_erase_iff]
      · simp only [Size, decrSize]
        rw [if_neg (by omega)]
        omega
      · intro g hg
        simp [mapFind_mapErase, hg]
      · exact h.hist_nodup.erase_eq_filter f
      · exact h.lru_nodup.erase_eq_filter f

end LRUKReplacer

/-! ## LRU-K replacer: size, eviction outcome, removal and the range check -/

section ReplacerClaims2
open ReplacerOp

/-- C11: in every state reached from construction by any sequence of `RecordAccess`,
`SetEvictable`, `Evict` and `Remove` calls (frame ids of type `frame_id_t`, any `k`; for
`k ≥ 2` every such sequence is defined), `Size()` is the number of tracked frames whose
evictable flag is set; and `SetEvictable(f, b)` returns for every `f` that passes the range
check, does nothing for a frame without an entry, and for a tracked frame sets the flag to
`b` and moves `Size()` by +1 (false to true), -1 (true to false) or 0 (flag stays). -/
theorem C11_size_counts_evictable (num_frames k : Nat) (ops : List ReplacerOp)
    (hops : ∀ op ∈ ops, op.frameInt32) :
    (2 ≤ k → ∃ t, (TimedReplacer.new num_frames k).run ops = some t) ∧
    ∀ t, (TimedReplacer.new num_frames k).run ops = some t →
      t.r.Size = t.r.evictableFrames ∧
      ∀ f b,
        (f ≤ static_cast_int t.r.replacer_size_ →
          ∃ r1, t.r.SetEvictable f b = Except.ok r1) ∧
        ∀ r1, t.r.SetEvictable f b = Except.ok r1 → t.r.SetEvictableEffect f b r1 := by
  refine ⟨?_, ?_⟩
  · intro hk
    obtain ⟨t, ht, _⟩ := (TimedReplacer.Inv.at_new num_frames k hk).after_run ops
    exact ⟨t, ht⟩
  · intro t ht
    have hwf := TimedReplacer.wellFormed_after_run ops _ t
      (LRUKReplacer.WellFormed.of_new num_frames k) hops ht
    refine ⟨hwf.size_eq_frames, ?_⟩
    intro f b
    refine ⟨?_, fun r1 h1 => hwf.setEvictable_effect f b r1 h1⟩
    intro hf
    unfold LRUKReplacer.SetEvictable
    rw [if_neg (by omega)]
    cases mapFind t.r.entries_ f with
    | none => exact ⟨_, rfl⟩
    | some e => exact ⟨_, rfl⟩

/-- C11 at 5 frames, `k = 2` and the calls of scenario S2, after which five frames are
evictable and `Size()` is 5. -/
theorem C11_size_counts_evictable_witness :
    (∀ op ∈ scenarioS2, op.frameInt32) ∧
    ((2 ≤ 2 → ∃ t, (TimedReplacer.new 5 2).run scenarioS2 = some t) ∧
    ∀ t, (TimedReplacer.new 5 2).run scenarioS2 = some t →
      t.r.Size = t.r.evictableFrames ∧
      ∀ f b,
        (f ≤ static_cast_int t.r.replacer_size_ →
          ∃ r1, t.r.SetEvictable f b = Except.ok r1) ∧
        ∀ r1, t.r.SetEvictable f b = Except.ok r1 → t.r.SetEvictableEffect f b r1) ∧
    ((TimedReplacer.new 5 2).run scenarioS2).map
      (fun t => (t.r.Size, t.r.evictableFrames)) = some (5, 5) :=
  ⟨by decide!, C11_size_counts_evictable 5 2 scenarioS2 (by decide!), by decide!⟩

/-- C12: in every state reached from construction by any sequence of the four calls (frame
ids of type `frame_id_t`, any `k`; for `k ≥ 2` every such sequence is defined), `Evict`
returns a frame iff some tracked frame is evictable; when it returns none the state is
unchanged; the frame it returns was tracked and evictable, afterwards has no entry and is in
neither list, `Size()` has gone down by exactly one, every other frame keeps its entry,
and both lists keep their other elements in the same order. -/
theorem C12_evict_outcome (num_frames k : Nat) (ops : List ReplacerOp)
    (hops : ∀ op ∈ ops, op.frameInt32) :
    (2 ≤ k → ∃ t, (TimedReplacer.new num_frames k).run ops = some t) ∧
    ∀ t, (TimedReplacer.new num_frames k).run ops = some t → t.r.EvictOutcome := by
  refine ⟨?_, ?_⟩
  · intro hk
    obtain ⟨t, ht, _⟩ := (TimedReplacer.Inv.at_new num_frames k hk).after_run ops
    exact ⟨t, ht⟩
  · intro t ht
    exact (TimedReplacer.wellFormed_after_run ops _ t
      (LRUKReplacer.WellFormed.of_new num_frames k) hops ht).evictOutcome

/-- C12 at 7 frames, `k = 2` and accesses 1, 1, 2, 2, 1 with both frames evictable: `Evict`
returns frame 2 and leaves frame 1 alone in the cached list with `Size()` 1. -/
theorem C12_evict_outcome_witness :
    (∀ op ∈ scenarioTwoCached, op.frameInt32) ∧
    ((2 ≤ 2 → ∃ t, (TimedReplacer.new 7 2).run scenarioTwoCached = some t) ∧
    ∀ t, (TimedReplacer.new 7 2).run scenarioTwoCached = some t → t.r.EvictOutcome) ∧
    ((TimedReplacer.new 7 2).run scenarioTwoCached).map
      (fun t => (t.r.Evict.1, t.r.Evict.2.entries_, t.r.Evict.2.lru_list_, t.r.Evict.2.Size))
      = some (some 2, [(1, { hit_count_ := 3, is_evictable_ := true })], [1], 1) :=
  ⟨by decide!, C12_evict_outcome 7 2 scenarioTwoCached (by decide!), by decide!⟩

/-- C13 (the code at a failing input): `k = 1`, a fresh replacer, `RecordAccess(0)`,
`SetEvictable(0, true)`. Frame 0 is tracked and evictable with hit count 1 and sits on the
history list. `Remove(0)` tests `hit_count_ < k_`, which is false, and erases from the
cached list through the iterator into the history list: the call is undefined, so it
neither removes the frame from its list nor lowers `Size()`. -/
theorem C13_remove_with_k_one :
    ((TimedReplacer.new 7 1).run [RecordAccess 0, SetEvictable 0 true]).map
        (fun t => (t.r.k_, t.r.entries_, t.r.history_list_, t.r.lru_list_)) =
      some (1, [(0, { hit_count_ := 1, is_evictable_ := true })], [0], []) ∧
    ((TimedReplacer.new 7 1).run [RecordAccess 0, SetEvictable 0 true]).map
        (fun t => match t.r.Remove 0 with
          | Except.error LRUKError.undefined => true
          | _ => false) = some true := by
  decide!

/-- C14 (the code at failing inputs): a replacer built with `num_frames = 7`. The frame ids
7 and -1 are not in `[0, 7)`, yet `RecordAccess` returns normally for both and tracks
the frame, and `SetEvictable` and `Remove` return normally; after `RecordAccess(7)` and
`SetEvictable(7, true)` the call `Evict` hands out frame 7. Only ids above 7 are refused:
the test is `frame_id > replacer_size_`. -/
theorem C14_out_of_range_frame_accepted :
    (match (LRUKReplacer.new 7 2).RecordAccess 7 with
      | Except.ok r => some (r.entries_, r.history_list_)
      | Except.error _ => none) =
      some ([(7, { hit_count_ := 1, is_evictable_ := false })], [7]) ∧
    (match (LRUKReplacer.new 7 2).RecordAccess (-1) with
      | Except.ok r => some (r.entries_, r.history_list_)
      | Except.error _ => none) =
      some ([(-1, { hit_count_ := 1, is_evictable_ := false })], [-1]) ∧
    (match (LRUKReplacer.new 7 2).SetEvictable 7 true with
      | Except.ok r => some r
      | Except.error _ => none) = some (LRUKReplacer.new 7 2) ∧
    (match (LRUKReplacer.new 7 2).SetEvictable (-1) true with
      | Except.ok r => some r
      | Except.error _ => none) = some (LRUKReplacer.new 7 2) ∧
    (match (LRUKReplacer.new 7 2).Remove 7 with
      | Except.ok r => some r
      | Except.error _ => none) = some (LRUKReplacer.new 7 2) ∧
    (match (LRUKReplacer.new 7 2).Remove (-1) with
      | Except.ok r => some r
      | Except.error _ => none) = some (LRUKReplacer.new 7 2) ∧
    ((TimedReplacer.new 7 2).run [RecordAccess 7, SetEvictable 7 true]).map
        (fun t => (t.r.Size, t.r.Evict.1)) = some (1, some 7) ∧
    (match (LRUKReplacer.new 7 2).RecordAccess 8 with
      | Except.error LRUKError.invalid_argument => true
      | _ => false) = true := by
  decide!

end ReplacerClaims2

/-! ## Buffer pool manager: maps, frames and the replacer seen from the pool -/

theorem assocFind_assocErase {β : Type} (m : List (Int × β)) (k q : Int) :
    assocFind (assocErase m k) q = if q = k then none else assocFind m q := by
  induction m with
  | nil => simp [assocErase, assocFind]
  | cons x rest ih =>
    obtain ⟨a, b⟩ := x
    by_cases hak : a = k
    · by_cases h : q = k
      · subst h; simpa [assocErase, hak] using ih
      · have h1 : ¬ k = q := fun x => h x.symm
        simp [assocErase, assocFind, hak, h, h1, ih]
    · by_cases haq : a = q
      · have h : ¬ q = k := fun x => hak (haq.trans x)
        simp [assocErase, assocFind, hak, haq, h]
      · simp [assocErase, assocFind, hak, haq, ih]

theorem assocFind_append {β : Type} (m : List (Int × β)) (k q : Int) (v : β) :
    assocFind (m ++ [(k, v)]) q =
      match assocFind m q with
      | some x => some x
      | none => if k = q then some v else none := by
  induction m with
  | nil => simp [assocFind]
  | cons x rest ih =>
    obtain ⟨a, b⟩ := x
    by_cases haq : a = q
    · simp [assocFind, haq]
    · simp [assocFind, haq, ih]

theorem assocFind_assocEmplace {β : Type} (m : List (Int × β)) (k q : Int) (v : β) :
    assocFind (assocEmplace m k v) q =
      match assocFind m q with
      | some x => some x
      | none => if k = q then some v else none := by
  unfold assocEmplace
  cases hk : assocFind m k with
  | some x =>
    simp only
    cases hq : assocFind m q with
    | some y => rfl
    | none =>
      have : ¬ k = q := fun h => by rw [h, hq] at hk; cases hk
      simp [this]
  | none => simp only [assocFind_append]

theorem assocFind_assocPut {β : Type} (m : List (Int × β)) (k q : Int) (v : β) :
    assocFind (assocPut m k v) q = if q = k then some v else assocFind m q := by
  induction m with
  | nil =>
    by_cases h : q = k
    · simp [assocPut, assocFind, h]
    · have h1 : ¬ k = q := fun x => h x.symm
      simp [assocPut, assocFind, h, h1]
  | cons x rest ih =>
    obtain ⟨a, b⟩ := x
    by_cases hak : a = k
    · by_cases h : q = k
      · simp [assocPut, assocFind, hak, h]
      · have h1 : ¬ k = q := fun x => h x.symm
        simp [assocPut, assocFind, hak, h, h1]
    · by_cases haq : a = q
      · have h : ¬ q = k := fun x => hak (haq.trans x)
        simp [assocPut, assocFind, hak, haq, h]
      · simp [assocPut, assocFind, hak, haq, ih]

theorem diskRead_assocPut (disk : List (Int × Nat)) (k q : Int) (v : Nat) :
    diskRead (assocPut disk k v) q = if q = k then v else diskRead disk q := by
  unfold diskRead
  rw [assocFind_assocPut]
  by_cases h : q = k <;> simp [h]

theorem pageAt_isSome_iff (pages : List Page) (f : Int) :
    (pageAt pages f).isSome = true ↔ 0 ≤ f ∧ f < pages.length := by
  unfold pageAt
  by_cases h : 0 ≤ f
  · simp only [h, if_true, true_and]
    rw [Option.isSome_iff_exists]
    constructor
    · rintro ⟨p, hp⟩
      have := (List.getElem?_eq_some_iff.1 hp).1
      omega
    · intro hlt
      have h1 : f.toNat < pages.length := by omega
      exact ⟨_, List.getElem?_eq_getElem h1⟩
  · simp [h]

theorem pageAt_set (pages : List Page) (f g : Int) (p : Page)
    (hf : (pageAt pages f).isSome = true) :
    pageAt (pages.set f.toNat p) g = if g = f then some p else pageAt pages g := by
  have hr := (pageAt_isSome_iff pages f).1 hf
  unfold pageAt
  by_cases hg : 0 ≤ g
  · simp only [hg, if_true]
    by_cases hgf : g = f
    · subst hgf
      simp only [if_true]
      exact List.getElem?_set_self (by omega)
    · simp only [hgf, if_false]
      rw [List.getElem?_set_ne]
      omega
  · have hgf : ¬ g = f := fun h => hg (h ▸ hr.1)
    simp [hg, hgf]

namespace BufferPoolManager

theorem getPage_isSome_iff (b : BufferPoolManager) (f : Int) :
    (b.getPage f).isSome = true ↔ 0 ≤ f ∧ f < b.pages_.length :=
  pageAt_isSome_iff b.pages_ f

theorem getPage_setPage (b : BufferPoolManager) (f g : Int) (p : Page)
    (hf : (b.getPage f).isSome = true) :
    (b.setPage f p).getPage g = if g = f then some p else b.getPage g :=
  pageAt_set b.pages_ f g p hf

end BufferPoolManager

namespace LRUKReplacer

theorem status_isEvictable (r : LRUKReplacer) (f : Int) :
    r.isEvictable f = true ↔ r.status f = some true := by
  unfold isEvictable status
  cases mapFind r.entries_ f <;> simp

theorem recordAccess_status (r r1 : LRUKReplacer) (f g : Int)
    (h : r.RecordAccess f = Except.ok r1) :
    r1.status g = if g = f then some ((r.status f).getD false) else r.status g := by
  have hent : r1.entries_ = mapPut r.entries_ f
      { entryOrDefault r.entries_ f with
        hit_count_ := (entryOrDefault r.entries_ f).hit_count_ + 1 } := by
    unfold RecordAccess at h
    dsimp only at h
    by_cases h0 : f > static_cast_int r.replacer_size_
    · rw [if_pos h0] at h; cases h
    rw [if_neg h0] at h
    by_cases h1 : (entryOrDefault r.entries_ f).hit_count_ + 1 = 1
    · rw [if_pos h1] at h; cases h; rfl
    rw [if_neg h1] at h
    by_cases h2 : (entryOrDefault r.entries_ f).hit_count_ + 1 = r.k_
    · rw [if_pos h2] at h
      by_cases h3 : f ∈ r.history_list_
      · rw [if_pos h3] at h; cases h; rfl
      · rw [if_neg h3] at h; cases h
    rw [if_neg h2] at h
    by_cases h4 : (entryOrDefault r.entries_ f).hit_count_ + 1 > r.k_
    · rw [if_pos h4] at h
      by_cases h3 : f ∈ r.lru_list_
      · rw [if_pos h3] at h; cases h; rfl
      · rw [if_neg h3] at h; cases h
    rw [if_neg h4] at h; cases h; rfl
  unfold status
  rw [hent, mapFind_mapPut]
  by_cases hgf : g = f
  · subst hgf
    simp only [if_true, Option.map_some']
    unfold entryOrDefault
    cases mapFind r.entries_ g <;> rfl
  · simp [hgf]

theorem setEvictable_status (r r1 : LRUKReplacer) (f g : Int) (b : Bool)
    (h : r.SetEvictable f b = Except.ok r1) :
    r1.status g = if g = f ∧ r.status f ≠ none then some b else r.status g := by
  unfold SetEvictable at h
  by_cases hrange : f > static_cast_int r.replacer_size_
  · simp [hrange] at h
  simp only [hrange, if_false] at h
  unfold status
  cases hfind : mapFind r.entries_ f with
  | none =>
    simp only [hfind, Except.ok.injEq] at h
    subst h
    simp
  | some e =>
    simp only [hfind, Except.ok.injEq] at h
    subst h
    simp only [mapFind_mapPut]
    by_cases hgf : g = f
    · simp [hgf]
    · simp [hgf]

theorem remove_status (r r1 : LRUKReplacer) (f g : Int)
    (h : r.Remove f = Except.ok r1) :
    r1.status g = if g = f then none else r.status g := by
  unfold Remove at h
  by_cases hrange : f > static_cast_int r.replacer_size_
  · simp [hrange] at h
  simp only [hrange, if_false] at h
  unfold status
  cases hfind : mapFind r.entries_ f with
  | none =>
    simp only [hfind, Except.ok.injEq] at h
    subst h
    by_cases hgf : g = f
    · subst hgf; simp [hfind]
    · simp [hgf]
  | some e =>
    simp only [hfind] at h
    have hent : r1.entries_ = mapErase r.entries_ f := by
      by_cases h1 : (!e.is_evictable_) = true
      · rw [if_pos h1] at h; cases h
      rw [if_neg h1] at h
      by_cases h2 : e.hit_count_ < r.k_
      · rw [if_pos h2] at h
        by_cases h3 : f ∈ r.history_list_
        · rw [if_pos h3] at h; cases h; rfl
        · rw [if_neg h3] at h; cases h
      · rw [if_neg h2] at h
        by_cases h3 : f ∈ r.lru_list_
        · rw [if_pos h3] at h; cases h; rfl
        · rw [if_neg h3] at h; cases h
    rw [hent, mapFind_mapErase]
    by_cases hgf : g = f
    · simp [hgf]
    · simp [hgf]

end LRUKReplacer

namespace LRUKReplacer

theorem Consistent.of_new_replacer (num_frames k : Nat) (hk : 2 ≤ k) :
    (LRUKReplacer.new num_frames k).Consistent :=
  ⟨TimedReplacer.new num_frames k, rfl, TimedReplacer.Inv.at_new num_frames k hk⟩

theorem Consistent.recordAccess {r : LRUKReplacer} (h : r.Consistent) (f : Int)
    (hf : ¬ f > static_cast_int r.replacer_size_) :
    ∃ r1, r.RecordAccess f = Except.ok r1 ∧ r1.Consistent ∧
      r1.replacer_size_ = r.replacer_size_ := by
  obtain ⟨t, rfl, hinv⟩ := h
  cases hra : t.r.RecordAccess f with
  | ok r1 =>
    exact ⟨r1, rfl, ⟨_, rfl, hinv.after_recordAccess f r1 hra⟩,
      (TimedReplacer.recordAccess_params t.r r1 f hra).1⟩
  | error e =>
    exfalso
    cases e with
    | undefined => exact hinv.recordAccess_is_defined f hra
    | invalid_argument =>
      unfold RecordAccess at hra
      dsimp only at hra
      rw [if_neg hf] at hra
      split_ifs at hra <;> simp at hra
    | logic_error =>
      unfold RecordAccess at hra
      dsimp only at hra
      rw [if_neg hf] at hra
      split_ifs at hra <;> simp at hra

theorem Consistent.setEvictable {r : LRUKReplacer} (h : r.Consistent) (f : Int) (b : Bool)
    (hf : ¬ f > static_cast_int r.replacer_size_) :
    ∃ r1, r.SetEvictable f b = Except.ok r1 ∧ r1.Consistent ∧
      r1.replacer_size_ = r.replacer_size_ := by
  obtain ⟨t, rfl, hinv⟩ := h
  cases hra : t.r.SetEvictable f b with
  | ok r1 =>
    exact ⟨r1, rfl, ⟨_, rfl, (hinv.after_setEvictable f b).2 r1 hra⟩,
      (TimedReplacer.setEvictable_params t.r r1 f b hra).1⟩
  | error e =>
    exfalso
    unfold SetEvictable at hra
    rw [if_neg hf] at hra
    cases hfind : mapFind t.r.entries_ f <;> rw [hfind] at hra <;> cases hra

theorem Consistent.remove {r : LRUKReplacer} (h : r.Consistent) (f : Int)
    (hf : ¬ f > static_cast_int r.replacer_size_) (hs : r.status f ≠ some false) :
    ∃ r1, r.Remove f = Except.ok r1 ∧ r1.Consistent ∧
      r1.replacer_size_ = r.replacer_size_ := by
  obtain ⟨t, rfl, hinv⟩ := h
  cases hra : t.r.Remove f with
  | ok r1 =>
    exact ⟨r1, rfl, ⟨_, rfl, (hinv.after_remove f).2 r1 hra⟩,
      (TimedReplacer.remove_params t.r r1 f hra).1⟩
  | error e =>
    exfalso
    cases e with
    | undefined => exact (hinv.after_remove f).1 hra
    | invalid_argument =>
      unfold Remove at hra
      rw [if_neg hf] at hra
      cases hfind : mapFind t.r.entries_ f with
      | none => rw [hfind] at hra; cases hra
      | some e =>
        rw [hfind] at hra
        dsimp only at hra
        split_ifs at hra <;> simp at hra
    | logic_error =>
      unfold Remove at hra
      rw [if_neg hf] at hra
      cases hfind : mapFind t.r.entries_ f with
      | none => rw [hfind] at hra; cases hra
      | some e =>
        rw [hfind] at hra
        dsimp only at hra
        have hev : e.is_evictable_ = true := by
          cases hx : e.is_evictable_ with
          | true => rfl
          | false => exact absurd (by simp [status, hfind, hx]) hs
        simp only [hev, Bool.not_true, Bool.false_eq_true, if_false] at hra
        split_ifs at hra <;> simp at hra

/-- The outcome of `Evict` seen through `status`: either no frame is evictable and the
replacer is unchanged, or the frame returned was evictable and has no entry afterwards while
every other frame keeps its status. -/
theorem Consistent.evict {r : LRUKReplacer} (h : r.Consistent) :
    r.Evict.2.Consistent ∧ r.Evict.2.replacer_size_ = r.replacer_size_ ∧
    ((r.Evict = (none, r) ∧ ∀ f, r.status f ≠ some true) ∨
     ∃ f, r.Evict.1 = some f ∧ r.status f = some true ∧
       ∀ g, r.Evict.2.status g = if g = f then none else r.status g) := by
  obtain ⟨t, rfl, hinv⟩ := h
  refine ⟨⟨_, rfl, hinv.after_evict⟩, (TimedReplacer.evict_params t.r).1, ?_⟩
  rw [hinv.evict_unfold]
  cases hf1 : t.r.history_list_.reverse.find?
      (fun f => (entryOrDefault t.r.entries_ f).is_evictable_) with
  | some f =>
    right
    have hm : f ∈ t.r.history_list_ := List.mem_reverse.1 (List.mem_of_find?_eq_some hf1)
    obtain ⟨e, he, _⟩ := (hinv.hist_iff f).1 hm
    have hp := List.find?_some hf1
    simp only [entryOrDefault, he, Option.getD_some] at hp
    refine ⟨f, rfl, by simp [status, he, hp], ?_⟩
    intro g
    simp only [status, mapFind_mapErase]
    by_cases hgf : g = f <;> simp [hgf]
  | none =>
    simp only
    cases hf2 : t.r.lru_list_.reverse.find?
        (fun f => (entryOrDefault t.r.entries_ f).is_evictable_) with
    | some f =>
      right
      have hm : f ∈ t.r.lru_list_ := List.mem_reverse.1 (List.mem_of_find?_eq_some hf2)
      obtain ⟨e, he, _⟩ := (hinv.lru_iff f).1 hm
      have hp := List.find?_some hf2
      simp only [entryOrDefault, he, Option.getD_some] at hp
      refine ⟨f, rfl, by simp [status, he, hp], ?_⟩
      intro g
      simp only [status, mapFind_mapErase]
      by_cases hgf : g = f <;> simp [hgf]
    | none =>
      left
      refine ⟨rfl, ?_⟩
      intro f hs
      rw [List.find?_eq_none] at hf1 hf2
      unfold status at hs
      cases hfind : mapFind t.r.entries_ f with
      | none => rw [hfind] at hs; cases hs
      | some e =>
        rw [hfind] at hs
        simp only [Option.map_some', Option.some.injEq] at hs
        by_cases hc : e.hit_count_ < t.r.k_
        · have hm := (hinv.hist_iff f).2 ⟨e, hfind, hc⟩
          have := hf1 f (List.mem_reverse.2 hm)
          simp [entryOrDefault, hfind, hs] at this
        · have hm := (hinv.lru_iff f).2 ⟨e, hfind, by omega⟩
          have := hf2 f (List.mem_reverse.2 hm)
          simp [entryOrDefault, hfind, hs] at this

end LRUKReplacer

namespace BufferPoolManager

theorem Inv.mono {n m : Nat} {b : BufferPoolManager} {x : Option Int} (h : b.Inv n x)
    (hnm : n ≤ m) : b.Inv m x :=
  { h with
    pin_le := fun f page hp => le_trans (h.pin_le f page hp) (by exact_mod_cast hnm)
    next_le := le_trans h.next_le (by exact_mod_cast hnm) }

theorem getPage_new (pool_size replacer_k : Nat) (disk : List (Int × Nat)) (f : Int)
    (page : Page) (h : (BufferPoolManager.new pool_size replacer_k disk).getPage f = some page) :
    page = emptyPage := by
  unfold getPage pageAt BufferPoolManager.new at h
  split_ifs at h
  simp only at h
  have := List.getElem?_eq_some_iff.1 h
  obtain ⟨hlt, heq⟩ := this
  simp at heq
  exact heq.symm

theorem Inv.of_new_pool (pool_size replacer_k : Nat) (disk : List (Int × Nat))
    (hk : 2 ≤ replacer_k) (hs : pool_size < 2 ^ 31) :
    (BufferPoolManager.new pool_size replacer_k disk).Inv 0 none := by
  have hfree : ∀ f, f ∈ (List.range pool_size).map static_cast_int ↔
      0 ≤ f ∧ f < pool_size := by
    intro f
    rw [List.mem_map]
    constructor
    · rintro ⟨i, hi, rfl⟩
      rw [List.mem_range] at hi
      rw [TimedReplacer.static_cast_int_small i (by omega)]
      omega
    · intro hf
      refine ⟨f.toNat, List.mem_range.2 (by omega), ?_⟩
      rw [TimedReplacer.static_cast_int_small _ (by omega)]
      omega
  have hget : ∀ f, ((BufferPoolManager.new pool_size replacer_k disk).getPage f).isSome = true ↔
      0 ≤ f ∧ f < pool_size := by
    intro f
    rw [getPage_isSome_iff]
    simp [BufferPoolManager.new]
  constructor
  · simp [BufferPoolManager.new]
  · exact hs
  · rfl
  · exact LRUKReplacer.Consistent.of_new_replacer pool_size replacer_k hk
  · show ((List.range pool_size).map static_cast_int).Nodup
    refine List.Nodup.map_on ?_ (List.nodup_range pool_size)
    intro i hi j hj hij
    rw [List.mem_range] at hi hj
    rw [TimedReplacer.static_cast_int_small i (by omega), TimedReplacer.static_cast_int_small j (by omega)] at hij
    exact_mod_cast hij
  · intro f hf
    have hr := (hfree f).1 hf
    refine ⟨rfl, ?_⟩
    have := (hget f).2 hr
    obtain ⟨page, hp⟩ := Option.isSome_iff_exists.1 this
    refine ⟨page, hp, ?_⟩
    rw [getPage_new _ _ _ _ _ hp]
    rfl
  · intro f hf; cases hf
  · intro f page hp hnf _
    exfalso
    apply hnf
    exact (hfree f).2 ((hget f).1 (by rw [hp]; rfl))
  · intro f hf
    exact absurd rfl hf
  · intro q g hq
    simp [BufferPoolManager.new, assocFind] at hq
  · intro g page hp hn
    rw [getPage_new _ _ _ _ _ hp] at hn
    simp [BufferPoolManager.new, emptyPage, INVALID_PAGE_ID] at hn
  · intro f page hp
    rw [getPage_new _ _ _ _ _ hp]
    simp [emptyPage]
  · simp [BufferPoolManager.new]
  · simp [BufferPoolManager.new]

/-- A change of buffers, dirty flags, disk and request log keeps the bookkeeping. -/
theorem Inv.of_meta {n : Nat} {b b1 : BufferPoolManager} {x : Option Int} (h : b.Inv n x)
    (h1 : b1.pool_size_ = b.pool_size_) (h2 : b1.page_table_ = b.page_table_)
    (h3 : b1.free_list_ = b.free_list_) (h4 : b1.replacer_ = b.replacer_)
    (h5 : b1.next_page_id_ = b.next_page_id_)
    (hp : ∀ f, (b1.getPage f).map (fun p => (p.page_id_, p.pin_count_)) =
      (b.getPage f).map (fun p => (p.page_id_, p.pin_count_)))
    (hlen : b1.pages_.length = b.pages_.length) :
    b1.Inv n x := by
  have hsome : ∀ f, (b1.getPage f).isSome = (b.getPage f).isSome := by
    intro f
    have := congrArg Option.isSome (hp f)
    simpa using this
  have hfw : ∀ f page1, b1.getPage f = some page1 →
      ∃ page, b.getPage f = some page ∧ page.page_id_ = page1.page_id_ ∧
        page.pin_count_ = page1.pin_count_ := by
    intro f page1 hf
    have := hp f
    rw [hf] at this
    cases hb : b.getPage f with
    | none => rw [hb] at this; cases this
    | some page =>
      rw [hb] at this
      simp only [Option.map_some', Option.some.injEq, Prod.mk.injEq] at this
      exact ⟨page, rfl, this.1.symm, this.2.symm⟩
  have hbw : ∀ f page, b.getPage f = some page →
      ∃ page1, b1.getPage f = some page1 ∧ page1.page_id_ = page.page_id_ ∧
        page1.pin_count_ = page.pin_count_ := by
    intro f page hf
    have := hp f
    rw [hf] at this
    cases hb : b1.getPage f with
    | none => rw [hb] at this; cases this
    | some page1 =>
      rw [hb] at this
      simp only [Option.map_some', Option.some.injEq, Prod.mk.injEq] at this
      exact ⟨page1, rfl, this.1, this.2⟩
  constructor
  · rw [hlen, h1]; exact h.len
  · rw [h1]; exact h.small
  · rw [h4, h1]; exact h.rsize
  · rw [h4]; exact h.rinv
  · rw [h3]; exact h.free_nodup
  · intro f hf
    rw [h3] at hf
    rw [h4]
    obtain ⟨hs, page, hpg, hid⟩ := h.free_spec f hf
    obtain ⟨page1, hp1, hid1, _⟩ := hbw f page hpg
    exact ⟨hs, page1, hp1, hid1.trans hid⟩
  · intro f hx
    rw [hsome, h3, h4]
    exact h.limbo f hx
  · intro f page1 hf hnf hx
    rw [h3] at hnf
    rw [h4]
    obtain ⟨page, hpg, hid, hpin⟩ := hfw f page1 hf
    have := h.occ f page hpg hnf hx
    rw [hid, hpin] at this
    exact this
  · intro f hf
    rw [h4] at hf
    rw [hsome]
    exact h.tracked f hf
  · intro q g hq
    rw [h2] at hq
    obtain ⟨page, hpg, hid⟩ := h.table q g hq
    obtain ⟨page1, hp1, hid1, _⟩ := hbw g page hpg
    exact ⟨page1, hp1, hid1.trans hid⟩
  · intro g page1 hf hn
    rw [h5] at hn
    rw [h2]
    obtain ⟨page, hpg, hid, _⟩ := hfw g page1 hf
    rw [← hid] at hn ⊢
    exact h.fresh g page hpg hn
  · intro f page1 hf
    obtain ⟨page, hpg, _, hpin⟩ := hfw f page1 hf
    rw [← hpin]
    exact h.pin_le f page hpg
  · rw [h5]; exact h.next_ge
  · rw [h5]; exact h.next_le

end BufferPoolManager

namespace BufferPoolManager

theorem getPage_lt {b : BufferPoolManager} {f : Int} {page : Page}
    (h : b.getPage f = some page) : 0 ≤ f ∧ f < b.pages_.length :=
  (getPage_isSome_iff b f).1 (by rw [h]; rfl)

/-- The state after `WritePageToDisk` on a frame of the array. -/
theorem WritePageToDisk_eq (b : BufferPoolManager) (f : Int) (page : Page)
    (hp : b.getPage f = some page) :
    b.WritePageToDisk f = some { b with
      disk_ := assocPut b.disk_ page.page_id_ page.data_,
      disk_log_ := b.disk_log_ ++
        [{ is_write_ := true, page_id_ := page.page_id_, data_ := page.data_ }],
      pages_ := b.pages_.set f.toNat { page with is_dirty_ := false } } := by
  unfold WritePageToDisk
  rw [hp]

/-- The state after `ReadPageFromDisk` on a frame of the array. -/
theorem ReadPageFromDisk_eq (b : BufferPoolManager) (f : Int) (page : Page)
    (hp : b.getPage f = some page) :
    b.ReadPageFromDisk f = some { b with
      disk_log_ := b.disk_log_ ++
        [{ is_write_ := false, page_id_ := page.page_id_,
           data_ := diskRead b.disk_ page.page_id_ }],
      pages_ := b.pages_.set f.toNat
        { page with data_ := diskRead b.disk_ page.page_id_ } } := by
  unfold ReadPageFromDisk
  rw [hp]

/-- A store into a frame that keeps its page id and pin count keeps the bookkeeping. -/
theorem Inv.set_meta {n : Nat} {b : BufferPoolManager} {x : Option Int} (h : b.Inv n x)
    (f : Int) (page page1 : Page) (hp : b.getPage f = some page)
    (hid : page1.page_id_ = page.page_id_) (hpin : page1.pin_count_ = page.pin_count_)
    (disk : List (Int × Nat)) (log : List DiskRequest) :
    Inv n { b with pages_ := b.pages_.set f.toNat page1, disk_ := disk, disk_log_ := log } x := by
  refine h.of_meta rfl rfl rfl rfl rfl ?_ (by simp)
  intro g
  show (pageAt (b.pages_.set f.toNat page1) g).map _ = (pageAt b.pages_ g).map _
  have hp1 : pageAt b.pages_ f = some page := hp
  rw [pageAt_set b.pages_ f g page1 (by rw [hp1]; rfl)]
  by_cases hgf : g = f
  · subst hgf
    simp [hp1, hid, hpin]
  · simp [hgf]

theorem Inv.writePage {n : Nat} {b b1 : BufferPoolManager} {x : Option Int} (h : b.Inv n x)
    (f : Int) (hw : b.WritePageToDisk f = some b1) : b1.Inv n x := by
  cases hp : b.getPage f with
  | none => simp [WritePageToDisk, hp] at hw
  | some page =>
    rw [WritePageToDisk_eq b f page hp] at hw
    cases hw
    exact h.set_meta f page { page with is_dirty_ := false } hp rfl rfl _ _

theorem Inv.readPage {n : Nat} {b b1 : BufferPoolManager} {x : Option Int} (h : b.Inv n x)
    (f : Int) (hw : b.ReadPageFromDisk f = some b1) : b1.Inv n x := by
  cases hp : b.getPage f with
  | none => simp [ReadPageFromDisk, hp] at hw
  | some page =>
    rw [ReadPageFromDisk_eq b f page hp] at hw
    cases hw
    exact h.set_meta f page { page with data_ := diskRead b.disk_ page.page_id_ } hp rfl rfl _ _

theorem Inv.frame_le {n : Nat} {b : BufferPoolManager} {x : Option Int} (h : b.Inv n x)
    (f : Int) (hf : (b.getPage f).isSome = true) :
    ¬ f > static_cast_int b.replacer_.replacer_size_ := by
  have := (getPage_isSome_iff b f).1 hf
  rw [h.rsize, TimedReplacer.static_cast_int_small _ h.small]
  have := h.len
  omega

/-- The frame `NewPage` and `FetchPage` take, and the state in which they hold it. -/
theorem Inv.acquireFrame {n : Nat} {b : BufferPoolManager} (h : b.Inv n none) :
    (b.acquireFrame = some (none, b) ∧ b.free_list_ = [] ∧
      ∀ f, b.replacer_.status f ≠ some true) ∨
    ∃ f b1, b.acquireFrame = some (some f, b1) ∧ b1.Inv n (some f) ∧
      b1.pages_ = b.pages_ ∧ b1.page_table_ = b.page_table_ ∧
      b1.next_page_id_ = b.next_page_id_ ∧ b1.disk_ = b.disk_ ∧
      b1.disk_log_ = b.disk_log_ ∧ b1.pool_size_ = b.pool_size_ ∧
      (∀ g, g ≠ f → b1.replacer_.status g = b.replacer_.status g) ∧
      ((b.free_list_ ≠ [] ∧ b.free_list_.getLast? = some f ∧
          b1.free_list_ = b.free_list_.dropLast ∧ b1.replacer_ = b.replacer_) ∨
       (b.free_list_ = [] ∧ b.replacer_.Evict.1 = some f ∧
          b.replacer_.status f = some true ∧ b1.free_list_ = [] ∧
          b1.replacer_ = b.replacer_.Evict.2)) := by
  by_cases hfl : b.free_list_ = []
  · obtain ⟨hc, hsz, hcases⟩ := h.rinv.evict
    rcases hcases with ⟨he, hno⟩ | ⟨f, he, hst, hothers⟩
    · left
      refine ⟨?_, hfl, hno⟩
      unfold BufferPoolManager.acquireFrame
      rw [if_neg (not_not.2 hfl), he]
    · right
      refine ⟨f, { b with replacer_ := b.replacer_.Evict.2 }, ?_, ?_, rfl, rfl, rfl, rfl, rfl,
        rfl, ?_, Or.inr ⟨hfl, he, hst, hfl, rfl⟩⟩
      · unfold BufferPoolManager.acquireFrame
        rw [if_neg (not_not.2 hfl)]
        have : b.replacer_.Evict = (some f, b.replacer_.Evict.2) := by
          rw [← he]
        rw [this]
      · have hfr : (b.getPage f).isSome = true := h.tracked f (by rw [hst]; simp)
        constructor
        · exact h.len
        · exact h.small
        · exact hsz.trans h.rsize
        · exact hc
        · exact h.free_nodup
        · intro g hg
          rw [hfl] at hg; cases hg
        · intro g hg
          cases hg
          refine ⟨hfr, by rw [hfl]; simp, ?_⟩
          show b.replacer_.Evict.2.status f = none
          rw [hothers f]; simp
        · intro g page hp hnf hx
          have hgf : g ≠ f := fun hgf => hx (by rw [hgf])
          have := h.occ g page hp hnf (by simp)
          refine ⟨this.1, this.2.1, ?_⟩
          show b.replacer_.Evict.2.status g = _
          rw [hothers g, if_neg hgf]
          exact this.2.2
        · intro g hg
          have hg1 : b.replacer_.Evict.2.status g ≠ none := hg
          rw [hothers g] at hg1
          by_cases hgf : g = f
          · simp [hgf] at hg1
          · rw [if_neg hgf] at hg1
            exact h.tracked g hg1
        · exact h.table
        · exact h.fresh
        · exact h.pin_le
        · exact h.next_ge
        · exact h.next_le
      · intro g hgf
        show b.replacer_.Evict.2.status g = _
        rw [hothers g, if_neg hgf]
  · right
    obtain ⟨f, hlast⟩ : ∃ f, b.free_list_.getLast? = some f := by
      cases hx : b.free_list_.getLast? with
      | none => exact absurd (List.getLast?_eq_none_iff.1 hx) hfl
      | some f => exact ⟨f, rfl⟩
    have hsplit : b.free_list_ = b.free_list_.dropLast ++ [f] := by
      have := List.dropLast_append_getLast? f hlast
      exact this.symm
    have hmem : ∀ g, g ∈ b.free_list_ ↔ g ∈ b.free_list_.dropLast ∨ g = f := by
      intro g
      conv_lhs => rw [hsplit]
      simp
    have hnd : f ∉ b.free_list_.dropLast := by
      have := h.free_nodup
      rw [hsplit, List.nodup_append] at this
      intro hf
      exact this.2.2 hf (List.mem_singleton_self f)
    have hfs := h.free_spec f ((hmem f).2 (Or.inr rfl))
    refine ⟨f, { b with free_list_ := b.free_list_.dropLast }, ?_, ?_, rfl, rfl, rfl, rfl, rfl,
      rfl, fun _ _ => rfl, Or.inl ⟨hfl, hlast, rfl, rfl⟩⟩
    · unfold BufferPoolManager.acquireFrame FreeListGetFrame
      rw [if_pos hfl, hlast]
    · constructor
      · exact h.len
      · exact h.small
      · exact h.rsize
      · exact h.rinv
      · exact h.free_nodup.sublist (List.dropLast_sublist _)
      · intro g hg
        exact h.free_spec g ((hmem g).2 (Or.inl hg))
      · intro g hg
        cases hg
        obtain ⟨page, hp, _⟩ := hfs.2
        exact ⟨(show (b.getPage f).isSome = true by rw [hp]; rfl), hnd, hfs.1⟩
      · intro g page hp hnf hx
        have hgf : g ≠ f := fun hgf => hx (by rw [hgf])
        refine h.occ g page hp ?_ (by simp)
        intro hg
        rcases (hmem g).1 hg with hg | hg
        · exact hnf hg
        · exact hgf hg
      · exact h.tracked
      · exact h.table
      · exact h.fresh
      · exact h.pin_le
      · exact h.next_ge
      · exact h.next_le

end BufferPoolManager

namespace BufferPoolManager

/-- Installing a page in the frame a call holds (page table, page fields, replacer). -/
theorem Inv.install {n : Nat} {b : BufferPoolManager} {f : Int} (h : b.Inv n (some f))
    (page : Page) (hp : b.getPage f = some page) (new_id : Int) (hn1 : 1 ≤ n)
    (hnew : new_id ≠ INVALID_PAGE_ID)
    (hfresh : b.next_page_id_ ≤ new_id →
      assocFind (assocErase b.page_table_ page.page_id_) new_id = none) :
    ∃ b1, ((b.UpdatePageTable page.page_id_ new_id f).setPage f
        { page with page_id_ := new_id, pin_count_ := 1, data_ := 0 }).UpdateReplacer f
          = some b1 ∧
      b1.Inv n none ∧
      b1.pages_ = b.pages_.set f.toNat
        { page with page_id_ := new_id, pin_count_ := 1, data_ := 0 } ∧
      b1.page_table_ = assocEmplace (assocErase b.page_table_ page.page_id_) new_id f ∧
      b1.free_list_ = b.free_list_ ∧ b1.next_page_id_ = b.next_page_id_ ∧
      b1.disk_ = b.disk_ ∧ b1.disk_log_ = b.disk_log_ ∧ b1.pool_size_ = b.pool_size_ ∧
      (∀ g, b1.replacer_.status g = if g = f then some false else b.replacer_.status g) := by
  have hlim := h.limbo f rfl
  have hrange := h.frame_le f hlim.1
  obtain ⟨r1, hra, hc1, hs1⟩ := h.rinv.recordAccess f hrange
  obtain ⟨r2, hse, hc2, hs2⟩ := hc1.setEvictable f false (by rw [hs1]; exact hrange)
  have hstat : ∀ g, r2.status g = if g = f then some false else b.replacer_.status g := by
    intro g
    rw [LRUKReplacer.setEvictable_status r1 r2 f g false hse,
      LRUKReplacer.recordAccess_status b.replacer_ r1 f g hra,
      LRUKReplacer.recordAccess_status b.replacer_ r1 f f hra]
    by_cases hgf : g = f
    · simp [hgf]
    · simp [hgf]
  have hpf : pageAt b.pages_ f = some page := hp
  have hget : ∀ g, pageAt (b.pages_.set f.toNat
      { page with page_id_ := new_id, pin_count_ := 1, data_ := 0 }) g =
      if g = f then some { page with page_id_ := new_id, pin_count_ := 1, data_ := 0 }
      else b.getPage g := fun g => pageAt_set b.pages_ f g _ (by rw [hpf]; rfl)
  refine ⟨{ b with
      page_table_ := assocEmplace (assocErase b.page_table_ page.page_id_) new_id f,
      pages_ := b.pages_.set f.toNat
        { page with page_id_ := new_id, pin_count_ := 1, data_ := 0 },
      replacer_ := r2 }, ?_, ?_, rfl, rfl, rfl, rfl, rfl, rfl, rfl, hstat⟩
  · unfold UpdateReplacer
    show (match b.replacer_.RecordAccess f with
      | Except.error _ => none
      | Except.ok r1 => _) = _
    rw [hra]
    dsimp only
    rw [hse]
    rfl
  · constructor
    · simp [h.len]
    · exact h.small
    · exact hs2.trans (hs1.trans h.rsize)
    · exact hc2
    · exact h.free_nodup
    · intro g hg
      have hgf : g ≠ f := fun hgf => hlim.2.1 (hgf ▸ hg)
      obtain ⟨hs, pg, hpg, hid⟩ := h.free_spec g hg
      refine ⟨?_, pg, ?_, hid⟩
      · show r2.status g = none
        rw [hstat g, if_neg hgf]; exact hs
      · show pageAt _ g = some pg
        rw [hget g, if_neg hgf]; exact hpg
    · intro g hg; cases hg
    · intro g pg hpg hnf _
      have hpg1 : pageAt _ g = some pg := hpg
      rw [hget g] at hpg1
      by_cases hgf : g = f
      · rw [if_pos hgf] at hpg1
        cases hpg1
        refine ⟨hnew, by simp, ?_⟩
        show r2.status g = _
        rw [hstat g, if_pos hgf]
        simp
      · rw [if_neg hgf] at hpg1
        have := h.occ g pg hpg1 hnf (by simpa using fun hx => hgf hx.symm)
        refine ⟨this.1, this.2.1, ?_⟩
        show r2.status g = _
        rw [hstat g, if_neg hgf]
        exact this.2.2
    · intro g hg
      have hg1 : r2.status g ≠ none := hg
      show (pageAt _ g).isSome = true
      rw [hget g]
      by_cases hgf : g = f
      · simp [hgf]
      · rw [if_neg hgf]
        rw [hstat g, if_neg hgf] at hg1
        exact h.tracked g hg1
    · intro q g hq
      have hq1 : assocFind (assocEmplace (assocErase b.page_table_ page.page_id_) new_id f) q
          = some g := hq
      rw [assocFind_assocEmplace, assocFind_assocErase] at hq1
      show ∃ pg, pageAt _ g = some pg ∧ pg.page_id_ = q
      rw [hget g]
      by_cases hqo : q = page.page_id_
      · simp only [hqo, if_true] at hq1
        split_ifs at hq1 with hnq
        cases hq1
        refine ⟨_, if_pos rfl, ?_⟩
        show new_id = q
        rw [hqo]; exact hnq
      · simp only [hqo, if_false] at hq1
        cases hT : assocFind b.page_table_ q with
        | some g1 =>
          rw [hT] at hq1
          simp only [Option.some.injEq] at hq1
          subst hq1
          obtain ⟨pg, hpg, hid⟩ := h.table q g1 hT
          have hgf : g1 ≠ f := by
            intro hgf
            rw [hgf, hp] at hpg
            cases hpg
            exact hqo hid.symm
          exact ⟨pg, by rw [if_neg hgf]; exact hpg, hid⟩
        | none =>
          rw [hT] at hq1
          simp only at hq1
          split_ifs at hq1 with hnq
          cases hq1
          exact ⟨_, if_pos rfl, hnq⟩
    · intro g pg hpg hn
      have hpg1 : pageAt _ g = some pg := hpg
      rw [hget g] at hpg1
      show assocFind (assocEmplace (assocErase b.page_table_ page.page_id_) new_id f)
        pg.page_id_ = some g
      rw [assocFind_assocEmplace]
      by_cases hgf : g = f
      · rw [if_pos hgf] at hpg1
        cases hpg1
        simp only at hn ⊢
        rw [hfresh hn]
        simp [hgf]
      · rw [if_neg hgf] at hpg1
        have hT := h.fresh g pg hpg1 hn
        have hne : pg.page_id_ ≠ page.page_id_ := by
          intro hne
          have hn2 : b.next_page_id_ ≤ page.page_id_ := hne ▸ hn
          have := h.fresh f page hp hn2
          rw [← hne, hT] at this
          cases this
          exact hgf rfl
        rw [assocFind_assocErase, if_neg hne, hT]
    · intro g pg hpg
      have hpg1 : pageAt _ g = some pg := hpg
      rw [hget g] at hpg1
      by_cases hgf : g = f
      · rw [if_pos hgf] at hpg1
        cases hpg1
        simp only
        exact_mod_cast hn1
      · rw [if_neg hgf] at hpg1
        exact h.pin_le g pg hpg1
    · exact h.next_ge
    · exact h.next_le

end BufferPoolManager

namespace BufferPoolManager

theorem Inv.bump_next {n : Nat} {b : BufferPoolManager} {x : Option Int} (h : b.Inv n x) :
    Inv (n + 1) { b with next_page_id_ := b.next_page_id_ + 1 } x := by
  constructor
  · exact h.len
  · exact h.small
  · exact h.rsize
  · exact h.rinv
  · exact h.free_nodup
  · exact h.free_spec
  · exact h.limbo
  · exact h.occ
  · exact h.tracked
  · exact h.table
  · intro g pg hpg hn
    exact h.fresh g pg hpg (by have : b.next_page_id_ + 1 ≤ pg.page_id_ := hn; omega)
  · intro g pg hpg
    have := h.pin_le g pg hpg
    push_cast
    omega
  · show 0 ≤ b.next_page_id_ + 1
    have := h.next_ge
    omega
  · show b.next_page_id_ + 1 ≤ ((n + 1 : Nat) : Int)
    have := h.next_le
    push_cast
    omega

theorem wrapInt32_small (x : Int) (h : x < 2 ^ 31) : wrapInt32 x = x := by
  unfold wrapInt32
  rw [if_pos h]

/-- What `NewPage` does in a state with the bookkeeping in place. -/
theorem Inv.newPage {n : Nat} {b : BufferPoolManager} (h : b.Inv n none)
    (hn : (n : Int) + 1 < 2 ^ 31) :
    (b.NewPage = some (none, b) ∧ b.free_list_ = [] ∧
      ∀ f, b.replacer_.status f ≠ some true) ∨
    ∃ f b1 page, b.NewPage = some (some (b.next_page_id_, f), b1) ∧ b1.Inv (n + 1) none ∧
      b.getPage f = some page ∧
      ((b.free_list_ ≠ [] ∧ b.free_list_.getLast? = some f) ∨
       (b.free_list_ = [] ∧ b.replacer_.Evict.1 = some f ∧
         b.replacer_.status f = some true)) ∧
      b1.pages_ = b.pages_.set f.toNat
        { page_id_ := b.next_page_id_, pin_count_ := 1,
          is_dirty_ := (decide (b.free_list_ ≠ []) && page.is_dirty_), data_ := 0 } ∧
      b1.page_table_ = assocEmplace (assocErase b.page_table_ page.page_id_) b.next_page_id_ f ∧
      b1.free_list_ = b.free_list_.dropLast ∧
      b1.next_page_id_ = b.next_page_id_ + 1 ∧
      b1.disk_ = (if b.free_list_ = [] ∧ page.is_dirty_ = true
        then assocPut b.disk_ page.page_id_ page.data_ else b.disk_) ∧
      b1.disk_log_ = (if b.free_list_ = [] ∧ page.is_dirty_ = true
        then b.disk_log_ ++
          [{ is_write_ := true, page_id_ := page.page_id_, data_ := page.data_ }]
        else b.disk_log_) ∧
      b1.pool_size_ = b.pool_size_ ∧
      (∀ g, b1.replacer_.status g = if g = f then some false else b.replacer_.status g) := by
  rcases h.acquireFrame with ⟨hacq, hfl, hno⟩ | ⟨f, b1, hacq, hinv1, hpages, htable, hnext, hdisk,
      hlog, hpool, hothers, hcase⟩
  · left
    refine ⟨?_, hfl, hno⟩
    unfold NewPage
    rw [hacq]
  · right
    have hlim := hinv1.limbo f rfl
    obtain ⟨page, hp1⟩ := Option.isSome_iff_exists.1 hlim.1
    have hp : b.getPage f = some page := by
      have : b1.getPage f = b.getPage f := by unfold getPage; rw [hpages]
      rw [← this]; exact hp1
    have hnext_small : b.next_page_id_ + 1 < 2 ^ 31 := by
      have := h.next_le
      omega
    have hstat_f : b1.replacer_.status f = none := hlim.2.2
    have hstat1 : ∀ g, (if g = f then some false else b1.replacer_.status g) =
        if g = f then some false else b.replacer_.status g := by
      intro g
      by_cases hgf : g = f
      · simp [hgf]
      · simp [hgf, hothers g hgf]
    have hfl1 : b1.free_list_ = b.free_list_.dropLast := by
      rcases hcase with ⟨_, _, hx, _⟩ | ⟨hx, _, _, hy, _⟩
      · exact hx
      · rw [hy, hx]; rfl
    have hcase1 : (b.free_list_ ≠ [] ∧ b.free_list_.getLast? = some f) ∨
        (b.free_list_ = [] ∧ b.replacer_.Evict.1 = some f ∧
          b.replacer_.status f = some true) := by
      rcases hcase with ⟨h1, h2, _, _⟩ | ⟨h1, h2, h3, _, _⟩
      · exact Or.inl ⟨h1, h2⟩
      · exact Or.inr ⟨h1, h2, h3⟩
    by_cases hw : b.free_list_ = [] ∧ page.is_dirty_ = true
    · -- the victim is dirty and is written back
      have hweq := WritePageToDisk_eq b1 f page hp1
      have hinv2 := hinv1.writePage f hweq
      have hinv3 := hinv2.bump_next
      obtain ⟨b6, hur, hinv6, h61, h62, h63, h64, h65, h66, h67, h68⟩ :=
        hinv3.install { page with is_dirty_ := false }
          (by show pageAt (b1.pages_.set f.toNat { page with is_dirty_ := false }) f = _
              rw [pageAt_set b1.pages_ f f _ hlim.1, if_pos rfl])
          b.next_page_id_ (by omega)
          (by have := h.next_ge; unfold INVALID_PAGE_ID; omega)
          (by intro hx
              have hx1 : b1.next_page_id_ + 1 ≤ b.next_page_id_ := hx
              rw [hnext] at hx1
              omega)
      refine ⟨f, b6, page, ?_, hinv6, hp, hcase1, ?_, ?_, ?_, ?_, ?_, ?_, ?_, ?_⟩
      · unfold NewPage
        rw [hacq]
        simp only [hp1, hw, and_self, if_true, hweq]
        have hg2 : getPage { b1 with
            disk_ := assocPut b1.disk_ page.page_id_ page.data_,
            disk_log_ := b1.disk_log_ ++
              [{ is_write_ := true, page_id_ := page.page_id_, data_ := page.data_ }],
            pages_ := b1.pages_.set f.toNat { page with is_dirty_ := false } } f
            = some { page with is_dirty_ := false } := by
          show pageAt (b1.pages_.set f.toNat { page with is_dirty_ := false }) f = _
          rw [pageAt_set b1.pages_ f f _ hlim.1, if_pos rfl]
        rw [hg2]
        simp only [AllocatePage]
        rw [hnext, wrapInt32_small _ hnext_small]
        rw [hnext] at hur
        rw [hur]
      · rw [h61]
        simp only [List.set_set, hpages]
        simp [hw.1]
      · rw [h62]; show assocEmplace (assocErase b1.page_table_ _) _ _ = _; rw [htable]
      · rw [h63]; exact hfl1
      · rw [h64]; show b1.next_page_id_ + 1 = _; rw [hnext]
      · rw [h65, if_pos hw]; show assocPut b1.disk_ _ _ = _; rw [hdisk]
      · rw [h66, if_pos hw]; show b1.disk_log_ ++ _ = _; rw [hlog]
      · rw [h67]; exact hpool
      · intro g; rw [h68 g]; exact hstat1 g
    · -- no write back
      have hinv3 := hinv1.bump_next
      obtain ⟨b6, hur, hinv6, h61, h62, h63, h64, h65, h66, h67, h68⟩ :=
        hinv3.install page hp1 b.next_page_id_ (by omega)
          (by have := h.next_ge; unfold INVALID_PAGE_ID; omega)
          (by intro hx
              have hx1 : b1.next_page_id_ + 1 ≤ b.next_page_id_ := hx
              rw [hnext] at hx1
              omega)
      have hdirty : (decide (b.free_list_ ≠ []) && page.is_dirty_) = page.is_dirty_ := by
        by_cases hfl : b.free_list_ = []
        · have : page.is_dirty_ = false := by
            cases hd : page.is_dirty_ with
            | false => rfl
            | true => exact absurd ⟨hfl, hd⟩ hw
          simp [hfl, this]
        · simp [hfl]
      refine ⟨f, b6, page, ?_, hinv6, hp, hcase1, ?_, ?_, ?_, ?_, ?_, ?_, ?_, ?_⟩
      · unfold NewPage
        rw [hacq]
        simp only [hp1, hw, if_false]
        simp only [AllocatePage]
        rw [hnext, wrapInt32_small _ hnext_small]
        rw [hnext] at hur
        rw [hur]
      · rw [h61, hdirty]; show b1.pages_.set _ _ = _; rw [hpages]
      · rw [h62]; show assocEmplace (assocErase b1.page_table_ _) _ _ = _; rw [htable]
      · rw [h63]; exact hfl1
      · rw [h64]; show b1.next_page_id_ + 1 = _; rw [hnext]
      · rw [h65, if_neg hw]; exact hdisk
      · rw [h66, if_neg hw]; exact hlog
      · rw [h67]; exact hpool
      · intro g; rw [h68 g]; exact hstat1 g

end BufferPoolManager

namespace BufferPoolManager

/-- A frame that the page table leads to is occupied: it is not on the free list. -/
theorem Inv.table_frame {n : Nat} {b : BufferPoolManager} {x : Option Int} (h : b.Inv n x)
    (p f : Int) (hp : p ≠ INVALID_PAGE_ID) (ht : assocFind b.page_table_ p = some f) :
    ∃ page, b.getPage f = some page ∧ page.page_id_ = p ∧ f ∉ b.free_list_ := by
  obtain ⟨page, hpg, hid⟩ := h.table p f ht
  refine ⟨page, hpg, hid, ?_⟩
  intro hf
  obtain ⟨_, pg, hpg1, hid1⟩ := h.free_spec f hf
  rw [hpg] at hpg1
  cases hpg1
  exact hp (hid.symm.trans hid1)

/-- A new pin count and dirty flag for an occupied frame, with the replacer following the
pin count. -/
theorem Inv.set_pin {n m : Nat} {b : BufferPoolManager} (h : b.Inv n none)
    (f : Int) (page : Page) (hp : b.getPage f = some page) (hnf : f ∉ b.free_list_)
    (r2 : LRUKReplacer) (hc2 : r2.Consistent)
    (hs : r2.replacer_size_ = b.replacer_.replacer_size_) (c : Int) (dirty : Bool)
    (hc : 0 ≤ c) (hcm : c ≤ m) (hnm : n ≤ m)
    (hstat : ∀ g, r2.status g = if g = f then some (decide (c = 0)) else b.replacer_.status g) :
    Inv m { b with replacer_ := r2,
                   pages_ := b.pages_.set f.toNat
                     { page with pin_count_ := c, is_dirty_ := dirty } } none := by
  have hpf : pageAt b.pages_ f = some page := hp
  have hget : ∀ g, pageAt (b.pages_.set f.toNat
      { page with pin_count_ := c, is_dirty_ := dirty }) g =
      if g = f then some { page with pin_count_ := c, is_dirty_ := dirty }
      else b.getPage g := fun g => pageAt_set b.pages_ f g _ (by rw [hpf]; rfl)
  have hocc := h.occ f page hp hnf (by simp)
  constructor
  · simp [h.len]
  · exact h.small
  · exact hs.trans h.rsize
  · exact hc2
  · exact h.free_nodup
  · intro g hg
    have hgf : g ≠ f := fun hgf => hnf (hgf ▸ hg)
    obtain ⟨hs1, pg, hpg, hid⟩ := h.free_spec g hg
    refine ⟨?_, pg, ?_, hid⟩
    · show r2.status g = none
      rw [hstat g, if_neg hgf]; exact hs1
    · show pageAt _ g = some pg
      rw [hget g, if_neg hgf]; exact hpg
  · intro g hg; cases hg
  · intro g pg hpg hnfg _
    have hpg1 : pageAt _ g = some pg := hpg
    rw [hget g] at hpg1
    by_cases hgf : g = f
    · rw [if_pos hgf] at hpg1
      cases hpg1
      refine ⟨hocc.1, hc, ?_⟩
      show r2.status g = _
      rw [hstat g, if_pos hgf]
    · rw [if_neg hgf] at hpg1
      have := h.occ g pg hpg1 hnfg (by simp)
      refine ⟨this.1, this.2.1, ?_⟩
      show r2.status g = _
      rw [hstat g, if_neg hgf]
      exact this.2.2
  · intro g hg
    have hg1 : r2.status g ≠ none := hg
    show (pageAt _ g).isSome = true
    rw [hget g]
    by_cases hgf : g = f
    · simp [hgf]
    · rw [if_neg hgf]
      rw [hstat g, if_neg hgf] at hg1
      exact h.tracked g hg1
  · intro q g hq
    obtain ⟨pg, hpg, hid⟩ := h.table q g hq
    show ∃ pg, pageAt _ g = some pg ∧ pg.page_id_ = q
    rw [hget g]
    by_cases hgf : g = f
    · rw [if_pos hgf]
      rw [hgf, hp] at hpg
      cases hpg
      exact ⟨_, rfl, hid⟩
    · rw [if_neg hgf]
      exact ⟨pg, hpg, hid⟩
  · intro g pg hpg hn
    have hpg1 : pageAt _ g = some pg := hpg
    rw [hget g] at hpg1
    by_cases hgf : g = f
    · rw [if_pos hgf] at hpg1
      cases hpg1
      have := h.fresh f page hp hn
      rw [hgf]; exact this
    · rw [if_neg hgf] at hpg1
      exact h.fresh g pg hpg1 hn
  · intro g pg hpg
    have hpg1 : pageAt _ g = some pg := hpg
    rw [hget g] at hpg1
    by_cases hgf : g = f
    · rw [if_pos hgf] at hpg1
      cases hpg1
      exact hcm
    · rw [if_neg hgf] at hpg1
      have := h.pin_le g pg hpg1
      have : (n : Int) ≤ m := by exact_mod_cast hnm
      omega
  · exact h.next_ge
  · show b.next_page_id_ ≤ (m : Int)
    have := h.next_le
    have : (n : Int) ≤ m := by exact_mod_cast hnm
    omega

/-- What `FetchPage` does in a state with the bookkeeping in place: it returns `nullptr`
for `INVALID_PAGE_ID`; for a resident page it records an access, marks the frame not
evictable and raises the pin count; for a page that is not resident it returns `nullptr`
when the free list is empty and no frame is evictable, and else takes a frame, writes
the page of that frame to disk, installs the page and reads it from disk. -/
theorem Inv.fetchPage {n : Nat} {b : BufferPoolManager} (h : b.Inv n none)
    (hn : (n : Int) + 1 < 2 ^ 31) (p : Int) :
    (p = INVALID_PAGE_ID ∧ b.FetchPage p = some (none, b)) ∨
    (p ≠ INVALID_PAGE_ID ∧ ∃ f page b1, assocFind b.page_table_ p = some f ∧
      b.getPage f = some page ∧ page.page_id_ = p ∧
      b.FetchPage p = some (some f, b1) ∧ b1.Inv (n + 1) none ∧
      b1.pages_ = b.pages_.set f.toNat { page with pin_count_ := page.pin_count_ + 1 } ∧
      b1.page_table_ = b.page_table_ ∧ b1.free_list_ = b.free_list_ ∧
      b1.next_page_id_ = b.next_page_id_ ∧ b1.disk_ = b.disk_ ∧
      b1.disk_log_ = b.disk_log_ ∧ b1.pool_size_ = b.pool_size_ ∧
      (∀ g, b1.replacer_.status g = if g = f then some false else b.replacer_.status g)) ∨
    (p ≠ INVALID_PAGE_ID ∧ assocFind b.page_table_ p = none ∧
      b.FetchPage p = some (none, b) ∧ b.free_list_ = [] ∧
      ∀ f, b.replacer_.status f ≠ some true) ∨
    (p ≠ INVALID_PAGE_ID ∧ assocFind b.page_table_ p = none ∧
      ∃ f page b1, b.FetchPage p = some (some f, b1) ∧ b1.Inv (n + 1) none ∧
      b.getPage f = some page ∧
      ((b.free_list_ ≠ [] ∧ b.free_list_.getLast? = some f) ∨
       (b.free_list_ = [] ∧ b.replacer_.Evict.1 = some f ∧
         b.replacer_.status f = some true)) ∧
      b1.pages_ = b.pages_.set f.toNat
        { page_id_ := p, pin_count_ := 1, is_dirty_ := false,
          data_ := diskRead (assocPut b.disk_ page.page_id_ page.data_) p } ∧
      b1.page_table_ = assocEmplace (assocErase b.page_table_ page.page_id_) p f ∧
      b1.free_list_ = b.free_list_.dropLast ∧
      b1.next_page_id_ = b.next_page_id_ ∧
      b1.disk_ = assocPut b.disk_ page.page_id_ page.data_ ∧
      b1.disk_log_ = b.disk_log_ ++
        [{ is_write_ := true, page_id_ := page.page_id_, data_ := page.data_ },
         { is_write_ := false, page_id_ := p,
           data_ := diskRead (assocPut b.disk_ page.page_id_ page.data_) p }] ∧
      b1.pool_size_ = b.pool_size_ ∧
      (∀ g, b1.replacer_.status g = if g = f then some false else b.replacer_.status g)) := by
  by_cases hp : p = INVALID_PAGE_ID
  · left
    exact ⟨hp, by unfold FetchPage; rw [if_pos hp]⟩
  right
  cases ht : assocFind b.page_table_ p with
  | some f =>
    left
    obtain ⟨page, hpg, hid, hnf⟩ := h.table_frame p f hp ht
    have hocc := h.occ f page hpg hnf (by simp)
    have hrange := h.frame_le f (by rw [hpg]; rfl)
    obtain ⟨r1, hra, hc1, hs1⟩ := h.rinv.recordAccess f hrange
    obtain ⟨r2, hse, hc2, hs2⟩ := hc1.setEvictable f false (by rw [hs1]; exact hrange)
    have hpin := h.pin_le f page hpg
    have hne : page.pin_count_ + 1 ≠ 0 := by have := hocc.2.1; omega
    have hstat : ∀ g, r2.status g =
        if g = f then some (decide (page.pin_count_ + 1 = 0)) else b.replacer_.status g := by
      intro g
      rw [LRUKReplacer.setEvictable_status r1 r2 f g false hse,
        LRUKReplacer.recordAccess_status b.replacer_ r1 f g hra,
        LRUKReplacer.recordAccess_status b.replacer_ r1 f f hra]
      by_cases hgf : g = f
      · simp [hgf, hne]
      · simp [hgf]
    have hinv1 := h.set_pin f page hpg hnf r2 hc2 (hs2.trans hs1) (page.pin_count_ + 1)
      page.is_dirty_ (by have := hocc.2.1; omega) (by push_cast; omega) (Nat.le_succ n) hstat
    refine ⟨hp, f, page, _, rfl, hpg, hid, ?_, hinv1, rfl, rfl, rfl, rfl, rfl, rfl, rfl, ?_⟩
    · unfold FetchPage
      rw [if_neg hp, ht]
      simp only [UpdateReplacer, hra, hse]
      have : getPage { b with replacer_ := r2 } f = some page := hpg
      rw [this]
      simp only [incrPin]
      rw [if_pos (by omega)]
      rfl
    · intro g
      show r2.status g = _
      rw [hstat g]
      simp [hne]
  | none =>
    right
    rcases h.acquireFrame with ⟨hacq, hfl, hno⟩ | ⟨f, b1, hacq, hinv1, hpages, htable, hnext,
        hdisk, hlog, hpool, hothers, hcase⟩
    · left
      refine ⟨hp, rfl, ?_, hfl, hno⟩
      unfold FetchPage
      rw [if_neg hp, ht]
      simp only [hacq]
    · right
      have hlim := hinv1.limbo f rfl
      obtain ⟨page, hp1⟩ := Option.isSome_iff_exists.1 hlim.1
      have hpb : b.getPage f = some page := by
        have : b1.getPage f = b.getPage f := by unfold getPage; rw [hpages]
        rw [← this]; exact hp1
      have hstat1 : ∀ g, (if g = f then some false else b1.replacer_.status g) =
          if g = f then some false else b.replacer_.status g := by
        intro g
        by_cases hgf : g = f
        · simp [hgf]
        · simp [hgf, hothers g hgf]
      have hfl1 : b1.free_list_ = b.free_list_.dropLast := by
        rcases hcase with ⟨_, _, hx, _⟩ | ⟨hx, _, _, hy, _⟩
        · exact hx
        · rw [hy, hx]; rfl
      have hcase1 : (b.free_list_ ≠ [] ∧ b.free_list_.getLast? = some f) ∨
          (b.free_list_ = [] ∧ b.replacer_.Evict.1 = some f ∧
            b.replacer_.status f = some true) := by
        rcases hcase with ⟨h1, h2, _, _⟩ | ⟨h1, h2, h3, _, _⟩
        · exact Or.inl ⟨h1, h2⟩
        · exact Or.inr ⟨h1, h2, h3⟩
      have hweq := WritePageToDisk_eq b1 f page hp1
      have hinv2 := (hinv1.writePage f hweq).mono (Nat.le_succ n)
      have hg2 : getPage { b1 with
          disk_ := assocPut b1.disk_ page.page_id_ page.data_,
          disk_log_ := b1.disk_log_ ++
            [{ is_write_ := true, page_id_ := page.page_id_, data_ := page.data_ }],
          pages_ := b1.pages_.set f.toNat { page with is_dirty_ := false } } f
          = some { page with is_dirty_ := false } := by
        show pageAt (b1.pages_.set f.toNat { page with is_dirty_ := false }) f = _
        rw [pageAt_set b1.pages_ f f _ hlim.1, if_pos rfl]
      obtain ⟨b5, hur, hinv5, h51, h52, h53, h54, h55, h56, h57, h58⟩ :=
        hinv2.install { page with is_dirty_ := false } hg2 p (by omega) hp
          (by intro _
              show assocFind (assocErase b1.page_table_ page.page_id_) p = none
              rw [assocFind_assocErase, htable, ht]
              simp)
      have hg5 : b5.getPage f = some
          { page_id_ := p, pin_count_ := 1, is_dirty_ := false, data_ := 0 } := by
        show pageAt b5.pages_ f = _
        rw [h51]
        show pageAt ((b1.pages_.set f.toNat { page with is_dirty_ := false }).set f.toNat _) f = _
        rw [List.set_set, pageAt_set b1.pages_ f f _ hlim.1, if_pos rfl]
      have hreq := ReadPageFromDisk_eq b5 f _ hg5
      have hinv6 := hinv5.readPage f hreq
      refine ⟨hp, rfl, f, page, _, ?_, hinv6, hpb, hcase1, ?_, ?_, ?_, ?_, ?_, ?_, ?_, ?_⟩
      · unfold FetchPage
        rw [if_neg hp, ht]
        simp only [hacq, hweq, hg2, hur, hreq]
      · show b5.pages_.set _ _ = _
        rw [h51, h55]
        simp only [List.set_set, hpages, hdisk]
      · show b5.page_table_ = _
        rw [h52]
        show assocEmplace (assocErase b1.page_table_ _) _ _ = _
        rw [htable]
      · show b5.free_list_ = _
        rw [h53]; exact hfl1
      · show b5.next_page_id_ = _
        rw [h54]; exact hnext
      · show b5.disk_ = _
        rw [h55]
        show assocPut b1.disk_ _ _ = _
        rw [hdisk]
      · show b5.disk_log_ ++ _ = _
        rw [h56, h55]
        simp [hlog, hdisk]
      · show b5.pool_size_ = _
        rw [h57]; exact hpool
      · intro g
        show b5.replacer_.status g = _
        rw [h58 g]
        exact hstat1 g

end BufferPoolManager

namespace BufferPoolManager

/-- What `UnpinPage` does in a state with the bookkeeping in place. -/
theorem Inv.unpinPage {n : Nat} {b : BufferPoolManager} (h : b.Inv n none) (p : Int)
    (d : Bool) :
    ((p = INVALID_PAGE_ID ∨ assocFind b.page_table_ p = none) ∧
      b.UnpinPage p d = some (false, b)) ∨
    ∃ f page, p ≠ INVALID_PAGE_ID ∧ assocFind b.page_table_ p = some f ∧
      b.getPage f = some page ∧ page.page_id_ = p ∧
      ((page.pin_count_ = 0 ∧
        b.UnpinPage p d = some (false,
          b.setPage f { page with is_dirty_ := (page.is_dirty_ || d) }) ∧
        (b.setPage f { page with is_dirty_ := (page.is_dirty_ || d) }).Inv n none) ∨
       (0 < page.pin_count_ ∧ ∃ b1, b.UnpinPage p d = some (true, b1) ∧ b1.Inv n none ∧
        b1.pages_ = b.pages_.set f.toNat
          { page with is_dirty_ := (page.is_dirty_ || d),
                      pin_count_ := page.pin_count_ - 1 } ∧
        b1.page_table_ = b.page_table_ ∧ b1.free_list_ = b.free_list_ ∧
        b1.next_page_id_ = b.next_page_id_ ∧ b1.disk_ = b.disk_ ∧
        b1.disk_log_ = b.disk_log_ ∧ b1.pool_size_ = b.pool_size_ ∧
        (∀ g, b1.replacer_.status g =
          if g = f then some (decide (page.pin_count_ - 1 = 0)) else b.replacer_.status g))) := by
  by_cases hp : p = INVALID_PAGE_ID
  · left
    exact ⟨Or.inl hp, by unfold UnpinPage; rw [if_pos hp]⟩
  cases ht : assocFind b.page_table_ p with
  | none =>
    left
    exact ⟨Or.inr rfl, by unfold UnpinPage; rw [if_neg hp, ht]⟩
  | some f =>
    right
    obtain ⟨page, hpg, hid, hnf⟩ := h.table_frame p f hp ht
    have hocc := h.occ f page hpg hnf (by simp)
    have hpf : pageAt b.pages_ f = some page := hpg
    have hpage1 : (if d = true then { page with is_dirty_ := d } else page) =
        { page with is_dirty_ := (page.is_dirty_ || d) } := by
      cases d <;> simp
    refine ⟨f, page, hp, rfl, hpg, hid, ?_⟩
    by_cases hz : page.pin_count_ = 0
    · left
      refine ⟨hz, ?_, ?_⟩
      · unfold UnpinPage
        rw [if_neg hp, ht]
        simp only [hpg, hpage1]
        rw [if_pos hz]
      · exact h.set_meta f page { page with is_dirty_ := (page.is_dirty_ || d) } hpg rfl rfl _ _
    · right
      have hpos : 0 < page.pin_count_ := by have := hocc.2.1; omega
      have hpin := h.pin_le f page hpg
      refine ⟨hpos, ?_⟩
      have hs0 : b.replacer_.status f = some false := by
        rw [hocc.2.2]; simp [hz]
      by_cases hc : page.pin_count_ - 1 = 0
      · have hrange := h.frame_le f (by rw [hpg]; rfl)
        obtain ⟨r1, hse, hc1, hs1⟩ := h.rinv.setEvictable f true hrange
        have hstat : ∀ g, r1.status g =
            if g = f then some (decide (page.pin_count_ - 1 = 0))
            else b.replacer_.status g := by
          intro g
          rw [LRUKReplacer.setEvictable_status b.replacer_ r1 f g true hse]
          by_cases hgf : g = f
          · simp [hgf, hs0, hc]
          · simp [hgf]
        have hinv1 := h.set_pin f page hpg hnf r1 hc1 hs1 (page.pin_count_ - 1)
          (page.is_dirty_ || d) (by omega) (by omega) (le_refl n) hstat
        refine ⟨_, ?_, hinv1, ?_, rfl, rfl, rfl, rfl, rfl, rfl, hstat⟩
        · unfold UnpinPage
          rw [if_neg hp, ht]
          simp only [hpg, hpage1]
          rw [if_neg hz]
          simp only [decrPin]
          rw [if_pos (by omega)]
          simp only
          rw [if_pos hc]
          simp only [setPage, List.set_set, hse]
        · rfl
      · have hstat : ∀ g, b.replacer_.status g =
            if g = f then some (decide (page.pin_count_ - 1 = 0))
            else b.replacer_.status g := by
          intro g
          by_cases hgf : g = f
          · simp [hgf, hs0, hc]
          · simp [hgf]
        have hinv1 := h.set_pin f page hpg hnf b.replacer_ h.rinv rfl (page.pin_count_ - 1)
          (page.is_dirty_ || d) (by omega) (by omega) (le_refl n) hstat
        refine ⟨_, ?_, hinv1, ?_, rfl, rfl, rfl, rfl, rfl, rfl, hstat⟩
        · unfold UnpinPage
          rw [if_neg hp, ht]
          simp only [hpg, hpage1]
          rw [if_neg hz]
          simp only [decrPin]
          rw [if_pos (by omega)]
          simp only
          rw [if_neg hc]
          simp only [setPage, List.set_set]
        · rfl

/-- What `FlushPage` does in a state with the bookkeeping in place. -/
theorem Inv.flushPage {n : Nat} {b : BufferPoolManager} (h : b.Inv n none) (p : Int) :
    ((p = INVALID_PAGE_ID ∨ assocFind b.page_table_ p = none) ∧
      b.FlushPage p = some (false, b)) ∨
    ∃ f page b1, p ≠ INVALID_PAGE_ID ∧ assocFind b.page_table_ p = some f ∧
      b.getPage f = some page ∧ page.page_id_ = p ∧
      b.FlushPage p = some (true, b1) ∧ b1.Inv n none ∧
      b1.pages_ = b.pages_.set f.toNat { page with is_dirty_ := false } ∧
      b1.page_table_ = b.page_table_ ∧ b1.free_list_ = b.free_list_ ∧
      b1.replacer_ = b.replacer_ ∧ b1.next_page_id_ = b.next_page_id_ ∧
      b1.disk_ = assocPut b.disk_ p page.data_ ∧
      b1.disk_log_ = b.disk_log_ ++
        [{ is_write_ := true, page_id_ := p, data_ := page.data_ }] ∧
      b1.pool_size_ = b.pool_size_ := by
  by_cases hp : p = INVALID_PAGE_ID
  · left
    exact ⟨Or.inl hp, by unfold FlushPage; rw [if_pos hp]⟩
  cases ht : assocFind b.page_table_ p with
  | none =>
    left
    exact ⟨Or.inr rfl, by unfold FlushPage; rw [if_neg hp, ht]⟩
  | some f =>
    right
    obtain ⟨page, hpg, hid, hnf⟩ := h.table_frame p f hp ht
    have hpf : pageAt b.pages_ f = some page := hpg
    refine ⟨f, page, { b with
        disk_ := assocPut b.disk_ p page.data_,
        disk_log_ := b.disk_log_ ++
          [{ is_write_ := true, page_id_ := p, data_ := page.data_ }],
        pages_ := b.pages_.set f.toNat { page with is_dirty_ := false } },
      hp, rfl, hpg, hid, ?_, ?_, rfl, rfl, rfl, rfl, rfl, rfl, rfl, rfl⟩
    · unfold FlushPage
      rw [if_neg hp, ht]
      simp only [WritePageToDisk_eq b f page hpg]
      have hg2 : getPage { b with
          disk_ := assocPut b.disk_ page.page_id_ page.data_,
          disk_log_ := b.disk_log_ ++
            [{ is_write_ := true, page_id_ := page.page_id_, data_ := page.data_ }],
          pages_ := b.pages_.set f.toNat { page with is_dirty_ := false } } f
          = some { page with is_dirty_ := false } := by
        show pageAt (b.pages_.set f.toNat { page with is_dirty_ := false }) f = _
        rw [pageAt_set b.pages_ f f _ (by rw [hpf]; rfl), if_pos rfl]
      rw [hg2]
      simp [setPage, List.set_set, hid]
    · exact h.set_meta f page { page with is_dirty_ := false } hpg rfl rfl _ _

/-- What `DeletePage` does in a state with the bookkeeping in place. -/
theorem Inv.deletePage {n : Nat} {b : BufferPoolManager} (h : b.Inv n none) (p : Int) :
    ((p = INVALID_PAGE_ID ∨ assocFind b.page_table_ p = none) ∧
      b.DeletePage p = some (true, b)) ∨
    ∃ f page, p ≠ INVALID_PAGE_ID ∧ assocFind b.page_table_ p = some f ∧
      b.getPage f = some page ∧ page.page_id_ = p ∧
      ((0 < page.pin_count_ ∧ b.DeletePage p = some (false, b)) ∨
       (page.pin_count_ = 0 ∧ ∃ b1, b.DeletePage p = some (true, b1) ∧ b1.Inv n none ∧
        b1.pages_ = b.pages_.set f.toNat emptyPage ∧
        b1.page_table_ = assocErase b.page_table_ p ∧
        b1.free_list_ = b.free_list_ ++ [f] ∧
        b1.next_page_id_ = b.next_page_id_ ∧ b1.disk_ = b.disk_ ∧
        b1.disk_log_ = b.disk_log_ ∧ b1.pool_size_ = b.pool_size_ ∧
        (∀ g, b1.replacer_.status g = if g = f then none else b.replacer_.status g))) := by
  by_cases hp : p = INVALID_PAGE_ID
  · left
    exact ⟨Or.inl hp, by unfold DeletePage; rw [if_pos hp]⟩
  cases ht : assocFind b.page_table_ p with
  | none =>
    left
    exact ⟨Or.inr rfl, by unfold DeletePage; rw [if_neg hp, ht]⟩
  | some f =>
    right
    obtain ⟨page, hpg, hid, hnf⟩ := h.table_frame p f hp ht
    have hocc := h.occ f page hpg hnf (by simp)
    have hpf : pageAt b.pages_ f = some page := hpg
    refine ⟨f, page, hp, rfl, hpg, hid, ?_⟩
    by_cases hpos : page.pin_count_ > 0
    · left
      refine ⟨hpos, ?_⟩
      unfold DeletePage
      rw [if_neg hp, ht]
      simp only [hpg, hpos, if_true]
    · right
      have hz : page.pin_count_ = 0 := by have := hocc.2.1; omega
      have hs0 : b.replacer_.status f = some true := by
        rw [hocc.2.2]; simp [hz]
      have hrange := h.frame_le f (by rw [hpg]; rfl)
      obtain ⟨r1, hrm, hc1, hs1⟩ := h.rinv.remove f hrange (by rw [hs0]; simp)
      have hstat : ∀ g, r1.status g = if g = f then none else b.replacer_.status g :=
        fun g => LRUKReplacer.remove_status b.replacer_ r1 f g hrm
      have hget : ∀ g, pageAt (b.pages_.set f.toNat emptyPage) g =
          if g = f then some emptyPage else b.getPage g :=
        fun g => pageAt_set b.pages_ f g _ (by rw [hpf]; rfl)
      refine ⟨hz, { b with page_table_ := assocErase b.page_table_ p,
                           free_list_ := b.free_list_ ++ [f],
                           replacer_ := r1,
                           pages_ := b.pages_.set f.toNat emptyPage },
        ?_, ?_, rfl, rfl, rfl, rfl, rfl, rfl, rfl, hstat⟩
      · unfold DeletePage
        rw [if_neg hp, ht]
        simp only [hpg, hpos, if_false, hrm]
        rfl
      · constructor
        · simp [h.len]
        · exact h.small
        · exact hs1.trans h.rsize
        · exact hc1
        · show (b.free_list_ ++ [f]).Nodup
          rw [List.nodup_append]
          refine ⟨h.free_nodup, List.nodup_singleton f, ?_⟩
          intro g hg hg2
          rw [List.mem_singleton] at hg2
          exact hnf (hg2 ▸ hg)
        · intro g hg
          have hg1 : g ∈ b.free_list_ ++ [f] := hg
          rw [List.mem_append, List.mem_singleton] at hg1
          show r1.status g = none ∧ ∃ pg, pageAt _ g = some pg ∧ _
          rw [hstat g, hget g]
          by_cases hgf : g = f
          · simp [hgf, emptyPage]
          · rw [if_neg hgf, if_neg hgf]
            rcases hg1 with hg1 | hg1
            · exact h.free_spec g hg1
            · exact absurd hg1 hgf
        · intro g hg; cases hg
        · intro g pg hpg1 hnfg _
          have hnfg1 : g ∉ b.free_list_ ++ [f] := hnfg
          rw [List.mem_append, List.mem_singleton, not_or] at hnfg1
          have hpg2 : pageAt _ g = some pg := hpg1
          rw [hget g, if_neg hnfg1.2] at hpg2
          have := h.occ g pg hpg2 hnfg1.1 (by simp)
          refine ⟨this.1, this.2.1, ?_⟩
          show r1.status g = _
          rw [hstat g, if_neg hnfg1.2]
          exact this.2.2
        · intro g hg
          have hg1 : r1.status g ≠ none := hg
          show (pageAt _ g).isSome = true
          rw [hget g]
          by_cases hgf : g = f
          · simp [hgf]
          · rw [if_neg hgf]
            rw [hstat g, if_neg hgf] at hg1
            exact h.tracked g hg1
        · intro q g hq
          have hq1 : assocFind (assocErase b.page_table_ p) q = some g := hq
          rw [assocFind_assocErase] at hq1
          by_cases hqp : q = p
          · simp [hqp] at hq1
          · rw [if_neg hqp] at hq1
            obtain ⟨pg, hpg1, hid1⟩ := h.table q g hq1
            have hgf : g ≠ f := by
              intro hgf
              rw [hgf, hpg] at hpg1
              cases hpg1
              exact hqp (hid1.symm.trans hid)
            show ∃ pg, pageAt _ g = some pg ∧ _
            rw [hget g, if_neg hgf]
            exact ⟨pg, hpg1, hid1⟩
        · intro g pg hpg1 hn
          have hpg2 : pageAt _ g = some pg := hpg1
          rw [hget g] at hpg2
          have hn1 : b.next_page_id_ ≤ pg.page_id_ := hn
          by_cases hgf : g = f
          · rw [if_pos hgf] at hpg2
            cases hpg2
            have := h.next_ge
            simp [emptyPage, INVALID_PAGE_ID] at hn1
            omega
          · rw [if_neg hgf] at hpg2
            have hT := h.fresh g pg hpg2 hn1
            show assocFind (assocErase b.page_table_ p) pg.page_id_ = some g
            rw [assocFind_assocErase]
            have hne : pg.page_id_ ≠ p := by
              intro hne
              rw [hne, ht] at hT
              cases hT
              exact hgf rfl
            rw [if_neg hne]
            exact hT
        · intro g pg hpg1
          have hpg2 : pageAt _ g = some pg := hpg1
          rw [hget g] at hpg2
          by_cases hgf : g = f
          · rw [if_pos hgf] at hpg2
            cases hpg2
            simp [emptyPage]
          · rw [if_neg hgf] at hpg2
            exact h.pin_le g pg hpg2
        · exact h.next_ge
        · exact h.next_le

theorem Inv.writeData {n : Nat} {b : BufferPoolManager} (h : b.Inv n none) (f : Int)
    (bytes : Nat) : (b.WriteData f bytes).Inv n none := by
  unfold WriteData
  cases hpg : b.getPage f with
  | none => exact h
  | some page => exact h.set_meta f page { page with data_ := bytes } hpg rfl rfl _ _

end BufferPoolManager

namespace BufferPoolManager

theorem pageAt_append_length (done : List Page) (pg : Page) (rest : List Page) :
    pageAt (done ++ pg :: rest) (done.length : Int) = some pg := by
  unfold pageAt
  rw [if_pos (by omega)]
  simp only [Int.toNat_ofNat]
  rw [List.getElem?_append_right (le_refl _)]
  simp

theorem set_append_length (done : List Page) (pg pg1 : Page) (rest : List Page) :
    (done ++ pg :: rest).set done.length pg1 = done ++ pg1 :: rest := by
  induction done with
  | nil => rfl
  | cons x xs ih => simp [List.set, ih]

/-- The loop of `FlushAllPages` from frame `done.length` on. -/
theorem flushLoop_spec (todo : List Page) :
    ∀ (done : List Page) (b : BufferPoolManager), b.pages_ = done ++ todo →
      flushLoop (List.range' done.length todo.length) b =
        some { b with pages_ := done ++ flushedPages todo,
                      disk_ := diskAfter b.disk_ (flushWrites todo),
                      disk_log_ := b.disk_log_ ++ flushWrites todo } := by
  induction todo with
  | nil =>
    intro done b hb
    simp only [List.length_nil, List.range', flushLoop, flushedPages, flushWrites, diskAfter,
      List.map_nil, List.filter_nil, List.foldl_nil, List.append_nil]
    rw [← List.append_nil done, ← hb]
  | cons pg rest ih =>
    intro done b hb
    have hget : b.getPage (done.length : Int) = some pg := by
      unfold getPage
      rw [hb]
      exact pageAt_append_length done pg rest
    simp only [List.length_cons, List.range', flushLoop, hget]
    by_cases hid : pg.page_id_ = INVALID_PAGE_ID
    · rw [if_pos hid]
      have := ih (done ++ [pg]) b (by rw [hb]; simp)
      simp only [List.length_append, List.length_singleton] at this
      rw [this]
      simp [flushedPages, flushWrites, hid]
    · rw [if_neg hid]
      rw [WritePageToDisk_eq b _ pg hget]
      simp only
      have hset : b.pages_.set (done.length : Int).toNat { pg with is_dirty_ := false } =
          done ++ { pg with is_dirty_ := false } :: rest := by
        rw [hb]
        simp [set_append_length done pg { pg with is_dirty_ := false } rest]
      have hget1 : getPage { b with
          disk_ := assocPut b.disk_ pg.page_id_ pg.data_,
          disk_log_ := b.disk_log_ ++
            [{ is_write_ := true, page_id_ := pg.page_id_, data_ := pg.data_ }],
          pages_ := b.pages_.set (done.length : Int).toNat { pg with is_dirty_ := false } }
          (done.length : Int) = some { pg with is_dirty_ := false } := by
        show pageAt (b.pages_.set (done.length : Int).toNat { pg with is_dirty_ := false })
          (done.length : Int) = _
        rw [hset]
        exact pageAt_append_length done _ rest
      rw [hget1]
      simp only [setPage, List.set_set]
      have := ih (done ++ [{ pg with is_dirty_ := false }])
        { b with
          disk_ := assocPut b.disk_ pg.page_id_ pg.data_,
          disk_log_ := b.disk_log_ ++
            [{ is_write_ := true, page_id_ := pg.page_id_, data_ := pg.data_ }],
          pages_ := b.pages_.set (done.length : Int).toNat { pg with is_dirty_ := false } }
        (by show b.pages_.set _ _ = _; rw [hset]; simp)
      simp only [List.length_append, List.length_singleton] at this
      rw [this]
      simp [flushedPages, flushWrites, diskAfter, hid]

theorem FlushAllPages_eq (b : BufferPoolManager) (hlen : b.pages_.length = b.pool_size_) :
    b.FlushAllPages = some { b with pages_ := flushedPages b.pages_,
                                    disk_ := diskAfter b.disk_ (flushWrites b.pages_),
                                    disk_log_ := b.disk_log_ ++ flushWrites b.pages_ } := by
  unfold FlushAllPages
  have := flushLoop_spec b.pages_ [] b rfl
  rw [show List.range b.pool_size_ = List.range' 0 b.pages_.length from by
    rw [hlen, List.range_eq_range']]
  simpa using this

theorem pageAt_flushedPages (pages : List Page) (f : Int) :
    pageAt (flushedPages pages) f = (pageAt pages f).map
      (fun pg => if pg.page_id_ = INVALID_PAGE_ID then pg else { pg with is_dirty_ := false }) := by
  unfold pageAt flushedPages
  by_cases h : 0 ≤ f
  · simp [h]
  · simp [h]

theorem Inv.flushAllPages {n : Nat} {b : BufferPoolManager} (h : b.Inv n none) :
    Inv n { b with pages_ := flushedPages b.pages_,
                   disk_ := diskAfter b.disk_ (flushWrites b.pages_),
                   disk_log_ := b.disk_log_ ++ flushWrites b.pages_ } none := by
  refine h.of_meta rfl rfl rfl rfl rfl ?_ (by simp [flushedPages])
  intro f
  show (pageAt (flushedPages b.pages_) f).map _ = (pageAt b.pages_ f).map _
  rw [pageAt_flushedPages]
  cases pageAt b.pages_ f with
  | none => rfl
  | some pg =>
    simp only [Option.map_some']
    by_cases hid : pg.page_id_ = INVALID_PAGE_ID <;> simp [hid]

/-- Every client call on a pool with the bookkeeping in place returns normally and keeps
it. -/
theorem Inv.step_keeps {n : Nat} {b : BufferPoolManager} (h : b.Inv n none)
    (hn : (n : Int) + 1 < 2 ^ 31) (op : PoolOp) :
    ∃ b1, b.step op = some b1 ∧ b1.Inv (n + 1) none := by
  cases op with
  | NewPage =>
    rcases h.newPage hn with ⟨he, _, _⟩ | ⟨f, b1, page, he, hinv, _⟩
    · exact ⟨b, by simp [step, he], h.mono (Nat.le_succ n)⟩
    · exact ⟨b1, by simp [step, he], hinv⟩
  | FetchPage p =>
    rcases h.fetchPage hn p with ⟨_, he⟩ | ⟨_, f, page, b1, _, _, _, he, hinv, _⟩ |
      ⟨_, _, he, _, _⟩ | ⟨_, _, f, page, b1, he, hinv, _⟩
    · exact ⟨b, by simp [step, he], h.mono (Nat.le_succ n)⟩
    · exact ⟨b1, by simp [step, he], hinv⟩
    · exact ⟨b, by simp [step, he], h.mono (Nat.le_succ n)⟩
    · exact ⟨b1, by simp [step, he], hinv⟩
  | UnpinPage p d =>
    rcases h.unpinPage p d with ⟨_, he⟩ | ⟨f, page, _, _, _, _, ⟨_, he, hinv⟩ | ⟨_, b1, he, hinv, _⟩⟩
    · exact ⟨b, by simp [step, he], h.mono (Nat.le_succ n)⟩
    · exact ⟨_, by simp [step, he], hinv.mono (Nat.le_succ n)⟩
    · exact ⟨b1, by simp [step, he], hinv.mono (Nat.le_succ n)⟩
  | FlushPage p =>
    rcases h.flushPage p with ⟨_, he⟩ | ⟨f, page, b1, _, _, _, _, he, hinv, _⟩
    · exact ⟨b, by simp [step, he], h.mono (Nat.le_succ n)⟩
    · exact ⟨b1, by simp [step, he], hinv.mono (Nat.le_succ n)⟩
  | FlushAllPages =>
    exact ⟨_, by simp [step, FlushAllPages_eq b h.len], h.flushAllPages.mono (Nat.le_succ n)⟩
  | DeletePage p =>
    rcases h.deletePage p with ⟨_, he⟩ | ⟨f, page, _, _, _, _, ⟨_, he⟩ | ⟨_, b1, he, hinv, _⟩⟩
    · exact ⟨b, by simp [step, he], h.mono (Nat.le_succ n)⟩
    · exact ⟨b, by simp [step, he], h.mono (Nat.le_succ n)⟩
    · exact ⟨b1, by simp [step, he], hinv.mono (Nat.le_succ n)⟩
  | WriteData f bytes =>
    exact ⟨_, rfl, (h.writeData f bytes).mono (Nat.le_succ n)⟩

/-- Every sequence of fewer than `2^31` client calls on a fresh pool returns normally and
ends in a state with the bookkeeping in place. -/
theorem Inv.run_keeps (ops : List PoolOp) :
    ∀ (n : Nat) (b : BufferPoolManager), b.Inv n none →
      (n : Int) + ops.length < 2 ^ 31 →
      ∃ b1, b.run ops = some b1 ∧ b1.Inv (n + ops.length) none := by
  induction ops with
  | nil =>
    intro n b h _
    exact ⟨b, rfl, h⟩
  | cons op rest ih =>
    intro n b h hlen
    simp only [List.length_cons] at hlen
    push_cast at hlen
    obtain ⟨b1, h1, hinv1⟩ := h.step_keeps (by omega) op
    obtain ⟨b2, h2, hinv2⟩ := ih (n + 1) b1 hinv1 (by push_cast; omega)
    refine ⟨b2, by simp [run, h1, h2], ?_⟩
    have : n + (op :: rest).length = n + 1 + rest.length := by simp; omega
    rw [this]
    exact hinv2

/-- The states of a pool of fewer than `2^31` frames whose replacer has `k ≥ 2`, reached
from construction by fewer than `2^31` client calls. -/
theorem reachable_inv (pool_size replacer_k : Nat) (disk : List (Int × Nat))
    (ops : List PoolOp) (hk : 2 ≤ replacer_k) (hs : pool_size < 2 ^ 31)
    (hlen : ops.length < 2 ^ 31) :
    ∃ b, (BufferPoolManager.new pool_size replacer_k disk).run ops = some b ∧
      b.Inv ops.length none := by
  obtain ⟨b, hb, hinv⟩ := Inv.run_keeps ops 0 _ (Inv.of_new_pool pool_size replacer_k disk hk hs)
    (by push_cast; omega)
  refine ⟨b, hb, ?_⟩
  simpa using hinv

end BufferPoolManager

section PoolClaims2
open PoolOp BufferPoolManager

namespace BufferPoolManager

theorem set_self_of_getElem? {α : Type} (l : List α) (i : Nat) (a : α) (h : l[i]? = some a) :
    l.set i a = l := by
  apply List.ext_getElem?
  intro j
  rw [List.getElem?_set]
  by_cases hij : i = j
  · subst hij
    have := (List.getElem?_eq_some_iff.1 h).1
    simp [h, this]
  · simp [hij]

theorem getPage_of_set {b b1 : BufferPoolManager} {f : Int} {pg : Page}
    (h : b1.pages_ = b.pages_.set f.toNat pg) (hf : (b.getPage f).isSome = true) (g : Int) :
    b1.getPage g = if g = f then some pg else b.getPage g := by
  show pageAt b1.pages_ g = _
  rw [h]
  exact pageAt_set b.pages_ f g pg hf

theorem Inv.isEvictable_iff {n : Nat} {b : BufferPoolManager} (h : b.Inv n none)
    (f : Int) (page : Page) (hp : b.getPage f = some page)
    (hid : page.page_id_ ≠ INVALID_PAGE_ID) :
    page.pin_count_ = 0 ↔ b.replacer_.isEvictable f = true := by
  have hnf : f ∉ b.free_list_ := by
    intro hf
    obtain ⟨_, pg, hpg, hid1⟩ := h.free_spec f hf
    rw [hp] at hpg
    cases hpg
    exact hid hid1
  have hocc := h.occ f page hp hnf (by simp)
  rw [LRUKReplacer.status_isEvictable, hocc.2.2]
  simp

theorem Inv.pinsMatchReplacer {n : Nat} {b : BufferPoolManager} (h : b.Inv n none) :
    b.PinsMatchReplacer :=
  fun f page hp hid => h.isEvictable_iff f page hp hid

theorem Inv.evictsUnpinned {n : Nat} {b : BufferPoolManager} (h : b.Inv n none) :
    b.EvictsUnpinned := by
  intro f hf
  obtain ⟨_, _, hcases⟩ := h.rinv.evict
  have hst : b.replacer_.status f = some true := by
    rcases hcases with ⟨he, _⟩ | ⟨f1, he, hst, _⟩
    · rw [he] at hf; cases hf
    · rw [hf] at he; cases he; exact hst
  obtain ⟨page, hp⟩ := Option.isSome_iff_exists.1 (h.tracked f (by rw [hst]; simp))
  have hnf : f ∉ b.free_list_ := by
    intro hx
    have := (h.free_spec f hx).1
    rw [hst] at this; cases this
  have hocc := h.occ f page hp hnf (by simp)
  rw [hst] at hocc
  refine ⟨page, hp, ?_⟩
  have := hocc.2.2
  simp only [Option.some.injEq] at this
  exact of_decide_eq_true this.symm

theorem Inv.pinRaisedByFetch {n : Nat} {b : BufferPoolManager} (h : b.Inv n none)
    (hn : (n : Int) + 1 < 2 ^ 31) : b.PinRaisedByFetch := by
  intro p f b1 hfetch
  rcases h.fetchPage hn p with ⟨_, he⟩ | ⟨_, f1, page, b2, ht, hpg, hid, he, _, hpages, _⟩ |
    ⟨_, _, he, _, _⟩ | ⟨hp, ht, f1, page, b2, he, _, hpg, _, hpages, htable, _⟩
  · rw [he] at hfetch; cases hfetch
  · rw [he] at hfetch
    cases hfetch
    have hg := getPage_of_set hpages (by rw [hpg]; rfl) f
    rw [if_pos rfl] at hg
    exact ⟨_, hg, hid, Or.inl ⟨page, ht, hpg, rfl⟩⟩
  · rw [he] at hfetch; cases hfetch
  · rw [he] at hfetch
    cases hfetch
    have hg := getPage_of_set hpages (by rw [hpg]; rfl) f
    rw [if_pos rfl] at hg
    refine ⟨_, hg, rfl, Or.inr ⟨ht, ?_, rfl⟩⟩
    rw [htable, assocFind_assocEmplace, assocFind_assocErase, ht]
    simp

theorem Inv.pinRaisedByNew {n : Nat} {b : BufferPoolManager} (h : b.Inv n none)
    (hn : (n : Int) + 1 < 2 ^ 31) : b.PinRaisedByNew := by
  intro p f b1 hnew
  rcases h.newPage hn with ⟨he, _, _⟩ | ⟨f1, b2, page, he, _, hpg, _, hpages, htable, _⟩
  · rw [he] at hnew; cases hnew
  · rw [he] at hnew
    cases hnew
    have hg := getPage_of_set hpages (by rw [hpg]; rfl) f
    rw [if_pos rfl] at hg
    refine ⟨_, hg, rfl, rfl, ?_⟩
    intro ht
    rw [htable, assocFind_assocEmplace, assocFind_assocErase, ht]
    simp

theorem Inv.pinLoweredByUnpin {n : Nat} {b : BufferPoolManager} (h : b.Inv n none) :
    b.PinLoweredByUnpin := by
  intro p d b1 hun
  rcases h.unpinPage p d with ⟨_, he⟩ |
    ⟨f, page, _, ht, hpg, _, ⟨_, he, _⟩ | ⟨_, b2, he, _, hpages, _⟩⟩
  · rw [he] at hun; cases hun
  · rw [he] at hun; cases hun
  · rw [he] at hun
    cases hun
    have hg := getPage_of_set hpages (by rw [hpg]; rfl) f
    rw [if_pos rfl] at hg
    exact ⟨f, page, _, ht, hpg, hg, rfl⟩

theorem Inv.unpinOutcome {n : Nat} {b : BufferPoolManager} (h : b.Inv n none) (p : Int)
    (d : Bool) : b.UnpinOutcome p d := by
  refine ⟨?_, ?_⟩
  · intro f hp ht
    rcases h.unpinPage p d with ⟨hx, _⟩ | ⟨f1, page, _, ht1, hpg, hid, hcases⟩
    · rcases hx with hx | hx
      · exact absurd hx hp
      · rw [ht] at hx; cases hx
    · rw [ht] at ht1
      cases ht1
      obtain ⟨_, _, _, hnf⟩ := h.table_frame p f hp ht
      have hocc := h.occ f page hpg hnf (by simp)
      refine ⟨page, hpg, hid, hocc.2.1, ?_, ?_⟩
      · intro hpos
        rcases hcases with ⟨hz, _⟩ | ⟨_, b1, he, _, hpages, htable, hfree, hnext, hdisk, hlog,
            _, hstat⟩
        · omega
        · have hsome : (b.getPage f).isSome = true := by rw [hpg]; rfl
          refine ⟨b1, he, ?_, ?_, ?_, htable, hfree, hnext, hdisk, hlog⟩
          · have hg := getPage_of_set hpages hsome f
            rw [if_pos rfl] at hg
            exact hg
          · rw [LRUKReplacer.status_isEvictable, hstat f, if_pos rfl]
            simp
          · intro g hgf
            have hg := getPage_of_set hpages hsome g
            rw [if_neg hgf] at hg
            refine ⟨hg, ?_⟩
            rw [hstat g, if_neg hgf]
      · intro hz
        rcases hcases with ⟨_, he, _⟩ | ⟨hpos, _⟩
        · refine ⟨he, ?_⟩
          intro hd
          rw [he]
          have hpage : ({ page with is_dirty_ := (page.is_dirty_ || d) } : Page) = page := by
            cases page
            rcases hd with hd | hd
            · subst hd; simp
            · simp at hd; simp [hd]
          rw [hpage]
          have hb : b.setPage f page = b := by
            have hpf : pageAt b.pages_ f = some page := hpg
            unfold pageAt at hpf
            split_ifs at hpf
            unfold setPage
            rw [set_self_of_getElem? b.pages_ f.toNat page hpf]
          rw [hb]
        · omega
  · intro hx
    rcases h.unpinPage p d with ⟨_, he⟩ | ⟨f1, page, hp, ht, _⟩
    · exact he
    · rcases hx with hx | hx
      · exact absurd hx hp
      · rw [ht] at hx; cases hx

theorem Inv.flushOutcome {n : Nat} {b : BufferPoolManager} (h : b.Inv n none) (p : Int) :
    b.FlushOutcome p := by
  refine ⟨?_, ?_⟩
  · intro f hp ht
    rcases h.flushPage p with ⟨hx, _⟩ |
      ⟨f1, page, b1, _, ht1, hpg, hid, he, _, hpages, htable, hfree, hrep, hnext, hdisk, _⟩
    · rcases hx with hx | hx
      · exact absurd hx hp
      · rw [ht] at hx; cases hx
    · rw [ht] at ht1
      cases ht1
      have hsome : (b.getPage f).isSome = true := by rw [hpg]; rfl
      refine ⟨page, b1, hpg, hid, he, ?_, ?_, ?_, ?_, htable, hfree, hrep, hnext⟩
      · rw [hdisk, diskRead_assocPut, if_pos rfl]
      · intro q hq
        rw [hdisk, diskRead_assocPut, if_neg hq]
      · have hg := getPage_of_set hpages hsome f
        rw [if_pos rfl] at hg
        exact hg
      · intro g hgf
        have hg := getPage_of_set hpages hsome g
        rw [if_neg hgf] at hg
        exact hg
  · intro hx
    rcases h.flushPage p with ⟨_, he⟩ | ⟨f1, page, b1, hp, ht, _⟩
    · exact he
    · rcases hx with hx | hx
      · exact absurd hx hp
      · rw [ht] at hx; cases hx

end BufferPoolManager

end PoolClaims2

namespace BufferPoolManager

theorem mem_of_pageAt {pages : List Page} {f : Int} {page : Page}
    (h : pageAt pages f = some page) : page ∈ pages := by
  unfold pageAt at h
  split_ifs at h
  obtain ⟨hlt, heq⟩ := List.getElem?_eq_some_iff.1 h
  rw [← heq]
  exact List.getElem_mem hlt

/-- Across every client call on a pool with the bookkeeping in place, a dirty frame stays
dirty unless its buffer is written to disk under its page id or its page is deleted. -/
theorem Inv.dirtyKept {n : Nat} {b : BufferPoolManager} (h : b.Inv n none)
    (hn : (n : Int) + 1 < 2 ^ 31) (op : PoolOp) (b1 : BufferPoolManager)
    (hs : b.step op = some b1) : b.DirtyKept op b1 := by
  intro f page hpf hdirty
  have hsomef : (b.getPage f).isSome = true := by rw [hpf]; rfl
  cases op with
  | NewPage =>
    rcases h.newPage hn with ⟨he, _, _⟩ |
      ⟨f0, b2, pg0, he, _, hpg0, _, hpages, _, _, _, _, hlog, _⟩
    · simp only [step, he, Option.map_some', Option.some.injEq] at hs
      subst hs
      exact ⟨page, hpf, Or.inl hdirty⟩
    · simp only [step, he, Option.map_some', Option.some.injEq] at hs
      subst hs
      have hg := getPage_of_set hpages (by rw [hpg0]; rfl) f
      by_cases hff : f = f0
      · subst hff
        rw [hpf] at hpg0
        cases hpg0
        rw [if_pos rfl] at hg
        refine ⟨_, hg, ?_⟩
        by_cases hfl : b.free_list_ = []
        · right; left
          rw [if_pos ⟨hfl, hdirty⟩] at hlog
          exact ⟨_, hlog, List.mem_singleton_self _⟩
        · left
          simp [hfl, hdirty]
      · rw [if_neg hff] at hg
        exact ⟨page, hg.trans hpf, Or.inl hdirty⟩
  | FetchPage p =>
    rcases h.fetchPage hn p with ⟨_, he⟩ | ⟨_, f0, pg0, b2, _, hpg0, _, he, _, hpages, _⟩ |
      ⟨_, _, he, _, _⟩ |
      ⟨_, _, f0, pg0, b2, he, _, hpg0, _, hpages, _, _, _, _, hlog, _⟩
    · simp only [step, he, Option.map_some', Option.some.injEq] at hs
      subst hs
      exact ⟨page, hpf, Or.inl hdirty⟩
    · simp only [step, he, Option.map_some', Option.some.injEq] at hs
      subst hs
      have hg := getPage_of_set hpages (by rw [hpg0]; rfl) f
      by_cases hff : f = f0
      · subst hff
        rw [hpf] at hpg0
        cases hpg0
        rw [if_pos rfl] at hg
        exact ⟨_, hg, Or.inl hdirty⟩
      · rw [if_neg hff] at hg
        exact ⟨page, hg.trans hpf, Or.inl hdirty⟩
    · simp only [step, he, Option.map_some', Option.some.injEq] at hs
      subst hs
      exact ⟨page, hpf, Or.inl hdirty⟩
    · simp only [step, he, Option.map_some', Option.some.injEq] at hs
      subst hs
      have hg := getPage_of_set hpages (by rw [hpg0]; rfl) f
      by_cases hff : f = f0
      · subst hff
        rw [hpf] at hpg0
        cases hpg0
        rw [if_pos rfl] at hg
        refine ⟨_, hg, Or.inr (Or.inl ⟨_, hlog, ?_⟩)⟩
        simp
      · rw [if_neg hff] at hg
        exact ⟨page, hg.trans hpf, Or.inl hdirty⟩
  | UnpinPage p d =>
    rcases h.unpinPage p d with ⟨_, he⟩ |
      ⟨f0, pg0, _, _, hpg0, _, ⟨_, he, _⟩ | ⟨_, b2, he, _, hpages, _⟩⟩
    · simp only [step, he, Option.map_some', Option.some.injEq] at hs
      subst hs
      exact ⟨page, hpf, Or.inl hdirty⟩
    · simp only [step, he, Option.map_some', Option.some.injEq] at hs
      subst hs
      have hg := getPage_setPage b f0 f { pg0 with is_dirty_ := (pg0.is_dirty_ || d) }
        (by rw [hpg0]; rfl)
      by_cases hff : f = f0
      · subst hff
        rw [hpf] at hpg0
        cases hpg0
        rw [if_pos rfl] at hg
        exact ⟨_, hg, Or.inl (by simp [hdirty])⟩
      · rw [if_neg hff] at hg
        exact ⟨page, hg.trans hpf, Or.inl hdirty⟩
    · simp only [step, he, Option.map_some', Option.some.injEq] at hs
      subst hs
      have hg := getPage_of_set hpages (by rw [hpg0]; rfl) f
      by_cases hff : f = f0
      · subst hff
        rw [hpf] at hpg0
        cases hpg0
        rw [if_pos rfl] at hg
        exact ⟨_, hg, Or.inl (by simp [hdirty])⟩
      · rw [if_neg hff] at hg
        exact ⟨page, hg.trans hpf, Or.inl hdirty⟩
  | FlushPage p =>
    rcases h.flushPage p with ⟨_, he⟩ |
      ⟨f0, pg0, b2, _, _, hpg0, hid, he, _, hpages, _, _, _, _, _, hlog, _⟩
    · simp only [step, he, Option.map_some', Option.some.injEq] at hs
      subst hs
      exact ⟨page, hpf, Or.inl hdirty⟩
    · simp only [step, he, Option.map_some', Option.some.injEq] at hs
      subst hs
      have hg := getPage_of_set hpages (by rw [hpg0]; rfl) f
      by_cases hff : f = f0
      · subst hff
        rw [hpf] at hpg0
        cases hpg0
        rw [if_pos rfl] at hg
        refine ⟨_, hg, Or.inr (Or.inl ⟨_, hlog, ?_⟩)⟩
        rw [hid]
        exact List.mem_singleton_self _
      · rw [if_neg hff] at hg
        exact ⟨page, hg.trans hpf, Or.inl hdirty⟩
  | FlushAllPages =>
    simp only [step, FlushAllPages_eq b h.len, Option.some.injEq] at hs
    subst hs
    have hpa : pageAt b.pages_ f = some page := hpf
    have hg : getPage { b with
          pages_ := flushedPages b.pages_,
          disk_ := diskAfter b.disk_ (flushWrites b.pages_),
          disk_log_ := b.disk_log_ ++ flushWrites b.pages_ } f =
        some (if page.page_id_ = INVALID_PAGE_ID then page
              else { page with is_dirty_ := false }) := by
      show pageAt (flushedPages b.pages_) f = _
      rw [pageAt_flushedPages, hpa]
      rfl
    refine ⟨_, hg, ?_⟩
    by_cases hid : page.page_id_ = INVALID_PAGE_ID
    · left
      rw [if_pos hid]
      exact hdirty
    · right; left
      refine ⟨_, rfl, ?_⟩
      unfold flushWrites
      rw [List.mem_map]
      exact ⟨page, List.mem_filter.2 ⟨mem_of_pageAt hpa, by simpa using hid⟩, rfl⟩
  | DeletePage p =>
    rcases h.deletePage p with ⟨_, he⟩ |
      ⟨f0, pg0, _, _, hpg0, hid, ⟨_, he⟩ | ⟨_, b2, he, _, hpages, _⟩⟩
    · simp only [step, he, Option.map_some', Option.some.injEq] at hs
      subst hs
      exact ⟨page, hpf, Or.inl hdirty⟩
    · simp only [step, he, Option.map_some', Option.some.injEq] at hs
      subst hs
      exact ⟨page, hpf, Or.inl hdirty⟩
    · simp only [step, he, Option.map_some', Option.some.injEq] at hs
      subst hs
      have hg := getPage_of_set hpages (by rw [hpg0]; rfl) f
      by_cases hff : f = f0
      · subst hff
        rw [hpf] at hpg0
        cases hpg0
        rw [if_pos rfl] at hg
        exact ⟨_, hg, Or.inr (Or.inr ⟨by rw [hid], rfl⟩)⟩
      · rw [if_neg hff] at hg
        exact ⟨page, hg.trans hpf, Or.inl hdirty⟩
  | WriteData f0 bytes =>
    simp only [step, Option.some.injEq] at hs
    subst hs
    unfold WriteData
    cases hpg0 : b.getPage f0 with
    | none => exact ⟨page, hpf, Or.inl hdirty⟩
    | some pg0 =>
      simp only
      have hg := getPage_setPage b f0 f { pg0 with data_ := bytes } (by rw [hpg0]; rfl)
      by_cases hff : f = f0
      · subst hff
        rw [hpf] at hpg0
        cases hpg0
        rw [if_pos rfl] at hg
        exact ⟨_, hg, Or.inl hdirty⟩
      · rw [if_neg hff] at hg
        exact ⟨page, hg.trans hpf, Or.inl hdirty⟩

end BufferPoolManager

namespace BufferPoolManager

theorem diskRead_diskAfter_other (ws : List DiskRequest) (disk : List (Int × Nat)) (p : Int)
    (h : ∀ w ∈ ws, w.page_id_ ≠ p) : diskRead (diskAfter disk ws) p = diskRead disk p := by
  induction ws generalizing disk with
  | nil => rfl
  | cons w rest ih =>
    unfold diskAfter
    rw [List.foldl_cons]
    have := ih (assocPut disk w.page_id_ w.data_) (fun x hx => h x (List.mem_cons_of_mem _ hx))
    unfold diskAfter at this
    rw [this, diskRead_assocPut, if_neg (fun hp => h w (List.mem_cons_self _ _) hp.symm)]

theorem diskRead_diskAfter_same (ws : List DiskRequest) (disk : List (Int × Nat)) (p : Int)
    (bytes : Nat) (h : ∀ w ∈ ws, w.page_id_ = p → w.data_ = bytes)
    (hd : diskRead disk p = bytes ∨ ∃ w ∈ ws, w.page_id_ = p) :
    diskRead (diskAfter disk ws) p = bytes := by
  induction ws generalizing disk with
  | nil =>
    rcases hd with hd | ⟨w, hw, _⟩
    · exact hd
    · cases hw
  | cons w rest ih =>
    unfold diskAfter
    rw [List.foldl_cons]
    have := ih (assocPut disk w.page_id_ w.data_)
      (fun x hx => h x (List.mem_cons_of_mem _ hx)) (by
        rw [diskRead_assocPut]
        by_cases hp : p = w.page_id_
        · left
          rw [if_pos hp]
          exact h w (List.mem_cons_self _ _) hp.symm
        · rw [if_neg hp]
          rcases hd with hd | ⟨x, hx, hxp⟩
          · exact Or.inl hd
          · rcases List.mem_cons.1 hx with rfl | hx
            · exact absurd hxp.symm hp
            · exact Or.inr ⟨x, hx, hxp⟩)
    unfold diskAfter at this
    exact this

theorem exists_pageAt_of_mem {pages : List Page} {page : Page} (h : page ∈ pages) :
    ∃ g, pageAt pages g = some page := by
  obtain ⟨i, hi, heq⟩ := List.mem_iff_getElem.1 h
  refine ⟨(i : Int), ?_⟩
  unfold pageAt
  rw [if_pos (by omega)]
  simp only [Int.toNat_ofNat]
  rw [List.getElem?_eq_getElem hi, heq]

theorem free_frame_invalid {n : Nat} {b : BufferPoolManager} (h : b.Inv n none) (f : Int)
    (page : Page) (hp : b.getPage f = some page)
    (hlast : b.free_list_.getLast? = some f) : page.page_id_ = INVALID_PAGE_ID := by
  have hmem : f ∈ b.free_list_ := by
    rw [← List.dropLast_append_getLast? f hlast]
    simp
  obtain ⟨_, pg, hpg, hid⟩ := h.free_spec f hmem
  rw [hp] at hpg
  cases hpg
  exact hid

/-- The content of page `p` stays safe across every client call that neither deletes `p`
nor stores into its buffer. -/
theorem Holds.step_holds {n : Nat} {b : BufferPoolManager} {p : Int} {bytes : Nat}
    (h : b.Inv n none) (hh : b.Holds p bytes) (hn : (n : Int) + 1 < 2 ^ 31) (op : PoolOp)
    (b1 : BufferPoolManager) (ht : b.touches p op = false) (hs : b.step op = some b1) :
    b1.Holds p bytes := by
  have hpinv : p ≠ INVALID_PAGE_ID := by
    have := hh.nonneg
    unfold INVALID_PAGE_ID
    omega
  cases op with
  | NewPage =>
    rcases h.newPage hn with ⟨he, _, _⟩ |
      ⟨f0, b2, pg0, he, _, hpg0, hcase, hpages, htable, _, hnext, hdisk, _⟩
    · simp only [step, he, Option.map_some', Option.some.injEq] at hs
      subst hs
      exact hh
    · simp only [step, he, Option.map_some', Option.some.injEq] at hs
      subst hs
      have hsome : (b.getPage f0).isSome = true := by rw [hpg0]; rfl
      have hdiskp : pg0.page_id_ ≠ p → diskRead b2.disk_ p = diskRead b.disk_ p := by
        intro hne
        rw [hdisk]
        split_ifs
        · rw [diskRead_assocPut, if_neg (fun hx => hne hx.symm)]
        · rfl
      constructor
      · exact hh.nonneg
      · rw [hnext]; have := hh.next_gt; omega
      · intro g page hg hid
        have hg1 := getPage_of_set hpages hsome g
        rw [hg] at hg1
        by_cases hgf : g = f0
        · rw [if_pos hgf] at hg1
          cases hg1
          have := hh.next_gt
          simp only at hid
          omega
        · rw [if_neg hgf] at hg1
          obtain ⟨hT, hdata, hdd⟩ := hh.frames g page hg1.symm hid
          have hne : pg0.page_id_ ≠ p := by
            intro hx
            have := (hh.frames f0 pg0 hpg0 hx).1
            rw [hT] at this
            cases this
            exact hgf rfl
          refine ⟨?_, hdata, ?_⟩
          · rw [htable, assocFind_assocEmplace, assocFind_assocErase,
              if_neg (fun hx => hne hx.symm), hT]
          · rw [hdiskp hne]; exact hdd
      · intro hT1
        rw [htable, assocFind_assocEmplace, assocFind_assocErase] at hT1
        by_cases hx : p = pg0.page_id_
        · obtain ⟨_, hdata, hdd⟩ := hh.frames f0 pg0 hpg0 hx.symm
          rw [hdisk]
          by_cases hc : b.free_list_ = [] ∧ pg0.is_dirty_ = true
          · rw [if_pos hc, diskRead_assocPut, if_pos hx]
            exact hdata
          · rw [if_neg hc]
            rcases hdd with hd | hd
            · exfalso
              rcases hcase with ⟨_, hlast⟩ | ⟨hfl, _⟩
              · have := free_frame_invalid h f0 pg0 hpg0 hlast
                exact hpinv (hx.trans this)
              · exact hc ⟨hfl, hd⟩
            · exact hd
        · rw [if_neg hx] at hT1
          cases hTp : assocFind b.page_table_ p with
          | none =>
            rw [hdiskp (fun hy => hx hy.symm)]
            exact hh.absent hTp
          | some g =>
            rw [hTp] at hT1
            cases hT1
  | FetchPage q =>
    rcases h.fetchPage hn q with ⟨_, he⟩ | ⟨_, f0, pg0, b2, hTq, hpg0, _, he, _, hpages, htable,
        _, hnext, hdisk, _⟩ | ⟨_, _, he, _, _⟩ |
      ⟨hq, hTq, f0, pg0, b2, he, _, hpg0, hcase, hpages, htable, _, hnext, hdisk, _⟩
    · simp only [step, he, Option.map_some', Option.some.injEq] at hs
      subst hs
      exact hh
    · simp only [step, he, Option.map_some', Option.some.injEq] at hs
      subst hs
      have hsome : (b.getPage f0).isSome = true := by rw [hpg0]; rfl
      constructor
      · exact hh.nonneg
      · rw [hnext]; exact hh.next_gt
      · intro g page hg hid
        have hg1 := getPage_of_set hpages hsome g
        rw [hg] at hg1
        rw [htable, hdisk]
        by_cases hgf : g = f0
        · rw [if_pos hgf] at hg1
          cases hg1
          rw [hgf]
          exact hh.frames f0 pg0 hpg0 hid
        · rw [if_neg hgf] at hg1
          exact hh.frames g page hg1.symm hid
      · rw [htable, hdisk]; exact hh.absent
    · simp only [step, he, Option.map_some', Option.some.injEq] at hs
      subst hs
      exact hh
    · simp only [step, he, Option.map_some', Option.some.injEq] at hs
      subst hs
      have hsome : (b.getPage f0).isSome = true := by rw [hpg0]; rfl
      have hdiskp : pg0.page_id_ ≠ p → diskRead b2.disk_ p = diskRead b.disk_ p := by
        intro hne
        rw [hdisk, diskRead_assocPut, if_neg (fun hx => hne hx.symm)]
      constructor
      · exact hh.nonneg
      · rw [hnext]; exact hh.next_gt
      · intro g page hg hid
        have hg1 := getPage_of_set hpages hsome g
        rw [hg] at hg1
        by_cases hgf : g = f0
        · rw [if_pos hgf] at hg1
          cases hg1
          simp only at hid
          subst hid
          have hne : pg0.page_id_ ≠ q := by
            intro hx
            have := (hh.frames f0 pg0 hpg0 hx).1
            rw [hTq] at this
            cases this
          have hdk : diskRead (assocPut b.disk_ pg0.page_id_ pg0.data_) q = bytes := by
            rw [diskRead_assocPut, if_neg (fun hx => hne hx.symm)]
            exact hh.absent hTq
          refine ⟨?_, hdk, Or.inr ?_⟩
          · rw [htable, assocFind_assocEmplace, assocFind_assocErase, hTq, hgf]
            simp
          · rw [hdisk]; exact hdk
        · rw [if_neg hgf] at hg1
          obtain ⟨hT, hdata, hdd⟩ := hh.frames g page hg1.symm hid
          have hne : pg0.page_id_ ≠ p := by
            intro hx
            have := (hh.frames f0 pg0 hpg0 hx).1
            rw [hT] at this
            cases this
            exact hgf rfl
          refine ⟨?_, hdata, ?_⟩
          · rw [htable, assocFind_assocEmplace, assocFind_assocErase,
              if_neg (fun hx => hne hx.symm), hT]
          · rw [hdiskp hne]; exact hdd
      · intro hT1
        rw [htable, assocFind_assocEmplace, assocFind_assocErase] at hT1
        by_cases hx : p = pg0.page_id_
        · obtain ⟨_, hdata, _⟩ := hh.frames f0 pg0 hpg0 hx.symm
          rw [hdisk, diskRead_assocPut, if_pos hx]
          exact hdata
        · rw [if_neg hx] at hT1
          cases hTp : assocFind b.page_table_ p with
          | none =>
            rw [hdiskp (fun hy => hx hy.symm)]
            exact hh.absent hTp
          | some g =>
            rw [hTp] at hT1
            cases hT1
  | UnpinPage q d =>
    rcases h.unpinPage q d with ⟨_, he⟩ |
      ⟨f0, pg0, _, _, hpg0, _, ⟨_, he, _⟩ |
        ⟨_, b2, he, _, hpages, htable, _, hnext, hdisk, _⟩⟩
    · simp only [step, he, Option.map_some', Option.some.injEq] at hs
      subst hs
      exact hh
    · simp only [step, he, Option.map_some', Option.some.injEq] at hs
      subst hs
      have hsome : (b.getPage f0).isSome = true := by rw [hpg0]; rfl
      constructor
      · exact hh.nonneg
      · exact hh.next_gt
      · intro g page hg hid
        have hg1 := getPage_setPage b f0 g { pg0 with is_dirty_ := (pg0.is_dirty_ || d) } hsome
        rw [hg] at hg1
        show assocFind b.page_table_ p = some g ∧ _ ∧ (_ ∨ diskRead b.disk_ p = bytes)
        by_cases hgf : g = f0
        · rw [if_pos hgf] at hg1
          cases hg1
          obtain ⟨hT, hdata, hdd⟩ := hh.frames f0 pg0 hpg0 hid
          refine ⟨hgf ▸ hT, hdata, ?_⟩
          rcases hdd with hd | hd
          · left; simp [hd]
          · exact Or.inr hd
        · rw [if_neg hgf] at hg1
          exact hh.frames g page hg1.symm hid
      · exact hh.absent
    · simp only [step, he, Option.map_some', Option.some.injEq] at hs
      subst hs
      have hsome : (b.getPage f0).isSome = true := by rw [hpg0]; rfl
      constructor
      · exact hh.nonneg
      · rw [hnext]; exact hh.next_gt
      · intro g page hg hid
        have hg1 := getPage_of_set hpages hsome g
        rw [hg] at hg1
        rw [htable, hdisk]
        by_cases hgf : g = f0
        · rw [if_pos hgf] at hg1
          cases hg1
          obtain ⟨hT, hdata, hdd⟩ := hh.frames f0 pg0 hpg0 hid
          refine ⟨hgf ▸ hT, hdata, ?_⟩
          rcases hdd with hd | hd
          · left; simp [hd]
          · exact Or.inr hd
        · rw [if_neg hgf] at hg1
          exact hh.frames g page hg1.symm hid
      · rw [htable, hdisk]; exact hh.absent
  | FlushPage q =>
    rcases h.flushPage q with ⟨_, he⟩ |
      ⟨f0, pg0, b2, _, hTq, hpg0, hid0, he, _, hpages, htable, _, _, hnext, hdisk, _⟩
    · simp only [step, he, Option.map_some', Option.some.injEq] at hs
      subst hs
      exact hh
    · simp only [step, he, Option.map_some', Option.some.injEq] at hs
      subst hs
      have hsome : (b.getPage f0).isSome = true := by rw [hpg0]; rfl
      constructor
      · exact hh.nonneg
      · rw [hnext]; exact hh.next_gt
      · intro g page hg hid
        have hg1 := getPage_of_set hpages hsome g
        rw [hg] at hg1
        rw [htable, hdisk, diskRead_assocPut]
        by_cases hgf : g = f0
        · rw [if_pos hgf] at hg1
          cases hg1
          simp only at hid
          obtain ⟨hT, hdata, _⟩ := hh.frames f0 pg0 hpg0 hid
          refine ⟨hgf ▸ hT, hdata, Or.inr ?_⟩
          rw [if_pos (hid.symm.trans hid0)]
          exact hdata
        · rw [if_neg hgf] at hg1
          obtain ⟨hT, hdata, hdd⟩ := hh.frames g page hg1.symm hid
          have hqp : ¬ p = q := by
            intro hx
            rw [hx, hTq] at hT
            cases hT
            exact hgf rfl
          rw [if_neg hqp]
          exact ⟨hT, hdata, hdd⟩
      · intro hT
        rw [htable] at hT
        have hqp : ¬ p = q := by
          intro hx
          rw [hx, hTq] at hT
          cases hT
        rw [hdisk, diskRead_assocPut, if_neg hqp]
        exact hh.absent hT
  | FlushAllPages =>
    simp only [step, FlushAllPages_eq b h.len, Option.some.injEq] at hs
    subst hs
    have hws : ∀ w ∈ flushWrites b.pages_, w.page_id_ = p → w.data_ = bytes := by
      intro w hw hwp
      unfold flushWrites at hw
      obtain ⟨pg, hpg, rfl⟩ := List.mem_map.1 hw
      obtain ⟨g, hg⟩ := exists_pageAt_of_mem (List.mem_filter.1 hpg).1
      exact (hh.frames g pg hg hwp).2.1
    constructor
    · exact hh.nonneg
    · exact hh.next_gt
    · intro g page hg hid
      have hg1 : pageAt (flushedPages b.pages_) g = some page := hg
      rw [pageAt_flushedPages] at hg1
      cases hpa : pageAt b.pages_ g with
      | none => rw [hpa] at hg1; cases hg1
      | some pg =>
        rw [hpa] at hg1
        simp only [Option.map_some', Option.some.injEq] at hg1
        have hidpg : pg.page_id_ = p := by
          rw [← hg1] at hid
          split_ifs at hid <;> exact hid
        obtain ⟨hT, hdata, _⟩ := hh.frames g pg hpa hidpg
        have hne : ¬ pg.page_id_ = INVALID_PAGE_ID := fun hx => hpinv (hidpg.symm.trans hx)
        rw [if_neg hne] at hg1
        subst hg1
        refine ⟨hT, hdata, Or.inr ?_⟩
        show diskRead (diskAfter b.disk_ (flushWrites b.pages_)) p = bytes
        refine diskRead_diskAfter_same _ _ p bytes hws (Or.inr ?_)
        refine ⟨{ is_write_ := true, page_id_ := pg.page_id_, data_ := pg.data_ }, ?_, hidpg⟩
        unfold flushWrites
        rw [List.mem_map]
        exact ⟨pg, List.mem_filter.2 ⟨mem_of_pageAt hpa, by simpa using hne⟩, rfl⟩
    · intro hT
      have hT1 : assocFind b.page_table_ p = none := hT
      show diskRead (diskAfter b.disk_ (flushWrites b.pages_)) p = bytes
      exact diskRead_diskAfter_same _ _ p bytes hws (Or.inl (hh.absent hT1))
  | DeletePage q =>
    have hqp : q ≠ p := by
      intro hx
      simp [touches, hx] at ht
    rcases h.deletePage q with ⟨_, he⟩ |
      ⟨f0, pg0, _, hTq, hpg0, hid0, ⟨_, he⟩ |
        ⟨_, b2, he, _, hpages, htable, _, hnext, hdisk, _⟩⟩
    · simp only [step, he, Option.map_some', Option.some.injEq] at hs
      subst hs
      exact hh
    · simp only [step, he, Option.map_some', Option.some.injEq] at hs
      subst hs
      exact hh
    · simp only [step, he, Option.map_some', Option.some.injEq] at hs
      subst hs
      have hsome : (b.getPage f0).isSome = true := by rw [hpg0]; rfl
      constructor
      · exact hh.nonneg
      · rw [hnext]; exact hh.next_gt
      · intro g page hg hid
        have hg1 := getPage_of_set hpages hsome g
        rw [hg] at hg1
        rw [htable, hdisk, assocFind_assocErase, if_neg (fun hx => hqp hx.symm)]
        by_cases hgf : g = f0
        · rw [if_pos hgf] at hg1
          cases hg1
          exact absurd hid.symm hpinv
        · rw [if_neg hgf] at hg1
          exact hh.frames g page hg1.symm hid
      · intro hT
        rw [htable, assocFind_assocErase, if_neg (fun hx => hqp hx.symm)] at hT
        rw [hdisk]
        exact hh.absent hT
  | WriteData f0 bytes0 =>
    simp only [step, Option.some.injEq] at hs
    subst hs
    unfold WriteData
    cases hpg0 : b.getPage f0 with
    | none => exact hh
    | some pg0 =>
      simp only
      have hne : pg0.page_id_ ≠ p := by
        intro hx
        simp [touches, hpg0, hx] at ht
      have hsome : (b.getPage f0).isSome = true := by rw [hpg0]; rfl
      constructor
      · exact hh.nonneg
      · exact hh.next_gt
      · intro g page hg hid
        have hg1 := getPage_setPage b f0 g { pg0 with data_ := bytes0 } hsome
        rw [hg] at hg1
        show assocFind b.page_table_ p = some g ∧ _ ∧ (_ ∨ diskRead b.disk_ p = bytes)
        by_cases hgf : g = f0
        · rw [if_pos hgf] at hg1
          cases hg1
          exact absurd hid hne
        · rw [if_neg hgf] at hg1
          exact hh.frames g page hg1.symm hid
      · exact hh.absent

end BufferPoolManager

namespace BufferPoolManager

theorem assocFind_emplace_erase_some (m : List (Int × Int)) (old new v g q : Int)
    (h : assocFind (assocEmplace (assocErase m old) new v) q = some g) :
    g = v ∨ assocFind m q = some g := by
  rw [assocFind_assocEmplace, assocFind_assocErase] at h
  by_cases hqo : q = old
  · rw [if_pos hqo] at h
    simp only at h
    by_cases hn : new = q
    · rw [if_pos hn] at h; cases h; exact Or.inl rfl
    · rw [if_neg hn] at h; cases h
  · rw [if_neg hqo] at h
    cases hT : assocFind m q with
    | none =>
      rw [hT] at h
      simp only at h
      by_cases hn : new = q
      · rw [if_pos hn] at h; cases h; exact Or.inl rfl
      · rw [if_neg hn] at h; cases h
    | some x =>
      rw [hT] at h
      cases h
      exact Or.inr rfl

/-- The frame a call takes from the free list or the replacer is not a stuck frame. -/
theorem Stuck.ne_acquired {n : Nat} {b : BufferPoolManager} {f p : Int} (h : b.Inv n none)
    (hst : b.Stuck f p) (hp : 0 ≤ p) (f0 : Int)
    (hcase : (b.free_list_ ≠ [] ∧ b.free_list_.getLast? = some f0) ∨
      (b.free_list_ = [] ∧ b.replacer_.Evict.1 = some f0 ∧
        b.replacer_.status f0 = some true)) : f0 ≠ f := by
  obtain ⟨pg, hpg, hid, hpin⟩ := hst.page
  intro hff
  subst hff
  rcases hcase with ⟨_, hlast⟩ | ⟨hfl, _, hs⟩
  · have := free_frame_invalid h f0 pg hpg hlast
    rw [hid] at this
    unfold INVALID_PAGE_ID at this
    omega
  · have hocc := h.occ f0 pg hpg (by rw [hfl]; simp) (by simp)
    rw [hs, hpin] at hocc
    have := hocc.2.2
    simp at this

/-- A stuck frame stays stuck across every client call. -/
theorem Stuck.step_stuck {n : Nat} {b : BufferPoolManager} {f p : Int} (h : b.Inv n none)
    (hst : b.Stuck f p) (hp : 0 ≤ p) (hn : (n : Int) + 1 < 2 ^ 31) (op : PoolOp)
    (b1 : BufferPoolManager) (hs : b.step op = some b1) : b1.Stuck f p := by
  obtain ⟨pg, hpg, hid, hpin⟩ := hst.page
  have hother : ∀ (b2 : BufferPoolManager) (f0 : Int) (pg1 : Page),
      b2.pages_ = b.pages_.set f0.toNat pg1 → (b.getPage f0).isSome = true → f0 ≠ f →
      ∃ pg2, b2.getPage f = some pg2 ∧ pg2.page_id_ = p ∧ pg2.pin_count_ = 1 := by
    intro b2 f0 pg1 hpages hsome hne
    have hg := getPage_of_set hpages hsome f
    rw [if_neg (fun hx => hne hx.symm)] at hg
    exact ⟨pg, hg.trans hpg, hid, hpin⟩
  have htab : ∀ q f0, assocFind b.page_table_ q = some f0 → f0 ≠ f :=
    fun q f0 hq hff => hst.not_table q (hff ▸ hq)
  cases op with
  | NewPage =>
    rcases h.newPage hn with ⟨he, _, _⟩ | ⟨f0, b2, pg0, he, _, hpg0, hcase, hpages, htable, _⟩
    · simp only [step, he, Option.map_some', Option.some.injEq] at hs
      subst hs
      exact hst
    · simp only [step, he, Option.map_some', Option.some.injEq] at hs
      subst hs
      have hne := hst.ne_acquired h hp f0 hcase
      refine ⟨hother _ f0 _ hpages (by rw [hpg0]; rfl) hne, ?_⟩
      intro q hq
      rw [htable] at hq
      rcases assocFind_emplace_erase_some _ _ _ _ _ _ hq with hx | hx
      · exact hne hx.symm
      · exact hst.not_table q hx
  | FetchPage q =>
    rcases h.fetchPage hn q with ⟨_, he⟩ | ⟨_, f0, pg0, b2, hTq, hpg0, _, he, _, hpages, htable,
        _⟩ | ⟨_, _, he, _, _⟩ |
      ⟨_, _, f0, pg0, b2, he, _, hpg0, hcase, hpages, htable, _⟩
    · simp only [step, he, Option.map_some', Option.some.injEq] at hs
      subst hs
      exact hst
    · simp only [step, he, Option.map_some', Option.some.injEq] at hs
      subst hs
      refine ⟨hother _ f0 _ hpages (by rw [hpg0]; rfl) (htab q f0 hTq), ?_⟩
      rw [htable]
      exact hst.not_table
    · simp only [step, he, Option.map_some', Option.some.injEq] at hs
      subst hs
      exact hst
    · simp only [step, he, Option.map_some', Option.some.injEq] at hs
      subst hs
      have hne := hst.ne_acquired h hp f0 hcase
      refine ⟨hother _ f0 _ hpages (by rw [hpg0]; rfl) hne, ?_⟩
      intro q1 hq
      rw [htable] at hq
      rcases assocFind_emplace_erase_some _ _ _ _ _ _ hq with hx | hx
      · exact hne hx.symm
      · exact hst.not_table q1 hx
  | UnpinPage q d =>
    rcases h.unpinPage q d with ⟨_, he⟩ |
      ⟨f0, pg0, _, hTq, hpg0, _, ⟨_, he, _⟩ | ⟨_, b2, he, _, hpages, htable, _⟩⟩
    · simp only [step, he, Option.map_some', Option.some.injEq] at hs
      subst hs
      exact hst
    · simp only [step, he, Option.map_some', Option.some.injEq] at hs
      subst hs
      exact ⟨hother _ f0 _ rfl (by rw [hpg0]; rfl) (htab q f0 hTq), hst.not_table⟩
    · simp only [step, he, Option.map_some', Option.some.injEq] at hs
      subst hs
      refine ⟨hother _ f0 _ hpages (by rw [hpg0]; rfl) (htab q f0 hTq), ?_⟩
      rw [htable]
      exact hst.not_table
  | FlushPage q =>
    rcases h.flushPage q with ⟨_, he⟩ |
      ⟨f0, pg0, b2, _, hTq, hpg0, _, he, _, hpages, htable, _⟩
    · simp only [step, he, Option.map_some', Option.some.injEq] at hs
      subst hs
      exact hst
    · simp only [step, he, Option.map_some', Option.some.injEq] at hs
      subst hs
      refine ⟨hother _ f0 _ hpages (by rw [hpg0]; rfl) (htab q f0 hTq), ?_⟩
      rw [htable]
      exact hst.not_table
  | FlushAllPages =>
    simp only [step, FlushAllPages_eq b h.len, Option.some.injEq] at hs
    subst hs
    refine ⟨?_, hst.not_table⟩
    have hpa : pageAt b.pages_ f = some pg := hpg
    have hne : ¬ pg.page_id_ = INVALID_PAGE_ID := by
      rw [hid]; unfold INVALID_PAGE_ID; omega
    refine ⟨{ pg with is_dirty_ := false }, ?_, hid, hpin⟩
    show pageAt (flushedPages b.pages_) f = _
    rw [pageAt_flushedPages, hpa]
    simp [hne]
  | DeletePage q =>
    rcases h.deletePage q with ⟨_, he⟩ |
      ⟨f0, pg0, _, hTq, hpg0, _, ⟨_, he⟩ | ⟨_, b2, he, _, hpages, htable, _⟩⟩
    · simp only [step, he, Option.map_some', Option.some.injEq] at hs
      subst hs
      exact hst
    · simp only [step, he, Option.map_some', Option.some.injEq] at hs
      subst hs
      exact hst
    · simp only [step, he, Option.map_some', Option.some.injEq] at hs
      subst hs
      refine ⟨hother _ f0 _ hpages (by rw [hpg0]; rfl) (htab q f0 hTq), ?_⟩
      intro q1 hq
      rw [htable, assocFind_assocErase] at hq
      split_ifs at hq
      exact hst.not_table q1 hq
  | WriteData f0 bytes0 =>
    simp only [step, Option.some.injEq] at hs
    subst hs
    unfold WriteData
    cases hpg0 : b.getPage f0 with
    | none => exact hst
    | some pg0 =>
      simp only
      refine ⟨?_, hst.not_table⟩
      have hg := getPage_setPage b f0 f { pg0 with data_ := bytes0 } (by rw [hpg0]; rfl)
      by_cases hff : f = f0
      · subst hff
        rw [hpg] at hpg0
        cases hpg0
        rw [if_pos rfl] at hg
        exact ⟨_, hg, hid, hpin⟩
      · rw [if_neg hff] at hg
        exact ⟨pg, hg.trans hpg, hid, hpin⟩

theorem step_of_runAvoiding_cons {p : Int} {b b2 : BufferPoolManager} {op : PoolOp}
    {rest : List PoolOp} (h : b.runAvoiding p (op :: rest) = some b2) :
    b.touches p op = false ∧ ∃ b1, b.step op = some b1 ∧ b1.runAvoiding p rest = some b2 := by
  unfold runAvoiding at h
  cases ht : b.touches p op with
  | true => simp [ht] at h
  | false =>
    simp only [ht, Bool.false_eq_true, if_false] at h
    obtain ⟨b1, h1, h2⟩ := Option.bind_eq_some.1 h
    exact ⟨rfl, b1, h1, h2⟩

/-- Along a sequence of calls that neither deletes `p` nor stores into its buffer, the
bookkeeping stays in place, the content of `p` stays safe, and a stuck frame stays stuck. -/
theorem after_runAvoiding (p : Int) (bytes : Nat) (f : Int) (hp : 0 ≤ p) (ops : List PoolOp) :
    ∀ (n : Nat) (b b2 : BufferPoolManager), b.Inv n none →
      (n : Int) + ops.length < 2 ^ 31 → b.runAvoiding p ops = some b2 →
      b2.Inv (n + ops.length) none ∧ (b.Holds p bytes → b2.Holds p bytes) ∧
        (b.Stuck f p → b2.Stuck f p) := by
  induction ops with
  | nil =>
    intro n b b2 h _ hr
    simp only [runAvoiding, Option.some.injEq] at hr
    subst hr
    exact ⟨h, id, id⟩
  | cons op rest ih =>
    intro n b b2 h hlen hr
    simp only [List.length_cons] at hlen
    push_cast at hlen
    obtain ⟨ht, b1, h1, h2⟩ := step_of_runAvoiding_cons hr
    obtain ⟨b1x, h1x, hinv1⟩ := h.step_keeps (by omega) op
    rw [h1] at h1x
    cases h1x
    obtain ⟨hinv2, hh2, hs2⟩ := ih (n + 1) b1 b2 hinv1 (by push_cast; omega) h2
    have : n + (op :: rest).length = n + 1 + rest.length := by simp; omega
    rw [this]
    exact ⟨hinv2,
      fun hh => hh2 (hh.step_holds h (by omega) op b1 ht h1),
      fun hst => hs2 (hst.step_stuck h hp (by omega) op b1 h1)⟩

end BufferPoolManager

/-! ## Buffer pool manager: the claims -/

section PoolClaims
open PoolOp BufferPoolManager

/-- C15: in every state reached from construction by fewer than `2^31 - 1` client calls (pool
of fewer than `2^31` frames, replacer with `k ≥ 2`): the free list is empty and no frame is
evictable iff the free list is empty and every frame has a pin count above 0; `NewPage`
returns normally, and returns `nullptr` iff the free list is empty and no frame is evictable;
`FetchPage(p)` for `p` other than `INVALID_PAGE_ID` that is not resident does the same; and
when either returns `nullptr` the pool and the disk are as before. In scenario S1 (3 frames,
`k = 2`, three `NewPage` calls) the fourth `NewPage` returns `nullptr` and leaves the state as
it was, and after `UnpinPage(0, true)` the next `NewPage` returns page 3 in the frame of page
0, with a write of page 0 as the only disk request. -/
theorem C15_null_iff_no_frame (pool_size replacer_k : Nat) (disk : List (Int × Nat))
    (ops : List PoolOp) (hk : 2 ≤ replacer_k) (hs : pool_size < 2 ^ 31)
    (hlen : ops.length + 1 < 2 ^ 31) :
    (∃ b, (BufferPoolManager.new pool_size replacer_k disk).run ops = some b ∧
      (b.NoFrameAvailable ↔ (b.free_list_ = [] ∧ b.AllPinned)) ∧
      (∃ res b1, b.NewPage = some (res, b1) ∧ (res = none ↔ b.NoFrameAvailable) ∧
        (res = none → b1 = b)) ∧
      (∀ p, p ≠ INVALID_PAGE_ID → assocFind b.page_table_ p = none →
        ∃ res b1, b.FetchPage p = some (res, b1) ∧ (res = none ↔ b.NoFrameAvailable) ∧
          (res = none → b1 = b))) ∧
    ((BufferPoolManager.new 3 2 []).run scenarioS1).map (fun b => b.NewPage)
      = ((BufferPoolManager.new 3 2 []).run scenarioS1).map (fun b => some (none, b)) ∧
    (((BufferPoolManager.new 3 2 []).run (scenarioS1 ++ [UnpinPage 0 true])).bind
        (fun b => b.NewPage)).map (fun x => (x.1, x.2.disk_log_))
      = some (some (3, 2), [{ is_write_ := true, page_id_ := 0, data_ := 0 }]) := by
  refine ⟨?_, by decide!, by decide!⟩
  obtain ⟨b, hb, hinv⟩ := reachable_inv pool_size replacer_k disk ops hk hs (by omega)
  have hn : ((ops.length : Nat) : Int) + 1 < 2 ^ 31 := by
    have : ((ops.length + 1 : Nat) : Int) < 2 ^ 31 := by exact_mod_cast hlen
    push_cast at this
    exact this
  have hno : b.NoFrameAvailable ↔
      (b.free_list_ = [] ∧ ∀ f, b.replacer_.status f ≠ some true) := by
    unfold NoFrameAvailable
    constructor
    · rintro ⟨h1, h2⟩
      refine ⟨h1, fun f hf => ?_⟩
      have := (LRUKReplacer.status_isEvictable b.replacer_ f).2 hf
      rw [h2 f] at this
      cases this
    · rintro ⟨h1, h2⟩
      refine ⟨h1, fun f => ?_⟩
      cases hx : b.replacer_.isEvictable f with
      | false => rfl
      | true => exact absurd ((LRUKReplacer.status_isEvictable b.replacer_ f).1 hx) (h2 f)
  refine ⟨b, hb, ?_, ?_, ?_⟩
  · rw [hno]
    constructor
    · rintro ⟨h1, h2⟩
      refine ⟨h1, fun f page hp => ?_⟩
      have hocc := hinv.occ f page hp (by rw [h1]; simp) (by simp)
      have hne : page.pin_count_ ≠ 0 := by
        intro hz
        apply h2 f
        rw [hocc.2.2]
        simp [hz]
      have := hocc.2.1
      omega
    · rintro ⟨h1, h2⟩
      refine ⟨h1, fun f hf => ?_⟩
      have hsome := hinv.tracked f (by rw [hf]; simp)
      obtain ⟨page, hp⟩ := Option.isSome_iff_exists.1 hsome
      have hocc := hinv.occ f page hp (by rw [h1]; simp) (by simp)
      have hpos := h2 f page hp
      rw [hocc.2.2] at hf
      simp at hf
      omega
  · rcases hinv.newPage hn with ⟨he, h1, h2⟩ | ⟨f, b1, page, he, _, _, hcase, _⟩
    · exact ⟨none, b, he, ⟨fun _ => hno.2 ⟨h1, h2⟩, fun _ => rfl⟩, fun _ => rfl⟩
    · refine ⟨_, b1, he, ⟨fun hx => (by cases hx), fun hx => ?_⟩, fun hx => (by cases hx)⟩
      exfalso
      obtain ⟨h1, h2⟩ := hno.1 hx
      rcases hcase with ⟨h3, _⟩ | ⟨_, _, h3⟩
      · exact h3 h1
      · exact h2 f h3
  · intro p hp ht
    rcases hinv.fetchPage hn p with ⟨hp1, _⟩ | ⟨_, f, page, b1, ht1, _⟩ |
      ⟨_, _, he, h1, h2⟩ | ⟨_, _, f, page, b1, he, _, _, hcase, _⟩
    · exact absurd hp1 hp
    · rw [ht] at ht1; cases ht1
    · exact ⟨none, b, he, ⟨fun _ => hno.2 ⟨h1, h2⟩, fun _ => rfl⟩, fun _ => rfl⟩
    · refine ⟨_, b1, he, ⟨fun hx => (by cases hx), fun hx => ?_⟩, fun hx => (by cases hx)⟩
      exfalso
      obtain ⟨h1, h2⟩ := hno.1 hx
      rcases hcase with ⟨h3, _⟩ | ⟨_, _, h3⟩
      · exact h3 h1
      · exact h2 f h3

/-- C15 at the pool of scenario S1 with all three pages pinned. -/
theorem C15_null_iff_no_frame_witness :
    (2 : Nat) ≤ 2 ∧ (3 : Nat) < 2 ^ 31 ∧ scenarioS1.length + 1 < 2 ^ 31 ∧
    ((∃ b, (BufferPoolManager.new 3 2 []).run scenarioS1 = some b ∧
      (b.NoFrameAvailable ↔ (b.free_list_ = [] ∧ b.AllPinned)) ∧
      (∃ res b1, b.NewPage = some (res, b1) ∧ (res = none ↔ b.NoFrameAvailable) ∧
        (res = none → b1 = b)) ∧
      (∀ p, p ≠ INVALID_PAGE_ID → assocFind b.page_table_ p = none →
        ∃ res b1, b.FetchPage p = some (res, b1) ∧ (res = none ↔ b.NoFrameAvailable) ∧
          (res = none → b1 = b))) ∧
    ((BufferPoolManager.new 3 2 []).run scenarioS1).map (fun b => b.NewPage)
      = ((BufferPoolManager.new 3 2 []).run scenarioS1).map (fun b => some (none, b)) ∧
    (((BufferPoolManager.new 3 2 []).run (scenarioS1 ++ [UnpinPage 0 true])).bind
        (fun b => b.NewPage)).map (fun x => (x.1, x.2.disk_log_))
      = some (some (3, 2), [{ is_write_ := true, page_id_ := 0, data_ := 0 }])) :=
  ⟨by decide, by decide, by decide,
    C15_null_iff_no_frame 3 2 [] scenarioS1 (by decide) (by decide) (by decide)⟩

end PoolClaims

namespace BufferPoolManager

/-- With an empty free list and no frame that the replacer tracks as evictable, no frame is
available. -/
theorem noFrameAvailable_of (b : BufferPoolManager) (h1 : b.free_list_ = [])
    (h2 : ∀ f, b.replacer_.status f ≠ some true) : b.NoFrameAvailable := by
  refine ⟨h1, fun f => ?_⟩
  cases hx : b.replacer_.isEvictable f with
  | false => rfl
  | true => exact absurd ((LRUKReplacer.status_isEvictable b.replacer_ f).1 hx) (h2 f)

/-- A frame from the free list or from `Evict` shows that a frame is available. -/
theorem frame_of_available (b : BufferPoolManager) (f : Int)
    (h : (b.free_list_ ≠ [] ∧ b.free_list_.getLast? = some f) ∨
      (b.free_list_ = [] ∧ b.replacer_.Evict.1 = some f ∧ b.replacer_.status f = some true))
    (hno : b.NoFrameAvailable) : False := by
  rcases h with ⟨h3, _⟩ | ⟨_, _, h3⟩
  · exact h3 hno.1
  · have := (LRUKReplacer.status_isEvictable b.replacer_ f).2 h3
    rw [hno.2 f] at this
    cases this

end BufferPoolManager

section PoolClaims4
open BufferPoolManager

/-- C16 (amended): take a state reached from construction (pool of fewer than `2^31` frames,
replacer with `k ≥ 2`, fewer than `2^31` calls in all), in which `NewPage` returns page `p`
in frame `f`; the bytes `bytes` are stored in the buffer of that frame and
`UnpinPage(p, true)` returns true; then any sequence of client calls follows that neither
deletes `p` nor stores into the buffer of a frame holding `p`, after which frame `f` does
not hold `p` any more. Then `FetchPage(p)` returns normally. It returns `nullptr` exactly
when `p` is not resident and no frame is available (the free list is empty and no frame is
evictable), and the pool is then unchanged; in every other case it returns a frame that
holds `p` with a buffer equal to `bytes`. The disk is the map `disk_` from page id to
buffer content. -/
theorem C16_round_trip (pool_size replacer_k : Nat) (disk : List (Int × Nat))
    (ops0 ops1 : List PoolOp) (bytes : Nat) (b0 b1 b3 b4 : BufferPoolManager) (p f : Int)
    (hk : 2 ≤ replacer_k) (hs : pool_size < 2 ^ 31)
    (hlen : ops0.length + ops1.length + 4 < 2 ^ 31)
    (h0 : (BufferPoolManager.new pool_size replacer_k disk).run ops0 = some b0)
    (h1 : b0.NewPage = some (some (p, f), b1))
    (h3 : (b1.WriteData f bytes).UnpinPage p true = some (true, b3))
    (h4 : b3.runAvoiding p ops1 = some b4)
    (hev : ∀ page, b4.getPage f = some page → page.page_id_ ≠ p) :
    ∃ res b5, b4.FetchPage p = some (res, b5) ∧
      (res = none ↔ (assocFind b4.page_table_ p = none ∧ b4.NoFrameAvailable)) ∧
      (res = none → b5 = b4) ∧
      ∀ f1, res = some f1 →
        ∃ page1, b5.getPage f1 = some page1 ∧ page1.page_id_ = p ∧ page1.data_ = bytes := by
  obtain ⟨b0x, hb0, hinv0⟩ := reachable_inv pool_size replacer_k disk ops0 hk hs (by omega)
  rw [h0] at hb0
  cases hb0
  have hlenZ : ((ops0.length : Nat) : Int) + (ops1.length : Nat) + 4 < 2 ^ 31 := by
    have : ((ops0.length + ops1.length + 4 : Nat) : Int) < 2 ^ 31 := by exact_mod_cast hlen
    push_cast at this
    exact this
  -- the call of NewPage
  rcases hinv0.newPage (by omega) with ⟨he, _, _⟩ |
    ⟨f0, b2, pg0, he, hinv1, hpg0, hcase, hpages, htable, _, hnext, _⟩
  · rw [he] at h1; cases h1
  rw [he] at h1
  cases h1
  have hp0 : 0 ≤ b0.next_page_id_ := hinv0.next_ge
  have hpinv : b0.next_page_id_ ≠ INVALID_PAGE_ID := by unfold INVALID_PAGE_ID; omega
  have hsome0 : (b0.getPage f).isSome = true := by rw [hpg0]; rfl
  have hg1 := getPage_of_set hpages hsome0
  have hg1f := hg1 f
  rw [if_pos rfl] at hg1f
  have hsome1 : (b1.getPage f).isSome = true := by rw [hg1f]; rfl
  -- the store into the buffer
  have hinvw := hinv1.writeData f bytes
  have hstepw : b1.step (PoolOp.WriteData f bytes) = some (b1.WriteData f bytes) := rfl
  have hweq : b1.WriteData f bytes = b1.setPage f
      (Page.mk b0.next_page_id_ 1 (decide (b0.free_list_ ≠ []) && pg0.is_dirty_) bytes) := by
    unfold BufferPoolManager.WriteData
    rw [hg1f]
  have hgw : ∀ g, (b1.WriteData f bytes).getPage g =
      if g = f then
        some (Page.mk b0.next_page_id_ 1 (decide (b0.free_list_ ≠ []) && pg0.is_dirty_) bytes)
      else b1.getPage g := by
    intro g
    rw [hweq]
    exact getPage_setPage b1 f g _ hsome1
  have htw : (b1.WriteData f bytes).page_table_ = b1.page_table_ := by rw [hweq]; rfl
  have hnw : (b1.WriteData f bytes).next_page_id_ = b1.next_page_id_ := by rw [hweq]; rfl
  -- the call of UnpinPage
  have hstep3 : (b1.WriteData f bytes).step (PoolOp.UnpinPage b0.next_page_id_ true)
      = some b3 := by
    simp [step, h3]
  rcases hinvw.unpinPage b0.next_page_id_ true with ⟨_, he3⟩ |
    ⟨f2, pg2, _, hT2, hpg2, hid2, ⟨_, he3, _⟩ |
      ⟨_, b3x, he3, hinv3, hpages3, htable3, _, hnext3, hdisk3, _⟩⟩
  · rw [he3] at h3; cases h3
  · rw [he3] at h3; cases h3
  rw [he3] at h3
  cases h3
  have hsome2 : ((b1.WriteData f bytes).getPage f2).isSome = true := by rw [hpg2]; rfl
  have hg3 := getPage_of_set hpages3 hsome2
  by_cases hff : f2 = f
  · -- the page table gives the frame of the new page: its content is safe
    subst hff
    have hpg2' := hgw f2
    rw [if_pos rfl, hpg2] at hpg2'
    cases hpg2'
    have hholds : b3.Holds b0.next_page_id_ bytes := by
      constructor
      · exact hp0
      · rw [hnext3, hnw, hnext]; omega
      · intro g page hg hid
        have hgg := hg3 g
        rw [hg] at hgg
        by_cases hgf : g = f2
        · rw [if_pos hgf] at hgg
          cases hgg
          refine ⟨?_, rfl, Or.inl (by simp)⟩
          rw [htable3, hgf]
          exact hT2
        · exfalso
          rw [if_neg hgf, hgw g, if_neg hgf, hg1 g, if_neg hgf] at hgg
          have hT0 := hinv0.fresh g page hgg.symm (by rw [hid])
          rw [hid] at hT0
          have hne : pg0.page_id_ ≠ b0.next_page_id_ := by
            intro hx
            have := hinv0.fresh f2 pg0 hpg0 (by rw [hx])
            rw [hx, hT0] at this
            cases this
            exact hgf rfl
          have hT1 : assocFind b1.page_table_ b0.next_page_id_ = some g := by
            rw [htable, assocFind_assocEmplace, assocFind_assocErase,
              if_neg (fun hx => hne hx.symm), hT0]
          rw [htw, hT1] at hT2
          cases hT2
          exact hgf rfl
      · intro hT
        rw [htable3, hT2] at hT
        cases hT
    obtain ⟨hinv4, hh4, _⟩ := after_runAvoiding b0.next_page_id_ bytes f2 hp0 ops1
      (ops0.length + 1) b3 b4 hinv3 (by push_cast; omega) h4
    have hholds4 := hh4 hholds
    rcases hinv4.fetchPage (by push_cast; omega) b0.next_page_id_ with ⟨hx, _⟩ |
      ⟨_, f5, pg5, b5, hT5h, hpg5, hid5, he5, _, hpages5, _⟩ |
      ⟨_, hT5n, he5, hfree5, hnoev5⟩ |
      ⟨_, hT5, f5, pg5, b5, he5, _, hpg5, hcase5, hpages5, _⟩
    · exact absurd hx hpinv
    · refine ⟨_, b5, he5, ⟨fun hx => (by cases hx), fun hx => ?_⟩, fun hx => (by cases hx), ?_⟩
      · rw [hT5h] at hx
        cases hx.1
      intro f1 hf1
      cases hf1
      have hg5 := getPage_of_set hpages5 (by rw [hpg5]; rfl) f5
      rw [if_pos rfl] at hg5
      exact ⟨_, hg5, hid5, (hholds4.frames f5 pg5 hpg5 hid5).2.1⟩
    · exact ⟨none, b4, he5, ⟨fun _ => ⟨hT5n, noFrameAvailable_of b4 hfree5 hnoev5⟩, fun _ => rfl⟩,
        fun _ => rfl, fun f1 hf1 => by cases hf1⟩
    · refine ⟨_, b5, he5, ⟨fun hx => (by cases hx), fun hx => ?_⟩, fun hx => (by cases hx), ?_⟩
      · exfalso
        exact frame_of_available b4 f5 hcase5 hx.2
      intro f1 hf1
      cases hf1
      have hg5 := getPage_of_set hpages5 (by rw [hpg5]; rfl) f5
      rw [if_pos rfl] at hg5
      refine ⟨_, hg5, rfl, ?_⟩
      show diskRead (assocPut b4.disk_ pg5.page_id_ pg5.data_) b0.next_page_id_ = bytes
      have hne : pg5.page_id_ ≠ b0.next_page_id_ := by
        intro hx
        have := (hholds4.frames f5 pg5 hpg5 hx).1
        rw [hT5] at this
        cases this
      rw [diskRead_assocPut, if_neg (fun hx => hne hx.symm)]
      exact hholds4.absent hT5
  · -- the page table gives another frame for the page id: frame f is never released
    exfalso
    have hstuck1 : b1.Stuck f b0.next_page_id_ := by
      refine ⟨⟨_, hg1f, rfl, rfl⟩, ?_⟩
      intro q hq
      obtain ⟨pgq, hpgq, hidq⟩ := hinv1.table q f hq
      rw [hg1f] at hpgq
      cases hpgq
      simp only at hidq
      subst hidq
      rw [htw, hq] at hT2
      cases hT2
      exact hff rfl
    have hstuckw := hstuck1.step_stuck hinv1 hp0 (by push_cast; omega) _ _ hstepw
    have hstuck3 := hstuckw.step_stuck hinvw hp0 (by push_cast; omega) _ _ hstep3
    obtain ⟨_, _, hs4⟩ := after_runAvoiding b0.next_page_id_ bytes f hp0 ops1
      (ops0.length + 1) b3 b4 hinv3 (by push_cast; omega) h4
    obtain ⟨pg, hpg, hid, _⟩ := (hs4 hstuck3).page
    exact hev pg hpg hid

/-- C16 as amended at a pool of one frame: page 0 is created, 42 is stored in its buffer, the
page is unpinned dirty, a new page 1 takes the frame (which writes page 0 back) and is
unpinned; `FetchPage(0)` then returns the frame with 42 in its buffer. -/
theorem C16_round_trip_witness :
    (2 : Nat) ≤ 2 ∧ (1 : Nat) < 2 ^ 31 ∧
    ([] : List PoolOp).length + scenarioEvict.length + 4 < 2 ^ 31 ∧
    (BufferPoolManager.new 1 2 []).run [] = some (BufferPoolManager.new 1 2 []) ∧
    (BufferPoolManager.new 1 2 []).NewPage = some (some (0, 0), roundTrip1) ∧
    (roundTrip1.WriteData 0 42).UnpinPage 0 true = some (true, roundTrip3) ∧
    roundTrip3.runAvoiding 0 scenarioEvict = some roundTrip4 ∧
    (∀ page, roundTrip4.getPage 0 = some page → page.page_id_ ≠ 0) ∧
    (∃ res b5, roundTrip4.FetchPage 0 = some (res, b5) ∧
      (res = none ↔ (assocFind roundTrip4.page_table_ 0 = none ∧ roundTrip4.NoFrameAvailable)) ∧
      (res = none → b5 = roundTrip4) ∧
      ∀ f1, res = some f1 →
        ∃ page1, b5.getPage f1 = some page1 ∧ page1.page_id_ = 0 ∧ page1.data_ = 42) ∧
    (roundTrip4.FetchPage 0).map (fun x => (x.1, (x.2.getPage 0).map (fun pg => pg.data_))) =
      some (some 0, some 42) :=
  have hev : ∀ page, roundTrip4.getPage 0 = some page → page.page_id_ ≠ 0 := by
    intro page hpg
    have h4 : roundTrip4.getPage 0 =
        some { page_id_ := 1, pin_count_ := 0, is_dirty_ := false, data_ := 0 } := by decide!
    rw [h4] at hpg
    cases hpg
    decide
  ⟨by decide, by decide, by decide, rfl, by decide!, by decide!, by decide!, hev,
    C16_round_trip 1 2 [] [] scenarioEvict 42 (BufferPoolManager.new 1 2 []) roundTrip1
      roundTrip3 roundTrip4 0 0 (by decide) (by decide) (by decide) rfl (by decide!)
      (by decide!) (by decide!) hev,
    by decide!⟩

/-- C16 (the claim at a concrete input): pool of one frame, `k = 2`. `NewPage` returns page
0 in frame 0, the bytes 42 are stored in its buffer and `UnpinPage(0, true)` returns true;
then a `NewPage` evicts page 0 (its bytes go to disk) and leaves page 1 pinned in frame 0.
Page 0 was never deleted nor written again and its frame has been evicted, yet
`FetchPage(0)` returns `nullptr`: the only frame is pinned. -/
theorem C16_counterexample :
    (BufferPoolManager.new 1 2 []).NewPage = some (some (0, 0), roundTrip1) ∧
    (roundTrip1.WriteData 0 42).UnpinPage 0 true = some (true, roundTrip3) ∧
    roundTrip3.runAvoiding 0 [PoolOp.NewPage] = some roundTripPinned ∧
    roundTripPinned.getPage 0 =
      some { page_id_ := 1, pin_count_ := 1, is_dirty_ := false, data_ := 0 } ∧
    roundTripPinned.disk_ = [(0, 42)] ∧
    roundTripPinned.FetchPage 0 = some (none, roundTripPinned) := by
  decide!

end PoolClaims4

section PoolClaims3
open PoolOp BufferPoolManager

/-- C17 (the claim at a concrete input): pool of 3 frames, `k = 2`, `NewPage` (page 0 in
frame 2) and `UnpinPage(0, false)`. Page 0 is resident with pin count 0 and is clean.
`UnpinPage(0, true)` returns false, yet the pool is not as before: the dirty flag of the
frame is set. -/
theorem C17_counterexample :
    ((BufferPoolManager.new 3 2 []).run scenarioUnpinned).map
      (fun b => (assocFind b.page_table_ 0, b.getPage 2)) =
      some (some 2, some { page_id_ := 0, pin_count_ := 0, is_dirty_ := false, data_ := 0 }) ∧
    ((BufferPoolManager.new 3 2 []).run scenarioUnpinned).bind
      (fun b => (b.UnpinPage 0 true).map (fun x => (x.1, x.2.getPage 2, decide (x.2 = b)))) =
      some (false, some { page_id_ := 0, pin_count_ := 0, is_dirty_ := true, data_ := 0 },
        false) := by
  decide!

/-- C17 as amended: in every state reached from construction by fewer than `2^31` client
calls (pool of fewer than `2^31` frames, replacer with `k ≥ 2`), for every page id `p` and
flag `d`: if `p` is resident with a pin count above 0, `UnpinPage(p, d)` returns true,
lowers the pin count by exactly one, sets the dirty flag to the old flag or `d`, leaves the
frame evictable iff the new pin count is 0 and changes nothing else; if `p` is resident
with pin count 0 it returns false and changes nothing but the dirty flag, which becomes the
old flag or `d`; if `p` is invalid or not resident it returns false and changes nothing. -/
theorem C17_unpin_outcome (pool_size replacer_k : Nat) (disk : List (Int × Nat))
    (ops : List PoolOp) (p : Int) (d : Bool) (hk : 2 ≤ replacer_k) (hs : pool_size < 2 ^ 31)
    (hlen : ops.length < 2 ^ 31) :
    ∃ b, (BufferPoolManager.new pool_size replacer_k disk).run ops = some b ∧
      b.UnpinOutcome p d := by
  obtain ⟨b, hb, hinv⟩ := reachable_inv pool_size replacer_k disk ops hk hs hlen
  exact ⟨b, hb, hinv.unpinOutcome p d⟩

/-- C17 as amended at the pool of three frames in which page 0 is resident with pin count
0, for `UnpinPage(0, true)`. -/
theorem C17_unpin_outcome_witness :
    (2 : Nat) ≤ 2 ∧ (3 : Nat) < 2 ^ 31 ∧ scenarioUnpinned.length < 2 ^ 31 ∧
    ∃ b, (BufferPoolManager.new 3 2 []).run scenarioUnpinned = some b ∧
      b.UnpinOutcome 0 true :=
  ⟨by decide, by decide, by decide,
    C17_unpin_outcome 3 2 [] scenarioUnpinned 0 true (by decide) (by decide) (by decide)⟩

/-- C18: in every state reached from construction by fewer than `2^31 - 1` calls of
`NewPage`, `FetchPage`, `UnpinPage`, `FlushPage`, `FlushAllPages` and `DeletePage` and
stores into page buffers (pool of fewer than `2^31` frames, replacer with `k ≥ 2`): for
every occupied frame the pin count is 0 iff the replacer tracks the frame as evictable; the
frame `Evict` would return has pin count 0; a `FetchPage` that returns a frame has raised
the pin count of a resident page by exactly one, and made the pin count of a page that was
not resident 1; a `NewPage` that returns a page has made its pin count 1; and an
`UnpinPage` that returns true has lowered the pin count by exactly one. -/
theorem C18_pins_match_replacer (pool_size replacer_k : Nat) (disk : List (Int × Nat))
    (ops : List PoolOp) (hk : 2 ≤ replacer_k) (hs : pool_size < 2 ^ 31)
    (hlen : ops.length + 1 < 2 ^ 31) :
    ∃ b, (BufferPoolManager.new pool_size replacer_k disk).run ops = some b ∧
      b.PinsMatchReplacer ∧ b.EvictsUnpinned ∧ b.PinRaisedByFetch ∧ b.PinRaisedByNew ∧
      b.PinLoweredByUnpin := by
  obtain ⟨b, hb, hinv⟩ := reachable_inv pool_size replacer_k disk ops hk hs (by omega)
  have hn : ((ops.length : Nat) : Int) + 1 < 2 ^ 31 := by
    have : ((ops.length + 1 : Nat) : Int) < 2 ^ 31 := by exact_mod_cast hlen
    push_cast at this
    exact this
  exact ⟨b, hb, hinv.pinsMatchReplacer, hinv.evictsUnpinned, hinv.pinRaisedByFetch hn,
    hinv.pinRaisedByNew hn, hinv.pinLoweredByUnpin⟩

/-- C18 at the pool of three frames after a new page 0, bytes stored in it, and
`UnpinPage(0, true)`: frame 2 holds page 0 with pin count 0 and is evictable. -/
theorem C18_pins_match_replacer_witness :
    (2 : Nat) ≤ 2 ∧ (3 : Nat) < 2 ^ 31 ∧ scenarioDirtyDelete.length + 1 < 2 ^ 31 ∧
    (∃ b, (BufferPoolManager.new 3 2 []).run scenarioDirtyDelete = some b ∧
      b.PinsMatchReplacer ∧ b.EvictsUnpinned ∧ b.PinRaisedByFetch ∧ b.PinRaisedByNew ∧
      b.PinLoweredByUnpin) ∧
    ((BufferPoolManager.new 3 2 []).run scenarioDirtyDelete).map
      (fun b => ((b.getPage 2).map (fun pg => (pg.page_id_, pg.pin_count_)),
        b.replacer_.isEvictable 2, b.replacer_.Evict.1)) =
      some (some (0, 0), true, some 2) :=
  ⟨by decide, by decide, by decide,
    C18_pins_match_replacer 3 2 [] scenarioDirtyDelete (by decide) (by decide) (by decide),
    by decide!⟩

/-- C19 (the claim at a concrete input): pool of 3 frames, `k = 2`, `NewPage` (page 0 in
frame 2), the bytes 7 stored in its buffer, `UnpinPage(0, true)`. Frame 2 is dirty.
`DeletePage(0)` returns true; afterwards the dirty flag of frame 2 is false and no disk
request has been scheduled: the flag was cleared without a writeback. -/
theorem C19_counterexample :
    (BufferPoolManager.new 3 2 []).run scenarioDirtyDelete = some dirtyDeleteBefore ∧
    dirtyDeleteBefore.getPage 2 =
      some { page_id_ := 0, pin_count_ := 0, is_dirty_ := true, data_ := 7 } ∧
    dirtyDeleteBefore.DeletePage 0 = some (true, dirtyDeleteAfter) ∧
    dirtyDeleteAfter.getPage 2 =
      some { page_id_ := -1, pin_count_ := 0, is_dirty_ := false, data_ := 0 } ∧
    dirtyDeleteAfter.disk_log_ = [] ∧
    ¬ dirtyDeleteBefore.DirtyKeptOrWritten dirtyDeleteAfter := by
  refine ⟨by decide!, by decide!, by decide!, by decide!, by decide!, ?_⟩
  intro h
  obtain ⟨page1, hp1, hcase⟩ := h 2 _ (by decide! :
    dirtyDeleteBefore.getPage 2 =
      some { page_id_ := 0, pin_count_ := 0, is_dirty_ := true, data_ := 7 }) rfl
  have hafter : dirtyDeleteAfter.getPage 2 =
      some { page_id_ := -1, pin_count_ := 0, is_dirty_ := false, data_ := 0 } := by decide!
  rw [hafter] at hp1
  cases hp1
  rcases hcase with hd | ⟨added, hadd, hmem⟩
  · cases hd
  · have h1 : dirtyDeleteAfter.disk_log_ = [] := by decide!
    have h2 : dirtyDeleteBefore.disk_log_ = [] := by decide!
    rw [h1, h2] at hadd
    have : added = [] := by simpa using hadd.symm
    rw [this] at hmem
    cases hmem

/-- C19 as amended: in every state reached from construction by fewer than `2^31 - 1` client
calls (pool of fewer than `2^31` frames, replacer with `k ≥ 2`), every client call returns
normally, and every frame whose dirty flag was set before the call still has it set
afterwards, unless the call scheduled a write of the buffer of the frame under its page id,
or the call is `DeletePage` of the page of the frame, which leaves the frame unoccupied and
clean without a writeback. In particular `UnpinPage(p, d)` never clears a dirty flag. -/
theorem C19_dirty_kept (pool_size replacer_k : Nat) (disk : List (Int × Nat))
    (ops : List PoolOp) (op : PoolOp) (hk : 2 ≤ replacer_k) (hs : pool_size < 2 ^ 31)
    (hlen : ops.length + 1 < 2 ^ 31) :
    ∃ b b1, (BufferPoolManager.new pool_size replacer_k disk).run ops = some b ∧
      b.step op = some b1 ∧ b.DirtyKept op b1 ∧
      ((∃ p d, op = PoolOp.UnpinPage p d) →
        ∀ f page, b.getPage f = some page → page.is_dirty_ = true →
          ∃ page1, b1.getPage f = some page1 ∧ page1.is_dirty_ = true) := by
  obtain ⟨b, hb, hinv⟩ := reachable_inv pool_size replacer_k disk ops hk hs (by omega)
  have hn : ((ops.length : Nat) : Int) + 1 < 2 ^ 31 := by
    have : ((ops.length + 1 : Nat) : Int) < 2 ^ 31 := by exact_mod_cast hlen
    push_cast at this
    exact this
  obtain ⟨b1, hb1, _⟩ := hinv.step_keeps hn op
  have hkept := hinv.dirtyKept hn op b1 hb1
  refine ⟨b, b1, hb, hb1, hkept, ?_⟩
  rintro ⟨p, d, rfl⟩ f page hpf hdirty
  obtain ⟨page1, hp1, hcase⟩ := hkept f page hpf hdirty
  refine ⟨page1, hp1, ?_⟩
  rcases hcase with hd | ⟨added, hadd, hmem⟩ | ⟨hop, _⟩
  · exact hd
  · exfalso
    have hlog : b1.disk_log_ = b.disk_log_ := by
      rcases hinv.unpinPage p d with ⟨_, he⟩ |
        ⟨f0, pg0, _, _, _, _, ⟨_, he, _⟩ | ⟨_, b2, he, _, _, _, _, _, _, hlog, _⟩⟩
      · simp only [step, he, Option.map_some', Option.some.injEq] at hb1
        rw [← hb1]
      · simp only [step, he, Option.map_some', Option.some.injEq] at hb1
        rw [← hb1]; rfl
      · simp only [step, he, Option.map_some', Option.some.injEq] at hb1
        rw [← hb1]; exact hlog
    rw [hlog] at hadd
    have : added = [] := by simpa using hadd.symm
    rw [this] at hmem
    cases hmem
  · cases hop

/-- C19 as amended at the pool of three frames with the dirty page 0 in frame 2, for the
call `DeletePage(0)`. -/
theorem C19_dirty_kept_witness :
    (2 : Nat) ≤ 2 ∧ (3 : Nat) < 2 ^ 31 ∧ scenarioDirtyDelete.length + 1 < 2 ^ 31 ∧
    ∃ b b1, (BufferPoolManager.new 3 2 []).run scenarioDirtyDelete = some b ∧
      b.step (PoolOp.DeletePage 0) = some b1 ∧ b.DirtyKept (PoolOp.DeletePage 0) b1 ∧
      ((∃ p d, PoolOp.DeletePage 0 = PoolOp.UnpinPage p d) →
        ∀ f page, b.getPage f = some page → page.is_dirty_ = true →
          ∃ page1, b1.getPage f = some page1 ∧ page1.is_dirty_ = true) :=
  ⟨by decide, by decide, by decide,
    C19_dirty_kept 3 2 [] scenarioDirtyDelete (PoolOp.DeletePage 0) (by decide) (by decide)
      (by decide)⟩

/-- C20: in every state reached from construction by fewer than `2^31` client calls (pool
of fewer than `2^31` frames, replacer with `k ≥ 2`) and for every page id `p`: if `p` is
resident, `FlushPage(p)` returns true, the disk afterwards holds the buffer of the frame
under `p` whether or not the page was dirty and is unchanged elsewhere, the dirty flag is
false, and pin count, buffer, the other frames, page table, free list, replacer and page id
counter are unchanged; if `p` is not resident or is `INVALID_PAGE_ID` it returns false and
neither pool nor disk changes. -/
theorem C20_flush_outcome (pool_size replacer_k : Nat) (disk : List (Int × Nat))
    (ops : List PoolOp) (p : Int) (hk : 2 ≤ replacer_k) (hs : pool_size < 2 ^ 31)
    (hlen : ops.length < 2 ^ 31) :
    ∃ b, (BufferPoolManager.new pool_size replacer_k disk).run ops = some b ∧
      b.FlushOutcome p := by
  obtain ⟨b, hb, hinv⟩ := reachable_inv pool_size replacer_k disk ops hk hs hlen
  exact ⟨b, hb, hinv.flushOutcome p⟩

/-- C20 at the pool of three frames with the dirty page 0 (bytes 7) in frame 2:
`FlushPage(0)` returns true and the disk then holds 7 under page 0. -/
theorem C20_flush_outcome_witness :
    (2 : Nat) ≤ 2 ∧ (3 : Nat) < 2 ^ 31 ∧ scenarioDirtyDelete.length < 2 ^ 31 ∧
    (∃ b, (BufferPoolManager.new 3 2 []).run scenarioDirtyDelete = some b ∧
      b.FlushOutcome 0) ∧
    (((BufferPoolManager.new 3 2 []).run scenarioDirtyDelete).bind
      (fun b => b.FlushPage 0)).map
      (fun x => (x.1, diskRead x.2.disk_ 0, (x.2.getPage 2).map (fun pg => pg.is_dirty_))) =
      some (true, 7, some false) :=
  ⟨by decide, by decide, by decide,
    C20_flush_outcome 3 2 [] scenarioDirtyDelete 0 (by decide) (by decide) (by decide),
    by decide!⟩

end PoolClaims3

namespace BufferPoolManager

/-- The outcome of `DeletePage` in a state with the bookkeeping in place. -/
theorem Inv.deleteOutcome {n : Nat} {b : BufferPoolManager} (h : b.Inv n none) (p : Int) :
    b.DeleteOutcome p := by
  constructor
  · intro f hp ht
    obtain ⟨page0, hpg0, _, hnf⟩ := h.table_frame p f hp ht
    have hocc := h.occ f page0 hpg0 hnf (by simp)
    rcases h.deletePage p with ⟨hx, _⟩ | ⟨f1, page, _, ht1, hpg, hid, hcase⟩
    · rcases hx with hx | hx
      · exact absurd hx hp
      · rw [ht] at hx; cases hx
    · rw [ht] at ht1
      cases ht1
      rw [hpg0] at hpg
      cases hpg
      have hsome : (b.getPage f).isSome = true := by rw [hpg0]; rfl
      refine ⟨page0, hpg0, hid, hocc.2.1, ?_, ?_⟩
      · intro hpos
        rcases hcase with ⟨_, he⟩ | ⟨hz, _⟩
        · exact he
        · omega
      · intro hz
        rcases hcase with ⟨hpos, _⟩ | ⟨_, b1, he, _, hpages, htable, hfree, hnext, hdisk, hlog,
          _, hstat⟩
        · omega
        · refine ⟨b1, he, ?_, ?_, ?_, ?_, ?_, ?_, hfree, hnext, hdisk, hlog⟩
          · rw [htable, assocFind_assocErase, if_pos rfl]
          · rw [hfree]; simp
          · have hg := getPage_of_set hpages hsome f
            rw [if_pos rfl] at hg
            exact hg
          · rw [hstat f, if_pos rfl]
          · intro g hgf
            have hg := getPage_of_set hpages hsome g
            rw [if_neg hgf] at hg
            exact ⟨hg, by rw [hstat g, if_neg hgf]⟩
          · intro q hq
            rw [htable, assocFind_assocErase, if_neg hq]
  · intro hx
    rcases h.deletePage p with ⟨_, he⟩ | ⟨f1, page, hp, ht, _⟩
    · exact he
    · rcases hx with hx | hx
      · exact absurd hx hp
      · rw [ht] at hx; cases hx

/-- In a state with the bookkeeping in place a frame is unoccupied iff it is free. -/
theorem Inv.invalidIffFree {n : Nat} {b : BufferPoolManager} (h : b.Inv n none) :
    b.InvalidIffFree := by
  intro f page hpg
  constructor
  · intro hid
    by_contra hnf
    exact (h.occ f page hpg hnf (by simp)).1 hid
  · intro hf
    obtain ⟨_, page1, hpg1, hid⟩ := h.free_spec f hf
    rw [hpg] at hpg1
    cases hpg1
    exact hid

theorem Tight.of_new_tight (pool_size replacer_k : Nat) (disk : List (Int × Nat)) :
    (BufferPoolManager.new pool_size replacer_k disk).Tight := by
  constructor
  · intro g page hpg
    rw [getPage_new pool_size replacer_k disk g page hpg]
    show (-1 : Int) < 0
    decide
  · intro g page hpg hid
    rw [getPage_new pool_size replacer_k disk g page hpg] at hid
    exact absurd rfl hid
  · rfl

/-- A store into a frame that keeps its page id, with the page table and the counter as
before, keeps the page ids tight. -/
theorem Tight.of_set {b b1 : BufferPoolManager} (ht : b.Tight) {f : Int} {page pg : Page}
    (hpg : b.getPage f = some page) (hpages : b1.pages_ = b.pages_.set f.toNat pg)
    (hid : pg.page_id_ = page.page_id_) (htable : b1.page_table_ = b.page_table_)
    (hnext : b1.next_page_id_ = b.next_page_id_) : b1.Tight := by
  have hsome : (b.getPage f).isSome = true := by rw [hpg]; rfl
  constructor
  · intro g page1 hg
    rw [getPage_of_set hpages hsome g] at hg
    rw [hnext]
    by_cases hgf : g = f
    · rw [if_pos hgf] at hg
      cases hg
      rw [hid]
      exact ht.below f page hpg
    · rw [if_neg hgf] at hg
      exact ht.below g page1 hg
  · intro g page1 hg hv
    rw [getPage_of_set hpages hsome g] at hg
    rw [htable]
    by_cases hgf : g = f
    · rw [if_pos hgf] at hg
      cases hg
      rw [hid] at hv ⊢
      rw [hgf]
      exact ht.owned f page hpg hv
    · rw [if_neg hgf] at hg
      exact ht.owned g page1 hg hv
  · rw [htable]
    exact ht.valid_keys

/-- Installing a page id that is not resident in an acquired frame keeps the page ids
tight. -/
theorem Tight.of_install {b b1 : BufferPoolManager} (ht : b.Tight) {f new_id : Int}
    {page pg : Page} (hpg : b.getPage f = some page)
    (hpages : b1.pages_ = b.pages_.set f.toNat pg) (hid : pg.page_id_ = new_id)
    (htable : b1.page_table_ =
      assocEmplace (assocErase b.page_table_ page.page_id_) new_id f)
    (hnew : new_id ≠ INVALID_PAGE_ID) (hlt : new_id < b1.next_page_id_)
    (hnext : b.next_page_id_ ≤ b1.next_page_id_)
    (habsent : assocFind b.page_table_ new_id = none) : b1.Tight := by
  have hsome : (b.getPage f).isSome = true := by rw [hpg]; rfl
  have hfind_new : assocFind (assocErase b.page_table_ page.page_id_) new_id = none := by
    rw [assocFind_assocErase]
    by_cases hx : new_id = page.page_id_
    · rw [if_pos hx]
    · rw [if_neg hx]; exact habsent
  constructor
  · intro g page1 hg
    rw [getPage_of_set hpages hsome g] at hg
    by_cases hgf : g = f
    · rw [if_pos hgf] at hg
      cases hg
      rw [hid]
      exact hlt
    · rw [if_neg hgf] at hg
      have := ht.below g page1 hg
      omega
  · intro g page1 hg hv
    rw [getPage_of_set hpages hsome g] at hg
    rw [htable, assocFind_assocEmplace]
    by_cases hgf : g = f
    · rw [if_pos hgf] at hg
      cases hg
      rw [hid, hfind_new, hgf]
      simp
    · rw [if_neg hgf] at hg
      have hown := ht.owned g page1 hg hv
      have hne : ¬ page1.page_id_ = page.page_id_ := by
        intro hx
        have hown_f := ht.owned f page hpg (by rw [← hx]; exact hv)
        rw [← hx, hown] at hown_f
        cases hown_f
        exact hgf rfl
      rw [assocFind_assocErase, if_neg hne, hown]
  · rw [htable, assocFind_assocEmplace, assocFind_assocErase]
    have hk := ht.valid_keys
    by_cases hx : INVALID_PAGE_ID = page.page_id_
    · rw [if_pos hx]
      simp [hnew]
    · rw [if_neg hx, hk]
      simp [hnew]

end BufferPoolManager

namespace BufferPoolManager

/-- One client call keeps the page ids tight, provided a `FetchPage` asks for a page id
below the counter of `AllocatePage`. -/
theorem Tight.step_tight {n : Nat} {b b1 : BufferPoolManager} (h : b.Inv n none)
    (ht : b.Tight) (hn : (n : Int) + 1 < 2 ^ 31) (op : PoolOp)
    (hop : ∀ p, op = PoolOp.FetchPage p → p < b.next_page_id_)
    (hs : b.step op = some b1) : b1.Tight := by
  cases op with
  | NewPage =>
    rcases h.newPage hn with ⟨he, _, _⟩ | ⟨f, b2, page, he, _, hpg, _, hpages, htable, _, hnext, _⟩
    · simp only [step, he, Option.map_some', Option.some.injEq] at hs
      subst hs
      exact ht
    · simp only [step, he, Option.map_some', Option.some.injEq] at hs
      subst hs
      have hge := h.next_ge
      refine ht.of_install hpg hpages (show _ = b.next_page_id_ from rfl) htable ?_
        (by rw [hnext]; omega) (by rw [hnext]; omega) ?_
      · unfold INVALID_PAGE_ID
        omega
      · cases hfind : assocFind b.page_table_ b.next_page_id_ with
        | none => rfl
        | some g =>
          obtain ⟨pg, hg, hid⟩ := h.table b.next_page_id_ g hfind
          have := ht.below g pg hg
          omega
  | FetchPage p =>
    have hlt := hop p rfl
    rcases h.fetchPage hn p with ⟨_, he⟩ |
      ⟨_, f, page, b2, _, hpg, _, he, _, hpages, htable, _, hnext, _⟩ |
      ⟨_, _, he, _, _⟩ |
      ⟨hp, habs, f, page, b2, he, _, hpg, _, hpages, htable, _, hnext, _⟩
    · simp only [step, he, Option.map_some', Option.some.injEq] at hs
      subst hs
      exact ht
    · simp only [step, he, Option.map_some', Option.some.injEq] at hs
      subst hs
      exact ht.of_set hpg hpages rfl htable hnext
    · simp only [step, he, Option.map_some', Option.some.injEq] at hs
      subst hs
      exact ht
    · simp only [step, he, Option.map_some', Option.some.injEq] at hs
      subst hs
      exact ht.of_install hpg hpages (show _ = p from rfl) htable hp
        (by rw [hnext]; exact hlt) (by rw [hnext]) habs
  | UnpinPage p d =>
    rcases h.unpinPage p d with ⟨_, he⟩ |
      ⟨f, page, _, _, hpg, _, ⟨_, he, _⟩ | ⟨_, b2, he, _, hpages, htable, _, hnext, _⟩⟩
    · simp only [step, he, Option.map_some', Option.some.injEq] at hs
      subst hs
      exact ht
    · simp only [step, he, Option.map_some', Option.some.injEq] at hs
      subst hs
      exact ht.of_set hpg rfl rfl rfl rfl
    · simp only [step, he, Option.map_some', Option.some.injEq] at hs
      subst hs
      exact ht.of_set hpg hpages rfl htable hnext
  | FlushPage p =>
    rcases h.flushPage p with ⟨_, he⟩ |
      ⟨f, page, b2, _, _, hpg, _, he, _, hpages, htable, _, _, hnext, _⟩
    · simp only [step, he, Option.map_some', Option.some.injEq] at hs
      subst hs
      exact ht
    · simp only [step, he, Option.map_some', Option.some.injEq] at hs
      subst hs
      exact ht.of_set hpg hpages rfl htable hnext
  | FlushAllPages =>
    simp only [step, FlushAllPages_eq b h.len, Option.some.injEq] at hs
    subst hs
    have hget : ∀ g page1, getPage { b with
        pages_ := flushedPages b.pages_,
        disk_ := diskAfter b.disk_ (flushWrites b.pages_),
        disk_log_ := b.disk_log_ ++ flushWrites b.pages_ } g = some page1 →
        ∃ page, b.getPage g = some page ∧ page1.page_id_ = page.page_id_ := by
      intro g page1 hg
      have hg1 : pageAt (flushedPages b.pages_) g = some page1 := hg
      rw [pageAt_flushedPages] at hg1
      cases hpg : pageAt b.pages_ g with
      | none => rw [hpg] at hg1; cases hg1
      | some page =>
        rw [hpg] at hg1
        simp only [Option.map_some', Option.some.injEq] at hg1
        refine ⟨page, hpg, ?_⟩
        rw [← hg1]
        by_cases hid : page.page_id_ = INVALID_PAGE_ID
        · rw [if_pos hid]
        · rw [if_neg hid]
    constructor
    · intro g page1 hg
      obtain ⟨page, hpg, hid⟩ := hget g page1 hg
      rw [hid]
      exact ht.below g page hpg
    · intro g page1 hg hv
      obtain ⟨page, hpg, hid⟩ := hget g page1 hg
      rw [hid] at hv ⊢
      exact ht.owned g page hpg hv
    · exact ht.valid_keys
  | DeletePage p =>
    rcases h.deletePage p with ⟨_, he⟩ |
      ⟨f, page, hp, htp, hpg, hid, ⟨_, he⟩ | ⟨_, b2, he, _, hpages, htable, _, hnext, _⟩⟩
    · simp only [step, he, Option.map_some', Option.some.injEq] at hs
      subst hs
      exact ht
    · simp only [step, he, Option.map_some', Option.some.injEq] at hs
      subst hs
      exact ht
    · simp only [step, he, Option.map_some', Option.some.injEq] at hs
      subst hs
      have hsome : (b.getPage f).isSome = true := by rw [hpg]; rfl
      have hge := h.next_ge
      constructor
      · intro g page1 hg
        rw [getPage_of_set hpages hsome g] at hg
        rw [hnext]
        by_cases hgf : g = f
        · rw [if_pos hgf] at hg
          cases hg
          show (-1 : Int) < b.next_page_id_
          omega
        · rw [if_neg hgf] at hg
          exact ht.below g page1 hg
      · intro g page1 hg hv
        rw [getPage_of_set hpages hsome g] at hg
        by_cases hgf : g = f
        · rw [if_pos hgf] at hg
          cases hg
          exact absurd rfl hv
        · rw [if_neg hgf] at hg
          have hown := ht.owned g page1 hg hv
          have hne : ¬ page1.page_id_ = p := by
            intro hx
            rw [hx, htp] at hown
            cases hown
            exact hgf rfl
          rw [htable, assocFind_assocErase, if_neg hne]
          exact hown
      · rw [htable, assocFind_assocErase]
        by_cases hx : INVALID_PAGE_ID = p
        · rw [if_pos hx]
        · rw [if_neg hx]; exact ht.valid_keys
  | WriteData f bytes =>
    simp only [step, Option.some.injEq] at hs
    subst hs
    unfold WriteData
    cases hpg : b.getPage f with
    | none => exact ht
    | some page => exact ht.of_set hpg rfl rfl rfl rfl

/-- Every sequence of fewer than `2^31` client calls whose `FetchPage` calls ask for page
ids below the counter of `AllocatePage` returns normally and keeps the bookkeeping and
the page ids tight. -/
theorem Tight.run_tight (ops : List PoolOp) :
    ∀ (n : Nat) (b : BufferPoolManager), b.Inv n none → b.Tight →
      (n : Int) + ops.length < 2 ^ 31 → fetchesAllocated b ops = true →
      ∃ b1, b.run ops = some b1 ∧ b1.Inv (n + ops.length) none ∧ b1.Tight := by
  induction ops with
  | nil =>
    intro n b h ht _ _
    exact ⟨b, rfl, by simpa using h, ht⟩
  | cons op rest ih =>
    intro n b h ht hn hf
    have hn1 : (n : Int) + 1 < 2 ^ 31 := by
      simp only [List.length_cons] at hn
      push_cast at hn
      omega
    obtain ⟨b1, hs, hinv1⟩ := h.step_keeps hn1 op
    unfold fetchesAllocated at hf
    rw [hs] at hf
    simp only [Bool.and_eq_true] at hf
    have hop : ∀ p, op = PoolOp.FetchPage p → p < b.next_page_id_ := by
      intro p hp
      subst hp
      simpa using hf.1
    have ht1 := ht.step_tight h hn1 op hop hs
    obtain ⟨b2, hr, hinv2, ht2⟩ := ih (n + 1) b1 hinv1 ht1 (by
      simp only [List.length_cons] at hn
      push_cast at hn ⊢
      omega) hf.2
    refine ⟨b2, ?_, ?_, ht2⟩
    · show (b.step op).bind _ = _
      rw [hs]
      exact hr
    · have : n + (op :: rest).length = n + 1 + rest.length := by
        simp only [List.length_cons]; omega
      rw [this]
      exact hinv2

/-- With the bookkeeping in place and tight page ids, the free frames and the frames in
the range of the page table partition the frame ids. -/
theorem Tight.framePartition {n : Nat} {b : BufferPoolManager} (h : b.Inv n none)
    (ht : b.Tight) : b.FramePartition := by
  intro f
  have hrange : (0 ≤ f ∧ f < (b.pool_size_ : Int)) ↔ (b.getPage f).isSome = true := by
    rw [getPage_isSome_iff, h.len]
  constructor
  · rw [hrange]
    constructor
    · intro hsome
      obtain ⟨page, hpg⟩ := Option.isSome_iff_exists.1 hsome
      by_cases hf : f ∈ b.free_list_
      · exact Or.inl hf
      · right
        have hocc := h.occ f page hpg hf (by simp)
        exact ⟨page.page_id_, ht.owned f page hpg hocc.1⟩
    · intro hx
      rcases hx with hf | ⟨p, hp⟩
      · obtain ⟨_, page, hpg, _⟩ := h.free_spec f hf
        rw [hpg]; rfl
      · obtain ⟨page, hpg, _⟩ := h.table p f hp
        rw [hpg]; rfl
  · rintro ⟨hf, p, hp⟩
    obtain ⟨page, hpg, hid⟩ := h.table p f hp
    obtain ⟨_, page1, hpg1, hid1⟩ := h.free_spec f hf
    rw [hpg] at hpg1
    cases hpg1
    rw [hid] at hid1
    rw [hid1, ht.valid_keys] at hp
    cases hp

/-- With the bookkeeping in place and tight page ids, the page table is a bijection
between resident page ids and the frames that hold them. -/
theorem Tight.tableBijection {n : Nat} {b : BufferPoolManager} (h : b.Inv n none)
    (ht : b.Tight) : b.TableBijection := by
  constructor
  · intro p f hp
    constructor
    · intro hfind
      exact h.table p f hfind
    · rintro ⟨page, hpg, hid⟩
      have := ht.owned f page hpg (by rw [hid]; exact hp)
      rw [hid] at this
      exact this
  · intro f g pf pg hf hg hv heq
    have h1 := ht.owned f pf hf hv
    have h2 := ht.owned g pg hg (by rw [← heq]; exact hv)
    rw [← heq, h1] at h2
    cases h2
    rfl

end BufferPoolManager

section PoolClaims4
open BufferPoolManager

/-- C21: in every state reached from construction by fewer than `2^31` client calls (pool
of fewer than `2^31` frames, replacer with `k ≥ 2`) and for every page id `p`: if `p` is
resident with a pin count above 0, `DeletePage(p)` returns false and the pool is as
before; if `p` is resident with pin count 0 it returns true, the `Remove` of the replacer
does not throw, and afterwards `p` is not in the page table, its frame is on the free list
and holds page id `INVALID_PAGE_ID`, pin count 0, a clear dirty flag and the zeroed buffer,
and the replacer has no entry for the frame; if `p` is invalid or not resident it returns
true and the pool is as before. -/
theorem C21_delete_outcome (pool_size replacer_k : Nat) (disk : List (Int × Nat))
    (ops : List PoolOp) (p : Int) (hk : 2 ≤ replacer_k) (hs : pool_size < 2 ^ 31)
    (hlen : ops.length < 2 ^ 31) :
    ∃ b, (BufferPoolManager.new pool_size replacer_k disk).run ops = some b ∧
      b.DeleteOutcome p := by
  obtain ⟨b, hb, hinv⟩ := reachable_inv pool_size replacer_k disk ops hk hs hlen
  exact ⟨b, hb, hinv.deleteOutcome p⟩

/-- C21 at the pool of three frames in which page 0 is resident in frame 2 with pin count
0, for `DeletePage(0)`: the call returns true, the page table is empty and frame 2 is back
on the free list. -/
theorem C21_delete_outcome_witness :
    (2 : Nat) ≤ 2 ∧ (3 : Nat) < 2 ^ 31 ∧ scenarioUnpinned.length < 2 ^ 31 ∧
    (∃ b, (BufferPoolManager.new 3 2 []).run scenarioUnpinned = some b ∧
      b.DeleteOutcome 0) ∧
    ((BufferPoolManager.new 3 2 []).run scenarioUnpinned).bind
      (fun b => (b.DeletePage 0).map
        (fun x => (x.1, x.2.page_table_, x.2.free_list_))) = some (true, [], [0, 1, 2]) ∧
    ((BufferPoolManager.new 3 2 []).run scenarioUnpinned).bind
      (fun b => (b.DeletePage 0).map
        (fun x => (x.2.getPage 2, x.2.replacer_.status 2))) = some (some emptyPage, none) :=
  ⟨by decide, by decide, by decide,
    C21_delete_outcome 3 2 [] scenarioUnpinned 0 (by decide) (by decide) (by decide),
    by decide!, by decide!⟩

/-- C22 (the claim at a concrete input): pool of 2 frames, `k = 2`. `FetchPage(0)` on the
fresh pool puts page id 0 into frame 1, and `NewPage` then hands out page id 0 again for
frame 0; `emplace` keeps the entry of frame 1. Frame 0 is then neither on the free list
(which is empty) nor in the range of the page table (which only has `0 ↦ 1`), so the free
frames and the occupied frames do not make up the frame set. -/
theorem C22_counterexample :
    (BufferPoolManager.new 2 2 []).run scenarioDuplicate = some duplicateState ∧
    duplicateState.free_list_ = [] ∧ duplicateState.page_table_ = [(0, 1)] ∧
    duplicateState.pool_size_ = 2 ∧
    ¬ duplicateState.FramePartition := by
  have h1 : duplicateState.free_list_ = [] := by decide!
  have h2 : duplicateState.page_table_ = [(0, 1)] := by decide!
  have h3 : duplicateState.pool_size_ = 2 := by decide!
  refine ⟨by decide!, h1, h2, h3, ?_⟩
  intro hpart
  have h0 := ((hpart 0).1).1 ⟨le_refl 0, by rw [h3]; decide⟩
  rcases h0 with hf | ⟨p, hp⟩
  · rw [h1] at hf
    cases hf
  · rw [h2] at hp
    unfold assocFind at hp
    split_ifs at hp
    · cases hp
    · cases hp

/-- C22 as amended: in every state reached from construction by fewer than `2^31` client
calls (pool of fewer than `2^31` frames, replacer with `k ≥ 2`), a frame has page id
`INVALID_PAGE_ID` iff it is on the free list and the free list has no duplicates; and if
every `FetchPage` so far asked for a page id below the counter of `AllocatePage`, the
frames on the free list and the frames in the range of the page table partition the frame
ids `0 .. pool_size - 1`. -/
theorem C22_free_list_exact (pool_size replacer_k : Nat) (disk : List (Int × Nat))
    (ops : List PoolOp) (hk : 2 ≤ replacer_k) (hs : pool_size < 2 ^ 31)
    (hlen : ops.length < 2 ^ 31) :
    ∃ b, (BufferPoolManager.new pool_size replacer_k disk).run ops = some b ∧
      b.InvalidIffFree ∧ b.free_list_.Nodup ∧
      (fetchesAllocated (BufferPoolManager.new pool_size replacer_k disk) ops = true →
        b.FramePartition) := by
  obtain ⟨b, hb, hinv⟩ := reachable_inv pool_size replacer_k disk ops hk hs hlen
  refine ⟨b, hb, hinv.invalidIffFree, hinv.free_nodup, ?_⟩
  intro hf
  obtain ⟨b1, hb1, hinv1, ht1⟩ := Tight.run_tight ops 0 _
    (Inv.of_new_pool pool_size replacer_k disk hk hs)
    (Tight.of_new_tight pool_size replacer_k disk) (by push_cast; omega) hf
  rw [hb] at hb1
  cases hb1
  exact ht1.framePartition hinv1

/-- C22 as amended at the pool of three frames after a new page 0, `UnpinPage(0, false)`
and `FetchPage(0)`: the fetch asks for a page id that has been handed out. -/
theorem C22_free_list_exact_witness :
    (2 : Nat) ≤ 2 ∧ (3 : Nat) < 2 ^ 31 ∧ scenarioRefetch.length < 2 ^ 31 ∧
    fetchesAllocated (BufferPoolManager.new 3 2 []) scenarioRefetch = true ∧
    ∃ b, (BufferPoolManager.new 3 2 []).run scenarioRefetch = some b ∧
      b.InvalidIffFree ∧ b.free_list_.Nodup ∧
      (fetchesAllocated (BufferPoolManager.new 3 2 []) scenarioRefetch = true →
        b.FramePartition) :=
  ⟨by decide, by decide, by decide, by decide!,
    C22_free_list_exact 3 2 [] scenarioRefetch (by decide) (by decide) (by decide)⟩

/-- C23 (the claim at a concrete input): pool of 2 frames, `k = 2`, `FetchPage(0)` and then
`NewPage`, which hands out page id 0. Frames 1 and 0 then both hold page id 0 with pin
count 1, and the page table gives frame 1 for page 0 although frame 0 holds it too: the
page table is not a bijection. -/
theorem C23_counterexample :
    (BufferPoolManager.new 2 2 []).run scenarioDuplicate = some duplicateState ∧
    duplicateState.getPage 0 =
      some { page_id_ := 0, pin_count_ := 1, is_dirty_ := false, data_ := 0 } ∧
    duplicateState.getPage 1 =
      some { page_id_ := 0, pin_count_ := 1, is_dirty_ := false, data_ := 0 } ∧
    assocFind duplicateState.page_table_ 0 = some 1 ∧
    ¬ duplicateState.TableBijection := by
  have h0 : duplicateState.getPage 0 =
      some { page_id_ := 0, pin_count_ := 1, is_dirty_ := false, data_ := 0 } := by decide!
  have h1 : duplicateState.getPage 1 =
      some { page_id_ := 0, pin_count_ := 1, is_dirty_ := false, data_ := 0 } := by decide!
  refine ⟨by decide!, h0, h1, by decide!, ?_⟩
  intro hbij
  have := hbij.2 0 1 _ _ h0 h1 (by decide) rfl
  exact absurd this (by decide)

/-- C23 as amended: in every state reached from construction by fewer than `2^31` calls of
`NewPage`, `FetchPage`, `UnpinPage`, `FlushPage`, `FlushAllPages` and `DeletePage` and
stores into page buffers, in which every `FetchPage` asked for a page id below the counter
of `AllocatePage` at the time of the call (pool of fewer than `2^31` frames, replacer with
`k ≥ 2`), the page table is a bijection between resident page ids and occupied frames: it
gives frame `f` for a valid page id `p` iff frame `f` holds `p`, and no two frames hold the
same valid page id. -/
theorem C23_table_bijection (pool_size replacer_k : Nat) (disk : List (Int × Nat))
    (ops : List PoolOp) (hk : 2 ≤ replacer_k) (hs : pool_size < 2 ^ 31)
    (hlen : ops.length < 2 ^ 31)
    (hf : fetchesAllocated (BufferPoolManager.new pool_size replacer_k disk) ops = true) :
    ∃ b, (BufferPoolManager.new pool_size replacer_k disk).run ops = some b ∧
      b.TableBijection := by
  obtain ⟨b1, hb1, hinv1, ht1⟩ := Tight.run_tight ops 0 _
    (Inv.of_new_pool pool_size replacer_k disk hk hs)
    (Tight.of_new_tight pool_size replacer_k disk) (by push_cast; omega) hf
  exact ⟨b1, hb1, ht1.tableBijection hinv1⟩

/-- C23 as amended at the pool of three frames after a new page 0, `UnpinPage(0, false)`
and `FetchPage(0)`. -/
theorem C23_table_bijection_witness :
    (2 : Nat) ≤ 2 ∧ (3 : Nat) < 2 ^ 31 ∧ scenarioRefetch.length < 2 ^ 31 ∧
    fetchesAllocated (BufferPoolManager.new 3 2 []) scenarioRefetch = true ∧
    ∃ b, (BufferPoolManager.new 3 2 []).run scenarioRefetch = some b ∧
      b.TableBijection :=
  ⟨by decide, by decide, by decide, by decide!,
    C23_table_bijection 3 2 [] scenarioRefetch (by decide) (by decide) (by decide)
      (by decide!)⟩

/-- C24 (the code at a failing input): pool of 1 frame, `k = 2`. `NewPage` on the fresh
pool takes the frame from the free list and schedules nothing. `FetchPage(0)` on the fresh
pool takes the frame from the free list as well, yet it schedules a write, of page id
`INVALID_PAGE_ID` (-1), before the read of page 0: line 96 calls `WritePageToDisk` for
every acquired frame. And after a new page 0 was unpinned clean, `FetchPage(5)` evicts its
frame and schedules a write of page 0 although the frame is not dirty. -/
theorem C24_fetch_writes_every_acquired_frame :
    ((BufferPoolManager.new 1 2 []).NewPage).map (fun x => (x.1, x.2.disk_log_)) =
      some (some (0, 0), []) ∧
    ((BufferPoolManager.new 1 2 []).FetchPage 0).map (fun x => (x.1, x.2.disk_log_)) =
      some (some 0, [{ is_write_ := true, page_id_ := -1, data_ := 0 },
                     { is_write_ := false, page_id_ := 0, data_ := 0 }]) ∧
    ((BufferPoolManager.new 1 2 []).run [PoolOp.NewPage, PoolOp.UnpinPage 0 false]).map
      (fun b => (b.free_list_, (b.getPage 0).map (fun pg => (pg.page_id_, pg.is_dirty_)),
        b.disk_log_)) = some ([], some (0, false), []) ∧
    ((BufferPoolManager.new 1 2 []).run [PoolOp.NewPage, PoolOp.UnpinPage 0 false]).bind
      (fun b => (b.FetchPage 5).map (fun x => (x.1, x.2.disk_log_))) =
      some (some 0, [{ is_write_ := true, page_id_ := 0, data_ := 0 },
                     { is_write_ := false, page_id_ := 5, data_ := 0 }]) := by
  decide!

end PoolClaims4

/-! ## Disk scheduler: the worker loop -/

namespace DiskScheduler

theorem foldl_diskOp_completed (reqs : List DiskScheduler.DiskRequest) :
    ∀ s : DiskScheduler, (reqs.foldl diskOp s).completed_ = s.completed_ ∧
      (reqs.foldl diskOp s).request_queue_ = s.request_queue_ := by
  induction reqs with
  | nil => intro s; exact ⟨rfl, rfl⟩
  | cons r rest ih =>
    intro s
    rw [List.foldl_cons]
    obtain ⟨h1, h2⟩ := ih (diskOp s r)
    rw [h1, h2]
    unfold diskOp diskWritePage diskReadPage
    split_ifs <;> exact ⟨rfl, rfl⟩

/-- The disk operations depend on the disk and the buffers only. -/
theorem foldl_diskOp_congr (reqs : List DiskScheduler.DiskRequest) :
    ∀ s t : DiskScheduler, s.disk_ = t.disk_ → s.buffers_ = t.buffers_ →
      (reqs.foldl diskOp s).disk_ = (reqs.foldl diskOp t).disk_ ∧
      (reqs.foldl diskOp s).buffers_ = (reqs.foldl diskOp t).buffers_ := by
  induction reqs with
  | nil => intro s t h1 h2; exact ⟨h1, h2⟩
  | cons r rest ih =>
    intro s t h1 h2
    rw [List.foldl_cons, List.foldl_cons]
    apply ih
    · unfold diskOp diskWritePage diskReadPage
      split_ifs
      · show assocPut s.disk_ _ _ = assocPut t.disk_ _ _
        rw [h1, h2]
      · exact h1
    · unfold diskOp diskWritePage diskReadPage
      split_ifs
      · exact h2
      · show assocPut s.buffers_ _ _ = assocPut t.buffers_ _ _
        rw [h1, h2]

/-- The worker loop on requests with unset promises followed by the sentinel. -/
theorem workerLoop_spec (reqs : List DiskScheduler.DiskRequest)
    (rest : List (Option DiskScheduler.DiskRequest)) :
    ∀ s : DiskScheduler, (∀ r ∈ reqs, r.callback_ = none) →
      (workerLoop (reqs.map some ++ none :: rest) s).1 = WorkerStop.exited ∧
      (workerLoop (reqs.map some ++ none :: rest) s).2.request_queue_ = rest ∧
      (workerLoop (reqs.map some ++ none :: rest) s).2.disk_ = (reqs.foldl diskOp s).disk_ ∧
      (workerLoop (reqs.map some ++ none :: rest) s).2.buffers_ =
        (reqs.foldl diskOp s).buffers_ ∧
      (workerLoop (reqs.map some ++ none :: rest) s).2.completed_ =
        s.completed_ ++ reqs.map (fun r => { r with callback_ := some true }) := by
  induction reqs with
  | nil =>
    intro s _
    simp [workerLoop]
  | cons r tail ih =>
    intro s hall
    have hr : r.callback_ = none := hall r (List.mem_cons_self _ _)
    have htail : ∀ x ∈ tail, x.callback_ = none :=
      fun x hx => hall x (List.mem_cons_of_mem _ hx)
    simp only [List.map_cons, List.cons_append, List.foldl_cons]
    rw [workerLoop]
    simp only [hr]
    obtain ⟨h1, h2, h3, h4, h5⟩ := ih
      { (if r.is_write_ then s.diskWritePage r.page_id_ r.data_
          else s.diskReadPage r.page_id_ r.data_) with
        completed_ := (if r.is_write_ then s.diskWritePage r.page_id_ r.data_
          else s.diskReadPage r.page_id_ r.data_).completed_ ++
            [{ r with callback_ := some true }] } htail
    have hc := foldl_diskOp_congr tail
      { (if r.is_write_ then s.diskWritePage r.page_id_ r.data_
          else s.diskReadPage r.page_id_ r.data_) with
        completed_ := (if r.is_write_ then s.diskWritePage r.page_id_ r.data_
          else s.diskReadPage r.page_id_ r.data_).completed_ ++
            [{ r with callback_ := some true }] } (diskOp s r) rfl rfl
    refine ⟨h1, h2, h3.trans hc.1, h4.trans hc.2, ?_⟩
    rw [h5]
    have : (if r.is_write_ then s.diskWritePage r.page_id_ r.data_
          else s.diskReadPage r.page_id_ r.data_).completed_ = s.completed_ := by
      unfold diskWritePage diskReadPage
      split_ifs <;> rfl
    simp [this]

/-- Requests that do not write page `p` leave the content of page `p` on the disk as it
is. -/
theorem diskRead_foldl_other (mid : List DiskScheduler.DiskRequest) (p : Int) :
    ∀ s : DiskScheduler, (∀ m ∈ mid, m.is_write_ = true → m.page_id_ ≠ p) →
      diskRead (mid.foldl diskOp s).disk_ p = diskRead s.disk_ p := by
  induction mid with
  | nil => intro s _; rfl
  | cons m tail ih =>
    intro s hall
    rw [List.foldl_cons]
    rw [ih (diskOp s m) (fun x hx => hall x (List.mem_cons_of_mem _ hx))]
    unfold diskOp diskWritePage diskReadPage
    by_cases hw : m.is_write_ = true
    · rw [if_pos hw]
      show diskRead (assocPut s.disk_ _ _) p = _
      rw [diskRead_assocPut, if_neg]
      intro hx
      exact hall m (List.mem_cons_self _ _) hw hx.symm
    · rw [if_neg hw]

theorem bufferRead_assocPut (buffers : List (Int × Nat)) (k q : Int) (v : Nat) :
    bufferRead (assocPut buffers k v) q = if q = k then v else bufferRead buffers q := by
  unfold bufferRead
  rw [assocFind_assocPut]
  by_cases h : q = k <;> simp [h]

/-- The outcome of the worker on a queue of requests with unset promises followed by the
sentinel. -/
theorem workerOutcome_of_unset (s : DiskScheduler) (reqs : List DiskScheduler.DiskRequest)
    (rest : List (Option DiskScheduler.DiskRequest))
    (hq : s.request_queue_ = reqs.map some ++ none :: rest)
    (hunset : ∀ r ∈ reqs, r.callback_ = none) : s.WorkerOutcome reqs rest := by
  unfold WorkerOutcome StartWorkerThread
  rw [hq]
  obtain ⟨h1, h2, h3, h4, h5⟩ := workerLoop_spec reqs rest s hunset
  refine ⟨h1, h2, h3, h4, h5, ?_⟩
  intro pre w mid r hreqs hw hr hpage hmid
  rw [h4, hreqs]
  rw [List.foldl_append, List.foldl_cons, List.foldl_append, List.foldl_cons, List.foldl_nil]
  have hdisk := diskRead_foldl_other mid w.page_id_ (diskOp (pre.foldl diskOp s) w) hmid
  have hrd : diskOp (mid.foldl diskOp (diskOp (pre.foldl diskOp s) w)) r =
      (mid.foldl diskOp (diskOp (pre.foldl diskOp s) w)).diskReadPage r.page_id_ r.data_ := by
    unfold diskOp
    rw [if_neg (by rw [hr]; simp)]
  rw [hrd]
  show bufferRead (assocPut _ _ _) _ = _
  rw [bufferRead_assocPut, if_pos rfl, hpage, hdisk]
  unfold diskOp
  rw [if_pos hw]
  show diskRead (assocPut _ _ _) _ = _
  rw [diskRead_assocPut, if_pos rfl]

end DiskScheduler

section SchedulerClaims
open DiskScheduler

/-- C25: in the sequential model of the worker loop over a disk map, for a queue that holds
requests `r1 .. rn` whose promises are unset, then the end-of-stream sentinel, then
anything: the worker performs the disk operation of each `ri` in queue order (`WritePage`
for a write, `ReadPage` otherwise), completes each `ri` with `true`, and stops at the
sentinel with everything behind it still in the queue; and a read of page `p` that is the
last request observes the bytes of an earlier write of `p` when no other write of `p` lies
between the two. -/
theorem C25_worker_fifo (s : DiskScheduler) (reqs : List DiskScheduler.DiskRequest)
    (rest : List (Option DiskScheduler.DiskRequest))
    (hq : s.request_queue_ = reqs.map some ++ none :: rest)
    (hunset : ∀ r ∈ reqs, r.callback_ = none) : s.WorkerOutcome reqs rest :=
  workerOutcome_of_unset s reqs rest hq hunset

/-- C25 at a queue with a write of page 3 (bytes 42), a read of page 3, the sentinel and a
request behind it: the read buffer holds 42 afterwards and the last request is still
queued. -/
theorem C25_worker_fifo_witness :
    scenarioQueue.WorkerOutcome
      [{ is_write_ := true, data_ := 10, page_id_ := 3, callback_ := none },
       { is_write_ := false, data_ := 20, page_id_ := 3, callback_ := none }]
      [some { is_write_ := true, data_ := 20, page_id_ := 4, callback_ := none }] ∧
    bufferRead scenarioQueue.StartWorkerThread.2.buffers_ 20 = 42 ∧
    scenarioQueue.StartWorkerThread.2.disk_ = [(3, 42)] :=
  ⟨C25_worker_fifo scenarioQueue _ _ rfl (by decide), by decide!, by decide!⟩

/-- C26 (the code at a failing input): `ReadPage` for page 3 with its buffer at address 10,
on a scheduler with an empty queue. The request is queued with a promise that already
holds `true` (line 69), so when the worker has read the page and calls `set_value(true)`
(line 53) the promise is already satisfied and `set_value` throws; the request is not
among the completed ones and the sentinel behind it is never received. The request that
`WritePageToDisk` queues has an unset promise and is completed by the worker. -/
theorem C26_read_page_promise_already_set :
    ((DiskScheduler.new [(3, 7)] []).ReadPage 3 10).request_queue_ =
      [some { is_write_ := false, data_ := 10, page_id_ := 3, callback_ := some true }] ∧
    ((DiskScheduler.new [(3, 7)] []).ReadPage 3 10).putSentinel.StartWorkerThread =
      (WorkerStop.future_error,
        { request_queue_ := [none], disk_ := [(3, 7)], buffers_ := [(10, 7)],
          completed_ := [] }) ∧
    ((DiskScheduler.new [] [(10, 7)]).WritePageToDisk 3 10).putSentinel.StartWorkerThread =
      (WorkerStop.exited,
        { request_queue_ := [], disk_ := [(3, 7)], buffers_ := [(10, 7)],
          completed_ :=
            [{ is_write_ := true, data_ := 10, page_id_ := 3, callback_ := some true }] }) := by
  decide!

end SchedulerClaims

namespace DiskExtendibleHashTable
variable {K V : Type} [DecidableEq K]

/-- One call of `Insert` is `insertCall` followed by the recursive call, if there is one. -/
theorem Insert_succ (hash_fn_ : K → Nat) (fuel : Nat) (ht : DiskExtendibleHashTable K V)
    (key : K) (value : V) :
    Insert hash_fn_ (fuel + 1) ht key value =
      (insertCall hash_fn_ ht key value).bind fun x =>
        match x with
        | Sum.inl r => some r
        | Sum.inr ht1 => Insert hash_fn_ fuel ht1 key value := by
  rw [Insert]
  unfold insertCall
  cases GetValue hash_fn_ ht key with
  | none => rfl
  | some found =>
    simp only [Option.some_bind]
    by_cases hf : found.isSome = true
    · rw [if_pos hf, if_pos hf]; rfl
    rw [if_neg hf, if_neg hf]
    cases ht.bpm_.FetchHeader ht.header_page_id_ with
    | none => rfl
    | some hp =>
      simp only [Option.some_bind]
      cases hp.GetDirectoryPageId (hp.HashToDirectoryIndex (Hash hash_fn_ key)) with
      | none => rfl
      | some d =>
        simp only [Option.some_bind]
        by_cases hd : d = INVALID_PAGE_ID
        · rw [if_pos hd, if_pos hd]
          cases InsertToNewDirectory ht hp (hp.HashToDirectoryIndex (Hash hash_fn_ key))
            (Hash hash_fn_ key) key value <;> rfl
        rw [if_neg hd, if_neg hd]
        cases ht.bpm_.FetchDirectory d with
        | none => rfl
        | some dp =>
          simp only [Option.some_bind]
          cases dp.GetBucketPageId (dp.HashToBucketIndex (Hash hash_fn_ key)) with
          | none => rfl
          | some b =>
            simp only [Option.some_bind]
            by_cases hb : b = INVALID_PAGE_ID
            · rw [if_pos hb, if_pos hb]
              cases InsertToNewBucket ht d dp (dp.HashToBucketIndex (Hash hash_fn_ key))
                key value <;> rfl
            rw [if_neg hb, if_neg hb]
            cases ht.bpm_.FetchBucket b with
            | none => rfl
            | some bp =>
              simp only [Option.some_bind]
              by_cases hins : (bp.Insert key value).1 = true
              · rw [if_pos hins, if_pos hins]; rfl
              rw [if_neg hins, if_neg hins]
              cases dp.GetLocalDepth (dp.HashToBucketIndex (Hash hash_fn_ key)) with
              | none => rfl
              | some ld =>
                simp only [Option.some_bind]
                by_cases hmax : ld = dp.global_depth_ ∧ dp.global_depth_ ≥ dp.max_depth_
                · rw [if_pos hmax, if_pos hmax]; rfl
                rw [if_neg hmax, if_neg hmax]
                cases (if ld = dp.global_depth_ then
                    cloneLower (1 <<< dp.global_depth_)
                      ((List.range (1 <<< (dp.global_depth_ + 1))).drop (1 <<< dp.global_depth_))
                      dp.IncrGlobalDepth
                  else some dp) with
                | none => rfl
                | some d1 =>
                  simp only [Option.some_bind]
                  cases d1.IncrLocalDepth (dp.HashToBucketIndex (Hash hash_fn_ key)) with
                  | none => rfl
                  | some d2 =>
                    simp only [Option.some_bind]
                    cases d2.IncrLocalDepth
                      (dp.HashToBucketIndex (Hash hash_fn_ key) + 1 <<< dp.global_depth_) with
                    | none => rfl
                    | some d3 =>
                      simp only [Option.some_bind]
                      cases SplitBucket hash_fn_ ht d3 bp
                        (dp.HashToBucketIndex (Hash hash_fn_ key)) with
                      | none => rfl
                      | some sp =>
                        simp only [Option.some_bind]
                        by_cases hok : sp.ok = true
                        · rw [if_pos hok, if_pos hok]; rfl
                        · rw [if_neg hok, if_neg hok]; rfl

end DiskExtendibleHashTable

/-! ## Extendible hash index: well-formed tables -/

namespace PageStore
variable {K V : Type}

theorem Evolves.same (s : PageStore K V) (c : Int) : Evolves s s c :=
  fun _ p h => ⟨p, h, rfl, fun _ _ => rfl⟩

theorem Evolves.step {s s1 s2 : PageStore K V} {c : Int} (h1 : Evolves s s1 c)
    (h2 : Evolves s1 s2 c) : Evolves s s2 c := by
  intro id p hp
  obtain ⟨p1, hp1, hk1, he1⟩ := h1 id p hp
  obtain ⟨p2, hp2, hk2, he2⟩ := h2 id p1 hp1
  refine ⟨p2, hp2, hk2.trans hk1, ?_⟩
  intro hk hne
  rw [he2 (by rw [hk1]; exact hk) hne, he1 hk hne]

theorem Evolves.append (s : PageStore K V) (p : PageData K V) (c : Int) :
    Evolves s (s ++ [p]) c :=
  fun _ q h => ⟨q, Fetch_append p h, rfl, fun _ _ => rfl⟩

theorem Evolves.write {s : PageStore K V} {id : Int} {q : PageData K V} (p : PageData K V)
    (c : Int) (h : s.Fetch id = some q) (hk : kindOf p = kindOf q)
    (hc : kindOf q ≠ 2 → id = c) : Evolves s (s.Write id p) c := by
  intro id1 p1 hp1
  by_cases he : id1 = id
  · subst he
    rw [h] at hp1
    cases hp1
    have hl := Fetch_lt h
    exact ⟨p, Fetch_Write_same p hl.1 hl.2, hk, fun h1 h2 => absurd (hc h1) h2⟩
  · refine ⟨p1, ?_, rfl, fun _ _ => rfl⟩
    rw [Fetch_Write_ne p (fun x => he x.symm)]
    exact hp1

theorem kindOf_bucket {p : PageData K V} (h : kindOf p = 2) :
    ∃ b, p = PageData.bucket b := by
  cases p with
  | header _ => cases h
  | directory _ => cases h
  | bucket b => exact ⟨b, rfl⟩

theorem kindOf_header {p : PageData K V} (h : kindOf p = 0) :
    ∃ b, p = PageData.header b := by
  cases p with
  | header b => exact ⟨b, rfl⟩
  | directory _ => cases h
  | bucket _ => cases h

theorem kindOf_directory {p : PageData K V} (h : kindOf p = 1) :
    ∃ b, p = PageData.directory b := by
  cases p with
  | header _ => cases h
  | directory b => exact ⟨b, rfl⟩
  | bucket _ => cases h

theorem Evolves.isBucket {s s1 : PageStore K V} {c : Int} (h : Evolves s s1 c) {q : Int}
    (hq : (s.FetchBucket q).isSome = true) : (s1.FetchBucket q).isSome = true := by
  obtain ⟨b, hb⟩ := Option.isSome_iff_exists.1 hq
  obtain ⟨p1, hp1, hk, _⟩ := h q _ (FetchBucket_iff.1 hb)
  obtain ⟨b1, rfl⟩ := kindOf_bucket hk
  rw [FetchBucket_iff.2 hp1]
  rfl

theorem Evolves.directory {s s1 : PageStore K V} {c : Int} (h : Evolves s s1 c) {q : Int}
    {d : ExtendibleHTableDirectoryPage} (hd : s.FetchDirectory q = some d) (hq : q ≠ c) :
    s1.FetchDirectory q = some d := by
  obtain ⟨p1, hp1, _, he⟩ := h q _ (FetchDirectory_iff.1 hd)
  rw [he (by simp [kindOf]) hq] at hp1
  exact FetchDirectory_iff.2 hp1

theorem Evolves.header {s s1 : PageStore K V} {c : Int} (h : Evolves s s1 c) {q : Int}
    {hp : ExtendibleHTableHeaderPage} (hd : s.FetchHeader q = some hp) (hq : q ≠ c) :
    s1.FetchHeader q = some hp := by
  obtain ⟨p1, hp1, _, he⟩ := h q _ (FetchHeader_iff.1 hd)
  rw [he (by simp [kindOf]) hq] at hp1
  exact FetchHeader_iff.2 hp1

/-- A write of a page of the same kind over a page of a later store. -/
theorem Evolves.write_at {s s1 : PageStore K V} {c : Int} (h : Evolves s s1 c) {id : Int}
    {q : PageData K V} (p : PageData K V) (hq : s1.Fetch id = some q)
    (hk : kindOf p = kindOf q) (hc : kindOf q ≠ 2 → id = c) : Evolves s (s1.Write id p) c :=
  h.step (Evolves.write p c hq hk hc)

theorem Evolves.fetch_kind {s s1 : PageStore K V} {c : Int} (h : Evolves s s1 c) {q : Int}
    {p : PageData K V} (hp : s.Fetch q = some p) :
    ∃ p1, s1.Fetch q = some p1 ∧ kindOf p1 = kindOf p := by
  obtain ⟨p1, hp1, hk, _⟩ := h q p hp
  exact ⟨p1, hp1, hk⟩

end PageStore

theorem arrSet_eq_some {α : Type} {a a1 : List α} {i : Nat} {v : α}
    (h : arrSet a i v = some a1) : i < a.length ∧ a1 = a.set i v := by
  unfold arrSet at h
  split_ifs at h with hlt
  cases h
  exact ⟨hlt, rfl⟩

theorem arrSet_of_lt {α : Type} (a : List α) {i : Nat} (v : α) (h : i < a.length) :
    arrSet a i v = some (a.set i v) := by
  unfold arrSet
  rw [if_pos h]

theorem mem_drop_range (n k j : Nat) : j ∈ (List.range n).drop k ↔ k ≤ j ∧ j < n := by
  rw [List.mem_iff_getElem?]
  constructor
  · rintro ⟨i, hi⟩
    rw [List.getElem?_drop] at hi
    obtain ⟨hlt, heq⟩ := List.getElem?_eq_some_iff.1 hi
    rw [List.getElem_range] at heq
    rw [List.length_range] at hlt
    omega
  · rintro ⟨h1, h2⟩
    refine ⟨j - k, ?_⟩
    rw [List.getElem?_drop]
    have : k + (j - k) = j := by omega
    rw [this, List.getElem?_range h2]

namespace ExtendibleHTableDirectoryPage

theorem HashToBucketIndex_lt (d : ExtendibleHTableDirectoryPage) (hash : Nat) :
    d.HashToBucketIndex hash < 2 ^ d.global_depth_ := by
  unfold HashToBucketIndex
  rw [Nat.one_shiftLeft, Nat.and_pow_two_sub_one_eq_mod]
  exact Nat.mod_lt _ (Nat.pos_pow_of_pos _ (by decide))

theorem HashToBucketIndex_eq (d : ExtendibleHTableDirectoryPage) (hash : Nat) :
    d.HashToBucketIndex hash = hash % 2 ^ d.global_depth_ := by
  unfold HashToBucketIndex
  rw [Nat.one_shiftLeft, Nat.and_pow_two_sub_one_eq_mod]

theorem SetLocalDepth_eq {d d1 : ExtendibleHTableDirectoryPage} {i v : Nat}
    (h : d.SetLocalDepth i v = some d1) :
    i < d.local_depths_.length ∧ d1 = { d with local_depths_ := d.local_depths_.set i v } := by
  unfold SetLocalDepth at h
  obtain ⟨a, ha, rfl⟩ := Option.map_eq_some'.1 h
  obtain ⟨hlt, rfl⟩ := arrSet_eq_some ha
  exact ⟨hlt, rfl⟩

theorem SetBucketPageId_eq {d d1 : ExtendibleHTableDirectoryPage} {i : Nat} {p : Int}
    (h : d.SetBucketPageId i p = some d1) :
    i < d.bucket_page_ids_.length ∧
      d1 = { d with bucket_page_ids_ := d.bucket_page_ids_.set i p } := by
  unfold SetBucketPageId at h
  obtain ⟨a, ha, rfl⟩ := Option.map_eq_some'.1 h
  obtain ⟨hlt, rfl⟩ := arrSet_eq_some ha
  exact ⟨hlt, rfl⟩

theorem SetLocalDepth_of_lt (d : ExtendibleHTableDirectoryPage) {i : Nat} (v : Nat)
    (h : i < d.local_depths_.length) :
    d.SetLocalDepth i v = some { d with local_depths_ := d.local_depths_.set i v } := by
  unfold SetLocalDepth
  rw [arrSet_of_lt _ _ h]
  rfl

theorem SetBucketPageId_of_lt (d : ExtendibleHTableDirectoryPage) {i : Nat} (p : Int)
    (h : i < d.bucket_page_ids_.length) :
    d.SetBucketPageId i p = some { d with bucket_page_ids_ := d.bucket_page_ids_.set i p } := by
  unfold SetBucketPageId
  rw [arrSet_of_lt _ _ h]
  rfl

theorem IncrLocalDepth_eq {d d1 : ExtendibleHTableDirectoryPage} {i : Nat}
    (h : d.IncrLocalDepth i = some d1) :
    ∃ v, d.local_depths_[i]? = some v ∧
      d1 = { d with local_depths_ := d.local_depths_.set i (v + 1) } := by
  unfold IncrLocalDepth at h
  obtain ⟨v, hv, h1⟩ := Option.bind_eq_some.1 h
  exact ⟨v, hv, (SetLocalDepth_eq h1).2⟩

theorem DecrLocalDepth_eq {d d1 : ExtendibleHTableDirectoryPage} {i : Nat}
    (h : d.DecrLocalDepth i = some d1) :
    ∃ v, d.local_depths_[i]? = some v ∧
      d1 = { d with local_depths_ := d.local_depths_.set i (v - 1) } := by
  unfold DecrLocalDepth at h
  obtain ⟨v, hv, h1⟩ := Option.bind_eq_some.1 h
  exact ⟨v, hv, (SetLocalDepth_eq h1).2⟩

theorem IncrLocalDepth_of_lt (d : ExtendibleHTableDirectoryPage) {i : Nat}
    (h : i < d.local_depths_.length) : ∃ d1, d.IncrLocalDepth i = some d1 := by
  unfold IncrLocalDepth GetLocalDepth arrGet
  rw [List.getElem?_eq_getElem h]
  exact ⟨_, SetLocalDepth_of_lt d _ h⟩

/-- A store into the local depths keeps the directory sound if the value stored in an
active slot is at most the global depth. -/
theorem Sound.set_ld {d : ExtendibleHTableDirectoryPage} {D : Nat} (h : d.Sound D)
    (i v : Nat) (hv : i < 2 ^ d.global_depth_ → v ≤ d.global_depth_) :
    Sound { d with local_depths_ := d.local_depths_.set i v } D := by
  constructor
  · exact h.max
  · exact h.gd_le
  · show (d.local_depths_.set i v).length = _
    rw [List.length_set]; exact h.len_ld
  · exact h.len_pid
  · intro j ld hj hld
    have hld1 : (d.local_depths_.set i v)[j]? = some ld := hld
    rw [List.getElem?_set] at hld1
    by_cases hij : i = j
    · rw [if_pos hij] at hld1
      split_ifs at hld1
      cases hld1
      exact hv (by rw [hij]; exact hj)
    · rw [if_neg hij] at hld1
      exact h.ld_le j ld hj hld1

theorem Sound.set_pid {d : ExtendibleHTableDirectoryPage} {D : Nat} (h : d.Sound D)
    (i : Nat) (p : Int) :
    Sound { d with bucket_page_ids_ := d.bucket_page_ids_.set i p } D := by
  constructor
  · exact h.max
  · exact h.gd_le
  · exact h.len_ld
  · show (d.bucket_page_ids_.set i p).length = _
    rw [List.length_set]; exact h.len_pid
  · exact h.ld_le

theorem PidsIn.put_pid {d : ExtendibleHTableDirectoryPage} {ok : Int → Prop}
    (h : d.PidsIn ok) (i : Nat) (p : Int) (hp : p = INVALID_PAGE_ID ∨ ok p) :
    PidsIn { d with bucket_page_ids_ := d.bucket_page_ids_.set i p } ok := by
  intro j q hj hq
  have hq1 : (d.bucket_page_ids_.set i p)[j]? = some q := hq
  rw [List.getElem?_set] at hq1
  by_cases hij : i = j
  · rw [if_pos hij] at hq1
    split_ifs at hq1
    cases hq1
    exact hp
  · rw [if_neg hij] at hq1
    exact h j q hj hq1

theorem PidsIn.put_ld {d : ExtendibleHTableDirectoryPage} {ok : Int → Prop}
    (h : d.PidsIn ok) (i v : Nat) :
    PidsIn { d with local_depths_ := d.local_depths_.set i v } ok :=
  fun j q hj hq => h j q hj hq

theorem PidsIn.weaken {d : ExtendibleHTableDirectoryPage} {ok ok1 : Int → Prop}
    (h : d.PidsIn ok) (hm : ∀ p, ok p → ok1 p) : d.PidsIn ok1 := by
  intro j q hj hq
  rcases h j q hj hq with h1 | h1
  · exact Or.inl h1
  · exact Or.inr (hm q h1)

end ExtendibleHTableDirectoryPage

namespace DiskExtendibleHashTable
open ExtendibleHTableDirectoryPage

/-- The directory-doubling loop over indices of the upper half: every index of the list
receives the local depth and page id of the slot `h` below it, the other slots keep
theirs. -/
theorem cloneLower_spec (h : Nat) : ∀ (l : List Nat) (d : ExtendibleHTableDirectoryPage),
    (∀ i ∈ l, h ≤ i ∧ i < 2 * h) → 2 * h ≤ d.local_depths_.length →
    2 * h ≤ d.bucket_page_ids_.length →
    ∃ d1, cloneLower h l d = some d1 ∧ d1.global_depth_ = d.global_depth_ ∧
      d1.max_depth_ = d.max_depth_ ∧
      d1.local_depths_.length = d.local_depths_.length ∧
      d1.bucket_page_ids_.length = d.bucket_page_ids_.length ∧
      (∀ j, d1.local_depths_[j]? =
        if j ∈ l then d.local_depths_[j - h]? else d.local_depths_[j]?) ∧
      (∀ j, d1.bucket_page_ids_[j]? =
        if j ∈ l then d.bucket_page_ids_[j - h]? else d.bucket_page_ids_[j]?) := by
  intro l
  induction l with
  | nil =>
    intro d _ _ _
    exact ⟨d, rfl, rfl, rfl, rfl, rfl, fun j => by simp, fun j => by simp⟩
  | cons i rest ih =>
    intro d hl hld hpid
    have hi := hl i (List.mem_cons_self _ _)
    have h1 : i - h < d.bucket_page_ids_.length := by omega
    have h2 : i - h < d.local_depths_.length := by omega
    have h3 : i < d.bucket_page_ids_.length := by omega
    have h4 : i < d.local_depths_.length := by omega
    obtain ⟨d1, hd1, hgd, hmax, hlen1, hlen2, hld1, hpid1⟩ := ih
      { d with bucket_page_ids_ := d.bucket_page_ids_.set i (d.bucket_page_ids_[i - h]),
               local_depths_ := d.local_depths_.set i (d.local_depths_[i - h]) }
      (fun j hj => hl j (List.mem_cons_of_mem _ hj))
      (by show 2 * h ≤ (d.local_depths_.set i _).length; rw [List.length_set]; exact hld)
      (by show 2 * h ≤ (d.bucket_page_ids_.set i _).length; rw [List.length_set]; exact hpid)
    refine ⟨d1, ?_, hgd, hmax, ?_, ?_, ?_, ?_⟩
    · rw [cloneLower]
      simp only [GetBucketPageId, GetLocalDepth, arrGet, List.getElem?_eq_getElem h1,
        List.getElem?_eq_getElem h2, Option.some_bind]
      rw [SetBucketPageId_of_lt d _ h3]
      simp only [Option.some_bind]
      rw [SetLocalDepth_of_lt _ _ (by exact h4)]
      simp only [Option.some_bind]
      exact hd1
    · rw [hlen1]
      show (d.local_depths_.set i _).length = _
      rw [List.length_set]
    · rw [hlen2]
      show (d.bucket_page_ids_.set i _).length = _
      rw [List.length_set]
    · intro j
      rw [hld1 j]
      show (if j ∈ rest then (d.local_depths_.set i _)[j - h]? else
        (d.local_depths_.set i _)[j]?) = _
      by_cases hj : j ∈ rest
      · have hjr := hl j (List.mem_cons_of_mem _ hj)
        rw [if_pos hj, if_pos (List.mem_cons_of_mem _ hj),
          List.getElem?_set_ne (by omega)]
      · rw [if_neg hj]
        by_cases hji : j = i
        · subst hji
          rw [if_pos (List.mem_cons_self _ _), List.getElem?_set_self h4,
            List.getElem?_eq_getElem h2]
        · rw [if_neg (by simp [hji, hj]), List.getElem?_set_ne (fun x => hji x.symm)]
    · intro j
      rw [hpid1 j]
      show (if j ∈ rest then (d.bucket_page_ids_.set i _)[j - h]? else
        (d.bucket_page_ids_.set i _)[j]?) = _
      by_cases hj : j ∈ rest
      · have hjr := hl j (List.mem_cons_of_mem _ hj)
        rw [if_pos hj, if_pos (List.mem_cons_of_mem _ hj),
          List.getElem?_set_ne (by omega)]
      · rw [if_neg hj]
        by_cases hji : j = i
        · subst hji
          rw [if_pos (List.mem_cons_self _ _), List.getElem?_set_self h3,
            List.getElem?_eq_getElem h1]
        · rw [if_neg (by simp [hji, hj]), List.getElem?_set_ne (fun x => hji x.symm)]

/-- Doubling a sound directory below its maximum depth (lines 124-130): the result is
sound, the lower half is as before and the upper half is a copy of it. -/
theorem doubling_spec {d : ExtendibleHTableDirectoryPage} {D : Nat} {ok : Int → Prop}
    (hs : d.Sound D) (hp : d.PidsIn ok) (hlt : d.global_depth_ < D) :
    ∃ d1, cloneLower (1 <<< d.global_depth_)
        ((List.range (1 <<< (d.global_depth_ + 1))).drop (1 <<< d.global_depth_))
        d.IncrGlobalDepth = some d1 ∧
      d1.Sound D ∧ d1.PidsIn ok ∧ d1.global_depth_ = d.global_depth_ + 1 ∧
      (∀ j, j < 2 ^ d.global_depth_ → d1.local_depths_[j]? = d.local_depths_[j]? ∧
        d1.local_depths_[j + 2 ^ d.global_depth_]? = d.local_depths_[j]?) := by
  have hpow : 2 ^ (d.global_depth_ + 1) = 2 * 2 ^ d.global_depth_ := by
    rw [Nat.pow_succ]; omega
  have hle : 2 ^ (d.global_depth_ + 1) ≤ 2 ^ D :=
    Nat.pow_le_pow_right (by decide) hlt
  have hmem : ∀ j, j ∈ (List.range (1 <<< (d.global_depth_ + 1))).drop (1 <<< d.global_depth_) ↔
      2 ^ d.global_depth_ ≤ j ∧ j < 2 * 2 ^ d.global_depth_ := by
    intro j
    rw [mem_drop_range, Nat.one_shiftLeft, Nat.one_shiftLeft, hpow]
  obtain ⟨d1, hd1, hgd, hmax, hlen1, hlen2, hld1, hpid1⟩ :=
    cloneLower_spec (1 <<< d.global_depth_)
      ((List.range (1 <<< (d.global_depth_ + 1))).drop (1 <<< d.global_depth_))
      d.IncrGlobalDepth
      (fun i hi => by
        have := (hmem i).1 hi
        rw [Nat.one_shiftLeft]
        exact this)
      (by
        show 2 * 1 <<< d.global_depth_ ≤ d.local_depths_.length
        rw [Nat.one_shiftLeft, hs.len_ld]; omega)
      (by
        show 2 * 1 <<< d.global_depth_ ≤ d.bucket_page_ids_.length
        rw [Nat.one_shiftLeft, hs.len_pid]; omega)
  have hgd1 : d1.global_depth_ = d.global_depth_ + 1 := hgd
  have hld2 : ∀ j, d1.local_depths_[j]? =
      if 2 ^ d.global_depth_ ≤ j ∧ j < 2 * 2 ^ d.global_depth_ then
        d.local_depths_[j - 2 ^ d.global_depth_]? else d.local_depths_[j]? := by
    intro j
    rw [hld1 j]
    by_cases hm : j ∈ (List.range (1 <<< (d.global_depth_ + 1))).drop (1 <<< d.global_depth_)
    · rw [if_pos hm, if_pos ((hmem j).1 hm), Nat.one_shiftLeft]
      rfl
    · rw [if_neg hm, if_neg (fun x => hm ((hmem j).2 x))]
      rfl
  have hpid2 : ∀ j, d1.bucket_page_ids_[j]? =
      if 2 ^ d.global_depth_ ≤ j ∧ j < 2 * 2 ^ d.global_depth_ then
        d.bucket_page_ids_[j - 2 ^ d.global_depth_]? else d.bucket_page_ids_[j]? := by
    intro j
    rw [hpid1 j]
    by_cases hm : j ∈ (List.range (1 <<< (d.global_depth_ + 1))).drop (1 <<< d.global_depth_)
    · rw [if_pos hm, if_pos ((hmem j).1 hm), Nat.one_shiftLeft]
      rfl
    · rw [if_neg hm, if_neg (fun x => hm ((hmem j).2 x))]
      rfl
  refine ⟨d1, hd1, ?_, ?_, hgd1, ?_⟩
  · constructor
    · rw [hmax]; exact hs.max
    · rw [hgd1]; omega
    · rw [hlen1]; exact hs.len_ld
    · rw [hlen2]; exact hs.len_pid
    · intro j ld hj hld
      rw [hgd1, hpow] at hj
      rw [hld2 j] at hld
      rw [hgd1]
      by_cases hm : 2 ^ d.global_depth_ ≤ j ∧ j < 2 * 2 ^ d.global_depth_
      · rw [if_pos hm] at hld
        have := hs.ld_le (j - 2 ^ d.global_depth_) ld (by omega) hld
        omega
      · rw [if_neg hm] at hld
        have := hs.ld_le j ld (by omega) hld
        omega
  · intro j p hj hpj
    rw [hgd1, hpow] at hj
    rw [hpid2 j] at hpj
    by_cases hm : 2 ^ d.global_depth_ ≤ j ∧ j < 2 * 2 ^ d.global_depth_
    · rw [if_pos hm] at hpj
      exact hp (j - 2 ^ d.global_depth_) p (by omega) hpj
    · rw [if_neg hm] at hpj
      exact hp j p (by omega) hpj
  · intro j hj
    constructor
    · rw [hld2 j, if_neg (by omega)]
    · rw [hld2, if_pos (by omega)]
      have : j + 2 ^ d.global_depth_ - 2 ^ d.global_depth_ = j := by omega
      rw [this]

end DiskExtendibleHashTable

namespace DiskExtendibleHashTable
open ExtendibleHTableDirectoryPage PageStore
variable {K V : Type} [DecidableEq K]

theorem DirOK.evolve {K V : Type} {s s1 : PageStore K V} {c : Int} {D : Nat}
    {d : ExtendibleHTableDirectoryPage} (h : DirOK s D d) (hev : Evolves s s1 c) :
    DirOK s1 D d :=
  ⟨h.1, h.2.weaken (fun _ hp => hev.isBucket hp)⟩

theorem DirOK.init {K V : Type} (s : PageStore K V) (D : Nat) :
    DirOK s D (ExtendibleHTableDirectoryPage.Init D) := by
  constructor
  · constructor
    · rfl
    · exact Nat.zero_le _
    · show (List.replicate (1 <<< D) 0).length = _
      rw [List.length_replicate, Nat.one_shiftLeft]
    · show (List.replicate (1 <<< D) INVALID_PAGE_ID).length = _
      rw [List.length_replicate, Nat.one_shiftLeft]
    · intro i ld _ hld
      have h1 : (List.replicate (1 <<< D) 0)[i]? = some ld := hld
      rw [List.getElem?_replicate] at h1
      split_ifs at h1
      cases h1
      exact Nat.le_refl _
  · intro i p _ hp
    have h1 : (List.replicate (1 <<< D) INVALID_PAGE_ID)[i]? = some p := hp
    rw [List.getElem?_replicate] at h1
    split_ifs at h1
    cases h1
    exact Or.inl rfl

/-- A table stays well formed when its store evolves with the header page unchanged and
the directory page `c` replaced by a well-formed one. -/
theorem TableOK.of_evolves {K V : Type} {ht : DiskExtendibleHashTable K V} {s1 : PageStore K V} {c : Int}
    (hok : TableOK ht) (hev : Evolves ht.bpm_ s1 c) (hne : ht.header_page_id_ ≠ c)
    (hc : ∀ d, ht.bpm_.FetchDirectory c = some d →
      ∃ d1, s1.FetchDirectory c = some d1 ∧ DirOK s1 ht.directory_max_depth_ d1) :
    TableOK { ht with bpm_ := s1 } := by
  obtain ⟨h, hh, hlen, hdirs⟩ := hok
  refine ⟨h, hev.header hh hne, hlen, ?_⟩
  intro i p hp hpv
  obtain ⟨d, hd, hdok⟩ := hdirs i p hp hpv
  by_cases hpc : p = c
  · subst hpc
    exact hc d hd
  · exact ⟨d, hev.directory hd hpc, hdok.evolve hev⟩

theorem Fetch_length_ne {K V : Type} {s : PageStore K V} {id : Int} {q : PageData K V}
    (h : s.Fetch id = some q) : (s.length : Int) ≠ id := by
  have := Fetch_lt h
  omega

/-- Embeds the effect of `InsertToNewBucket` on a well-formed table: the table stays well
formed. -/
theorem TableOK.insertToNewBucket {ht : DiskExtendibleHashTable K V} (hok : TableOK ht)
    {c : Int} {d : ExtendibleHTableDirectoryPage} (hd : ht.bpm_.FetchDirectory c = some d)
    (hdok : DirOK ht.bpm_ ht.directory_max_depth_ d) {idx : Nat} {key : K} {value : V}
    {r : Bool × DiskExtendibleHashTable K V}
    (h : InsertToNewBucket ht c d idx key value = some r) :
    ∃ s1, r.2 = { ht with bpm_ := s1 } ∧ TableOK { ht with bpm_ := s1 } := by
  unfold InsertToNewBucket at h
  simp only [PageStore.NewPage] at h
  obtain ⟨d1, hd1, h⟩ := Option.bind_eq_some.1 h
  simp only [Option.some.injEq] at h
  obtain ⟨_, hd1eq⟩ := SetBucketPageId_eq hd1
  subst h
  refine ⟨_, rfl, ?_⟩
  have hfd := FetchDirectory_iff.1 hd
  have hcl := Fetch_lt hfd
  have hnc : (ht.bpm_.length : Int) ≠ c := Fetch_length_ne hfd
  obtain ⟨hh, hhh, hlen, hdirs⟩ := hok
  have hhc : ht.header_page_id_ ≠ c := by
    intro hx
    rw [hx] at hhh
    have := FetchHeader_iff.1 hhh
    rw [hfd] at this
    cases this
  have e1 := Evolves.append ht.bpm_
    (PageData.bucket (ExtendibleHTableBucketPage.Init ht.bucket_max_size_ :
      ExtendibleHTableBucketPage K V)) c
  have e2 := e1.write_at (PageData.directory d1) (Fetch_append _ hfd) rfl (fun _ => rfl)
  have hfn : PageStore.Fetch ((ht.bpm_ ++
      [PageData.bucket (ExtendibleHTableBucketPage.Init ht.bucket_max_size_ :
        ExtendibleHTableBucketPage K V)]).Write c (PageData.directory d1))
      (ht.bpm_.length : Int) =
      some (PageData.bucket (ExtendibleHTableBucketPage.Init ht.bucket_max_size_)) := by
    rw [Fetch_Write_ne _ (fun x => hnc x.symm)]
    exact Fetch_append_length _ _
  have e3 := e2.write_at
    (PageData.bucket ((ExtendibleHTableBucketPage.Init ht.bucket_max_size_ :
      ExtendibleHTableBucketPage K V).Insert key value).2) hfn rfl
    (fun hx => absurd rfl hx)
  refine TableOK.of_evolves ⟨hh, hhh, hlen, hdirs⟩ e3 hhc ?_
  intro d0 _
  refine ⟨d1, ?_, ?_, ?_⟩
  · rw [FetchDirectory_iff, Fetch_Write_ne _ hnc]
    exact Fetch_Write_same _ hcl.1 (by simp; omega)
  · rw [hd1eq]
    exact hdok.1.set_pid idx _
  · have hgen : ∀ ok : Int → Prop, ok (ht.bpm_.length : Int) →
        (∀ p, (ht.bpm_.FetchBucket p).isSome = true → ok p) → d1.PidsIn ok := by
      intro ok h1 h2
      rw [hd1eq]
      exact (hdok.2.weaken h2).put_pid idx _ (Or.inr h1)
    refine hgen _ ?_ (fun _ hp => e3.isBucket hp)
    have hl := Fetch_lt hfn
    rw [FetchBucket_iff.2 (Fetch_Write_same _ hl.1 hl.2)]
    rfl

/-- Embeds the effect of `InsertToNewDirectory` on a well-formed table: the table stays well
formed. -/
theorem TableOK.insertToNewDirectory {ht : DiskExtendibleHashTable K V} (hok : TableOK ht)
    {hp : ExtendibleHTableHeaderPage} (hhp : ht.bpm_.FetchHeader ht.header_page_id_ = some hp)
    {di hash : Nat} {key : K} {value : V} {r : Bool × DiskExtendibleHashTable K V}
    (h : InsertToNewDirectory ht hp di hash key value = some r) :
    ∃ s1, r.2 = { ht with bpm_ := s1 } ∧ TableOK { ht with bpm_ := s1 } := by
  unfold InsertToNewDirectory at h
  simp only [PageStore.NewPage] at h
  obtain ⟨hp1, hhp1, h⟩ := Option.bind_eq_some.1 h
  unfold ExtendibleHTableHeaderPage.SetDirectoryPageId at hhp1
  obtain ⟨a, ha, hp1eq⟩ := Option.map_eq_some'.1 hhp1
  obtain ⟨hdi, haeq⟩ := arrSet_eq_some ha
  have hfh := FetchHeader_iff.1 hhp
  have hhl := Fetch_lt hfh
  have hnh : (ht.bpm_.length : Int) ≠ ht.header_page_id_ := Fetch_length_ne hfh
  obtain ⟨hh, hhh, hlen, hdirs⟩ := hok
  rw [hhp] at hhh
  cases hhh
  obtain ⟨s0, hs0⟩ : ∃ s0 : PageStore K V, s0 = (ht.bpm_ ++
      [(PageData.directory (ExtendibleHTableDirectoryPage.Init ht.directory_max_depth_) :
        PageData K V)]).Write ht.header_page_id_ (PageData.header hp1) := ⟨_, rfl⟩
  rw [← hs0] at h
  have e2 : Evolves ht.bpm_ s0 ht.header_page_id_ := by
    rw [hs0]
    exact (Evolves.append ht.bpm_ _ _).write_at (PageData.header hp1) (Fetch_append _ hfh) rfl
      (fun _ => rfl)
  have hfn : s0.FetchDirectory (ht.bpm_.length : Int) =
      some (ExtendibleHTableDirectoryPage.Init ht.directory_max_depth_) := by
    rw [hs0, FetchDirectory_iff, Fetch_Write_ne _ (fun x => hnh x.symm)]
    exact Fetch_append_length _ _
  have hfh0 : s0.FetchHeader ht.header_page_id_ = some hp1 := by
    rw [hs0]
    exact FetchHeader_iff.2 (Fetch_Write_same _ hhl.1 (by simp; omega))
  have hok1 : TableOK { ht with bpm_ := s0 } := by
    refine ⟨hp1, hfh0, ?_, ?_⟩
    · rw [← hp1eq, haeq]
      show (hp.directory_page_ids_.set di _).length = _
      rw [List.length_set]
      exact hlen
    · intro i p hpi hpv
      rw [← hp1eq, haeq] at hpi
      have hpi1 : (hp.directory_page_ids_.set di (ht.bpm_.length : Int))[i]? = some p := hpi
      rw [List.getElem?_set] at hpi1
      by_cases hdi1 : di = i
      · rw [if_pos hdi1] at hpi1
        split_ifs at hpi1
        cases hpi1
        exact ⟨_, hfn, DirOK.init _ _⟩
      · rw [if_neg hdi1] at hpi1
        obtain ⟨d, hd, hdok⟩ := hdirs i p hpi1 hpv
        have hph : p ≠ ht.header_page_id_ := by
          intro hx
          rw [hx] at hd
          have := FetchDirectory_iff.1 hd
          rw [hfh] at this
          cases this
        exact ⟨d, e2.directory hd hph, hdok.evolve e2⟩
  obtain ⟨s1, hs1, hok2⟩ := hok1.insertToNewBucket hfn (DirOK.init _ _) h
  exact ⟨s1, hs1, hok2⟩

end DiskExtendibleHashTable

namespace DiskExtendibleHashTable
open ExtendibleHTableDirectoryPage PageStore
variable {K V : Type} [DecidableEq K]

theorem HashToDirectoryIndex_lt (hp : ExtendibleHTableHeaderPage) (hash : Nat)
    (h : hash < 2 ^ 32) : hp.HashToDirectoryIndex hash < 2 ^ hp.max_depth_ := by
  unfold ExtendibleHTableHeaderPage.HashToDirectoryIndex
  rw [Nat.shiftRight_eq_div_pow]
  by_cases hm : hp.max_depth_ ≤ 32
  · apply Nat.div_lt_of_lt_mul
    rw [← Nat.pow_add]
    have : 32 - hp.max_depth_ + hp.max_depth_ = 32 := by omega
    rw [this]
    exact h
  · have h0 : 32 - hp.max_depth_ = 0 := by omega
    rw [h0, Nat.pow_zero, Nat.div_one]
    have : 2 ^ 32 ≤ 2 ^ hp.max_depth_ := Nat.pow_le_pow_right (by decide) (by omega)
    omega

theorem Hash_lt {K : Type} (hash_fn_ : K → Nat) (key : K) : Hash hash_fn_ key < 2 ^ 32 := by
  unfold Hash
  exact Nat.mod_lt _ (by decide)

/-- The path of a key through a well-formed table: the header page and its slot for the
key; if that slot holds a directory page id, the directory page, which is well formed,
the page id and the local depth of the key's slot in it; and if that slot holds a bucket
page id, the bucket page. -/
theorem TableOK.path {K V : Type} {ht : DiskExtendibleHashTable K V} (hok : TableOK ht)
    (hash_fn_ : K → Nat) (key : K) :
    ∃ hp dpid, ht.bpm_.FetchHeader ht.header_page_id_ = some hp ∧
      hp.GetDirectoryPageId (hp.HashToDirectoryIndex (Hash hash_fn_ key)) = some dpid ∧
      (dpid ≠ INVALID_PAGE_ID →
        ∃ dp bpid ld, ht.bpm_.FetchDirectory dpid = some dp ∧
          DirOK ht.bpm_ ht.directory_max_depth_ dp ∧
          dp.GetBucketPageId (dp.HashToBucketIndex (Hash hash_fn_ key)) = some bpid ∧
          dp.GetLocalDepth (dp.HashToBucketIndex (Hash hash_fn_ key)) = some ld ∧
          ld ≤ dp.global_depth_ ∧
          (bpid ≠ INVALID_PAGE_ID → ∃ bp, ht.bpm_.FetchBucket bpid = some bp)) := by
  obtain ⟨hp, hhp, hlen, hdirs⟩ := hok
  have hidx := HashToDirectoryIndex_lt hp _ (Hash_lt hash_fn_ key)
  rw [← hlen] at hidx
  refine ⟨hp, hp.directory_page_ids_[hp.HashToDirectoryIndex (Hash hash_fn_ key)], hhp, ?_, ?_⟩
  · unfold ExtendibleHTableHeaderPage.GetDirectoryPageId arrGet
    exact List.getElem?_eq_getElem hidx
  · intro hv
    obtain ⟨dp, hdp, hs, hpids⟩ := hdirs _ _ (List.getElem?_eq_getElem hidx) hv
    have hb := HashToBucketIndex_lt dp (Hash hash_fn_ key)
    have hle : 2 ^ dp.global_depth_ ≤ 2 ^ ht.directory_max_depth_ :=
      Nat.pow_le_pow_right (by decide) hs.gd_le
    have hb1 : dp.HashToBucketIndex (Hash hash_fn_ key) < dp.bucket_page_ids_.length := by
      rw [hs.len_pid]; omega
    have hb2 : dp.HashToBucketIndex (Hash hash_fn_ key) < dp.local_depths_.length := by
      rw [hs.len_ld]; omega
    refine ⟨dp, dp.bucket_page_ids_[dp.HashToBucketIndex (Hash hash_fn_ key)],
      dp.local_depths_[dp.HashToBucketIndex (Hash hash_fn_ key)], hdp, ⟨hs, hpids⟩, ?_, ?_, ?_, ?_⟩
    · unfold GetBucketPageId arrGet
      exact List.getElem?_eq_getElem hb1
    · unfold GetLocalDepth arrGet
      exact List.getElem?_eq_getElem hb2
    · exact hs.ld_le _ _ hb (List.getElem?_eq_getElem hb2)
    · intro hbv
      rcases hpids _ _ hb (List.getElem?_eq_getElem hb1) with hx | hx
      · exact absurd hx hbv
      · exact Option.isSome_iff_exists.1 hx

/-- In a well-formed table `GetValue` returns. -/
theorem TableOK.getValue_defined {ht : DiskExtendibleHashTable K V} (hok : TableOK ht)
    (hash_fn_ : K → Nat) (key : K) : ∃ found, GetValue hash_fn_ ht key = some found := by
  obtain ⟨hp, dpid, hhp, hdpid, hrest⟩ := hok.path hash_fn_ key
  unfold GetValue
  simp only [hhp, hdpid, Option.some_bind]
  by_cases hv : dpid = INVALID_PAGE_ID
  · rw [if_pos hv]
    exact ⟨_, rfl⟩
  rw [if_neg hv]
  obtain ⟨dp, bpid, ld, hdp, _, hbpid, _, _, hb⟩ := hrest hv
  simp only [hdp, hbpid, Option.some_bind]
  by_cases hbv : bpid = INVALID_PAGE_ID
  · rw [if_pos hbv]
    exact ⟨_, rfl⟩
  rw [if_neg hbv]
  obtain ⟨bp, hbp⟩ := hb hbv
  simp only [hbp, Option.some_bind]
  exact ⟨_, rfl⟩

end DiskExtendibleHashTable

namespace DiskExtendibleHashTable
open ExtendibleHTableDirectoryPage PageStore
variable {K V : Type} [DecidableEq K]

/-- The redistribution loop returns when the slots of the directory are inside its
arrays. -/
theorem redistribute_defined (hash_fn_ : K → Nat) {d : ExtendibleHTableDirectoryPage}
    {D : Nat} (hs : d.Sound D) (bpid spid : Int) :
    ∀ (entries : List (K × V)) (b sb : ExtendibleHTableBucketPage K V),
      ∃ res, redistribute hash_fn_ d bpid spid entries b sb = some res := by
  intro entries
  induction entries with
  | nil => intro b sb; exact ⟨_, rfl⟩
  | cons e rest ih =>
    intro b sb
    have hb := HashToBucketIndex_lt d (Hash hash_fn_ e.1)
    have hle : 2 ^ d.global_depth_ ≤ 2 ^ D := Nat.pow_le_pow_right (by decide) hs.gd_le
    have hb1 : d.HashToBucketIndex (Hash hash_fn_ e.1) < d.bucket_page_ids_.length := by
      rw [hs.len_pid]; omega
    rw [redistribute]
    simp only [GetBucketPageId, arrGet, List.getElem?_eq_getElem hb1, Option.some_bind]
    split_ifs
    · exact ih _ _
    · exact ih _ _
    · exact ih _ _

/-- Embeds what `SplitBucket` does to a sound directory when the local depth of the bucket
index is at least 1: the call returns, the directory stays sound, its active slots refer
to the pages they referred to or to the new page, a slot whose local depth equals that of
the bucket index keeps it, every page of the pool keeps its kind, and the new page is a
bucket page. -/
theorem SplitBucket_spec (hash_fn_ : K → Nat) (ht : DiskExtendibleHashTable K V)
    {d : ExtendibleHTableDirectoryPage} {D : Nat} {ok : Int → Prop} (hs : d.Sound D)
    (hp : d.PidsIn ok) (bucket : ExtendibleHTableBucketPage K V) {idx ld : Nat}
    (hidx : idx < 2 ^ d.global_depth_) (hld : d.local_depths_[idx]? = some ld)
    (hld1 : 1 ≤ ld) :
    ∃ sp, SplitBucket hash_fn_ ht d bucket idx = some sp ∧
      sp.directory.Sound D ∧
      sp.directory.PidsIn (fun p => ok p ∨ p = (ht.bpm_.length : Int)) ∧
      sp.directory.global_depth_ = d.global_depth_ ∧
      (∀ j : Nat, d.local_depths_[j]? = some ld →
        sp.directory.local_depths_[j]? = some ld) ∧
      (∀ c, Evolves ht.bpm_ sp.bpm c) ∧
      (sp.bpm.FetchBucket (ht.bpm_.length : Int)).isSome = true := by
  have hldle : ld ≤ d.global_depth_ := hs.ld_le idx ld hidx hld
  have hle : 2 ^ d.global_depth_ ≤ 2 ^ D := Nat.pow_le_pow_right (by decide) hs.gd_le
  have hsi : idx ^^^ (1 <<< (ld - 1)) < 2 ^ d.global_depth_ := by
    apply Nat.xor_lt_two_pow hidx
    rw [Nat.one_shiftLeft]
    exact Nat.pow_lt_pow_right (by decide) (by omega)
  have hnv : ¬ ((ht.bpm_.length : Int) = INVALID_PAGE_ID) := by
    unfold INVALID_PAGE_ID; omega
  have hfn : PageStore.Fetch (ht.bpm_ ++
      [PageData.bucket (ExtendibleHTableBucketPage.Init ht.bucket_max_size_ :
        ExtendibleHTableBucketPage K V)]) (ht.bpm_.length : Int) =
      some (PageData.bucket (ExtendibleHTableBucketPage.Init ht.bucket_max_size_)) :=
    Fetch_append_length _ _
  have hev0 : ∀ c, Evolves ht.bpm_ (ht.bpm_ ++
      [PageData.bucket (ExtendibleHTableBucketPage.Init ht.bucket_max_size_ :
        ExtendibleHTableBucketPage K V)]) c := fun c => Evolves.append _ _ c
  have hpids0 : d.PidsIn (fun p => ok p ∨ p = (ht.bpm_.length : Int)) :=
    hp.weaken (fun _ h => Or.inl h)
  unfold SplitBucket
  simp only [PageStore.NewPage]
  rw [if_neg hnv]
  have hgs : d.GetSplitImageIndex idx = some (idx ^^^ (1 <<< (ld - 1))) := by
    unfold GetSplitImageIndex GetLocalDepth arrGet
    rw [hld]
    simp only [Option.map_some']
    rw [if_neg (by omega)]
  have hgl : d.GetLocalDepth idx = some ld := hld
  simp only [hgs, hgl, Option.some_bind]
  by_cases hli : ld = idx
  · rw [if_pos hli]
    exact ⟨_, rfl, hs, hpids0, rfl, fun j hj => hj, hev0, by
      show (PageStore.FetchBucket _ _).isSome = true
      rw [FetchBucket_iff.2 hfn]; rfl⟩
  rw [if_neg hli]
  have hsi1 : idx ^^^ (1 <<< (ld - 1)) < d.bucket_page_ids_.length := by
    rw [hs.len_pid]; omega
  have hsi2 : idx ^^^ (1 <<< (ld - 1)) < d.local_depths_.length := by
    rw [hs.len_ld]; omega
  rw [SetBucketPageId_of_lt d _ hsi1]
  simp only [Option.some_bind]
  rw [SetLocalDepth_of_lt _ _ (by exact hsi2)]
  simp only [Option.some_bind]
  have hidx1 : idx < d.bucket_page_ids_.length := by
    rw [hs.len_pid]; omega
  obtain ⟨d2, hd2⟩ : ∃ d2 : ExtendibleHTableDirectoryPage, d2 =
      { d with
        bucket_page_ids_ := d.bucket_page_ids_.set (idx ^^^ (1 <<< (ld - 1)))
          (ht.bpm_.length : Int),
        local_depths_ := d.local_depths_.set (idx ^^^ (1 <<< (ld - 1))) ld } := ⟨_, rfl⟩
  have hs2 : d2.Sound D := by
    rw [hd2]
    exact (hs.set_pid _ _).set_ld _ _ (fun _ => hldle)
  have hp2 : d2.PidsIn (fun p => ok p ∨ p = (ht.bpm_.length : Int)) := by
    rw [hd2]
    exact (hpids0.put_pid _ _ (Or.inr (Or.inr rfl))).put_ld _ _
  have hgd2 : d2.global_depth_ = d.global_depth_ := by rw [hd2]
  have hld2 : ∀ j : Nat, d.local_depths_[j]? = some ld →
      d2.local_depths_[j]? = some ld := by
    intro j hj
    rw [hd2]
    show (d.local_depths_.set _ ld)[j]? = some ld
    rw [List.getElem?_set]
    by_cases hx : idx ^^^ (1 <<< (ld - 1)) = j
    · rw [if_pos hx, if_pos hsi2]
    · rw [if_neg hx]; exact hj
  have hgb : ∃ bpid, d2.GetBucketPageId idx = some bpid := by
    unfold GetBucketPageId arrGet
    have : idx < d2.bucket_page_ids_.length := by
      rw [hs2.len_pid]; omega
    exact ⟨_, List.getElem?_eq_getElem this⟩
  obtain ⟨bpid, hbpid⟩ := hgb
  rw [← hd2]
  simp only [hbpid, Option.some_bind]
  by_cases hbv : bpid = INVALID_PAGE_ID
  · rw [if_pos hbv]
    exact ⟨_, rfl, hs2, hp2, hgd2, hld2, hev0, by
      show (PageStore.FetchBucket _ _).isSome = true
      rw [FetchBucket_iff.2 hfn]; rfl⟩
  rw [if_neg hbv]
  obtain ⟨res, hres⟩ := redistribute_defined hash_fn_ hs2 bpid (ht.bpm_.length : Int)
    bucket.array_ bucket.Clear (ExtendibleHTableBucketPage.Init ht.bucket_max_size_)
  simp only [hres, Option.some_bind]
  refine ⟨_, rfl, hs2, hp2, hgd2, hld2, ?_, ?_⟩
  · intro c
    exact (hev0 c).write_at _ hfn rfl (fun hx => absurd rfl hx)
  · show (PageStore.FetchBucket _ _).isSome = true
    have hl := Fetch_lt hfn
    rw [FetchBucket_iff.2 (Fetch_Write_same _ hl.1 hl.2)]
    rfl

end DiskExtendibleHashTable

namespace DiskExtendibleHashTable
open ExtendibleHTableDirectoryPage PageStore
variable {K V : Type} [DecidableEq K]

theorem InsertToNewBucket_defined (ht : DiskExtendibleHashTable K V) (c : Int)
    (d : ExtendibleHTableDirectoryPage) {idx : Nat} (key : K) (value : V)
    (h : idx < d.bucket_page_ids_.length) :
    ∃ r, InsertToNewBucket ht c d idx key value = some r := by
  unfold InsertToNewBucket
  simp only [PageStore.NewPage]
  rw [SetBucketPageId_of_lt d _ h]
  exact ⟨_, rfl⟩

theorem InsertToNewDirectory_defined (ht : DiskExtendibleHashTable K V)
    (hp : ExtendibleHTableHeaderPage) {di : Nat} (hash : Nat) (key : K) (value : V)
    (h : di < hp.directory_page_ids_.length) :
    ∃ r, InsertToNewDirectory ht hp di hash key value = some r := by
  unfold InsertToNewDirectory
  simp only [PageStore.NewPage]
  unfold ExtendibleHTableHeaderPage.SetDirectoryPageId
  rw [arrSet_of_lt _ _ h]
  simp only [Option.map_some', Option.some_bind]
  apply InsertToNewBucket_defined
  have hb := HashToBucketIndex_lt (ExtendibleHTableDirectoryPage.Init ht.directory_max_depth_) hash
  show _ < (List.replicate (1 <<< ht.directory_max_depth_) INVALID_PAGE_ID).length
  rw [List.length_replicate, Nat.one_shiftLeft]
  have h1 : (ExtendibleHTableDirectoryPage.Init ht.directory_max_depth_).global_depth_ = 0 := rfl
  rw [h1] at hb
  have : 0 < 2 ^ ht.directory_max_depth_ := Nat.pos_pow_of_pos _ (by decide)
  omega

theorem mod_two_pow_succ (x g : Nat) :
    x % 2 ^ (g + 1) = x % 2 ^ g ∨ x % 2 ^ (g + 1) = x % 2 ^ g + 2 ^ g := by
  rw [Nat.pow_succ, Nat.mod_mul]
  rcases Nat.mod_two_eq_zero_or_one (x / 2 ^ g) with h | h
  · left; rw [h]; simp
  · right; rw [h]; simp

/-- Embeds lines 119-133 of `Insert` on a sound directory, for the bucket index of a hash whose
slot has local depth `ld`, when the insert is not refused: either the three steps (doubling
if the local depth equals the global depth, and the two increments) return a sound
directory in which the slot of the hash has local depth `ld + 1`, or the second increment
falls outside the arrays, which happens only without doubling at the maximum depth. -/
theorem incr_spec {d : ExtendibleHTableDirectoryPage} {D : Nat} {ok : Int → Prop}
    (hs : d.Sound D) (hp : d.PidsIn ok) (hash : Nat) {ld : Nat}
    (hld : d.local_depths_[d.HashToBucketIndex hash]? = some ld)
    (hmax : ¬ (ld = d.global_depth_ ∧ d.global_depth_ ≥ d.max_depth_)) :
    (∃ d1 d2 d3, (if ld = d.global_depth_ then
          cloneLower (1 <<< d.global_depth_)
            ((List.range (1 <<< (d.global_depth_ + 1))).drop (1 <<< d.global_depth_))
            d.IncrGlobalDepth
        else some d) = some d1 ∧
      d1.IncrLocalDepth (d.HashToBucketIndex hash) = some d2 ∧
      d2.IncrLocalDepth (d.HashToBucketIndex hash + 1 <<< d.global_depth_) = some d3 ∧
      d3.Sound D ∧ d3.PidsIn ok ∧
      (ld = d.global_depth_ → d3.global_depth_ = d.global_depth_ + 1) ∧
      (ld ≠ d.global_depth_ → d3.global_depth_ = d.global_depth_) ∧
      ld + 1 ≤ d3.global_depth_ ∧
      d3.local_depths_[d.HashToBucketIndex hash]? = some (ld + 1) ∧
      d3.local_depths_[d3.HashToBucketIndex hash]? = some (ld + 1)) ∨
    (∃ d2, (if ld = d.global_depth_ then
          cloneLower (1 <<< d.global_depth_)
            ((List.range (1 <<< (d.global_depth_ + 1))).drop (1 <<< d.global_depth_))
            d.IncrGlobalDepth
        else some d) = some d ∧
      d.IncrLocalDepth (d.HashToBucketIndex hash) = some d2 ∧
      d2.IncrLocalDepth (d.HashToBucketIndex hash + 1 <<< d.global_depth_) = none ∧
      ld ≠ d.global_depth_ ∧ D ≤ d.global_depth_) := by
  have hidx := HashToBucketIndex_lt d hash
  have hldle : ld ≤ d.global_depth_ := hs.ld_le _ _ hidx hld
  have hle : 2 ^ d.global_depth_ ≤ 2 ^ D := Nat.pow_le_pow_right (by decide) hs.gd_le
  have hpos : 0 < 2 ^ d.global_depth_ := Nat.pos_pow_of_pos _ (by decide)
  by_cases hdb : ld = d.global_depth_
  · -- the directory doubles
    have hlt : d.global_depth_ < D := by
      have := hs.max
      by_contra hx
      exact hmax ⟨hdb, by omega⟩
    obtain ⟨d1, hd1, hs1, hp1, hgd1, hcl⟩ := doubling_spec hs hp hlt
    have hpow : 2 ^ (d.global_depth_ + 1) = 2 * 2 ^ d.global_depth_ := by
      rw [Nat.pow_succ]; omega
    have hle1 : 2 ^ (d.global_depth_ + 1) ≤ 2 ^ D := Nat.pow_le_pow_right (by decide) hlt
    have hi1 : d.HashToBucketIndex hash < d1.local_depths_.length := by
      rw [hs1.len_ld]; omega
    have hv1 : d1.local_depths_[d.HashToBucketIndex hash]? = some ld := by
      rw [(hcl _ hidx).1]; exact hld
    have hv1' : d1.local_depths_[d.HashToBucketIndex hash + 2 ^ d.global_depth_]? =
        some ld := by
      rw [(hcl _ hidx).2]; exact hld
    obtain ⟨d2, hd2⟩ : ∃ d2 : ExtendibleHTableDirectoryPage, d2 =
        { d1 with local_depths_ := d1.local_depths_.set (d.HashToBucketIndex hash) (ld + 1) } :=
      ⟨_, rfl⟩
    have hi2 : d1.IncrLocalDepth (d.HashToBucketIndex hash) = some d2 := by
      unfold IncrLocalDepth GetLocalDepth arrGet
      rw [hv1]
      simp only [Option.some_bind]
      rw [SetLocalDepth_of_lt _ _ hi1, hd2]
    have hs2 : d2.Sound D := by
      rw [hd2]
      exact hs1.set_ld _ _ (fun _ => by rw [hgd1]; omega)
    have hp2 : d2.PidsIn ok := by
      rw [hd2]; exact hp1.put_ld _ _
    have hgd2 : d2.global_depth_ = d.global_depth_ + 1 := by rw [hd2]; exact hgd1
    have hv2 : d2.local_depths_[d.HashToBucketIndex hash + 2 ^ d.global_depth_]? =
        some ld := by
      rw [hd2]
      show (d1.local_depths_.set _ _)[_]? = _
      rw [List.getElem?_set_ne (by omega)]
      exact hv1'
    have hv2' : d2.local_depths_[d.HashToBucketIndex hash]? = some (ld + 1) := by
      rw [hd2]
      show (d1.local_depths_.set _ _)[_]? = _
      rw [List.getElem?_set_self hi1]
    have hi3 : d.HashToBucketIndex hash + 2 ^ d.global_depth_ < d2.local_depths_.length := by
      rw [hs2.len_ld]; omega
    obtain ⟨d3, hd3⟩ : ∃ d3 : ExtendibleHTableDirectoryPage, d3 =
        { d2 with local_depths_ :=
            d2.local_depths_.set (d.HashToBucketIndex hash + 2 ^ d.global_depth_) (ld + 1) } :=
      ⟨_, rfl⟩
    have hi4 : d2.IncrLocalDepth (d.HashToBucketIndex hash + 1 <<< d.global_depth_) =
        some d3 := by
      rw [Nat.one_shiftLeft]
      unfold IncrLocalDepth GetLocalDepth arrGet
      rw [hv2]
      simp only [Option.some_bind]
      rw [SetLocalDepth_of_lt _ _ hi3, hd3]
    have hgd3 : d3.global_depth_ = d.global_depth_ + 1 := by rw [hd3]; exact hgd2
    have hv3 : d3.local_depths_[d.HashToBucketIndex hash]? = some (ld + 1) := by
      rw [hd3]
      show (d2.local_depths_.set _ _)[_]? = _
      rw [List.getElem?_set_ne (by omega)]
      exact hv2'
    have hv3' : d3.local_depths_[d.HashToBucketIndex hash + 2 ^ d.global_depth_]? =
        some (ld + 1) := by
      rw [hd3]
      show (d2.local_depths_.set _ _)[_]? = _
      rw [List.getElem?_set_self hi3]
    left
    refine ⟨d1, d2, d3, by rw [if_pos hdb]; exact hd1, hi2, hi4, ?_, ?_, fun _ => hgd3,
      fun hx => absurd hdb hx, by rw [hgd3]; omega, hv3, ?_⟩
    · rw [hd3]
      exact hs2.set_ld _ _ (fun _ => by rw [hgd2]; omega)
    · rw [hd3]; exact hp2.put_ld _ _
    · rw [HashToBucketIndex_eq d3 hash, hgd3]
      rw [HashToBucketIndex_eq d hash] at hv3 hv3'
      rcases mod_two_pow_succ hash d.global_depth_ with hx | hx
      · rw [hx]; exact hv3
      · rw [hx]; exact hv3'
  · -- no doubling
    have hltg : ld < d.global_depth_ := by omega
    have hi1 : d.HashToBucketIndex hash < d.local_depths_.length := by
      rw [hs.len_ld]; omega
    obtain ⟨d2, hd2⟩ : ∃ d2 : ExtendibleHTableDirectoryPage, d2 =
        { d with local_depths_ := d.local_depths_.set (d.HashToBucketIndex hash) (ld + 1) } :=
      ⟨_, rfl⟩
    have hi2 : d.IncrLocalDepth (d.HashToBucketIndex hash) = some d2 := by
      unfold IncrLocalDepth GetLocalDepth arrGet
      rw [hld]
      simp only [Option.some_bind]
      rw [SetLocalDepth_of_lt _ _ hi1, hd2]
    have hs2 : d2.Sound D := by
      rw [hd2]
      exact hs.set_ld _ _ (fun _ => by omega)
    have hp2 : d2.PidsIn ok := by
      rw [hd2]; exact hp.put_ld _ _
    have hgd2 : d2.global_depth_ = d.global_depth_ := by rw [hd2]
    have hv2' : d2.local_depths_[d.HashToBucketIndex hash]? = some (ld + 1) := by
      rw [hd2]
      show (d.local_depths_.set _ _)[_]? = _
      rw [List.getElem?_set_self hi1]
    by_cases hD : d.global_depth_ < D
    · left
      have hpow : 2 ^ (d.global_depth_ + 1) = 2 * 2 ^ d.global_depth_ := by
        rw [Nat.pow_succ]; omega
      have hle1 : 2 ^ (d.global_depth_ + 1) ≤ 2 ^ D := Nat.pow_le_pow_right (by decide) hD
      have hi3 : d.HashToBucketIndex hash + 2 ^ d.global_depth_ < d2.local_depths_.length := by
        rw [hs2.len_ld]; omega
      obtain ⟨d3, hd3i⟩ := IncrLocalDepth_of_lt d2 hi3
      obtain ⟨v, _, hd3⟩ := IncrLocalDepth_eq hd3i
      have hgd3 : d3.global_depth_ = d.global_depth_ := by rw [hd3]; exact hgd2
      have hv3 : d3.local_depths_[d.HashToBucketIndex hash]? = some (ld + 1) := by
        rw [hd3]
        show (d2.local_depths_.set _ _)[_]? = _
        rw [List.getElem?_set_ne (by omega)]
        exact hv2'
      refine ⟨d, d2, d3, by rw [if_neg hdb], hi2, by rw [Nat.one_shiftLeft]; exact hd3i,
        ?_, ?_, fun hx => absurd hx hdb, fun _ => hgd3, by rw [hgd3]; omega, hv3, ?_⟩
      · rw [hd3]
        exact hs2.set_ld _ _ (fun hx => by rw [hgd2] at hx; omega)
      · rw [hd3]; exact hp2.put_ld _ _
      · rw [HashToBucketIndex_eq d3 hash, hgd3, ← HashToBucketIndex_eq d hash]
        exact hv3
    · right
      refine ⟨d2, by rw [if_neg hdb], hi2, ?_, hdb, by omega⟩
      rw [Nat.one_shiftLeft]
      unfold IncrLocalDepth GetLocalDepth arrGet
      have hge : d2.local_depths_.length ≤ d.HashToBucketIndex hash + 2 ^ d.global_depth_ := by
        rw [hs2.len_ld]
        have : 2 ^ D ≤ 2 ^ d.global_depth_ := Nat.pow_le_pow_right (by decide) (by omega)
        omega
      rw [List.getElem?_eq_none hge]
      rfl

end DiskExtendibleHashTable

namespace DiskExtendibleHashTable
open ExtendibleHTableDirectoryPage PageStore
variable {K V : Type} [DecidableEq K]

theorem keyDepths_eq {K V : Type} (hash_fn_ : K → Nat) {ht : DiskExtendibleHashTable K V} (key : K)
    {hp : ExtendibleHTableHeaderPage} {dpid : Int} {dp : ExtendibleHTableDirectoryPage}
    {ld : Nat} (hhp : ht.bpm_.FetchHeader ht.header_page_id_ = some hp)
    (hdpid : hp.GetDirectoryPageId (hp.HashToDirectoryIndex (Hash hash_fn_ key)) = some dpid)
    (hv : dpid ≠ INVALID_PAGE_ID) (hdp : ht.bpm_.FetchDirectory dpid = some dp)
    (hld : dp.GetLocalDepth (dp.HashToBucketIndex (Hash hash_fn_ key)) = some ld) :
    keyDepths hash_fn_ ht key = some (dp.global_depth_, ld) := by
  unfold keyDepths
  simp only [hhp, hdpid, Option.some_bind]
  rw [if_neg hv]
  simp only [hdp, hld, Option.some_bind, Option.map_some']

theorem kinds_ne {K V : Type} {s : PageStore K V} {a b : Int} {p q : PageData K V}
    (ha : s.Fetch a = some p) (hb : s.Fetch b = some q) (hk : kindOf p ≠ kindOf q) :
    a ≠ b := by
  intro hx
  rw [hx, hb] at ha
  cases ha
  exact hk rfl

/-- A write of a bucket page over a bucket page keeps the table well formed. -/
theorem TableOK.write_bucket {K V : Type} {ht : DiskExtendibleHashTable K V} (hok : TableOK ht)
    {bpid : Int} {bp : ExtendibleHTableBucketPage K V}
    (hbp : ht.bpm_.FetchBucket bpid = some bp) (b1 : ExtendibleHTableBucketPage K V) :
    TableOK { ht with bpm_ := ht.bpm_.Write bpid (PageData.bucket b1) } := by
  have hfb := FetchBucket_iff.1 hbp
  obtain ⟨hh, hhh, hlen, hdirs⟩ := hok
  have hne : ht.header_page_id_ ≠ bpid :=
    kinds_ne (FetchHeader_iff.1 hhh) hfb (by simp [kindOf])
  refine TableOK.of_evolves ⟨hh, hhh, hlen, hdirs⟩
    (Evolves.write (PageData.bucket b1) bpid hfb rfl (fun _ => rfl)) hne ?_
  intro d hd
  have := FetchDirectory_iff.1 hd
  rw [hfb] at this
  cases this

/-- The table that `Insert` leaves after `SplitBucket` (lines 134-138) is well formed, and
the header page and the directory page are where they were. -/
theorem TableOK.after_split {K V : Type} {ht : DiskExtendibleHashTable K V} (hok : TableOK ht)
    {hp : ExtendibleHTableHeaderPage} {dpid bpid : Int} {dp : ExtendibleHTableDirectoryPage}
    {bp : ExtendibleHTableBucketPage K V} (sp : SplitResult K V)
    (hhp : ht.bpm_.FetchHeader ht.header_page_id_ = some hp)
    (hdp : ht.bpm_.FetchDirectory dpid = some dp)
    (hbp : ht.bpm_.FetchBucket bpid = some bp)
    (hsound : sp.directory.Sound ht.directory_max_depth_)
    (hpids : sp.directory.PidsIn
      (fun p => (ht.bpm_.FetchBucket p).isSome = true ∨ p = (ht.bpm_.length : Int)))
    (hev : ∀ c, Evolves ht.bpm_ sp.bpm c)
    (hnew : (sp.bpm.FetchBucket (ht.bpm_.length : Int)).isSome = true)
    {s1 : PageStore K V}
    (hs1 : s1 = (sp.bpm.Write dpid (PageData.directory sp.directory)).Write bpid
      (PageData.bucket sp.bucket)) :
    TableOK { ht with bpm_ := s1 } ∧ s1.FetchHeader ht.header_page_id_ = some hp ∧
    s1.FetchDirectory dpid = some sp.directory := by
  have hfh := FetchHeader_iff.1 hhp
  have hfd := FetchDirectory_iff.1 hdp
  have hfb := FetchBucket_iff.1 hbp
  have hne : ht.header_page_id_ ≠ dpid := kinds_ne hfh hfd (by simp [kindOf])
  have hbd : bpid ≠ dpid := kinds_ne hfb hfd (by simp [kindOf])
  obtain ⟨q1, hq1, hk1⟩ := (hev dpid).fetch_kind hfd
  have e1 : Evolves sp.bpm (sp.bpm.Write dpid (PageData.directory sp.directory)) dpid :=
    Evolves.write _ dpid hq1 (by rw [hk1]; rfl) (fun _ => rfl)
  obtain ⟨q2, hq2, hk2⟩ := ((hev dpid).step e1).fetch_kind hfb
  have e2 : Evolves sp.bpm s1 dpid := by
    rw [hs1]
    exact e1.write_at _ hq2 (by rw [hk2]; rfl) (fun hx => absurd (by rw [hk2]; rfl) hx)
  have e3 := (hev dpid).step e2
  have hdir : s1.FetchDirectory dpid = some sp.directory := by
    rw [hs1, FetchDirectory_iff, Fetch_Write_ne _ hbd]
    have hl := Fetch_lt hq1
    exact Fetch_Write_same _ hl.1 hl.2
  refine ⟨TableOK.of_evolves hok e3 hne ?_, e3.header hhp hne, hdir⟩
  intro _ _
  refine ⟨sp.directory, hdir, hsound, ?_⟩
  intro i p hi hpi
  rcases hpids i p hi hpi with hx | hx | hx
  · exact Or.inl hx
  · exact Or.inr (e3.isBucket hx)
  · right
    rw [hx]
    exact e2.isBucket hnew

end DiskExtendibleHashTable

namespace DiskExtendibleHashTable
open ExtendibleHTableDirectoryPage PageStore
variable {K V : Type} [DecidableEq K]

/-- One call of `Insert` on a well-formed table. Either it returns without recursing and
leaves a well-formed table; or it reaches the recursive call with a well-formed table in
which the local depth of the key's slot has gone up by one and is at most the global
depth; or it does not return, which happens only when the key's slot has a local depth
below the global depth and the directory is at its maximum depth (the increment of line
133 falls outside the arrays). -/
theorem TableOK.insertCall_cases {ht : DiskExtendibleHashTable K V} (hok : TableOK ht)
    (hash_fn_ : K → Nat) (key : K) (value : V) :
    (∃ r s1, insertCall hash_fn_ ht key value = some (Sum.inl r) ∧
        r.2 = { ht with bpm_ := s1 } ∧ TableOK { ht with bpm_ := s1 }) ∨
    (∃ s1 gd ld gd1, insertCall hash_fn_ ht key value = some (Sum.inr { ht with bpm_ := s1 }) ∧
        TableOK { ht with bpm_ := s1 } ∧
        keyDepths hash_fn_ ht key = some (gd, ld) ∧
        keyDepths hash_fn_ { ht with bpm_ := s1 } key = some (gd1, ld + 1) ∧
        ld + 1 ≤ gd1 ∧ gd1 ≤ ht.directory_max_depth_ ∧
        (ld = gd → gd1 = gd + 1) ∧ (ld ≠ gd → gd1 = gd)) ∨
    (insertCall hash_fn_ ht key value = none ∧
      (∃ x, secondIncrement hash_fn_ ht key value = some x ∧ x.2.2 ≤ x.2.1) ∧
      ∃ gd ld, keyDepths hash_fn_ ht key = some (gd, ld) ∧ ld ≠ gd ∧
        ht.directory_max_depth_ ≤ gd) := by
  obtain ⟨hp, dpid, hhp, hdpid, hrest⟩ := hok.path hash_fn_ key
  obtain ⟨found, hfound⟩ := hok.getValue_defined hash_fn_ key
  unfold insertCall
  simp only [hfound, Option.some_bind]
  by_cases hf : found.isSome = true
  · rw [if_pos hf]
    left
    exact ⟨(false, ht), ht.bpm_, rfl, rfl, hok⟩
  rw [if_neg hf]
  simp only [hhp, hdpid, Option.some_bind]
  by_cases hv : dpid = INVALID_PAGE_ID
  · rw [if_pos hv]
    left
    have hdi : hp.HashToDirectoryIndex (Hash hash_fn_ key) < hp.directory_page_ids_.length := by
      unfold ExtendibleHTableHeaderPage.GetDirectoryPageId arrGet at hdpid
      exact (List.getElem?_eq_some_iff.1 hdpid).1
    obtain ⟨r, hr⟩ := InsertToNewDirectory_defined ht hp (Hash hash_fn_ key) key value hdi
    rw [hr]
    obtain ⟨s1, hs1, hok1⟩ := hok.insertToNewDirectory hhp hr
    exact ⟨r, s1, rfl, hs1, hok1⟩
  rw [if_neg hv]
  obtain ⟨dp, bpid, ld, hdp, hdok, hbpid, hld, hldle, hb⟩ := hrest hv
  simp only [hdp, hbpid, Option.some_bind]
  by_cases hbv : bpid = INVALID_PAGE_ID
  · rw [if_pos hbv]
    left
    have hbi : dp.HashToBucketIndex (Hash hash_fn_ key) < dp.bucket_page_ids_.length := by
      unfold GetBucketPageId arrGet at hbpid
      exact (List.getElem?_eq_some_iff.1 hbpid).1
    obtain ⟨r, hr⟩ := InsertToNewBucket_defined ht dpid dp key value hbi
    rw [hr]
    obtain ⟨s1, hs1, hok1⟩ := hok.insertToNewBucket hdp hdok hr
    exact ⟨r, s1, rfl, hs1, hok1⟩
  rw [if_neg hbv]
  obtain ⟨bp, hbp⟩ := hb hbv
  simp only [hbp, Option.some_bind]
  by_cases hins : (bp.Insert key value).1 = true
  · rw [if_pos hins]
    left
    exact ⟨_, _, rfl, rfl, hok.write_bucket hbp _⟩
  rw [if_neg hins]
  simp only [hld, Option.some_bind]
  by_cases hmax : ld = dp.global_depth_ ∧ dp.global_depth_ ≥ dp.max_depth_
  · rw [if_pos hmax]
    left
    exact ⟨(false, ht), ht.bpm_, rfl, rfl, hok⟩
  rw [if_neg hmax]
  have hkd := keyDepths_eq hash_fn_ key hhp hdpid hv hdp hld
  have hld' : dp.local_depths_[dp.HashToBucketIndex (Hash hash_fn_ key)]? = some ld := hld
  rcases incr_spec hdok.1 hdok.2 (Hash hash_fn_ key) hld' hmax with
    ⟨d1, d2, d3, h1, h2, h3, hs3, hp3, hg1, hg2, hle3, hv3, hv3'⟩ |
    ⟨d2, h1, h2, h3, hne, hD⟩
  · simp only [h1, h2, h3, Option.some_bind]
    have hgd3 : d3.global_depth_ = dp.global_depth_ ∨ d3.global_depth_ = dp.global_depth_ + 1 := by
      by_cases hx : ld = dp.global_depth_
      · exact Or.inr (hg1 hx)
      · exact Or.inl (hg2 hx)
    have hidx3 : dp.HashToBucketIndex (Hash hash_fn_ key) < 2 ^ d3.global_depth_ := by
      have := HashToBucketIndex_lt dp (Hash hash_fn_ key)
      have hmono : 2 ^ dp.global_depth_ ≤ 2 ^ d3.global_depth_ :=
        Nat.pow_le_pow_right (by decide) (by omega)
      omega
    obtain ⟨sp, hsp, hsound, hpids, hgdsp, hldsp, hev, hnew⟩ :=
      SplitBucket_spec hash_fn_ ht hs3 hp3 bp hidx3 hv3 (by omega)
    simp only [hsp, Option.some_bind]
    obtain ⟨hok1, hhp1, hdp1⟩ := hok.after_split sp hhp hdp hbp hsound hpids hev hnew rfl
    by_cases hokb : sp.ok = true
    · rw [if_pos hokb]
      right
      left
      refine ⟨_, dp.global_depth_, ld, sp.directory.global_depth_, rfl, hok1, hkd, ?_, ?_, ?_,
        ?_, ?_⟩
      · refine keyDepths_eq hash_fn_ key hhp1 hdpid hv hdp1 ?_
        have hx := hldsp (d3.HashToBucketIndex (Hash hash_fn_ key)) hv3'
        have hy : sp.directory.HashToBucketIndex (Hash hash_fn_ key) =
            d3.HashToBucketIndex (Hash hash_fn_ key) := by
          rw [HashToBucketIndex_eq, HashToBucketIndex_eq, hgdsp]
        unfold GetLocalDepth arrGet
        rw [hy]
        exact hx
      · rw [hgdsp]; exact hle3
      · exact hsound.gd_le
      · intro hx; rw [hgdsp]; exact hg1 hx
      · intro hx; rw [hgdsp]; exact hg2 hx
    · rw [if_neg hokb]
      left
      exact ⟨_, _, rfl, rfl, hok1⟩
  · simp only [h1, h2, h3, Option.some_bind, Option.none_bind]
    right
    right
    refine ⟨trivial, ?_, dp.global_depth_, ld, hkd, hne, hD⟩
    obtain ⟨v, -, hd2eq⟩ := IncrLocalDepth_eq h2
    refine ⟨(d2.global_depth_, dp.HashToBucketIndex (Hash hash_fn_ key) + 1 <<< dp.global_depth_,
      d2.local_depths_.length), ?_, ?_⟩
    · unfold secondIncrement
      simp only [hfound, hhp, hdpid, hdp, hbpid, hbp, hld, h1, h2, Option.some_bind, if_neg hf,
        if_neg hv, if_neg hbv, if_neg hins, if_neg hmax]
    · show d2.local_depths_.length ≤ _
      rw [hd2eq]
      show (dp.local_depths_.set _ _).length ≤ _
      rw [List.length_set, hdok.1.len_ld, Nat.one_shiftLeft]
      have hmono : 2 ^ ht.directory_max_depth_ ≤ 2 ^ dp.global_depth_ :=
        Nat.pow_le_pow_right (by decide) hD
      show 2 ^ ht.directory_max_depth_ ≤
        dp.HashToBucketIndex (Hash hash_fn_ key) + 2 ^ dp.global_depth_
      omega

end DiskExtendibleHashTable

namespace DiskExtendibleHashTable
open ExtendibleHTableDirectoryPage PageStore
variable {K V : Type} [DecidableEq K]

/-- A call of `Insert` that returns leaves a well-formed table with the same parameters. -/
theorem TableOK.of_insert (hash_fn_ : K → Nat) (key : K) (value : V) :
    ∀ (fuel : Nat) (ht : DiskExtendibleHashTable K V) (r : Bool × DiskExtendibleHashTable K V),
      TableOK ht → Insert hash_fn_ fuel ht key value = some r →
      ∃ s1, r.2 = { ht with bpm_ := s1 } ∧ TableOK { ht with bpm_ := s1 } := by
  intro fuel
  induction fuel with
  | zero =>
    intro ht r _ h
    simp [Insert] at h
  | succ n ih =>
    intro ht r hok h
    rw [Insert_succ] at h
    rcases hok.insertCall_cases hash_fn_ key value with
      ⟨r1, s1, hc, hr1, hok1⟩ | ⟨s1, gd, ld, gd1, hc, hok1, -⟩ | ⟨hc, -⟩
    · rw [hc] at h
      simp only [Option.some_bind] at h
      cases h
      exact ⟨s1, hr1, hok1⟩
    · rw [hc] at h
      simp only [Option.some_bind] at h
      obtain ⟨s2, hr2, hok2⟩ := ih _ r hok1 h
      exact ⟨s2, hr2, hok2⟩
    · rw [hc] at h
      simp at h

/-- On a well-formed table `Insert` returns when it may make as many nested calls as the
directory maximum depth exceeds the local depth of the key's slot, unless one of these
calls reaches line 133 with an index outside the directory arrays. -/
theorem TableOK.insert_returns_or_stray (hash_fn_ : K → Nat) (key : K) (value : V) :
    ∀ (n : Nat) (ht : DiskExtendibleHashTable K V), TableOK ht →
      nestedCallBound hash_fn_ ht key ≤ n →
      (∃ r, Insert hash_fn_ (n + 1) ht key value = some r) ∨
        incrementOutOfRange hash_fn_ (n + 1) ht key value = true := by
  intro n
  induction n with
  | zero =>
    intro ht hok hb
    rw [Insert_succ]
    rcases hok.insertCall_cases hash_fn_ key value with
      ⟨r1, s1, hc, -⟩ | ⟨s1, gd, ld, gd1, hc, hok1, hk, hk1, hle, hD, -⟩ |
      ⟨hc, ⟨x, hx, hxle⟩, -⟩
    · rw [hc]
      exact Or.inl ⟨r1, rfl⟩
    · exfalso
      unfold nestedCallBound at hb
      rw [hk] at hb
      have hb1 : ht.directory_max_depth_ - ld ≤ 0 := hb
      omega
    · right
      simp only [incrementOutOfRange, hx, hc, decide_eq_true hxle, Bool.true_or]
  | succ m ih =>
    intro ht hok hb
    rw [Insert_succ]
    rcases hok.insertCall_cases hash_fn_ key value with
      ⟨r1, s1, hc, -⟩ | ⟨s1, gd, ld, gd1, hc, hok1, hk, hk1, hle, hD, -⟩ |
      ⟨hc, ⟨x, hx, hxle⟩, -⟩
    · rw [hc]
      exact Or.inl ⟨r1, rfl⟩
    · rw [hc]
      simp only [Option.some_bind]
      unfold nestedCallBound at hb
      rw [hk] at hb
      have hb1 : ht.directory_max_depth_ - ld ≤ m + 1 := hb
      have hb2 : nestedCallBound hash_fn_
          ({ ht with bpm_ := s1 } : DiskExtendibleHashTable K V) key ≤ m := by
        unfold nestedCallBound
        rw [hk1]
        show ht.directory_max_depth_ - (ld + 1) ≤ m
        omega
      rcases ih _ hok1 hb2 with h1 | h1
      · exact Or.inl h1
      · right
        rw [incrementOutOfRange, hc]
        simp only [h1, Bool.or_true]
    · right
      rw [incrementOutOfRange]
      simp only [hx, hc, decide_eq_true hxle, Bool.true_or]

end DiskExtendibleHashTable

namespace DiskExtendibleHashTable
open ExtendibleHTableDirectoryPage PageStore
variable {K V : Type} [DecidableEq K]

/-- The loop of `UpdateDirectoryMapping` keeps a directory sound and its slots inside `ok`
when the local depth it stores is at most the global depth and the page id it stores
satisfies `ok`. -/
theorem updateMappingLoop_keeps {D : Nat} {ok : Int → Prop} (new_bucket_idx : Nat)
    (new_bucket_page_id : Int) (new_local_depth local_depth_mask : Nat)
    (hp : new_bucket_page_id = INVALID_PAGE_ID ∨ ok new_bucket_page_id) :
    ∀ (l : List Nat) (d d1 : ExtendibleHTableDirectoryPage), d.Sound D → d.PidsIn ok →
      new_local_depth ≤ d.global_depth_ →
      updateMappingLoop new_bucket_idx new_bucket_page_id new_local_depth local_depth_mask l d
        = some d1 →
      d1.Sound D ∧ d1.PidsIn ok ∧ d1.global_depth_ = d.global_depth_ := by
  intro l
  induction l with
  | nil =>
    intro d d1 hs hpi _ h
    simp only [updateMappingLoop] at h
    cases h
    exact ⟨hs, hpi, rfl⟩
  | cons i rest ih =>
    intro d d1 hs hpi hle h
    simp only [updateMappingLoop] at h
    obtain ⟨pi, -, h⟩ := Option.bind_eq_some.1 h
    obtain ⟨pn, -, h⟩ := Option.bind_eq_some.1 h
    by_cases hpp : pi = pn
    · rw [if_pos hpp] at h
      by_cases hm : i &&& local_depth_mask ≠ 0
      · rw [if_pos hm] at h
        obtain ⟨da, hda, h⟩ := Option.bind_eq_some.1 h
        obtain ⟨db, hdb, h⟩ := Option.bind_eq_some.1 h
        obtain ⟨-, hdaeq⟩ := SetBucketPageId_eq hda
        have hsa : da.Sound D := by rw [hdaeq]; exact hs.set_pid i new_bucket_page_id
        have hpa : da.PidsIn ok := by rw [hdaeq]; exact hpi.put_pid i new_bucket_page_id hp
        have hga : da.global_depth_ = d.global_depth_ := by rw [hdaeq]
        obtain ⟨-, hdbeq⟩ := SetLocalDepth_eq hdb
        have hsb : db.Sound D := by
          rw [hdbeq]; exact hsa.set_ld i new_local_depth (fun _ => by rw [hga]; exact hle)
        have hpb : db.PidsIn ok := by rw [hdbeq]; exact hpa.put_ld i new_local_depth
        have hgb : db.global_depth_ = d.global_depth_ := by rw [hdbeq]; exact hga
        obtain ⟨h1, h2, h3⟩ := ih db d1 hsb hpb (by rw [hgb]; exact hle) h
        exact ⟨h1, h2, by rw [h3, hgb]⟩
      · rw [if_neg hm] at h
        obtain ⟨db, hdb, h⟩ := Option.bind_eq_some.1 h
        obtain ⟨-, hdbeq⟩ := SetLocalDepth_eq hdb
        have hsb : db.Sound D := by
          rw [hdbeq]; exact hs.set_ld i new_local_depth (fun _ => hle)
        have hpb : db.PidsIn ok := by rw [hdbeq]; exact hpi.put_ld i new_local_depth
        have hgb : db.global_depth_ = d.global_depth_ := by rw [hdbeq]
        obtain ⟨h1, h2, h3⟩ := ih db d1 hsb hpb (by rw [hgb]; exact hle) h
        exact ⟨h1, h2, by rw [h3, hgb]⟩
    · rw [if_neg hpp] at h
      exact ih d d1 hs hpi hle h

theorem mergeUpdateLoop_keeps {D : Nat} {ok : Int → Prop} (check_page_id : Int)
    (local_depth mask_idx : Nat)
    (hp : check_page_id = INVALID_PAGE_ID ∨ ok check_page_id) :
    ∀ (l : List Nat) (d d1 : ExtendibleHTableDirectoryPage), d.Sound D → d.PidsIn ok →
      local_depth ≤ d.global_depth_ →
      mergeUpdateLoop check_page_id local_depth mask_idx l d = some d1 →
      d1.Sound D ∧ d1.PidsIn ok ∧ d1.global_depth_ = d.global_depth_ := by
  intro l
  induction l with
  | nil =>
    intro d d1 hs hpi _ h
    simp only [mergeUpdateLoop] at h
    cases h
    exact ⟨hs, hpi, rfl⟩
  | cons i rest ih =>
    intro d d1 hs hpi hle h
    simp only [mergeUpdateLoop] at h
    obtain ⟨da, hda, h⟩ := Option.bind_eq_some.1 h
    unfold UpdateDirectoryMapping at hda
    obtain ⟨hsa, hpa, hga⟩ := updateMappingLoop_keeps _ check_page_id local_depth 0 hp _ d da
      hs hpi hle hda
    obtain ⟨h1, h2, h3⟩ := ih da d1 hsa hpa (by rw [hga]; exact hle) h
    exact ⟨h1, h2, by rw [h3, hga]⟩

/-- The merge loop of `Remove` leaves the store as it is and keeps the directory sound. -/
theorem mergeLoop_keeps {K V : Type} {D : Nat} (bucket_index global_depth : Nat) (bpm : PageStore K V) :
    ∀ (fuel local_depth : Nat) (check_page_id : Int) (d : ExtendibleHTableDirectoryPage)
      (m : ExtendibleHTableDirectoryPage × PageStore K V),
      d.Sound D → d.PidsIn (fun p => (bpm.FetchBucket p).isSome = true) →
      d.global_depth_ = global_depth →
      mergeLoop bucket_index global_depth fuel local_depth check_page_id d bpm = some m →
      m.2 = bpm ∧ m.1.Sound D ∧ m.1.PidsIn (fun p => (bpm.FetchBucket p).isSome = true) ∧
        m.1.global_depth_ = global_depth := by
  intro fuel
  induction fuel with
  | zero =>
    intro local_depth check_page_id d m hs hpi hg h
    unfold mergeLoop at h
    by_cases h0 : local_depth = 0
    · rw [if_pos h0] at h
      cases h
      exact ⟨rfl, hs, hpi, hg⟩
    · rw [if_neg h0] at h
      cases h
  | succ n ih =>
    intro local_depth check_page_id d m hs hpi hg h
    unfold mergeLoop at h
    by_cases h0 : local_depth = 0
    · rw [if_pos h0] at h
      cases h
      exact ⟨rfl, hs, hpi, hg⟩
    rw [if_neg h0] at h
    simp only at h
    obtain ⟨mld, -, h⟩ := Option.bind_eq_some.1 h
    obtain ⟨mpid, -, h⟩ := Option.bind_eq_some.1 h
    obtain ⟨mpage, hmpage, h⟩ := Option.bind_eq_some.1 h
    obtain ⟨cpage, hcpage, h⟩ := Option.bind_eq_some.1 h
    by_cases hbr : mld ≠ local_depth ∨ (!cpage.IsEmpty && !mpage.IsEmpty) = true
    · rw [if_pos hbr] at h
      cases h
      exact ⟨rfl, hs, hpi, hg⟩
    rw [if_neg hbr] at h
    obtain ⟨da, hda, h⟩ := Option.bind_eq_some.1 h
    obtain ⟨ld1, hld1, h⟩ := Option.bind_eq_some.1 h
    obtain ⟨lmask, -, h⟩ := Option.bind_eq_some.1 h
    by_cases hgl : global_depth < ld1
    · rw [if_pos hgl] at h
      cases h
    rw [if_neg hgl] at h
    obtain ⟨db, hdb, h⟩ := Option.bind_eq_some.1 h
    obtain ⟨v, hv, hdaeq⟩ := DecrLocalDepth_eq hda
    have hga : da.global_depth_ = d.global_depth_ := by rw [hdaeq]
    have hsa : da.Sound D := by
      rw [hdaeq]
      refine hs.set_ld bucket_index (v - 1) (fun hlt => ?_)
      have := hs.ld_le bucket_index v hlt hv
      omega
    have hpa : da.PidsIn (fun p => (bpm.FetchBucket p).isSome = true) := by
      rw [hdaeq]; exact hpi.put_ld bucket_index (v - 1)
    have hcp : (if cpage.IsEmpty = true then mpid else check_page_id) = INVALID_PAGE_ID ∨
        (bpm.FetchBucket (if cpage.IsEmpty = true then mpid else check_page_id)).isSome
          = true := by
      right
      split_ifs
      · rw [hmpage]; rfl
      · rw [hcpage]; rfl
    obtain ⟨hsb, hpb, hgb⟩ := mergeUpdateLoop_keeps _ ld1 _ hcp _ da db hsa hpa
      (by rw [hga, hg]; omega) hdb
    have hstore : (if cpage.IsEmpty = true then bpm.DeletePage check_page_id
        else bpm.DeletePage mpid) = bpm := by
      split_ifs <;> rfl
    rw [hstore] at h
    exact ih ld1 _ db m hsb hpb (by rw [hgb, hga, hg]) h

theorem CanShrink_lt (d : ExtendibleHTableDirectoryPage) (h : d.CanShrink = true)
    (i ld : Nat) (hi : i < 2 ^ d.global_depth_) (hld : d.local_depths_[i]? = some ld) :
    ld < d.global_depth_ := by
  unfold CanShrink at h
  rw [List.all_eq_true] at h
  have hmem : ld ∈ d.local_depths_.take (1 <<< d.global_depth_) := by
    rw [List.mem_iff_getElem?]
    refine ⟨i, ?_⟩
    rw [List.getElem?_take]
    rw [if_pos (by rw [Nat.one_shiftLeft]; exact hi)]
    exact hld
  simpa using h ld hmem

/-- The shrink loop of `Remove` keeps the directory sound. -/
theorem shrinkLoop_keeps {D : Nat} {ok : Int → Prop} :
    ∀ (fuel : Nat) (d : ExtendibleHTableDirectoryPage), d.Sound D → d.PidsIn ok →
      (shrinkLoop fuel d).Sound D ∧ (shrinkLoop fuel d).PidsIn ok := by
  intro fuel
  induction fuel with
  | zero =>
    intro d hs hpi
    exact ⟨hs, hpi⟩
  | succ n ih =>
    intro d hs hpi
    unfold shrinkLoop
    by_cases hc : d.CanShrink = true
    · rw [if_pos hc]
      have hpos : 0 < d.global_depth_ := by
        have hlen : 0 < d.local_depths_.length := by
          rw [hs.len_ld]; exact Nat.pos_pow_of_pos _ (by decide)
        have h0 := CanShrink_lt d hc 0 _ (Nat.pos_pow_of_pos _ (by decide))
          (List.getElem?_eq_getElem hlen)
        omega
      have hmono : 2 ^ (d.global_depth_ - 1) ≤ 2 ^ d.global_depth_ :=
        Nat.pow_le_pow_right (by decide) (by omega)
      refine ih d.DecrGlobalDepth ?_ ?_
      · constructor
        · exact hs.max
        · show d.global_depth_ - 1 ≤ D
          have := hs.gd_le
          omega
        · exact hs.len_ld
        · exact hs.len_pid
        · intro i ld hi hld
          have hi1 : i < 2 ^ (d.global_depth_ - 1) := hi
          have := CanShrink_lt d hc i ld (by omega) hld
          show ld ≤ d.global_depth_ - 1
          omega
      · intro i p hi hp
        have hi1 : i < 2 ^ (d.global_depth_ - 1) := hi
        exact hpi i p (by omega) hp
    · rw [if_neg hc]
      exact ⟨hs, hpi⟩

end DiskExtendibleHashTable

namespace DiskExtendibleHashTable
open ExtendibleHTableDirectoryPage PageStore
variable {K V : Type} [DecidableEq K]

/-- A call of `Remove` that returns leaves a well-formed table with the same parameters. -/
theorem TableOK.of_remove (hash_fn_ : K → Nat) {ht : DiskExtendibleHashTable K V}
    (hok : TableOK ht) (key : K) {r : Bool × DiskExtendibleHashTable K V}
    (h : Remove hash_fn_ ht key = some r) :
    ∃ s1, r.2 = { ht with bpm_ := s1 } ∧ TableOK { ht with bpm_ := s1 } := by
  unfold Remove at h
  simp only at h
  obtain ⟨hp, hhp, h⟩ := Option.bind_eq_some.1 h
  obtain ⟨dpid, hdpid, h⟩ := Option.bind_eq_some.1 h
  by_cases hv : dpid = INVALID_PAGE_ID
  · rw [if_pos hv] at h
    cases h
    exact ⟨ht.bpm_, rfl, hok⟩
  rw [if_neg hv] at h
  obtain ⟨dp, hdp, h⟩ := Option.bind_eq_some.1 h
  obtain ⟨bpid, hbpid, h⟩ := Option.bind_eq_some.1 h
  by_cases hbv : bpid = INVALID_PAGE_ID
  · rw [if_pos hbv] at h
    cases h
    exact ⟨ht.bpm_, rfl, hok⟩
  rw [if_neg hbv] at h
  obtain ⟨bp, hbp, h⟩ := Option.bind_eq_some.1 h
  by_cases hrem : (!(bp.Remove key).1) = true
  · rw [if_pos hrem] at h
    cases h
    exact ⟨ht.bpm_, rfl, hok⟩
  rw [if_neg hrem] at h
  obtain ⟨ld, hld, h⟩ := Option.bind_eq_some.1 h
  obtain ⟨m, hm, h⟩ := Option.bind_eq_some.1 h
  cases h
  refine ⟨_, rfl, ?_⟩
  have hfh := FetchHeader_iff.1 hhp
  have hfd := FetchDirectory_iff.1 hdp
  have hfb := FetchBucket_iff.1 hbp
  have hne : ht.header_page_id_ ≠ dpid := kinds_ne hfh hfd (by simp [kindOf])
  have hbd : bpid ≠ dpid := kinds_ne hfb hfd (by simp [kindOf])
  obtain ⟨hh, hhh, hlen, hdirs⟩ := hok
  have hdok : DirOK ht.bpm_ ht.directory_max_depth_ dp := by
    rw [hhp] at hhh
    cases hhh
    unfold ExtendibleHTableHeaderPage.GetDirectoryPageId arrGet at hdpid
    obtain ⟨d, hd, hdo⟩ := hdirs _ dpid hdpid hv
    rw [hdp] at hd
    cases hd
    exact hdo
  have e1 : Evolves ht.bpm_ (ht.bpm_.Write bpid (PageData.bucket (bp.Remove key).2)) dpid :=
    Evolves.write _ dpid hfb rfl (fun hx => absurd rfl hx)
  have hdok1 := hdok.evolve e1
  obtain ⟨hm2, hms, hmp, -⟩ := mergeLoop_keeps (D := ht.directory_max_depth_) _ _ _ _ _ _ dp m
    hdok1.1 hdok1.2 rfl hm
  obtain ⟨hss, hsp⟩ := shrinkLoop_keeps m.1.global_depth_ m.1 hms hmp
  obtain ⟨q1, hq1, hk1⟩ := e1.fetch_kind hfd
  rw [hm2]
  have e2 := e1.write_at (PageData.directory (shrinkLoop m.1.global_depth_ m.1)) hq1
    (by rw [hk1]; rfl) (fun _ => rfl)
  refine TableOK.of_evolves ⟨hh, hhh, hlen, hdirs⟩ e2 hne ?_
  intro _ _
  have hl := Fetch_lt hq1
  refine ⟨_, FetchDirectory_iff.2 (Fetch_Write_same _ hl.1 hl.2), hss, ?_⟩
  exact hsp.weaken (fun p hp => (Evolves.write (c := dpid) _ hq1 (by rw [hk1]; rfl)
    (fun _ => rfl)).isBucket hp)

/-- The constructor leaves a well-formed table: the header page has no directory page. -/
theorem TableOK.of_constructor {K V : Type} (bpm : PageStore K V) (H D B : Nat) :
    TableOK (DiskExtendibleHashTable.new bpm H D B) := by
  refine ⟨ExtendibleHTableHeaderPage.Init H, ?_, ?_, ?_⟩
  · show (bpm ++ [PageData.header (ExtendibleHTableHeaderPage.Init H)]).FetchHeader
      (bpm.length : Int) = _
    rw [FetchHeader_iff]
    exact Fetch_append_length _ _
  · show (List.replicate (1 <<< H) INVALID_PAGE_ID).length = 2 ^ H
    rw [List.length_replicate, Nat.one_shiftLeft]
  · intro i p hp hv
    have h1 : (List.replicate (1 <<< H) INVALID_PAGE_ID)[i]? = some p := hp
    rw [List.getElem?_replicate] at h1
    split_ifs at h1
    cases h1
    exact absurd rfl hv

/-- Every table reached from the constructor by client calls is well formed and has the
directory maximum depth given to the constructor. -/
theorem TableOK.of_run (hash_fn_ : K → Nat) (fuel : Nat) :
    ∀ (ops : List (HashOp K V)) (ht : DiskExtendibleHashTable K V)
      (r : List Bool × DiskExtendibleHashTable K V),
      TableOK ht → run hash_fn_ fuel ht ops = some r →
      TableOK r.2 ∧ r.2.directory_max_depth_ = ht.directory_max_depth_ := by
  intro ops
  induction ops with
  | nil =>
    intro ht r hok h
    simp only [run] at h
    cases h
    exact ⟨hok, rfl⟩
  | cons op rest ih =>
    intro ht r hok h
    simp only [run] at h
    obtain ⟨r1, hr1, h⟩ := Option.bind_eq_some.1 h
    obtain ⟨rs, hrs, hrr⟩ := Option.map_eq_some'.1 h
    have hstep : ∃ s1, r1.2 = { ht with bpm_ := s1 } ∧ TableOK { ht with bpm_ := s1 } := by
      cases op with
      | Insert key value => exact TableOK.of_insert hash_fn_ key value fuel ht r1 hok hr1
      | Remove key => exact hok.of_remove hash_fn_ key hr1
    obtain ⟨s1, hs1, hok1⟩ := hstep
    rw [hs1] at hrs
    obtain ⟨h1, h2⟩ := ih _ rs hok1 hrs
    rw [← hrr]
    exact ⟨h1, h2⟩

end DiskExtendibleHashTable

section HashIndexClaims2
open DiskExtendibleHashTable HashOp

/-- C27 (the code at a failing input): bucket size 1, identity hash, keys 0 and 1 inserted:
global depth 1, slot 0 refers to page 2 (key 0) and slot 1 to page 3 (key 1), both with
local depth 1. `Remove(0)` empties page 2 and performs one merge step for bucket index 0:
the sibling slot 1 has the same local depth and page 2 is empty, so page 3 survives. After
the step the decremented local depth is 0, both slots have local depth 0, but slot 0 still
refers to page 2: `UpdateDirectoryMapping` is called with mask 0 and never writes a page
id. -/
theorem C27_merge_keeps_emptied_page :
    (tableTwo.bpm_.FetchDirectory 1).map
      (fun d => (d.global_depth_, d.local_depths_.take 2, d.bucket_page_ids_.take 2)) =
      some (1, [1, 1], [2, 3]) ∧
    (tableTwo.bpm_.FetchBucket 2).map (fun b => b.array_) = some [(0, 100)] ∧
    (tableTwo.bpm_.FetchBucket 3).map (fun b => b.array_) = some [(1, 101)] ∧
    ((tableTwo.bpm_.FetchDirectory 1).bind fun d =>
      mergeLoop 0 d.global_depth_ 1 1 2 d
        (tableTwo.bpm_.Write 2 (PageData.bucket { max_size_ := 1, array_ := [] }))).map
      (fun m => (m.1.global_depth_, m.1.local_depths_.take 2, m.1.bucket_page_ids_.take 2)) =
      some (1, [0, 0], [2, 3]) ∧
    ((Remove idHash tableTwo 0).bind fun r => r.2.bpm_.FetchDirectory 1).map
      (fun d => (d.global_depth_, d.local_depths_.take 2, d.bucket_page_ids_.take 2)) =
      some (0, [0, 0], [2, 3]) := by
  decide!

/-- C28 (the code at a failing input): pool of 8 frames, `k = 2`, with the pages of
`tableTwo` (header 0, directory 1, buckets 2 and 3), at the point where `Remove(0)` enters
its merge loop: page 2, the emptied bucket, is pinned once by `check_guard`. The merge
step fetches page 3 and calls `DeletePage(2)` while `check_guard` is still alive, so the
call returns false and page 2 stays in the page table. In the other branch (check page not
empty) `DeletePage(3)` is called while `merge_guard` is alive and returns false as well. -/
theorem C28_merge_delete_refused :
    BufferPoolManager.poolBeforeMerge.page_table_ = [(0, 7), (1, 6), (2, 5), (3, 4)] ∧
    (BufferPoolManager.poolBeforeMerge.getPage 5).map (fun pg => (pg.page_id_, pg.pin_count_)) = some (2, 1) ∧
    (BufferPoolManager.poolBeforeMerge.mergeStepCalls 2 3 true).map
      (fun x => (x.1, x.2.1, assocFind x.2.2.page_table_ 2, assocFind x.2.2.page_table_ 3)) =
      some (false, 2, some 5, some 4) ∧
    (BufferPoolManager.poolBeforeMerge.mergeStepCalls 2 3 false).map
      (fun x => (x.1, x.2.1, assocFind x.2.2.page_table_ 2, assocFind x.2.2.page_table_ 3)) =
      some (false, 3, some 5, some 4) := by
  decide!

/-- C29 (the code at a failing input): bucket size 1, directory maximum depth 6, identity
hash, keys 4, 0, 15, 17, 5, 7 inserted (every insert returns true). `Insert(21)` finds the
bucket of slot 21, page 7, full: it holds `(5, 105)`. `SplitBucket` is called for bucket
index 21 and returns true with the new split page 13, but `(5, 105)` is in neither bucket
afterwards: the directory gives page 10 for hash 5, which is neither page 7 nor page 13,
and the loop of lines 178-186 re-inserts such an entry nowhere. `Insert(21)` returns true
and no bucket page holds key 5 any more. -/
theorem C29_split_drops_entry :
    (run idHash 8 (emptyTable 6 1)
      [Insert 4 104, Insert 0 100, Insert 15 115, Insert 17 117, Insert 5 105,
       Insert 7 107]).map (fun r => r.1) = some [true, true, true, true, true, true] ∧
    (splitBucketArgs idHash tableSix 21 121).map
      (fun a => (a.2.1.array_, a.2.2.1, a.2.2.2)) = some ([(5, 105)], 21, 7) ∧
    ((splitBucketArgs idHash tableSix 21 121).bind
      fun a => SplitBucket idHash tableSix a.1 a.2.1 a.2.2.1).map
      (fun sp => (sp.ok, sp.bucket.array_)) = some (true, []) ∧
    ((splitBucketArgs idHash tableSix 21 121).bind
      fun a => SplitBucket idHash tableSix a.1 a.2.1 a.2.2.1).bind
      (fun sp => (sp.bpm.FetchBucket 13).map (fun b => b.array_)) = some [] ∧
    ((splitBucketArgs idHash tableSix 21 121).bind
      fun a => SplitBucket idHash tableSix a.1 a.2.1 a.2.2.1).bind
      (fun sp => sp.directory.GetBucketPageId 5) = some 10 ∧
    (Insert idHash 8 tableSix 21 121).map (fun r => (r.1, allEntries r.2)) =
      some (true, [[(0, 100)], [(7, 107)], [], [(4, 104)], [], [(21, 121)], [], [(17, 117)],
        [], [], [(15, 115)], []]) := by
  decide!

end HashIndexClaims2

section HashIndexClaims3
open DiskExtendibleHashTable HashOp

/-- The recursion of `Insert` at concrete inputs, the index on a pool that keeps every page
resident unless said otherwise. (1) Bucket size 1, directory maximum depth 3, identity hash, keys 0,
2, 1 inserted: the global depth is 2 and the bucket of slots 1 and 3 has local depth 1.
`Insert(5)` needs two nested recursive calls (one split at local depth 1, one at local depth
2 that doubles the directory), although the directory maximum depth minus the global depth
is 1: with fuel for the outermost call and one nested call the embedding runs out of fuel,
with fuel for two nested calls it returns true. (2) The same keys with directory maximum
depth 2: the outermost call of `Insert(5)` reaches line 133 with index 5 of 4, so the call
has no defined result whatever the fuel. (3) Directory maximum depth 3, bucket size 1, on a
buffer pool of 3 frames with `k = 4`: `Insert(0)` returns true, and `Insert(2)` uses its
`directory_page` pointer into frame 1 (obtained for page 1) after the `NewPage` of
`SplitBucket` has given the frame to page 3, so that the call has no defined result; on a
pool of 4 frames both calls return true. -/
theorem insert_recursion_examples_resident :
    ((run idHash 8 (emptyTable 3 1) [Insert 0 100, Insert 2 102, Insert 1 101]).map
      (fun r => r.1) = some [true, true, true] ∧
    (directories tableThree).map
      (fun d => (d.max_depth_, d.global_depth_, d.local_depths_.take 4)) =
      [(3, 2, [2, 1, 2, 1])] ∧
    Insert idHash 2 tableThree 5 105 = none ∧
    (Insert idHash 3 tableThree 5 105).map (fun r => r.1) = some true) ∧
    (secondIncrement idHash tableAtMaxDepth 5 105 = some (2, 5, 4) ∧
      incrementOutOfRange idHash 1 tableAtMaxDepth 5 105 = true ∧
      ∀ fuel, Insert idHash fuel tableAtMaxDepth 5 105 = none) ∧
    ((PooledHashTable.scenario idHash 3 4 0 3 1 [(0, 100), (2, 102)]).map
        (fun x => (x.1, x.2.1)) = some ([true], some (IndexFault.stale_pointer 1 1 3)) ∧
      (PooledHashTable.scenario idHash 4 4 0 3 1 [(0, 100), (2, 102)]).map
        (fun x => (x.1, x.2.1)) = some ([true, true], none)) := by
  refine ⟨by decide!, ⟨by decide!, by decide!, ?_⟩, by decide!⟩
  intro fuel
  cases fuel with
  | zero => simp only [DiskExtendibleHashTable.Insert]
  | succ n =>
    rw [Insert_succ, show insertCall idHash tableAtMaxDepth 5 105 = none from by decide!]
    simp only [Option.none_bind]

/-- The recursion bound of `Insert` for the index on a buffer pool that keeps every page
resident. In every table
reached from the constructor by client calls, for every key and value, `Insert` returns
when it may make as many nested recursive calls as the directory maximum depth exceeds the
local depth of the key's slot at the outermost call (no nested call is needed when the
header has no directory page for the key), unless one of these calls reaches line 133 with
the index `bucket_index + h` outside the directory arrays. In the embedding `Insert` with
fuel `n + 1` makes at most `n` nested calls. -/
theorem insert_recursion_bound_resident {K V : Type} [DecidableEq K] (hash_fn_ : K → Nat)
    (fuel : Nat) (bpm : PageStore K V) (H D B : Nat) (ops : List (HashOp K V))
    (rs : List Bool) (ht : DiskExtendibleHashTable K V) (key : K) (value : V)
    (hrun : run hash_fn_ fuel (DiskExtendibleHashTable.new bpm H D B) ops = some (rs, ht)) :
    ht.directory_max_depth_ = D ∧ nestedCallBound hash_fn_ ht key ≤ D ∧
    ((∃ r, Insert hash_fn_ (nestedCallBound hash_fn_ ht key + 1) ht key value = some r) ∨
      incrementOutOfRange hash_fn_ (nestedCallBound hash_fn_ ht key + 1) ht key value
        = true) := by
  obtain ⟨hok, hD⟩ := TableOK.of_run hash_fn_ fuel ops _ _ (TableOK.of_constructor bpm H D B) hrun
  refine ⟨hD, ?_,
    TableOK.insert_returns_or_stray hash_fn_ key value _ ht hok (Nat.le_refl _)⟩
  unfold nestedCallBound
  have hD1 : ht.directory_max_depth_ = D := hD
  split
  · exact Nat.zero_le _
  · omega

/-- The lemma `insert_recursion_bound_resident` at the table with keys 0, 2, 1 and directory maximum depth 3, for key 5
(the bound is 3 - 1 = 2 and `Insert` returns true), and the alternative at the same keys
with directory maximum depth 2 (the bound is 1 and the outermost call reaches line 133
with index 5 of 4). -/
theorem insert_recursion_bound_resident_example :
    run idHash 8 (DiskExtendibleHashTable.new [] 0 3 1)
      [Insert 0 100, Insert 2 102, Insert 1 101] = some ([true, true, true], tableThree) ∧
    nestedCallBound idHash tableThree 5 = 2 ∧
    (Insert idHash 3 tableThree 5 105).map (fun r => r.1) = some true ∧
    incrementOutOfRange idHash 3 tableThree 5 105 = false ∧
    (tableThree.directory_max_depth_ = 3 ∧ nestedCallBound idHash tableThree 5 ≤ 3 ∧
      ((∃ r, Insert idHash (nestedCallBound idHash tableThree 5 + 1) tableThree 5 105 = some r) ∨
        incrementOutOfRange idHash (nestedCallBound idHash tableThree 5 + 1) tableThree 5 105
          = true)) ∧
    nestedCallBound idHash tableAtMaxDepth 5 = 1 ∧
    incrementOutOfRange idHash 2 tableAtMaxDepth 5 105 = true :=
  ⟨by decide!, by decide!, by decide!, by decide!,
    insert_recursion_bound_resident idHash 8 [] 0 3 1
      [Insert 0 100, Insert 2 102, Insert 1 101] [true, true, true] tableThree 5 105
      (by decide!),
    by decide!, by decide!⟩

end HashIndexClaims3

/-! ## Extendible hash index: the hash function matters on the stored keys only -/

namespace DiskExtendibleHashTable
open ExtendibleHTableDirectoryPage PageStore
variable {K V : Type} [DecidableEq K]

theorem redistribute_congr (f g : K → Nat) (directory : ExtendibleHTableDirectoryPage)
    (bucket_page_id split_page_id : Int) :
    ∀ (entries : List (K × V)) (bucket split_bucket : ExtendibleHTableBucketPage K V),
      (∀ e ∈ entries, Hash f e.1 = Hash g e.1) →
      redistribute f directory bucket_page_id split_page_id entries bucket split_bucket =
        redistribute g directory bucket_page_id split_page_id entries bucket split_bucket := by
  intro entries
  induction entries with
  | nil => intro _ _ _; rfl
  | cons e rest ih =>
    intro bucket split_bucket h
    have he : Hash f e.1 = Hash g e.1 := h e (List.mem_cons_self _ _)
    have hr : ∀ x ∈ rest, Hash f x.1 = Hash g x.1 :=
      fun x hx => h x (List.mem_cons_of_mem _ hx)
    simp only [redistribute, he, ih _ _ hr]

theorem SplitBucket_congr (f g : K → Nat) (ht : DiskExtendibleHashTable K V)
    (bucket : ExtendibleHTableBucketPage K V)
    (h : ∀ e ∈ bucket.array_, Hash f e.1 = Hash g e.1)
    (directory : ExtendibleHTableDirectoryPage) (bucket_idx : Nat) :
    SplitBucket f ht directory bucket bucket_idx =
      SplitBucket g ht directory bucket bucket_idx := by
  have key := fun d a b x y => redistribute_congr f g d a b bucket.array_ x y h
  unfold SplitBucket
  simp only [key]

theorem GetValue_congr (f g : K → Nat) (ht : DiskExtendibleHashTable K V) (key : K)
    (h : Hash f key = Hash g key) : GetValue f ht key = GetValue g ht key := by
  unfold GetValue
  simp only [h]

/-- A bucket page of a table whose stored keys are within `S` has its keys in `S`. -/
theorem keysWithin_bucket {S : List K} {ht : DiskExtendibleHashTable K V}
    (h : keysWithin S ht = true) {p : Int} {b : ExtendibleHTableBucketPage K V}
    (hb : ht.bpm_.FetchBucket p = some b) : ∀ e ∈ b.array_, e.1 ∈ S := by
  have hf := FetchBucket_iff.1 hb
  unfold PageStore.Fetch at hf
  split_ifs at hf
  have hmem : PageData.bucket b ∈ ht.bpm_ := List.mem_iff_getElem?.2 ⟨_, hf⟩
  unfold keysWithin at h
  rw [List.all_eq_true] at h
  have h1 := h _ hmem
  simp only [List.all_eq_true, decide_eq_true_eq] at h1
  exact h1

/-- One call of `Insert` is the same under two hash functions that agree on the key and on
the keys stored in the bucket pages. -/
theorem insertCall_congr (f g : K → Nat) (ht : DiskExtendibleHashTable K V) (key : K)
    (value : V) (hk : Hash f key = Hash g key)
    (hst : ∀ p b, ht.bpm_.FetchBucket p = some b → ∀ e ∈ b.array_, Hash f e.1 = Hash g e.1) :
    insertCall f ht key value = insertCall g ht key value := by
  unfold insertCall
  rw [GetValue_congr f g ht key hk, hk]
  refine Option.bind_congr fun found _ => ?_
  by_cases hf : found.isSome = true
  · rw [if_pos hf, if_pos hf]
  rw [if_neg hf, if_neg hf]
  refine Option.bind_congr fun hp _ => ?_
  refine Option.bind_congr fun d _ => ?_
  by_cases hd : d = INVALID_PAGE_ID
  · rw [if_pos hd, if_pos hd]
  rw [if_neg hd, if_neg hd]
  refine Option.bind_congr fun dp _ => ?_
  refine Option.bind_congr fun b _ => ?_
  by_cases hb : b = INVALID_PAGE_ID
  · rw [if_pos hb, if_pos hb]
  rw [if_neg hb, if_neg hb]
  refine Option.bind_congr fun bp hbp => ?_
  have key1 := SplitBucket_congr f g ht bp (hst b bp (Option.mem_def.1 hbp))
  simp only [key1]

/-- The nested calls of `Insert` are the same under two hash functions that agree on the
list `S`, when the key is in `S` and the calls find keys of `S` only. -/
theorem Insert_congr (f g : K → Nat) (S : List K) (hS : ∀ k ∈ S, Hash f k = Hash g k)
    (key : K) (value : V) (hkey : key ∈ S) :
    ∀ (fuel : Nat) (ht : DiskExtendibleHashTable K V),
      keysWithinPath g S fuel ht key value = true →
      Insert f fuel ht key value = Insert g fuel ht key value := by
  intro fuel
  induction fuel with
  | zero =>
    intro ht _
    simp only [Insert]
  | succ n ih =>
    intro ht h
    simp only [keysWithinPath, Bool.and_eq_true] at h
    obtain ⟨hw, hrest⟩ := h
    rw [Insert_succ, Insert_succ,
      insertCall_congr f g ht key value (hS key hkey)
        (fun p b hb e he => hS e.1 (keysWithin_bucket hw hb e he))]
    cases hc : insertCall g ht key value with
    | none => simp only [Option.none_bind]
    | some x =>
      rw [hc] at hrest
      cases x with
      | inl r => simp only [Option.some_bind]
      | inr ht1 =>
        simp only [Option.some_bind]
        exact ih ht1 hrest

/-- More fuel does not change what a call of `Insert` returns. -/
theorem Insert_mono (f : K → Nat) (key : K) (value : V) :
    ∀ (n m : Nat) (ht : DiskExtendibleHashTable K V) (r : Bool × DiskExtendibleHashTable K V),
      Insert f n ht key value = some r → n ≤ m → Insert f m ht key value = some r := by
  intro n
  induction n with
  | zero =>
    intro m ht r h _
    simp [Insert] at h
  | succ n ih =>
    intro m ht r h hle
    obtain ⟨m1, rfl⟩ : ∃ m1, m = m1 + 1 := ⟨m - 1, by omega⟩
    rw [Insert_succ] at h ⊢
    cases hc : insertCall f ht key value with
    | none =>
      rw [hc] at h
      simp only [Option.none_bind] at h
      cases h
    | some x =>
      rw [hc] at h
      cases x with
      | inl r1 =>
        simp only [Option.some_bind] at h ⊢
        exact h
      | inr ht1 =>
        simp only [Option.some_bind] at h ⊢
        exact ih m1 ht1 r h (by omega)

/-- A run that starts with an `Insert` that returns. -/
theorem run_insert_cons (f : K → Nat) (fuel : Nat) (ht ht1 : DiskExtendibleHashTable K V)
    (key : K) (value : V) (b : Bool) (rest : List (HashOp K V))
    (h : Insert f fuel ht key value = some (b, ht1)) :
    run f fuel ht (HashOp.Insert key value :: rest) =
      (run f fuel ht1 rest).map fun rs => (b :: rs.1, rs.2) := by
  simp only [run, apply, h, Option.some_bind]

end DiskExtendibleHashTable

section HashIndexClaims4
open DiskExtendibleHashTable HashOp

/-- Scenario S3 on a pool that keeps every page resident: header depth 0, directory maximum
depth 9, bucket size 2, any hash function that
maps the keys 0, 4 and 8 to 0, 4 and 8, and fuel for at least three nested calls. `Insert`
of the keys 0, 4 and 8 (values 100, 104, 108) into the empty table returns true three
times; afterwards the one directory has global depth 3, `GetValue` of each of the three
keys returns true with exactly the value inserted for it, and each key is stored once in
the bucket pages (0 and 8 in page 2, 4 in page 5). -/
theorem insert_0_4_8_resident (hash_fn_ : Nat → Nat) (fuel : Nat) (h0 : hash_fn_ 0 = 0)
    (h4 : hash_fn_ 4 = 4) (h8 : hash_fn_ 8 = 8) (hfuel : 4 ≤ fuel) :
    run hash_fn_ fuel (DiskExtendibleHashTable.new [] 0 9 2)
      [Insert 0 100, Insert 4 104, Insert 8 108] =
      some ([true, true, true], tableAfterEight) ∧
    (directories tableAfterEight).map (fun d => (d.max_depth_, d.global_depth_)) = [(9, 3)] ∧
    GetValue hash_fn_ tableAfterEight 0 = some (some 100) ∧
    GetValue hash_fn_ tableAfterEight 4 = some (some 104) ∧
    GetValue hash_fn_ tableAfterEight 8 = some (some 108) ∧
    allEntries tableAfterEight = [[(0, 100), (8, 108)], [], [], [(4, 104)]] := by
  have e0 : Hash hash_fn_ 0 = Hash idHash 0 := by unfold Hash; rw [h0]; rfl
  have e4 : Hash hash_fn_ 4 = Hash idHash 4 := by unfold Hash; rw [h4]; rfl
  have e8 : Hash hash_fn_ 8 = Hash idHash 8 := by unfold Hash; rw [h8]; rfl
  have hS : ∀ k ∈ [0, 4, 8], Hash hash_fn_ k = Hash idHash k := by
    intro k hk
    simp only [List.mem_cons, List.mem_singleton, List.not_mem_nil, or_false] at hk
    rcases hk with rfl | rfl | rfl
    · exact e0
    · exact e4
    · exact e8
  have s1 : Insert hash_fn_ fuel (DiskExtendibleHashTable.new [] 0 9 2) 0 100 =
      some (true, tableAfterZero) := by
    refine Insert_mono hash_fn_ 0 100 4 fuel _ _ ?_ hfuel
    rw [Insert_congr hash_fn_ idHash [0, 4, 8] hS 0 100 (by decide) 4 _ (by decide!)]
    decide!
  have s2 : Insert hash_fn_ fuel tableAfterZero 4 104 = some (true, tableAfterFour) := by
    refine Insert_mono hash_fn_ 4 104 4 fuel _ _ ?_ hfuel
    rw [Insert_congr hash_fn_ idHash [0, 4, 8] hS 4 104 (by decide) 4 _ (by decide!)]
    decide!
  have s3 : Insert hash_fn_ fuel tableAfterFour 8 108 = some (true, tableAfterEight) := by
    refine Insert_mono hash_fn_ 8 108 4 fuel _ _ ?_ hfuel
    rw [Insert_congr hash_fn_ idHash [0, 4, 8] hS 8 108 (by decide) 4 _ (by decide!)]
    decide!
  refine ⟨?_, by decide!, ?_, ?_, ?_, by decide!⟩
  · rw [run_insert_cons hash_fn_ fuel _ _ 0 100 true _ s1,
      run_insert_cons hash_fn_ fuel _ _ 4 104 true _ s2,
      run_insert_cons hash_fn_ fuel _ _ 8 108 true _ s3]
    simp only [run, Option.map_some']
  · rw [GetValue_congr hash_fn_ idHash _ 0 e0]; decide!
  · rw [GetValue_congr hash_fn_ idHash _ 4 e4]; decide!
  · rw [GetValue_congr hash_fn_ idHash _ 8 e8]; decide!

/-- The lemma `insert_0_4_8_resident` at the identity hash with fuel for seven nested calls. -/
theorem insert_0_4_8_resident_example :
    idHash 0 = 0 ∧ idHash 4 = 4 ∧ idHash 8 = 8 ∧ 4 ≤ 8 ∧
    (run idHash 8 (DiskExtendibleHashTable.new [] 0 9 2)
      [Insert 0 100, Insert 4 104, Insert 8 108] =
      some ([true, true, true], tableAfterEight) ∧
    (directories tableAfterEight).map (fun d => (d.max_depth_, d.global_depth_)) = [(9, 3)] ∧
    GetValue idHash tableAfterEight 0 = some (some 100) ∧
    GetValue idHash tableAfterEight 4 = some (some 104) ∧
    GetValue idHash tableAfterEight 8 = some (some 108) ∧
    allEntries tableAfterEight = [[(0, 100), (8, 108)], [], [], [(4, 104)]]) :=
  ⟨rfl, rfl, rfl, by decide, insert_0_4_8_resident idHash 8 rfl rfl rfl (by decide)⟩

end HashIndexClaims4

section HashIndexClaims5
open DiskExtendibleHashTable HashOp

/-- C32 (the code at a failing input): bucket size 1, identity hash. With directory maximum
depth 2 and the keys 0, 2, 1 inserted (every insert returns true) the global depth is 2,
the arrays have 4 slots, and slot 1 holds the full bucket of key 1 at local depth 1.
`Insert(5)` does not double the directory, and line 133 increments `local_depths_` at
`bucket_index + h = 1 + 4 = 5`, which is not below `1 << global_depth = 4` and is past the
array: with `Option`-returning indexing the call has no result, whatever the fuel. With
directory maximum depth 3 and the same keys the arrays have 8 slots and the same access
goes to slot 5, which is inside the array but not below `1 << global_depth = 4`;
`Insert(5)` then returns true. -/
theorem C32_increment_outside_directory :
    (run idHash 8 (emptyTable 2 1) [Insert 0 100, Insert 2 102, Insert 1 101]).map
      (fun r => r.1) = some [true, true, true] ∧
    (directories tableAtMaxDepth).map
      (fun d => (d.max_depth_, d.global_depth_, d.local_depths_)) =
      [(2, 2, [2, 1, 2, 1])] ∧
    secondIncrement idHash tableAtMaxDepth 5 105 = some (2, 5, 4) ∧
    (∀ fuel, Insert idHash fuel tableAtMaxDepth 5 105 = none) ∧
    (directories tableThree).map
      (fun d => (d.max_depth_, d.global_depth_, d.local_depths_)) =
      [(3, 2, [2, 1, 2, 1, 0, 0, 0, 0])] ∧
    secondIncrement idHash tableThree 5 105 = some (2, 5, 8) ∧
    (Insert idHash 3 tableThree 5 105).map (fun r => r.1) = some true := by
  refine ⟨by decide!, by decide!, by decide!, ?_, by decide!, by decide!, by decide!⟩
  intro fuel
  cases fuel with
  | zero => simp only [DiskExtendibleHashTable.Insert]
  | succ n =>
    rw [Insert_succ, show insertCall idHash tableAtMaxDepth 5 105 = none from by decide!]
    simp only [Option.none_bind]

end HashIndexClaims5

/-! ## Extendible hash index on the buffer pool manager -/

/-! ### Page pointers and pool calls of the index -/

namespace PooledHashTable
variable {K V : Type}

theorem bind_eq_ok {ε α β : Type} {x : Except ε α} {f : α → Except ε β} {b : β}
    (h : (x >>= f) = Except.ok b) : ∃ a, x = Except.ok a ∧ f a = Except.ok b := by
  cases x with
  | error e => cases h
  | ok a => exact ⟨a, rfl, h⟩

theorem defined_eq_ok {α : Type} {x : Option α} {a : α}
    (h : defined x = Except.ok a) : x = some a := by
  cases x with
  | none => cases h
  | some b => cases h; rfl

theorem Fetch_some_iff (s : PageStore K V) (p : Int) (body : PageData K V) :
    s.Fetch p = some body ↔ 0 ≤ p ∧ s[p.toNat]? = some body := by
  unfold PageStore.Fetch
  by_cases h : 0 ≤ p
  · simp [h]
  · simp [h]

theorem Fetch_some_range {s : PageStore K V} {p : Int} {body : PageData K V}
    (h : s.Fetch p = some body) : 0 ≤ p ∧ p < (s.length : Int) := by
  obtain ⟨h0, h1⟩ := (Fetch_some_iff s p body).1 h
  have := (List.getElem?_eq_some_iff.1 h1).1
  omega

theorem pageBody_resident (t : PooledHashTable K V) (p f : Int) (pg : Page)
    (h1 : assocFind t.bpm_.page_table_ p = some f) (h2 : t.bpm_.getPage f = some pg) :
    t.pageBody p = t.bodyOf pg.data_ := by
  unfold pageBody
  rw [h1]
  simp only [h2, Option.some_bind]

theorem pageBody_absent (t : PooledHashTable K V) (p : Int)
    (h1 : assocFind t.bpm_.page_table_ p = none) :
    t.pageBody p = t.bodyOf (diskRead t.bpm_.disk_ p) := by
  unfold pageBody
  rw [h1]

theorem bodyOf_eq (t t1 : PooledHashTable K V) (h : t1.bodies_ = t.bodies_) (d : Nat) :
    t1.bodyOf d = t.bodyOf d := by
  unfold bodyOf
  rw [h]

theorem bodyOf_append (t t1 : PooledHashTable K V) (x : PageData K V)
    (h : t1.bodies_ = t.bodies_ ++ [x]) (d : Nat) (body : PageData K V)
    (hb : t.bodyOf d = some body) : t1.bodyOf d = some body := by
  unfold bodyOf at hb ⊢
  rw [h]
  by_cases hd : d = 0
  · rw [if_pos hd] at hb; cases hb
  · rw [if_neg hd] at hb ⊢
    have hlt := (List.getElem?_eq_some_iff.1 hb).1
    rw [List.getElem?_append_left hlt]
    exact hb

theorem bodyOf_new (t t1 : PooledHashTable K V) (x : PageData K V)
    (h : t1.bodies_ = t.bodies_ ++ [x]) : t1.bodyOf (t.bodies_.length + 1) = some x := by
  unfold bodyOf
  rw [h, if_neg (by omega)]
  simp

/-- A frame that holds a valid page id is the frame of that page in the page table. -/
theorem Rep.frame_of {n N : Nat} {P : Int → Int} {W D : Int → Prop} {t : PooledHashTable K V}
    {ht : DiskExtendibleHashTable K V} (h : Rep n N P W D t ht) {f : Int} {pg : Page}
    (hpg : t.bpm_.getPage f = some pg) (hid : pg.page_id_ ≠ INVALID_PAGE_ID) :
    assocFind t.bpm_.page_table_ pg.page_id_ = some f :=
  h.tight.owned f pg hpg hid

/-- The frame the page table gives for a page holds the page. -/
theorem Rep.table_holds {n N : Nat} {P : Int → Int} {W D : Int → Prop} {t : PooledHashTable K V}
    {ht : DiskExtendibleHashTable K V} (h : Rep n N P W D t ht) {p f : Int}
    (hp : assocFind t.bpm_.page_table_ p = some f) :
    ∃ pg, t.bpm_.getPage f = some pg ∧ pg.page_id_ = p :=
  h.inv.table p f hp

/-- Two frames that hold the same valid page id are the same frame. -/
theorem Rep.frame_unique {n N : Nat} {P : Int → Int} {W D : Int → Prop}
    {t : PooledHashTable K V} {ht : DiskExtendibleHashTable K V} (h : Rep n N P W D t ht)
    {f g : Int} {pf pg : Page} (hf : t.bpm_.getPage f = some pf)
    (hg : t.bpm_.getPage g = some pg) (hid : pf.page_id_ ≠ INVALID_PAGE_ID)
    (heq : pf.page_id_ = pg.page_id_) : f = g := by
  have h1 := h.frame_of hf hid
  have h2 := h.frame_of hg (by rw [← heq]; exact hid)
  rw [heq] at h1
  rw [h1] at h2
  cases h2
  rfl

/-- A read through a pointer that succeeds returns the body the table has for the page. -/
theorem Rep.read_ok {n N : Nat} {P : Int → Int} {W D : Int → Prop} {t : PooledHashTable K V}
    {ht : DiskExtendibleHashTable K V} (h : Rep n N P W D t ht) {f p : Int}
    {body body0 : PageData K V} (h0 : ht.bpm_.Fetch p = some body0)
    (hr : t.readPage f p = Except.ok body) : body = body0 ∧ t.Holds f p := by
  unfold readPage at hr
  cases hpg : t.bpm_.getPage f with
  | none => rw [hpg] at hr; cases hr
  | some pg =>
    rw [hpg] at hr
    simp only at hr
    by_cases hid : pg.page_id_ = p
    · rw [if_pos hid] at hr
      have hr1 := defined_eq_ok hr
      have hp0 := (Fetch_some_range h0).1
      have hv : pg.page_id_ ≠ INVALID_PAGE_ID := by rw [hid]; unfold INVALID_PAGE_ID; omega
      have htab := h.frame_of hpg hv
      rw [hid] at htab
      have hc := h.content p body0 h0
      rw [pageBody_resident t p f pg htab hpg, hr1] at hc
      cases hc
      exact ⟨rfl, pg, hpg, hid⟩
    · rw [if_neg hid] at hr
      cases hr

end PooledHashTable

namespace PooledHashTable
variable {K V : Type}

theorem find_install (m : List (Int × Int)) (q0 p f0 q : Int)
    (hp : assocFind m p = none) :
    assocFind (assocEmplace (assocErase m q0) p f0) q =
      if q = p then some f0 else if q = q0 then none else assocFind m q := by
  rw [assocFind_assocEmplace, assocFind_assocErase]
  by_cases h1 : q = p
  · subst h1
    rw [if_pos rfl, hp]
    by_cases h2 : q = q0
    · rw [if_pos h2]; simp
    · rw [if_neg h2]; simp
  · rw [if_neg h1]
    by_cases h2 : q = q0
    · rw [if_pos h2]
      simp only
      rw [if_neg (fun h => h1 h.symm)]
    · rw [if_neg h2]
      cases assocFind m q with
      | none => simp only; rw [if_neg (fun h => h1 h.symm)]
      | some x => rfl

/-- The page bodies do not change when the record of one frame changes in its pin count or
dirty flag only. -/
theorem pageBody_of_meta (t t1 : PooledHashTable K V) (f : Int) (page pg : Page)
    (hpg : t.bpm_.getPage f = some page)
    (hpages : t1.bpm_.pages_ = t.bpm_.pages_.set f.toNat pg)
    (hdata : pg.data_ = page.data_)
    (htable : t1.bpm_.page_table_ = t.bpm_.page_table_)
    (hdisk : t1.bpm_.disk_ = t.bpm_.disk_) (hbodies : t1.bodies_ = t.bodies_) (q : Int) :
    t1.pageBody q = t.pageBody q := by
  have hget := BufferPoolManager.getPage_of_set hpages (by rw [hpg]; rfl)
  unfold pageBody
  rw [htable, hdisk]
  cases assocFind t.bpm_.page_table_ q with
  | none => exact bodyOf_eq t t1 hbodies _
  | some fr =>
    simp only
    rw [hget fr]
    by_cases hfr : fr = f
    · rw [if_pos hfr, hfr, hpg]
      simp only [Option.some_bind, hdata]
      exact bodyOf_eq t t1 hbodies _
    · rw [if_neg hfr]
      cases t.bpm_.getPage fr with
      | none => rfl
      | some x => simp only [Option.some_bind]; exact bodyOf_eq t t1 hbodies _

/-- A fetch that returns a frame: the frame holds the page, the page has one more pin, and
the pool still holds the pages of the table. -/
theorem Rep.fetch_ok {n N : Nat} {P : Int → Int} {W D : Int → Prop} {t : PooledHashTable K V}
    {ht : DiskExtendibleHashTable K V} (h : Rep n N P W D t ht) (hn : (n : Int) + 1 < 2 ^ 31)
    {p f : Int} {t1 : PooledHashTable K V} {body0 : PageData K V}
    (h0 : ht.bpm_.Fetch p = some body0) (hf : t.fetchPage p = Except.ok (f, t1)) :
    Rep (n + 1) N (Function.update P p (P p + 1)) W (fun q => D q ∧ q ≠ p) t1 ht ∧
      t1.Holds f p := by
  have hp := Fetch_some_range h0
  have hpv : p ≠ INVALID_PAGE_ID := by unfold INVALID_PAGE_ID; omega
  unfold fetchPage at hf
  rcases h.inv.fetchPage hn p with ⟨hx, _⟩ |
    ⟨_, f0, page, b1, htab, hpg, hid, hfe, hinv1, hpages, htable, hfree, hnext, hdisk, hlog,
      hpool, hstat⟩ | ⟨_, _, hfe, _⟩ |
    ⟨_, htab, f0, page, b1, hfe, hinv1, hpg, hcase, hpages, htable, hfree, hnext, hdisk, hlog,
      hpool, hstat⟩
  · exact absurd hx hpv
  · -- the page is resident
    rw [hfe] at hf
    simp only at hf
    cases hf
    have hget := BufferPoolManager.getPage_of_set hpages (by rw [hpg]; rfl)
    have hget0 : b1.getPage f = some { page with pin_count_ := page.pin_count_ + 1 } := by
      rw [hget f, if_pos rfl]
    refine ⟨⟨h.header_max_depth, h.directory_max_depth, h.bucket_max_size, h.header_page_id, hpool.trans h.size,
      hinv1, BufferPoolManager.Tight.of_set h.tight hpg hpages rfl htable hnext, ?_, ?_, ?_, ?_,
      ?_, ?_, ?_⟩, ⟨_, hget0, hid⟩⟩
    · show b1.next_page_id_ = _
      rw [hnext]; exact h.next
    · intro q body hq
      rw [pageBody_of_meta t ({ t with bpm_ := b1 } : PooledHashTable K V) f page _ hpg hpages
        rfl htable hdisk rfl q]
      exact h.content q body hq
    · intro g pgg hg hv
      have hg1 : b1.getPage g = some pgg := hg
      rw [hget g] at hg1
      show _ ∨ diskRead b1.disk_ _ = _ ∨ _
      rw [hdisk]
      by_cases hgf : g = f
      · rw [if_pos hgf] at hg1
        cases hg1
        exact h.sync f page hpg hv
      · rw [if_neg hgf] at hg1
        exact h.sync g pgg hg1 hv
    · intro g pgg hg hv hd
      have hg1 : b1.getPage g = some pgg := hg
      rw [hget g] at hg1
      by_cases hgf : g = f
      · rw [if_pos hgf] at hg1
        cases hg1
        exact absurd hid hd.2
      · rw [if_neg hgf] at hg1
        exact h.dirty g pgg hg1 hv hd.1
    · intro g pgg hg hv
      have hg1 : b1.getPage g = some pgg := hg
      rw [hget g] at hg1
      by_cases hgf : g = f
      · rw [if_pos hgf] at hg1
        cases hg1
        show page.pin_count_ + 1 = _
        rw [hid, Function.update_same, ← hid, h.pins f page hpg (by rw [hid]; exact hpv)]
      · rw [if_neg hgf] at hg1
        have hne : pgg.page_id_ ≠ p := by
          intro heq
          exact hgf (h.frame_unique hg1 hpg hv (by rw [heq, hid]))
        rw [Function.update_noteq hne]
        exact h.pins g pgg hg1 hv
    · intro q hq
      have hq1 : assocFind b1.page_table_ q = none := hq
      rw [htable] at hq1
      have hne : q ≠ p := by
        intro heq
        rw [heq, htab] at hq1
        cases hq1
      rw [Function.update_noteq hne]
      exact h.absent q hq1
    · intro q hq
      have := h.held q hq
      by_cases hqp : q = p
      · rw [hqp, Function.update_same]
        rw [hqp] at this
        omega
      · rw [Function.update_noteq hqp]
        exact this
  · rw [hfe] at hf
    cases hf
  · -- the page is read from disk into a frame
    rw [hfe] at hf
    simp only at hf
    cases hf
    have hget := BufferPoolManager.getPage_of_set hpages (by rw [hpg]; rfl)
    have hq0 : page.page_id_ ≠ p := by
      intro heq
      have := h.frame_of hpg (by rw [heq]; exact hpv)
      rw [heq, htab] at this
      cases this
    have hget0 : b1.getPage f = some
        { page_id_ := p, pin_count_ := 1, is_dirty_ := false,
          data_ := diskRead (assocPut t.bpm_.disk_ page.page_id_ page.data_) p } := by
      rw [hget f, if_pos rfl]
    have htab1 : ∀ q, assocFind b1.page_table_ q =
        if q = p then some f else if q = page.page_id_ then none
          else assocFind t.bpm_.page_table_ q := by
      intro q
      rw [htable]
      exact find_install _ _ _ _ _ htab
    have hpin0 : page.page_id_ ≠ INVALID_PAGE_ID → page.pin_count_ = 0 := by
      intro hv
      rcases hcase with ⟨hne, hlast⟩ | ⟨_, _, hst⟩
      · exact absurd (BufferPoolManager.free_frame_invalid h.inv f page hpg hlast) hv
      · have hnf : f ∉ t.bpm_.free_list_ := by
          intro hmem
          have := (h.inv.free_spec f hmem).1
          rw [hst] at this
          cases this
        have := (h.inv.occ f page hpg hnf (by simp)).2.2
        rw [hst] at this
        simpa using this
    refine ⟨⟨h.header_max_depth, h.directory_max_depth, h.bucket_max_size, h.header_page_id, hpool.trans h.size,
      hinv1,
      BufferPoolManager.Tight.of_install h.tight hpg hpages rfl htable hpv
        (by rw [hnext, h.next]; exact hp.2) (by rw [hnext]) htab,
      ?_, ?_, ?_, ?_, ?_, ?_, ?_⟩, ⟨_, hget0, rfl⟩⟩
    · show b1.next_page_id_ = _
      rw [hnext]; exact h.next
    · intro q body hq
      have hqr := Fetch_some_range hq
      have hc := h.content q body hq
      by_cases hqp : q = p
      · subst hqp
        rw [pageBody_resident _ q f _ (by rw [htab1 q, if_pos rfl]) hget0]
        rw [pageBody_absent t q htab] at hc
        show bodyOf _ (diskRead (assocPut t.bpm_.disk_ page.page_id_ page.data_) q) = _
        rw [diskRead_assocPut, if_neg (fun heq => hq0 heq.symm)]
        exact hc
      · by_cases hqq : q = page.page_id_
        · have hv : page.page_id_ ≠ INVALID_PAGE_ID := by
            rw [← hqq]; unfold INVALID_PAGE_ID; omega
          rw [pageBody_absent _ q (by rw [htab1 q, if_neg hqp, if_pos hqq])]
          rw [pageBody_resident t q f page (by rw [hqq]; exact h.frame_of hpg hv) hpg] at hc
          show bodyOf _ (diskRead b1.disk_ q) = _
          rw [hdisk, diskRead_assocPut, if_pos hqq]
          exact hc
        · cases hfind : assocFind t.bpm_.page_table_ q with
          | none =>
            rw [pageBody_absent _ q (by rw [htab1 q, if_neg hqp, if_neg hqq]; exact hfind)]
            rw [pageBody_absent t q hfind] at hc
            show bodyOf _ (diskRead b1.disk_ q) = _
            rw [hdisk, diskRead_assocPut, if_neg hqq]
            exact hc
          | some fr =>
            obtain ⟨pfr, hpfr, hidfr⟩ := h.table_holds hfind
            have hfr : fr ≠ f := by
              intro heq
              rw [heq, hpg] at hpfr
              cases hpfr
              exact hqq hidfr.symm
            have hg1 : b1.getPage fr = some pfr := by rw [hget fr, if_neg hfr]; exact hpfr
            rw [pageBody_resident _ q fr pfr
              (by rw [htab1 q, if_neg hqp, if_neg hqq]; exact hfind) hg1]
            rw [pageBody_resident t q fr pfr hfind hpfr] at hc
            exact hc
    · intro g pgg hg hv
      have hg1 : b1.getPage g = some pgg := hg
      rw [hget g] at hg1
      show _ ∨ diskRead b1.disk_ _ = _ ∨ _
      rw [hdisk]
      by_cases hgf : g = f
      · rw [if_pos hgf] at hg1
        cases hg1
        right; left
        rfl
      · rw [if_neg hgf] at hg1
        have hne : pgg.page_id_ ≠ page.page_id_ := by
          intro heq
          exact hgf (h.frame_unique hg1 hpg hv heq)
        rw [diskRead_assocPut, if_neg hne]
        exact h.sync g pgg hg1 hv
    · intro g pgg hg hv hd
      have hg1 : b1.getPage g = some pgg := hg
      rw [hget g] at hg1
      by_cases hgf : g = f
      · rw [if_pos hgf] at hg1
        cases hg1
        exact absurd rfl hd.2
      · rw [if_neg hgf] at hg1
        exact h.dirty g pgg hg1 hv hd.1
    · intro g pgg hg hv
      have hg1 : b1.getPage g = some pgg := hg
      rw [hget g] at hg1
      by_cases hgf : g = f
      · rw [if_pos hgf] at hg1
        cases hg1
        show (1 : Int) = _
        rw [Function.update_same, h.absent p htab]
        rfl
      · rw [if_neg hgf] at hg1
        have hne : pgg.page_id_ ≠ p := by
          intro heq
          have := h.frame_of hg1 hv
          rw [heq, htab] at this
          cases this
        rw [Function.update_noteq hne]
        exact h.pins g pgg hg1 hv
    · intro q hq
      have hq1 : assocFind b1.page_table_ q = none := hq
      rw [htab1 q] at hq1
      by_cases hqp : q = p
      · rw [if_pos hqp] at hq1; cases hq1
      · rw [if_neg hqp] at hq1
        rw [Function.update_noteq hqp]
        by_cases hqq : q = page.page_id_
        · by_cases hv : page.page_id_ = INVALID_PAGE_ID
          · rw [hqq, hv]
            exact h.absent _ h.tight.valid_keys
          · rw [hqq, ← h.pins f page hpg hv]
            exact hpin0 hv
        · rw [if_neg hqq] at hq1
          exact h.absent q hq1
    · intro q hq
      have := h.held q hq
      by_cases hqp : q = p
      · rw [hqp, Function.update_same]
        rw [hqp] at this
        omega
      · rw [Function.update_noteq hqp]
        exact this

end PooledHashTable

namespace PooledHashTable
variable {K V : Type}

/-- The ghost sets of `Rep` can be replaced by equal ones, `D` by a smaller one and `n` by a
larger one. -/
theorem Rep.change {n m N : Nat} {P P1 : Int → Int} {W W1 D D1 : Int → Prop}
    {t : PooledHashTable K V} {ht : DiskExtendibleHashTable K V} (h : Rep n N P W D t ht)
    (hnm : n ≤ m) (hP : ∀ q, P1 q = P q) (hW : ∀ q, W1 q ↔ W q) (hD : ∀ q, D1 q → D q) :
    Rep m N P1 W1 D1 t ht :=
  { header_max_depth := h.header_max_depth
    directory_max_depth := h.directory_max_depth
    bucket_max_size := h.bucket_max_size
    header_page_id := h.header_page_id
    size := h.size
    inv := h.inv.mono hnm
    tight := h.tight
    next := h.next
    content := h.content
    sync := fun f pg hpg hv => by
      rcases h.sync f pg hpg hv with h1 | h1 | h1
      · exact Or.inl h1
      · exact Or.inr (Or.inl h1)
      · exact Or.inr (Or.inr ((hW _).2 h1))
    dirty := fun f pg hpg hv hd => h.dirty f pg hpg hv (hD _ hd)
    pins := fun f pg hpg hv => by rw [hP]; exact h.pins f pg hpg hv
    absent := fun p hp => by rw [hP]; exact h.absent p hp
    held := fun p hp => by rw [hP]; exact h.held p ((hW p).1 hp) }

/-- Taking the mutable view of a guard on a pinned page. -/
theorem Rep.mark {n N : Nat} {P : Int → Int} {W D : Int → Prop} {t : PooledHashTable K V}
    {ht : DiskExtendibleHashTable K V} (h : Rep n N P W D t ht) (p : Int) (hp : 0 < P p) :
    Rep n N P (fun q => W q ∨ q = p) D t ht :=
  { h with
    sync := fun f pg hpg hv => by
      rcases h.sync f pg hpg hv with h1 | h1 | h1
      · exact Or.inl h1
      · exact Or.inr (Or.inl h1)
      · exact Or.inr (Or.inr (Or.inl h1))
    held := fun q hq => by
      rcases hq with hq | hq
      · exact h.held q hq
      · rw [hq]; exact hp }

/-- Dropping a guard always returns. -/
theorem Rep.drop_defined {n N : Nat} {P : Int → Int} {W D : Int → Prop}
    {t : PooledHashTable K V} {ht : DiskExtendibleHashTable K V} (h : Rep n N P W D t ht)
    (p : Int) (d : Bool) : ∃ t1, t.drop p d = Except.ok t1 := by
  unfold drop
  rcases h.inv.unpinPage p d with ⟨_, he⟩ | ⟨f, page, _, _, _, _, ⟨_, he, _⟩ | ⟨_, b1, he, _⟩⟩
  · rw [he]; exact ⟨_, rfl⟩
  · rw [he]; exact ⟨_, rfl⟩
  · rw [he]; exact ⟨_, rfl⟩

/-- Dropping a guard on a pinned page: one pin less; a dirty guard marks the frame dirty. -/
theorem Rep.drop_ok {n N : Nat} {P : Int → Int} {W D : Int → Prop} {t : PooledHashTable K V}
    {ht : DiskExtendibleHashTable K V} (h : Rep n N P W D t ht) {p : Int} {d : Bool}
    {t1 : PooledHashTable K V} (hpin : 0 < P p) (hd : d = true ∨ ¬ W p)
    (hdrop : t.drop p d = Except.ok t1) :
    Rep n N (Function.update P p (P p - 1)) (fun q => W q ∧ q ≠ p)
      (fun q => D q ∨ (d = true ∧ q = p)) t1 ht := by
  unfold drop at hdrop
  rcases h.inv.unpinPage p d with ⟨hx, _⟩ |
    ⟨f, page, hpv, htab, hpg, hid, ⟨hz, _⟩ |
      ⟨hpos, b1, he, hinv1, hpages, htable, hfree, hnext, hdisk, hlog, hpool, hstat⟩⟩
  · exfalso
    rcases hx with hx | hx
    · have := h.absent p (by rw [hx]; exact h.tight.valid_keys)
      omega
    · have := h.absent p hx
      omega
  · exfalso
    have := h.pins f page hpg (by rw [hid]; exact hpv)
    rw [hid] at this
    omega
  · rw [he] at hdrop
    simp only at hdrop
    cases hdrop
    have hget := BufferPoolManager.getPage_of_set hpages (by rw [hpg]; rfl)
    refine ⟨h.header_max_depth, h.directory_max_depth, h.bucket_max_size, h.header_page_id, hpool.trans h.size,
      hinv1, BufferPoolManager.Tight.of_set h.tight hpg hpages rfl htable hnext, ?_, ?_, ?_, ?_,
      ?_, ?_, ?_⟩
    · show b1.next_page_id_ = _
      rw [hnext]; exact h.next
    · intro q body hq
      rw [pageBody_of_meta t ({ t with bpm_ := b1 } : PooledHashTable K V) f page _ hpg hpages
        rfl htable hdisk rfl q]
      exact h.content q body hq
    · intro g pgg hg hv
      have hg1 : b1.getPage g = some pgg := hg
      rw [hget g] at hg1
      show _ ∨ diskRead b1.disk_ _ = _ ∨ _
      rw [hdisk]
      by_cases hgf : g = f
      · rw [if_pos hgf] at hg1
        cases hg1
        rcases hd with hd | hd
        · left
          show (page.is_dirty_ || d) = true
          rw [hd]; simp
        · rcases h.sync f page hpg hv with h1 | h1 | h1
          · left
            show (page.is_dirty_ || d) = true
            rw [h1]; rfl
          · right; left; exact h1
          · rw [hid] at h1
            exact absurd h1 hd
      · rw [if_neg hgf] at hg1
        have hne : pgg.page_id_ ≠ p := by
          intro heq
          exact hgf (h.frame_unique hg1 hpg hv (by rw [heq, hid]))
        rcases h.sync g pgg hg1 hv with h1 | h1 | h1
        · exact Or.inl h1
        · exact Or.inr (Or.inl h1)
        · exact Or.inr (Or.inr ⟨h1, hne⟩)
    · intro g pgg hg hv hdd
      have hg1 : b1.getPage g = some pgg := hg
      rw [hget g] at hg1
      by_cases hgf : g = f
      · rw [if_pos hgf] at hg1
        cases hg1
        show (page.is_dirty_ || d) = true
        rcases hdd with hdd | ⟨hdd, _⟩
        · rw [h.dirty f page hpg hv hdd]; rfl
        · rw [hdd]; simp
      · rw [if_neg hgf] at hg1
        have hne : pgg.page_id_ ≠ p := by
          intro heq
          exact hgf (h.frame_unique hg1 hpg hv (by rw [heq, hid]))
        rcases hdd with hdd | ⟨_, hdd⟩
        · exact h.dirty g pgg hg1 hv hdd
        · exact absurd hdd hne
    · intro g pgg hg hv
      have hg1 : b1.getPage g = some pgg := hg
      rw [hget g] at hg1
      by_cases hgf : g = f
      · rw [if_pos hgf] at hg1
        cases hg1
        show page.pin_count_ - 1 = _
        rw [hid, Function.update_same, ← hid, h.pins f page hpg (by rw [hid]; exact hpv)]
      · rw [if_neg hgf] at hg1
        have hne : pgg.page_id_ ≠ p := by
          intro heq
          exact hgf (h.frame_unique hg1 hpg hv (by rw [heq, hid]))
        rw [Function.update_noteq hne]
        exact h.pins g pgg hg1 hv
    · intro q hq
      have hq1 : assocFind b1.page_table_ q = none := hq
      rw [htable] at hq1
      have hne : q ≠ p := by
        intro heq
        rw [heq, htab] at hq1
        cases hq1
      rw [Function.update_noteq hne]
      exact h.absent q hq1
    · intro q hq
      rw [Function.update_noteq hq.2]
      exact h.held q hq.1

theorem Fetch_Write_cases {s : PageStore K V} {p q : Int} {body body1 : PageData K V}
    (h : (s.Write p body).Fetch q = some body1) :
    (q = p ∧ body1 = body) ∨ (q ≠ p ∧ s.Fetch q = some body1) := by
  by_cases hqp : q = p
  · left
    subst hqp
    have hl := PageStore.Fetch_lt h
    rw [PageStore.length_Write] at hl
    rw [PageStore.Fetch_Write_same body hl.1 hl.2] at h
    cases h
    exact ⟨rfl, rfl⟩
  · right
    rw [PageStore.Fetch_Write_ne body (fun e => hqp e.symm)] at h
    exact ⟨hqp, h⟩

theorem Fetch_append_cases {s : PageStore K V} {q : Int} {body body1 : PageData K V}
    (h : (s ++ [body]).Fetch q = some body1) :
    (q = (s.length : Int) ∧ body1 = body) ∨ (q ≠ (s.length : Int) ∧ s.Fetch q = some body1) := by
  have hl := PageStore.Fetch_lt h
  by_cases hq : q = (s.length : Int)
  · left
    rw [hq, PageStore.Fetch_append_length] at h
    cases h
    exact ⟨hq, rfl⟩
  · right
    refine ⟨hq, ?_⟩
    unfold PageStore.Fetch at h ⊢
    rw [if_pos hl.1] at h ⊢
    have hlt : q.toNat < s.length := by
      have := hl.2
      simp only [List.length_append, List.length_singleton] at this
      omega
    rw [List.getElem?_append_left hlt] at h
    exact h

/-- A store through a page pointer that succeeds: the frame holds the page, and the pool holds
the pages of the table with that page replaced. -/
theorem Rep.write_ok {n N : Nat} {P : Int → Int} {W D : Int → Prop} {t : PooledHashTable K V}
    {ht : DiskExtendibleHashTable K V} (h : Rep n N P W D t ht) {f p : Int}
    {body body0 : PageData K V} {t1 : PooledHashTable K V}
    (h0 : ht.bpm_.Fetch p = some body0) (hw : W p ∨ D p)
    (hwr : t.writePage f p body = Except.ok t1) :
    Rep n N P W D t1 { ht with bpm_ := ht.bpm_.Write p body } ∧ t1.Holds f p := by
  have hp := Fetch_some_range h0
  have hpv : p ≠ INVALID_PAGE_ID := by unfold INVALID_PAGE_ID; omega
  unfold writePage at hwr
  cases hpg : t.bpm_.getPage f with
  | none => rw [hpg] at hwr; cases hwr
  | some page =>
    rw [hpg] at hwr
    simp only at hwr
    by_cases hid : page.page_id_ = p
    swap
    · rw [if_neg hid] at hwr; cases hwr
    rw [if_pos hid] at hwr
    cases hwr
    have hv : page.page_id_ ≠ INVALID_PAGE_ID := by rw [hid]; exact hpv
    have htab := h.frame_of hpg hv
    rw [hid] at htab
    have hwd : t.bpm_.WriteData f (t.bodies_.length + 1) =
        t.bpm_.setPage f { page with data_ := t.bodies_.length + 1 } := by
      unfold BufferPoolManager.WriteData
      rw [hpg]
    have hpages : (t.bpm_.WriteData f (t.bodies_.length + 1)).pages_ =
        t.bpm_.pages_.set f.toNat { page with data_ := t.bodies_.length + 1 } := by
      rw [hwd]; rfl
    have htable : (t.bpm_.WriteData f (t.bodies_.length + 1)).page_table_ = t.bpm_.page_table_ := by
      rw [hwd]; rfl
    have hdisk : (t.bpm_.WriteData f (t.bodies_.length + 1)).disk_ = t.bpm_.disk_ := by
      rw [hwd]; rfl
    have hnext : (t.bpm_.WriteData f (t.bodies_.length + 1)).next_page_id_ = t.bpm_.next_page_id_ := by
      rw [hwd]; rfl
    have hget := BufferPoolManager.getPage_of_set hpages (by rw [hpg]; rfl)
    have hget0 := hget f
    rw [if_pos rfl] at hget0
    have htab1 : ∀ q, assocFind (t.bpm_.WriteData f (t.bodies_.length + 1)).page_table_ q =
        assocFind t.bpm_.page_table_ q := fun q => by rw [htable]
    refine ⟨⟨h.header_max_depth, h.directory_max_depth, h.bucket_max_size, h.header_page_id, (by rw [hwd]; exact h.size),
      h.inv.writeData f _, BufferPoolManager.Tight.of_set h.tight hpg hpages rfl htable hnext,
      ?_, ?_, ?_, ?_, ?_, ?_, ?_⟩, ⟨_, hget0, hid⟩⟩
    · show (t.bpm_.WriteData f (t.bodies_.length + 1)).next_page_id_ = _
      rw [hnext, h.next]
      show _ = ((ht.bpm_.Write p body).length : Int)
      rw [PageStore.length_Write]
    · intro q body1 hq
      have hq1 : (ht.bpm_.Write p body).Fetch q = some body1 := hq
      rcases Fetch_Write_cases hq1 with ⟨hqp, hb⟩ | ⟨hqp, hb⟩
      · subst hqp hb
        rw [pageBody_resident _ q f _ ((htab1 q).trans htab) hget0]
        exact bodyOf_new t _ body1 rfl
      · have hc := h.content q body1 hb
        cases hfind : assocFind t.bpm_.page_table_ q with
        | none =>
          rw [pageBody_absent t q hfind] at hc
          rw [pageBody_absent _ q ((htab1 q).trans hfind)]
          show bodyOf _ (diskRead (t.bpm_.WriteData f _).disk_ q) = _
          rw [hdisk]
          exact bodyOf_append t _ body rfl _ _ hc
        | some fr =>
          obtain ⟨pfr, hpfr, hidfr⟩ := h.table_holds hfind
          have hfr : fr ≠ f := by
            intro heq
            rw [heq, hpg] at hpfr
            cases hpfr
            exact hqp (hidfr.symm.trans hid)
          have hg1 := hget fr
          rw [if_neg hfr, hpfr] at hg1
          rw [pageBody_resident t q fr pfr hfind hpfr] at hc
          rw [pageBody_resident _ q fr pfr ((htab1 q).trans hfind) hg1]
          exact bodyOf_append t _ body rfl _ _ hc
    · intro g pgg hg hvv
      have hg1 : (t.bpm_.WriteData f (t.bodies_.length + 1)).getPage g = some pgg := hg
      rw [hget g] at hg1
      show _ ∨ diskRead (t.bpm_.WriteData f _).disk_ _ = _ ∨ _
      rw [hdisk]
      by_cases hgf : g = f
      · rw [if_pos hgf] at hg1
        cases hg1
        rcases hw with hw | hw
        · right; right
          show W page.page_id_
          rw [hid]; exact hw
        · left
          exact h.dirty f page hpg hv (by rw [hid]; exact hw)
      · rw [if_neg hgf] at hg1
        exact h.sync g pgg hg1 hvv
    · intro g pgg hg hvv hd
      have hg1 : (t.bpm_.WriteData f (t.bodies_.length + 1)).getPage g = some pgg := hg
      rw [hget g] at hg1
      by_cases hgf : g = f
      · rw [if_pos hgf] at hg1
        cases hg1
        exact h.dirty f page hpg hv hd
      · rw [if_neg hgf] at hg1
        exact h.dirty g pgg hg1 hvv hd
    · intro g pgg hg hvv
      have hg1 : (t.bpm_.WriteData f (t.bodies_.length + 1)).getPage g = some pgg := hg
      rw [hget g] at hg1
      by_cases hgf : g = f
      · rw [if_pos hgf] at hg1
        cases hg1
        exact h.pins f page hpg hv
      · rw [if_neg hgf] at hg1
        exact h.pins g pgg hg1 hvv
    · intro q hq
      have hq1 : assocFind (t.bpm_.WriteData f (t.bodies_.length + 1)).page_table_ q = none := hq
      rw [htable] at hq1
      exact h.absent q hq1
    · exact h.held

end PooledHashTable

namespace PooledHashTable
variable {K V : Type}

/-- A new page whose frame was obtained and initialised: the pool holds the pages of the table
with the new page appended, and the new page is pinned once under a mutable view. -/
theorem Rep.newPage_ok {n N : Nat} {P : Int → Int} {W D : Int → Prop} {t : PooledHashTable K V}
    {ht : DiskExtendibleHashTable K V} (h : Rep n N P W D t ht) (hn : (n : Int) + 1 < 2 ^ 31)
    {pid f : Int} {t1 : PooledHashTable K V} (hnew : t.newPage = Except.ok (pid, f, t1)) :
    pid = (ht.bpm_.length : Int) ∧
    ∀ (body : PageData K V) (t2 : PooledHashTable K V),
      t1.writePage f pid body = Except.ok t2 →
      Rep (n + 1) N (Function.update P pid 1) (fun q => W q ∨ q = pid) (fun q => D q ∧ q ≠ pid)
        t2 { ht with bpm_ := ht.bpm_ ++ [body] } ∧ t2.Holds f pid := by
  unfold newPage at hnew
  rcases h.inv.newPage hn with ⟨he, _, _⟩ |
    ⟨f0, b1, page, he, hinv1, hpg, hcase, hpages, htable, hfree, hnext, hdisk, hlog, hpool,
      hstat⟩
  · rw [he] at hnew; cases hnew
  rw [he] at hnew
  simp only at hnew
  cases hnew
  have hnext0 : 0 ≤ t.bpm_.next_page_id_ := h.inv.next_ge
  have hpv : t.bpm_.next_page_id_ ≠ INVALID_PAGE_ID := by unfold INVALID_PAGE_ID; omega
  refine ⟨h.next, ?_⟩
  intro body t2 hwr
  have hget := BufferPoolManager.getPage_of_set hpages (by rw [hpg]; rfl)
  have hget0' := hget f
  rw [if_pos rfl] at hget0'
  obtain ⟨pg1, hget0, hid1, hpin1⟩ : ∃ pg1, b1.getPage f = some pg1 ∧
      pg1.page_id_ = t.bpm_.next_page_id_ ∧ pg1.pin_count_ = 1 := ⟨_, hget0', rfl, rfl⟩
  clear hget0'
  have habsent : assocFind t.bpm_.page_table_ t.bpm_.next_page_id_ = none := by
    cases hfind : assocFind t.bpm_.page_table_ t.bpm_.next_page_id_ with
    | none => rfl
    | some g =>
      obtain ⟨pgg, hpgg, hidg⟩ := h.table_holds hfind
      have := h.tight.below g pgg hpgg
      omega
  have hlt1 : t.bpm_.next_page_id_ < b1.next_page_id_ := by rw [hnext]; omega
  have hle1 : t.bpm_.next_page_id_ ≤ b1.next_page_id_ := by rw [hnext]; omega
  have htight1 : b1.Tight :=
    BufferPoolManager.Tight.of_install h.tight hpg hpages
      (show _ = t.bpm_.next_page_id_ from rfl) htable hpv hlt1 hle1 habsent
  unfold writePage at hwr
  have hget0'' : ({ t with bpm_ := b1 } : PooledHashTable K V).bpm_.getPage f = some pg1 := hget0
  rw [hget0''] at hwr
  simp only [hid1, if_true] at hwr
  cases hwr
  have hwd : b1.WriteData f (t.bodies_.length + 1) =
      b1.setPage f { pg1 with data_ := t.bodies_.length + 1 } := by
    unfold BufferPoolManager.WriteData
    rw [hget0]
  have hpages2 : (b1.WriteData f (t.bodies_.length + 1)).pages_ =
      b1.pages_.set f.toNat { pg1 with data_ := t.bodies_.length + 1 } := by
    rw [hwd]; rfl
  have hget2 := BufferPoolManager.getPage_of_set hpages2 (by rw [hget0]; rfl)
  have hget20 := hget2 f
  rw [if_pos rfl] at hget20
  have hgetne : ∀ g, g ≠ f → (b1.WriteData f (t.bodies_.length + 1)).getPage g = t.bpm_.getPage g := by
    intro g hg
    rw [hget2 g, if_neg hg, hget g, if_neg hg]
  have htab1 : ∀ q, assocFind (b1.WriteData f (t.bodies_.length + 1)).page_table_ q =
      if q = t.bpm_.next_page_id_ then some f else if q = page.page_id_ then none
        else assocFind t.bpm_.page_table_ q := by
    intro q
    rw [hwd]
    show assocFind b1.page_table_ q = _
    rw [htable]
    exact find_install _ _ _ _ _ habsent
  have hdisk2 : (b1.WriteData f (t.bodies_.length + 1)).disk_ = b1.disk_ := by rw [hwd]; rfl
  have hnext2 : (b1.WriteData f (t.bodies_.length + 1)).next_page_id_ = b1.next_page_id_ := by
    rw [hwd]; rfl
  have hpin0 : page.page_id_ ≠ INVALID_PAGE_ID →
      t.bpm_.free_list_ = [] ∧ page.pin_count_ = 0 := by
    intro hv
    rcases hcase with ⟨hne, hlast⟩ | ⟨hnil, _, hst⟩
    · exact absurd (BufferPoolManager.free_frame_invalid h.inv f page hpg hlast) hv
    · have hnf : f ∉ t.bpm_.free_list_ := by rw [hnil]; simp
      have := (h.inv.occ f page hpg hnf (by simp)).2.2
      rw [hst] at this
      exact ⟨hnil, by simpa using this⟩
  have hdisk_ne : ∀ q, q ≠ page.page_id_ → diskRead b1.disk_ q = diskRead t.bpm_.disk_ q := by
    intro q hq
    rw [hdisk]
    split
    · rw [diskRead_assocPut, if_neg hq]
    · rfl
  have hdisk_eq : page.page_id_ ≠ INVALID_PAGE_ID →
      diskRead b1.disk_ page.page_id_ = page.data_ := by
    intro hv
    obtain ⟨hnil, hz⟩ := hpin0 hv
    rw [hdisk]
    by_cases hdirty : page.is_dirty_ = true
    · rw [if_pos ⟨hnil, hdirty⟩, diskRead_assocPut, if_pos rfl]
    · rw [if_neg (fun hx => hdirty hx.2)]
      rcases h.sync f page hpg hv with h1 | h1 | h1
      · exact absurd h1 hdirty
      · exact h1
      · have := h.held _ h1
        rw [← h.pins f page hpg hv] at this
        omega
  have hq0 : page.page_id_ ≠ t.bpm_.next_page_id_ := by
    have := h.tight.below f page hpg
    omega
  refine ⟨⟨h.header_max_depth, h.directory_max_depth, h.bucket_max_size, h.header_page_id, (by rw [hwd]; exact hpool.trans h.size),
    hinv1.writeData f _,
    BufferPoolManager.Tight.of_set htight1 hget0 hpages2 rfl (by rw [hwd]; rfl) hnext2,
    ?_, ?_, ?_, ?_, ?_, ?_, ?_⟩, ⟨_, hget20, hid1⟩⟩
  · show (b1.WriteData f (t.bodies_.length + 1)).next_page_id_ = ((ht.bpm_ ++ [body]).length : Int)
    rw [hnext2, hnext, h.next]
    simp
  · intro q body1 hq
    have hq1 : (ht.bpm_ ++ [body]).Fetch q = some body1 := hq
    rcases Fetch_append_cases hq1 with ⟨hql, hb⟩ | ⟨hql, hb⟩
    · rw [← h.next] at hql
      subst hb
      rw [pageBody_resident _ q f _ (by rw [htab1 q, if_pos hql]) hget20]
      exact bodyOf_new t _ body1 rfl
    · rw [← h.next] at hql
      have hqr := Fetch_some_range hb
      have hc := h.content q body1 hb
      by_cases hqq : q = page.page_id_
      · have hv : page.page_id_ ≠ INVALID_PAGE_ID := by
          rw [← hqq]; unfold INVALID_PAGE_ID; omega
        rw [pageBody_absent _ q (by rw [htab1 q, if_neg hql, if_pos hqq])]
        rw [pageBody_resident t q f page (by rw [hqq]; exact h.frame_of hpg hv) hpg] at hc
        show bodyOf _ (diskRead (b1.WriteData f (t.bodies_.length + 1)).disk_ q) = _
        rw [hdisk2, hqq, hdisk_eq hv]
        exact bodyOf_append t _ body rfl _ _ hc
      · cases hfind : assocFind t.bpm_.page_table_ q with
        | none =>
          rw [pageBody_absent _ q (by rw [htab1 q, if_neg hql, if_neg hqq]; exact hfind)]
          rw [pageBody_absent t q hfind] at hc
          show bodyOf _ (diskRead (b1.WriteData f (t.bodies_.length + 1)).disk_ q) = _
          rw [hdisk2, hdisk_ne q hqq]
          exact bodyOf_append t _ body rfl _ _ hc
        | some fr =>
          obtain ⟨pfr, hpfr, hidfr⟩ := h.table_holds hfind
          have hfr : fr ≠ f := by
            intro heq
            rw [heq, hpg] at hpfr
            cases hpfr
            exact hqq hidfr.symm
          have hg1 := hgetne fr hfr
          rw [hpfr] at hg1
          rw [pageBody_resident _ q fr pfr
            (by rw [htab1 q, if_neg hql, if_neg hqq]; exact hfind) hg1]
          rw [pageBody_resident t q fr pfr hfind hpfr] at hc
          exact bodyOf_append t _ body rfl _ _ hc
  · intro g pgg hg hv
    have hg1 : (b1.WriteData f (t.bodies_.length + 1)).getPage g = some pgg := hg
    show _ ∨ diskRead (b1.WriteData f (t.bodies_.length + 1)).disk_ _ = _ ∨ _
    by_cases hgf : g = f
    · rw [hgf, hget20] at hg1
      cases hg1
      right; right; right
      exact hid1
    · rw [hgetne g hgf] at hg1
      have hne : pgg.page_id_ ≠ page.page_id_ := by
        intro heq
        exact hgf (h.frame_unique hg1 hpg hv heq)
      rw [hdisk2, hdisk_ne _ hne]
      rcases h.sync g pgg hg1 hv with h1 | h1 | h1
      · exact Or.inl h1
      · exact Or.inr (Or.inl h1)
      · exact Or.inr (Or.inr (Or.inl h1))
  · intro g pgg hg hv hd
    have hg1 : (b1.WriteData f (t.bodies_.length + 1)).getPage g = some pgg := hg
    by_cases hgf : g = f
    · rw [hgf, hget20] at hg1
      cases hg1
      exact absurd hid1 hd.2
    · rw [hgetne g hgf] at hg1
      exact h.dirty g pgg hg1 hv hd.1
  · intro g pgg hg hv
    have hg1 : (b1.WriteData f (t.bodies_.length + 1)).getPage g = some pgg := hg
    by_cases hgf : g = f
    · rw [hgf, hget20] at hg1
      cases hg1
      show pg1.pin_count_ = Function.update P t.bpm_.next_page_id_ 1 pg1.page_id_
      rw [hid1, Function.update_same, hpin1]
    · rw [hgetne g hgf] at hg1
      have hne : pgg.page_id_ ≠ t.bpm_.next_page_id_ := by
        have := h.tight.below g pgg hg1
        omega
      rw [Function.update_noteq hne]
      exact h.pins g pgg hg1 hv
  · intro q hq
    have hq1 : assocFind (b1.WriteData f (t.bodies_.length + 1)).page_table_ q = none := hq
    rw [htab1 q] at hq1
    by_cases hqp : q = t.bpm_.next_page_id_
    · rw [if_pos hqp] at hq1; cases hq1
    · rw [if_neg hqp] at hq1
      rw [Function.update_noteq hqp]
      by_cases hqq : q = page.page_id_
      · by_cases hv : page.page_id_ = INVALID_PAGE_ID
        · rw [hqq, hv]
          exact h.absent _ h.tight.valid_keys
        · rw [hqq, ← h.pins f page hpg hv]
          exact (hpin0 hv).2
      · rw [if_neg hqq] at hq1
        exact h.absent q hq1
  · intro q hq
    by_cases hqp : q = t.bpm_.next_page_id_
    · rw [hqp, Function.update_same]
      decide
    · rw [Function.update_noteq hqp]
      rcases hq with hq | hq
      · exact h.held q hq
      · exact absurd hq hqp

/-- A new page obtained while another page is pinned: the pool has at least two frames. -/
theorem Rep.newPage_room {n N : Nat} {P : Int → Int} {W D : Int → Prop}
    {t : PooledHashTable K V} {ht : DiskExtendibleHashTable K V} (h : Rep n N P W D t ht)
    (hn : (n : Int) + 1 < 2 ^ 31) {pid f : Int} {t1 : PooledHashTable K V}
    (hnew : t.newPage = Except.ok (pid, f, t1)) {p : Int} (hp : 0 < P p) : 2 ≤ N := by
  unfold newPage at hnew
  rcases h.inv.newPage hn with ⟨he, _, _⟩ |
    ⟨f0, b1, page, he, hinv1, hpg, hcase, _⟩
  · rw [he] at hnew; cases hnew
  rw [he] at hnew
  simp only at hnew
  cases hnew
  cases hfind : assocFind t.bpm_.page_table_ p with
  | none =>
    have := h.absent p hfind
    omega
  | some g =>
    obtain ⟨pgg, hpgg, hidg⟩ := h.table_holds hfind
    have hpv : p ≠ INVALID_PAGE_ID := by
      intro hx
      rw [hx, h.tight.valid_keys] at hfind
      cases hfind
    have hpin : pgg.pin_count_ = P p := by
      rw [← hidg]
      exact h.pins g pgg hpgg (by rw [hidg]; exact hpv)
    have hne : g ≠ f := by
      intro hx
      rw [hx, hpg] at hpgg
      cases hpgg
      rcases hcase with ⟨_, hlast⟩ | ⟨hnil, _, hst⟩
      · have := BufferPoolManager.free_frame_invalid h.inv f page hpg hlast
        rw [hidg] at this
        exact hpv this
      · have hnf : f ∉ t.bpm_.free_list_ := by rw [hnil]; simp
        have := (h.inv.occ f page hpg hnf (by simp)).2.2
        rw [hst] at this
        have hz : page.pin_count_ = 0 := by simpa using this
        omega
    have hg := (BufferPoolManager.getPage_isSome_iff t.bpm_ g).1 (by rw [hpgg]; rfl)
    have hf := (BufferPoolManager.getPage_isSome_iff t.bpm_ f).1 (by rw [hpg]; rfl)
    rw [h.inv.len, h.size] at hg hf
    omega

end PooledHashTable

/-! ### `GetValue` on the pool -/

namespace PooledHashTable
variable {K V : Type}

theorem upd_fetch_drop (P : Int → Int) (a : Int) (q : Int) :
    P q = Function.update (Function.update P a (P a + 1)) a
      (Function.update P a (P a + 1) a - 1) q := by
  by_cases h : q = a
  · subst h; simp
  · simp [Function.update_noteq h]

theorem upd_two (P : Int → Int) (a b : Int) (hab : a ≠ b) (q : Int) :
    P q = Function.update
      (Function.update (Function.update (Function.update P a (P a + 1)) b
          (Function.update P a (P a + 1) b + 1)) a
        (Function.update (Function.update P a (P a + 1)) b
          (Function.update P a (P a + 1) b + 1) a - 1)) b
      (Function.update (Function.update (Function.update P a (P a + 1)) b
          (Function.update P a (P a + 1) b + 1)) a
        (Function.update (Function.update P a (P a + 1)) b
          (Function.update P a (P a + 1) b + 1) a - 1) b - 1) q := by
  have hba : b ≠ a := fun h => hab h.symm
  by_cases h1 : q = b
  · subst h1
    simp [Function.update_noteq hba, Function.update_noteq hab]
  · by_cases h2 : q = a
    · subst h2
      simp [Function.update_noteq hba, Function.update_noteq hab, Function.update_noteq h1]
    · simp [Function.update_noteq h1, Function.update_noteq h2]

theorem Rep.readHeader_ok {n N : Nat} {P : Int → Int} {W D : Int → Prop}
    {t : PooledHashTable K V} {ht : DiskExtendibleHashTable K V} (h : Rep n N P W D t ht)
    {f p : Int} {x x0 : ExtendibleHTableHeaderPage} (h0 : ht.bpm_.FetchHeader p = some x0)
    (hr : t.readHeader f p = Except.ok x) : x = x0 ∧ t.Holds f p := by
  unfold readHeader at hr
  cases hrp : t.readPage f p with
  | error e => rw [hrp] at hr; cases hr
  | ok body =>
    rw [hrp] at hr
    obtain ⟨hb, hh⟩ := h.read_ok (PageStore.FetchHeader_iff.1 h0) hrp
    subst hb
    cases hr
    exact ⟨rfl, hh⟩

theorem Rep.readDirectory_ok {n N : Nat} {P : Int → Int} {W D : Int → Prop}
    {t : PooledHashTable K V} {ht : DiskExtendibleHashTable K V} (h : Rep n N P W D t ht)
    {f p : Int} {x x0 : ExtendibleHTableDirectoryPage}
    (h0 : ht.bpm_.FetchDirectory p = some x0)
    (hr : t.readDirectory f p = Except.ok x) : x = x0 ∧ t.Holds f p := by
  unfold readDirectory at hr
  cases hrp : t.readPage f p with
  | error e => rw [hrp] at hr; cases hr
  | ok body =>
    rw [hrp] at hr
    obtain ⟨hb, hh⟩ := h.read_ok (PageStore.FetchDirectory_iff.1 h0) hrp
    subst hb
    cases hr
    exact ⟨rfl, hh⟩

theorem Rep.readBucket_ok {n N : Nat} {P : Int → Int} {W D : Int → Prop}
    {t : PooledHashTable K V} {ht : DiskExtendibleHashTable K V} (h : Rep n N P W D t ht)
    {f p : Int} {x x0 : ExtendibleHTableBucketPage K V}
    (h0 : ht.bpm_.FetchBucket p = some x0)
    (hr : t.readBucket f p = Except.ok x) : x = x0 ∧ t.Holds f p := by
  unfold readBucket at hr
  cases hrp : t.readPage f p with
  | error e => rw [hrp] at hr; cases hr
  | ok body =>
    rw [hrp] at hr
    obtain ⟨hb, hh⟩ := h.read_ok (PageStore.FetchBucket_iff.1 h0) hrp
    subst hb
    cases hr
    exact ⟨rfl, hh⟩

theorem header_ne_bucket {s : PageStore K V} {a b : Int} {x : ExtendibleHTableHeaderPage}
    {y : ExtendibleHTableBucketPage K V} (ha : s.FetchHeader a = some x)
    (hb : s.FetchBucket b = some y) : a ≠ b := by
  intro e
  have h1 := PageStore.FetchHeader_iff.1 ha
  have h2 := PageStore.FetchBucket_iff.1 hb
  rw [e, h2] at h1
  cases h1

theorem directory_ne_bucket {s : PageStore K V} {a b : Int}
    {x : ExtendibleHTableDirectoryPage}
    {y : ExtendibleHTableBucketPage K V} (ha : s.FetchDirectory a = some x)
    (hb : s.FetchBucket b = some y) : a ≠ b := by
  intro e
  have h1 := PageStore.FetchDirectory_iff.1 ha
  have h2 := PageStore.FetchBucket_iff.1 hb
  rw [e, h2] at h1
  cases h1

variable [DecidableEq K]

/-- A `GetValue` on the pool that returns: it returns what `GetValue` returns on the pages of
the table, and no guard is left. -/
theorem Quiet.getValue_ok (hash_fn_ : K → Nat) {n N : Nat} {t : PooledHashTable K V}
    {ht : DiskExtendibleHashTable K V} (h : Quiet n N t ht)
    (hok : DiskExtendibleHashTable.TableOK ht) (hn : (n : Int) + 3 < 2 ^ 31) {key : K}
    {v : Option V} {t1 : PooledHashTable K V}
    (hg : GetValue hash_fn_ t key = Except.ok (v, t1)) :
    DiskExtendibleHashTable.GetValue hash_fn_ ht key = some v ∧ Quiet (n + 3) N t1 ht := by
  obtain ⟨hp, dpid, hhp, hdpid, hrest⟩ := hok.path hash_fn_ key
  have hH := PageStore.FetchHeader_iff.1 hhp
  unfold GetValue at hg
  rw [h.header_page_id] at hg
  obtain ⟨⟨hfr, s1⟩, e1, hg1⟩ := bind_eq_ok hg
  clear hg
  obtain ⟨r1, -⟩ := Rep.fetch_ok h (by omega) hH e1
  obtain ⟨hp1, e2, hg2⟩ := bind_eq_ok hg1
  clear hg1
  obtain ⟨hx, -⟩ := r1.readHeader_ok hhp e2
  subst hx
  obtain ⟨dpid1, e3, hg3⟩ := bind_eq_ok hg2
  clear hg2
  have hx := defined_eq_ok e3
  rw [hdpid] at hx
  cases hx
  have hpos1 : 0 < Function.update (fun _ : Int => (0 : Int)) ht.header_page_id_ (0 + 1)
      ht.header_page_id_ := by simp
  by_cases hv : dpid = INVALID_PAGE_ID
  · rw [if_pos hv] at hg3
    obtain ⟨s2, e4, hg4⟩ := bind_eq_ok hg3
    clear hg3
    have r2 := r1.drop_ok hpos1 (Or.inr (fun hw => hw)) e4
    cases hg4
    constructor
    · unfold DiskExtendibleHashTable.GetValue
      simp only [hhp, hdpid, Option.some_bind, if_pos hv]
    · exact r2.change (by omega) (upd_fetch_drop _ _) (fun q => ⟨fun hq => hq.elim, fun hq => hq.1⟩)
        (fun q hq => hq.elim)
  rw [if_neg hv] at hg3
  obtain ⟨dp, bpid, ld, hdp, hdok, hbpid, hld, hle, hb⟩ := hrest hv
  obtain ⟨s2, e4, hg4⟩ := bind_eq_ok hg3
  clear hg3
  have r2 := (r1.drop_ok hpos1 (Or.inr (fun hw => hw)) e4).change (Nat.le_refl _)
    (upd_fetch_drop _ _) (fun q => (⟨fun hq => hq.elim, fun hq => hq.1⟩ : False ↔ _))
    (fun q (hq : False) => hq.elim)
  obtain ⟨⟨dfr, s3⟩, e5, hg5⟩ := bind_eq_ok hg4
  clear hg4
  obtain ⟨r3, -⟩ := Rep.fetch_ok r2 (by omega) (PageStore.FetchDirectory_iff.1 hdp) e5
  obtain ⟨dp1, e6, hg6⟩ := bind_eq_ok hg5
  clear hg5
  obtain ⟨hx, -⟩ := r3.readDirectory_ok hdp e6
  subst hx
  obtain ⟨bpid1, e7, hg7⟩ := bind_eq_ok hg6
  clear hg6
  have hx := defined_eq_ok e7
  rw [hbpid] at hx
  cases hx
  have hpos3 : 0 < Function.update (fun _ : Int => (0 : Int)) dpid (0 + 1) dpid := by simp
  by_cases hbv : bpid = INVALID_PAGE_ID
  · rw [if_pos hbv] at hg7
    obtain ⟨s4, e8, hg8⟩ := bind_eq_ok hg7
    clear hg7
    have r4 := r3.drop_ok hpos3 (Or.inr (fun hw => hw)) e8
    cases hg8
    constructor
    · unfold DiskExtendibleHashTable.GetValue
      simp only [hhp, hdpid, Option.some_bind, if_neg hv, hdp, hbpid, if_pos hbv]
    · exact r4.change (by omega) (upd_fetch_drop _ _) (fun q => ⟨fun hq => hq.elim, fun hq => hq.1⟩)
        (fun q hq => hq.elim)
  rw [if_neg hbv] at hg7
  obtain ⟨bp, hbp⟩ := hb hbv
  have hdb := directory_ne_bucket hdp hbp
  obtain ⟨⟨bfr, s4⟩, e8, hg8⟩ := bind_eq_ok hg7
  clear hg7
  obtain ⟨r4, -⟩ := Rep.fetch_ok r3 (by omega) (PageStore.FetchBucket_iff.1 hbp) e8
  obtain ⟨s5, e9, hg9⟩ := bind_eq_ok hg8
  clear hg8
  have r5 := r4.drop_ok (by simp [Function.update_noteq hdb]) (Or.inr (fun hw => hw)) e9
  obtain ⟨bp1, e10, hg10⟩ := bind_eq_ok hg9
  clear hg9
  obtain ⟨hx, -⟩ := r5.readBucket_ok hbp e10
  subst hx
  obtain ⟨s6, e11, hg11⟩ := bind_eq_ok hg10
  clear hg10
  have r6 := r5.drop_ok (by simp [Function.update_noteq hdb, Function.update_noteq (Ne.symm hdb)])
    (Or.inr (fun hw => hw.1)) e11
  cases hg11
  constructor
  · unfold DiskExtendibleHashTable.GetValue
    simp only [hhp, hdpid, Option.some_bind, if_neg hv, hdp, hbpid, if_neg hbv, hbp]
  · exact r6.change (by omega) (upd_two _ _ _ hdb)
      (fun q => ⟨fun hq => hq.elim, fun hq => hq.1.1⟩) (fun q hq => hq.elim)

end PooledHashTable

/-! ### `Insert` on the pool -/

namespace PooledHashTable
variable {K V : Type}

/-- The next page id is not resident. -/
theorem Rep.next_absent {n N : Nat} {P : Int → Int} {W D : Int → Prop}
    {t : PooledHashTable K V} {ht : DiskExtendibleHashTable K V} (h : Rep n N P W D t ht) :
    assocFind t.bpm_.page_table_ (ht.bpm_.length : Int) = none := by
  rw [← h.next]
  cases hfind : assocFind t.bpm_.page_table_ t.bpm_.next_page_id_ with
  | none => rfl
  | some g =>
    obtain ⟨pgg, hpgg, hidg⟩ := h.table_holds hfind
    have := h.tight.below g pgg hpgg
    omega

theorem upd_new_drop (P : Int → Int) (a : Int) (ha : P a = 0) (q : Int) :
    P q = Function.update (Function.update P a 1) a (Function.update P a 1 a - 1) q := by
  by_cases h : q = a
  · subst h; simp [ha]
  · simp [Function.update_noteq h]

variable [DecidableEq K]

/-- An `InsertToNewBucket` on the pool that returns does what `InsertToNewBucket` does on the
pages of the table. -/
theorem Rep.insertToNewBucket_ok {n N : Nat} {P : Int → Int} {W D : Int → Prop}
    {t : PooledHashTable K V} {ht : DiskExtendibleHashTable K V} (h : Rep n N P W D t ht)
    (hn : (n : Int) + 1 < 2 ^ 31) {dfr dpid : Int} {d0 : ExtendibleHTableDirectoryPage}
    {idx : Nat} {key : K} {value : V} {res : Bool} {t1 : PooledHashTable K V}
    (hdir : ht.bpm_.FetchDirectory dpid = some d0) (hw : W dpid)
    (hc : t.InsertToNewBucket dfr dpid idx key value = Except.ok (res, t1)) :
    ∃ ht1, DiskExtendibleHashTable.InsertToNewBucket ht dpid d0 idx key value = some (res, ht1) ∧
      Rep (n + 1) N P W (fun _ => False) t1 ht1 ∧ 2 ≤ N := by
  have hP0 : P (ht.bpm_.length : Int) = 0 := h.absent _ h.next_absent
  have hW0 : ¬ W (ht.bpm_.length : Int) := fun hx => by
    have := h.held _ hx
    omega
  have hdl := Fetch_some_range (PageStore.FetchDirectory_iff.1 hdir)
  have hne : dpid ≠ (ht.bpm_.length : Int) := by omega
  unfold InsertToNewBucket at hc
  rw [h.bucket_max_size] at hc
  obtain ⟨⟨bpid, bfr, s1⟩, e1, hc1⟩ := bind_eq_ok hc
  clear hc
  have hroom := h.newPage_room hn e1 (h.held _ hw)
  obtain ⟨hb, hrest⟩ := h.newPage_ok hn e1
  subst hb
  obtain ⟨s2, e2, hc2⟩ := bind_eq_ok hc1
  clear hc1
  obtain ⟨r2, -⟩ := hrest _ _ e2
  obtain ⟨dir, e3, hc3⟩ := bind_eq_ok hc2
  clear hc2
  have hdir1 : (ht.bpm_ ++ [PageData.bucket
      (ExtendibleHTableBucketPage.Init ht.bucket_max_size_)]).FetchDirectory dpid = some d0 :=
    PageStore.FetchDirectory_iff.2 (PageStore.Fetch_append _ (PageStore.FetchDirectory_iff.1 hdir))
  obtain ⟨hx, -⟩ := r2.readDirectory_ok hdir1 e3
  subst hx
  obtain ⟨dir1, e4, hc4⟩ := bind_eq_ok hc3
  clear hc3
  have e4' := defined_eq_ok e4
  obtain ⟨s3, e5, hc5⟩ := bind_eq_ok hc4
  clear hc4
  obtain ⟨r3, -⟩ := r2.write_ok (PageStore.FetchDirectory_iff.1 hdir1) (Or.inl (Or.inl hw)) e5
  obtain ⟨s4, e6, hc6⟩ := bind_eq_ok hc5
  clear hc5
  have hfb : ((ht.bpm_ ++ [PageData.bucket
      (ExtendibleHTableBucketPage.Init ht.bucket_max_size_)]).Write dpid
        (PageData.directory dir1)).Fetch (ht.bpm_.length : Int) =
      some (PageData.bucket (ExtendibleHTableBucketPage.Init ht.bucket_max_size_)) := by
    rw [PageStore.Fetch_Write_ne _ hne]
    exact PageStore.Fetch_append_length _ _
  obtain ⟨r4, -⟩ := r3.write_ok hfb (Or.inl (Or.inr rfl)) e6
  obtain ⟨s5, e7, hc7⟩ := bind_eq_ok hc6
  clear hc6
  have r5 := r4.drop_ok (by simp) (Or.inl rfl) e7
  cases hc7
  refine ⟨_, ?_, r5.change (Nat.le_refl _) (upd_new_drop P _ hP0) ?_ (fun q hq => hq.elim), hroom⟩
  · unfold DiskExtendibleHashTable.InsertToNewBucket PageStore.NewPage
    simp only [e4', Option.some_bind]
  · intro q
    constructor
    · intro hq
      refine ⟨Or.inl hq, ?_⟩
      intro hx
      rw [hx] at hq
      exact hW0 hq
    · rintro ⟨hq | hq, hq2⟩
      · exact hq
      · exact absurd hq hq2

end PooledHashTable

namespace PooledHashTable
variable {K V : Type} [DecidableEq K]

/-- An `InsertToNewDirectory` on the pool that returns does what `InsertToNewDirectory` does on
the pages of the table. -/
theorem Rep.insertToNewDirectory_ok {n N : Nat} {P : Int → Int} {W D : Int → Prop}
    {t : PooledHashTable K V} {ht : DiskExtendibleHashTable K V} (h : Rep n N P W D t ht)
    (hn : (n : Int) + 2 < 2 ^ 31) {hfr : Int} {h0 : ExtendibleHTableHeaderPage}
    {idx hash : Nat} {key : K} {value : V} {res : Bool} {t1 : PooledHashTable K V}
    (hhdr : ht.bpm_.FetchHeader ht.header_page_id_ = some h0) (hw : W ht.header_page_id_)
    (hc : t.InsertToNewDirectory hfr idx hash key value = Except.ok (res, t1)) :
    ∃ ht1, DiskExtendibleHashTable.InsertToNewDirectory ht h0 idx hash key value =
        some (res, ht1) ∧
      Rep (n + 2) N P W (fun _ => False) t1 ht1 ∧ 2 ≤ N := by
  have hP0 : P (ht.bpm_.length : Int) = 0 := h.absent _ h.next_absent
  have hW0 : ¬ W (ht.bpm_.length : Int) := fun hx => by
    have := h.held _ hx
    omega
  have hhl := Fetch_some_range (PageStore.FetchHeader_iff.1 hhdr)
  have hne : ht.header_page_id_ ≠ (ht.bpm_.length : Int) := by omega
  unfold InsertToNewDirectory at hc
  rw [h.directory_max_depth, h.header_page_id] at hc
  obtain ⟨⟨dpid, dfr, s1⟩, e1, hc1⟩ := bind_eq_ok hc
  clear hc
  obtain ⟨hb, hrest⟩ := h.newPage_ok (by omega) e1
  subst hb
  obtain ⟨s2, e2, hc2⟩ := bind_eq_ok hc1
  clear hc1
  obtain ⟨r2, -⟩ := hrest _ _ e2
  obtain ⟨hdr, e3, hc3⟩ := bind_eq_ok hc2
  clear hc2
  have hhdr1 : (ht.bpm_ ++ [PageData.directory
      (ExtendibleHTableDirectoryPage.Init ht.directory_max_depth_)]).FetchHeader
        ht.header_page_id_ = some h0 :=
    PageStore.FetchHeader_iff.2 (PageStore.Fetch_append _ (PageStore.FetchHeader_iff.1 hhdr))
  obtain ⟨hx, -⟩ := r2.readHeader_ok hhdr1 e3
  subst hx
  obtain ⟨hdr1, e4, hc4⟩ := bind_eq_ok hc3
  clear hc3
  have e4' := defined_eq_ok e4
  obtain ⟨s3, e5, hc5⟩ := bind_eq_ok hc4
  clear hc4
  obtain ⟨r3, -⟩ := r2.write_ok (PageStore.FetchHeader_iff.1 hhdr1) (Or.inl (Or.inl hw)) e5
  obtain ⟨⟨res1, s4⟩, e6, hc6⟩ := bind_eq_ok hc5
  clear hc5
  have hfd : ((ht.bpm_ ++ [PageData.directory
      (ExtendibleHTableDirectoryPage.Init ht.directory_max_depth_)]).Write ht.header_page_id_
        (PageData.header hdr1)).FetchDirectory (ht.bpm_.length : Int) =
      some (ExtendibleHTableDirectoryPage.Init ht.directory_max_depth_) := by
    rw [PageStore.FetchDirectory_iff, PageStore.Fetch_Write_ne _ hne]
    exact PageStore.Fetch_append_length _ _
  obtain ⟨ht3, hm, r4, hroom⟩ := r3.insertToNewBucket_ok (by omega) hfd (Or.inr rfl) e6
  obtain ⟨s5, e7, hc7⟩ := bind_eq_ok hc6
  clear hc6
  have r5 := r4.drop_ok (by simp) (Or.inl rfl) e7
  cases hc7
  refine ⟨ht3, ?_, r5.change (Nat.le_refl _) (upd_new_drop P _ hP0) ?_ (fun q hq => hq.elim), hroom⟩
  · unfold DiskExtendibleHashTable.InsertToNewDirectory PageStore.NewPage
    simp only [e4', Option.some_bind]
    exact hm
  · intro q
    constructor
    · intro hq
      refine ⟨Or.inl hq, ?_⟩
      intro hx
      rw [hx] at hq
      exact hW0 hq
    · rintro ⟨hq | hq, hq2⟩
      · exact hq
      · exact absurd hq hq2

end PooledHashTable

namespace PooledHashTable
variable {K V : Type}

theorem Fetch_isSome_iff (s : PageStore K V) (p : Int) :
    (s.Fetch p).isSome = true ↔ 0 ≤ p ∧ p < (s.length : Int) := by
  unfold PageStore.Fetch
  by_cases h : 0 ≤ p
  · rw [if_pos h]
    constructor
    · intro hx
      obtain ⟨b, hb⟩ := Option.isSome_iff_exists.1 hx
      have := (List.getElem?_eq_some_iff.1 hb).1
      omega
    · intro hx
      have hlt : p.toNat < s.length := by omega
      rw [List.getElem?_eq_getElem hlt]
      rfl
  · rw [if_neg h]
    constructor
    · intro hx; cases hx
    · intro hx; exact absurd hx.1 h

theorem Fetch_Write_eq (s : PageStore K V) (p q : Int) (b : PageData K V) :
    (s.Write p b).Fetch q = if q = p then (s.Fetch p).map (fun _ => b) else s.Fetch q := by
  by_cases hqp : q = p
  · rw [if_pos hqp, hqp]
    cases hs : s.Fetch p with
    | none =>
      cases hw : (s.Write p b).Fetch p with
      | none => rfl
      | some x =>
        exfalso
        have h1 := PageStore.Fetch_lt hw
        rw [PageStore.length_Write] at h1
        have h2 : (s.Fetch p).isSome = true := (Fetch_isSome_iff s p).2 ⟨h1.1, by omega⟩
        rw [hs] at h2
        cases h2
    | some x =>
      have h1 := PageStore.Fetch_lt hs
      rw [PageStore.Fetch_Write_same b h1.1 h1.2]
      rfl
  · rw [if_neg hqp, PageStore.Fetch_Write_ne b (fun e => hqp e.symm)]

theorem Fetch_append_eq (s : PageStore K V) (x : PageData K V) (q : Int) :
    (s ++ [x]).Fetch q = if q = (s.length : Int) then some x else s.Fetch q := by
  by_cases hq : q = (s.length : Int)
  · rw [if_pos hq, hq]
    exact PageStore.Fetch_append_length s x
  · rw [if_neg hq]
    cases hs : s.Fetch q with
    | some b => exact PageStore.Fetch_append x hs
    | none =>
      cases ha : (s ++ [x]).Fetch q with
      | none => rfl
      | some b =>
        exfalso
        rcases Fetch_append_cases ha with ⟨h1, _⟩ | ⟨_, h2⟩
        · exact hq h1
        · rw [hs] at h2; cases h2

/-- The pool holds the pages of any table with the same parameters and the same pages. -/
theorem Rep.congr_store {n N : Nat} {P : Int → Int} {W D : Int → Prop}
    {t : PooledHashTable K V} {ht : DiskExtendibleHashTable K V} (h : Rep n N P W D t ht)
    (s : PageStore K V) (hlen : s.length = ht.bpm_.length)
    (hf : ∀ p, s.Fetch p = ht.bpm_.Fetch p) :
    Rep n N P W D t { ht with bpm_ := s } :=
  { header_max_depth := h.header_max_depth
    directory_max_depth := h.directory_max_depth
    bucket_max_size := h.bucket_max_size
    header_page_id := h.header_page_id
    size := h.size
    inv := h.inv
    tight := h.tight
    next := by
      show t.bpm_.next_page_id_ = (s.length : Int)
      rw [hlen]; exact h.next
    content := fun p body hp => h.content p body (by rw [← hf p]; exact hp)
    sync := h.sync
    dirty := h.dirty
    pins := h.pins
    absent := h.absent
    held := h.held }

end PooledHashTable

namespace PooledHashTable
variable {K V : Type} [DecidableEq K]

/-- A `SplitBucket` on the pool that returns does what `SplitBucket` does on the pages of the
table, followed by the stores of the directory page and of the bucket page that `Insert`
makes through its pointers. The directory page of the table may differ in the store `sa`
that `SplitBucket` is given at page level: the pointer version stores into the frame. -/
theorem Rep.splitBucket_ok (hash_fn_ : K → Nat) {n N : Nat} {P : Int → Int}
    {W D : Int → Prop} {t : PooledHashTable K V} {ht : DiskExtendibleHashTable K V}
    (h : Rep n N P W D t ht) (hn : (n : Int) + 1 < 2 ^ 31) {dfr dpid bfr bpid : Int}
    {idx : Nat} {okf : Bool} {t1 : PooledHashTable K V}
    {d3 : ExtendibleHTableDirectoryPage} {b0 : ExtendibleHTableBucketPage K V}
    (sa : PageStore K V) (hlen : sa.length = ht.bpm_.length)
    (hfa : ∀ p, p ≠ dpid → sa.Fetch p = ht.bpm_.Fetch p)
    (hdir : ht.bpm_.FetchDirectory dpid = some d3) (hbkt : ht.bpm_.FetchBucket bpid = some b0)
    (hwd : W dpid ∨ D dpid) (hwb : W bpid)
    (hc : SplitBucket hash_fn_ t dfr dpid bfr bpid idx = Except.ok (okf, t1)) :
    ∃ sp, DiskExtendibleHashTable.SplitBucket hash_fn_ { ht with bpm_ := sa } d3 b0 idx =
        some sp ∧ sp.ok = okf ∧
      Rep (n + 1) N P W (fun _ => False) t1
        { ht with bpm_ := ((sp.bpm.Write dpid (PageData.directory sp.directory)).Write bpid
            (PageData.bucket sp.bucket)) } ∧ 2 ≤ N := by
  have hP0 : P (ht.bpm_.length : Int) = 0 := h.absent _ h.next_absent
  have hW0 : ¬ W (ht.bpm_.length : Int) := fun hx => by
    have := h.held _ hx
    omega
  have hWeq : ∀ q, W q ↔ (W q ∨ q = (ht.bpm_.length : Int)) ∧ q ≠ (ht.bpm_.length : Int) := by
    intro q
    constructor
    · intro hq
      refine ⟨Or.inl hq, ?_⟩
      intro hx
      rw [hx] at hq
      exact hW0 hq
    · rintro ⟨hq | hq, hq2⟩
      · exact hq
      · exact absurd hq hq2
  have hD6 := PageStore.FetchDirectory_iff.1 hdir
  have hB6 := PageStore.FetchBucket_iff.1 hbkt
  have hdl := Fetch_some_range hD6
  have hbl := Fetch_some_range hB6
  have hdb : dpid ≠ bpid := directory_ne_bucket hdir hbkt
  have hdn : dpid ≠ (ht.bpm_.length : Int) := by omega
  have hbn : bpid ≠ (ht.bpm_.length : Int) := by omega
  have hLv : (ht.bpm_.length : Int) ≠ INVALID_PAGE_ID := by unfold INVALID_PAGE_ID; omega
  have hsd : (sa.Fetch dpid).isSome = true := (Fetch_isSome_iff sa dpid).2 (by rw [hlen]; exact hdl)
  obtain ⟨xd, hxd⟩ := Option.isSome_iff_exists.1 hsd
  unfold SplitBucket at hc
  rw [h.bucket_max_size] at hc
  obtain ⟨⟨spid, sfr, s1⟩, e1, hc1⟩ := bind_eq_ok hc
  clear hc
  have hroom := h.newPage_room hn e1 (h.held _ hwb)
  obtain ⟨hb, hrest⟩ := h.newPage_ok hn e1
  subst hb
  simp only [if_neg hLv] at hc1
  obtain ⟨s2, e2, hc2⟩ := bind_eq_ok hc1
  clear hc1
  obtain ⟨r2, -⟩ := hrest _ _ e2
  obtain ⟨dir, e3, hc3⟩ := bind_eq_ok hc2
  clear hc2
  have hdir1 : (ht.bpm_ ++ [PageData.bucket
      (ExtendibleHTableBucketPage.Init ht.bucket_max_size_)]).FetchDirectory dpid = some d3 :=
    PageStore.FetchDirectory_iff.2 (PageStore.Fetch_append _ hD6)
  obtain ⟨hx, -⟩ := r2.readDirectory_ok hdir1 e3
  subst hx
  obtain ⟨split_idx, e4, hc4⟩ := bind_eq_ok hc3
  clear hc3
  have e4' := defined_eq_ok e4
  obtain ⟨ld, e5, hc5⟩ := bind_eq_ok hc4
  clear hc4
  have e5' := defined_eq_ok e5
  by_cases hld : ld = idx
  · rw [if_pos hld] at hc5
    obtain ⟨s3, e6, hc6⟩ := bind_eq_ok hc5
    clear hc5
    have r3 := (r2.drop_ok (by simp) (Or.inl rfl) e6).change (Nat.le_refl _)
      (upd_new_drop P _ hP0) hWeq (fun q (hq : False) => hq.elim)
    cases hc6
    refine ⟨{ ok := false, directory := dir, bucket := b0,
              bpm := sa ++ [PageData.bucket (ExtendibleHTableBucketPage.Init ht.bucket_max_size_)] },
      ?_, rfl, ?_, hroom⟩
    · unfold DiskExtendibleHashTable.SplitBucket PageStore.NewPage
      simp only [hlen, if_neg hLv, e4', e5', Option.some_bind, if_pos hld]
    · refine r3.congr_store _ ?_ ?_
      · simp [PageStore.length_Write, hlen]
      · intro p
        show PageStore.Fetch _ p = PageStore.Fetch (ht.bpm_ ++ _) p
        simp only [Fetch_Write_eq, Fetch_append_eq, hlen]
        by_cases hpb : p = bpid
        · subst hpb
          simp [hbn, hB6, hdb.symm, hdn, hxd, hfa p hdb.symm]
        · by_cases hpd : p = dpid
          · subst hpd
            simp [hpb, hD6, hdn, hxd]
          · simp [hpb, hpd, hfa p hpd]
  rw [if_neg hld] at hc5
  obtain ⟨dir1, e6, hc6⟩ := bind_eq_ok hc5
  clear hc5
  have e6' := defined_eq_ok e6
  obtain ⟨dir2, e7, hc7⟩ := bind_eq_ok hc6
  clear hc6
  have e7' := defined_eq_ok e7
  obtain ⟨s3, e8, hc8⟩ := bind_eq_ok hc7
  clear hc7
  have hwd1 : (W dpid ∨ dpid = (ht.bpm_.length : Int)) ∨ (D dpid ∧ dpid ≠ (ht.bpm_.length : Int)) := by
    rcases hwd with hx | hx
    · exact Or.inl (Or.inl hx)
    · exact Or.inr ⟨hx, hdn⟩
  obtain ⟨r3, -⟩ := r2.write_ok (PageStore.FetchDirectory_iff.1 hdir1) hwd1 e8
  obtain ⟨bpid1, e9, hc9⟩ := bind_eq_ok hc8
  clear hc8
  have e9' := defined_eq_ok e9
  by_cases hbv : bpid1 = INVALID_PAGE_ID
  · rw [if_pos hbv] at hc9
    obtain ⟨s4, e10, hc10⟩ := bind_eq_ok hc9
    clear hc9
    have r4 := (r3.drop_ok (by simp) (Or.inl rfl) e10).change (Nat.le_refl _)
      (upd_new_drop P _ hP0) hWeq (fun q (hq : False) => hq.elim)
    cases hc10
    refine ⟨{ ok := false, directory := dir2, bucket := b0,
              bpm := sa ++ [PageData.bucket (ExtendibleHTableBucketPage.Init ht.bucket_max_size_)] },
      ?_, rfl, ?_, hroom⟩
    · unfold DiskExtendibleHashTable.SplitBucket PageStore.NewPage
      simp only [hlen, if_neg hLv, e4', e5', Option.some_bind, if_neg hld, e6', e7', e9',
        if_pos hbv]
    · refine r4.congr_store _ ?_ ?_
      · simp [PageStore.length_Write, hlen]
      · intro p
        show PageStore.Fetch _ p = PageStore.Fetch (PageStore.Write (ht.bpm_ ++ _) _ _) p
        simp only [Fetch_Write_eq, Fetch_append_eq, hlen]
        by_cases hpb : p = bpid
        · subst hpb
          simp [hbn, hB6, hdb.symm, hdn, hxd, hfa p hdb.symm]
        · by_cases hpd : p = dpid
          · subst hpd
            simp [hpb, hD6, hdn, hxd]
          · simp [hpb, hpd, hfa p hpd]
  rw [if_neg hbv] at hc9
  obtain ⟨bkt, e10, hc10⟩ := bind_eq_ok hc9
  clear hc9
  have hbkt1 : ((ht.bpm_ ++ [PageData.bucket
      (ExtendibleHTableBucketPage.Init ht.bucket_max_size_)]).Write dpid
        (PageData.directory dir2)).FetchBucket bpid = some b0 := by
    rw [PageStore.FetchBucket_iff, PageStore.Fetch_Write_ne _ hdb]
    exact PageStore.Fetch_append _ hB6
  obtain ⟨hx, -⟩ := r3.readBucket_ok hbkt1 e10
  subst hx
  obtain ⟨res, e11, hc11⟩ := bind_eq_ok hc10
  clear hc10
  have e11' := defined_eq_ok e11
  obtain ⟨s4, e12, hc12⟩ := bind_eq_ok hc11
  clear hc11
  obtain ⟨r4, -⟩ := r3.write_ok (PageStore.FetchBucket_iff.1 hbkt1) (Or.inl (Or.inl hwb)) e12
  obtain ⟨s5, e13, hc13⟩ := bind_eq_ok hc12
  clear hc12
  have hsp1 : (((ht.bpm_ ++ [PageData.bucket
      (ExtendibleHTableBucketPage.Init ht.bucket_max_size_)]).Write dpid
        (PageData.directory dir2)).Write bpid (PageData.bucket res.1)).Fetch
          (ht.bpm_.length : Int) =
      some (PageData.bucket (ExtendibleHTableBucketPage.Init ht.bucket_max_size_)) := by
    rw [PageStore.Fetch_Write_ne _ hbn, PageStore.Fetch_Write_ne _ hdn]
    exact PageStore.Fetch_append_length _ _
  obtain ⟨r5, -⟩ := r4.write_ok hsp1 (Or.inl (Or.inr rfl)) e13
  obtain ⟨s6, e14, hc14⟩ := bind_eq_ok hc13
  clear hc13
  have r6 := (r5.drop_ok (by simp) (Or.inl rfl) e14).change (Nat.le_refl _)
    (upd_new_drop P _ hP0) hWeq (fun q (hq : False) => hq.elim)
  cases hc14
  refine ⟨{ ok := true, directory := dir2, bucket := res.1,
            bpm := (sa ++ [PageData.bucket
              (ExtendibleHTableBucketPage.Init ht.bucket_max_size_)]).Write
                (ht.bpm_.length : Int) (PageData.bucket res.2) },
    ?_, rfl, ?_, hroom⟩
  · unfold DiskExtendibleHashTable.SplitBucket PageStore.NewPage
    simp only [hlen, if_neg hLv, e4', e5', Option.some_bind, if_neg hld, e6', e7', e9',
      if_neg hbv, e11']
  · refine r6.congr_store _ ?_ ?_
    · simp [PageStore.length_Write, hlen]
    · intro p
      dsimp only
      simp only [Fetch_Write_eq, Fetch_append_eq, hlen]
      by_cases hpl : p = (ht.bpm_.length : Int)
      · subst hpl
        simp [hbn.symm, hdn.symm]
      · by_cases hpb : p = bpid
        · subst hpb
          simp [hbn, hB6, hdb.symm, hdn, hxd, hfa p hdb.symm]
        · by_cases hpd : p = dpid
          · subst hpd
            simp [hpb, hpl, hD6, hdn, hxd]
          · simp [hpb, hpd, hpl, hfa p hpd]

end PooledHashTable

namespace PooledHashTable
variable {K V : Type} [DecidableEq K]

theorem w_fetch_drop (a : Int) (q : Int) :
    False ↔ ((False ∨ q = a) ∧ q ≠ a) :=
  ⟨fun hq => hq.elim, fun hq => hq.1.elim (fun x => x) (fun x => hq.2 x)⟩

/-- One call of `Insert` on the pool that returns, or reaches the recursive call: the call of
`Insert` on the pages of the table does the same, and no guard is left. -/
theorem Quiet.insertCall_ok (hash_fn_ : K → Nat) {n N : Nat} {t : PooledHashTable K V}
    {ht : DiskExtendibleHashTable K V} (h : Quiet n N t ht)
    (hok : DiskExtendibleHashTable.TableOK ht) (hn : (n : Int) + 7 < 2 ^ 31) {key : K}
    {value : V} {x : Sum (Bool × PooledHashTable K V) (PooledHashTable K V)}
    (hc : insertCall hash_fn_ t key value = Except.ok x) :
    (∃ r t1 ht1, x = Sum.inl (r, t1) ∧
      DiskExtendibleHashTable.insertCall hash_fn_ ht key value = some (Sum.inl (r, ht1)) ∧
      Quiet (n + 7) N t1 ht1 ∧ (ht1.bpm_.length = ht.bpm_.length ∨ 2 ≤ N)) ∨
    (∃ t1 ht1, x = Sum.inr t1 ∧
      DiskExtendibleHashTable.insertCall hash_fn_ ht key value = some (Sum.inr ht1) ∧
      Quiet (n + 7) N t1 ht1 ∧ (ht1.bpm_.length = ht.bpm_.length ∨ 2 ≤ N)) := by
  unfold insertCall at hc
  rw [h.header_page_id] at hc
  obtain ⟨⟨found, s0⟩, e0, hc0⟩ := bind_eq_ok hc
  clear hc
  obtain ⟨hgv, q0⟩ := h.getValue_ok hash_fn_ hok (by omega) e0
  have q0' : Rep (n + 3) N (fun _ => 0) (fun _ => False) (fun _ => False) s0 ht := q0
  dsimp only at hc0
  by_cases hf : found.isSome = true
  · rw [if_pos hf] at hc0
    cases hc0
    left
    refine ⟨false, s0, ht, rfl, ?_, Rep.change q0' (by omega) (fun _ => rfl) (fun _ => Iff.rfl)
      (fun _ hq => hq), Or.inl rfl⟩
    unfold DiskExtendibleHashTable.insertCall
    simp only [hgv, Option.some_bind, if_pos hf]
  rw [if_neg hf] at hc0
  obtain ⟨hp, dpid, hhp, hdpid, hrest⟩ := hok.path hash_fn_ key
  have hH := PageStore.FetchHeader_iff.1 hhp
  obtain ⟨⟨hfr, s1⟩, e1, hc1⟩ := bind_eq_ok hc0
  clear hc0
  obtain ⟨r1, -⟩ := Rep.fetch_ok q0' (by omega) hH e1
  obtain ⟨hp1, e2, hc2⟩ := bind_eq_ok hc1
  clear hc1
  obtain ⟨hx, -⟩ := r1.readHeader_ok hhp e2
  subst hx
  obtain ⟨dpid1, e3, hc3⟩ := bind_eq_ok hc2
  clear hc2
  have hx := defined_eq_ok e3
  rw [hdpid] at hx
  cases hx
  have hpos1 : 0 < Function.update (fun _ : Int => (0 : Int)) ht.header_page_id_ (0 + 1)
      ht.header_page_id_ := by simp
  by_cases hv : dpid = INVALID_PAGE_ID
  · rw [if_pos hv] at hc3
    obtain ⟨⟨res, s2⟩, e4, hc4⟩ := bind_eq_ok hc3
    clear hc3
    obtain ⟨ht1, hm, r2, hroom⟩ := (r1.mark ht.header_page_id_ hpos1).insertToNewDirectory_ok (by omega)
      hhp (Or.inr rfl) e4
    obtain ⟨s3, e5, hc5⟩ := bind_eq_ok hc4
    clear hc4
    have r3 := r2.drop_ok hpos1 (Or.inl rfl) e5
    cases hc5
    left
    refine ⟨res, s3, ht1, rfl, ?_, r3.change (by omega) (upd_fetch_drop _ _) (w_fetch_drop _)
      (fun q hq => hq.elim), Or.inr hroom⟩
    unfold DiskExtendibleHashTable.insertCall
    simp only [hgv, Option.some_bind, if_neg hf, hhp, hdpid, if_pos hv, hm, Option.map_some']
  rw [if_neg hv] at hc3
  obtain ⟨dp, bpid, ld, hdp, hdok, hbpid, hld, hle, hb⟩ := hrest hv
  have hDp := PageStore.FetchDirectory_iff.1 hdp
  obtain ⟨s2, e4, hc4⟩ := bind_eq_ok hc3
  clear hc3
  have r2 := (r1.drop_ok hpos1 (Or.inl rfl) e4).change (Nat.le_refl _)
    (upd_fetch_drop _ _) (fun q => (⟨fun hq => hq.elim, fun hq => hq.1⟩ : False ↔ _))
    (fun q (hq : False) => hq.elim)
  obtain ⟨⟨dfr, s3⟩, e5, hc5⟩ := bind_eq_ok hc4
  clear hc4
  obtain ⟨r3, -⟩ := Rep.fetch_ok r2 (by omega) hDp e5
  obtain ⟨dp1, e6, hc6⟩ := bind_eq_ok hc5
  clear hc5
  obtain ⟨hx, -⟩ := r3.readDirectory_ok hdp e6
  subst hx
  obtain ⟨bpid1, e7, hc7⟩ := bind_eq_ok hc6
  clear hc6
  have hx := defined_eq_ok e7
  rw [hbpid] at hx
  cases hx
  have hpos3 : 0 < Function.update (fun _ : Int => (0 : Int)) dpid (0 + 1) dpid := by simp
  by_cases hbv : bpid = INVALID_PAGE_ID
  · rw [if_pos hbv] at hc7
    obtain ⟨⟨res, s4⟩, e8, hc8⟩ := bind_eq_ok hc7
    clear hc7
    obtain ⟨ht1, hm, r4, hroom⟩ := (r3.mark dpid hpos3).insertToNewBucket_ok (by omega) hdp (Or.inr rfl) e8
    obtain ⟨s5, e9, hc9⟩ := bind_eq_ok hc8
    clear hc8
    have r5 := r4.drop_ok hpos3 (Or.inl rfl) e9
    cases hc9
    left
    refine ⟨res, s5, ht1, rfl, ?_, r5.change (by omega) (upd_fetch_drop _ _) (w_fetch_drop _)
      (fun q hq => hq.elim), Or.inr hroom⟩
    unfold DiskExtendibleHashTable.insertCall
    simp only [hgv, Option.some_bind, if_neg hf, hhp, hdpid, if_neg hv, hdp, hbpid, if_pos hbv, hm,
      Option.map_some']
  rw [if_neg hbv] at hc7
  obtain ⟨bp, hbp⟩ := hb hbv
  have hBp := PageStore.FetchBucket_iff.1 hbp
  have hdb := directory_ne_bucket hdp hbp
  obtain ⟨s4, e8, hc8⟩ := bind_eq_ok hc7
  clear hc7
  have r4 : Rep (n + 5) N (fun _ => 0) (fun _ => False) (fun q => q = dpid) s4 ht :=
    (r3.drop_ok hpos3 (Or.inl rfl) e8).change (Nat.le_refl _)
      (upd_fetch_drop _ _) (fun q => (⟨fun hq => hq.elim, fun hq => hq.1⟩ : False ↔ _))
      (fun q hq => Or.inr ⟨rfl, hq⟩)
  obtain ⟨⟨bfr, s5⟩, e9, hc9⟩ := bind_eq_ok hc8
  clear hc8
  obtain ⟨r5, -⟩ := Rep.fetch_ok r4 (by omega) hBp e9
  have hpos5 : 0 < Function.update (fun _ : Int => (0 : Int)) bpid (0 + 1) bpid := by simp
  have r5m := r5.mark bpid hpos5
  obtain ⟨bp1, e10, hc10⟩ := bind_eq_ok hc9
  clear hc9
  obtain ⟨hx, -⟩ := r5.readBucket_ok hbp e10
  subst hx
  dsimp only at hc10
  by_cases hins : (bp1.Insert key value).1 = true
  · rw [if_pos hins] at hc10
    obtain ⟨s6, e11, hc11⟩ := bind_eq_ok hc10
    clear hc10
    obtain ⟨r6, -⟩ := r5m.write_ok hBp (Or.inl (Or.inr rfl)) e11
    obtain ⟨s7, e12, hc12⟩ := bind_eq_ok hc11
    clear hc11
    have r7 := r6.drop_ok hpos5 (Or.inl rfl) e12
    cases hc12
    left
    refine ⟨true, s7, _, rfl, ?_, r7.change (by omega) (upd_fetch_drop _ _) (w_fetch_drop _)
      (fun q hq => hq.elim), Or.inl (PageStore.length_Write _ _ _)⟩
    unfold DiskExtendibleHashTable.insertCall
    simp only [hgv, Option.some_bind, if_neg hf, hhp, hdpid, if_neg hv, hdp, hbpid, if_neg hbv, hbp,
      if_pos hins]
  rw [if_neg hins] at hc10
  obtain ⟨dp2, e11, hc11⟩ := bind_eq_ok hc10
  clear hc10
  obtain ⟨hx, -⟩ := r5.readDirectory_ok hdp e11
  subst hx
  obtain ⟨ld1, e12, hc12⟩ := bind_eq_ok hc11
  clear hc11
  have hx := defined_eq_ok e12
  rw [hld] at hx
  cases hx
  by_cases hfull : ld = dp2.global_depth_ ∧ dp2.global_depth_ ≥ dp2.max_depth_
  · rw [if_pos hfull] at hc12
    obtain ⟨s6, e13, hc13⟩ := bind_eq_ok hc12
    clear hc12
    have r6 := r5m.drop_ok hpos5 (Or.inl rfl) e13
    cases hc13
    left
    refine ⟨false, s6, ht, rfl, ?_, r6.change (by omega) (upd_fetch_drop _ _) (w_fetch_drop _)
      (fun q hq => hq.elim), Or.inl rfl⟩
    unfold DiskExtendibleHashTable.insertCall
    simp only [hgv, Option.some_bind, if_neg hf, hhp, hdpid, if_neg hv, hdp, hbpid, if_neg hbv, hbp,
      if_neg hins, hld, if_pos hfull]
  rw [if_neg hfull] at hc12
  obtain ⟨d1, e13, hc13⟩ := bind_eq_ok hc12
  clear hc12
  have e13' := defined_eq_ok e13
  obtain ⟨d2, e14, hc14⟩ := bind_eq_ok hc13
  clear hc13
  have e14' := defined_eq_ok e14
  obtain ⟨d3, e15, hc15⟩ := bind_eq_ok hc14
  clear hc14
  have e15' := defined_eq_ok e15
  obtain ⟨s6, e16, hc16⟩ := bind_eq_ok hc15
  clear hc15
  obtain ⟨r6, -⟩ := r5m.write_ok hDp (Or.inr ⟨rfl, hdb⟩) e16
  obtain ⟨⟨okf, s7⟩, e17, hc17⟩ := bind_eq_ok hc16
  clear hc16
  have hdl := Fetch_some_range hDp
  have hdir6 : (ht.bpm_.Write dpid (PageData.directory d3)).FetchDirectory dpid = some d3 := by
    rw [PageStore.FetchDirectory_iff]
    exact PageStore.Fetch_Write_same _ hdl.1 (by omega)
  have hbkt6 : (ht.bpm_.Write dpid (PageData.directory d3)).FetchBucket bpid = some bp1 := by
    rw [PageStore.FetchBucket_iff, PageStore.Fetch_Write_ne _ hdb]
    exact hBp
  obtain ⟨sp, hm, hokf, r7, hroom⟩ := r6.splitBucket_ok hash_fn_ (by omega) ht.bpm_
    (by show _ = (ht.bpm_.Write dpid _).length; rw [PageStore.length_Write])
    (fun p hp => by
      show _ = (ht.bpm_.Write dpid _).Fetch p
      rw [PageStore.Fetch_Write_ne _ (fun e => hp e.symm)])
    hdir6 hbkt6 (Or.inr ⟨rfl, hdb⟩) (Or.inr rfl) e17
  have hm1 : DiskExtendibleHashTable.SplitBucket hash_fn_ ht d3 bp1
      (dp2.HashToBucketIndex (DiskExtendibleHashTable.Hash hash_fn_ key)) = some sp := hm
  obtain ⟨s8, e18, hc18⟩ := bind_eq_ok hc17
  clear hc17
  have r8 := r7.drop_ok hpos5 (Or.inl rfl) e18
  have q8 : Quiet (n + 7) N s8
      { ht with bpm_ := ((sp.bpm.Write dpid (PageData.directory sp.directory)).Write bpid
          (PageData.bucket sp.bucket)) } :=
    r8.change (by omega) (upd_fetch_drop _ _) (w_fetch_drop _) (fun q hq => hq.elim)
  by_cases hokt : okf = true
  · rw [if_pos hokt] at hc18
    cases hc18
    right
    refine ⟨s8, _, rfl, ?_, q8, Or.inr hroom⟩
    unfold DiskExtendibleHashTable.insertCall
    simp only [hgv, Option.some_bind, if_neg hf, hhp, hdpid, if_neg hv, hdp, hbpid, if_neg hbv, hbp,
      if_neg hins, hld, if_neg hfull, e13', e14', e15', hm1]
    rw [if_pos (hokf.trans hokt)]
  · rw [if_neg hokt] at hc18
    cases hc18
    left
    refine ⟨false, s8, _, rfl, ?_, q8, Or.inr hroom⟩
    unfold DiskExtendibleHashTable.insertCall
    simp only [hgv, Option.some_bind, if_neg hf, hhp, hdpid, if_neg hv, hdp, hbpid, if_neg hbv, hbp,
      if_neg hins, hld, if_neg hfull, e13', e14', e15', hm1]
    rw [if_neg (fun hx => hokt (hokf.symm.trans hx))]

end PooledHashTable

namespace PooledHashTable
variable {K V : Type} [DecidableEq K]

theorem Insert_step (hash_fn_ : K → Nat) (fuel : Nat) (t : PooledHashTable K V) (key : K)
    (value : V) :
    Insert hash_fn_ (fuel + 1) t key value =
      match insertCall hash_fn_ t key value with
      | Except.error e => some (Except.error e)
      | Except.ok (Sum.inl r) => some (Except.ok r)
      | Except.ok (Sum.inr t1) => Insert hash_fn_ fuel t1 key value := by
  rw [Insert]

/-- The table a call of `Insert` recurses on is well formed. -/
theorem tableOK_of_recursion (hash_fn_ : K → Nat) {ht ht1 : DiskExtendibleHashTable K V}
    (hok : DiskExtendibleHashTable.TableOK ht) {key : K} {value : V}
    (hm : DiskExtendibleHashTable.insertCall hash_fn_ ht key value = some (Sum.inr ht1)) :
    DiskExtendibleHashTable.TableOK ht1 := by
  rcases hok.insertCall_cases hash_fn_ key value with
    ⟨r1, s1, hc, -⟩ | ⟨s1, gd, ld, gd1, hc, hok1, -⟩ | ⟨hc, -⟩
  · rw [hc] at hm; cases hm
  · rw [hc] at hm; cases hm; exact hok1
  · rw [hc] at hm; cases hm

/-- An `Insert` on the pool that returns: `Insert` on the pages of the table returns the same
value, and the pool holds the pages of the resulting table with no guard left. -/
theorem Quiet.insert_ok (hash_fn_ : K → Nat) (key : K) (value : V) :
    ∀ (fuel n N : Nat) (t : PooledHashTable K V) (ht : DiskExtendibleHashTable K V) (r : Bool)
      (t1 : PooledHashTable K V), Quiet n N t ht → DiskExtendibleHashTable.TableOK ht →
      (n : Int) + 7 * fuel < 2 ^ 31 →
      Insert hash_fn_ fuel t key value = some (Except.ok (r, t1)) →
      ∃ ht1, DiskExtendibleHashTable.Insert hash_fn_ fuel ht key value = some (r, ht1) ∧
        Quiet (n + 7 * fuel) N t1 ht1 ∧ (ht1.bpm_.length = ht.bpm_.length ∨ 2 ≤ N) := by
  intro fuel
  induction fuel with
  | zero =>
    intro n N t ht r t1 _ _ _ h
    rw [Insert] at h
    cases h
  | succ m ih =>
    intro n N t ht r t1 hq hok hn h
    rw [Insert_step] at h
    cases hc : insertCall hash_fn_ t key value with
    | error e => rw [hc] at h; cases h
    | ok x =>
      rw [hc] at h
      rcases hq.insertCall_ok hash_fn_ hok (by push_cast at hn; omega) hc with
        ⟨r1, s1, ht1, hx, hm, q1, hr1⟩ | ⟨s1, ht1, hx, hm, q1, hr1⟩
      · subst hx
        simp only at h
        cases h
        refine ⟨ht1, ?_, Rep.change q1 (by omega) (fun _ => rfl) (fun _ => Iff.rfl)
          (fun _ hq => hq), hr1⟩
        rw [DiskExtendibleHashTable.Insert_succ, hm]
        rfl
      · subst hx
        simp only at h
        obtain ⟨ht2, hm2, q2, hr2⟩ := ih (n + 7) N s1 ht1 r t1 q1
          (tableOK_of_recursion hash_fn_ hok hm) (by push_cast at hn ⊢; omega) h
        refine ⟨ht2, ?_, Rep.change q2 (by omega) (fun _ => rfl) (fun _ => Iff.rfl)
          (fun _ hq => hq), ?_⟩
        · rw [DiskExtendibleHashTable.Insert_succ, hm]
          exact hm2
        · rcases hr2 with hr2 | hr2
          · rcases hr1 with hr1 | hr1
            · exact Or.inl (hr2.trans hr1)
            · exact Or.inr hr1
          · exact Or.inr hr2

/-- On a pool that holds the pages of a well-formed table, `Insert` comes to an end, with a
return value or with a fault, when it may make as many nested calls as the directory
maximum depth exceeds the local depth of the key's slot. -/
theorem Quiet.insert_ends (hash_fn_ : K → Nat) (key : K) (value : V) :
    ∀ (m n N : Nat) (t : PooledHashTable K V) (ht : DiskExtendibleHashTable K V),
      Quiet n N t ht → DiskExtendibleHashTable.TableOK ht →
      DiskExtendibleHashTable.nestedCallBound hash_fn_ ht key ≤ m →
      (n : Int) + 7 * (m + 1) < 2 ^ 31 →
      ∃ res, Insert hash_fn_ (m + 1) t key value = some res := by
  intro m
  induction m with
  | zero =>
    intro n N t ht hq hok hb hn
    rw [Insert_step]
    cases hc : insertCall hash_fn_ t key value with
    | error e => exact ⟨_, rfl⟩
    | ok x =>
      rcases hq.insertCall_ok hash_fn_ hok (by push_cast at hn; omega) hc with
        ⟨r1, s1, ht1, hx, hm, q1, hr1⟩ | ⟨s1, ht1, hx, hm, q1, hr1⟩
      · subst hx
        exact ⟨_, rfl⟩
      · exfalso
        rcases hok.insertCall_cases hash_fn_ key value with
          ⟨r1, s2, hc2, -⟩ | ⟨s2, gd, ld, gd1, hc2, hok1, hk, hk1, hle, hD, -⟩ | ⟨hc2, -⟩
        · rw [hc2] at hm; cases hm
        · unfold DiskExtendibleHashTable.nestedCallBound at hb
          rw [hk] at hb
          have hb1 : ht.directory_max_depth_ - ld ≤ 0 := hb
          omega
        · rw [hc2] at hm; cases hm
  | succ k ih =>
    intro n N t ht hq hok hb hn
    rw [Insert_step]
    cases hc : insertCall hash_fn_ t key value with
    | error e => exact ⟨_, rfl⟩
    | ok x =>
      rcases hq.insertCall_ok hash_fn_ hok (by push_cast at hn; omega) hc with
        ⟨r1, s1, ht1, hx, hm, q1, hr1⟩ | ⟨s1, ht1, hx, hm, q1, hr1⟩
      · subst hx
        exact ⟨_, rfl⟩
      · subst hx
        simp only
        rcases hok.insertCall_cases hash_fn_ key value with
          ⟨r1, s2, hc2, -⟩ | ⟨s2, gd, ld, gd1, hc2, hok1, hk, hk1, hle, hD, -⟩ | ⟨hc2, -⟩
        · rw [hc2] at hm; cases hm
        · rw [hc2] at hm
          cases hm
          refine ih (n + 7) N s1 _ q1 hok1 ?_ (by push_cast at hn ⊢; omega)
          unfold DiskExtendibleHashTable.nestedCallBound at hb ⊢
          rw [hk] at hb
          rw [hk1]
          have hb1 : ht.directory_max_depth_ - ld ≤ k + 1 := hb
          show ht.directory_max_depth_ - (ld + 1) ≤ k
          omega
        · rw [hc2] at hm; cases hm

end PooledHashTable

/-! ### Calls that return -/

namespace PooledHashTable
variable {K V : Type}

/-- A read through a pointer into the frame that holds the page returns the body the table
has for the page. -/
theorem Rep.read_defined {n N : Nat} {P : Int → Int} {W D : Int → Prop}
    {t : PooledHashTable K V} {ht : DiskExtendibleHashTable K V} (h : Rep n N P W D t ht)
    {f p : Int} {body0 : PageData K V} (h0 : ht.bpm_.Fetch p = some body0)
    (hh : t.Holds f p) : t.readPage f p = Except.ok body0 := by
  obtain ⟨pg, hpg, hid⟩ := hh
  have hp0 := (Fetch_some_range h0).1
  have hv : pg.page_id_ ≠ INVALID_PAGE_ID := by rw [hid]; unfold INVALID_PAGE_ID; omega
  have htab := h.frame_of hpg hv
  rw [hid] at htab
  have hc := h.content p body0 h0
  rw [pageBody_resident t p f pg htab hpg] at hc
  unfold readPage
  rw [hpg]
  simp only
  rw [if_pos hid, hc]
  rfl

end PooledHashTable

namespace PooledHashTable
variable {K V : Type} [DecidableEq K]

end PooledHashTable

/-! ### The constructor -/

namespace PooledHashTable
variable {K V : Type}

/-- The field `header_page_id_` plays no part in what the pool holds. -/
theorem Rep.with_header {n N : Nat} {P : Int → Int} {W D : Int → Prop}
    {t : PooledHashTable K V} {ht : DiskExtendibleHashTable K V} (h : Rep n N P W D t ht)
    (x : Int) :
    Rep n N P W D { t with header_page_id_ := x } { ht with header_page_id_ := x } :=
  { header_max_depth := h.header_max_depth
    directory_max_depth := h.directory_max_depth
    bucket_max_size := h.bucket_max_size
    header_page_id := rfl
    size := h.size
    inv := h.inv
    tight := h.tight
    next := h.next
    content := h.content
    sync := h.sync
    dirty := h.dirty
    pins := h.pins
    absent := h.absent
    held := h.held }

theorem writePage_with_header (t : PooledHashTable K V) (x f p : Int) (body : PageData K V)
    {t3 : PooledHashTable K V}
    (h : ({ t with header_page_id_ := x } : PooledHashTable K V).writePage f p body =
      Except.ok t3) :
    ∃ s, t.writePage f p body = Except.ok s ∧ t3 = { s with header_page_id_ := x } := by
  unfold writePage at h ⊢
  dsimp only at h
  cases hg : t.bpm_.getPage f with
  | none => rw [hg] at h; cases h
  | some pg =>
    rw [hg] at h
    dsimp only at h ⊢
    by_cases hp : pg.page_id_ = p
    · rw [if_pos hp] at h ⊢
      cases h
      exact ⟨_, rfl, rfl⟩
    · rw [if_neg hp] at h
      cases h

/-- The constructor on a fresh pool: the pool holds the pages of the table the constructor
makes, with no guard left. -/
theorem Quiet.after_constructor (pool_size replacer_k : Nat) (disk : List (Int × Nat)) (H D B : Nat)
    (hk : 2 ≤ replacer_k) (hs : pool_size < 2 ^ 31) {t : PooledHashTable K V}
    (h : PooledHashTable.new (BufferPoolManager.new pool_size replacer_k disk) H D B =
      Except.ok t) :
    Quiet 1 pool_size t (DiskExtendibleHashTable.new [] H D B) := by
  have q0 : Rep 0 pool_size (fun _ => 0) (fun _ => False) (fun _ => False)
      ({ header_max_depth_ := H, directory_max_depth_ := D, bucket_max_size_ := B,
         header_page_id_ := INVALID_PAGE_ID,
         bpm_ := BufferPoolManager.new pool_size replacer_k disk,
         bodies_ := [] } : PooledHashTable K V)
      ({ header_max_depth_ := H, directory_max_depth_ := D, bucket_max_size_ := B,
         header_page_id_ := INVALID_PAGE_ID, bpm_ := [] } : DiskExtendibleHashTable K V) :=
    { header_max_depth := rfl
      directory_max_depth := rfl
      bucket_max_size := rfl
      header_page_id := rfl
      size := rfl
      inv := BufferPoolManager.Inv.of_new_pool pool_size replacer_k disk hk hs
      tight := BufferPoolManager.Tight.of_new_tight pool_size replacer_k disk
      next := rfl
      content := by
        intro p body hp
        have := Fetch_some_range hp
        simp at this
        omega
      sync := by
        intro f pg hpg hv
        rw [BufferPoolManager.getPage_new pool_size replacer_k disk f pg hpg] at hv
        exact absurd rfl hv
      dirty := by
        intro f pg hpg hv
        rw [BufferPoolManager.getPage_new pool_size replacer_k disk f pg hpg] at hv
        exact absurd rfl hv
      pins := by
        intro f pg hpg hv
        rw [BufferPoolManager.getPage_new pool_size replacer_k disk f pg hpg] at hv
        exact absurd rfl hv
      absent := fun _ _ => rfl
      held := fun _ hw => hw.elim }
  unfold PooledHashTable.new at h
  obtain ⟨⟨pid, f, t1⟩, e1, h1⟩ := bind_eq_ok h
  clear h
  obtain ⟨hb, hrest⟩ := q0.newPage_ok (by norm_num) e1
  dsimp only at h1
  obtain ⟨t3, e2, h2⟩ := bind_eq_ok h1
  clear h1
  obtain ⟨s, e3, hs3⟩ := writePage_with_header t1 pid f pid _ e2
  obtain ⟨r3, -⟩ := hrest _ _ e3
  have r4 := r3.with_header pid
  rw [← hs3] at r4
  have hpos : 0 < Function.update (fun _ : Int => (0 : Int)) pid (0 + 1) pid := by simp
  have r5 := r4.drop_ok hpos (Or.inl rfl) h2
  subst hb
  exact r5.change (Nat.le_refl _) (upd_fetch_drop _ _) (w_fetch_drop _) (fun q hq => hq.elim)

end PooledHashTable

/-! ### `Remove` on the pool -/

namespace PooledHashTable
variable {K V : Type}

theorem fetchPage_invalid (t : PooledHashTable K V) :
    t.fetchPage INVALID_PAGE_ID = Except.error IndexFault.null_page := by
  unfold fetchPage BufferPoolManager.FetchPage
  rw [if_pos rfl]

theorem merge_index_lt {bi gd ld : Nat} (hbi : bi < 2 ^ gd) (hld0 : ld ≠ 0) (hld : ld ≤ gd) :
    bi ^^^ (1 <<< (ld - 1)) < 2 ^ gd := by
  apply Nat.xor_lt_two_pow hbi
  rw [Nat.one_shiftLeft]
  exact Nat.pow_lt_pow_right (by decide) (by omega)

/-- A `DeletePage` of a pinned page leaves the pool as it is. -/
theorem Rep.deletePage_ok {n N : Nat} {P : Int → Int} {W D : Int → Prop}
    {t : PooledHashTable K V} {ht : DiskExtendibleHashTable K V} (h : Rep n N P W D t ht)
    {p : Int} {t1 : PooledHashTable K V} (hp : 0 < P p)
    (hd : t.deletePage p = Except.ok t1) : t1 = t := by
  cases hfind : assocFind t.bpm_.page_table_ p with
  | none =>
    have := h.absent p hfind
    omega
  | some g =>
    obtain ⟨pgg, hpgg, hidg⟩ := h.table_holds hfind
    have hpv : p ≠ INVALID_PAGE_ID := by
      intro hx
      rw [hx, h.tight.valid_keys] at hfind
      cases hfind
    have hpin : pgg.pin_count_ = P p := by
      rw [← hidg]
      exact h.pins g pgg hpgg (by rw [hidg]; exact hpv)
    have hdel : t.bpm_.DeletePage p = some (false, t.bpm_) := by
      unfold BufferPoolManager.DeletePage
      rw [if_neg hpv, hfind]
      simp only [hpgg]
      rw [if_pos (by omega)]
    unfold deletePage at hd
    rw [hdel] at hd
    cases hd
    rfl

/-- The directory updates of one iteration of the merge loop on the pool do what the merge
loop does to its directory on the pages of the table, and store the result in the frame of
the directory page. -/
theorem Rep.mergeUpdate_ok {n N : Nat} {P : Int → Int} {W D : Int → Prop}
    {t : PooledHashTable K V} {ht : DiskExtendibleHashTable K V} (h : Rep n N P W D t ht)
    {dfr dpid : Int} {bi gd : Nat} {cpid : Int} {d : ExtendibleHTableDirectoryPage}
    {ld1 : Nat} {t1 : PooledHashTable K V}
    (hdir : ht.bpm_.FetchDirectory dpid = some d) (hw : W dpid ∨ D dpid)
    (hc : t.mergeUpdate dfr dpid bi gd cpid = Except.ok (ld1, t1)) :
    ∃ d1 mask d2, d.DecrLocalDepth bi = some d1 ∧ d1.GetLocalDepth bi = some ld1 ∧
      d1.GetLocalDepthMask bi = some mask ∧ ¬ gd < ld1 ∧
      DiskExtendibleHashTable.mergeUpdateLoop cpid ld1 (bi &&& mask)
        (List.range (1 <<< (gd - ld1))) d1 = some d2 ∧
      Rep n N P W D t1 { ht with bpm_ := ht.bpm_.Write dpid (PageData.directory d2) } := by
  unfold mergeUpdate at hc
  obtain ⟨dir, e1, hc1⟩ := bind_eq_ok hc
  clear hc
  obtain ⟨hx, -⟩ := h.readDirectory_ok hdir e1
  subst hx
  obtain ⟨d1, e2, hc2⟩ := bind_eq_ok hc1
  clear hc1
  obtain ⟨ld, e3, hc3⟩ := bind_eq_ok hc2
  clear hc2
  obtain ⟨mask, e4, hc4⟩ := bind_eq_ok hc3
  clear hc3
  dsimp only at hc4
  by_cases hgl : gd < ld
  · rw [if_pos hgl] at hc4
    cases hc4
  rw [if_neg hgl] at hc4
  obtain ⟨d2, e5, hc5⟩ := bind_eq_ok hc4
  clear hc4
  obtain ⟨s1, e6, hc6⟩ := bind_eq_ok hc5
  clear hc5
  cases hc6
  obtain ⟨r1, -⟩ := h.write_ok (PageStore.FetchDirectory_iff.1 hdir) hw e6
  exact ⟨d1, mask, d2, defined_eq_ok e2, defined_eq_ok e3, defined_eq_ok e4, hgl,
    defined_eq_ok e5, r1⟩

end PooledHashTable

namespace PooledHashTable
variable {K V : Type}

/-- One iteration of the merge loop of `Remove` on the pool does what the iteration does on the
pages of the table. The pool holds the pages `s`, which are the pages `bpm` the merge loop
runs on but for the directory page, which is `d`. -/
theorem Rep.mergeStep_ok {n N : Nat} {t : PooledHashTable K V}
    {hs0 : DiskExtendibleHashTable K V} {s bpm : PageStore K V} {dfr dpid cfr cpid : Int}
    {bi gd ld : Nat} {d : ExtendibleHTableDirectoryPage}
    {x : Sum (PooledHashTable K V × Int) (PooledHashTable K V × Nat × Int × Int)}
    (h : Rep n N (pinsOf dpid cpid) (fun q => q = dpid) (fun _ => False) t
      { hs0 with bpm_ := s })
    (hn : (n : Int) + 1 < 2 ^ 31)
    (hfa : ∀ p, p ≠ dpid → s.Fetch p = bpm.Fetch p)
    (hdir : s.FetchDirectory dpid = some d)
    (hbd : ∀ p, (bpm.FetchBucket p).isSome = true → p ≠ dpid)
    (hpi : d.PidsIn (fun p => (bpm.FetchBucket p).isSome = true))
    (hgd : d.global_depth_ = gd) (hbi : bi < 2 ^ gd) (hld0 : ld ≠ 0) (hld : ld ≤ gd)
    (hcb : (bpm.FetchBucket cpid).isSome = true)
    (hc : t.mergeStep dfr dpid bi gd ld cfr cpid = Except.ok x) :
    ∃ mld mpid mpage cpage,
      d.GetLocalDepth (bi ^^^ (1 <<< (ld - 1))) = some mld ∧
      d.GetBucketPageId (bi ^^^ (1 <<< (ld - 1))) = some mpid ∧
      bpm.FetchBucket mpid = some mpage ∧ bpm.FetchBucket cpid = some cpage ∧
      (((mld ≠ ld ∨ (!cpage.IsEmpty && !mpage.IsEmpty) = true) ∧
          ∃ t2, x = Sum.inl (t2, cpid) ∧
            Rep (n + 1) N (pinsOf dpid cpid) (fun q => q = dpid) (fun _ => False) t2
              { hs0 with bpm_ := s }) ∨
        (¬ (mld ≠ ld ∨ (!cpage.IsEmpty && !mpage.IsEmpty) = true) ∧
          ∃ t4 ld1 cfr1 cpid1 d1 mask d2,
            cpid1 = (if cpage.IsEmpty = true then mpid else cpid) ∧
            x = Sum.inr (t4, ld1, cfr1, cpid1) ∧
            d.DecrLocalDepth bi = some d1 ∧ d1.GetLocalDepth bi = some ld1 ∧
            d1.GetLocalDepthMask bi = some mask ∧ ¬ gd < ld1 ∧
            DiskExtendibleHashTable.mergeUpdateLoop cpid1 ld1 (bi &&& mask)
              (List.range (1 <<< (gd - ld1))) d1 = some d2 ∧
            Rep (n + 1) N (pinsOf dpid cpid1) (fun q => q = dpid) (fun _ => False) t4
              { hs0 with bpm_ := s.Write dpid (PageData.directory d2) })) := by
  have hcd : cpid ≠ dpid := hbd cpid hcb
  obtain ⟨cpage, hcpage⟩ := Option.isSome_iff_exists.1 hcb
  have hsc : s.FetchBucket cpid = some cpage := by
    rw [PageStore.FetchBucket_iff, hfa cpid hcd]
    exact PageStore.FetchBucket_iff.1 hcpage
  unfold mergeStep at hc
  obtain ⟨dir, e1, hc1⟩ := bind_eq_ok hc
  clear hc
  obtain ⟨hx, -⟩ := h.readDirectory_ok hdir e1
  subst hx
  obtain ⟨mld, e2, hc2⟩ := bind_eq_ok hc1
  clear hc1
  obtain ⟨mpid, e3, hc3⟩ := bind_eq_ok hc2
  clear hc2
  have hmld := defined_eq_ok e2
  have hmpid := defined_eq_ok e3
  obtain ⟨⟨mfr, s1⟩, e4, hc4⟩ := bind_eq_ok hc3
  clear hc3
  have hmv : mpid ≠ INVALID_PAGE_ID := by
    intro hx
    rw [hx, fetchPage_invalid] at e4
    cases e4
  have hmb : (bpm.FetchBucket mpid).isSome = true := by
    have hmi := merge_index_lt hbi hld0 hld
    rw [← hgd] at hmi
    rcases hpi _ mpid hmi hmpid with hx | hx
    · exact absurd hx hmv
    · exact hx
  have hmd : mpid ≠ dpid := hbd mpid hmb
  obtain ⟨mpage, hmpage⟩ := Option.isSome_iff_exists.1 hmb
  have hsm : s.FetchBucket mpid = some mpage := by
    rw [PageStore.FetchBucket_iff, hfa mpid hmd]
    exact PageStore.FetchBucket_iff.1 hmpage
  obtain ⟨r1, -⟩ := Rep.fetch_ok h hn (PageStore.FetchBucket_iff.1 hsm) e4
  obtain ⟨mp, e5, hc5⟩ := bind_eq_ok hc4
  clear hc4
  obtain ⟨hx, -⟩ := r1.readBucket_ok hsm e5
  subst hx
  obtain ⟨cp, e6, hc6⟩ := bind_eq_ok hc5
  clear hc5
  obtain ⟨hx, -⟩ := r1.readBucket_ok hsc e6
  subst hx
  refine ⟨mld, mpid, mp, cp, hmld, hmpid, hmpage, hcpage, ?_⟩
  dsimp only at hc6
  have hposm : 0 < Function.update (pinsOf dpid cpid) mpid (pinsOf dpid cpid mpid + 1) mpid := by
    rw [Function.update_same]
    unfold pinsOf
    split_ifs <;> omega
  have hposc : 0 < Function.update (pinsOf dpid cpid) mpid (pinsOf dpid cpid mpid + 1) cpid := by
    rw [Function.update_apply]
    unfold pinsOf
    split_ifs <;> omega
  by_cases hbr : mld ≠ ld ∨ (!cp.IsEmpty && !mp.IsEmpty) = true
  · left
    rw [if_pos hbr] at hc6
    obtain ⟨s2, e7, hc7⟩ := bind_eq_ok hc6
    clear hc6
    have r2 := r1.drop_ok hposm (Or.inr hmd) e7
    cases hc7
    exact ⟨hbr, s2, rfl, r2.change (Nat.le_refl _) (upd_fetch_drop _ _)
      (fun q => ⟨fun hq => ⟨hq, fun hx => hmd (hx.symm.trans hq)⟩, fun hq => hq.1⟩)
      (fun q hq => hq.elim)⟩
  right
  rw [if_neg hbr] at hc6
  refine ⟨hbr, ?_⟩
  by_cases hce : cp.IsEmpty = true
  · rw [if_pos hce] at hc6
    obtain ⟨s2, e7, hc7⟩ := bind_eq_ok hc6
    clear hc6
    have hx := r1.deletePage_ok hposc e7
    subst hx
    obtain ⟨s3, e8, hc8⟩ := bind_eq_ok hc7
    clear hc7
    have r3 : Rep (n + 1) N (pinsOf dpid mpid) (fun q => q = dpid) (fun _ => False) s3
        { hs0 with bpm_ := s } := (r1.drop_ok hposc (Or.inr hcd) e8).change (Nat.le_refl _)
      (fun q => by
        simp only [Function.update_apply]
        unfold pinsOf
        split_ifs <;> omega)
      (fun q => ⟨fun hq => ⟨hq, fun hx => hcd (hx.symm.trans hq)⟩, fun hq => hq.1⟩)
      (fun q hq => hq.elim)
    obtain ⟨⟨ld1, s4⟩, e9, hc9⟩ := bind_eq_ok hc8
    clear hc8
    obtain ⟨d1, mask, d2, h1, h2, h3, h4, h5, r4⟩ := r3.mergeUpdate_ok hdir (Or.inl rfl) e9
    cases hc9
    exact ⟨s4, ld1, mfr, mpid, d1, mask, d2, (if_pos hce).symm, rfl, h1, h2, h3, h4, h5, r4⟩
  · rw [if_neg hce] at hc6
    obtain ⟨s2, e7, hc7⟩ := bind_eq_ok hc6
    clear hc6
    have hx := r1.deletePage_ok hposm e7
    subst hx
    obtain ⟨⟨ld1, s3⟩, e8, hc8⟩ := bind_eq_ok hc7
    clear hc7
    obtain ⟨d1, mask, d2, h1, h2, h3, h4, h5, r3⟩ := r1.mergeUpdate_ok hdir (Or.inl rfl) e8
    obtain ⟨s4, e9, hc9⟩ := bind_eq_ok hc8
    clear hc8
    have r4 : Rep (n + 1) N (pinsOf dpid cpid) (fun q => q = dpid) (fun _ => False) s4
        { hs0 with bpm_ := s.Write dpid (PageData.directory d2) } :=
      (r3.drop_ok hposm (Or.inr hmd) e9).change (Nat.le_refl _) (upd_fetch_drop _ _)
        (fun q => ⟨fun hq => ⟨hq, fun hx => hmd (hx.symm.trans hq)⟩, fun hq => hq.1⟩)
        (fun q hq => hq.elim)
    cases hc9
    exact ⟨s4, ld1, cfr, cpid, d1, mask, d2, (if_neg hce).symm, rfl, h1, h2, h3, h4, h5, r4⟩

end PooledHashTable

namespace PooledHashTable
variable {K V : Type}

theorem mergeLoop_zero (dfr dpid : Int) (bi gd : Nat) (t : PooledHashTable K V) (ld : Nat)
    (cfr cpid : Int) :
    mergeLoop dfr dpid bi gd 0 t ld cfr cpid =
      if ld = 0 then Except.ok (t, cpid) else Except.error IndexFault.undefined := by
  rw [mergeLoop]

theorem mergeLoop_step (dfr dpid : Int) (bi gd : Nat) (fuel : Nat) (t : PooledHashTable K V)
    (ld : Nat) (cfr cpid : Int) :
    mergeLoop dfr dpid bi gd (fuel + 1) t ld cfr cpid =
      if ld = 0 then Except.ok (t, cpid)
      else
        match t.mergeStep dfr dpid bi gd ld cfr cpid with
        | Except.error e => Except.error e
        | Except.ok (Sum.inl r) => Except.ok r
        | Except.ok (Sum.inr (t1, ld1, cfr1, cpid1)) =>
          mergeLoop dfr dpid bi gd fuel t1 ld1 cfr1 cpid1 := by
  rw [mergeLoop]

/-- The merge loop of `Remove` on the pool does what the merge loop does on the pages of the
table; the directory page ends up in its frame, and `check_guard` pins the page the loop
ends with. -/
theorem Rep.mergeLoop_ok (Dm : Nat) {N : Nat} (hs0 : DiskExtendibleHashTable K V)
    {bpm : PageStore K V}
    {dfr dpid : Int} {bi gd : Nat}
    (hbd : ∀ p, (bpm.FetchBucket p).isSome = true → p ≠ dpid) (hbi : bi < 2 ^ gd) :
    ∀ (fuel n : Nat) (t : PooledHashTable K V) (s : PageStore K V) (ld : Nat)
      (cfr cpid : Int) (d : ExtendibleHTableDirectoryPage) (t1 : PooledHashTable K V)
      (cpid1 : Int),
      Rep n N (pinsOf dpid cpid) (fun q => q = dpid) (fun _ => False) t
        { hs0 with bpm_ := s } →
      (n : Int) + fuel < 2 ^ 31 →
      s.length = bpm.length →
      (∀ p, p ≠ dpid → s.Fetch p = bpm.Fetch p) →
      s.FetchDirectory dpid = some d →
      d.Sound Dm → d.PidsIn (fun p => (bpm.FetchBucket p).isSome = true) →
      d.global_depth_ = gd → ld ≤ gd →
      (bpm.FetchBucket cpid).isSome = true →
      mergeLoop dfr dpid bi gd fuel t ld cfr cpid = Except.ok (t1, cpid1) →
      ∃ m s1, DiskExtendibleHashTable.mergeLoop bi gd fuel ld cpid d bpm = some m ∧
        m.2 = bpm ∧
        Rep (n + fuel) N (pinsOf dpid cpid1) (fun q => q = dpid) (fun _ => False) t1
          { hs0 with bpm_ := s1 } ∧
        s1.length = bpm.length ∧ (∀ p, p ≠ dpid → s1.Fetch p = bpm.Fetch p) ∧
        s1.FetchDirectory dpid = some m.1 ∧ cpid1 ≠ dpid := by
  intro fuel
  induction fuel with
  | zero =>
    intro n t s ld cfr cpid d t1 cpid1 h _ hlen hfa hdir _ _ _ _ hcb hc
    rw [mergeLoop_zero] at hc
    by_cases h0 : ld = 0
    · rw [if_pos h0] at hc
      cases hc
      refine ⟨(d, bpm), s, ?_, rfl, h, hlen, hfa, hdir, hbd cpid hcb⟩
      unfold DiskExtendibleHashTable.mergeLoop
      rw [if_pos h0]
    · rw [if_neg h0] at hc
      cases hc
  | succ k ih =>
    intro n t s ld cfr cpid d t1 cpid1 h hn hlen hfa hdir hs hpi hgd hld hcb hc
    rw [mergeLoop_step] at hc
    by_cases h0 : ld = 0
    · rw [if_pos h0] at hc
      cases hc
      refine ⟨(d, bpm), s, ?_, rfl, h.change (by omega) (fun _ => rfl) (fun _ => Iff.rfl)
        (fun _ hq => hq), hlen, hfa, hdir, hbd cpid hcb⟩
      unfold DiskExtendibleHashTable.mergeLoop
      rw [if_pos h0]
    rw [if_neg h0] at hc
    cases hstep : t.mergeStep dfr dpid bi gd ld cfr cpid with
    | error e => rw [hstep] at hc; cases hc
    | ok x =>
      rw [hstep] at hc
      obtain ⟨mld, mpid, mpage, cpage, hmld, hmpid, hmpage, hcpage, hcase⟩ :=
        h.mergeStep_ok (by push_cast at hn; omega) hfa hdir hbd hpi hgd hbi h0 hld hcb hstep
      rcases hcase with ⟨hbr, t2, hx, r2⟩ |
        ⟨hbr, t4, ld1, cfr1, cpid2, d1, mask, d2, hcp, hx, h1, h2, h3, h4, h5, r4⟩
      · subst hx
        simp only at hc
        cases hc
        refine ⟨(d, bpm), s, ?_, rfl, r2.change (by omega) (fun _ => rfl) (fun _ => Iff.rfl)
          (fun _ hq => hq), hlen, hfa, hdir, hbd cpid hcb⟩
        unfold DiskExtendibleHashTable.mergeLoop
        rw [if_neg h0]
        simp only [hmld, hmpid, hmpage, hcpage, Option.some_bind, if_pos hbr]
      · subst hx
        simp only at hc
        have hdl := Fetch_some_range (PageStore.FetchDirectory_iff.1 hdir)
        obtain ⟨v, hv, hdaeq⟩ := ExtendibleHTableDirectoryPage.DecrLocalDepth_eq h1
        have hga : d1.global_depth_ = d.global_depth_ := by rw [hdaeq]
        have hsa : d1.Sound Dm := by
          rw [hdaeq]
          refine hs.set_ld bi (v - 1) (fun hlt => ?_)
          have := hs.ld_le bi v hlt hv
          omega
        have hpa : d1.PidsIn (fun p => (bpm.FetchBucket p).isSome = true) := by
          rw [hdaeq]; exact hpi.put_ld bi (v - 1)
        have hcb2 : (bpm.FetchBucket cpid2).isSome = true := by
          rw [hcp]
          split_ifs
          · rw [hmpage]; rfl
          · rw [hcpage]; rfl
        obtain ⟨hsb, hpb, hgb⟩ := DiskExtendibleHashTable.mergeUpdateLoop_keeps cpid2 ld1 _
          (Or.inr hcb2) _ d1 d2 hsa hpa (by rw [hga, hgd]; omega) h5
        obtain ⟨m, s1, hm, hm2, r5, hlen1, hfa1, hdir1, hne1⟩ := ih (n + 1) t4
          (s.Write dpid (PageData.directory d2)) ld1 cfr1 cpid2 d2 t1 cpid1 r4
          (by push_cast at hn ⊢; omega)
          (by rw [PageStore.length_Write]; exact hlen)
          (fun p hp => by rw [PageStore.Fetch_Write_ne _ (fun e => hp e.symm)]; exact hfa p hp)
          (by
            rw [PageStore.FetchDirectory_iff]
            exact PageStore.Fetch_Write_same _ hdl.1 (by omega))
          hsb hpb (by rw [hgb, hga, hgd]) (by omega) hcb2 hc
        refine ⟨m, s1, ?_, hm2, r5.change (by omega) (fun _ => rfl) (fun _ => Iff.rfl)
          (fun _ hq => hq), hlen1, hfa1, hdir1, hne1⟩
        unfold DiskExtendibleHashTable.mergeLoop
        rw [if_neg h0]
        have hstore : (if cpage.IsEmpty = true then bpm.DeletePage cpid
            else bpm.DeletePage mpid) = bpm := by
          split_ifs <;> rfl
        simp only [hmld, hmpid, hmpage, hcpage, Option.some_bind, if_neg hbr, h1, h2, h3,
          if_neg h4, hstore]
        rw [← hcp, h5]
        exact hm

end PooledHashTable

namespace PooledHashTable
variable {K V : Type} [DecidableEq K]

/-- A `Remove` on the pool that returns: `Remove` on the pages of the table returns the same
value, and the pool holds the pages of the resulting table with no guard left. -/
theorem Quiet.remove_ok (hash_fn_ : K → Nat) {n N : Nat} {t : PooledHashTable K V}
    {ht : DiskExtendibleHashTable K V} (h : Quiet n N t ht)
    (hok : DiskExtendibleHashTable.TableOK ht)
    (hn : (n : Int) + 4 + ht.directory_max_depth_ < 2 ^ 31) {key : K} {r : Bool}
    {t1 : PooledHashTable K V} (hc : Remove hash_fn_ t key = Except.ok (r, t1)) :
    ∃ ht1, DiskExtendibleHashTable.Remove hash_fn_ ht key = some (r, ht1) ∧
      Quiet (n + 4 + ht.directory_max_depth_) N t1 ht1 ∧
      ht1.bpm_.length = ht.bpm_.length := by
  have q0 : Rep n N (fun _ => 0) (fun _ => False) (fun _ => False) t ht := h
  unfold Remove at hc
  rw [h.header_page_id] at hc
  obtain ⟨hp, dpid, hhp, hdpid, hrest⟩ := hok.path hash_fn_ key
  have hH := PageStore.FetchHeader_iff.1 hhp
  obtain ⟨⟨hfr, s1⟩, e1, hc1⟩ := bind_eq_ok hc
  clear hc
  obtain ⟨r1, -⟩ := Rep.fetch_ok q0 (by omega) hH e1
  obtain ⟨hp1, e2, hc2⟩ := bind_eq_ok hc1
  clear hc1
  obtain ⟨hx, -⟩ := r1.readHeader_ok hhp e2
  subst hx
  obtain ⟨dpid1, e3, hc3⟩ := bind_eq_ok hc2
  clear hc2
  have hx := defined_eq_ok e3
  rw [hdpid] at hx
  cases hx
  have hpos1 : 0 < Function.update (fun _ : Int => (0 : Int)) ht.header_page_id_ (0 + 1)
      ht.header_page_id_ := by simp
  by_cases hv : dpid = INVALID_PAGE_ID
  · rw [if_pos hv] at hc3
    obtain ⟨s2, e4, hc4⟩ := bind_eq_ok hc3
    clear hc3
    have r2 := r1.drop_ok hpos1 (Or.inl rfl) e4
    cases hc4
    refine ⟨ht, ?_, r2.change (by omega) (upd_fetch_drop _ _)
      (fun q => (⟨fun hq => hq.elim, fun hq => hq.1⟩ : False ↔ _)) (fun q hq => hq.elim), rfl⟩
    unfold DiskExtendibleHashTable.Remove
    simp only [hhp, Option.some_bind, hdpid, if_pos hv]
  rw [if_neg hv] at hc3
  obtain ⟨dp, bpid, ld, hdp, hdok, hbpid, hld, hle, hb⟩ := hrest hv
  have hDp := PageStore.FetchDirectory_iff.1 hdp
  obtain ⟨s2, e4, hc4⟩ := bind_eq_ok hc3
  clear hc3
  have r2 : Rep (n + 1) N (fun _ => 0) (fun _ => False) (fun _ => False) s2 ht :=
    (r1.drop_ok hpos1 (Or.inl rfl) e4).change (Nat.le_refl _)
      (upd_fetch_drop _ _) (fun q => (⟨fun hq => hq.elim, fun hq => hq.1⟩ : False ↔ _))
      (fun q hq => hq.elim)
  obtain ⟨⟨dfr, s3⟩, e5, hc5⟩ := bind_eq_ok hc4
  clear hc4
  obtain ⟨r3, -⟩ := Rep.fetch_ok r2 (by omega) hDp e5
  obtain ⟨dp1, e6, hc6⟩ := bind_eq_ok hc5
  clear hc5
  obtain ⟨hx, -⟩ := r3.readDirectory_ok hdp e6
  subst hx
  obtain ⟨bpid1, e7, hc7⟩ := bind_eq_ok hc6
  clear hc6
  have hx := defined_eq_ok e7
  rw [hbpid] at hx
  cases hx
  have hpos3 : 0 < Function.update (fun _ : Int => (0 : Int)) dpid (0 + 1) dpid := by simp
  by_cases hbv : bpid = INVALID_PAGE_ID
  · rw [if_pos hbv] at hc7
    obtain ⟨s4, e8, hc8⟩ := bind_eq_ok hc7
    clear hc7
    have r4 := r3.drop_ok hpos3 (Or.inl rfl) e8
    cases hc8
    refine ⟨ht, ?_, r4.change (by omega) (upd_fetch_drop _ _)
      (fun q => (⟨fun hq => hq.elim, fun hq => hq.1⟩ : False ↔ _)) (fun q hq => hq.elim), rfl⟩
    unfold DiskExtendibleHashTable.Remove
    simp only [hhp, Option.some_bind, hdpid, if_neg hv, hdp, hbpid, if_pos hbv]
  rw [if_neg hbv] at hc7
  obtain ⟨bp, hbp⟩ := hb hbv
  have hBp := PageStore.FetchBucket_iff.1 hbp
  have hdb : dpid ≠ bpid := directory_ne_bucket hdp hbp
  have hbd : bpid ≠ dpid := fun e => hdb e.symm
  have hbi := ExtendibleHTableDirectoryPage.HashToBucketIndex_lt dp1
    (DiskExtendibleHashTable.Hash hash_fn_ key)
  obtain ⟨⟨bfr, s4⟩, e8, hc8⟩ := bind_eq_ok hc7
  clear hc7
  obtain ⟨r4', -⟩ := Rep.fetch_ok (r3.mark dpid hpos3) (by omega) hBp e8
  have r4 : Rep (n + 3) N (pinsOf dpid bpid) (fun q => q = dpid) (fun _ => False) s4 ht :=
    r4'.change (Nat.le_refl _)
      (fun q => by
        simp only [Function.update_apply]
        unfold pinsOf
        split_ifs <;> omega)
      (fun q => ⟨fun hq => Or.inr hq, fun hq => hq.elim (fun hx => hx.elim) (fun hx => hx)⟩)
      (fun q hq => hq.elim)
  have hposb : 0 < pinsOf dpid bpid bpid := by
    unfold pinsOf
    split_ifs <;> omega
  obtain ⟨bp1, e9, hc9⟩ := bind_eq_ok hc8
  clear hc8
  obtain ⟨hx, -⟩ := r4.readBucket_ok hbp e9
  subst hx
  dsimp only at hc9
  by_cases hrem : (!(bp1.Remove key).1) = true
  · rw [if_pos hrem] at hc9
    obtain ⟨s5, e10, hc10⟩ := bind_eq_ok hc9
    clear hc9
    have r5 := r4.drop_ok hposb (Or.inl rfl) e10
    obtain ⟨s6, e11, hc11⟩ := bind_eq_ok hc10
    clear hc10
    have r6 := r5.drop_ok (p := dpid)
      (by
        simp only [Function.update_apply]
        unfold pinsOf
        split_ifs <;> omega)
      (Or.inl rfl) e11
    cases hc11
    refine ⟨ht, ?_, r6.change (by omega)
      (fun q => by
        simp only [Function.update_apply]
        unfold pinsOf
        split_ifs <;> omega)
      (fun q => ⟨fun hq => hq.elim, fun hq => hq.2 hq.1.1⟩) (fun q hq => hq.elim), rfl⟩
    unfold DiskExtendibleHashTable.Remove
    simp only [hhp, Option.some_bind, hdpid, if_neg hv, hdp, hbpid, if_neg hbv, hbp,
      if_pos hrem]
  rw [if_neg hrem] at hc9
  obtain ⟨s5, e10, hc10⟩ := bind_eq_ok hc9
  clear hc9
  obtain ⟨r5, -⟩ := (r4.mark bpid hposb).write_ok hBp (Or.inl (Or.inr rfl)) e10
  obtain ⟨s6, e11, hc11⟩ := bind_eq_ok hc10
  clear hc10
  have r6 := r5.drop_ok hposb (Or.inl rfl) e11
  have hbl := Fetch_some_range hBp
  have hB1 : (ht.bpm_.Write bpid (PageData.bucket (bp1.Remove key).2)).Fetch bpid =
      some (PageData.bucket (bp1.Remove key).2) :=
    PageStore.Fetch_Write_same _ hbl.1 (by omega)
  have hdp1 : (ht.bpm_.Write bpid (PageData.bucket (bp1.Remove key).2)).FetchDirectory dpid =
      some dp1 := by
    rw [PageStore.FetchDirectory_iff, PageStore.Fetch_Write_ne _ hbd]
    exact hDp
  obtain ⟨⟨cfr, s7⟩, e12, hc12⟩ := bind_eq_ok hc11
  clear hc11
  obtain ⟨r7', -⟩ := Rep.fetch_ok r6 (by omega) hB1 e12
  have r7 : Rep (n + 4) N (pinsOf dpid bpid) (fun q => q = dpid) (fun _ => False) s7
      { ht with bpm_ := ht.bpm_.Write bpid (PageData.bucket (bp1.Remove key).2) } :=
    r7'.change (Nat.le_refl _)
      (fun q => by
        simp only [Function.update_apply]
        unfold pinsOf
        split_ifs <;> omega)
      (fun q => ⟨fun hq => ⟨Or.inl hq, fun hx => hbd (hx.symm.trans hq)⟩,
        fun hq => hq.1.elim (fun hx => hx) (fun hx => absurd hx hq.2)⟩)
      (fun q hq => hq.elim)
  obtain ⟨dp2, e13, hc13⟩ := bind_eq_ok hc12
  clear hc12
  obtain ⟨hx, -⟩ := r7.readDirectory_ok hdp1 e13
  subst hx
  obtain ⟨ld1, e14, hc14⟩ := bind_eq_ok hc13
  clear hc13
  have hx := defined_eq_ok e14
  rw [hld] at hx
  cases hx
  obtain ⟨⟨s8, cpid1⟩, e15, hc15⟩ := bind_eq_ok hc14
  clear hc14
  have e1w : PageStore.Evolves ht.bpm_
      (ht.bpm_.Write bpid (PageData.bucket (bp1.Remove key).2)) dpid :=
    PageStore.Evolves.write _ dpid hBp rfl (fun hx => absurd rfl hx)
  have hdok1 := hdok.evolve e1w
  have hkind : ∀ p,
      ((ht.bpm_.Write bpid (PageData.bucket (bp1.Remove key).2)).FetchBucket p).isSome = true →
      p ≠ dpid := by
    intro p hp
    obtain ⟨x, hx⟩ := Option.isSome_iff_exists.1 hp
    exact fun e => directory_ne_bucket hdp1 hx e.symm
  obtain ⟨m, sf, hm, hm2, r8, hlen8, hfa8, hdir8, hne8⟩ :=
    Rep.mergeLoop_ok ht.directory_max_depth_ ht hkind hbi ld (n + 4) s7
      (ht.bpm_.Write bpid (PageData.bucket (bp1.Remove key).2)) ld cfr bpid dp2 s8 cpid1 r7
      (by
        have := hdok.1.gd_le
        push_cast
        omega)
      rfl (fun _ _ => rfl) hdp1 hdok1.1 hdok1.2 rfl hle
      (by rw [PageStore.FetchBucket_iff.2 hB1]; rfl) e15
  obtain ⟨dp3, e16, hc16⟩ := bind_eq_ok hc15
  clear hc15
  obtain ⟨hx, -⟩ := r8.readDirectory_ok hdir8 e16
  subst hx
  obtain ⟨s9, e17, hc17⟩ := bind_eq_ok hc16
  clear hc16
  obtain ⟨r9, -⟩ := r8.write_ok (PageStore.FetchDirectory_iff.1 hdir8) (Or.inl rfl) e17
  obtain ⟨s10, e18, hc18⟩ := bind_eq_ok hc17
  clear hc17
  have r10 := r9.drop_ok (p := cpid1)
    (by
      unfold pinsOf
      split_ifs <;> omega)
    (Or.inr hne8) e18
  obtain ⟨s11, e19, hc19⟩ := bind_eq_ok hc18
  clear hc18
  have r11 := r10.drop_ok (p := dpid)
    (by
      simp only [Function.update_apply]
      unfold pinsOf
      split_ifs <;> omega)
    (Or.inl rfl) e19
  cases hc19
  have r12 : Rep (n + 4 + ht.directory_max_depth_) N (fun _ => 0) (fun _ => False)
      (fun _ => False) t1
      { ht with bpm_ := (sf.Write dpid
        (PageData.directory (DiskExtendibleHashTable.shrinkLoop m.1.global_depth_ m.1))) } :=
    r11.change
      (by
        have := hdok.1.gd_le
        omega)
      (fun q => by
        simp only [Function.update_apply]
        unfold pinsOf
        split_ifs <;> omega)
      (fun q => ⟨fun hq => hq.elim, fun hq => hq.2 hq.1.1⟩) (fun q hq => hq.elim)
  have hdl := Fetch_some_range hDp
  have r13 := r12.congr_store
    ((ht.bpm_.Write bpid (PageData.bucket (bp1.Remove key).2)).Write dpid
      (PageData.directory (DiskExtendibleHashTable.shrinkLoop m.1.global_depth_ m.1)))
    (by
      show _ = (sf.Write dpid _).length
      rw [PageStore.length_Write, PageStore.length_Write, PageStore.length_Write, hlen8,
        PageStore.length_Write])
    (fun p => by
      show _ = (sf.Write dpid _).Fetch p
      by_cases hpd : p = dpid
      · subst hpd
        simp only [Fetch_Write_eq, if_true, PageStore.FetchDirectory_iff.1 hdir8,
          PageStore.FetchDirectory_iff.1 hdp1, Option.map_some']
      · simp only [Fetch_Write_eq, if_neg hpd, hfa8 p hpd])
  refine ⟨_, ?_, r13, ?_⟩
  · unfold DiskExtendibleHashTable.Remove
    simp only [hhp, Option.some_bind, hdpid, if_neg hv, hdp, hbpid, if_neg hbv, hbp,
      if_neg hrem, hld, hm, hm2]
  · show ((ht.bpm_.Write bpid _).Write dpid _).length = _
    rw [PageStore.length_Write, PageStore.length_Write]

end PooledHashTable

/-! ### Reachable states -/

namespace PooledHashTable
variable {K V : Type} [DecidableEq K]

/-- What holds of the pool along a sequence of calls that return: it holds the pages of a
well-formed table with no guard left, and it has two frames once the table has a page
besides the header. -/
theorem Quiet.of_runCalls (hash_fn_ : K → Nat) (fuel : Nat) :
    ∀ (calls : List (IndexCall K V)) (n N D : Nat) (t : PooledHashTable K V)
      (ht : DiskExtendibleHashTable K V) (t1 : PooledHashTable K V),
      Quiet n N t ht → DiskExtendibleHashTable.TableOK ht →
      (2 ≤ ht.bpm_.length → 2 ≤ N) → ht.directory_max_depth_ = D →
      n + calls.length * (7 * fuel + D + 4) < 2 ^ 31 →
      runCalls hash_fn_ fuel t calls = some t1 →
      ∃ ht1, Quiet (n + calls.length * (7 * fuel + D + 4)) N t1 ht1 ∧
        DiskExtendibleHashTable.TableOK ht1 ∧ (2 ≤ ht1.bpm_.length → 2 ≤ N) ∧
        ht1.directory_max_depth_ = D := by
  intro calls
  induction calls with
  | nil =>
    intro n N D t ht t1 hq hok hroom hD _ h
    simp only [runCalls] at h
    cases h
    exact ⟨ht, Rep.change hq (by simp) (fun _ => rfl) (fun _ => Iff.rfl) (fun _ hq => hq),
      hok, hroom, hD⟩
  | cons c rest ih =>
    intro n N D t ht t1 hq hok hroom hD hn h
    have hlen' : (c :: rest).length = rest.length + 1 := by simp
    have hexp' : (rest.length + 1) * (7 * fuel + D + 4) =
        rest.length * (7 * fuel + D + 4) + (7 * fuel + D + 4) := by ring
    rw [hlen', hexp'] at hn
    cases c with
    | Insert key value =>
      simp only [runCalls] at h
      cases hi : Insert hash_fn_ fuel t key value with
      | none => rw [hi] at h; cases h
      | some res =>
        rw [hi] at h
        cases res with
        | error e => cases h
        | ok x =>
          obtain ⟨r, s1⟩ := x
          simp only at h
          obtain ⟨ht1, hm, q1, hr1⟩ := Quiet.insert_ok hash_fn_ key value fuel n N t ht r s1
            hq hok (by omega) hi
          obtain ⟨sx, hsx, hok1⟩ := DiskExtendibleHashTable.TableOK.of_insert hash_fn_ key value
            fuel ht (r, ht1) hok hm
          have hsx' : ht1 = { ht with bpm_ := sx } := hsx
          rw [← hsx'] at hok1
          have hroom1 : 2 ≤ ht1.bpm_.length → 2 ≤ N := by
            intro h2
            rcases hr1 with hr1 | hr1
            · exact hroom (by omega)
            · exact hr1
          obtain ⟨ht2, q2, hok2, hroom2, hd2⟩ := ih (n + 7 * fuel) N D s1 ht1 t1 q1 hok1 hroom1
            (by rw [hsx']; exact hD) (by omega) h
          exact ⟨ht2, Rep.change q2 (by rw [hlen', hexp']; omega) (fun _ => rfl)
            (fun _ => Iff.rfl) (fun _ hq => hq), hok2, hroom2, hd2⟩
    | Remove key =>
      simp only [runCalls] at h
      cases hg : Remove hash_fn_ t key with
      | error e => rw [hg] at h; cases h
      | ok x =>
        rw [hg] at h
        obtain ⟨r, s1⟩ := x
        simp only at h
        obtain ⟨ht1, hm, q1, hl1⟩ := hq.remove_ok hash_fn_ hok (by rw [hD]; push_cast; omega) hg
        obtain ⟨sx, hsx, hok1⟩ := DiskExtendibleHashTable.TableOK.of_remove hash_fn_ hok key hm
        have hsx' : ht1 = { ht with bpm_ := sx } := hsx
        rw [← hsx'] at hok1
        rw [hD] at q1
        obtain ⟨ht2, q2, hok2, hroom2, hd2⟩ := ih (n + 4 + D) N D s1 ht1 t1 q1 hok1
          (fun h2 => hroom (by omega)) (by rw [hsx']; exact hD) (by omega) h
        exact ⟨ht2, Rep.change q2 (by rw [hlen', hexp']; omega) (fun _ => rfl)
          (fun _ => Iff.rfl) (fun _ hq => hq), hok2, hroom2, hd2⟩
    | GetValue key =>
      simp only [runCalls] at h
      cases hg : GetValue hash_fn_ t key with
      | error e => rw [hg] at h; cases h
      | ok x =>
        rw [hg] at h
        obtain ⟨v, s1⟩ := x
        simp only at h
        obtain ⟨-, q1⟩ := hq.getValue_ok hash_fn_ hok (by omega) hg
        obtain ⟨ht2, q2, hok2, hroom2, hd2⟩ := ih (n + 3) N D s1 ht t1 q1 hok hroom hD
          (by omega) h
        exact ⟨ht2, Rep.change q2 (by rw [hlen', hexp']; omega) (fun _ => rfl)
          (fun _ => Iff.rfl) (fun _ hq => hq), hok2, hroom2, hd2⟩

/-- What holds of every state reached from the constructor on a fresh pool. -/
theorem Quiet.of_reached (hash_fn_ : K → Nat) (pool_size replacer_k : Nat)
    (disk : List (Int × Nat)) (H D B fuel : Nat) (calls : List (IndexCall K V))
    (hk : 2 ≤ replacer_k) (hs : pool_size < 2 ^ 31)
    (hn : calls.length * (7 * fuel + D + 4) + 1 < 2 ^ 31) {t : PooledHashTable K V}
    (h : reached hash_fn_ pool_size replacer_k disk H D B fuel calls = some t) :
    ∃ ht, Quiet (1 + calls.length * (7 * fuel + D + 4)) pool_size t ht ∧
      DiskExtendibleHashTable.TableOK ht ∧ (2 ≤ ht.bpm_.length → 2 ≤ pool_size) ∧
      ht.directory_max_depth_ = D := by
  unfold reached at h
  cases hc : (PooledHashTable.new (BufferPoolManager.new pool_size replacer_k disk) H D B :
      Except IndexFault (PooledHashTable K V)) with
  | error e => rw [hc] at h; cases h
  | ok t0 =>
    rw [hc] at h
    simp only at h
    have q0 := Quiet.after_constructor pool_size replacer_k disk H D B hk hs hc
    obtain ⟨ht1, q1, hok1, hroom1, hd1⟩ := Quiet.of_runCalls hash_fn_ fuel calls 1 pool_size D
      t0 _ t q0 (DiskExtendibleHashTable.TableOK.of_constructor [] H D B)
      (fun h2 => by
        have : (DiskExtendibleHashTable.new ([] : PageStore K V) H D B).bpm_.length = 1 := rfl
        omega)
      rfl (by omega) h
    exact ⟨ht1, q1, hok1, hroom1, hd1⟩

end PooledHashTable

/-! ### Insert followed by GetValue -/

namespace PooledHashTable
variable {K V : Type}

/-- The depths on the path of a key, read from the pool and read from the pages of the table
it holds, are the same. -/
theorem Rep.keyDepths_agree (hash_fn_ : K → Nat) {n N : Nat} {P : Int → Int} {W D : Int → Prop}
    {t : PooledHashTable K V} {ht : DiskExtendibleHashTable K V} (h : Rep n N P W D t ht)
    (hok : DiskExtendibleHashTable.TableOK ht) (key : K) :
    keyDepths hash_fn_ t key = DiskExtendibleHashTable.keyDepths hash_fn_ ht key := by
  obtain ⟨hp, dpid, hhp, hdpid, hrest⟩ := hok.path hash_fn_ key
  unfold keyDepths DiskExtendibleHashTable.keyDepths
  rw [h.header_page_id, h.content _ _ (PageStore.FetchHeader_iff.1 hhp), hhp]
  dsimp only
  simp only [Option.some_bind, hdpid]
  by_cases hv : dpid = INVALID_PAGE_ID
  · simp only [if_pos hv]
  · simp only [if_neg hv]
    obtain ⟨dp, bpid, ld, hdp, -⟩ := hrest hv
    rw [h.content _ _ (PageStore.FetchDirectory_iff.1 hdp), hdp]
    rfl

theorem Rep.nestedCallBound_eq (hash_fn_ : K → Nat) {n N : Nat} {P : Int → Int}
    {W D : Int → Prop} {t : PooledHashTable K V} {ht : DiskExtendibleHashTable K V}
    (h : Rep n N P W D t ht) (hok : DiskExtendibleHashTable.TableOK ht) (key : K) :
    nestedCallBound hash_fn_ t key = DiskExtendibleHashTable.nestedCallBound hash_fn_ ht key := by
  unfold nestedCallBound DiskExtendibleHashTable.nestedCallBound
  rw [h.keyDepths_agree hash_fn_ hok key, h.directory_max_depth]

end PooledHashTable

namespace PooledHashTable
variable {K V : Type} [DecidableEq K]

end PooledHashTable

namespace PooledHashTable
variable {K V : Type} [DecidableEq K]

/-- A fault in the outermost call of `Insert` is the outcome whatever the fuel. -/
theorem Insert_fault_first_call (hash_fn_ : K → Nat) (t : PooledHashTable K V) (key : K)
    (value : V) (e : IndexFault)
    (h : outcome (Insert hash_fn_ 1 t key value) = some (Sum.inl e)) (fuel : Nat) :
    outcome (Insert hash_fn_ (fuel + 1) t key value) = some (Sum.inl e) := by
  rw [Insert_step] at h ⊢
  cases hc : insertCall hash_fn_ t key value with
  | error e1 =>
    rw [hc] at h
    exact h
  | ok x =>
    rw [hc] at h
    cases x with
    | inl r => exact h
    | inr t1 =>
      simp only [Insert, outcome, Option.map_none'] at h
      cases h

end PooledHashTable

/-! ### Calls that end in undefined behaviour -/

namespace PooledHashTable
variable {K V : Type}

theorem bind_eq_error {ε α β : Type} {x : Except ε α} {f : α → Except ε β} {e : ε}
    (h : (x >>= f) = Except.error e) :
    x = Except.error e ∨ ∃ a, x = Except.ok a ∧ f a = Except.error e := by
  cases x with
  | error e1 =>
    cases h
    exact Or.inl rfl
  | ok a => exact Or.inr ⟨a, rfl, h⟩

theorem defined_eq_error {α : Type} {x : Option α} {e : IndexFault}
    (h : defined x = Except.error e) : x = none := by
  cases x with
  | none => rfl
  | some a => cases h

/-- The frame ids of the pool are the numbers below the pool size. -/
theorem Rep.frame_iff {n N : Nat} {P : Int → Int} {W D : Int → Prop}
    {t : PooledHashTable K V} {ht : DiskExtendibleHashTable K V} (h : Rep n N P W D t ht)
    (f : Int) : (∃ pg, t.bpm_.getPage f = some pg) ↔ 0 ≤ f ∧ f < (N : Int) := by
  rw [← Option.isSome_iff_exists, BufferPoolManager.getPage_isSome_iff, h.inv.len, h.size]

/-- A frame that holds a page in one state of the pool is a frame in every state. -/
theorem Rep.frame_of_holds {n m N : Nat} {P P1 : Int → Int} {W W1 D D1 : Int → Prop}
    {t t1 : PooledHashTable K V} {ht ht1 : DiskExtendibleHashTable K V}
    (h : Rep n N P W D t ht) (h1 : Rep m N P1 W1 D1 t1 ht1) {f p : Int} (hh : t.Holds f p) :
    ∃ pg, t1.bpm_.getPage f = some pg := by
  obtain ⟨pg, hpg, -⟩ := hh
  exact (h1.frame_iff f).2 ((h.frame_iff f).1 ⟨pg, hpg⟩)

/-- A fetch has a defined result: a frame, or no page. -/
theorem Rep.fetch_fault {n N : Nat} {P : Int → Int} {W D : Int → Prop}
    {t : PooledHashTable K V} {ht : DiskExtendibleHashTable K V} (h : Rep n N P W D t ht)
    (hn : (n : Int) + 1 < 2 ^ 31) (p : Int) :
    t.fetchPage p ≠ Except.error IndexFault.undefined := by
  intro hf
  unfold fetchPage at hf
  rcases h.inv.fetchPage hn p with ⟨_, he⟩ |
    ⟨_, f0, page, b1, _, _, _, he, _⟩ | ⟨_, _, he, _, _⟩ |
    ⟨_, _, f0, page, b1, he, _⟩
  all_goals
    rw [he] at hf
    cases hf

/-- A new page has a defined result: a page id and its frame, or no page. -/
theorem Rep.newPage_fault {n N : Nat} {P : Int → Int} {W D : Int → Prop}
    {t : PooledHashTable K V} {ht : DiskExtendibleHashTable K V} (h : Rep n N P W D t ht)
    (hn : (n : Int) + 1 < 2 ^ 31) :
    t.newPage ≠ Except.error IndexFault.undefined := by
  intro hf
  unfold newPage at hf
  rcases h.inv.newPage hn with ⟨he, _, _⟩ | ⟨f0, b1, page, he, _⟩
  all_goals
    rw [he] at hf
    cases hf

/-- The frame of a new page holds the new page. -/
theorem Rep.newPage_holds {n N : Nat} {P : Int → Int} {W D : Int → Prop}
    {t : PooledHashTable K V} {ht : DiskExtendibleHashTable K V} (h : Rep n N P W D t ht)
    (hn : (n : Int) + 1 < 2 ^ 31) {pid f : Int} {t1 : PooledHashTable K V}
    (hnew : t.newPage = Except.ok (pid, f, t1)) : t1.Holds f pid := by
  unfold newPage at hnew
  rcases h.inv.newPage hn with ⟨he, _, _⟩ |
    ⟨f0, b1, page, he, hinv1, hpg, hcase, hpages, _⟩
  · rw [he] at hnew; cases hnew
  rw [he] at hnew
  simp only at hnew
  cases hnew
  have hget := BufferPoolManager.getPage_of_set hpages (by rw [hpg]; rfl) f
  rw [if_pos rfl] at hget
  exact ⟨_, hget, rfl⟩

/-- Dropping a guard has a defined result. -/
theorem Rep.drop_fault {n N : Nat} {P : Int → Int} {W D : Int → Prop}
    {t : PooledHashTable K V} {ht : DiskExtendibleHashTable K V} (h : Rep n N P W D t ht)
    (p : Int) (d : Bool) (e : IndexFault) : t.drop p d ≠ Except.error e := by
  obtain ⟨t1, e1⟩ := h.drop_defined p d
  rw [e1]
  intro hx
  cases hx

/-- A read of a page of the table through a pointer into a frame of the pool returns the body
of the page, or finds another page in the frame. -/
theorem Rep.read_cases {n N : Nat} {P : Int → Int} {W D : Int → Prop}
    {t : PooledHashTable K V} {ht : DiskExtendibleHashTable K V} (h : Rep n N P W D t ht)
    {f p : Int} {body0 : PageData K V} (h0 : ht.bpm_.Fetch p = some body0)
    (hf : ∃ pg, t.bpm_.getPage f = some pg) :
    t.readPage f p = Except.ok body0 ∨
      ∃ q, t.readPage f p = Except.error (IndexFault.stale_pointer f p q) := by
  obtain ⟨pg, hpg⟩ := hf
  by_cases hid : pg.page_id_ = p
  · exact Or.inl (h.read_defined h0 ⟨pg, hpg, hid⟩)
  · right
    refine ⟨pg.page_id_, ?_⟩
    unfold readPage
    rw [hpg]
    simp only
    rw [if_neg hid]

theorem Rep.readHeader_fault {n N : Nat} {P : Int → Int} {W D : Int → Prop}
    {t : PooledHashTable K V} {ht : DiskExtendibleHashTable K V} (h : Rep n N P W D t ht)
    {f p : Int} {x0 : ExtendibleHTableHeaderPage} (h0 : ht.bpm_.FetchHeader p = some x0)
    (hf : ∃ pg, t.bpm_.getPage f = some pg) :
    t.readHeader f p ≠ Except.error IndexFault.undefined := by
  intro hr
  unfold readHeader at hr
  rcases h.read_cases (PageStore.FetchHeader_iff.1 h0) hf with e | ⟨q, e⟩
  all_goals
    rw [e] at hr
    cases hr

theorem Rep.readDirectory_fault {n N : Nat} {P : Int → Int} {W D : Int → Prop}
    {t : PooledHashTable K V} {ht : DiskExtendibleHashTable K V} (h : Rep n N P W D t ht)
    {f p : Int} {x0 : ExtendibleHTableDirectoryPage}
    (h0 : ht.bpm_.FetchDirectory p = some x0)
    (hf : ∃ pg, t.bpm_.getPage f = some pg) :
    t.readDirectory f p ≠ Except.error IndexFault.undefined := by
  intro hr
  unfold readDirectory at hr
  rcases h.read_cases (PageStore.FetchDirectory_iff.1 h0) hf with e | ⟨q, e⟩
  all_goals
    rw [e] at hr
    cases hr

theorem Rep.readBucket_fault {n N : Nat} {P : Int → Int} {W D : Int → Prop}
    {t : PooledHashTable K V} {ht : DiskExtendibleHashTable K V} (h : Rep n N P W D t ht)
    {f p : Int} {x0 : ExtendibleHTableBucketPage K V}
    (h0 : ht.bpm_.FetchBucket p = some x0)
    (hf : ∃ pg, t.bpm_.getPage f = some pg) :
    t.readBucket f p ≠ Except.error IndexFault.undefined := by
  intro hr
  unfold readBucket at hr
  rcases h.read_cases (PageStore.FetchBucket_iff.1 h0) hf with e | ⟨q, e⟩
  all_goals
    rw [e] at hr
    cases hr

/-- A store through a pointer into a frame of the pool is made, or finds another page in the
frame. -/
theorem write_fault (t : PooledHashTable K V) {f : Int} (p : Int) (body : PageData K V)
    (hf : ∃ pg, t.bpm_.getPage f = some pg) :
    t.writePage f p body ≠ Except.error IndexFault.undefined := by
  obtain ⟨pg, hpg⟩ := hf
  intro hw
  unfold writePage at hw
  rw [hpg] at hw
  simp only at hw
  by_cases hid : pg.page_id_ = p
  · rw [if_pos hid] at hw
    cases hw
  · rw [if_neg hid] at hw
    cases hw

end PooledHashTable

namespace PooledHashTable
variable {K V : Type}

theorem Holds.frame {t : PooledHashTable K V} {f p : Int} (hh : t.Holds f p) :
    ∃ pg, t.bpm_.getPage f = some pg := by
  obtain ⟨pg, hpg, -⟩ := hh
  exact ⟨pg, hpg⟩

/-- A frame of the pool in one state is a frame in every state. -/
theorem Rep.frame_at {n m N : Nat} {P P1 : Int → Int} {W W1 D D1 : Int → Prop}
    {t t1 : PooledHashTable K V} {ht ht1 : DiskExtendibleHashTable K V}
    (h : Rep n N P W D t ht) (h1 : Rep m N P1 W1 D1 t1 ht1) {f : Int}
    (hf : ∃ pg, t.bpm_.getPage f = some pg) : ∃ pg, t1.bpm_.getPage f = some pg :=
  (h1.frame_iff f).2 ((h.frame_iff f).1 hf)

end PooledHashTable

namespace PooledHashTable
variable {K V : Type} [DecidableEq K]

/-- With no guard held, whatever goes wrong in a `GetValue` on a pool that holds the pages of
a well-formed table is a fetch that finds no frame. -/
theorem Quiet.getValue_fault (hash_fn_ : K → Nat) {n N : Nat} {t : PooledHashTable K V}
    {ht : DiskExtendibleHashTable K V} (h : Quiet n N t ht)
    (hok : DiskExtendibleHashTable.TableOK ht) (hn : (n : Int) + 3 < 2 ^ 31) (key : K) :
    GetValue hash_fn_ t key ≠ Except.error IndexFault.undefined := by
  intro hg
  have h' : Rep n N (fun _ => 0) (fun _ => False) (fun _ => False) t ht := h
  obtain ⟨hp, dpid, hhp, hdpid, hrest⟩ := hok.path hash_fn_ key
  have hH := PageStore.FetchHeader_iff.1 hhp
  unfold GetValue at hg
  rw [h.header_page_id] at hg
  rcases bind_eq_error hg with herr | ⟨⟨hfr, s1⟩, e1, hg1⟩
  · exact h'.fetch_fault (by omega) _ herr
  clear hg
  obtain ⟨r1, hh1⟩ := Rep.fetch_ok h' (by omega) hH e1
  rcases bind_eq_error hg1 with herr | ⟨hp1, e2, hg2⟩
  · exact r1.readHeader_fault hhp (r1.frame_of_holds r1 hh1) herr
  clear hg1
  obtain ⟨hx, -⟩ := r1.readHeader_ok hhp e2
  subst hx
  rcases bind_eq_error hg2 with herr | ⟨dpid1, e3, hg3⟩
  · have hx := defined_eq_error herr
    rw [hdpid] at hx
    cases hx
  clear hg2
  have hx := defined_eq_ok e3
  rw [hdpid] at hx
  cases hx
  have hpos1 : 0 < Function.update (fun _ : Int => (0 : Int)) ht.header_page_id_ (0 + 1)
      ht.header_page_id_ := by simp
  by_cases hv : dpid = INVALID_PAGE_ID
  · rw [if_pos hv] at hg3
    rcases bind_eq_error hg3 with herr | ⟨s2, e4, hg4⟩
    · exact r1.drop_fault _ _ _ herr
    · cases hg4
  rw [if_neg hv] at hg3
  obtain ⟨dp, bpid, ld, hdp, hdok, hbpid, hld, hle, hb⟩ := hrest hv
  rcases bind_eq_error hg3 with herr | ⟨s2, e4, hg4⟩
  · exact r1.drop_fault _ _ _ herr
  clear hg3
  have r2 := (r1.drop_ok hpos1 (Or.inr (fun hw => hw)) e4).change (Nat.le_refl _)
    (upd_fetch_drop _ _) (fun q => (⟨fun hq => hq.elim, fun hq => hq.1⟩ : False ↔ _))
    (fun q (hq : False) => hq.elim)
  rcases bind_eq_error hg4 with herr | ⟨⟨dfr, s3⟩, e5, hg5⟩
  · exact r2.fetch_fault (by omega) _ herr
  clear hg4
  obtain ⟨r3, hh3⟩ := Rep.fetch_ok r2 (by omega) (PageStore.FetchDirectory_iff.1 hdp) e5
  rcases bind_eq_error hg5 with herr | ⟨dp1, e6, hg6⟩
  · exact r3.readDirectory_fault hdp (r3.frame_of_holds r3 hh3) herr
  clear hg5
  obtain ⟨hx, -⟩ := r3.readDirectory_ok hdp e6
  subst hx
  rcases bind_eq_error hg6 with herr | ⟨bpid1, e7, hg7⟩
  · have hx := defined_eq_error herr
    rw [hbpid] at hx
    cases hx
  clear hg6
  have hx := defined_eq_ok e7
  rw [hbpid] at hx
  cases hx
  have hpos3 : 0 < Function.update (fun _ : Int => (0 : Int)) dpid (0 + 1) dpid := by simp
  by_cases hbv : bpid = INVALID_PAGE_ID
  · rw [if_pos hbv] at hg7
    rcases bind_eq_error hg7 with herr | ⟨s4, e8, hg8⟩
    · exact r3.drop_fault _ _ _ herr
    · cases hg8
  rw [if_neg hbv] at hg7
  obtain ⟨bp, hbp⟩ := hb hbv
  have hdb := directory_ne_bucket hdp hbp
  rcases bind_eq_error hg7 with herr | ⟨⟨bfr, s4⟩, e8, hg8⟩
  · exact r3.fetch_fault (by omega) _ herr
  clear hg7
  obtain ⟨r4, hh4⟩ := Rep.fetch_ok r3 (by omega) (PageStore.FetchBucket_iff.1 hbp) e8
  rcases bind_eq_error hg8 with herr | ⟨s5, e9, hg9⟩
  · exact r4.drop_fault _ _ _ herr
  clear hg8
  have r5 := r4.drop_ok (by simp [Function.update_noteq hdb]) (Or.inr (fun hw => hw)) e9
  rcases bind_eq_error hg9 with herr | ⟨bp1, e10, hg10⟩
  · exact r5.readBucket_fault hbp (r4.frame_of_holds r5 hh4) herr
  clear hg9
  rcases bind_eq_error hg10 with herr | ⟨s6, e11, hg11⟩
  · exact r5.drop_fault _ _ _ herr
  · cases hg11

end PooledHashTable

namespace PooledHashTable
variable {K V : Type} [DecidableEq K]

/-- An `InsertToNewBucket` on the pool that ends in undefined behaviour other than a stale
pointer or a guard without a page: `InsertToNewBucket` on the pages of the table has no
defined result either. -/
theorem Rep.insertToNewBucket_fault {n N : Nat} {P : Int → Int} {W D : Int → Prop}
    {t : PooledHashTable K V} {ht : DiskExtendibleHashTable K V} (h : Rep n N P W D t ht)
    (hn : (n : Int) + 1 < 2 ^ 31) {dfr dpid : Int} {d0 : ExtendibleHTableDirectoryPage}
    {idx : Nat} {key : K} {value : V}
    (hdir : ht.bpm_.FetchDirectory dpid = some d0) (hw : W dpid)
    (hfr : ∃ pg, t.bpm_.getPage dfr = some pg)
    (hc : t.InsertToNewBucket dfr dpid idx key value = Except.error IndexFault.undefined) :
    DiskExtendibleHashTable.InsertToNewBucket ht dpid d0 idx key value = none := by
  have hdl := Fetch_some_range (PageStore.FetchDirectory_iff.1 hdir)
  have hne : dpid ≠ (ht.bpm_.length : Int) := by omega
  unfold InsertToNewBucket at hc
  rw [h.bucket_max_size] at hc
  rcases bind_eq_error hc with herr | ⟨⟨bpid, bfr, s1⟩, e1, hc1⟩
  · exact absurd herr (h.newPage_fault hn)
  clear hc
  have hh1 := h.newPage_holds hn e1
  obtain ⟨hb, hrest⟩ := h.newPage_ok hn e1
  subst hb
  rcases bind_eq_error hc1 with herr | ⟨s2, e2, hc2⟩
  · exact absurd herr (write_fault s1 _ _ hh1.frame)
  clear hc1
  obtain ⟨r2, hh2⟩ := hrest _ _ e2
  have hdir1 : (ht.bpm_ ++ [PageData.bucket
      (ExtendibleHTableBucketPage.Init ht.bucket_max_size_)]).FetchDirectory dpid = some d0 :=
    PageStore.FetchDirectory_iff.2 (PageStore.Fetch_append _ (PageStore.FetchDirectory_iff.1 hdir))
  rcases bind_eq_error hc2 with herr | ⟨dir, e3, hc3⟩
  · exact absurd herr (r2.readDirectory_fault hdir1 (h.frame_at r2 hfr))
  clear hc2
  obtain ⟨hx, -⟩ := r2.readDirectory_ok hdir1 e3
  subst hx
  rcases bind_eq_error hc3 with herr | ⟨dir1, e4, hc4⟩
  · have hx := defined_eq_error herr
    unfold DiskExtendibleHashTable.InsertToNewBucket PageStore.NewPage
    simp only [hx, Option.none_bind]
  clear hc3
  rcases bind_eq_error hc4 with herr | ⟨s3, e5, hc5⟩
  · exact absurd herr (write_fault s2 _ _ (h.frame_at r2 hfr))
  clear hc4
  obtain ⟨r3, -⟩ := r2.write_ok (PageStore.FetchDirectory_iff.1 hdir1) (Or.inl (Or.inl hw)) e5
  rcases bind_eq_error hc5 with herr | ⟨s4, e6, hc6⟩
  · exact absurd herr (write_fault s3 _ _ (r2.frame_of_holds r3 hh2))
  clear hc5
  have hfb : ((ht.bpm_ ++ [PageData.bucket
      (ExtendibleHTableBucketPage.Init ht.bucket_max_size_)]).Write dpid
        (PageData.directory dir1)).Fetch (ht.bpm_.length : Int) =
      some (PageData.bucket (ExtendibleHTableBucketPage.Init ht.bucket_max_size_)) := by
    rw [PageStore.Fetch_Write_ne _ hne]
    exact PageStore.Fetch_append_length _ _
  obtain ⟨r4, -⟩ := r3.write_ok hfb (Or.inl (Or.inr rfl)) e6
  rcases bind_eq_error hc6 with herr | ⟨s5, e7, hc7⟩
  · exact absurd herr (r4.drop_fault _ _ _)
  · cases hc7

/-- An `InsertToNewDirectory` on the pool that ends in undefined behaviour other than a stale
pointer or a guard without a page: `InsertToNewDirectory` on the pages of the table has no
defined result either. -/
theorem Rep.insertToNewDirectory_fault {n N : Nat} {P : Int → Int} {W D : Int → Prop}
    {t : PooledHashTable K V} {ht : DiskExtendibleHashTable K V} (h : Rep n N P W D t ht)
    (hn : (n : Int) + 2 < 2 ^ 31) {hfr : Int} {h0 : ExtendibleHTableHeaderPage}
    {idx hash : Nat} {key : K} {value : V}
    (hhdr : ht.bpm_.FetchHeader ht.header_page_id_ = some h0) (hw : W ht.header_page_id_)
    (hf : ∃ pg, t.bpm_.getPage hfr = some pg)
    (hc : t.InsertToNewDirectory hfr idx hash key value =
      Except.error IndexFault.undefined) :
    DiskExtendibleHashTable.InsertToNewDirectory ht h0 idx hash key value = none := by
  have hhl := Fetch_some_range (PageStore.FetchHeader_iff.1 hhdr)
  have hne : ht.header_page_id_ ≠ (ht.bpm_.length : Int) := by omega
  unfold InsertToNewDirectory at hc
  rw [h.directory_max_depth, h.header_page_id] at hc
  rcases bind_eq_error hc with herr | ⟨⟨dpid, dfr, s1⟩, e1, hc1⟩
  · exact absurd herr (h.newPage_fault (by omega))
  clear hc
  have hh1 := h.newPage_holds (by omega) e1
  obtain ⟨hb, hrest⟩ := h.newPage_ok (by omega) e1
  subst hb
  rcases bind_eq_error hc1 with herr | ⟨s2, e2, hc2⟩
  · exact absurd herr (write_fault s1 _ _ hh1.frame)
  clear hc1
  obtain ⟨r2, hh2⟩ := hrest _ _ e2
  have hhdr1 : (ht.bpm_ ++ [PageData.directory
      (ExtendibleHTableDirectoryPage.Init ht.directory_max_depth_)]).FetchHeader
        ht.header_page_id_ = some h0 :=
    PageStore.FetchHeader_iff.2 (PageStore.Fetch_append _ (PageStore.FetchHeader_iff.1 hhdr))
  rcases bind_eq_error hc2 with herr | ⟨hdr, e3, hc3⟩
  · exact absurd herr (r2.readHeader_fault hhdr1 (h.frame_at r2 hf))
  clear hc2
  obtain ⟨hx, -⟩ := r2.readHeader_ok hhdr1 e3
  subst hx
  rcases bind_eq_error hc3 with herr | ⟨hdr1, e4, hc4⟩
  · have hx := defined_eq_error herr
    unfold DiskExtendibleHashTable.InsertToNewDirectory PageStore.NewPage
    simp only [hx, Option.none_bind]
  clear hc3
  have e4' := defined_eq_ok e4
  rcases bind_eq_error hc4 with herr | ⟨s3, e5, hc5⟩
  · exact absurd herr (write_fault s2 _ _ (h.frame_at r2 hf))
  clear hc4
  obtain ⟨r3, -⟩ := r2.write_ok (PageStore.FetchHeader_iff.1 hhdr1) (Or.inl (Or.inl hw)) e5
  have hfd : ((ht.bpm_ ++ [PageData.directory
      (ExtendibleHTableDirectoryPage.Init ht.directory_max_depth_)]).Write ht.header_page_id_
        (PageData.header hdr1)).FetchDirectory (ht.bpm_.length : Int) =
      some (ExtendibleHTableDirectoryPage.Init ht.directory_max_depth_) := by
    rw [PageStore.FetchDirectory_iff, PageStore.Fetch_Write_ne _ hne]
    exact PageStore.Fetch_append_length _ _
  rcases bind_eq_error hc5 with herr | ⟨⟨res1, s4⟩, e6, hc6⟩
  · have hm := r3.insertToNewBucket_fault (by omega) hfd (Or.inr rfl)
      (r2.frame_of_holds r3 hh2) herr
    unfold DiskExtendibleHashTable.InsertToNewDirectory PageStore.NewPage
    simp only [e4', Option.some_bind]
    exact hm
  clear hc5
  obtain ⟨ht3, hm, r4, hroom⟩ := r3.insertToNewBucket_ok (by omega) hfd (Or.inr rfl) e6
  rcases bind_eq_error hc6 with herr | ⟨s5, e7, hc7⟩
  · exact absurd herr (r4.drop_fault _ _ _)
  · cases hc7

end PooledHashTable

namespace PooledHashTable
variable {K V : Type} [DecidableEq K]

/-- A `SplitBucket` on the pool that ends in undefined behaviour other than a stale pointer or
a guard without a page: `SplitBucket` on the pages of the table has no defined result
either. -/
theorem Rep.splitBucket_fault (hash_fn_ : K → Nat) {n N : Nat} {P : Int → Int}
    {W D : Int → Prop} {t : PooledHashTable K V} {ht : DiskExtendibleHashTable K V}
    (h : Rep n N P W D t ht) (hn : (n : Int) + 1 < 2 ^ 31) {dfr dpid bfr bpid : Int}
    {idx : Nat} {d3 : ExtendibleHTableDirectoryPage} {b0 : ExtendibleHTableBucketPage K V}
    (sa : PageStore K V) (hlen : sa.length = ht.bpm_.length)
    (hdir : ht.bpm_.FetchDirectory dpid = some d3) (hbkt : ht.bpm_.FetchBucket bpid = some b0)
    (hwd : W dpid ∨ D dpid) (hwb : W bpid)
    (hfd : ∃ pg, t.bpm_.getPage dfr = some pg) (hfb : ∃ pg, t.bpm_.getPage bfr = some pg)
    (hc : SplitBucket hash_fn_ t dfr dpid bfr bpid idx = Except.error IndexFault.undefined) :
    DiskExtendibleHashTable.SplitBucket hash_fn_ { ht with bpm_ := sa } d3 b0 idx = none := by
  have hD6 := PageStore.FetchDirectory_iff.1 hdir
  have hB6 := PageStore.FetchBucket_iff.1 hbkt
  have hdl := Fetch_some_range hD6
  have hbl := Fetch_some_range hB6
  have hdb : dpid ≠ bpid := directory_ne_bucket hdir hbkt
  have hdn : dpid ≠ (ht.bpm_.length : Int) := by omega
  have hbn : bpid ≠ (ht.bpm_.length : Int) := by omega
  have hLv : (ht.bpm_.length : Int) ≠ INVALID_PAGE_ID := by unfold INVALID_PAGE_ID; omega
  unfold SplitBucket at hc
  rw [h.bucket_max_size] at hc
  rcases bind_eq_error hc with herr | ⟨⟨spid, sfr, s1⟩, e1, hc1⟩
  · exact absurd herr (h.newPage_fault hn)
  clear hc
  have hh1 := h.newPage_holds hn e1
  obtain ⟨hb, hrest⟩ := h.newPage_ok hn e1
  subst hb
  simp only [if_neg hLv] at hc1
  rcases bind_eq_error hc1 with herr | ⟨s2, e2, hc2⟩
  · exact absurd herr (write_fault s1 _ _ hh1.frame)
  clear hc1
  obtain ⟨r2, hh2⟩ := hrest _ _ e2
  have hdir1 : (ht.bpm_ ++ [PageData.bucket
      (ExtendibleHTableBucketPage.Init ht.bucket_max_size_)]).FetchDirectory dpid = some d3 :=
    PageStore.FetchDirectory_iff.2 (PageStore.Fetch_append _ hD6)
  rcases bind_eq_error hc2 with herr | ⟨dir, e3, hc3⟩
  · exact absurd herr (r2.readDirectory_fault hdir1 (h.frame_at r2 hfd))
  clear hc2
  obtain ⟨hx, -⟩ := r2.readDirectory_ok hdir1 e3
  subst hx
  rcases bind_eq_error hc3 with herr | ⟨split_idx, e4, hc4⟩
  · have hx := defined_eq_error herr
    unfold DiskExtendibleHashTable.SplitBucket PageStore.NewPage
    simp only [hlen, if_neg hLv, hx, Option.none_bind]
  clear hc3
  have e4' := defined_eq_ok e4
  rcases bind_eq_error hc4 with herr | ⟨ld, e5, hc5⟩
  · have hx := defined_eq_error herr
    unfold DiskExtendibleHashTable.SplitBucket PageStore.NewPage
    simp only [hlen, if_neg hLv, e4', hx, Option.some_bind, Option.none_bind]
  clear hc4
  have e5' := defined_eq_ok e5
  by_cases hld : ld = idx
  · rw [if_pos hld] at hc5
    rcases bind_eq_error hc5 with herr | ⟨s3, e6, hc6⟩
    · exact absurd herr (r2.drop_fault _ _ _)
    · cases hc6
  rw [if_neg hld] at hc5
  rcases bind_eq_error hc5 with herr | ⟨dir1, e6, hc6⟩
  · have hx := defined_eq_error herr
    unfold DiskExtendibleHashTable.SplitBucket PageStore.NewPage
    simp only [hlen, if_neg hLv, e4', e5', Option.some_bind, if_neg hld, hx, Option.none_bind]
  clear hc5
  have e6' := defined_eq_ok e6
  rcases bind_eq_error hc6 with herr | ⟨dir2, e7, hc7⟩
  · have hx := defined_eq_error herr
    unfold DiskExtendibleHashTable.SplitBucket PageStore.NewPage
    simp only [hlen, if_neg hLv, e4', e5', Option.some_bind, if_neg hld, e6', hx,
      Option.none_bind]
  clear hc6
  have e7' := defined_eq_ok e7
  rcases bind_eq_error hc7 with herr | ⟨s3, e8, hc8⟩
  · exact absurd herr (write_fault s2 _ _ (h.frame_at r2 hfd))
  clear hc7
  have hwd1 : (W dpid ∨ dpid = (ht.bpm_.length : Int)) ∨ (D dpid ∧ dpid ≠ (ht.bpm_.length : Int)) := by
    rcases hwd with hx | hx
    · exact Or.inl (Or.inl hx)
    · exact Or.inr ⟨hx, hdn⟩
  obtain ⟨r3, -⟩ := r2.write_ok (PageStore.FetchDirectory_iff.1 hdir1) hwd1 e8
  rcases bind_eq_error hc8 with herr | ⟨bpid1, e9, hc9⟩
  · have hx := defined_eq_error herr
    unfold DiskExtendibleHashTable.SplitBucket PageStore.NewPage
    simp only [hlen, if_neg hLv, e4', e5', Option.some_bind, if_neg hld, e6', e7', hx,
      Option.none_bind]
  clear hc8
  have e9' := defined_eq_ok e9
  by_cases hbv : bpid1 = INVALID_PAGE_ID
  · rw [if_pos hbv] at hc9
    rcases bind_eq_error hc9 with herr | ⟨s4, e10, hc10⟩
    · exact absurd herr (r3.drop_fault _ _ _)
    · cases hc10
  rw [if_neg hbv] at hc9
  have hbkt1 : ((ht.bpm_ ++ [PageData.bucket
      (ExtendibleHTableBucketPage.Init ht.bucket_max_size_)]).Write dpid
        (PageData.directory dir2)).FetchBucket bpid = some b0 := by
    rw [PageStore.FetchBucket_iff, PageStore.Fetch_Write_ne _ hdb]
    exact PageStore.Fetch_append _ hB6
  rcases bind_eq_error hc9 with herr | ⟨bkt, e10, hc10⟩
  · exact absurd herr (r3.readBucket_fault hbkt1 (h.frame_at r3 hfb))
  clear hc9
  obtain ⟨hx, -⟩ := r3.readBucket_ok hbkt1 e10
  subst hx
  rcases bind_eq_error hc10 with herr | ⟨res, e11, hc11⟩
  · have hx := defined_eq_error herr
    unfold DiskExtendibleHashTable.SplitBucket PageStore.NewPage
    simp only [hlen, if_neg hLv, e4', e5', Option.some_bind, if_neg hld, e6', e7', e9',
      if_neg hbv, hx, Option.none_bind]
  clear hc10
  rcases bind_eq_error hc11 with herr | ⟨s4, e12, hc12⟩
  · exact absurd herr (write_fault s3 _ _ (h.frame_at r3 hfb))
  clear hc11
  obtain ⟨r4, -⟩ := r3.write_ok (PageStore.FetchBucket_iff.1 hbkt1) (Or.inl (Or.inl hwb)) e12
  rcases bind_eq_error hc12 with herr | ⟨s5, e13, hc13⟩
  · exact absurd herr (write_fault s4 _ _ (r2.frame_of_holds r4 hh2))
  clear hc12
  have hsp1 : (((ht.bpm_ ++ [PageData.bucket
      (ExtendibleHTableBucketPage.Init ht.bucket_max_size_)]).Write dpid
        (PageData.directory dir2)).Write bpid (PageData.bucket res.1)).Fetch
          (ht.bpm_.length : Int) =
      some (PageData.bucket (ExtendibleHTableBucketPage.Init ht.bucket_max_size_)) := by
    rw [PageStore.Fetch_Write_ne _ hbn, PageStore.Fetch_Write_ne _ hdn]
    exact PageStore.Fetch_append_length _ _
  obtain ⟨r5, -⟩ := r4.write_ok hsp1 (Or.inl (Or.inr rfl)) e13
  rcases bind_eq_error hc13 with herr | ⟨s6, e14, hc14⟩
  · exact absurd herr (r5.drop_fault _ _ _)
  · cases hc14

end PooledHashTable

namespace PooledHashTable
variable {K V : Type} [DecidableEq K]

/-- One call of `Insert` on the pool that ends in undefined behaviour other than a stale pointer
or a guard without a page: the call of `Insert` on the pages of the table has no defined
result either. -/
theorem Quiet.insertCall_fault (hash_fn_ : K → Nat) {n N : Nat} {t : PooledHashTable K V}
    {ht : DiskExtendibleHashTable K V} (h : Quiet n N t ht)
    (hok : DiskExtendibleHashTable.TableOK ht) (hn : (n : Int) + 7 < 2 ^ 31) {key : K}
    {value : V}
    (hc : insertCall hash_fn_ t key value = Except.error IndexFault.undefined) :
    DiskExtendibleHashTable.insertCall hash_fn_ ht key value = none := by
  unfold insertCall at hc
  rw [h.header_page_id] at hc
  rcases bind_eq_error hc with herr | ⟨⟨found, s0⟩, e0, hc0⟩
  · exact absurd herr (h.getValue_fault hash_fn_ hok (by omega) key)
  clear hc
  obtain ⟨hgv, q0⟩ := h.getValue_ok hash_fn_ hok (by omega) e0
  have q0' : Rep (n + 3) N (fun _ => 0) (fun _ => False) (fun _ => False) s0 ht := q0
  dsimp only at hc0
  by_cases hf : found.isSome = true
  · rw [if_pos hf] at hc0
    cases hc0
  rw [if_neg hf] at hc0
  obtain ⟨hp, dpid, hhp, hdpid, hrest⟩ := hok.path hash_fn_ key
  have hH := PageStore.FetchHeader_iff.1 hhp
  rcases bind_eq_error hc0 with herr | ⟨⟨hfr, s1⟩, e1, hc1⟩
  · exact absurd herr (q0'.fetch_fault (by omega) _)
  clear hc0
  obtain ⟨r1, hh1⟩ := Rep.fetch_ok q0' (by omega) hH e1
  rcases bind_eq_error hc1 with herr | ⟨hp1, e2, hc2⟩
  · exact absurd herr (r1.readHeader_fault hhp hh1.frame)
  clear hc1
  obtain ⟨hx, -⟩ := r1.readHeader_ok hhp e2
  subst hx
  rcases bind_eq_error hc2 with herr | ⟨dpid1, e3, hc3⟩
  · have hx := defined_eq_error herr
    rw [hdpid] at hx
    cases hx
  clear hc2
  have hx := defined_eq_ok e3
  rw [hdpid] at hx
  cases hx
  have hpos1 : 0 < Function.update (fun _ : Int => (0 : Int)) ht.header_page_id_ (0 + 1)
      ht.header_page_id_ := by simp
  by_cases hv : dpid = INVALID_PAGE_ID
  · rw [if_pos hv] at hc3
    rcases bind_eq_error hc3 with herr | ⟨⟨res, s2⟩, e4, hc4⟩
    · have hm := (r1.mark ht.header_page_id_ hpos1).insertToNewDirectory_fault (by omega)
        hhp (Or.inr rfl) hh1.frame herr
      unfold DiskExtendibleHashTable.insertCall
      simp only [hgv, Option.some_bind, if_neg hf, hhp, hdpid, if_pos hv, hm, Option.map_none']
    clear hc3
    obtain ⟨ht1, hm, r2, hroom⟩ := (r1.mark ht.header_page_id_ hpos1).insertToNewDirectory_ok
      (by omega) hhp (Or.inr rfl) e4
    rcases bind_eq_error hc4 with herr | ⟨s3, e5, hc5⟩
    · exact absurd herr (r2.drop_fault _ _ _)
    · cases hc5
  rw [if_neg hv] at hc3
  obtain ⟨dp, bpid, ld, hdp, hdok, hbpid, hld, hle, hb⟩ := hrest hv
  have hDp := PageStore.FetchDirectory_iff.1 hdp
  rcases bind_eq_error hc3 with herr | ⟨s2, e4, hc4⟩
  · exact absurd herr (r1.drop_fault _ _ _)
  clear hc3
  have r2 := (r1.drop_ok hpos1 (Or.inl rfl) e4).change (Nat.le_refl _)
    (upd_fetch_drop _ _) (fun q => (⟨fun hq => hq.elim, fun hq => hq.1⟩ : False ↔ _))
    (fun q (hq : False) => hq.elim)
  rcases bind_eq_error hc4 with herr | ⟨⟨dfr, s3⟩, e5, hc5⟩
  · exact absurd herr (r2.fetch_fault (by omega) _)
  clear hc4
  obtain ⟨r3, hh3⟩ := Rep.fetch_ok r2 (by omega) hDp e5
  rcases bind_eq_error hc5 with herr | ⟨dp1, e6, hc6⟩
  · exact absurd herr (r3.readDirectory_fault hdp hh3.frame)
  clear hc5
  obtain ⟨hx, -⟩ := r3.readDirectory_ok hdp e6
  subst hx
  rcases bind_eq_error hc6 with herr | ⟨bpid1, e7, hc7⟩
  · have hx := defined_eq_error herr
    rw [hbpid] at hx
    cases hx
  clear hc6
  have hx := defined_eq_ok e7
  rw [hbpid] at hx
  cases hx
  have hpos3 : 0 < Function.update (fun _ : Int => (0 : Int)) dpid (0 + 1) dpid := by simp
  by_cases hbv : bpid = INVALID_PAGE_ID
  · rw [if_pos hbv] at hc7
    rcases bind_eq_error hc7 with herr | ⟨⟨res, s4⟩, e8, hc8⟩
    · have hm := (r3.mark dpid hpos3).insertToNewBucket_fault (by omega) hdp (Or.inr rfl)
        hh3.frame herr
      unfold DiskExtendibleHashTable.insertCall
      simp only [hgv, Option.some_bind, if_neg hf, hhp, hdpid, if_neg hv, hdp, hbpid,
        if_pos hbv, hm, Option.map_none']
    clear hc7
    obtain ⟨ht1, hm, r4, hroom⟩ := (r3.mark dpid hpos3).insertToNewBucket_ok (by omega) hdp
      (Or.inr rfl) e8
    rcases bind_eq_error hc8 with herr | ⟨s5, e9, hc9⟩
    · exact absurd herr (r4.drop_fault _ _ _)
    · cases hc9
  rw [if_neg hbv] at hc7
  obtain ⟨bp, hbp⟩ := hb hbv
  have hBp := PageStore.FetchBucket_iff.1 hbp
  have hdb := directory_ne_bucket hdp hbp
  rcases bind_eq_error hc7 with herr | ⟨s4, e8, hc8⟩
  · exact absurd herr (r3.drop_fault _ _ _)
  clear hc7
  have r4 : Rep (n + 5) N (fun _ => 0) (fun _ => False) (fun q => q = dpid) s4 ht :=
    (r3.drop_ok hpos3 (Or.inl rfl) e8).change (Nat.le_refl _)
      (upd_fetch_drop _ _) (fun q => (⟨fun hq => hq.elim, fun hq => hq.1⟩ : False ↔ _))
      (fun q hq => Or.inr ⟨rfl, hq⟩)
  rcases bind_eq_error hc8 with herr | ⟨⟨bfr, s5⟩, e9, hc9⟩
  · exact absurd herr (r4.fetch_fault (by omega) _)
  clear hc8
  obtain ⟨r5, hh5⟩ := Rep.fetch_ok r4 (by omega) hBp e9
  have hfd5 := r3.frame_of_holds r5 hh3
  have hpos5 : 0 < Function.update (fun _ : Int => (0 : Int)) bpid (0 + 1) bpid := by simp
  have r5m := r5.mark bpid hpos5
  rcases bind_eq_error hc9 with herr | ⟨bp1, e10, hc10⟩
  · exact absurd herr (r5.readBucket_fault hbp hh5.frame)
  clear hc9
  obtain ⟨hx, -⟩ := r5.readBucket_ok hbp e10
  subst hx
  dsimp only at hc10
  by_cases hins : (bp1.Insert key value).1 = true
  · rw [if_pos hins] at hc10
    rcases bind_eq_error hc10 with herr | ⟨s6, e11, hc11⟩
    · exact absurd herr (write_fault s5 _ _ hh5.frame)
    clear hc10
    obtain ⟨r6, -⟩ := r5m.write_ok hBp (Or.inl (Or.inr rfl)) e11
    rcases bind_eq_error hc11 with herr | ⟨s7, e12, hc12⟩
    · exact absurd herr (r6.drop_fault _ _ _)
    · cases hc12
  rw [if_neg hins] at hc10
  rcases bind_eq_error hc10 with herr | ⟨dp2, e11, hc11⟩
  · exact absurd herr (r5.readDirectory_fault hdp hfd5)
  clear hc10
  obtain ⟨hx, -⟩ := r5.readDirectory_ok hdp e11
  subst hx
  rcases bind_eq_error hc11 with herr | ⟨ld1, e12, hc12⟩
  · have hx := defined_eq_error herr
    rw [hld] at hx
    cases hx
  clear hc11
  have hx := defined_eq_ok e12
  rw [hld] at hx
  cases hx
  by_cases hfull : ld = dp2.global_depth_ ∧ dp2.global_depth_ ≥ dp2.max_depth_
  · rw [if_pos hfull] at hc12
    rcases bind_eq_error hc12 with herr | ⟨s6, e13, hc13⟩
    · exact absurd herr (r5m.drop_fault _ _ _)
    · cases hc13
  rw [if_neg hfull] at hc12
  rcases bind_eq_error hc12 with herr | ⟨d1, e13, hc13⟩
  · have hx := defined_eq_error herr
    unfold DiskExtendibleHashTable.insertCall
    simp only [hgv, Option.some_bind, if_neg hf, hhp, hdpid, if_neg hv, hdp, hbpid, if_neg hbv,
      hbp, if_neg hins, hld, if_neg hfull, hx, Option.none_bind]
  clear hc12
  have e13' := defined_eq_ok e13
  rcases bind_eq_error hc13 with herr | ⟨d2, e14, hc14⟩
  · have hx := defined_eq_error herr
    unfold DiskExtendibleHashTable.insertCall
    simp only [hgv, Option.some_bind, if_neg hf, hhp, hdpid, if_neg hv, hdp, hbpid, if_neg hbv,
      hbp, if_neg hins, hld, if_neg hfull, e13', hx, Option.none_bind]
  clear hc13
  have e14' := defined_eq_ok e14
  rcases bind_eq_error hc14 with herr | ⟨d3, e15, hc15⟩
  · have hx := defined_eq_error herr
    unfold DiskExtendibleHashTable.insertCall
    simp only [hgv, Option.some_bind, if_neg hf, hhp, hdpid, if_neg hv, hdp, hbpid, if_neg hbv,
      hbp, if_neg hins, hld, if_neg hfull, e13', e14', hx, Option.none_bind]
  clear hc14
  have e15' := defined_eq_ok e15
  rcases bind_eq_error hc15 with herr | ⟨s6, e16, hc16⟩
  · exact absurd herr (write_fault s5 _ _ hfd5)
  clear hc15
  obtain ⟨r6, -⟩ := r5m.write_ok hDp (Or.inr ⟨rfl, hdb⟩) e16
  have hdl := Fetch_some_range hDp
  have hdir6 : (ht.bpm_.Write dpid (PageData.directory d3)).FetchDirectory dpid = some d3 := by
    rw [PageStore.FetchDirectory_iff]
    exact PageStore.Fetch_Write_same _ hdl.1 (by omega)
  have hbkt6 : (ht.bpm_.Write dpid (PageData.directory d3)).FetchBucket bpid = some bp1 := by
    rw [PageStore.FetchBucket_iff, PageStore.Fetch_Write_ne _ hdb]
    exact hBp
  rcases bind_eq_error hc16 with herr | ⟨⟨okf, s7⟩, e17, hc17⟩
  · have hm := r6.splitBucket_fault hash_fn_ (by omega) ht.bpm_
      (by show _ = (ht.bpm_.Write dpid _).length; rw [PageStore.length_Write])
      hdir6 hbkt6 (Or.inr ⟨rfl, hdb⟩) (Or.inr rfl) (r5.frame_at r6 hfd5)
      (r5.frame_of_holds r6 hh5) herr
    have hm1 : DiskExtendibleHashTable.SplitBucket hash_fn_ ht d3 bp1
        (dp2.HashToBucketIndex (DiskExtendibleHashTable.Hash hash_fn_ key)) = none := hm
    unfold DiskExtendibleHashTable.insertCall
    simp only [hgv, Option.some_bind, if_neg hf, hhp, hdpid, if_neg hv, hdp, hbpid, if_neg hbv,
      hbp, if_neg hins, hld, if_neg hfull, e13', e14', e15', hm1, Option.none_bind]
  clear hc16
  obtain ⟨sp, hm, hokf, r7, hroom⟩ := r6.splitBucket_ok hash_fn_ (by omega) ht.bpm_
    (by show _ = (ht.bpm_.Write dpid _).length; rw [PageStore.length_Write])
    (fun p hp => by
      show _ = (ht.bpm_.Write dpid _).Fetch p
      rw [PageStore.Fetch_Write_ne _ (fun e => hp e.symm)])
    hdir6 hbkt6 (Or.inr ⟨rfl, hdb⟩) (Or.inr rfl) e17
  rcases bind_eq_error hc17 with herr | ⟨s8, e18, hc18⟩
  · exact absurd herr (r7.drop_fault _ _ _)
  clear hc17
  by_cases hokt : okf = true
  · rw [if_pos hokt] at hc18
    cases hc18
  · rw [if_neg hokt] at hc18
    cases hc18

end PooledHashTable

namespace DiskExtendibleHashTable
open ExtendibleHTableDirectoryPage PageStore
variable {K V : Type} [DecidableEq K]

/-- A call of `Insert` on a well-formed table that reaches the recursive call of line 139 found
the directory of the key below its maximum global depth. -/
theorem TableOK.recursion_below_max {ht ht1 : DiskExtendibleHashTable K V} (hok : TableOK ht)
    (hash_fn_ : K → Nat) (key : K) (value : V)
    (hc : insertCall hash_fn_ ht key value = some (Sum.inr ht1)) :
    ∃ gd ld, keyDepths hash_fn_ ht key = some (gd, ld) ∧ gd < ht.directory_max_depth_ := by
  obtain ⟨hp, dpid, hhp, hdpid, hrest⟩ := hok.path hash_fn_ key
  obtain ⟨found, hfound⟩ := hok.getValue_defined hash_fn_ key
  unfold insertCall at hc
  simp only [hfound, Option.some_bind] at hc
  by_cases hf : found.isSome = true
  · rw [if_pos hf] at hc
    cases hc
  rw [if_neg hf] at hc
  simp only [hhp, hdpid, Option.some_bind] at hc
  by_cases hv : dpid = INVALID_PAGE_ID
  · rw [if_pos hv] at hc
    obtain ⟨a, -, ha⟩ := Option.map_eq_some'.1 hc
    cases ha
  rw [if_neg hv] at hc
  obtain ⟨dp, bpid, ld, hdp, hdok, hbpid, hld, hldle, hb⟩ := hrest hv
  simp only [hdp, hbpid, Option.some_bind] at hc
  by_cases hbv : bpid = INVALID_PAGE_ID
  · rw [if_pos hbv] at hc
    obtain ⟨a, -, ha⟩ := Option.map_eq_some'.1 hc
    cases ha
  rw [if_neg hbv] at hc
  obtain ⟨bp, hbp⟩ := hb hbv
  simp only [hbp, Option.some_bind] at hc
  by_cases hins : (bp.Insert key value).1 = true
  · rw [if_pos hins] at hc
    cases hc
  rw [if_neg hins] at hc
  simp only [hld, Option.some_bind] at hc
  by_cases hmax : ld = dp.global_depth_ ∧ dp.global_depth_ ≥ dp.max_depth_
  · rw [if_pos hmax] at hc
    cases hc
  rw [if_neg hmax] at hc
  refine ⟨dp.global_depth_, ld, keyDepths_eq hash_fn_ key hhp hdpid hv hdp hld, ?_⟩
  have hgd := hdok.1.gd_le
  by_cases hdb : ld = dp.global_depth_
  · have hm := hdok.1.max
    by_contra hx
    exact hmax ⟨hdb, by omega⟩
  · rw [if_neg hdb] at hc
    simp only [Option.some_bind] at hc
    obtain ⟨d2, h2, hc2⟩ := Option.bind_eq_some.1 hc
    obtain ⟨d3, h3, -⟩ := Option.bind_eq_some.1 hc2
    obtain ⟨v2, -, hd2⟩ := IncrLocalDepth_eq h2
    obtain ⟨v3, hv3, -⟩ := IncrLocalDepth_eq h3
    have hlt := (List.getElem?_eq_some_iff.1 hv3).1
    rw [hd2] at hlt
    simp only [List.length_set] at hlt
    rw [hdok.1.len_ld, Nat.one_shiftLeft] at hlt
    by_contra hx
    have hmono : 2 ^ ht.directory_max_depth_ ≤ 2 ^ dp.global_depth_ :=
      Nat.pow_le_pow_right (by decide) (by omega)
    omega

end DiskExtendibleHashTable

namespace DiskExtendibleHashTable
open ExtendibleHTableDirectoryPage PageStore
variable {K V : Type}

/-- In a well-formed table the local depth of a key's slot is at most the global depth of its
directory, which is at most the directory maximum depth. -/
theorem TableOK.keyDepths_le {ht : DiskExtendibleHashTable K V} (hok : TableOK ht)
    (hash_fn_ : K → Nat) (key : K) {gd ld : Nat}
    (h : keyDepths hash_fn_ ht key = some (gd, ld)) :
    ld ≤ gd ∧ gd ≤ ht.directory_max_depth_ := by
  obtain ⟨hp, dpid, hhp, hdpid, hrest⟩ := hok.path hash_fn_ key
  by_cases hv : dpid = INVALID_PAGE_ID
  · unfold keyDepths at h
    simp only [hhp, hdpid, Option.some_bind, if_pos hv] at h
    cases h
  · obtain ⟨dp, bpid, ld0, hdp, hdok, hbpid, hld, hle, hb⟩ := hrest hv
    rw [keyDepths_eq hash_fn_ key hhp hdpid hv hdp hld] at h
    cases h
    exact ⟨hle, hdok.1.gd_le⟩

end DiskExtendibleHashTable

namespace PooledHashTable
variable {K V : Type} [DecidableEq K]

/-- On a pool that holds the pages of a well-formed table in which the directory of the key is
below its maximum global depth, or the key's slot has the global depth as its local depth:
no call of `Insert`, nested or not, ends in undefined behaviour other than a stale pointer
or a guard without a page. -/
theorem Quiet.insert_fault_nested (hash_fn_ : K → Nat) (key : K) (value : V) :
    ∀ (fuel n N : Nat) (t : PooledHashTable K V) (ht : DiskExtendibleHashTable K V),
      Quiet n N t ht → DiskExtendibleHashTable.TableOK ht →
      (∀ gd ld, DiskExtendibleHashTable.keyDepths hash_fn_ ht key = some (gd, ld) →
        ld = gd ∨ gd < ht.directory_max_depth_) →
      (n : Int) + 7 * fuel < 2 ^ 31 →
      Insert hash_fn_ fuel t key value ≠ some (Except.error IndexFault.undefined) := by
  intro fuel
  induction fuel with
  | zero =>
    intro n N t ht _ _ _ _ h
    rw [Insert] at h
    cases h
  | succ m ih =>
    intro n N t ht hq hok hgood hn h
    rw [Insert_step] at h
    cases hc : insertCall hash_fn_ t key value with
    | error e =>
      rw [hc] at h
      cases h
      have hm := hq.insertCall_fault hash_fn_ hok (by push_cast at hn; omega) hc
      rcases hok.insertCall_cases hash_fn_ key value with
        ⟨r1, s1, hc2, -⟩ | ⟨s1, gd, ld, gd1, hc2, -⟩ | ⟨-, -, gd, ld, hk, hne, hD⟩
      · rw [hc2] at hm; cases hm
      · rw [hc2] at hm; cases hm
      · rcases hgood gd ld hk with hx | hx
        · exact hne hx
        · omega
    | ok x =>
      rw [hc] at h
      rcases hq.insertCall_ok hash_fn_ hok (by push_cast at hn; omega) hc with
        ⟨r1, s1, ht1, hx, hm, q1, hr1⟩ | ⟨s1, ht1, hx, hm, q1, hr1⟩
      · subst hx
        cases h
      · subst hx
        simp only at h
        obtain ⟨gd0, ld0, hk0, hlt0⟩ := hok.recursion_below_max hash_fn_ key value hm
        rcases hok.insertCall_cases hash_fn_ key value with
          ⟨r1, s2, hc2, -⟩ | ⟨s2, gd, ld, gd1, hc2, hok1, hk, hk1, hle, hD, hdbl, hsame⟩ |
          ⟨hc2, -⟩
        · rw [hc2] at hm; cases hm
        · rw [hc2] at hm
          cases hm
          have hg : gd0 = gd := by
            rw [hk] at hk0
            cases hk0
            rfl
          rw [hg] at hlt0
          refine ih (n + 7) N s1 _ q1 hok1 ?_ (by push_cast at hn ⊢; omega) h
          intro gd2 ld2 hk2
          rw [hk1] at hk2
          cases hk2
          by_cases hx : ld = gd
          · left
            rw [hdbl hx, hx]
          · right
            rw [hsame hx]
            exact hlt0
        · rw [hc2] at hm; cases hm

/-- On a pool that holds the pages of a well-formed table, an `Insert` ends in undefined
behaviour other than a stale pointer or a guard without a page only in its outermost
call, and only when the directory of the key is at its maximum global depth while the
key's slot has a smaller local depth: line 133 then increments past the array. -/
theorem Quiet.insert_fault (hash_fn_ : K → Nat) (key : K) (value : V) (fuel n N : Nat)
    (t : PooledHashTable K V) (ht : DiskExtendibleHashTable K V) (hq : Quiet n N t ht)
    (hok : DiskExtendibleHashTable.TableOK ht) (hn : (n : Int) + 7 * fuel < 2 ^ 31)
    (h : Insert hash_fn_ fuel t key value = some (Except.error IndexFault.undefined)) :
    ∃ ld, DiskExtendibleHashTable.keyDepths hash_fn_ ht key =
        some (ht.directory_max_depth_, ld) ∧ ld < ht.directory_max_depth_ := by
  cases fuel with
  | zero =>
    rw [Insert] at h
    cases h
  | succ m =>
    rw [Insert_step] at h
    cases hc : insertCall hash_fn_ t key value with
    | error e =>
      rw [hc] at h
      cases h
      have hm := hq.insertCall_fault hash_fn_ hok (by push_cast at hn; omega) hc
      rcases hok.insertCall_cases hash_fn_ key value with
        ⟨r1, s1, hc2, -⟩ | ⟨s1, gd, ld, gd1, hc2, -⟩ | ⟨-, -, gd, ld, hk, hne, hD⟩
      · rw [hc2] at hm; cases hm
      · rw [hc2] at hm; cases hm
      · obtain ⟨h1, h2⟩ := hok.keyDepths_le hash_fn_ key hk
        have hgd : gd = ht.directory_max_depth_ := by omega
        subst hgd
        exact ⟨ld, hk, by omega⟩
    | ok x =>
      rw [hc] at h
      exfalso
      rcases hq.insertCall_ok hash_fn_ hok (by push_cast at hn; omega) hc with
        ⟨r1, s1, ht1, hx, hm, q1, hr1⟩ | ⟨s1, ht1, hx, hm, q1, hr1⟩
      · subst hx
        cases h
      · subst hx
        simp only at h
        obtain ⟨gd0, ld0, hk0, hlt0⟩ := hok.recursion_below_max hash_fn_ key value hm
        rcases hok.insertCall_cases hash_fn_ key value with
          ⟨r1, s2, hc2, -⟩ | ⟨s2, gd, ld, gd1, hc2, hok1, hk, hk1, hle, hD, hdbl, hsame⟩ |
          ⟨hc2, -⟩
        · rw [hc2] at hm; cases hm
        · rw [hc2] at hm
          cases hm
          have hg : gd0 = gd := by
            rw [hk] at hk0
            cases hk0
            rfl
          rw [hg] at hlt0
          refine Quiet.insert_fault_nested hash_fn_ key value m (n + 7) N s1 _ q1 hok1 ?_
            (by push_cast at hn ⊢; omega) h
          intro gd2 ld2 hk2
          rw [hk1] at hk2
          cases hk2
          by_cases hx : ld = gd
          · left
            rw [hdbl hx, hx]
          · right
            rw [hsame hx]
            exact hlt0
        · rw [hc2] at hm; cases hm

end PooledHashTable

/-! ### The claims about the index on the pool -/

section PooledIndexClaims
open PooledHashTable

/-- The use of `directory_page` after `directory_guard.Drop()` at a concrete input: header
depth 0, directory maximum depth 3, bucket size 1, identity hash, on a buffer pool of 3
frames with an LRU-4 replacer. `Insert(0, 100)` returns true and leaves the header (page
0), the directory (page 1) and the bucket (page 2) in the frames 2, 1 and 0, unpinned.
`Insert(1, 101)` finds the bucket full; it has dropped `directory_guard` at line 113, and
the `NewPageGuarded` of `SplitBucket` (line 148) evicts the directory from frame 1 and puts
the new page 3 there. Line 154 then reads through `directory`, a pointer into frame 1 that
was obtained for page 1: `Insert` has no defined result. On a pool of 4 frames the same
calls return true and `GetValue(1)` finds 101. -/
theorem insert_uses_stale_directory :
    (scenario idHash 3 4 0 3 1 [(0, 100)]).map (fun x => (x.1, x.2.1, x.2.2.frames)) =
      some ([true], none, [(2, 0), (1, 0), (0, 0)]) ∧
    (scenario idHash 3 4 0 3 1 [(0, 100), (1, 101)]).map (fun x => (x.1, x.2.1)) =
      some ([true], some (IndexFault.stale_pointer 1 1 3)) ∧
    (scenario idHash 4 4 0 3 1 [(0, 100), (1, 101)]).map (fun x => (x.1, x.2.1)) =
      some ([true, true], none) ∧
    (scenario idHash 4 4 0 3 1 [(0, 100), (1, 101)]).map
      (fun x => (valueOf idHash x.2.2 0, valueOf idHash x.2.2 1)) =
      some (some (some 100), some (some 101)) := by
  decide!

/-- C30 (the claim at concrete inputs), the index on the buffer pool manager with an LRU-4
replacer, identity hash, header depth 0, bucket size 1. (1) Pool of 8 frames, directory
maximum depth 3, keys 0, 2, 1 inserted: the global depth is 2 and the slot of key 5 has
local depth 1. `Insert(5)` needs two nested recursive calls (one split at local depth 1,
one at local depth 2 that doubles the directory), although the directory maximum depth
minus the global depth is 1: with fuel for the outermost call and one nested call the
embedding runs out of fuel, with fuel for two nested calls it returns true. (2) The same
keys with directory maximum depth 2: the outermost call of `Insert(5)` reaches line 133
with index 5 of 4, so the call has no defined result whatever the fuel. (3) Directory
maximum depth 3 on a pool of 3 frames: `Insert(0)` returns true, and `Insert(2)` uses its
`directory_page` pointer into frame 1 (obtained for page 1) after the `NewPage` of
`SplitBucket` has given the frame to page 3, so that the call has no defined result; on a
pool of 4 frames both calls return true. -/
theorem C30_counterexample :
    (reached idHash 8 4 [] 0 3 1 8
        [IndexCall.Insert 0 100, IndexCall.Insert 2 102, IndexCall.Insert 1 101] =
        some pooledThree ∧
      keyDepths idHash pooledThree 5 = some (2, 1) ∧
      pooledThree.directory_max_depth_ = 3 ∧
      outcome (Insert idHash 2 pooledThree 5 105) = none ∧
      outcome (Insert idHash 3 pooledThree 5 105) = some (Sum.inr true)) ∧
    (reached idHash 8 4 [] 0 2 1 8
        [IndexCall.Insert 0 100, IndexCall.Insert 2 102, IndexCall.Insert 1 101] =
        some pooledAtMaxDepth ∧
      keyDepths idHash pooledAtMaxDepth 5 = some (2, 1) ∧
      ∀ fuel, outcome (Insert idHash (fuel + 1) pooledAtMaxDepth 5 105) =
        some (Sum.inl IndexFault.undefined)) ∧
    ((scenario idHash 3 4 0 3 1 [(0, 100), (2, 102)]).map
        (fun x => (x.1, x.2.1)) = some ([true], some (IndexFault.stale_pointer 1 1 3)) ∧
      (scenario idHash 4 4 0 3 1 [(0, 100), (2, 102)]).map
        (fun x => (x.1, x.2.1)) = some ([true, true], none)) := by
  refine ⟨by decide!, ⟨by decide!, by decide!, ?_⟩, by decide!⟩
  exact Insert_fault_first_call idHash pooledAtMaxDepth 5 105 IndexFault.undefined (by decide!)

/-- C30 (amended): the index on the buffer pool manager. Take any state reached from the
constructor on a fresh pool (any number of frames below 2^31, `k` at least 2) by calls of
`Insert`, `Remove` and `GetValue` that returned, and any key and value. `Insert` comes to
an end when it may make as many nested recursive calls as the directory maximum depth
exceeds the local depth of the key's slot at the outermost call (no nested call when the
header has no directory page for the key); this number is at most the directory maximum
depth. It ends with a return value or in undefined behaviour: a page pointer used after the
pool gave its frame to another page (`stale_pointer`); the use of a page that the pool did
not provide, `FetchPage` or `NewPage` having returned `nullptr` (`null_page`); or, only
when the directory of the key is at its maximum global depth while the key's slot has a
smaller local depth, any other undefined behaviour (`undefined`: the increment of line 133
outside the array). In the embedding `Insert` with fuel `n + 1` makes at most `n` nested
calls and is `none` when it would make more. -/
theorem C30_insert_recursion_bound {K V : Type} [DecidableEq K] (hash_fn_ : K → Nat)
    (pool_size replacer_k : Nat) (disk : List (Int × Nat)) (H D B fuel : Nat)
    (calls : List (IndexCall K V)) (t : PooledHashTable K V) (key : K) (value : V)
    (hk : 2 ≤ replacer_k) (hs : pool_size < 2 ^ 31)
    (hn : calls.length * (7 * fuel + D + 4) + 7 * (D + 1) + 1 < 2 ^ 31)
    (hreach : reached hash_fn_ pool_size replacer_k disk H D B fuel calls = some t) :
    t.directory_max_depth_ = D ∧ nestedCallBound hash_fn_ t key ≤ D ∧
    ∃ res, Insert hash_fn_ (nestedCallBound hash_fn_ t key + 1) t key value = some res ∧
      (res = Except.error IndexFault.undefined →
        ∃ ld, keyDepths hash_fn_ t key = some (D, ld) ∧ ld < D) := by
  obtain ⟨ht, hq, hok, -, hD⟩ := Quiet.of_reached hash_fn_ pool_size replacer_k disk H D B
    fuel calls hk hs (by omega) hreach
  have hq' : Rep (1 + calls.length * (7 * fuel + D + 4)) pool_size (fun _ => 0)
      (fun _ => False) (fun _ => False) t ht := hq
  have hb : nestedCallBound hash_fn_ t key ≤ D := by
    rw [hq'.nestedCallBound_eq hash_fn_ hok key]
    unfold DiskExtendibleHashTable.nestedCallBound
    split
    · exact Nat.zero_le _
    · omega
  have hbudget : ((1 + calls.length * (7 * fuel + D + 4) : Nat) : Int) +
      7 * ((nestedCallBound hash_fn_ t key + 1 : Nat) : Int) < 2 ^ 31 := by
    push_cast
    have : (nestedCallBound hash_fn_ t key : Int) ≤ D := by exact_mod_cast hb
    have hn' : ((calls.length * (7 * fuel + D + 4) : Nat) : Int) + 7 * (D + 1) + 1 < 2 ^ 31 := by
      exact_mod_cast hn
    push_cast at hn'
    omega
  obtain ⟨res, hres⟩ := Quiet.insert_ends hash_fn_ key value (nestedCallBound hash_fn_ t key)
    (1 + calls.length * (7 * fuel + D + 4)) pool_size t ht hq hok
    (le_of_eq (hq'.nestedCallBound_eq hash_fn_ hok key).symm)
    (by push_cast at hbudget ⊢; omega)
  refine ⟨hq'.directory_max_depth.trans hD, hb, res, hres, ?_⟩
  intro he
  rw [he] at hres
  obtain ⟨ld, hkd, hlt⟩ := Quiet.insert_fault hash_fn_ key value
    (nestedCallBound hash_fn_ t key + 1) (1 + calls.length * (7 * fuel + D + 4)) pool_size
    t ht hq hok hbudget hres
  rw [hD] at hkd hlt
  exact ⟨ld, by rw [hq'.keyDepths_agree hash_fn_ hok key, hkd], hlt⟩

/-- C30 as amended on a pool of 8 frames with an LRU-4 replacer, keys 0, 2, 1 inserted with
directory maximum depth 3 and bucket size 1, for key 5: the bound is 3 - 1 = 2, and with
fuel 3 `Insert` returns true. -/
theorem C30_insert_recursion_bound_witness :
    reached idHash 8 4 [] 0 3 1 8
      [IndexCall.Insert 0 100, IndexCall.Insert 2 102, IndexCall.Insert 1 101] =
      some pooledThree ∧
    nestedCallBound idHash pooledThree 5 = 2 ∧
    outcome (Insert idHash 3 pooledThree 5 105) = some (Sum.inr true) ∧
    (pooledThree.directory_max_depth_ = 3 ∧ nestedCallBound idHash pooledThree 5 ≤ 3 ∧
      ∃ res, Insert idHash (nestedCallBound idHash pooledThree 5 + 1) pooledThree 5 105 =
          some res ∧
        (res = Except.error IndexFault.undefined →
          ∃ ld, keyDepths idHash pooledThree 5 = some (3, ld) ∧ ld < 3)) :=
  ⟨by decide!, by decide!, by decide!,
    C30_insert_recursion_bound idHash 8 4 [] 0 3 1 8
      [IndexCall.Insert 0 100, IndexCall.Insert 2 102, IndexCall.Insert 1 101]
      pooledThree 5 105 (by decide!) (by decide!) (by decide!) (by decide!)⟩

/-- C31 (the code at a failing input): scenario S3 (header depth 0, directory maximum depth
9, bucket size 2, identity hash, keys 0, 4, 8 with the values 100, 104, 108) on a buffer
pool of 3 frames with an LRU-7 replacer. `Insert(0)` and `Insert(4)` return true and leave
the directory (page 1) in frame 1. `Insert(8)` finds the bucket full, and the
`NewPageGuarded` of `SplitBucket` takes frame 1 for the new page 3 while `Insert` still
holds its `directory_page` pointer into that frame (`directory_guard` was dropped at line
113): the third insert has no defined result. On a pool of 8 frames with the same replacer
the three inserts return true, the directory ends with global depth 3 and `GetValue` finds
100, 104 and 108. -/
theorem C31_directory_frame_reused :
    (scenario idHash 3 7 0 9 2 [(0, 100), (4, 104)]).map
      (fun x => (x.1, x.2.1, x.2.2.frames)) = some ([true, true], none, [(2, 0), (1, 0), (0, 0)]) ∧
    (scenario idHash 3 7 0 9 2 [(0, 100), (4, 104), (8, 108)]).map (fun x => (x.1, x.2.1)) =
      some ([true, true], some (IndexFault.stale_pointer 1 1 3)) ∧
    (scenario idHash 8 7 0 9 2 [(0, 100), (4, 104), (8, 108)]).map (fun x => (x.1, x.2.1)) =
      some ([true, true, true], none) ∧
    (scenario idHash 8 7 0 9 2 [(0, 100), (4, 104), (8, 108)]).map
      (fun x => (x.2.2.globalDepthOf 1, x.2.2.bpm_.disk_log_)) = some (some 3, []) ∧
    (scenario idHash 8 7 0 9 2 [(0, 100), (4, 104), (8, 108)]).map
      (fun x => (valueOf idHash x.2.2 0, valueOf idHash x.2.2 4, valueOf idHash x.2.2 8)) =
      some (some (some 100), some (some 104), some (some 108)) := by
  decide!

end PooledIndexClaims

end bustub
